import Mathlib

/-!
# A shallow embedding of the YAML emitter core (`src/emitter.c`)

The emitter is a C state machine over a mutable `yaml_emitter_t`.  It is embedded
as pure functions over an explicit emitter record:

* a C function `int f(yaml_emitter_t *emitter, ...)` that mutates the emitter
  becomes `f : yaml_emitter_t → ... → Bool × yaml_emitter_t` (the `int` result
  and the emitter afterwards); functions that only inspect the emitter return
  a `Bool`;
* the event queue `events.list[events.head .. events.tail)` is a `List`, so
  `events.tail - events.head` is its length and `events.list[events.head + k]`
  its `k`-th element;
* a C string (`yaml_char_t *` plus its length) is the list of its bytes, a
  `NULL` pointer is `none`;
* C `int` flags are `Bool`, C `int` counters are `Int`, `size_t` lengths are
  `Nat` (they are sizes of strings held in memory, sums of four of them do not
  wrap).
-/

namespace LibYaml

/-! ## Data model -/

/-- One octet of a UTF-8 string (`yaml_char_t` is `unsigned char`). -/
abbrev yaml_char_t := Nat

inductive yaml_error_type_t
  | YAML_NO_ERROR
  | YAML_MEMORY_ERROR
  | YAML_WRITER_ERROR
  | YAML_EMITTER_ERROR
  deriving DecidableEq, Repr

inductive yaml_encoding_t
  | YAML_ANY_ENCODING
  | YAML_UTF8_ENCODING
  | YAML_UTF16LE_ENCODING
  | YAML_UTF16BE_ENCODING
  deriving DecidableEq, Repr

inductive yaml_break_t
  | YAML_ANY_BREAK
  | YAML_CR_BREAK
  | YAML_LN_BREAK
  | YAML_CRLN_BREAK
  deriving DecidableEq, Repr

inductive yaml_scalar_style_t
  | YAML_ANY_SCALAR_STYLE
  | YAML_PLAIN_SCALAR_STYLE
  | YAML_SINGLE_QUOTED_SCALAR_STYLE
  | YAML_DOUBLE_QUOTED_SCALAR_STYLE
  | YAML_LITERAL_SCALAR_STYLE
  | YAML_FOLDED_SCALAR_STYLE
  deriving DecidableEq, Repr

inductive yaml_sequence_style_t
  | YAML_ANY_SEQUENCE_STYLE
  | YAML_BLOCK_SEQUENCE_STYLE
  | YAML_FLOW_SEQUENCE_STYLE
  deriving DecidableEq, Repr

inductive yaml_mapping_style_t
  | YAML_ANY_MAPPING_STYLE
  | YAML_BLOCK_MAPPING_STYLE
  | YAML_FLOW_MAPPING_STYLE
  deriving DecidableEq, Repr

inductive yaml_event_type_t
  | YAML_NO_EVENT
  | YAML_STREAM_START_EVENT
  | YAML_STREAM_END_EVENT
  | YAML_DOCUMENT_START_EVENT
  | YAML_DOCUMENT_END_EVENT
  | YAML_ALIAS_EVENT
  | YAML_SCALAR_EVENT
  | YAML_SEQUENCE_START_EVENT
  | YAML_SEQUENCE_END_EVENT
  | YAML_MAPPING_START_EVENT
  | YAML_MAPPING_END_EVENT
  deriving DecidableEq, Repr

inductive yaml_emitter_state_t
  | YAML_EMIT_STREAM_START_STATE
  | YAML_EMIT_FIRST_DOCUMENT_START_STATE
  | YAML_EMIT_DOCUMENT_START_STATE
  | YAML_EMIT_DOCUMENT_CONTENT_STATE
  | YAML_EMIT_DOCUMENT_END_STATE
  | YAML_EMIT_FLOW_SEQUENCE_FIRST_ITEM_STATE
  | YAML_EMIT_FLOW_SEQUENCE_ITEM_STATE
  | YAML_EMIT_FLOW_MAPPING_FIRST_KEY_STATE
  | YAML_EMIT_FLOW_MAPPING_KEY_STATE
  | YAML_EMIT_FLOW_MAPPING_SIMPLE_VALUE_STATE
  | YAML_EMIT_FLOW_MAPPING_VALUE_STATE
  | YAML_EMIT_BLOCK_SEQUENCE_FIRST_ITEM_STATE
  | YAML_EMIT_BLOCK_SEQUENCE_ITEM_STATE
  | YAML_EMIT_BLOCK_MAPPING_FIRST_KEY_STATE
  | YAML_EMIT_BLOCK_MAPPING_KEY_STATE
  | YAML_EMIT_BLOCK_MAPPING_SIMPLE_VALUE_STATE
  | YAML_EMIT_BLOCK_MAPPING_VALUE_STATE
  | YAML_EMIT_END_STATE
  deriving DecidableEq, Repr

open yaml_error_type_t yaml_encoding_t yaml_break_t yaml_scalar_style_t
  yaml_sequence_style_t yaml_mapping_style_t yaml_event_type_t yaml_emitter_state_t

structure yaml_version_directive_t where
  major : Int := 1
  minor : Int := 1
  deriving DecidableEq, Repr

/-- A `%TAG` directive; the field `prefix_` is the C field `prefix`. -/
structure yaml_tag_directive_t where
  handle : List yaml_char_t := []
  prefix_ : List yaml_char_t := []
  deriving DecidableEq, Repr

/-! The payload of an event is a C union `event->data`; each member is a record
here and every event carries all of them, the members other than the one
selected by `type` hold their defaults and are never read.  The member `alias`
is the field `alias_`. -/

structure yaml_stream_start_data_t where
  encoding : yaml_encoding_t := YAML_ANY_ENCODING
  deriving DecidableEq, Repr

structure yaml_document_start_data_t where
  version_directive : Option yaml_version_directive_t := none
  tag_directives : List yaml_tag_directive_t := []
  is_implicit : Bool := false
  deriving DecidableEq, Repr

structure yaml_document_end_data_t where
  is_implicit : Bool := false
  deriving DecidableEq, Repr

structure yaml_alias_data_t where
  anchor : List yaml_char_t := []
  deriving DecidableEq, Repr

/-- The member `data.scalar`; `value` is the pair (`value`, `length`) of the C
struct. -/
structure yaml_scalar_data_t where
  anchor : Option (List yaml_char_t) := none
  tag : Option (List yaml_char_t) := none
  value : List yaml_char_t := []
  is_plain_implicit : Bool := false
  is_quoted_implicit : Bool := false
  style : yaml_scalar_style_t := YAML_ANY_SCALAR_STYLE
  deriving DecidableEq, Repr

structure yaml_sequence_start_data_t where
  anchor : Option (List yaml_char_t) := none
  tag : Option (List yaml_char_t) := none
  is_implicit : Bool := false
  style : yaml_sequence_style_t := YAML_ANY_SEQUENCE_STYLE
  deriving DecidableEq, Repr

structure yaml_mapping_start_data_t where
  anchor : Option (List yaml_char_t) := none
  tag : Option (List yaml_char_t) := none
  is_implicit : Bool := false
  style : yaml_mapping_style_t := YAML_ANY_MAPPING_STYLE
  deriving DecidableEq, Repr

structure yaml_event_data_t where
  stream_start : yaml_stream_start_data_t := {}
  document_start : yaml_document_start_data_t := {}
  document_end : yaml_document_end_data_t := {}
  alias_ : yaml_alias_data_t := {}
  scalar : yaml_scalar_data_t := {}
  sequence_start : yaml_sequence_start_data_t := {}
  mapping_start : yaml_mapping_start_data_t := {}
  deriving DecidableEq, Repr

structure yaml_event_t where
  type : yaml_event_type_t := YAML_NO_EVENT
  data : yaml_event_data_t := {}
  deriving DecidableEq, Repr

/-- The field `emitter->anchor_data`. -/
structure yaml_anchor_data_t where
  anchor : Option (List yaml_char_t) := none
  anchor_length : Nat := 0
  is_alias : Bool := false
  deriving DecidableEq, Repr

/-- The field `emitter->tag_data`. -/
structure yaml_tag_data_t where
  handle : Option (List yaml_char_t) := none
  handle_length : Nat := 0
  suffix : Option (List yaml_char_t) := none
  suffix_length : Nat := 0
  deriving DecidableEq, Repr

/-- The field `emitter->scalar_data`. -/
structure yaml_emitter_scalar_data_t where
  value : Option (List yaml_char_t) := none
  length : Nat := 0
  is_multiline : Bool := false
  is_flow_plain_allowed : Bool := false
  is_block_plain_allowed : Bool := false
  is_single_quoted_allowed : Bool := false
  is_block_allowed : Bool := false
  style : yaml_scalar_style_t := YAML_ANY_SCALAR_STYLE
  deriving DecidableEq, Repr

/-- The emitter object.  `output` is every byte written so far (the output
buffer followed by what was flushed to the sink); `error` and `problem` are the
error kind and message recorded by a failing routine. -/
structure yaml_emitter_t where
  error : yaml_error_type_t := YAML_NO_ERROR
  problem : Option String := none
  output : List yaml_char_t := []
  encoding : yaml_encoding_t := YAML_ANY_ENCODING
  is_canonical : Bool := false
  best_indent : Int := 0
  best_width : Int := 0
  is_unicode : Bool := false
  line_break : yaml_break_t := YAML_ANY_BREAK
  states : List yaml_emitter_state_t := []
  state : yaml_emitter_state_t := YAML_EMIT_STREAM_START_STATE
  events : List yaml_event_t := []
  indents : List Int := []
  tag_directives : List yaml_tag_directive_t := []
  indent : Int := 0
  flow_level : Int := 0
  is_root_context : Bool := false
  is_sequence_context : Bool := false
  is_mapping_context : Bool := false
  is_simple_key_context : Bool := false
  line : Int := 0
  column : Int := 0
  is_whitespace : Bool := false
  is_indention : Bool := false
  anchor_data : yaml_anchor_data_t := {}
  tag_data : yaml_tag_data_t := {}
  scalar_data : yaml_emitter_scalar_data_t := {}
  deriving DecidableEq, Repr

/-- Modelled from the spec: the macro `EMITTER_ERROR_INIT` of `yaml_private.h`
is not part of the source file.  Section 7 of the specification: a failing
routine writes the error kind and a short static message into the emitter
state and returns failure (the `0` is returned by the caller of this
function). -/
def EMITTER_ERROR_INIT (emitter : yaml_emitter_t) (problem : String) : yaml_emitter_t :=
  { emitter with error := YAML_EMITTER_ERROR, problem := some problem }

/-! ## Event queue lookahead -/

/-- The body of the `switch` inside the loop of `yaml_emitter_need_more_events`:
the new value of `level` after an event of the given type. -/
def need_more_events_level (level : Int) (type : yaml_event_type_t) : Int :=
  match type with
  | YAML_STREAM_START_EVENT => level + 1
  | YAML_DOCUMENT_START_EVENT => level + 1
  | YAML_SEQUENCE_START_EVENT => level + 1
  | YAML_MAPPING_START_EVENT => level + 1
  | YAML_STREAM_END_EVENT => level - 1
  | YAML_DOCUMENT_END_EVENT => level - 1
  | YAML_SEQUENCE_END_EVENT => level - 1
  | YAML_MAPPING_END_EVENT => level - 1
  | _ => level

/-- The `for` loop of `yaml_emitter_need_more_events` over the queued events
still to visit, with the current `level`: `false` as soon as `level` is zero
after an event, `true` when the queue is exhausted. -/
def need_more_events_loop : List yaml_event_t → Int → Bool
  | [], _ => true
  | event :: rest, level =>
    if need_more_events_level level event.type = 0 then false
    else need_more_events_loop rest (need_more_events_level level event.type)

/-- The first `switch` of `yaml_emitter_need_more_events`: the value given to
`accumulate`, `none` for the `default: return 0` branch. -/
def need_more_events_accumulate (type : yaml_event_type_t) : Option Nat :=
  match type with
  | YAML_DOCUMENT_START_EVENT => some 1
  | YAML_SEQUENCE_START_EVENT => some 2
  | YAML_MAPPING_START_EVENT => some 3
  | _ => none

/-- Embedding of `yaml_emitter_need_more_events` (emitter.c 294-344). -/
def yaml_emitter_need_more_events (emitter : yaml_emitter_t) : Bool :=
  match emitter.events with
  | [] => true
  | head :: _ =>
    match need_more_events_accumulate head.type with
    | none => false
    | some accumulate =>
      if emitter.events.length > accumulate then false
      else need_more_events_loop emitter.events 0

/-- The running depth named by the specification: `+1` for each STREAM /
DOCUMENT / SEQUENCE / MAPPING start and `-1` for each end, over a list of
events, starting from zero. -/
def running_depth (events : List yaml_event_t) : Int :=
  events.foldl (fun level event => need_more_events_level level event.type) 0

/-! ## Checkers -/

/-- Embedding of `yaml_emitter_check_empty_sequence` (emitter.c 1062-1072). -/
def yaml_emitter_check_empty_sequence (emitter : yaml_emitter_t) : Bool :=
  if emitter.events.length < 2 then false
  else
    match emitter.events with
    | head :: next :: _ =>
      head.type == YAML_SEQUENCE_START_EVENT && next.type == YAML_SEQUENCE_END_EVENT
    | _ => false

/-- Embedding of `yaml_emitter_check_empty_mapping` (emitter.c 1078-1088). -/
def yaml_emitter_check_empty_mapping (emitter : yaml_emitter_t) : Bool :=
  if emitter.events.length < 2 then false
  else
    match emitter.events with
    | head :: next :: _ =>
      head.type == YAML_MAPPING_START_EVENT && next.type == YAML_MAPPING_END_EVENT
    | _ => false

/-- Embedding of `yaml_emitter_check_simple_key` (emitter.c 1094-1139).  The C
function reads the head of the queue without a bounds check; it is only called
while the head event is being processed, and on an empty queue the embedding
answers `false`.  The `MAPPING-START` case calls
`yaml_emitter_check_empty_sequence`, as the source does (line 1124). -/
def yaml_emitter_check_simple_key (emitter : yaml_emitter_t) : Bool :=
  match emitter.events with
  | [] => false
  | event :: _ =>
    let length : Option Nat :=
      match event.type with
      | YAML_ALIAS_EVENT => some emitter.anchor_data.anchor_length
      | YAML_SCALAR_EVENT =>
        if emitter.scalar_data.is_multiline then none
        else some (emitter.anchor_data.anchor_length
              + emitter.tag_data.handle_length
              + emitter.tag_data.suffix_length
              + emitter.scalar_data.length)
      | YAML_SEQUENCE_START_EVENT =>
        if !yaml_emitter_check_empty_sequence emitter then none
        else some (emitter.anchor_data.anchor_length
              + emitter.tag_data.handle_length
              + emitter.tag_data.suffix_length)
      | YAML_MAPPING_START_EVENT =>
        if !yaml_emitter_check_empty_sequence emitter then none
        else some (emitter.anchor_data.anchor_length
              + emitter.tag_data.handle_length
              + emitter.tag_data.suffix_length)
      | _ => none
    match length with
    | none => false
    | some length => if length > 128 then false else true

/-- The unconditional style overrides of `yaml_emitter_select_scalar_style`
(emitter.c 1157-1164): ANY becomes PLAIN, then canonical mode and a multiline
simple key force DOUBLE-QUOTED. -/
def select_scalar_style_overrides (emitter : yaml_emitter_t)
    (style : yaml_scalar_style_t) : yaml_scalar_style_t :=
  let style := if style = YAML_ANY_SCALAR_STYLE then YAML_PLAIN_SCALAR_STYLE else style
  let style := if emitter.is_canonical then YAML_DOUBLE_QUOTED_SCALAR_STYLE else style
  if emitter.is_simple_key_context && emitter.scalar_data.is_multiline then
    YAML_DOUBLE_QUOTED_SCALAR_STYLE
  else style

/-- The block `if (style == YAML_PLAIN_SCALAR_STYLE)` of
`yaml_emitter_select_scalar_style` (emitter.c 1166-1176). -/
def select_scalar_style_plain (emitter : yaml_emitter_t) (event : yaml_event_t)
    (no_tag : Bool) (style : yaml_scalar_style_t) : yaml_scalar_style_t :=
  if style = YAML_PLAIN_SCALAR_STYLE then
    let style :=
      if (emitter.flow_level != 0 && !emitter.scalar_data.is_flow_plain_allowed)
          || (!(emitter.flow_level != 0) && !emitter.scalar_data.is_block_plain_allowed) then
        YAML_SINGLE_QUOTED_SCALAR_STYLE
      else style
    let style :=
      if !(emitter.scalar_data.length != 0)
          && (emitter.flow_level != 0 || emitter.is_simple_key_context) then
        YAML_SINGLE_QUOTED_SCALAR_STYLE
      else style
    if no_tag && !event.data.scalar.is_plain_implicit then
      YAML_SINGLE_QUOTED_SCALAR_STYLE
    else style
  else style

/-- The block `if (style == YAML_SINGLE_QUOTED_SCALAR_STYLE)` of
`yaml_emitter_select_scalar_style` (emitter.c 1178-1182). -/
def select_scalar_style_single_quoted (emitter : yaml_emitter_t)
    (style : yaml_scalar_style_t) : yaml_scalar_style_t :=
  if style = YAML_SINGLE_QUOTED_SCALAR_STYLE then
    if !emitter.scalar_data.is_single_quoted_allowed then
      YAML_DOUBLE_QUOTED_SCALAR_STYLE
    else style
  else style

/-- The block `if (style == YAML_LITERAL_SCALAR_STYLE || style ==
YAML_FOLDED_SCALAR_STYLE)` of `yaml_emitter_select_scalar_style`
(emitter.c 1184-1189). -/
def select_scalar_style_block (emitter : yaml_emitter_t)
    (style : yaml_scalar_style_t) : yaml_scalar_style_t :=
  if style = YAML_LITERAL_SCALAR_STYLE ∨ style = YAML_FOLDED_SCALAR_STYLE then
    if !emitter.scalar_data.is_block_allowed
        || emitter.flow_level != 0 || emitter.is_simple_key_context then
      YAML_DOUBLE_QUOTED_SCALAR_STYLE
    else style
  else style

/-- Embedding of `yaml_emitter_select_scalar_style` (emitter.c 1145-1201).  The
local `style` passes through the four blocks above in source order; the
emitter is written only by the error, by the `"!"` handle and by the final
store of the style. -/
def yaml_emitter_select_scalar_style (emitter : yaml_emitter_t) (event : yaml_event_t) :
    Bool × yaml_emitter_t :=
  let style := event.data.scalar.style
  let no_tag := emitter.tag_data.handle.isNone && emitter.tag_data.suffix.isNone
  if no_tag && !event.data.scalar.is_plain_implicit
      && !event.data.scalar.is_quoted_implicit then
    (false, EMITTER_ERROR_INIT emitter "neither tag nor implicit flags are specified")
  else
    let style := select_scalar_style_overrides emitter style
    let style := select_scalar_style_plain emitter event no_tag style
    let style := select_scalar_style_single_quoted emitter style
    let style := select_scalar_style_block emitter style
    let emitter :=
      if no_tag && !event.data.scalar.is_quoted_implicit
          && style != YAML_PLAIN_SCALAR_STYLE then
        { emitter with
          tag_data := { emitter.tag_data with handle := some [0x21], handle_length := 1 } }
      else emitter
    (true, { emitter with scalar_data := { emitter.scalar_data with style := style } })

/-! ## Strings

`yaml_string_t` and the character-class macros live in `yaml_private.h`, which
is not among the source files; `emitter.c` uses a string as a buffer with an
index `pointer` and a length `capacity` (`string.pointer < string.capacity`,
`!string.pointer`).  Scalar values, anchors and tags are held NUL-terminated by
the event constructors, so an octet read at or after `capacity` is `0`. -/

/-- Modelled from the spec: the type `yaml_string_t` of `yaml_private.h` is not
part of the source file; a buffer, the read index and the length. -/
structure yaml_string_t where
  buffer : List yaml_char_t
  pointer : Nat
  capacity : Nat
  deriving DecidableEq, Repr

/-- Modelled from the spec: the macro `STRING(buffer, capacity)` of
`yaml_private.h` is not part of the source file; a string read from its
start. -/
def STRING (buffer : List yaml_char_t) (capacity : Nat) : yaml_string_t :=
  { buffer := buffer, pointer := 0, capacity := capacity }

/-- Modelled from the spec: octet access of the macros of `yaml_private.h`,
`string.buffer[string.pointer + offset]`; past the end of the buffer it reads
the terminating NUL. -/
def OCTET_AT (string : yaml_string_t) (offset : Nat) : yaml_char_t :=
  string.buffer.getD (string.pointer + offset) 0

/-- Modelled from the spec: the macro `CHECK_AT` of `yaml_private.h` is not part
of the source file; the octet at the offset is the given one. -/
def CHECK_AT (string : yaml_string_t) (octet : yaml_char_t) (offset : Nat) : Bool :=
  OCTET_AT string offset == octet

/-- Modelled from the spec: the macro `CHECK` of `yaml_private.h`, `CHECK_AT`
at offset 0. -/
def CHECK (string : yaml_string_t) (octet : yaml_char_t) : Bool :=
  CHECK_AT string octet 0

/-- Modelled from the spec: the macro `IS_ASCII` of `yaml_private.h` is not part
of the source file; the character is a single octet below `0x80`. -/
def IS_ASCII (string : yaml_string_t) : Bool :=
  OCTET_AT string 0 ≤ 0x7F

/-- Modelled from the spec: the macro `IS_PRINTABLE` of `yaml_private.h` is not
part of the source file; the printable characters of YAML 1.1 as the emitter
tests them on the UTF-8 form: LF, `0x20`-`0x7E`, `U+00A0`-`U+D7FF`,
`U+E000`-`U+FFFD` without the byte order mark `U+FEFF`. -/
def IS_PRINTABLE (string : yaml_string_t) : Bool :=
  OCTET_AT string 0 == 0x0A
  || (0x20 ≤ OCTET_AT string 0 && OCTET_AT string 0 ≤ 0x7E)
  || (OCTET_AT string 0 == 0xC2 && 0xA0 ≤ OCTET_AT string 1)
  || (0xC2 < OCTET_AT string 0 && OCTET_AT string 0 < 0xED)
  || (OCTET_AT string 0 == 0xED && OCTET_AT string 1 < 0xA0)
  || OCTET_AT string 0 == 0xEE
  || (OCTET_AT string 0 == 0xEF
      && !(OCTET_AT string 1 == 0xBB && OCTET_AT string 2 == 0xBF)
      && !(OCTET_AT string 1 == 0xBF
            && (OCTET_AT string 2 == 0xBE || OCTET_AT string 2 == 0xBF)))

/-- Modelled from the spec: the macro `IS_SPACE_AT` of `yaml_private.h` is not
part of the source file; the character at the offset is a space. -/
def IS_SPACE_AT (string : yaml_string_t) (offset : Nat) : Bool :=
  CHECK_AT string 0x20 offset

/-- Modelled from the spec: the macro `IS_SPACE` of `yaml_private.h`. -/
def IS_SPACE (string : yaml_string_t) : Bool :=
  IS_SPACE_AT string 0

/-- Modelled from the spec: the macro `IS_BREAK_AT` of `yaml_private.h` is not
part of the source file; the line breaks of YAML 1.1 in UTF-8: CR, LF, NEL
(`C2 85`), LS (`E2 80 A8`) and PS (`E2 80 A9`). -/
def IS_BREAK_AT (string : yaml_string_t) (offset : Nat) : Bool :=
  CHECK_AT string 0x0D offset
  || CHECK_AT string 0x0A offset
  || (CHECK_AT string 0xC2 offset && CHECK_AT string 0x85 (offset + 1))
  || (CHECK_AT string 0xE2 offset && CHECK_AT string 0x80 (offset + 1)
      && CHECK_AT string 0xA8 (offset + 2))
  || (CHECK_AT string 0xE2 offset && CHECK_AT string 0x80 (offset + 1)
      && CHECK_AT string 0xA9 (offset + 2))

/-- Modelled from the spec: the macro `IS_BREAK` of `yaml_private.h`. -/
def IS_BREAK (string : yaml_string_t) : Bool :=
  IS_BREAK_AT string 0

/-- Modelled from the spec: the macro `IS_BLANKZ_AT` of `yaml_private.h` is not
part of the source file; a space, a tab, a line break or the terminating
NUL. -/
def IS_BLANKZ_AT (string : yaml_string_t) (offset : Nat) : Bool :=
  IS_SPACE_AT string offset
  || CHECK_AT string 0x09 offset
  || IS_BREAK_AT string offset
  || CHECK_AT string 0x00 offset

/-- Modelled from the spec: the macro `IS_BLANKZ` of `yaml_private.h`. -/
def IS_BLANKZ (string : yaml_string_t) : Bool :=
  IS_BLANKZ_AT string 0

/-- Modelled from the spec: the macro `WIDTH` of `yaml_private.h` is not part of
the source file; the length in octets of the UTF-8 character that starts with
the octet under the pointer, `0` when that octet is not a UTF-8 lead byte. -/
def WIDTH (string : yaml_string_t) : Nat :=
  if OCTET_AT string 0 < 0x80 then 1
  else if 0xC0 ≤ OCTET_AT string 0 ∧ OCTET_AT string 0 < 0xE0 then 2
  else if 0xE0 ≤ OCTET_AT string 0 ∧ OCTET_AT string 0 < 0xF0 then 3
  else if 0xF0 ≤ OCTET_AT string 0 ∧ OCTET_AT string 0 < 0xF8 then 4
  else 0

/-- Modelled from the spec: the macro `MOVE` of `yaml_private.h` is not part of
the source file; `string.pointer += WIDTH(string)`. -/
def MOVE (string : yaml_string_t) : yaml_string_t :=
  { string with pointer := string.pointer + WIDTH string }

/-! ## Scalar analysis -/

/-- The local variables of `yaml_emitter_analyze_scalar` (emitter.c 1431-1450). -/
structure analyze_scalar_locals where
  block_indicators : Bool := false
  flow_indicators : Bool := false
  line_breaks : Bool := false
  special_characters : Bool := false
  inline_spaces : Bool := false
  inline_breaks : Bool := false
  leading_spaces : Bool := false
  leading_breaks : Bool := false
  trailing_spaces : Bool := false
  trailing_breaks : Bool := false
  inline_breaks_spaces : Bool := false
  mixed_breaks_spaces : Bool := false
  preceeded_by_space : Bool := false
  followed_by_space : Bool := false
  spaces : Bool := false
  breaks : Bool := false
  mixed : Bool := false
  leading : Bool := false
  deriving DecidableEq, Repr

/-- The indicator tests at the head of the loop body of
`yaml_emitter_analyze_scalar` (emitter.c 1481-1526). -/
def analyze_scalar_indicators (string : yaml_string_t) (l : analyze_scalar_locals) :
    analyze_scalar_locals :=
  if string.pointer = 0 then
    let l :=
      if CHECK string 0x23 || CHECK string 0x2C
          || CHECK string 0x5B || CHECK string 0x5D
          || CHECK string 0x7B || CHECK string 0x7D
          || CHECK string 0x26 || CHECK string 0x2A
          || CHECK string 0x21 || CHECK string 0x7C
          || CHECK string 0x3E || CHECK string 0x27
          || CHECK string 0x22 || CHECK string 0x25
          || CHECK string 0x40 || CHECK string 0x60 then
        { l with flow_indicators := true, block_indicators := true }
      else l
    let l :=
      if CHECK string 0x3F || CHECK string 0x3A then
        { l with flow_indicators := true,
                 block_indicators := if l.followed_by_space then true else l.block_indicators }
      else l
    if CHECK string 0x2D && l.followed_by_space then
      { l with flow_indicators := true, block_indicators := true }
    else l
  else
    let l :=
      if CHECK string 0x2C || CHECK string 0x3F
          || CHECK string 0x5B || CHECK string 0x5D
          || CHECK string 0x7B || CHECK string 0x7D then
        { l with flow_indicators := true }
      else l
    let l :=
      if CHECK string 0x3A then
        { l with flow_indicators := true,
                 block_indicators := if l.followed_by_space then true else l.block_indicators }
      else l
    if CHECK string 0x23 && l.preceeded_by_space then
      { l with flow_indicators := true, block_indicators := true }
    else l

/-- The tests for special characters and line breaks in the loop body of
`yaml_emitter_analyze_scalar` (emitter.c 1528-1535). -/
def analyze_scalar_special (emitter : yaml_emitter_t) (string : yaml_string_t)
    (l : analyze_scalar_locals) : analyze_scalar_locals :=
  let l :=
    if !IS_PRINTABLE string || (!IS_ASCII string && !emitter.is_unicode) then
      { l with special_characters := true }
    else l
  if IS_BREAK string then { l with line_breaks := true } else l

/-- The classification of a finished run of spaces and breaks, the branch
`else if (spaces || breaks)` of the loop body of `yaml_emitter_analyze_scalar`
(emitter.c 1556-1584). -/
def analyze_scalar_run_end (l : analyze_scalar_locals) : analyze_scalar_locals :=
  let l :=
    if l.leading then
      if l.spaces && l.breaks then { l with mixed_breaks_spaces := true }
      else if l.spaces then { l with leading_spaces := true }
      else if l.breaks then { l with leading_breaks := true }
      else l
    else
      if l.mixed then { l with mixed_breaks_spaces := true }
      else if l.spaces && l.breaks then { l with inline_breaks_spaces := true }
      else if l.spaces then { l with inline_spaces := true }
      else if l.breaks then { l with inline_breaks := true }
      else l
  { l with spaces := false, breaks := false, mixed := false, leading := false }

/-- The tracking of runs of spaces and breaks in the loop body of
`yaml_emitter_analyze_scalar` (emitter.c 1537-1584). -/
def analyze_scalar_whitespace (string : yaml_string_t) (l : analyze_scalar_locals) :
    analyze_scalar_locals :=
  if IS_SPACE string then
    { l with spaces := true, leading := if string.pointer = 0 then true else l.leading }
  else if IS_BREAK string then
    { l with mixed := if l.spaces then true else l.mixed,
             breaks := true,
             leading := if string.pointer = 0 then true else l.leading }
  else if l.spaces || l.breaks then analyze_scalar_run_end l
  else l

/-- The test for a run that reaches the end of the value in the loop body of
`yaml_emitter_analyze_scalar` (emitter.c 1586-1603); the position is compared
with `string.capacity-1`, as in the source. -/
def analyze_scalar_last (string : yaml_string_t) (l : analyze_scalar_locals) :
    analyze_scalar_locals :=
  if (l.spaces || l.breaks) && string.pointer == string.capacity - 1 then
    if l.spaces && l.breaks then { l with mixed_breaks_spaces := true }
    else if l.spaces then
      { l with leading_spaces := if l.leading then true else l.leading_spaces,
               trailing_spaces := true }
    else if l.breaks then
      { l with leading_breaks := if l.leading then true else l.leading_breaks,
               trailing_breaks := true }
    else l
  else l

/-- One pass through the body of the `while` loop of
`yaml_emitter_analyze_scalar` (emitter.c 1480-1610): the string and the locals
at the end of the iteration. -/
def analyze_scalar_step (emitter : yaml_emitter_t) (string : yaml_string_t)
    (l : analyze_scalar_locals) : yaml_string_t × analyze_scalar_locals :=
  let l := analyze_scalar_indicators string l
  let l := analyze_scalar_special emitter string l
  let l := analyze_scalar_whitespace string l
  let l := analyze_scalar_last string l
  let l := { l with preceeded_by_space := IS_BLANKZ string }
  let string := MOVE string
  let l :=
    if string.pointer < string.capacity then
      { l with followed_by_space := IS_BLANKZ_AT string (WIDTH string) }
    else l
  (string, l)

/-- The `while (string.pointer < string.capacity)` loop of
`yaml_emitter_analyze_scalar`, run for at most `fuel` iterations; `none` when
the loop is still running after them.  An iteration moves the pointer by
`WIDTH`, so `string.capacity` iterations are enough unless some `WIDTH` is `0`,
and in that case the pointer stays where it is and the C loop never exits. -/
def analyze_scalar_loop (emitter : yaml_emitter_t) :
    Nat → yaml_string_t → analyze_scalar_locals → Option analyze_scalar_locals
  | 0, string, l => if string.pointer < string.capacity then none else some l
  | fuel + 1, string, l =>
    if string.pointer < string.capacity then
      analyze_scalar_loop emitter fuel (analyze_scalar_step emitter string l).1
        (analyze_scalar_step emitter string l).2
    else some l

/-- The style permissions stored at the end of `yaml_emitter_analyze_scalar`
(emitter.c 1612-1654). -/
def analyze_scalar_permissions (l : analyze_scalar_locals)
    (data : yaml_emitter_scalar_data_t) : yaml_emitter_scalar_data_t :=
  let data := { data with is_multiline := l.line_breaks }
  let data := { data with is_flow_plain_allowed := true, is_block_plain_allowed := true,
                          is_single_quoted_allowed := true, is_block_allowed := true }
  let data :=
    if l.leading_spaces || l.leading_breaks || l.trailing_spaces then
      { data with is_flow_plain_allowed := false, is_block_plain_allowed := false,
                  is_block_allowed := false }
    else data
  let data :=
    if l.trailing_breaks then
      { data with is_flow_plain_allowed := false, is_block_plain_allowed := false }
    else data
  let data :=
    if l.inline_breaks_spaces then
      { data with is_flow_plain_allowed := false, is_block_plain_allowed := false,
                  is_single_quoted_allowed := false }
    else data
  let data :=
    if l.mixed_breaks_spaces || l.special_characters then
      { data with is_flow_plain_allowed := false, is_block_plain_allowed := false,
                  is_single_quoted_allowed := false, is_block_allowed := false }
    else data
  let data :=
    if l.line_breaks then
      { data with is_flow_plain_allowed := false, is_block_plain_allowed := false }
    else data
  let data := if l.flow_indicators then { data with is_flow_plain_allowed := false } else data
  if l.block_indicators then { data with is_block_plain_allowed := false } else data

/-- The locals of `yaml_emitter_analyze_scalar` when the loop is entered
(emitter.c 1431-1450 and 1466-1477): all flags zero, the indicator flags set by
a leading `---` or `...`, `preceeded_by_space` set and `followed_by_space` read
after the first character. -/
def analyze_scalar_start (string : yaml_string_t) : analyze_scalar_locals :=
  let l : analyze_scalar_locals := {}
  let l :=
    if (CHECK_AT string 0x2D 0 && CHECK_AT string 0x2D 1 && CHECK_AT string 0x2D 2)
        || (CHECK_AT string 0x2E 0 && CHECK_AT string 0x2E 1 && CHECK_AT string 0x2E 2) then
      { l with block_indicators := true, flow_indicators := true }
    else l
  { l with preceeded_by_space := true,
           followed_by_space := IS_BLANKZ_AT string (WIDTH string) }

/-- The first two stores of `yaml_emitter_analyze_scalar` (emitter.c
1452-1453): `scalar_data.value` and `scalar_data.length`. -/
def analyze_scalar_store (emitter : yaml_emitter_t) (value : List yaml_char_t) :
    yaml_emitter_t :=
  { emitter with
    scalar_data := { emitter.scalar_data with value := some value, length := value.length } }

/-- Embedding of `yaml_emitter_analyze_scalar` (emitter.c 1425-1657) on the
value of `length = value.length` octets.  `some (true, emitter)` is the
return value `1` with the emitter afterwards; `none` stands for a call that
never returns (see `analyze_scalar_loop`). -/
def yaml_emitter_analyze_scalar (emitter : yaml_emitter_t) (value : List yaml_char_t) :
    Option (Bool × yaml_emitter_t) :=
  let string := STRING value value.length
  let emitter := analyze_scalar_store emitter value
  if string.capacity = 0 then
    some (true,
      { emitter with
        scalar_data :=
          { emitter.scalar_data with
            is_multiline := false, is_flow_plain_allowed := false,
            is_block_plain_allowed := true, is_single_quoted_allowed := true,
            is_block_allowed := false } })
  else
    (analyze_scalar_loop emitter string.capacity string (analyze_scalar_start string)).map
      (fun l =>
        (true, { emitter with scalar_data := analyze_scalar_permissions l emitter.scalar_data }))

/-- The value as read at the character that starts at `position`. -/
def string_at (value : List yaml_char_t) (position : Nat) : yaml_string_t :=
  { buffer := value, pointer := position, capacity := value.length }

/-- The positions at which the loop of `yaml_emitter_analyze_scalar` reads a
character when started at `pointer`, for at most `fuel` characters: the
starts of the UTF-8 characters of the value. -/
def character_positions (value : List yaml_char_t) : Nat → Nat → List Nat
  | 0, _ => []
  | fuel + 1, pointer =>
    if pointer < value.length then
      pointer :: character_positions value fuel (pointer + WIDTH (string_at value pointer))
    else []

/-- Every character of the value starts with a UTF-8 lead byte (`WIDTH` is not
zero there), as in every valid UTF-8 string. -/
def has_valid_lead_bytes (value : List yaml_char_t) : Bool :=
  (character_positions value value.length 0).all
    (fun position => WIDTH (string_at value position) != 0)

/-- Some character of the value is special: not printable, or not ASCII while
`is_unicode` is false. -/
def has_special_character (is_unicode : Bool) (value : List yaml_char_t) : Bool :=
  (character_positions value value.length 0).any
    (fun position => !IS_PRINTABLE (string_at value position)
      || (!IS_ASCII (string_at value position) && !is_unicode))

/-- Some character of the value is a line break: CR, LF, NEL, LS or PS. -/
def has_line_break (value : List yaml_char_t) : Bool :=
  (character_positions value value.length 0).any
    (fun position => IS_BREAK (string_at value position))

/-! ## Directive, anchor and tag analysis -/

/-- An alphanumerical octet: an ASCII digit or an ASCII letter. -/
def is_alphanumeric (octet : yaml_char_t) : Bool :=
  (0x30 ≤ octet && octet ≤ 0x39)
  || (0x41 ≤ octet && octet ≤ 0x5A)
  || (0x61 ≤ octet && octet ≤ 0x7A)

/-- Modelled from the spec: the macro `IS_ALPHA` of `yaml_private.h` is not part
of the source file; the specification asks for alphanumeric bytes in anchors
and tag handles, and the messages of `emitter.c` say "alphanumerical characters
only": the octet under the pointer is an ASCII digit or letter. -/
def IS_ALPHA (string : yaml_string_t) : Bool :=
  is_alphanumeric (OCTET_AT string 0)

/-- The loop `while (string.pointer < limit) { if (!IS_ALPHA(string)) return
error; MOVE(string); }` of `yaml_emitter_analyze_tag_directive` (emitter.c
1337-1343, `limit` is `handle.capacity-1`) and of `yaml_emitter_analyze_anchor`
(emitter.c 1368-1375, `limit` is `string.capacity`), run for at most `fuel`
iterations: `some true` when the loop is left at its end, `some false` when it
returns the error, `none` when it is still running. -/
def analyze_alpha_loop (limit : Nat) : Nat → yaml_string_t → Option Bool
  | 0, string => if string.pointer < limit then none else some true
  | fuel + 1, string =>
    if string.pointer < limit then
      if !IS_ALPHA string then some false
      else analyze_alpha_loop limit fuel (MOVE string)
    else some true

/-- Embedding of `yaml_emitter_analyze_tag_directive` (emitter.c 1314-1350); the
handle and the prefix are the C strings of the directive, `strlen` is the
length of the list. -/
def yaml_emitter_analyze_tag_directive (emitter : yaml_emitter_t)
    (tag_directive : yaml_tag_directive_t) : Option (Bool × yaml_emitter_t) :=
  let handle := STRING tag_directive.handle tag_directive.handle.length
  let prefix_string := STRING tag_directive.prefix_ tag_directive.prefix_.length
  if handle.capacity = 0 then
    some (false, EMITTER_ERROR_INIT emitter "tag handle must not be empty")
  else if handle.buffer.getD 0 0 ≠ 0x21 then
    some (false, EMITTER_ERROR_INIT emitter "tag handle must start with '!'")
  else if handle.buffer.getD (handle.capacity - 1) 0 ≠ 0x21 then
    some (false, EMITTER_ERROR_INIT emitter "tag handle must end with '!'")
  else
    let handle := { handle with pointer := handle.pointer + 1 }
    match analyze_alpha_loop (handle.capacity - 1) handle.capacity handle with
    | none => none
    | some false =>
      some (false, EMITTER_ERROR_INIT emitter
        "tag handle must contain alphanumerical characters only")
    | some true =>
      if prefix_string.capacity = 0 then
        some (false, EMITTER_ERROR_INIT emitter "tag prefix must not be empty")
      else some (true, emitter)

/-- Embedding of `yaml_emitter_analyze_anchor` (emitter.c 1356-1382); the anchor
is a C string, `strlen` is the length of the list. -/
def yaml_emitter_analyze_anchor (emitter : yaml_emitter_t) (anchor : List yaml_char_t)
    (is_alias : Bool) : Option (Bool × yaml_emitter_t) :=
  let string := STRING anchor anchor.length
  if string.capacity = 0 then
    some (false, EMITTER_ERROR_INIT emitter
      (if is_alias then "alias value must not be empty"
       else "anchor value must not be empty"))
  else
    match analyze_alpha_loop string.capacity string.capacity string with
    | none => none
    | some false =>
      some (false, EMITTER_ERROR_INIT emitter
        (if is_alias then "alias value must contain alphanumerical characters only"
         else "anchor value must contain alphanumerical characters only"))
    | some true =>
      some (true,
        { emitter with
          anchor_data := { anchor := some string.buffer, anchor_length := string.capacity,
                           is_alias := is_alias } })

/-! ## Output

The macros `PUT`, `PUT_BREAK`, `WRITE` and `WRITE_BREAK` (emitter.c 8-62) append
to the output buffer after `FLUSH`, which calls `yaml_emitter_flush` (writer.c,
not among the source files) when the buffer is nearly full.  The emitter is
modelled with a sink that accepts every write: `FLUSH` always holds, the field
`output` collects every octet written, and a writer, which can fail only
through `FLUSH`, returns `1`; its embedding gives the emitter afterwards, inside
`Option` when the writer has a loop over UTF-8 characters (`none` stands for a
loop that never exits, on an octet whose `WIDTH` is `0`). -/

/-- Embedding of the macro `PUT` (emitter.c 16-20) with a sink that accepts
every write: the octet is appended (macro `JOIN_OCTET` of `yaml_private.h`) and
the column advances. -/
def PUT (emitter : yaml_emitter_t) (value : yaml_char_t) : yaml_emitter_t :=
  { emitter with output := emitter.output ++ [value], column := emitter.column + 1 }

/-- Embedding of the macro `PUT_BREAK` (emitter.c 26-37): the configured line
break is appended (nothing for a `line_break` other than CR, LN, CRLN), the
column returns to zero and the line number advances. -/
def PUT_BREAK (emitter : yaml_emitter_t) : yaml_emitter_t :=
  { emitter with
    output := emitter.output ++
      (if emitter.line_break = YAML_CR_BREAK then [0x0D]
       else if emitter.line_break = YAML_LN_BREAK then [0x0A]
       else if emitter.line_break = YAML_CRLN_BREAK then [0x0D, 0x0A]
       else []),
    column := 0,
    line := emitter.line + 1 }

/-- The octets of the character under the pointer: `WIDTH` octets from the
pointer on. -/
def character_octets (string : yaml_string_t) : List yaml_char_t :=
  (List.range (WIDTH string)).map (fun offset => OCTET_AT string offset)

/-- Modelled from the spec: the macro `COPY` of `yaml_private.h` is not part of
the source file; it copies the UTF-8 character under the pointer of the source
string to the output and moves the pointer past it (nothing is copied and the
pointer stays when the octet is not a UTF-8 lead byte). -/
def COPY (output : List yaml_char_t) (string : yaml_string_t) :
    List yaml_char_t × yaml_string_t :=
  (output ++ character_octets string, MOVE string)

/-- Embedding of the macro `WRITE` (emitter.c 43-47): one character is copied
from the string to the output and the column advances by one. -/
def WRITE (emitter : yaml_emitter_t) (string : yaml_string_t) :
    yaml_emitter_t × yaml_string_t :=
  ({ emitter with output := (COPY emitter.output string).1, column := emitter.column + 1 },
    (COPY emitter.output string).2)

/-- Embedding of the macro `WRITE_BREAK` (emitter.c 53-62): an LF is written as
the configured line break, any other break character is copied; the column
returns to zero and the line number advances. -/
def WRITE_BREAK (emitter : yaml_emitter_t) (string : yaml_string_t) :
    yaml_emitter_t × yaml_string_t :=
  if CHECK string 0x0A then
    (PUT_BREAK emitter, { string with pointer := string.pointer + 1 })
  else
    ({ emitter with output := (COPY emitter.output string).1, column := 0,
                    line := emitter.line + 1 },
      (COPY emitter.output string).2)

/-- The loop `while (emitter->column < indent) PUT(emitter, ' ')` of
`yaml_emitter_write_indent` (emitter.c 1760-1762), for at most `fuel` spaces. -/
def write_indent_loop (indent : Int) : Nat → yaml_emitter_t → yaml_emitter_t
  | 0, emitter => emitter
  | fuel + 1, emitter =>
    if emitter.column < indent then write_indent_loop indent fuel (PUT emitter 0x20)
    else emitter

/-- Embedding of `yaml_emitter_write_indent` (emitter.c 1750-1768); the padding
loop needs `indent - column` iterations. -/
def yaml_emitter_write_indent (emitter : yaml_emitter_t) : yaml_emitter_t :=
  let indent : Int := if emitter.indent ≥ 0 then emitter.indent else 0
  let emitter :=
    if !emitter.is_indention || emitter.column > indent
        || (emitter.column == indent && !emitter.is_whitespace) then
      PUT_BREAK emitter
    else emitter
  let emitter := write_indent_loop indent (indent - emitter.column).toNat emitter
  { emitter with is_whitespace := true, is_indention := true }

/-- The loop `while (string.pointer < string.capacity) WRITE(emitter, string)`
of `yaml_emitter_write_indicator` (emitter.c 1781-1783),
`yaml_emitter_write_anchor` and `yaml_emitter_write_tag_handle`, for at most
`fuel` characters; `none` when it is still running after them. -/
def write_string_loop : Nat → yaml_emitter_t → yaml_string_t → Option yaml_emitter_t
  | 0, emitter, string => if string.pointer < string.capacity then none else some emitter
  | fuel + 1, emitter, string =>
    if string.pointer < string.capacity then
      write_string_loop fuel (WRITE emitter string).1 (WRITE emitter string).2
    else some emitter

/-- Embedding of `yaml_emitter_write_indicator` (emitter.c 1770-1789); the
indicator is the C string passed by the caller. -/
def yaml_emitter_write_indicator (emitter : yaml_emitter_t) (indicator : List yaml_char_t)
    (need_whitespace is_whitespace is_indention : Bool) : Option yaml_emitter_t :=
  let string := STRING indicator indicator.length
  let emitter :=
    if need_whitespace && !emitter.is_whitespace then PUT emitter 0x20 else emitter
  (write_string_loop string.capacity emitter string).map
    (fun emitter =>
      { emitter with is_whitespace := is_whitespace,
                     is_indention := emitter.is_indention && is_indention })

/-! ## UTF-8 -/

/-- A continuation octet of UTF-8, `10xxxxxx`. -/
def is_continuation (octet : yaml_char_t) : Bool :=
  0x80 ≤ octet && octet < 0xC0

/-- The octets of one UTF-8 character in shortest form: one octet below `0x80`,
or a lead byte `C2`-`DF`, `E0`-`EF`, `F0`-`F7` followed by one, two or three
continuation octets, the first of them at least `A0` after `E0` and at least
`90` after `F0`. -/
def is_utf8_character (octets : List yaml_char_t) : Bool :=
  match octets with
  | [b0] => b0 < 0x80
  | [b0, b1] => 0xC2 ≤ b0 && b0 < 0xE0 && is_continuation b1
  | [b0, b1, b2] =>
    0xE0 ≤ b0 && b0 < 0xF0 && is_continuation b1 && is_continuation b2
      && (b0 != 0xE0 || 0xA0 ≤ b1)
  | [b0, b1, b2, b3] =>
    0xF0 ≤ b0 && b0 < 0xF8 && is_continuation b1 && is_continuation b2
      && is_continuation b3 && (b0 != 0xF0 || 0x90 ≤ b1)
  | _ => false

/-- The UTF-8 characters of a string, each as the list of its octets, for at
most `fuel` characters; `none` when the string is not a sequence of UTF-8
characters. -/
def utf8_characters : Nat → List yaml_char_t → Option (List (List yaml_char_t))
  | _, [] => some []
  | 0, _ :: _ => none
  | fuel + 1, b0 :: rest =>
    let width :=
      if b0 < 0x80 then 1 else if b0 < 0xE0 then 2 else if b0 < 0xF0 then 3 else 4
    if is_utf8_character ((b0 :: rest).take width) then
      (utf8_characters fuel ((b0 :: rest).drop width)).map
        (fun characters => (b0 :: rest).take width :: characters)
    else none

/-- The string is valid UTF-8: a sequence of UTF-8 characters in shortest form
(surrogates and code points up to `0x1FFFFF` are let through, so every valid
UTF-8 string is covered). -/
def is_valid_utf8 (value : List yaml_char_t) : Bool :=
  (utf8_characters value.length value).isSome

/-! ## Tag content -/

/-- The hexadecimal digit character written by the emitter for a digit value,
the C expression `digit + (digit < 10 ? '0' : 'A'-10)` (emitter.c 1859-1863
and 2105). -/
def hex_digit (digit : Nat) : yaml_char_t :=
  digit + (if digit < 10 then 0x30 else 0x41 - 10)

/-- The test of `yaml_emitter_write_tag_content` for a character that is
written as it is (emitter.c 1839-1849): `IS_ALPHA` or one of
`; / ? : @ & = + $ , _ . ~ * ' ( ) [ ]`. -/
def write_tag_content_is_verbatim (string : yaml_string_t) : Bool :=
  IS_ALPHA string
  || CHECK string 0x3B || CHECK string 0x2F
  || CHECK string 0x3F || CHECK string 0x3A
  || CHECK string 0x40 || CHECK string 0x26
  || CHECK string 0x3D || CHECK string 0x2B
  || CHECK string 0x24 || CHECK string 0x2C
  || CHECK string 0x5F || CHECK string 0x2E
  || CHECK string 0x7E || CHECK string 0x2A
  || CHECK string 0x27 || CHECK string 0x28
  || CHECK string 0x29 || CHECK string 0x5B
  || CHECK string 0x5D

/-- The loop `while (width --)` of `yaml_emitter_write_tag_content` (emitter.c
1855-1865): each of the next `width` octets is written as `%` and two
hexadecimal digits. -/
def write_tag_content_escape :
    Nat → yaml_emitter_t → yaml_string_t → yaml_emitter_t × yaml_string_t
  | 0, emitter, string => (emitter, string)
  | width + 1, emitter, string =>
    let value := OCTET_AT string 0
    let string := { string with pointer := string.pointer + 1 }
    let emitter := PUT emitter 0x25
    let emitter := PUT emitter (hex_digit (value >>> 4))
    let emitter := PUT emitter (hex_digit (value &&& 0x0F))
    write_tag_content_escape width emitter string

/-- The loop `while (string.pointer < string.capacity)` of
`yaml_emitter_write_tag_content` (emitter.c 1838-1867), for at most `fuel`
characters; `none` when it is still running after them. -/
def write_tag_content_loop : Nat → yaml_emitter_t → yaml_string_t → Option yaml_emitter_t
  | 0, emitter, string => if string.pointer < string.capacity then none else some emitter
  | fuel + 1, emitter, string =>
    if string.pointer < string.capacity then
      if write_tag_content_is_verbatim string then
        write_tag_content_loop fuel (WRITE emitter string).1 (WRITE emitter string).2
      else
        write_tag_content_loop fuel
          (write_tag_content_escape (WIDTH string) emitter string).1
          (write_tag_content_escape (WIDTH string) emitter string).2
    else some emitter

/-- Embedding of `yaml_emitter_write_tag_content` (emitter.c 1827-1873) on the
tag content of `length = value.length` octets. -/
def yaml_emitter_write_tag_content (emitter : yaml_emitter_t) (value : List yaml_char_t)
    (need_whitespace : Bool) : Option yaml_emitter_t :=
  let string := STRING value value.length
  let emitter :=
    if need_whitespace && !emitter.is_whitespace then PUT emitter 0x20 else emitter
  (write_tag_content_loop string.capacity emitter string).map
    (fun emitter => { emitter with is_whitespace := false, is_indention := false })

/-- The characters of a URI that the specification lets through: alphanumeric
or one of `; / ? : @ & = + $ , _ . ~ * ' ( ) [ ]`. -/
def is_uri_character (octet : yaml_char_t) : Bool :=
  is_alphanumeric octet
  || octet == 0x3B || octet == 0x2F || octet == 0x3F || octet == 0x3A || octet == 0x40
  || octet == 0x26 || octet == 0x3D || octet == 0x2B || octet == 0x24 || octet == 0x2C
  || octet == 0x5F || octet == 0x2E || octet == 0x7E || octet == 0x2A || octet == 0x27
  || octet == 0x28 || octet == 0x29 || octet == 0x5B || octet == 0x5D

/-- The uppercase hexadecimal digit for a value below 16. -/
def uppercase_hex_digit (digit : Nat) : yaml_char_t :=
  [0x30, 0x31, 0x32, 0x33, 0x34, 0x35, 0x36, 0x37, 0x38, 0x39,
   0x41, 0x42, 0x43, 0x44, 0x45, 0x46].getD digit 0

/-- The percent-encoding named by the specification: a URI character is kept,
any other octet becomes `%` and its two uppercase hexadecimal digits. -/
def percent_encode (value : List yaml_char_t) : List yaml_char_t :=
  value.flatMap (fun octet =>
    if is_uri_character octet then [octet]
    else [0x25, uppercase_hex_digit (octet / 16), uppercase_hex_digit (octet % 16)])

/-- The percent-encoding of octets that are not URI characters. -/
def percent_escape (octets : List yaml_char_t) : List yaml_char_t :=
  octets.flatMap (fun octet =>
    [0x25, uppercase_hex_digit (octet / 16), uppercase_hex_digit (octet % 16)])

/-- The value of a hexadecimal digit character, of either case. -/
def hex_value (character : yaml_char_t) : Option Nat :=
  if 0x30 ≤ character ∧ character ≤ 0x39 then some (character - 0x30)
  else if 0x41 ≤ character ∧ character ≤ 0x46 then some (character - 0x41 + 10)
  else if 0x61 ≤ character ∧ character ≤ 0x66 then some (character - 0x61 + 10)
  else none

/-- Percent-decoding: `%` and two hexadecimal digits stand for one octet, any
other octet for itself; `none` when a `%` is not followed by two digits. -/
def percent_decode : List yaml_char_t → Option (List yaml_char_t)
  | [] => some []
  | character :: rest =>
    if character = 0x25 then
      match rest with
      | high :: low :: rest =>
        match hex_value high, hex_value low with
        | some h, some l => (percent_decode rest).map (fun decoded => (h * 16 + l) :: decoded)
        | _, _ => none
      | _ => none
    else (percent_decode rest).map (fun decoded => character :: decoded)

/-! ## Chomping -/

/-- The loop `do { string.pointer --; } while ((OCTET(string) & 0xC0) == 0x80);`
of `yaml_emitter_determine_chomping` (emitter.c 2151-2153 and 2158-2160), from
the given value of the pointer: the string at the position reached, `none`
when the pointer would be decremented below the start of the buffer. -/
def determine_chomping_back (string : yaml_string_t) : Nat → Option yaml_string_t
  | 0 => none
  | pointer + 1 =>
    if OCTET_AT { string with pointer := pointer } 0 &&& 0xC0 = 0x80 then
      determine_chomping_back string pointer
    else some { string with pointer := pointer }

/-- Embedding of `yaml_emitter_determine_chomping` (emitter.c 2144-2165); `none`
when one of the two backward loops leaves the buffer. -/
def yaml_emitter_determine_chomping (_emitter : yaml_emitter_t) (string : yaml_string_t) :
    Option Int :=
  let string := { string with pointer := string.capacity }
  if string.pointer = 0 then some (-1)
  else
    match determine_chomping_back string string.pointer with
    | none => none
    | some string =>
      if !IS_BREAK string then some (-1)
      else if string.pointer = 0 then some 0
      else
        match determine_chomping_back string string.pointer with
        | none => none
        | some string => if !IS_BREAK string then some 0 else some 1

/-- The character is a line break: CR, LF, NEL (`C2 85`), LS (`E2 80 A8`) or PS
(`E2 80 A9`). -/
def is_break_character (octets : List yaml_char_t) : Bool :=
  match octets with
  | [b0] => b0 == 0x0D || b0 == 0x0A
  | [b0, b1] => b0 == 0xC2 && b1 == 0x85
  | [b0, b1, b2] => b0 == 0xE2 && b1 == 0x80 && (b2 == 0xA8 || b2 == 0xA9)
  | _ => false

/-- The number of line breaks at the end of a string of characters. -/
def trailing_breaks (characters : List (List yaml_char_t)) : Nat :=
  (characters.reverse.takeWhile is_break_character).length

/-! ## Plain scalars -/

/-- One iteration of the loop of `yaml_emitter_write_plain_scalar` (emitter.c
1889-1919) on the character under the pointer: the emitter, the string and the
locals `spaces` and `breaks` afterwards. -/
def write_plain_step (allow_breaks : Bool) (emitter : yaml_emitter_t) (string : yaml_string_t)
    (spaces breaks : Bool) : yaml_emitter_t × yaml_string_t × Bool × Bool :=
  if IS_SPACE string then
    if allow_breaks && !spaces && decide (emitter.column > emitter.best_width)
        && !IS_SPACE_AT string 1 then
      (yaml_emitter_write_indent emitter, MOVE string, true, breaks)
    else
      ((WRITE emitter string).1, (WRITE emitter string).2, true, breaks)
  else if IS_BREAK string then
    let emitter := if !breaks && CHECK string 0x0A then PUT_BREAK emitter else emitter
    ({ (WRITE_BREAK emitter string).1 with is_indention := true },
      (WRITE_BREAK emitter string).2, spaces, true)
  else
    let emitter := if breaks then yaml_emitter_write_indent emitter else emitter
    ({ (WRITE emitter string).1 with is_indention := false },
      (WRITE emitter string).2, false, false)

/-- The loop `while (string.pointer < string.capacity)` of
`yaml_emitter_write_plain_scalar` (emitter.c 1887-1920), for at most `fuel`
characters; `none` when it is still running after them. -/
def write_plain_loop (allow_breaks : Bool) :
    Nat → yaml_emitter_t → yaml_string_t → Bool → Bool → Option yaml_emitter_t
  | 0, emitter, string, _, _ =>
    if string.pointer < string.capacity then none else some emitter
  | fuel + 1, emitter, string, spaces, breaks =>
    if string.pointer < string.capacity then
      write_plain_loop allow_breaks fuel
        (write_plain_step allow_breaks emitter string spaces breaks).1
        (write_plain_step allow_breaks emitter string spaces breaks).2.1
        (write_plain_step allow_breaks emitter string spaces breaks).2.2.1
        (write_plain_step allow_breaks emitter string spaces breaks).2.2.2
    else some emitter

/-- Embedding of `yaml_emitter_write_plain_scalar` (emitter.c 1875-1927) on the
value and its length; every iteration of the loop that ends moves the pointer
forward, so `length` iterations are enough. -/
def yaml_emitter_write_plain_scalar (emitter : yaml_emitter_t) (value : List yaml_char_t)
    (allow_breaks : Bool) : Option yaml_emitter_t :=
  let string := STRING value value.length
  let emitter := if !emitter.is_whitespace then PUT emitter 0x20 else emitter
  (write_plain_loop allow_breaks string.capacity emitter string false false).map
    (fun emitter => { emitter with is_whitespace := false, is_indention := false })

/-! ## Double-quoted scalars -/

/-- Modelled from the spec: the macro `IS_BOM` of `yaml_private.h` is not part
of the source file; the character is the byte order mark `U+FEFF`, in UTF-8
`EF BB BF`. -/
def IS_BOM (string : yaml_string_t) : Bool :=
  CHECK_AT string 0xEF 0 && CHECK_AT string 0xBB 1 && CHECK_AT string 0xBF 2

/-- The test of `yaml_emitter_write_double_quoted_scalar` for a character that
is written as an escape (emitter.c 2002-2004). -/
def write_double_quoted_is_escaped (emitter : yaml_emitter_t) (string : yaml_string_t) : Bool :=
  !IS_PRINTABLE string || (!emitter.is_unicode && !IS_ASCII string)
  || IS_BOM string || IS_BREAK string
  || CHECK string 0x22 || CHECK string 0x5C

/-- The local `width` of the escape branch (emitter.c 2012-2015): the length
of the UTF-8 character by the masks of its first octet. -/
def double_quoted_width (octet : yaml_char_t) : Nat :=
  if octet &&& 0x80 = 0x00 then 1
  else if octet &&& 0xE0 = 0xC0 then 2
  else if octet &&& 0xF0 = 0xE0 then 3
  else if octet &&& 0xF8 = 0xF0 then 4
  else 0

/-- The first value of the local `value` of the escape branch (emitter.c
2016-2019): the payload bits of the first octet. -/
def double_quoted_lead (octet : yaml_char_t) : Nat :=
  if octet &&& 0x80 = 0x00 then octet &&& 0x7F
  else if octet &&& 0xE0 = 0xC0 then octet &&& 0x1F
  else if octet &&& 0xF0 = 0xE0 then octet &&& 0x0F
  else if octet &&& 0xF8 = 0xF0 then octet &&& 0x07
  else 0

/-- The loop `for (idx = 1; idx < width; idx ++)` of the escape branch
(emitter.c 2020-2023), which shifts the payload of the following octets into
`value`; with at most three of them `value` stays below `2^21`, inside an
`unsigned int`. -/
def double_quoted_value (string : yaml_string_t) (width : Nat) (value : Nat) : Nat :=
  (List.range' 1 (width - 1)).foldl
    (fun value idx => (value <<< 6) + (OCTET_AT string idx &&& 0x3F)) value

/-- The loop `for (idx = (width-1)*4; idx >= 0; idx -= 4)` of the escape branch
(emitter.c 2103-2107): the `width` hexadecimal digits of `value`, the highest
first. -/
def double_quoted_hex : Nat → Nat → List yaml_char_t
  | 0, _ => []
  | width + 1, value =>
    hex_digit ((value >>> (width * 4)) &&& 0x0F) :: double_quoted_hex width value

/-- The `switch (value)` of the escape branch (emitter.c 2028-2108): the octets
written after the backslash. -/
def double_quoted_escape (value : Nat) : List yaml_char_t :=
  if value = 0x00 then [0x30]
  else if value = 0x07 then [0x61]
  else if value = 0x08 then [0x62]
  else if value = 0x09 then [0x74]
  else if value = 0x0A then [0x6E]
  else if value = 0x0B then [0x76]
  else if value = 0x0C then [0x66]
  else if value = 0x0D then [0x72]
  else if value = 0x1B then [0x65]
  else if value = 0x22 then [0x22]
  else if value = 0x5C then [0x5C]
  else if value = 0x85 then [0x4E]
  else if value = 0xA0 then [0x5F]
  else if value = 0x2028 then [0x4C]
  else if value = 0x2029 then [0x50]
  else if value ≤ 0xFF then 0x78 :: double_quoted_hex 2 value
  else if value ≤ 0xFFFF then 0x75 :: double_quoted_hex 4 value
  else 0x55 :: double_quoted_hex 8 value

/-- One iteration of the loop of `yaml_emitter_write_double_quoted_scalar`
(emitter.c 2002-2133) on the character under the pointer: the emitter, the
string and the local `spaces` afterwards. -/
def write_double_quoted_step (allow_breaks : Bool) (emitter : yaml_emitter_t)
    (string : yaml_string_t) (spaces : Bool) : yaml_emitter_t × yaml_string_t × Bool :=
  if write_double_quoted_is_escaped emitter string then
    let octet := OCTET_AT string 0
    let width := double_quoted_width octet
    let value := double_quoted_value string width (double_quoted_lead octet)
    ((double_quoted_escape value).foldl PUT (PUT emitter 0x5C),
      { string with pointer := string.pointer + width }, false)
  else if IS_SPACE string then
    if allow_breaks && !spaces && decide (emitter.column > emitter.best_width)
        && string.pointer != 0 && string.pointer != string.capacity - 1 then
      let emitter := yaml_emitter_write_indent emitter
      let emitter := if IS_SPACE_AT string 1 then PUT emitter 0x5C else emitter
      (emitter, MOVE string, true)
    else
      ((WRITE emitter string).1, (WRITE emitter string).2, true)
  else
    ((WRITE emitter string).1, (WRITE emitter string).2, false)

/-- The loop `while (string.pointer < string.capacity)` of
`yaml_emitter_write_double_quoted_scalar` (emitter.c 2000-2134), for at most
`fuel` characters; `none` when it is still running after them. -/
def write_double_quoted_loop (allow_breaks : Bool) :
    Nat → yaml_emitter_t → yaml_string_t → Bool → Option yaml_emitter_t
  | 0, emitter, string, _ =>
    if string.pointer < string.capacity then none else some emitter
  | fuel + 1, emitter, string, spaces =>
    if string.pointer < string.capacity then
      write_double_quoted_loop allow_breaks fuel
        (write_double_quoted_step allow_breaks emitter string spaces).1
        (write_double_quoted_step allow_breaks emitter string spaces).2.1
        (write_double_quoted_step allow_breaks emitter string spaces).2.2
    else some emitter

/-- Embedding of `yaml_emitter_write_double_quoted_scalar` (emitter.c
1990-2142) on the value and its length; every iteration of the loop that ends
moves the pointer forward, so `length` iterations are enough. -/
def yaml_emitter_write_double_quoted_scalar (emitter : yaml_emitter_t)
    (value : List yaml_char_t) (allow_breaks : Bool) : Option yaml_emitter_t :=
  let string := STRING value value.length
  (yaml_emitter_write_indicator emitter [0x22] true false false).bind fun emitter =>
  (write_double_quoted_loop allow_breaks string.capacity emitter string false).bind
    fun emitter =>
  (yaml_emitter_write_indicator emitter [0x22] false false false).map
    fun emitter => { emitter with is_whitespace := false, is_indention := false }

/-! ### Reading a double-quoted scalar -/

/-- The code point of a UTF-8 character. -/
def utf8_code_point (octets : List yaml_char_t) : Nat :=
  match octets with
  | [b0] => b0
  | [b0, b1] => (b0 - 0xC0) * 0x40 + (b1 - 0x80)
  | [b0, b1, b2] => (b0 - 0xE0) * 0x1000 + (b1 - 0x80) * 0x40 + (b2 - 0x80)
  | [b0, b1, b2, b3] =>
    (b0 - 0xF0) * 0x40000 + (b1 - 0x80) * 0x1000 + (b2 - 0x80) * 0x40 + (b3 - 0x80)
  | _ => 0

/-- The UTF-8 character of a code point, in shortest form. -/
def utf8_encode (code_point : Nat) : List yaml_char_t :=
  if code_point < 0x80 then [code_point]
  else if code_point < 0x800 then [0xC0 + code_point / 0x40, 0x80 + code_point % 0x40]
  else if code_point < 0x10000 then
    [0xE0 + code_point / 0x1000, 0x80 + code_point / 0x40 % 0x40, 0x80 + code_point % 0x40]
  else
    [0xF0 + code_point / 0x40000, 0x80 + code_point / 0x1000 % 0x40,
     0x80 + code_point / 0x40 % 0x40, 0x80 + code_point % 0x40]

/-- The named escapes of the specification: the letter that stands for the
code point after a backslash, for `0x00`, `0x07`-`0x0D`, `0x1B`, `"`, `\`,
`0x85`, `0xA0`, `0x2028` and `0x2029`. -/
def escape_letter (code_point : Nat) : Option yaml_char_t :=
  [(0x00, 0x30), (0x07, 0x61), (0x08, 0x62), (0x09, 0x74), (0x0A, 0x6E), (0x0B, 0x76),
   (0x0C, 0x66), (0x0D, 0x72), (0x1B, 0x65), (0x22, 0x22), (0x5C, 0x5C), (0x85, 0x4E),
   (0xA0, 0x5F), (0x2028, 0x4C), (0x2029, 0x50)].lookup code_point

/-- The escapes of a YAML 1.1 double-quoted scalar that are one character after
the backslash: the code point that the character stands for. -/
def escape_code_point (letter : yaml_char_t) : Option Nat :=
  [(0x30, 0x00), (0x61, 0x07), (0x62, 0x08), (0x74, 0x09), (0x09, 0x09), (0x6E, 0x0A),
   (0x76, 0x0B), (0x66, 0x0C), (0x72, 0x0D), (0x65, 0x1B), (0x20, 0x20), (0x22, 0x22),
   (0x2F, 0x2F), (0x5C, 0x5C), (0x4E, 0x85), (0x5F, 0xA0), (0x4C, 0x2028),
   (0x50, 0x2029)].lookup letter

/-- An uppercase hexadecimal digit, `0`-`9` or `A`-`F`. -/
def is_uppercase_hex_digit (character : yaml_char_t) : Bool :=
  (0x30 ≤ character && character ≤ 0x39) || (0x41 ≤ character && character ≤ 0x46)

/-- The number written by hexadecimal digits, after the number `value` of the
digits before them; `none` when one of them is not a hexadecimal digit. -/
def hex_number (value : Nat) : List yaml_char_t → Option Nat
  | [] => some value
  | character :: rest =>
    match hex_value character with
    | some digit => hex_number (value * 16 + digit) rest
    | none => none

/-- Where the reader of a double-quoted scalar is: before the opening quote, in
the text, after a backslash, in the hexadecimal digits of an escape (so many
digits to come, after the number read so far), after the closing quote, or
stopped at something that is not a double-quoted scalar. -/
inductive double_quoted_mode where
  | opening
  | text
  | escape
  | hex (digits : Nat) (value : Nat)
  | closed
  | error
  deriving DecidableEq, Repr

/-- The reader of a double-quoted scalar: where it is and what it has
decoded. -/
structure double_quoted_state where
  mode : double_quoted_mode := double_quoted_mode.opening
  decoded : List yaml_char_t := []
  deriving DecidableEq, Repr

/-- The reader of a double-quoted scalar on one octet, by the rules of YAML
1.1: the quotes are stripped, a backslash starts an escape, which is replaced
by the UTF-8 form of its code point, any other octet stands for itself.  (Line
folding is left out: a scalar written on one line is read.) -/
def double_quoted_decode_step (state : double_quoted_state) (octet : yaml_char_t) :
    double_quoted_state :=
  match state.mode with
  | double_quoted_mode.opening =>
    if octet = 0x22 then { state with mode := double_quoted_mode.text }
    else { state with mode := double_quoted_mode.error }
  | double_quoted_mode.text =>
    if octet = 0x22 then { state with mode := double_quoted_mode.closed }
    else if octet = 0x5C then { state with mode := double_quoted_mode.escape }
    else { state with decoded := state.decoded ++ [octet] }
  | double_quoted_mode.escape =>
    match escape_code_point octet with
    | some code_point =>
      { mode := double_quoted_mode.text, decoded := state.decoded ++ utf8_encode code_point }
    | none =>
      if octet = 0x78 then { state with mode := double_quoted_mode.hex 2 0 }
      else if octet = 0x75 then { state with mode := double_quoted_mode.hex 4 0 }
      else if octet = 0x55 then { state with mode := double_quoted_mode.hex 8 0 }
      else { state with mode := double_quoted_mode.error }
  | double_quoted_mode.hex digits value =>
    match hex_value octet with
    | some digit =>
      if digits ≤ 1 then
        { mode := double_quoted_mode.text,
          decoded := state.decoded ++ utf8_encode (value * 16 + digit) }
      else { state with mode := double_quoted_mode.hex (digits - 1) (value * 16 + digit) }
    | none => { state with mode := double_quoted_mode.error }
  | double_quoted_mode.closed => { state with mode := double_quoted_mode.error }
  | double_quoted_mode.error => state

/-- The value of a double-quoted scalar given with its quotes; `none` when the
octets are not one double-quoted scalar. -/
def double_quoted_decode (quoted : List yaml_char_t) : Option (List yaml_char_t) :=
  let state := quoted.foldl double_quoted_decode_step {}
  if state.mode = double_quoted_mode.closed then some state.decoded else none

/-! ## Stacks, queue and flush

The macros `PUSH`, `POP`, `STACK_EMPTY`, `ENQUEUE` and `DEQUEUE` live in
`yaml_private.h` and `yaml_emitter_flush` in `writer.c`, none of them among the
source files.  Memory allocation is taken to succeed and the sink to accept
every write, so `PUSH`, `ENQUEUE` and `yaml_emitter_flush` return `1`.  The
stacks `states` and `indents` are lists from the top down; the stack
`tag_directives` is the list in index order, as `yaml_emitter_analyze_tag` and
`yaml_emitter_append_tag_directive` walk it from index `0`. -/

/-- Modelled from the spec: the macro `PUSH` of `yaml_private.h` is not part of
the source file; the value becomes the top of the stack. -/
def PUSH {α : Type} (stack : List α) (value : α) : List α :=
  value :: stack

/-- Modelled from the spec: the macro `POP` of `yaml_private.h` is not part of
the source file; the top of the stack and the stack below it, `none` on an
empty stack (where the C macro reads below the start of the stack). -/
def POP {α : Type} (stack : List α) : Option (α × List α) :=
  match stack with
  | [] => none
  | top :: rest => some (top, rest)

/-- The C idiom `if (!f(emitter, ...)) return 0;` followed by the rest of the
function: the rest runs on the emitter left by a call that returned `1`. -/
def or_return (result : Option (Bool × yaml_emitter_t))
    (rest : yaml_emitter_t → Option (Bool × yaml_emitter_t)) :
    Option (Bool × yaml_emitter_t) :=
  match result with
  | none => none
  | some (false, emitter) => some (false, emitter)
  | some (true, emitter) => rest emitter

/-- Embedding of `yaml_emitter_append_tag_directive` (emitter.c 350-382);
`strcmp` is equality of the handles, `yaml_strdup` and `PUSH` succeed. -/
def yaml_emitter_append_tag_directive (emitter : yaml_emitter_t)
    (value : yaml_tag_directive_t) (allow_duplicates : Bool) : Bool × yaml_emitter_t :=
  if emitter.tag_directives.any (fun tag_directive => value.handle == tag_directive.handle) then
    if allow_duplicates then (true, emitter)
    else (false, EMITTER_ERROR_INIT emitter "duplicate %TAG directive")
  else (true, { emitter with tag_directives := emitter.tag_directives ++ [value] })

/-- Embedding of `yaml_emitter_increase_indent` (emitter.c 388-403). -/
def yaml_emitter_increase_indent (emitter : yaml_emitter_t) (flow indentless : Bool) :
    yaml_emitter_t :=
  let emitter := { emitter with indents := PUSH emitter.indents emitter.indent }
  if emitter.indent < 0 then
    { emitter with indent := if flow then emitter.best_indent else 0 }
  else if !indentless then
    { emitter with indent := emitter.indent + emitter.best_indent }
  else emitter

/-! ## Analyzers of directives, tags and events -/

/-- Embedding of `yaml_emitter_analyze_version_directive` (emitter.c
1299-1308). -/
def yaml_emitter_analyze_version_directive (emitter : yaml_emitter_t)
    (version_directive : yaml_version_directive_t) : Bool × yaml_emitter_t :=
  if version_directive.major ≠ 1 ∨ version_directive.minor ≠ 1 then
    (false, EMITTER_ERROR_INIT emitter "incompatible %YAML directive")
  else (true, emitter)

/-- The loop of `yaml_emitter_analyze_tag` over the tag directives (emitter.c
1398-1411): the handle and the suffix of the first directive whose prefix is
shorter than the tag and starts it, `none` when there is none. -/
def analyze_tag_loop (tag : List yaml_char_t) :
    List yaml_tag_directive_t → Option (List yaml_char_t × List yaml_char_t)
  | [] => none
  | tag_directive :: rest =>
    if tag_directive.prefix_.length < tag.length
        ∧ tag.take tag_directive.prefix_.length = tag_directive.prefix_ then
      some (tag_directive.handle, tag.drop tag_directive.prefix_.length)
    else analyze_tag_loop tag rest

/-- Embedding of `yaml_emitter_analyze_tag` (emitter.c 1387-1417); the tag is a
C string, `strlen` is the length of the list. -/
def yaml_emitter_analyze_tag (emitter : yaml_emitter_t) (tag : List yaml_char_t) :
    Bool × yaml_emitter_t :=
  let string := STRING tag tag.length
  if string.capacity = 0 then
    (false, EMITTER_ERROR_INIT emitter "tag value must not be empty")
  else
    match analyze_tag_loop string.buffer emitter.tag_directives with
    | some (handle, suffix) =>
      (true, { emitter with
        tag_data := { handle := some handle, handle_length := handle.length,
                      suffix := some suffix, suffix_length := suffix.length } })
    | none =>
      (true, { emitter with
        tag_data := { emitter.tag_data with
          suffix := some string.buffer, suffix_length := string.capacity } })

/-- The assignments at the start of `yaml_emitter_analyze_event` (emitter.c
1667-1674). -/
def analyze_event_reset (emitter : yaml_emitter_t) : yaml_emitter_t :=
  { emitter with
    anchor_data := { emitter.anchor_data with anchor := none, anchor_length := 0 },
    tag_data := { handle := none, handle_length := 0, suffix := none, suffix_length := 0 },
    scalar_data := { emitter.scalar_data with value := none, length := 0 } }

/-- The analysis of the anchor of a SCALAR, SEQUENCE-START or MAPPING-START
event in `yaml_emitter_analyze_event`: `if (anchor) { if
(!yaml_emitter_analyze_anchor(emitter, anchor, 0)) return 0; }`. -/
def analyze_event_anchor (emitter : yaml_emitter_t) (anchor : Option (List yaml_char_t)) :
    Option (Bool × yaml_emitter_t) :=
  match anchor with
  | none => some (true, emitter)
  | some anchor => yaml_emitter_analyze_anchor emitter anchor false

/-- The analysis of the tag of a SCALAR, SEQUENCE-START or MAPPING-START event
in `yaml_emitter_analyze_event`: `if (tag && (emitter->is_canonical ||
!implicit)) { if (!yaml_emitter_analyze_tag(emitter, tag)) return 0; }`. -/
def analyze_event_tag (emitter : yaml_emitter_t) (tag : Option (List yaml_char_t))
    (is_implicit : Bool) : Option (Bool × yaml_emitter_t) :=
  match tag with
  | none => some (true, emitter)
  | some tag =>
    if emitter.is_canonical || !is_implicit then some (yaml_emitter_analyze_tag emitter tag)
    else some (true, emitter)

/-- Embedding of `yaml_emitter_analyze_event` (emitter.c 1663-1731). -/
def yaml_emitter_analyze_event (emitter : yaml_emitter_t) (event : yaml_event_t) :
    Option (Bool × yaml_emitter_t) :=
  let emitter := analyze_event_reset emitter
  match event.type with
  | YAML_ALIAS_EVENT => yaml_emitter_analyze_anchor emitter event.data.alias_.anchor true
  | YAML_SCALAR_EVENT =>
    or_return (analyze_event_anchor emitter event.data.scalar.anchor) fun emitter =>
    or_return (analyze_event_tag emitter event.data.scalar.tag
      (event.data.scalar.is_plain_implicit || event.data.scalar.is_quoted_implicit))
      fun emitter =>
    yaml_emitter_analyze_scalar emitter event.data.scalar.value
  | YAML_SEQUENCE_START_EVENT =>
    or_return (analyze_event_anchor emitter event.data.sequence_start.anchor) fun emitter =>
    analyze_event_tag emitter event.data.sequence_start.tag
      event.data.sequence_start.is_implicit
  | YAML_MAPPING_START_EVENT =>
    or_return (analyze_event_anchor emitter event.data.mapping_start.anchor) fun emitter =>
    analyze_event_tag emitter event.data.mapping_start.tag
      event.data.mapping_start.is_implicit
  | _ => some (true, emitter)

/-! ## Writers of the byte order mark, anchors and tag handles -/

/-- Embedding of `yaml_emitter_write_bom` (emitter.c 1738-1748): the three
octets are joined to the output, the column is not touched. -/
def yaml_emitter_write_bom (emitter : yaml_emitter_t) : yaml_emitter_t :=
  { emitter with output := emitter.output ++ [0xEF, 0xBB, 0xBF] }

/-- Embedding of `yaml_emitter_write_anchor` (emitter.c 1791-1805). -/
def yaml_emitter_write_anchor (emitter : yaml_emitter_t) (value : List yaml_char_t) :
    Option yaml_emitter_t :=
  let string := STRING value value.length
  (write_string_loop string.capacity emitter string).map
    (fun emitter => { emitter with is_whitespace := false, is_indention := false })

/-- Embedding of `yaml_emitter_write_tag_handle` (emitter.c 1807-1825). -/
def yaml_emitter_write_tag_handle (emitter : yaml_emitter_t) (value : List yaml_char_t) :
    Option yaml_emitter_t :=
  let string := STRING value value.length
  let emitter := if !emitter.is_whitespace then PUT emitter 0x20 else emitter
  (write_string_loop string.capacity emitter string).map
    (fun emitter => { emitter with is_whitespace := false, is_indention := false })

/-! ## Single-quoted, literal and folded scalars -/

/-- One iteration of the loop of `yaml_emitter_write_single_quoted_scalar`
(emitter.c 1942-1978) on the character under the pointer: the emitter, the
string and the locals `spaces` and `breaks` afterwards. -/
def write_single_quoted_step (allow_breaks : Bool) (emitter : yaml_emitter_t)
    (string : yaml_string_t) (spaces breaks : Bool) :
    yaml_emitter_t × yaml_string_t × Bool × Bool :=
  if IS_SPACE string then
    if allow_breaks && !spaces && decide (emitter.column > emitter.best_width)
        && string.pointer != 0 && string.pointer != string.capacity - 1
        && !IS_SPACE_AT string 1 then
      (yaml_emitter_write_indent emitter, MOVE string, true, breaks)
    else
      ((WRITE emitter string).1, (WRITE emitter string).2, true, breaks)
  else if IS_BREAK string then
    let emitter := if !breaks && CHECK string 0x0A then PUT_BREAK emitter else emitter
    ({ (WRITE_BREAK emitter string).1 with is_indention := true },
      (WRITE_BREAK emitter string).2, spaces, true)
  else
    let emitter := if breaks then yaml_emitter_write_indent emitter else emitter
    let emitter := if CHECK string 0x27 then PUT emitter 0x27 else emitter
    ({ (WRITE emitter string).1 with is_indention := false },
      (WRITE emitter string).2, false, false)

/-- The loop `while (string.pointer < string.capacity)` of
`yaml_emitter_write_single_quoted_scalar` (emitter.c 1940-1979), for at most
`fuel` characters; `none` when it is still running after them. -/
def write_single_quoted_loop (allow_breaks : Bool) :
    Nat → yaml_emitter_t → yaml_string_t → Bool → Bool → Option yaml_emitter_t
  | 0, emitter, string, _, _ =>
    if string.pointer < string.capacity then none else some emitter
  | fuel + 1, emitter, string, spaces, breaks =>
    if string.pointer < string.capacity then
      write_single_quoted_loop allow_breaks fuel
        (write_single_quoted_step allow_breaks emitter string spaces breaks).1
        (write_single_quoted_step allow_breaks emitter string spaces breaks).2.1
        (write_single_quoted_step allow_breaks emitter string spaces breaks).2.2.1
        (write_single_quoted_step allow_breaks emitter string spaces breaks).2.2.2
    else some emitter

/-- Embedding of `yaml_emitter_write_single_quoted_scalar` (emitter.c
1928-1988) on the value and its length. -/
def yaml_emitter_write_single_quoted_scalar (emitter : yaml_emitter_t)
    (value : List yaml_char_t) (allow_breaks : Bool) : Option yaml_emitter_t :=
  let string := STRING value value.length
  (yaml_emitter_write_indicator emitter [0x27] true false false).bind fun emitter =>
  (write_single_quoted_loop allow_breaks string.capacity emitter string false false).bind
    fun emitter =>
  (yaml_emitter_write_indicator emitter [0x27] false false false).map
    fun emitter => { emitter with is_whitespace := false, is_indention := false }

/-- The indicator of a block scalar with its chomping indicator: the C
expression `chomp == -1 ? "|-" : chomp == +1 ? "|+" : "|"` (emitter.c 2176,
and 2212 with `>`). -/
def block_scalar_indicator (indicator : yaml_char_t) (chomp : Int) : List yaml_char_t :=
  if chomp = -1 then [indicator, 0x2D]
  else if chomp = 1 then [indicator, 0x2B]
  else [indicator]

/-- One iteration of the loop of `yaml_emitter_write_literal_scalar` (emitter.c
2183-2197): the emitter, the string and the local `breaks` afterwards. -/
def write_literal_step (emitter : yaml_emitter_t) (string : yaml_string_t) (breaks : Bool) :
    yaml_emitter_t × yaml_string_t × Bool :=
  if IS_BREAK string then
    ({ (WRITE_BREAK emitter string).1 with is_indention := true },
      (WRITE_BREAK emitter string).2, true)
  else
    let emitter := if breaks then yaml_emitter_write_indent emitter else emitter
    ({ (WRITE emitter string).1 with is_indention := false },
      (WRITE emitter string).2, false)

/-- The loop `while (string.pointer < string.capacity)` of
`yaml_emitter_write_literal_scalar` (emitter.c 2181-2198), for at most `fuel`
characters; `none` when it is still running after them. -/
def write_literal_loop :
    Nat → yaml_emitter_t → yaml_string_t → Bool → Option yaml_emitter_t
  | 0, emitter, string, _ =>
    if string.pointer < string.capacity then none else some emitter
  | fuel + 1, emitter, string, breaks =>
    if string.pointer < string.capacity then
      write_literal_loop fuel
        (write_literal_step emitter string breaks).1
        (write_literal_step emitter string breaks).2.1
        (write_literal_step emitter string breaks).2.2
    else some emitter

/-- Embedding of `yaml_emitter_write_literal_scalar` (emitter.c 2167-2201) on
the value and its length. -/
def yaml_emitter_write_literal_scalar (emitter : yaml_emitter_t) (value : List yaml_char_t) :
    Option yaml_emitter_t :=
  let string := STRING value value.length
  (yaml_emitter_determine_chomping emitter string).bind fun chomp =>
  (yaml_emitter_write_indicator emitter (block_scalar_indicator 0x7C chomp)
    true false false).bind fun emitter =>
  write_literal_loop string.capacity (yaml_emitter_write_indent emitter) string false

/-- Modelled from the spec: the macro `WIDTH_AT` of `yaml_private.h` is not part
of the source file; `WIDTH` of the character that starts at the offset. -/
def WIDTH_AT (string : yaml_string_t) (offset : Nat) : Nat :=
  WIDTH { string with pointer := string.pointer + offset }

/-- Modelled from the spec: the macro `IS_BLANK_AT` of `yaml_private.h` is not
part of the source file; a space or a tab at the offset. -/
def IS_BLANK_AT (string : yaml_string_t) (offset : Nat) : Bool :=
  IS_SPACE_AT string offset || CHECK_AT string 0x09 offset

/-- Modelled from the spec: the macro `IS_BLANK` of `yaml_private.h`. -/
def IS_BLANK (string : yaml_string_t) : Bool :=
  IS_BLANK_AT string 0

/-- The loop `while (IS_BREAK_AT(string, k)) { k += WIDTH_AT(string, k); }` of
`yaml_emitter_write_folded_scalar` (emitter.c 2222-2224), for at most `fuel`
line breaks: the offset reached, `none` when it is still running. -/
def write_folded_skip_breaks (string : yaml_string_t) : Nat → Nat → Option Nat
  | 0, k => if IS_BREAK_AT string k then none else some k
  | fuel + 1, k =>
    if IS_BREAK_AT string k then write_folded_skip_breaks string fuel (k + WIDTH_AT string k)
    else some k

/-- One iteration of the loop of `yaml_emitter_write_folded_scalar` (emitter.c
2218-2250): the emitter, the string and the locals `breaks` and
`leading_spaces` afterwards; `none` when the inner loop over the line breaks
does not end. -/
def write_folded_step (emitter : yaml_emitter_t) (string : yaml_string_t)
    (breaks leading_spaces : Bool) : Option (yaml_emitter_t × yaml_string_t × Bool × Bool) :=
  if IS_BREAK string then
    let written : Option yaml_emitter_t :=
      if !breaks && !leading_spaces && CHECK string 0x0A then
        (write_folded_skip_breaks string (string.capacity + 1) 0).map fun k =>
          if !IS_BLANK_AT string k then PUT_BREAK emitter else emitter
      else some emitter
    written.map fun emitter =>
      ({ (WRITE_BREAK emitter string).1 with is_indention := true },
        (WRITE_BREAK emitter string).2, true, leading_spaces)
  else
    let emitter := if breaks then yaml_emitter_write_indent emitter else emitter
    let leading_spaces := if breaks then IS_BLANK string else leading_spaces
    if !breaks && IS_SPACE string && !IS_SPACE_AT string 1
        && decide (emitter.column > emitter.best_width) then
      some ({ yaml_emitter_write_indent emitter with is_indention := false },
        MOVE string, false, leading_spaces)
    else
      some ({ (WRITE emitter string).1 with is_indention := false },
        (WRITE emitter string).2, false, leading_spaces)

/-- The loop `while (string.pointer < string.capacity)` of
`yaml_emitter_write_folded_scalar` (emitter.c 2216-2251), for at most `fuel`
characters; `none` when it is still running after them. -/
def write_folded_loop :
    Nat → yaml_emitter_t → yaml_string_t → Bool → Bool → Option yaml_emitter_t
  | 0, emitter, string, _, _ =>
    if string.pointer < string.capacity then none else some emitter
  | fuel + 1, emitter, string, breaks, leading_spaces =>
    if string.pointer < string.capacity then
      (write_folded_step emitter string breaks leading_spaces).bind fun step =>
        write_folded_loop fuel step.1 step.2.1 step.2.2.1 step.2.2.2
    else some emitter

/-- Embedding of `yaml_emitter_write_folded_scalar` (emitter.c 2203-2254) on
the value and its length. -/
def yaml_emitter_write_folded_scalar (emitter : yaml_emitter_t) (value : List yaml_char_t) :
    Option yaml_emitter_t :=
  let string := STRING value value.length
  (yaml_emitter_determine_chomping emitter string).bind fun chomp =>
  (yaml_emitter_write_indicator emitter (block_scalar_indicator 0x3E chomp)
    true false false).bind fun emitter =>
  write_folded_loop string.capacity (yaml_emitter_write_indent emitter) string true false

/-! ## Processors -/

/-- Embedding of `yaml_emitter_process_anchor` (emitter.c 1207-1219); the
indicator is `*` for an alias and `&` for an anchor. -/
def yaml_emitter_process_anchor (emitter : yaml_emitter_t) : Option (Bool × yaml_emitter_t) :=
  match emitter.anchor_data.anchor with
  | none => some (true, emitter)
  | some anchor =>
    (yaml_emitter_write_indicator emitter
      (if emitter.anchor_data.is_alias then [0x2A] else [0x26]) true false false).bind
      fun emitter =>
    (yaml_emitter_write_anchor emitter anchor).map fun emitter => (true, emitter)

/-- Embedding of `yaml_emitter_process_tag` (emitter.c 1225-1254); the
indicators are `!<` and `>`. -/
def yaml_emitter_process_tag (emitter : yaml_emitter_t) : Option (Bool × yaml_emitter_t) :=
  match emitter.tag_data.handle, emitter.tag_data.suffix with
  | none, none => some (true, emitter)
  | some handle, suffix =>
    (yaml_emitter_write_tag_handle emitter handle).bind fun emitter =>
    match suffix with
    | some suffix =>
      (yaml_emitter_write_tag_content emitter suffix false).map fun emitter => (true, emitter)
    | none => some (true, emitter)
  | none, some suffix =>
    (yaml_emitter_write_indicator emitter [0x21, 0x3C] true false false).bind fun emitter =>
    (yaml_emitter_write_tag_content emitter suffix false).bind fun emitter =>
    (yaml_emitter_write_indicator emitter [0x3E] false false false).map
      fun emitter => (true, emitter)

/-- Embedding of `yaml_emitter_process_scalar` (emitter.c 1260-1293); the value
analysed into `scalar_data` is written in the selected style.  A `NULL` value
has length `0` and is the empty string; with the style ANY the C function
falls out of the `switch` and returns `0`. -/
def yaml_emitter_process_scalar (emitter : yaml_emitter_t) : Option (Bool × yaml_emitter_t) :=
  let value := emitter.scalar_data.value.getD []
  match emitter.scalar_data.style with
  | YAML_PLAIN_SCALAR_STYLE =>
    (yaml_emitter_write_plain_scalar emitter value (!emitter.is_simple_key_context)).map
      fun emitter => (true, emitter)
  | YAML_SINGLE_QUOTED_SCALAR_STYLE =>
    (yaml_emitter_write_single_quoted_scalar emitter value
      (!emitter.is_simple_key_context)).map fun emitter => (true, emitter)
  | YAML_DOUBLE_QUOTED_SCALAR_STYLE =>
    (yaml_emitter_write_double_quoted_scalar emitter value
      (!emitter.is_simple_key_context)).map fun emitter => (true, emitter)
  | YAML_LITERAL_SCALAR_STYLE =>
    (yaml_emitter_write_literal_scalar emitter value).map fun emitter => (true, emitter)
  | YAML_FOLDED_SCALAR_STYLE =>
    (yaml_emitter_write_folded_scalar emitter value).map fun emitter => (true, emitter)
  | YAML_ANY_SCALAR_STYLE => some (false, emitter)

/-! ## State functions -/

/-- Embedding of `yaml_emitter_check_empty_document` (emitter.c 1052-1056). -/
def yaml_emitter_check_empty_document (_emitter : yaml_emitter_t) : Bool :=
  false

/-- The statement `emitter->state = POP(emitter, emitter->states);`, with which
a node ends; `none` on an empty stack. -/
def pop_state (emitter : yaml_emitter_t) : Option (Bool × yaml_emitter_t) :=
  (POP emitter.states).map fun popped =>
    (true, { emitter with state := popped.1, states := popped.2 })

/-- The statement `emitter->indent = POP(emitter, emitter->indents);`; `none` on
an empty stack. -/
def pop_indent (emitter : yaml_emitter_t) : Option yaml_emitter_t :=
  (POP emitter.indents).map fun popped =>
    { emitter with indent := popped.1, indents := popped.2 }

/-- The choice of the encoding in `yaml_emitter_emit_stream_start` (emitter.c
486-492): the encoding set on the emitter, else that of the event, else
UTF-8. -/
def emit_stream_start_encoding (emitter : yaml_emitter_t) (event : yaml_event_t) :
    yaml_emitter_t :=
  let emitter :=
    if emitter.encoding = YAML_ANY_ENCODING then
      { emitter with encoding := event.data.stream_start.encoding }
    else emitter
  if emitter.encoding = YAML_ANY_ENCODING then
    { emitter with encoding := YAML_UTF8_ENCODING }
  else emitter

/-- The defaults of the indent, the width and the line break put in by
`yaml_emitter_emit_stream_start` (emitter.c 494-509); `INT_MAX` is
`2147483647`. -/
def emit_stream_start_options (emitter : yaml_emitter_t) : yaml_emitter_t :=
  let emitter :=
    if emitter.best_indent < 2 ∨ emitter.best_indent > 9 then
      { emitter with best_indent := 2 }
    else emitter
  let emitter :=
    if emitter.best_width ≥ 0 ∧ emitter.best_width ≤ emitter.best_indent * 2 then
      { emitter with best_width := 80 }
    else emitter
  let emitter :=
    if emitter.best_width < 0 then { emitter with best_width := 2147483647 }
    else emitter
  if emitter.line_break = YAML_ANY_BREAK then { emitter with line_break := YAML_LN_BREAK }
  else emitter

/-- Embedding of `yaml_emitter_emit_stream_start` (emitter.c 480-529). -/
def yaml_emitter_emit_stream_start (emitter : yaml_emitter_t) (event : yaml_event_t) :
    Option (Bool × yaml_emitter_t) :=
  if event.type = YAML_STREAM_START_EVENT then
    let emitter := emit_stream_start_options (emit_stream_start_encoding emitter event)
    let emitter :=
      { emitter with indent := -1, line := 0, column := 0,
                     is_whitespace := true, is_indention := true }
    let emitter :=
      if emitter.encoding ≠ YAML_UTF8_ENCODING then yaml_emitter_write_bom emitter
      else emitter
    some (true, { emitter with state := YAML_EMIT_FIRST_DOCUMENT_START_STATE })
  else some (false, EMITTER_ERROR_INIT emitter "expected STREAM-START")

/-- The first loop of `yaml_emitter_emit_document_start` (emitter.c 556-562):
each tag directive of the event is analysed and appended, duplicates not
allowed. -/
def emit_document_start_directives :
    List yaml_tag_directive_t → yaml_emitter_t → Option (Bool × yaml_emitter_t)
  | [], emitter => some (true, emitter)
  | tag_directive :: rest, emitter =>
    or_return (yaml_emitter_analyze_tag_directive emitter tag_directive) fun emitter =>
    or_return (some (yaml_emitter_append_tag_directive emitter tag_directive false))
      fun emitter =>
    emit_document_start_directives rest emitter

/-- The array `default_tag_directives` of `yaml_emitter_emit_document_start`
(emitter.c 541-545): `!` for `!` and `!!` for `tag:yaml.org,2002:`. -/
def default_tag_directives : List yaml_tag_directive_t :=
  [{ handle := [0x21], prefix_ := [0x21] },
   { handle := [0x21, 0x21],
     prefix_ := [0x74, 0x61, 0x67, 0x3A, 0x79, 0x61, 0x6D, 0x6C, 0x2E, 0x6F, 0x72, 0x67,
                 0x2C, 0x32, 0x30, 0x30, 0x32, 0x3A] }]

/-- The second loop of `yaml_emitter_emit_document_start` (emitter.c 564-568):
the default tag directives are appended, duplicates allowed. -/
def emit_document_start_defaults :
    List yaml_tag_directive_t → yaml_emitter_t → Option (Bool × yaml_emitter_t)
  | [], emitter => some (true, emitter)
  | tag_directive :: rest, emitter =>
    or_return (some (yaml_emitter_append_tag_directive emitter tag_directive true))
      fun emitter =>
    emit_document_start_defaults rest emitter

/-- The loop of `yaml_emitter_emit_document_start` that writes the tag
directives (emitter.c 587-600): `%TAG`, the handle, the prefix and a new
line for each of them. -/
def emit_document_start_write_directives :
    List yaml_tag_directive_t → yaml_emitter_t → Option yaml_emitter_t
  | [], emitter => some emitter
  | tag_directive :: rest, emitter =>
    (yaml_emitter_write_indicator emitter [0x25, 0x54, 0x41, 0x47] true false false).bind
      fun emitter =>
    (yaml_emitter_write_tag_handle emitter tag_directive.handle).bind fun emitter =>
    (yaml_emitter_write_tag_content emitter tag_directive.prefix_ true).bind fun emitter =>
    emit_document_start_write_directives rest (yaml_emitter_write_indent emitter)

/-- The part of `yaml_emitter_emit_document_start` that writes the start of
the document (emitter.c 570-620), after the directives are checked: the
`%YAML 1.1` line, the `%TAG` lines and `---` unless the document start is
implicit. -/
def emit_document_start_write (emitter : yaml_emitter_t) (event : yaml_event_t)
    (first : Bool) : Option (Bool × yaml_emitter_t) :=
  let is_implicit := event.data.document_start.is_implicit
  let is_implicit := if !first || emitter.is_canonical then false else is_implicit
  let is_implicit :=
    if event.data.document_start.version_directive.isSome then false else is_implicit
  let written : Option yaml_emitter_t :=
    if event.data.document_start.version_directive.isSome then
      (yaml_emitter_write_indicator emitter [0x25, 0x59, 0x41, 0x4D, 0x4C]
        true false false).bind fun emitter =>
      (yaml_emitter_write_indicator emitter [0x31, 0x2E, 0x31] true false false).map
        fun emitter => yaml_emitter_write_indent emitter
    else some emitter
  written.bind fun emitter =>
  let is_implicit :=
    if event.data.document_start.tag_directives.length ≠ 0 then false else is_implicit
  let written : Option yaml_emitter_t :=
    if event.data.document_start.tag_directives.length ≠ 0 then
      emit_document_start_write_directives event.data.document_start.tag_directives emitter
    else some emitter
  written.bind fun emitter =>
  let is_implicit := if yaml_emitter_check_empty_document emitter then false else is_implicit
  let written : Option yaml_emitter_t :=
    if !is_implicit then
      (yaml_emitter_write_indicator (yaml_emitter_write_indent emitter) [0x2D, 0x2D, 0x2D]
        true false false).map fun emitter =>
        if emitter.is_canonical then yaml_emitter_write_indent emitter else emitter
    else some emitter
  written.map fun emitter =>
    (true, { emitter with state := YAML_EMIT_DOCUMENT_CONTENT_STATE })

/-- Embedding of `yaml_emitter_emit_document_start` (emitter.c 535-634). -/
def yaml_emitter_emit_document_start (emitter : yaml_emitter_t) (event : yaml_event_t)
    (first : Bool) : Option (Bool × yaml_emitter_t) :=
  if event.type = YAML_DOCUMENT_START_EVENT then
    or_return
      (match event.data.document_start.version_directive with
       | some version_directive =>
         some (yaml_emitter_analyze_version_directive emitter version_directive)
       | none => some (true, emitter)) fun emitter =>
    or_return
      (emit_document_start_directives event.data.document_start.tag_directives emitter)
      fun emitter =>
    or_return (emit_document_start_defaults default_tag_directives emitter) fun emitter =>
    emit_document_start_write emitter event first
  else if event.type = YAML_STREAM_END_EVENT then
    some (true, { emitter with state := YAML_EMIT_END_STATE })
  else some (false, EMITTER_ERROR_INIT emitter "expected DOCUMENT-START or STREAM-END")

/-- Embedding of `yaml_emitter_emit_alias` (emitter.c 967-975). -/
def yaml_emitter_emit_alias (emitter : yaml_emitter_t) (_event : yaml_event_t) :
    Option (Bool × yaml_emitter_t) :=
  or_return (yaml_emitter_process_anchor emitter) fun emitter =>
  pop_state emitter

/-- Embedding of `yaml_emitter_emit_scalar` (emitter.c 981-998). -/
def yaml_emitter_emit_scalar (emitter : yaml_emitter_t) (event : yaml_event_t) :
    Option (Bool × yaml_emitter_t) :=
  or_return (some (yaml_emitter_select_scalar_style emitter event)) fun emitter =>
  or_return (yaml_emitter_process_anchor emitter) fun emitter =>
  or_return (yaml_emitter_process_tag emitter) fun emitter =>
  or_return (yaml_emitter_process_scalar (yaml_emitter_increase_indent emitter true false))
    fun emitter =>
  (pop_indent emitter).bind fun emitter =>
  pop_state emitter

/-- Embedding of `yaml_emitter_emit_sequence_start` (emitter.c 1004-1022). -/
def yaml_emitter_emit_sequence_start (emitter : yaml_emitter_t) (event : yaml_event_t) :
    Option (Bool × yaml_emitter_t) :=
  or_return (yaml_emitter_process_anchor emitter) fun emitter =>
  or_return (yaml_emitter_process_tag emitter) fun emitter =>
  if emitter.flow_level != 0 || emitter.is_canonical
      || event.data.sequence_start.style == YAML_FLOW_SEQUENCE_STYLE
      || yaml_emitter_check_empty_sequence emitter then
    some (true, { emitter with state := YAML_EMIT_FLOW_SEQUENCE_FIRST_ITEM_STATE })
  else
    some (true, { emitter with state := YAML_EMIT_BLOCK_SEQUENCE_FIRST_ITEM_STATE })

/-- Embedding of `yaml_emitter_emit_mapping_start` (emitter.c 1028-1046). -/
def yaml_emitter_emit_mapping_start (emitter : yaml_emitter_t) (event : yaml_event_t) :
    Option (Bool × yaml_emitter_t) :=
  or_return (yaml_emitter_process_anchor emitter) fun emitter =>
  or_return (yaml_emitter_process_tag emitter) fun emitter =>
  if emitter.flow_level != 0 || emitter.is_canonical
      || event.data.mapping_start.style == YAML_FLOW_MAPPING_STYLE
      || yaml_emitter_check_empty_mapping emitter then
    some (true, { emitter with state := YAML_EMIT_FLOW_MAPPING_FIRST_KEY_STATE })
  else
    some (true, { emitter with state := YAML_EMIT_BLOCK_MAPPING_FIRST_KEY_STATE })

/-- Embedding of `yaml_emitter_emit_node` (emitter.c 932-961). -/
def yaml_emitter_emit_node (emitter : yaml_emitter_t) (event : yaml_event_t)
    (is_root is_sequence is_mapping is_simple_key : Bool) : Option (Bool × yaml_emitter_t) :=
  let emitter :=
    { emitter with is_root_context := is_root, is_sequence_context := is_sequence,
                   is_mapping_context := is_mapping, is_simple_key_context := is_simple_key }
  match event.type with
  | YAML_ALIAS_EVENT => yaml_emitter_emit_alias emitter event
  | YAML_SCALAR_EVENT => yaml_emitter_emit_scalar emitter event
  | YAML_SEQUENCE_START_EVENT => yaml_emitter_emit_sequence_start emitter event
  | YAML_MAPPING_START_EVENT => yaml_emitter_emit_mapping_start emitter event
  | _ =>
    some (false, EMITTER_ERROR_INIT emitter
      "expected SCALAR, SEQUENCE-START, MAPPING-START, or ALIAS")

/-- Embedding of `yaml_emitter_emit_document_content` (emitter.c 640-648). -/
def yaml_emitter_emit_document_content (emitter : yaml_emitter_t) (event : yaml_event_t) :
    Option (Bool × yaml_emitter_t) :=
  yaml_emitter_emit_node
    { emitter with states := PUSH emitter.states YAML_EMIT_DOCUMENT_END_STATE }
    event true false false false

/-- Embedding of `yaml_emitter_emit_document_end` (emitter.c 654-684); the loop
at its end empties the stack of tag directives. -/
def yaml_emitter_emit_document_end (emitter : yaml_emitter_t) (event : yaml_event_t) :
    Option (Bool × yaml_emitter_t) :=
  if event.type = YAML_DOCUMENT_END_EVENT then
    let emitter := yaml_emitter_write_indent emitter
    let written : Option yaml_emitter_t :=
      if !event.data.document_end.is_implicit then
        (yaml_emitter_write_indicator emitter [0x2E, 0x2E, 0x2E] true false false).map
          fun emitter => yaml_emitter_write_indent emitter
      else some emitter
    written.map fun emitter =>
      (true, { emitter with state := YAML_EMIT_DOCUMENT_START_STATE, tag_directives := [] })
  else some (false, EMITTER_ERROR_INIT emitter "expected DOCUMENT-END")

/-- The start of a flow collection in `yaml_emitter_emit_flow_sequence_item` and
`yaml_emitter_emit_flow_mapping_key` (emitter.c 695-702 and 744-751): the
opening indicator, a deeper indent and flow level. -/
def emit_flow_first (emitter : yaml_emitter_t) (indicator : yaml_char_t) (first : Bool) :
    Option yaml_emitter_t :=
  if first then
    (yaml_emitter_write_indicator emitter [indicator] true true false).map fun emitter =>
      let emitter := yaml_emitter_increase_indent emitter true false
      { emitter with flow_level := emitter.flow_level + 1 }
  else some emitter

/-- The end of a flow collection in `yaml_emitter_emit_flow_sequence_item` and
`yaml_emitter_emit_flow_mapping_key` (emitter.c 704-719 and 753-768): the
closing indicator, after `,` and a new line in canonical mode. -/
def emit_flow_end (emitter : yaml_emitter_t) (indicator : yaml_char_t) (first : Bool) :
    Option (Bool × yaml_emitter_t) :=
  (pop_indent { emitter with flow_level := emitter.flow_level - 1 }).bind fun emitter =>
  let written : Option yaml_emitter_t :=
    if emitter.is_canonical && !first then
      (yaml_emitter_write_indicator emitter [0x2C] false false false).map
        fun emitter => yaml_emitter_write_indent emitter
    else some emitter
  written.bind fun emitter =>
  (yaml_emitter_write_indicator emitter [indicator] false false false).bind fun emitter =>
  pop_state emitter

/-- The separator before an item or a key of a flow collection (emitter.c
721-729 and 770-777): `,` unless it is the first, then a new line in canonical
mode or when the column is beyond the best width. -/
def emit_flow_separator (emitter : yaml_emitter_t) (first : Bool) : Option yaml_emitter_t :=
  let written : Option yaml_emitter_t :=
    if !first then yaml_emitter_write_indicator emitter [0x2C] false false false
    else some emitter
  written.map fun emitter =>
    if emitter.is_canonical || decide (emitter.column > emitter.best_width) then
      yaml_emitter_write_indent emitter
    else emitter

/-- Embedding of `yaml_emitter_emit_flow_sequence_item` (emitter.c 691-734). -/
def yaml_emitter_emit_flow_sequence_item (emitter : yaml_emitter_t) (event : yaml_event_t)
    (first : Bool) : Option (Bool × yaml_emitter_t) :=
  (emit_flow_first emitter 0x5B first).bind fun emitter =>
  if event.type = YAML_SEQUENCE_END_EVENT then emit_flow_end emitter 0x5D first
  else
    (emit_flow_separator emitter first).bind fun emitter =>
    yaml_emitter_emit_node
      { emitter with states := PUSH emitter.states YAML_EMIT_FLOW_SEQUENCE_ITEM_STATE }
      event false true false false

/-- Embedding of `yaml_emitter_emit_flow_mapping_key` (emitter.c 740-797). -/
def yaml_emitter_emit_flow_mapping_key (emitter : yaml_emitter_t) (event : yaml_event_t)
    (first : Bool) : Option (Bool × yaml_emitter_t) :=
  (emit_flow_first emitter 0x7B first).bind fun emitter =>
  if event.type = YAML_MAPPING_END_EVENT then emit_flow_end emitter 0x7D first
  else
    (emit_flow_separator emitter first).bind fun emitter =>
    if !emitter.is_canonical && yaml_emitter_check_simple_key emitter then
      yaml_emitter_emit_node
        { emitter with
          states := PUSH emitter.states YAML_EMIT_FLOW_MAPPING_SIMPLE_VALUE_STATE }
        event false false true true
    else
      (yaml_emitter_write_indicator emitter [0x3F] true false false).bind fun emitter =>
      yaml_emitter_emit_node
        { emitter with states := PUSH emitter.states YAML_EMIT_FLOW_MAPPING_VALUE_STATE }
        event false false true false

/-- Embedding of `yaml_emitter_emit_flow_mapping_value` (emitter.c 803-822). -/
def yaml_emitter_emit_flow_mapping_value (emitter : yaml_emitter_t) (event : yaml_event_t)
    (simple : Bool) : Option (Bool × yaml_emitter_t) :=
  let written : Option yaml_emitter_t :=
    if simple then yaml_emitter_write_indicator emitter [0x3A] false false false
    else
      let emitter :=
        if emitter.is_canonical || decide (emitter.column > emitter.best_width) then
          yaml_emitter_write_indent emitter
        else emitter
      yaml_emitter_write_indicator emitter [0x3A] true false false
  written.bind fun emitter =>
  yaml_emitter_emit_node
    { emitter with states := PUSH emitter.states YAML_EMIT_FLOW_MAPPING_KEY_STATE }
    event false false true false

/-- The end of a block collection in `yaml_emitter_emit_block_sequence_item`
and `yaml_emitter_emit_block_mapping_key` (emitter.c 839-845 and 872-878). -/
def emit_block_end (emitter : yaml_emitter_t) : Option (Bool × yaml_emitter_t) :=
  (pop_indent emitter).bind fun emitter =>
  pop_state emitter

/-- Embedding of `yaml_emitter_emit_block_sequence_item` (emitter.c 828-856). -/
def yaml_emitter_emit_block_sequence_item (emitter : yaml_emitter_t) (event : yaml_event_t)
    (first : Bool) : Option (Bool × yaml_emitter_t) :=
  let emitter :=
    if first then
      yaml_emitter_increase_indent emitter false
        (emitter.is_mapping_context && !emitter.is_indention)
    else emitter
  if event.type = YAML_SEQUENCE_END_EVENT then emit_block_end emitter
  else
    (yaml_emitter_write_indicator (yaml_emitter_write_indent emitter) [0x2D]
      true false true).bind fun emitter =>
    yaml_emitter_emit_node
      { emitter with states := PUSH emitter.states YAML_EMIT_BLOCK_SEQUENCE_ITEM_STATE }
      event false true false false

/-- Embedding of `yaml_emitter_emit_block_mapping_key` (emitter.c 862-901). -/
def yaml_emitter_emit_block_mapping_key (emitter : yaml_emitter_t) (event : yaml_event_t)
    (first : Bool) : Option (Bool × yaml_emitter_t) :=
  let emitter := if first then yaml_emitter_increase_indent emitter false false else emitter
  if event.type = YAML_MAPPING_END_EVENT then emit_block_end emitter
  else
    let emitter := yaml_emitter_write_indent emitter
    if yaml_emitter_check_simple_key emitter then
      yaml_emitter_emit_node
        { emitter with
          states := PUSH emitter.states YAML_EMIT_BLOCK_MAPPING_SIMPLE_VALUE_STATE }
        event false false true true
    else
      (yaml_emitter_write_indicator emitter [0x3F] true false true).bind fun emitter =>
      yaml_emitter_emit_node
        { emitter with states := PUSH emitter.states YAML_EMIT_BLOCK_MAPPING_VALUE_STATE }
        event false false true false

/-- Embedding of `yaml_emitter_emit_block_mapping_value` (emitter.c 907-926). -/
def yaml_emitter_emit_block_mapping_value (emitter : yaml_emitter_t) (event : yaml_event_t)
    (simple : Bool) : Option (Bool × yaml_emitter_t) :=
  let written : Option yaml_emitter_t :=
    if simple then yaml_emitter_write_indicator emitter [0x3A] false false false
    else
      yaml_emitter_write_indicator (yaml_emitter_write_indent emitter) [0x3A] true false true
  written.bind fun emitter =>
  yaml_emitter_emit_node
    { emitter with states := PUSH emitter.states YAML_EMIT_BLOCK_MAPPING_KEY_STATE }
    event false false true false

/-- Embedding of `yaml_emitter_state_machine` (emitter.c 409-474). -/
def yaml_emitter_state_machine (emitter : yaml_emitter_t) (event : yaml_event_t) :
    Option (Bool × yaml_emitter_t) :=
  match emitter.state with
  | YAML_EMIT_STREAM_START_STATE => yaml_emitter_emit_stream_start emitter event
  | YAML_EMIT_FIRST_DOCUMENT_START_STATE => yaml_emitter_emit_document_start emitter event true
  | YAML_EMIT_DOCUMENT_START_STATE => yaml_emitter_emit_document_start emitter event false
  | YAML_EMIT_DOCUMENT_CONTENT_STATE => yaml_emitter_emit_document_content emitter event
  | YAML_EMIT_DOCUMENT_END_STATE => yaml_emitter_emit_document_end emitter event
  | YAML_EMIT_FLOW_SEQUENCE_FIRST_ITEM_STATE =>
    yaml_emitter_emit_flow_sequence_item emitter event true
  | YAML_EMIT_FLOW_SEQUENCE_ITEM_STATE =>
    yaml_emitter_emit_flow_sequence_item emitter event false
  | YAML_EMIT_FLOW_MAPPING_FIRST_KEY_STATE =>
    yaml_emitter_emit_flow_mapping_key emitter event true
  | YAML_EMIT_FLOW_MAPPING_KEY_STATE => yaml_emitter_emit_flow_mapping_key emitter event false
  | YAML_EMIT_FLOW_MAPPING_SIMPLE_VALUE_STATE =>
    yaml_emitter_emit_flow_mapping_value emitter event true
  | YAML_EMIT_FLOW_MAPPING_VALUE_STATE =>
    yaml_emitter_emit_flow_mapping_value emitter event false
  | YAML_EMIT_BLOCK_SEQUENCE_FIRST_ITEM_STATE =>
    yaml_emitter_emit_block_sequence_item emitter event true
  | YAML_EMIT_BLOCK_SEQUENCE_ITEM_STATE =>
    yaml_emitter_emit_block_sequence_item emitter event false
  | YAML_EMIT_BLOCK_MAPPING_FIRST_KEY_STATE =>
    yaml_emitter_emit_block_mapping_key emitter event true
  | YAML_EMIT_BLOCK_MAPPING_KEY_STATE => yaml_emitter_emit_block_mapping_key emitter event false
  | YAML_EMIT_BLOCK_MAPPING_SIMPLE_VALUE_STATE =>
    yaml_emitter_emit_block_mapping_value emitter event true
  | YAML_EMIT_BLOCK_MAPPING_VALUE_STATE =>
    yaml_emitter_emit_block_mapping_value emitter event false
  | YAML_EMIT_END_STATE =>
    some (false, EMITTER_ERROR_INIT emitter "expected nothing after STREAM-END")

/-! ## Emitting events -/

/-- The loop `while (!yaml_emitter_need_more_events(emitter))` of
`yaml_emitter_emit` (emitter.c 272-280), for at most `fuel` events: the head
of the queue is analysed, passed to the state machine and dequeued; a failing
call leaves the event in the queue. -/
def yaml_emitter_emit_loop : Nat → yaml_emitter_t → Option (Bool × yaml_emitter_t)
  | 0, emitter => if yaml_emitter_need_more_events emitter then some (true, emitter) else none
  | fuel + 1, emitter =>
    if yaml_emitter_need_more_events emitter then some (true, emitter)
    else
      match emitter.events with
      | [] => some (true, emitter)
      | event :: _ =>
        or_return (yaml_emitter_analyze_event emitter event) fun emitter =>
        or_return (yaml_emitter_state_machine emitter event) fun emitter =>
        yaml_emitter_emit_loop fuel { emitter with events := emitter.events.tail }

/-- Embedding of `yaml_emitter_emit` (emitter.c 264-283): the event is put at
the end of the queue, and the queue is processed as far as the lookahead
allows; every iteration dequeues an event, so as many iterations as there are
events are enough. -/
def yaml_emitter_emit (emitter : yaml_emitter_t) (event : yaml_event_t) :
    Option (Bool × yaml_emitter_t) :=
  let emitter := { emitter with events := emitter.events ++ [event] }
  yaml_emitter_emit_loop emitter.events.length emitter

/-- The events of a stream emitted one after the other with
`yaml_emitter_emit`, up to the first call that fails. -/
def emit_events : List yaml_event_t → yaml_emitter_t → Option (Bool × yaml_emitter_t)
  | [], emitter => some (true, emitter)
  | event :: rest, emitter =>
    or_return (yaml_emitter_emit emitter event) fun emitter => emit_events rest emitter

/-- The encoding of the stream after STREAM-START: the encoding set on the
emitter, else the encoding of the event, else UTF-8. -/
def stream_encoding (emitter : yaml_emitter_t) (event : yaml_event_t) : yaml_encoding_t :=
  if emitter.encoding ≠ YAML_ANY_ENCODING then emitter.encoding
  else if event.data.stream_start.encoding ≠ YAML_ANY_ENCODING then
    event.data.stream_start.encoding
  else YAML_UTF8_ENCODING

/-- An event that starts a node: ALIAS, SCALAR, SEQUENCE-START or
MAPPING-START. -/
def is_node_event (type : yaml_event_type_t) : Bool :=
  type == YAML_ALIAS_EVENT || type == YAML_SCALAR_EVENT
  || type == YAML_SEQUENCE_START_EVENT || type == YAML_MAPPING_START_EVENT

/-- The table of the state machine in the specification (section 4.2): the
events expected in each state. -/
def is_expected_event (state : yaml_emitter_state_t) (type : yaml_event_type_t) : Bool :=
  match state with
  | YAML_EMIT_STREAM_START_STATE => type == YAML_STREAM_START_EVENT
  | YAML_EMIT_FIRST_DOCUMENT_START_STATE =>
    type == YAML_DOCUMENT_START_EVENT || type == YAML_STREAM_END_EVENT
  | YAML_EMIT_DOCUMENT_START_STATE =>
    type == YAML_DOCUMENT_START_EVENT || type == YAML_STREAM_END_EVENT
  | YAML_EMIT_DOCUMENT_CONTENT_STATE => is_node_event type
  | YAML_EMIT_DOCUMENT_END_STATE => type == YAML_DOCUMENT_END_EVENT
  | YAML_EMIT_FLOW_SEQUENCE_FIRST_ITEM_STATE =>
    type == YAML_SEQUENCE_END_EVENT || is_node_event type
  | YAML_EMIT_FLOW_SEQUENCE_ITEM_STATE => type == YAML_SEQUENCE_END_EVENT || is_node_event type
  | YAML_EMIT_FLOW_MAPPING_FIRST_KEY_STATE =>
    type == YAML_MAPPING_END_EVENT || is_node_event type
  | YAML_EMIT_FLOW_MAPPING_KEY_STATE => type == YAML_MAPPING_END_EVENT || is_node_event type
  | YAML_EMIT_FLOW_MAPPING_SIMPLE_VALUE_STATE => is_node_event type
  | YAML_EMIT_FLOW_MAPPING_VALUE_STATE => is_node_event type
  | YAML_EMIT_BLOCK_SEQUENCE_FIRST_ITEM_STATE =>
    type == YAML_SEQUENCE_END_EVENT || is_node_event type
  | YAML_EMIT_BLOCK_SEQUENCE_ITEM_STATE => type == YAML_SEQUENCE_END_EVENT || is_node_event type
  | YAML_EMIT_BLOCK_MAPPING_FIRST_KEY_STATE =>
    type == YAML_MAPPING_END_EVENT || is_node_event type
  | YAML_EMIT_BLOCK_MAPPING_KEY_STATE => type == YAML_MAPPING_END_EVENT || is_node_event type
  | YAML_EMIT_BLOCK_MAPPING_SIMPLE_VALUE_STATE => is_node_event type
  | YAML_EMIT_BLOCK_MAPPING_VALUE_STATE => is_node_event type
  | YAML_EMIT_END_STATE => false

/-- The tag directive passes `yaml_emitter_analyze_tag_directive`. -/
def is_valid_tag_directive (tag_directive : yaml_tag_directive_t) : Bool :=
  (yaml_emitter_analyze_tag_directive {} tag_directive).map (fun result => result.1) == some true

/-! ## Position in the output

The counters `line` and `column` of the emitter are compared with the output
read back as UTF-8 characters: the line breaks are the characters CR, LF, NEL,
LS and PS, each of them counted, except that with the configured line break
CR LF the LF is the second half of a line break and is not counted again. -/

/-- The character is counted as a line break: a line-break character, other
than LF when the configured line break is CR LF. -/
def is_counted_break (line_break : yaml_break_t) (octets : List yaml_char_t) : Bool :=
  is_break_character octets && !(line_break == YAML_CRLN_BREAK && octets == [0x0A])

/-- The number of line breaks among the characters. -/
def line_break_count (line_break : yaml_break_t) (characters : List (List yaml_char_t)) : Nat :=
  characters.countP (is_counted_break line_break)

/-- The number of characters after the last line-break character. -/
def last_line_length (characters : List (List yaml_char_t)) : Nat :=
  (characters.reverse.takeWhile fun octets => !is_break_character octets).length

/-- The line and the column at which an output ends: the number of line breaks
in it and the number of characters after the last line-break character; `none`
when the output is not a sequence of UTF-8 characters. -/
def output_position (line_break : yaml_break_t) (output : List yaml_char_t) :
    Option (Int × Int) :=
  (utf8_characters output.length output).map fun characters =>
    ((line_break_count line_break characters : Int), (last_line_length characters : Int))

/-- The line break is configured, as it is from STREAM-START on, and the
counters `line` and `column` of the emitter are the position at which its
output ends. -/
def counters_agree (emitter : yaml_emitter_t) : Bool :=
  emitter.line_break != YAML_ANY_BREAK
    && output_position emitter.line_break emitter.output
        == some (emitter.line, emitter.column)

/-- An ASCII octet that is not a line break. -/
def is_text_octet (octet : yaml_char_t) : Bool :=
  decide (octet < 0x80) && octet != 0x0A && octet != 0x0D

/-- The value is valid UTF-8 without a line-break character. -/
def is_text (value : List yaml_char_t) : Bool :=
  match utf8_characters value.length value with
  | some characters => characters.all fun octets => !is_break_character octets
  | none => false

/-! ## Writer operations -/

/-- The writer operations of the emitter with their arguments: the output
macros `PUT`, `PUT_BREAK`, `WRITE`, `WRITE_BREAK` and the writer functions
other than `yaml_emitter_write_bom`. -/
inductive writer_operation where
  | put (value : yaml_char_t)
  | put_break
  | write (string : yaml_string_t)
  | write_break (string : yaml_string_t)
  | write_indent
  | write_indicator (indicator : List yaml_char_t)
      (need_whitespace is_whitespace is_indention : Bool)
  | write_anchor (value : List yaml_char_t)
  | write_tag_handle (value : List yaml_char_t)
  | write_tag_content (value : List yaml_char_t) (need_whitespace : Bool)
  | write_plain_scalar (value : List yaml_char_t) (allow_breaks : Bool)
  | write_single_quoted_scalar (value : List yaml_char_t) (allow_breaks : Bool)
  | write_double_quoted_scalar (value : List yaml_char_t) (allow_breaks : Bool)
  | write_literal_scalar (value : List yaml_char_t)
  | write_folded_scalar (value : List yaml_char_t)
  deriving DecidableEq, Repr

/-- The emitter after a writer operation; `none` when a loop of the writer
never exits. -/
def run_writer_operation (emitter : yaml_emitter_t) :
    writer_operation → Option yaml_emitter_t
  | writer_operation.put value => some (PUT emitter value)
  | writer_operation.put_break => some (PUT_BREAK emitter)
  | writer_operation.write string => some (WRITE emitter string).1
  | writer_operation.write_break string => some (WRITE_BREAK emitter string).1
  | writer_operation.write_indent => some (yaml_emitter_write_indent emitter)
  | writer_operation.write_indicator indicator need_whitespace is_whitespace is_indention =>
    yaml_emitter_write_indicator emitter indicator need_whitespace is_whitespace is_indention
  | writer_operation.write_anchor value => yaml_emitter_write_anchor emitter value
  | writer_operation.write_tag_handle value => yaml_emitter_write_tag_handle emitter value
  | writer_operation.write_tag_content value need_whitespace =>
    yaml_emitter_write_tag_content emitter value need_whitespace
  | writer_operation.write_plain_scalar value allow_breaks =>
    yaml_emitter_write_plain_scalar emitter value allow_breaks
  | writer_operation.write_single_quoted_scalar value allow_breaks =>
    yaml_emitter_write_single_quoted_scalar emitter value allow_breaks
  | writer_operation.write_double_quoted_scalar value allow_breaks =>
    yaml_emitter_write_double_quoted_scalar emitter value allow_breaks
  | writer_operation.write_literal_scalar value =>
    yaml_emitter_write_literal_scalar emitter value
  | writer_operation.write_folded_scalar value =>
    yaml_emitter_write_folded_scalar emitter value

/-- The emitter after a sequence of writer operations. -/
def run_writer_operations :
    List writer_operation → yaml_emitter_t → Option yaml_emitter_t
  | [], emitter => some emitter
  | operation :: rest, emitter =>
    (run_writer_operation emitter operation).bind fun emitter =>
      run_writer_operations rest emitter

/-- The operation is applied as the emitter applies it: `PUT` to an ASCII octet
that is not a line break, `WRITE` to a UTF-8 character that is not a line
break, `WRITE_BREAK` to a line break, the writers of indicators, anchors and
tag handles to valid UTF-8 without a line break, and the writers of tag
content and of scalars to valid UTF-8. -/
def is_text_operation : writer_operation → Bool
  | writer_operation.put value => is_text_octet value
  | writer_operation.put_break => true
  | writer_operation.write string =>
    is_utf8_character (character_octets string) && !is_break_character (character_octets string)
  | writer_operation.write_break string => IS_BREAK string
  | writer_operation.write_indent => true
  | writer_operation.write_indicator indicator _ _ _ => is_text indicator
  | writer_operation.write_anchor value => is_text value
  | writer_operation.write_tag_handle value => is_text value
  | writer_operation.write_tag_content value _ => is_valid_utf8 value
  | writer_operation.write_plain_scalar value _ => is_valid_utf8 value
  | writer_operation.write_single_quoted_scalar value _ => is_valid_utf8 value
  | writer_operation.write_double_quoted_scalar value _ => is_valid_utf8 value
  | writer_operation.write_literal_scalar value => is_valid_utf8 value
  | writer_operation.write_folded_scalar value => is_valid_utf8 value

/-! ## Simple plain scalars -/

/-- The data that `yaml_emitter_analyze_scalar` stores for a scalar value; the
analysis reads the emitter through `is_unicode` only. -/
def scalar_analysis (is_unicode : Bool) (value : List yaml_char_t) :
    Option yaml_emitter_scalar_data_t :=
  (yaml_emitter_analyze_scalar { is_unicode := is_unicode } value).map
    fun analysis => analysis.2.scalar_data

/-- A simple plain scalar: the value is valid UTF-8, not empty and at most 128
octets long, and the analyzer permits the block-plain style for it. -/
def is_simple_plain (is_unicode : Bool) (value : List yaml_char_t) : Bool :=
  is_valid_utf8 value && value.length != 0 && decide (value.length ≤ 128)
    && ((scalar_analysis is_unicode value).map fun data => data.is_block_plain_allowed)
        == some true

/-! ## The options at the start of the stream -/

/-- The indent clamped into the range [2,9], in the words of the
specification: a value below 2 becomes 2, a value above 9 becomes 9. -/
def clamped_indent (indent : Int) : Int :=
  if indent < 2 then 2 else if indent > 9 then 9 else indent

/-! ## Tags and tag directives -/

/-- The octets `start` are a strict prefix of the tag: the tag begins with
them and is longer. -/
def starts_strictly (start tag : List yaml_char_t) : Bool :=
  start.isPrefixOf tag && start != tag

/-- The first tag directive, in list order, whose prefix is a strict prefix of
the tag. -/
def first_matching_directive (tag_directives : List yaml_tag_directive_t)
    (tag : List yaml_char_t) : Option yaml_tag_directive_t :=
  tag_directives.find? fun tag_directive => starts_strictly tag_directive.prefix_ tag

/-! ## The control part of the emitter -/

/-- The emitter without what the writers write: the output, the position and
the flags `is_whitespace` and `is_indention`. -/
def unwritten (emitter : yaml_emitter_t) : yaml_emitter_t :=
  { emitter with
    output := [], line := 0, column := 0, is_whitespace := false, is_indention := false }

/-- The control part of the emitter: the emitter without what the writers
write, without the error, without the context flags of the node at hand and
without the data of the analysed event.  What stays is the settings, the
state, the stacks, the queue, the tag directives, the indent and the flow
level. -/
def control (emitter : yaml_emitter_t) : yaml_emitter_t :=
  { unwritten emitter with
    error := YAML_NO_ERROR, problem := none,
    is_root_context := false, is_sequence_context := false, is_mapping_context := false,
    is_simple_key_context := false, anchor_data := {}, tag_data := {}, scalar_data := {} }

/-! ## The states of the state machine -/

/-- The six states of a flow collection (emitter.c 691-822). -/
def is_flow_state (state : yaml_emitter_state_t) : Bool :=
  match state with
  | YAML_EMIT_FLOW_SEQUENCE_FIRST_ITEM_STATE => true
  | YAML_EMIT_FLOW_SEQUENCE_ITEM_STATE => true
  | YAML_EMIT_FLOW_MAPPING_FIRST_KEY_STATE => true
  | YAML_EMIT_FLOW_MAPPING_KEY_STATE => true
  | YAML_EMIT_FLOW_MAPPING_SIMPLE_VALUE_STATE => true
  | YAML_EMIT_FLOW_MAPPING_VALUE_STATE => true
  | _ => false

/-- The six states of a block collection (emitter.c 828-926). -/
def is_block_state (state : yaml_emitter_state_t) : Bool :=
  match state with
  | YAML_EMIT_BLOCK_SEQUENCE_FIRST_ITEM_STATE => true
  | YAML_EMIT_BLOCK_SEQUENCE_ITEM_STATE => true
  | YAML_EMIT_BLOCK_MAPPING_FIRST_KEY_STATE => true
  | YAML_EMIT_BLOCK_MAPPING_KEY_STATE => true
  | YAML_EMIT_BLOCK_MAPPING_SIMPLE_VALUE_STATE => true
  | YAML_EMIT_BLOCK_MAPPING_VALUE_STATE => true
  | _ => false

/-- The four states in which the state machine passes `first = 1` (emitter.c
431-463): the first item or key of a collection, where the indent is pushed. -/
def is_first_state (state : yaml_emitter_state_t) : Bool :=
  match state with
  | YAML_EMIT_FLOW_SEQUENCE_FIRST_ITEM_STATE => true
  | YAML_EMIT_FLOW_MAPPING_FIRST_KEY_STATE => true
  | YAML_EMIT_BLOCK_SEQUENCE_FIRST_ITEM_STATE => true
  | YAML_EMIT_BLOCK_MAPPING_FIRST_KEY_STATE => true
  | _ => false

/-- The event that ends the collection in a state of an item or a key
(emitter.c 704, 753, 839, 872): SEQUENCE-END or MAPPING-END. -/
def collection_end_event (state : yaml_emitter_state_t) : Option yaml_event_type_t :=
  match state with
  | YAML_EMIT_FLOW_SEQUENCE_FIRST_ITEM_STATE => some YAML_SEQUENCE_END_EVENT
  | YAML_EMIT_FLOW_SEQUENCE_ITEM_STATE => some YAML_SEQUENCE_END_EVENT
  | YAML_EMIT_BLOCK_SEQUENCE_FIRST_ITEM_STATE => some YAML_SEQUENCE_END_EVENT
  | YAML_EMIT_BLOCK_SEQUENCE_ITEM_STATE => some YAML_SEQUENCE_END_EVENT
  | YAML_EMIT_FLOW_MAPPING_FIRST_KEY_STATE => some YAML_MAPPING_END_EVENT
  | YAML_EMIT_FLOW_MAPPING_KEY_STATE => some YAML_MAPPING_END_EVENT
  | YAML_EMIT_BLOCK_MAPPING_FIRST_KEY_STATE => some YAML_MAPPING_END_EVENT
  | YAML_EMIT_BLOCK_MAPPING_KEY_STATE => some YAML_MAPPING_END_EVENT
  | _ => none

/-- The thirteen states in which a node is emitted: DOCUMENT-CONTENT and the
states of the collections. -/
def is_node_state (state : yaml_emitter_state_t) : Bool :=
  state == YAML_EMIT_DOCUMENT_CONTENT_STATE || is_flow_state state || is_block_state state

/-- The states pushed in a state before the node is emitted (emitter.c 645,
731, 783-793, 821, 850, 884-894, 923): the state that follows the node. -/
def is_continuation_state (state continuation : yaml_emitter_state_t) : Bool :=
  match state with
  | YAML_EMIT_DOCUMENT_CONTENT_STATE => continuation == YAML_EMIT_DOCUMENT_END_STATE
  | YAML_EMIT_FLOW_SEQUENCE_FIRST_ITEM_STATE =>
    continuation == YAML_EMIT_FLOW_SEQUENCE_ITEM_STATE
  | YAML_EMIT_FLOW_SEQUENCE_ITEM_STATE => continuation == YAML_EMIT_FLOW_SEQUENCE_ITEM_STATE
  | YAML_EMIT_FLOW_MAPPING_FIRST_KEY_STATE =>
    continuation == YAML_EMIT_FLOW_MAPPING_SIMPLE_VALUE_STATE
      || continuation == YAML_EMIT_FLOW_MAPPING_VALUE_STATE
  | YAML_EMIT_FLOW_MAPPING_KEY_STATE =>
    continuation == YAML_EMIT_FLOW_MAPPING_SIMPLE_VALUE_STATE
      || continuation == YAML_EMIT_FLOW_MAPPING_VALUE_STATE
  | YAML_EMIT_FLOW_MAPPING_SIMPLE_VALUE_STATE =>
    continuation == YAML_EMIT_FLOW_MAPPING_KEY_STATE
  | YAML_EMIT_FLOW_MAPPING_VALUE_STATE => continuation == YAML_EMIT_FLOW_MAPPING_KEY_STATE
  | YAML_EMIT_BLOCK_SEQUENCE_FIRST_ITEM_STATE =>
    continuation == YAML_EMIT_BLOCK_SEQUENCE_ITEM_STATE
  | YAML_EMIT_BLOCK_SEQUENCE_ITEM_STATE => continuation == YAML_EMIT_BLOCK_SEQUENCE_ITEM_STATE
  | YAML_EMIT_BLOCK_MAPPING_FIRST_KEY_STATE =>
    continuation == YAML_EMIT_BLOCK_MAPPING_SIMPLE_VALUE_STATE
      || continuation == YAML_EMIT_BLOCK_MAPPING_VALUE_STATE
  | YAML_EMIT_BLOCK_MAPPING_KEY_STATE =>
    continuation == YAML_EMIT_BLOCK_MAPPING_SIMPLE_VALUE_STATE
      || continuation == YAML_EMIT_BLOCK_MAPPING_VALUE_STATE
  | YAML_EMIT_BLOCK_MAPPING_SIMPLE_VALUE_STATE =>
    continuation == YAML_EMIT_BLOCK_MAPPING_KEY_STATE
  | YAML_EMIT_BLOCK_MAPPING_VALUE_STATE => continuation == YAML_EMIT_BLOCK_MAPPING_KEY_STATE
  | _ => false

/-- The emitter with the stack of states, the stack of indents, the indent and
the flow level set. -/
def set_stacks (emitter : yaml_emitter_t) (states : List yaml_emitter_state_t)
    (indents : List Int) (indent flow_level : Int) : yaml_emitter_t :=
  { emitter with states := states, indents := indents, indent := indent,
                 flow_level := flow_level }

/-! ## Open flow collections -/

/-- The states of a flow collection that has been entered: the opening
indicator is written and `flow_level` raised with the first item or key
(emitter.c 695-702, 744-751), after which the collection is in the state of
an item, a key or a value until its closing indicator is written. -/
def is_entered_flow_state (state : yaml_emitter_state_t) : Bool :=
  match state with
  | YAML_EMIT_FLOW_SEQUENCE_ITEM_STATE => true
  | YAML_EMIT_FLOW_MAPPING_KEY_STATE => true
  | YAML_EMIT_FLOW_MAPPING_SIMPLE_VALUE_STATE => true
  | YAML_EMIT_FLOW_MAPPING_VALUE_STATE => true
  | _ => false

/-- The number of states of entered flow collections in a list of states. -/
def flow_count (states : List yaml_emitter_state_t) : Nat :=
  (states.filter is_entered_flow_state).length

/-- The number of open flow collections: the flow collections whose opening
indicator is written and whose closing indicator is not.  Each of them is in
the current state, when it is the innermost collection, or has pushed the
state to which the node it is emitting returns. -/
def open_flow_collections (emitter : yaml_emitter_t) : Nat :=
  flow_count (emitter.state :: emitter.states)

/-- No state of a block collection lies above the state of an entered flow
collection in the list of states, top first: no block collection is nested in
a flow collection. -/
def block_outside_flow : List yaml_emitter_state_t → Bool
  | [] => true
  | state :: below =>
    (!is_block_state state || flow_count below == 0) && block_outside_flow below

/-! ## The tag directives of a document -/

/-- The states inside a document, from the DOCUMENT-START that was processed
to the DOCUMENT-END that is expected: DOCUMENT-CONTENT, the states of the
collections and DOCUMENT-END. -/
def is_document_state (state : yaml_emitter_state_t) : Bool :=
  is_node_state state || state == YAML_EMIT_DOCUMENT_END_STATE

/-- The stack of tag directives that `yaml_emitter_emit_document_start` builds
on an empty stack from the tag directives of the event (emitter.c 556-568):
the directives of the event, then each default directive whose handle the
event does not declare. -/
def document_tag_directives (declared : List yaml_tag_directive_t) :
    List yaml_tag_directive_t :=
  declared ++ default_tag_directives.filter fun tag_directive =>
    !declared.any fun known => tag_directive.handle == known.handle

/-! ## Calls after a failure -/

/-- What a step of `yaml_emitter_emit` reads of the emitter, besides the event
and the data analysed from it, when it fails: the state, the canonical flag,
the unicode flag and the stack of tag directives. -/
def step_key (emitter : yaml_emitter_t) :
    yaml_emitter_state_t × Bool × Bool × List yaml_tag_directive_t :=
  (emitter.state, emitter.is_canonical, emitter.is_unicode, emitter.tag_directives)

/-- The calls of `yaml_emitter_emit` made one after the other by a caller that
does not stop at a failure: the emitter after them, `none` when a call never
returns. -/
def emit_each : List yaml_event_t → yaml_emitter_t → Option yaml_emitter_t
  | [], emitter => some emitter
  | event :: rest, emitter =>
    (yaml_emitter_emit emitter event).bind fun result => emit_each rest result.2

/-! ## Complete nodes -/

/-- What the emitter expects in a state: the node of the document, an item of
a sequence or its end, a key of a mapping or its end, the value of a key, the
end of the document once the node is complete, or nothing of a node. -/
inductive node_position where
  | root
  | item
  | key
  | value
  | finish
  | outside
  deriving DecidableEq, Repr

/-- The position of a state of the state machine (emitter.c 409-478):
DOCUMENT-CONTENT emits the node of the document, the states of a sequence an
item, the states of a mapping a key or a value, and DOCUMENT-END follows the
node of the document. -/
def state_position (state : yaml_emitter_state_t) : node_position :=
  match state with
  | YAML_EMIT_DOCUMENT_CONTENT_STATE => node_position.root
  | YAML_EMIT_DOCUMENT_END_STATE => node_position.finish
  | YAML_EMIT_FLOW_SEQUENCE_FIRST_ITEM_STATE => node_position.item
  | YAML_EMIT_FLOW_SEQUENCE_ITEM_STATE => node_position.item
  | YAML_EMIT_BLOCK_SEQUENCE_FIRST_ITEM_STATE => node_position.item
  | YAML_EMIT_BLOCK_SEQUENCE_ITEM_STATE => node_position.item
  | YAML_EMIT_FLOW_MAPPING_FIRST_KEY_STATE => node_position.key
  | YAML_EMIT_FLOW_MAPPING_KEY_STATE => node_position.key
  | YAML_EMIT_BLOCK_MAPPING_FIRST_KEY_STATE => node_position.key
  | YAML_EMIT_BLOCK_MAPPING_KEY_STATE => node_position.key
  | YAML_EMIT_FLOW_MAPPING_SIMPLE_VALUE_STATE => node_position.value
  | YAML_EMIT_FLOW_MAPPING_VALUE_STATE => node_position.value
  | YAML_EMIT_BLOCK_MAPPING_SIMPLE_VALUE_STATE => node_position.value
  | YAML_EMIT_BLOCK_MAPPING_VALUE_STATE => node_position.value
  | _ => node_position.outside

/-- The position after a node: the end of the document after its node, the
next item after an item, the value after a key and the next key after a
value. -/
def position_after_node (position : node_position) : node_position :=
  match position with
  | node_position.root => node_position.finish
  | node_position.item => node_position.item
  | node_position.key => node_position.value
  | node_position.value => node_position.key
  | node_position.finish => node_position.outside
  | node_position.outside => node_position.outside

/-- The event types that complete what is open, position by position,
innermost first: an ALIAS or a SCALAR is a node; SEQUENCE-START opens a
sequence, whose items are nodes up to SEQUENCE-END; MAPPING-START opens a
mapping, whose keys are each followed by a value, up to MAPPING-END in the
place of a key; nothing is left of the events when the node of the document
is complete. -/
def complete_node_loop : List node_position → List yaml_event_type_t → Bool
  | positions, [] => positions == [node_position.finish]
  | [], _ :: _ => false
  | position :: expected, type :: rest =>
    if position = node_position.finish ∨ position = node_position.outside then false
    else
      match type with
      | YAML_ALIAS_EVENT => complete_node_loop (position_after_node position :: expected) rest
      | YAML_SCALAR_EVENT => complete_node_loop (position_after_node position :: expected) rest
      | YAML_SEQUENCE_START_EVENT =>
        complete_node_loop (node_position.item :: position_after_node position :: expected) rest
      | YAML_MAPPING_START_EVENT =>
        complete_node_loop (node_position.key :: position_after_node position :: expected) rest
      | YAML_SEQUENCE_END_EVENT =>
        if position = node_position.item then complete_node_loop expected rest else false
      | YAML_MAPPING_END_EVENT =>
        if position = node_position.key then complete_node_loop expected rest else false
      | _ => false

/-- The event types of one complete node: an ALIAS, a SCALAR, or a
SEQUENCE-START or MAPPING-START with complete children up to its matching
end. -/
def is_complete_node (types : List yaml_event_type_t) : Bool :=
  complete_node_loop [node_position.root] types

/-- The states of a collection after its first item or key: the indent of the
collection is on the stack of indents (emitter.c 699, 748, 834, 868). -/
def is_entered_state (state : yaml_emitter_state_t) : Bool :=
  (is_flow_state state || is_block_state state) && !is_first_state state

/-- The number of states of entered collections in a list of states. -/
def entered_count (states : List yaml_emitter_state_t) : Nat :=
  (states.filter is_entered_state).length

/-- An anchor that `yaml_emitter_analyze_anchor` accepts (emitter.c 1356-1382):
not empty and alphanumerical. -/
def is_valid_anchor (anchor : List yaml_char_t) : Bool :=
  !anchor.isEmpty && anchor.all is_alphanumeric

/-- A tag that `yaml_emitter_analyze_tag` accepts (emitter.c 1387-1417) and
that the writers read to its end: not empty and valid UTF-8. -/
def is_valid_tag (tag : List yaml_char_t) : Bool :=
  !tag.isEmpty && is_valid_utf8 tag

/-- The anchor and the tag of a node are absent or valid. -/
def has_valid_properties (anchor tag : Option (List yaml_char_t)) : Bool :=
  anchor.all is_valid_anchor && tag.all is_valid_tag

/-- An event whose payload the analysis and the writers accept: the anchor of
an ALIAS is valid; the anchor and the tag of a SCALAR, a SEQUENCE-START or a
MAPPING-START are absent or valid; the value of a SCALAR is valid UTF-8, and a
SCALAR without a tag has an implicit flag (emitter.c 1151-1155). -/
def is_valid_node_event (event : yaml_event_t) : Bool :=
  match event.type with
  | YAML_ALIAS_EVENT => is_valid_anchor event.data.alias_.anchor
  | YAML_SCALAR_EVENT =>
    has_valid_properties event.data.scalar.anchor event.data.scalar.tag
      && is_valid_utf8 event.data.scalar.value
      && (event.data.scalar.tag.isSome || event.data.scalar.is_plain_implicit
          || event.data.scalar.is_quoted_implicit)
  | YAML_SEQUENCE_START_EVENT =>
    has_valid_properties event.data.sequence_start.anchor event.data.sequence_start.tag
  | YAML_MAPPING_START_EVENT =>
    has_valid_properties event.data.mapping_start.anchor event.data.mapping_start.tag
  | _ => true

/-- The handles and the prefixes of the tag directives are valid UTF-8, as
after `yaml_emitter_analyze_tag_directive` on directives in UTF-8. -/
def has_valid_tag_directives (tag_directives : List yaml_tag_directive_t) : Bool :=
  tag_directives.all fun tag_directive =>
    is_valid_utf8 tag_directive.handle && is_valid_utf8 tag_directive.prefix_

/-- The data analysed from an event can be written: the anchor, the handle and
the suffix of the tag and the value of the scalar are valid UTF-8. -/
def has_valid_data (emitter : yaml_emitter_t) : Bool :=
  emitter.anchor_data.anchor.all is_valid_utf8
    && emitter.tag_data.handle.all is_valid_utf8
    && emitter.tag_data.suffix.all is_valid_utf8
    && is_valid_utf8 (emitter.scalar_data.value.getD [])

/-- The state and the stacks of the emitter inside the node of a document,
before events of the given types: the events complete what the state and the
stack of states expect; the stack of indents holds one indent for each
entered collection, the oldest of which is `-1`; and `flow_level` counts the
entered flow collections. -/
def stacks_expect (emitter : yaml_emitter_t) (types : List yaml_event_type_t) : Prop :=
  complete_node_loop ((emitter.state :: emitter.states).map state_position) types = true ∧
  emitter.indents.length = entered_count (emitter.state :: emitter.states) ∧
  (emitter.indent :: emitter.indents).getLast? = some (-1) ∧
  emitter.flow_level = flow_count (emitter.state :: emitter.states)

/-- The emitter is inside the node of a document, with `later` the events
still to be emitted after the queued ones: the state and the stacks expect
these events, and the events and the tag directives are valid. -/
def inside_node (emitter : yaml_emitter_t) (later : List yaml_event_t) : Prop :=
  stacks_expect emitter ((emitter.events ++ later).map fun event => event.type) ∧
  (∀ event ∈ emitter.events ++ later, is_valid_node_event event = true) ∧
  has_valid_tag_directives emitter.tag_directives = true

/-- The events queued in the emitter are processed as far as the lookahead
allows, as the call of `yaml_emitter_emit` that queued them does, and the
events of `later` are then emitted one after the other. -/
def emit_queued (later : List yaml_event_t) (emitter : yaml_emitter_t) :
    Option (Bool × yaml_emitter_t) :=
  or_return (yaml_emitter_emit_loop emitter.events.length emitter) fun emitter =>
    emit_events later emitter

/-! ## Concrete inputs used by the witnesses -/

/-- An event of the given type with an empty payload. -/
def event_of_type (type : yaml_event_type_t) : yaml_event_t := { type := type }

/-- A plain-implicit SCALAR event with the given value and requested style. -/
def scalar_event (value : List yaml_char_t) (style : yaml_scalar_style_t) : yaml_event_t :=
  { type := YAML_SCALAR_EVENT,
    data := { scalar := { value := value, is_plain_implicit := true, style := style } } }

/-- An emitter processing a three-byte single-line scalar with a one-byte
anchor and a tag split into a two-byte handle and a 122-byte suffix: 128 bytes
in all. -/
def emitter_scalar_key : yaml_emitter_t :=
  { events := [scalar_event [0x61, 0x62, 0x63] YAML_ANY_SCALAR_STYLE],
    anchor_data := { anchor := some [0x78], anchor_length := 1 },
    tag_data := { handle := some [0x21, 0x21], handle_length := 2,
                  suffix := some (List.replicate 122 0x74), suffix_length := 122 },
    scalar_data := { value := some [0x61, 0x62, 0x63], length := 3,
                     is_flow_plain_allowed := true, is_block_plain_allowed := true,
                     is_single_quoted_allowed := true, is_block_allowed := true } }

/-- An emitter whose queue is exactly an empty mapping, MAPPING-START then
MAPPING-END, with no anchor and no tag. -/
def emitter_empty_mapping : yaml_emitter_t :=
  { events := [event_of_type YAML_MAPPING_START_EVENT, event_of_type YAML_MAPPING_END_EVENT] }

/-- An emitter whose queue is exactly an empty sequence, SEQUENCE-START then
SEQUENCE-END, with no anchor and no tag. -/
def emitter_empty_sequence : yaml_emitter_t :=
  { events := [event_of_type YAML_SEQUENCE_START_EVENT,
               event_of_type YAML_SEQUENCE_END_EVENT] }

/-- An emitter in block context (`flow_level = 0`, not a simple key) holding the
analysis of the untagged scalar `abc`, for which every style is allowed. -/
def emitter_plain_scalar : yaml_emitter_t :=
  { events := [scalar_event [0x61, 0x62, 0x63] YAML_ANY_SCALAR_STYLE],
    scalar_data := { value := some [0x61, 0x62, 0x63], length := 3,
                     is_flow_plain_allowed := true, is_block_plain_allowed := true,
                     is_single_quoted_allowed := true, is_block_allowed := true } }

/-- The emitter `emitter_plain_scalar` in canonical mode. -/
def emitter_canonical_scalar : yaml_emitter_t :=
  { emitter_plain_scalar with is_canonical := true }

/-- The emitter `emitter_plain_scalar` when block-plain style is not allowed
for the scalar. -/
def emitter_quoted_scalar : yaml_emitter_t :=
  { emitter_plain_scalar with
    scalar_data := { emitter_plain_scalar.scalar_data with is_block_plain_allowed := false } }

/-- An emitter in Unicode mode, otherwise as initialised. -/
def emitter_unicode : yaml_emitter_t := { is_unicode := true }

/-- An emitter in Unicode mode at the start of a line, with the default width
of 80 columns. -/
def emitter_line_start : yaml_emitter_t :=
  { is_unicode := true, best_width := 80, is_whitespace := true, is_indention := true }

/-- Modelled from the spec: `yaml_emitter_initialize` (api.c) is not among the
source files; it zeroes the emitter object, so the state is STREAM-START, the
queue and the output are empty and every option is unset (the defaults of
section 6 of the specification are put in by STREAM-START). -/
def emitter_initial : yaml_emitter_t := {}

/-- A STREAM-START event with the given encoding. -/
def stream_start_event (encoding : yaml_encoding_t) : yaml_event_t :=
  { type := YAML_STREAM_START_EVENT, data := { stream_start := { encoding := encoding } } }

/-- A DOCUMENT-START event with the given directives. -/
def document_start_event (version_directive : Option yaml_version_directive_t)
    (tag_directives : List yaml_tag_directive_t) (is_implicit : Bool) : yaml_event_t :=
  { type := YAML_DOCUMENT_START_EVENT,
    data := { document_start := { version_directive := version_directive,
                                  tag_directives := tag_directives,
                                  is_implicit := is_implicit } } }

/-- A DOCUMENT-END event. -/
def document_end_event (is_implicit : Bool) : yaml_event_t :=
  { type := YAML_DOCUMENT_END_EVENT, data := { document_end := { is_implicit := is_implicit } } }

/-- A SEQUENCE-START event with no anchor and no tag, implicit, of the given
style. -/
def sequence_start_event (style : yaml_sequence_style_t) : yaml_event_t :=
  { type := YAML_SEQUENCE_START_EVENT,
    data := { sequence_start := { is_implicit := true, style := style } } }

/-- A MAPPING-START event with no anchor and no tag, implicit, of the given
style. -/
def mapping_start_event (style : yaml_mapping_style_t) : yaml_event_t :=
  { type := YAML_MAPPING_START_EVENT,
    data := { mapping_start := { is_implicit := true, style := style } } }

/-- The stream `STREAM-START, DOCUMENT-START(implicit), MAPPING-START(BLOCK),
SCALAR "a", SCALAR "1", SCALAR "b", SCALAR "2" (all plain-implicit),
MAPPING-END, DOCUMENT-END(implicit), STREAM-END`. -/
def block_mapping_stream : List yaml_event_t :=
  [stream_start_event YAML_UTF8_ENCODING, document_start_event none [] true,
   mapping_start_event YAML_BLOCK_MAPPING_STYLE,
   scalar_event [0x61] YAML_PLAIN_SCALAR_STYLE, scalar_event [0x31] YAML_PLAIN_SCALAR_STYLE,
   scalar_event [0x62] YAML_PLAIN_SCALAR_STYLE, scalar_event [0x32] YAML_PLAIN_SCALAR_STYLE,
   event_of_type YAML_MAPPING_END_EVENT, document_end_event true,
   event_of_type YAML_STREAM_END_EVENT]

/-- The stream of a root FLOW sequence of the plain scalars `alpha`, `beta`
and `gamma` in an implicit document. -/
def flow_sequence_stream : List yaml_event_t :=
  [stream_start_event YAML_UTF8_ENCODING, document_start_event none [] true,
   sequence_start_event YAML_FLOW_SEQUENCE_STYLE,
   scalar_event [0x61, 0x6C, 0x70, 0x68, 0x61] YAML_PLAIN_SCALAR_STYLE,
   scalar_event [0x62, 0x65, 0x74, 0x61] YAML_PLAIN_SCALAR_STYLE,
   scalar_event [0x67, 0x61, 0x6D, 0x6D, 0x61] YAML_PLAIN_SCALAR_STYLE,
   event_of_type YAML_SEQUENCE_END_EVENT, document_end_event true,
   event_of_type YAML_STREAM_END_EVENT]

/-- The octets of `line1`, LF, `line2`, LF. -/
def two_lines : List yaml_char_t :=
  [0x6C, 0x69, 0x6E, 0x65, 0x31, 0x0A, 0x6C, 0x69, 0x6E, 0x65, 0x32, 0x0A]

/-- The stream of the root scalar `line1`, LF, `line2`, LF in the style
LITERAL with both implicit flags set, in an implicit document. -/
def literal_scalar_stream : List yaml_event_t :=
  [stream_start_event YAML_UTF8_ENCODING, document_start_event none [] true,
   { type := YAML_SCALAR_EVENT,
     data := { scalar := { value := two_lines, is_plain_implicit := true,
                           is_quoted_implicit := true, style := YAML_LITERAL_SCALAR_STYLE } } },
   document_end_event true, event_of_type YAML_STREAM_END_EVENT]

/-- The octets of the tag prefix `tag:example.com,2024:`. -/
def example_uri : List yaml_char_t :=
  [0x74, 0x61, 0x67, 0x3A, 0x65, 0x78, 0x61, 0x6D, 0x70, 0x6C, 0x65, 0x2E, 0x63, 0x6F, 0x6D,
   0x2C, 0x32, 0x30, 0x32, 0x34, 0x3A]

/-- The tag directive with the handle `!e!` and the prefix
`tag:example.com,2024:`. -/
def example_tag_directive : yaml_tag_directive_t :=
  { handle := [0x21, 0x65, 0x21], prefix_ := example_uri }

/-- The stream of a document with the tag directive `!e!` for
`tag:example.com,2024:` and the root scalar `v` with the tag
`tag:example.com,2024:t`, not implicit. -/
def tag_directive_stream : List yaml_event_t :=
  [stream_start_event YAML_UTF8_ENCODING,
   document_start_event none [example_tag_directive] true,
   { type := YAML_SCALAR_EVENT,
     data := { scalar := { tag := some (example_uri ++ [0x74]), value := [0x76],
                           style := YAML_PLAIN_SCALAR_STYLE } } },
   document_end_event true, event_of_type YAML_STREAM_END_EVENT]

/-- The stream of the root plain scalar `aaaa bbbb cccc dddd` in an implicit
document. -/
def plain_words_stream : List yaml_event_t :=
  [stream_start_event YAML_UTF8_ENCODING, document_start_event none [] true,
   scalar_event
     [0x61, 0x61, 0x61, 0x61, 0x20, 0x62, 0x62, 0x62, 0x62, 0x20, 0x63, 0x63, 0x63, 0x63, 0x20,
      0x64, 0x64, 0x64, 0x64] YAML_PLAIN_SCALAR_STYLE,
   document_end_event true, event_of_type YAML_STREAM_END_EVENT]

/-- An emitter inside a root block mapping after the pair `a: 1`: it waits for
a key at the indent 0, with the line break LF and the width 80. -/
def emitter_in_block_mapping : yaml_emitter_t :=
  { emitter_initial with
    output := [0x61, 0x3A, 0x20, 0x31], column := 4,
    state := YAML_EMIT_BLOCK_MAPPING_KEY_STATE, states := [YAML_EMIT_DOCUMENT_END_STATE],
    indent := 0, indents := [-1], best_indent := 2, best_width := 80,
    line_break := YAML_LN_BREAK, encoding := YAML_UTF8_ENCODING }

/-- The stream of the root scalar `abc` with the style ANY and
`is_plain_implicit` set, in an implicit document. -/
def alphanumeric_scalar_stream : List yaml_event_t :=
  [stream_start_event YAML_UTF8_ENCODING, document_start_event none [] true,
   scalar_event [0x61, 0x62, 0x63] YAML_ANY_SCALAR_STYLE,
   document_end_event true, event_of_type YAML_STREAM_END_EVENT]

/-- An emitter inside a document, not at whitespace, whose queue is an empty
sequence for which the block style is asked. -/
def emitter_block_empty_sequence : yaml_emitter_t :=
  { states := [YAML_EMIT_DOCUMENT_END_STATE],
    events := [sequence_start_event YAML_BLOCK_SEQUENCE_STYLE,
               event_of_type YAML_SEQUENCE_END_EVENT] }

/-- The start of a stream with a FLOW sequence that holds a sequence for which
the BLOCK style is asked, up to the second item `b` of the inner sequence. -/
def nested_sequence_stream : List yaml_event_t :=
  [stream_start_event YAML_UTF8_ENCODING, document_start_event none [] true,
   sequence_start_event YAML_FLOW_SEQUENCE_STYLE,
   sequence_start_event YAML_BLOCK_SEQUENCE_STYLE,
   scalar_event [0x61] YAML_PLAIN_SCALAR_STYLE,
   scalar_event [0x62] YAML_PLAIN_SCALAR_STYLE]

/-- The start of a stream whose document declares the handle `!` for
`tag:example.com,2024:`, up to the root scalar `v`. -/
def primary_handle_stream : List yaml_event_t :=
  [stream_start_event YAML_UTF8_ENCODING,
   document_start_event none [{ handle := [0x21], prefix_ := example_uri }] true,
   scalar_event [0x76] YAML_PLAIN_SCALAR_STYLE]

/-- The start of a stream whose DOCUMENT-START event carries the tag directive
`!e!` and then a tag directive with an empty handle. -/
def empty_handle_stream : List yaml_event_t :=
  [stream_start_event YAML_UTF8_ENCODING,
   document_start_event none
     [example_tag_directive, { handle := [], prefix_ := example_uri }] true]

/-- The stream of a document whose DOCUMENT-START event carries the version
directive `%YAML 1.2` and the tag directive `!e!` twice, up to the root
scalar. -/
def incompatible_duplicate_stream : List yaml_event_t :=
  [stream_start_event YAML_UTF8_ENCODING,
   document_start_event (some { major := 1, minor := 2 })
     [example_tag_directive, example_tag_directive] true,
   scalar_event [0x76] YAML_PLAIN_SCALAR_STYLE]

/-- The stream of a document whose DOCUMENT-START event carries two tag
directives with the same handle `e`, which does not start with `!`, up to the
root scalar. -/
def malformed_duplicate_stream : List yaml_event_t :=
  [stream_start_event YAML_UTF8_ENCODING,
   document_start_event none
     [{ handle := [0x65], prefix_ := example_uri }, { handle := [0x65], prefix_ := example_uri }]
     true,
   scalar_event [0x76] YAML_PLAIN_SCALAR_STYLE]

/-- The stream of a document whose DOCUMENT-START event carries the single tag
directive `!!` with an empty prefix, up to the root scalar. -/
def empty_prefix_stream : List yaml_event_t :=
  [stream_start_event YAML_UTF8_ENCODING,
   document_start_event none [{ handle := [0x21, 0x21], prefix_ := [] }] true,
   scalar_event [0x76] YAML_PLAIN_SCALAR_STYLE]

/-- The stream of a document whose root is a FLOW sequence with the item `a`,
followed by DOCUMENT-END where an item or SEQUENCE-END is expected. -/
def rejected_flow_item_stream : List yaml_event_t :=
  [stream_start_event YAML_UTF8_ENCODING, document_start_event none [] true,
   sequence_start_event YAML_FLOW_SEQUENCE_STYLE,
   scalar_event [0x61] YAML_PLAIN_SCALAR_STYLE,
   document_end_event true]

/-- The stream of a document whose root is a FLOW sequence, followed at once
by DOCUMENT-END where the first item or SEQUENCE-END is expected, and by one
more DOCUMENT-END. -/
def rejected_first_item_stream : List yaml_event_t :=
  [stream_start_event YAML_UTF8_ENCODING, document_start_event none [] true,
   sequence_start_event YAML_FLOW_SEQUENCE_STYLE,
   document_end_event true, document_end_event true]

/-- The stream of a document whose root is an empty sequence with the anchor
`a`, for which the block style is asked. -/
def anchored_empty_sequence_stream : List yaml_event_t :=
  [stream_start_event YAML_UTF8_ENCODING, document_start_event none [] true,
   { type := YAML_SEQUENCE_START_EVENT,
     data := { sequence_start := { anchor := some [0x61], is_implicit := true,
                                   style := YAML_BLOCK_SEQUENCE_STYLE } } },
   event_of_type YAML_SEQUENCE_END_EVENT]

/-- The stream of a document whose root is an empty mapping with the tag `!t`,
not implicit, for which the block style is asked. -/
def tagged_empty_mapping_stream : List yaml_event_t :=
  [stream_start_event YAML_UTF8_ENCODING, document_start_event none [] true,
   { type := YAML_MAPPING_START_EVENT,
     data := { mapping_start := { tag := some [0x21, 0x74], is_implicit := false,
                                  style := YAML_BLOCK_MAPPING_STYLE } } },
   event_of_type YAML_MAPPING_END_EVENT]

/-! ## Theorems: event queue lookahead -/

/-- The scanning loop answers `true` exactly when the level, started at
`level`, is non-zero after every non-empty initial segment of the events. -/
theorem need_more_events_loop_iff (events : List yaml_event_t) (level : Int) :
    need_more_events_loop events level = true ↔
      ∀ n, 0 < n → n ≤ events.length →
        (events.take n).foldl
          (fun level event => need_more_events_level level event.type) level ≠ 0 := by
  induction events generalizing level with
  | nil =>
    simp only [need_more_events_loop, List.length_nil, true_iff]
    intro n h0 hn
    omega
  | cons event rest ih =>
    simp only [need_more_events_loop, List.length_cons]
    by_cases h : need_more_events_level level event.type = 0
    · simp only [h, if_true, Bool.false_eq_true, false_iff, not_forall]
      exact ⟨1, by omega, by omega, by simp [h]⟩
    · simp only [h, if_false, ih]
      constructor
      · intro hall n h0 hn
        cases n with
        | zero => omega
        | succ m =>
          simp only [List.take_succ_cons, List.foldl_cons]
          cases m with
          | zero => simpa using h
          | succ k => exact hall (k + 1) (by omega) (by omega)
      · intro hall n h0 hn
        have := hall (n + 1) (by omega) (by omega)
        simpa only [List.take_succ_cons, List.foldl_cons] using this

/-- C1: `yaml_emitter_need_more_events` returns true exactly when the queue is
empty, or the head is DOCUMENT-START / SEQUENCE-START / MAPPING-START, the
queue holds at most 1 / 2 / 3 events respectively, and the running depth is
non-zero after every non-empty prefix of the queue; for every other head type
on a non-empty queue it returns false. -/
theorem need_more_events_spec (emitter : yaml_emitter_t) :
    (yaml_emitter_need_more_events emitter = true ↔
      (emitter.events = [] ∨
        ∃ head rest, emitter.events = head :: rest ∧
          ((head.type = YAML_DOCUMENT_START_EVENT ∧ emitter.events.length ≤ 1) ∨
           (head.type = YAML_SEQUENCE_START_EVENT ∧ emitter.events.length ≤ 2) ∨
           (head.type = YAML_MAPPING_START_EVENT ∧ emitter.events.length ≤ 3)) ∧
          ∀ n, 0 < n → n ≤ emitter.events.length →
            running_depth (emitter.events.take n) ≠ 0)) ∧
    (∀ head rest, emitter.events = head :: rest →
      head.type ≠ YAML_DOCUMENT_START_EVENT →
      head.type ≠ YAML_SEQUENCE_START_EVENT →
      head.type ≠ YAML_MAPPING_START_EVENT →
      yaml_emitter_need_more_events emitter = false) := by
  constructor
  · cases hq : emitter.events with
    | nil => simp [yaml_emitter_need_more_events, hq]
    | cons head rest =>
      have hloop := need_more_events_loop_iff (head :: rest) 0
      simp only [yaml_emitter_need_more_events, hq, running_depth, List.cons_ne_nil, false_or,
        List.cons.injEq, exists_and_left]
      cases ht : head.type <;> simp [need_more_events_accumulate, ht, hloop]
  · intro head rest hq h1 h2 h3
    simp only [yaml_emitter_need_more_events, hq]
    cases ht : head.type <;> simp_all [need_more_events_accumulate]

/-! ## Theorems: simple keys -/

/-- C2: when the head of the queue is a SCALAR, `yaml_emitter_check_simple_key`
returns true if and only if the analysed scalar is not multiline and
anchor_length + handle_length + suffix_length + scalar length is at most 128. -/
theorem check_simple_key_scalar (emitter : yaml_emitter_t) (event : yaml_event_t)
    (rest : List yaml_event_t) (hq : emitter.events = event :: rest)
    (ht : event.type = YAML_SCALAR_EVENT) :
    yaml_emitter_check_simple_key emitter = true ↔
      (emitter.scalar_data.is_multiline = false ∧
        emitter.anchor_data.anchor_length + emitter.tag_data.handle_length
          + emitter.tag_data.suffix_length + emitter.scalar_data.length ≤ 128) := by
  simp only [yaml_emitter_check_simple_key, hq, ht]
  cases hm : emitter.scalar_data.is_multiline <;> simp

/-- Witness of C2: a single-line scalar whose anchor, tag handle, tag suffix and
value make 1 + 2 + 122 + 3 = 128 bytes is accepted as a simple key. -/
theorem check_simple_key_scalar_witness :
    emitter_scalar_key.events = [scalar_event [0x61, 0x62, 0x63] YAML_ANY_SCALAR_STYLE] ∧
    (scalar_event [0x61, 0x62, 0x63] YAML_ANY_SCALAR_STYLE).type = YAML_SCALAR_EVENT ∧
    yaml_emitter_check_simple_key emitter_scalar_key = true :=
  ⟨rfl, rfl,
    (check_simple_key_scalar emitter_scalar_key
      (scalar_event [0x61, 0x62, 0x63] YAML_ANY_SCALAR_STYLE) [] rfl rfl).2
      ⟨rfl, by decide⟩⟩

/-- C3 (the code at the failing input): on the queue MAPPING-START, MAPPING-END
with no anchor and no tag, which `yaml_emitter_check_empty_mapping` recognises
as an empty mapping, `yaml_emitter_check_simple_key` returns false; and it
returns false on every queue whose head is MAPPING-START, because that case
asks `yaml_emitter_check_empty_sequence`. -/
theorem check_simple_key_mapping_start_rejected :
    yaml_emitter_check_empty_mapping emitter_empty_mapping = true ∧
    yaml_emitter_check_simple_key emitter_empty_mapping = false ∧
    ∀ (emitter : yaml_emitter_t) (head : yaml_event_t) (rest : List yaml_event_t),
      yaml_emitter_check_simple_key
        { emitter with
          events := { head with type := YAML_MAPPING_START_EVENT } :: rest } = false := by
  refine ⟨by decide, by decide, ?_⟩
  intro emitter head rest
  cases rest with
  | nil => simp [yaml_emitter_check_simple_key, yaml_emitter_check_empty_sequence]
  | cons next rest =>
    simp [yaml_emitter_check_simple_key, yaml_emitter_check_empty_sequence]

/-- C4: when the head of the queue is a SEQUENCE-START,
`yaml_emitter_check_simple_key` returns true if and only if the queue holds at
least two events, the second is SEQUENCE-END, and
anchor_length + handle_length + suffix_length is at most 128. -/
theorem check_simple_key_sequence_start (emitter : yaml_emitter_t) (event : yaml_event_t)
    (rest : List yaml_event_t) (hq : emitter.events = event :: rest)
    (ht : event.type = YAML_SEQUENCE_START_EVENT) :
    yaml_emitter_check_simple_key emitter = true ↔
      (2 ≤ emitter.events.length ∧
        (emitter.events[1]?).map (fun next => next.type) = some YAML_SEQUENCE_END_EVENT ∧
        emitter.anchor_data.anchor_length + emitter.tag_data.handle_length
          + emitter.tag_data.suffix_length ≤ 128) := by
  cases rest with
  | nil => simp [yaml_emitter_check_simple_key, yaml_emitter_check_empty_sequence, hq, ht]
  | cons next rest =>
    have h2 : ¬ (rest.length + 1 + 1 < 2) := by omega
    by_cases hn : next.type = YAML_SEQUENCE_END_EVENT <;>
      simp [yaml_emitter_check_simple_key, yaml_emitter_check_empty_sequence, hq, ht, hn, h2]

/-- Witness of C4: the queue SEQUENCE-START, SEQUENCE-END with no anchor and no
tag is accepted as a simple key. -/
theorem check_simple_key_sequence_start_witness :
    emitter_empty_sequence.events
      = [event_of_type YAML_SEQUENCE_START_EVENT, event_of_type YAML_SEQUENCE_END_EVENT] ∧
    (event_of_type YAML_SEQUENCE_START_EVENT).type = YAML_SEQUENCE_START_EVENT ∧
    yaml_emitter_check_simple_key emitter_empty_sequence = true :=
  ⟨rfl, rfl,
    (check_simple_key_sequence_start emitter_empty_sequence
      (event_of_type YAML_SEQUENCE_START_EVENT) [event_of_type YAML_SEQUENCE_END_EVENT]
      rfl rfl).2 ⟨by decide, by decide, by decide⟩⟩

/-! ## Theorems: scalar style selection -/

/-- The overrides never leave the style ANY. -/
theorem select_scalar_style_overrides_ne_any (emitter : yaml_emitter_t)
    (style : yaml_scalar_style_t) :
    select_scalar_style_overrides emitter style ≠ YAML_ANY_SCALAR_STYLE := by
  simp only [select_scalar_style_overrides]
  split_ifs <;> simp_all

/-- Canonical mode, or a multiline scalar in simple-key context, makes the
overrides answer DOUBLE-QUOTED. -/
theorem select_scalar_style_overrides_forced (emitter : yaml_emitter_t)
    (style : yaml_scalar_style_t)
    (h : emitter.is_canonical = true ∨
        (emitter.scalar_data.is_multiline = true ∧ emitter.is_simple_key_context = true)) :
    select_scalar_style_overrides emitter style = YAML_DOUBLE_QUOTED_SCALAR_STYLE := by
  simp only [select_scalar_style_overrides]
  split_ifs <;> simp_all

/-- The PLAIN block either keeps the style or turns PLAIN into SINGLE-QUOTED. -/
theorem select_scalar_style_plain_cases (emitter : yaml_emitter_t) (event : yaml_event_t)
    (no_tag : Bool) (style : yaml_scalar_style_t) :
    select_scalar_style_plain emitter event no_tag style = style ∨
    (style = YAML_PLAIN_SCALAR_STYLE ∧
      select_scalar_style_plain emitter event no_tag style
        = YAML_SINGLE_QUOTED_SCALAR_STYLE) := by
  simp only [select_scalar_style_plain]
  split_ifs <;> simp_all

/-- When the PLAIN block answers PLAIN, none of its three tests fired. -/
theorem select_scalar_style_plain_kept (emitter : yaml_emitter_t) (event : yaml_event_t)
    (no_tag : Bool) (style : yaml_scalar_style_t)
    (h : select_scalar_style_plain emitter event no_tag style = YAML_PLAIN_SCALAR_STYLE) :
    style = YAML_PLAIN_SCALAR_STYLE ∧
    (emitter.flow_level ≠ 0 → emitter.scalar_data.is_flow_plain_allowed = true) ∧
    (emitter.flow_level = 0 → emitter.scalar_data.is_block_plain_allowed = true) ∧
    (emitter.scalar_data.length ≠ 0 ∨
      (emitter.flow_level = 0 ∧ emitter.is_simple_key_context = false)) ∧
    (no_tag = false ∨ event.data.scalar.is_plain_implicit = true) := by
  revert h
  simp only [select_scalar_style_plain]
  split_ifs <;> simp_all
  refine ⟨by tauto, ?_⟩
  cases no_tag <;> simp_all

/-- The SINGLE-QUOTED block either keeps the style or turns SINGLE-QUOTED into
DOUBLE-QUOTED, and it keeps SINGLE-QUOTED only when single quotes are allowed. -/
theorem select_scalar_style_single_quoted_cases (emitter : yaml_emitter_t)
    (style : yaml_scalar_style_t) :
    (select_scalar_style_single_quoted emitter style = style ∧
      (style = YAML_SINGLE_QUOTED_SCALAR_STYLE →
        emitter.scalar_data.is_single_quoted_allowed = true)) ∨
    (style = YAML_SINGLE_QUOTED_SCALAR_STYLE ∧
      select_scalar_style_single_quoted emitter style
        = YAML_DOUBLE_QUOTED_SCALAR_STYLE) := by
  simp only [select_scalar_style_single_quoted]
  split_ifs <;> simp_all

/-- The LITERAL/FOLDED block either keeps the style or turns LITERAL or FOLDED
into DOUBLE-QUOTED, and it keeps them only in block context, outside a simple
key, when block style is allowed. -/
theorem select_scalar_style_block_cases (emitter : yaml_emitter_t)
    (style : yaml_scalar_style_t) :
    (select_scalar_style_block emitter style = style ∧
      (style = YAML_LITERAL_SCALAR_STYLE ∨ style = YAML_FOLDED_SCALAR_STYLE →
        emitter.scalar_data.is_block_allowed = true ∧ emitter.flow_level = 0 ∧
          emitter.is_simple_key_context = false)) ∨
    ((style = YAML_LITERAL_SCALAR_STYLE ∨ style = YAML_FOLDED_SCALAR_STYLE) ∧
      select_scalar_style_block emitter style = YAML_DOUBLE_QUOTED_SCALAR_STYLE) := by
  simp only [select_scalar_style_block]
  split_ifs <;> simp_all

/-- The style stored by a successful `yaml_emitter_select_scalar_style`, and
what else the call changes: nothing but the tag handle. -/
theorem select_scalar_style_stored (emitter : yaml_emitter_t) (event : yaml_event_t)
    (hok : (yaml_emitter_select_scalar_style emitter event).1 = true) :
    (yaml_emitter_select_scalar_style emitter event).2.scalar_data.style =
      select_scalar_style_block emitter
        (select_scalar_style_single_quoted emitter
          (select_scalar_style_plain emitter event
            (emitter.tag_data.handle.isNone && emitter.tag_data.suffix.isNone)
            (select_scalar_style_overrides emitter event.data.scalar.style))) := by
  revert hok
  simp only [yaml_emitter_select_scalar_style]
  split_ifs <;> simp

/-- C5: `yaml_emitter_select_scalar_style` fails if and only if the analysed
scalar has no tag (handle and suffix both absent) and both `is_plain_implicit`
and `is_quoted_implicit` are false; when it fails it records the EMITTER error
"neither tag nor implicit flags are specified". -/
theorem select_scalar_style_fails_iff (emitter : yaml_emitter_t) (event : yaml_event_t) :
    ((yaml_emitter_select_scalar_style emitter event).1 = false ↔
      (emitter.tag_data.handle = none ∧ emitter.tag_data.suffix = none ∧
        event.data.scalar.is_plain_implicit = false ∧
        event.data.scalar.is_quoted_implicit = false)) ∧
    ((yaml_emitter_select_scalar_style emitter event).1 = false →
      (yaml_emitter_select_scalar_style emitter event).2.error = YAML_EMITTER_ERROR ∧
      (yaml_emitter_select_scalar_style emitter event).2.problem
        = some "neither tag nor implicit flags are specified") := by
  have hfst : (yaml_emitter_select_scalar_style emitter event).1 =
      !(emitter.tag_data.handle.isNone && emitter.tag_data.suffix.isNone
        && !event.data.scalar.is_plain_implicit && !event.data.scalar.is_quoted_implicit) := by
    cases hc : (emitter.tag_data.handle.isNone && emitter.tag_data.suffix.isNone
        && !event.data.scalar.is_plain_implicit && !event.data.scalar.is_quoted_implicit) <;>
      simp [yaml_emitter_select_scalar_style, hc]
  have hsnd : (yaml_emitter_select_scalar_style emitter event).1 = false →
      (yaml_emitter_select_scalar_style emitter event).2
        = EMITTER_ERROR_INIT emitter "neither tag nor implicit flags are specified" := by
    simp only [yaml_emitter_select_scalar_style]
    split_ifs <;> simp
  refine ⟨?_, fun h => ?_⟩
  · rw [hfst]
    simp only [Bool.not_eq_false', Bool.and_eq_true, Bool.not_eq_true',
      Option.isNone_iff_eq_none]
    tauto
  · rw [hsnd h]
    exact ⟨rfl, rfl⟩

/-- A successful `yaml_emitter_select_scalar_style` stores PLAIN only when the
plain flag of the context holds. -/
theorem select_scalar_style_plain_permission (emitter : yaml_emitter_t)
    (event : yaml_event_t)
    (hok : (yaml_emitter_select_scalar_style emitter event).1 = true)
    (hplain : (yaml_emitter_select_scalar_style emitter event).2.scalar_data.style
      = YAML_PLAIN_SCALAR_STYLE) :
    (emitter.flow_level ≠ 0 → emitter.scalar_data.is_flow_plain_allowed = true) ∧
    (emitter.flow_level = 0 → emitter.scalar_data.is_block_plain_allowed = true) := by
  rw [select_scalar_style_stored emitter event hok] at hplain
  generalize hs1 : select_scalar_style_overrides emitter event.data.scalar.style = s1 at hplain
  generalize hnt : (emitter.tag_data.handle.isNone && emitter.tag_data.suffix.isNone)
    = no_tag at hplain
  have hk := select_scalar_style_plain_kept emitter event no_tag s1
  generalize hs2 : select_scalar_style_plain emitter event no_tag s1 = s2 at hplain hk
  have hq := select_scalar_style_single_quoted_cases emitter s2
  generalize hs3 : select_scalar_style_single_quoted emitter s2 = s3 at hplain hq
  have hb := select_scalar_style_block_cases emitter s3
  rw [hplain] at hb
  have h3 : s3 = YAML_PLAIN_SCALAR_STYLE := by
    rcases hb with ⟨h, _⟩ | ⟨_, h⟩
    · exact h.symm
    · exact absurd h (by decide)
  subst h3
  have h2 : s2 = YAML_PLAIN_SCALAR_STYLE := by
    rcases hq with ⟨h, _⟩ | ⟨_, h⟩
    · exact h.symm
    · exact absurd h (by decide)
  obtain ⟨_, hf, hbp, _⟩ := hk h2
  exact ⟨hf, hbp⟩

/-- C6: whenever `yaml_emitter_select_scalar_style` succeeds, the stored style
is legal for the scalar and the context.  PLAIN: the plain flag of the context
holds (`is_flow_plain_allowed` when `flow_level` is not zero, in particular
when it is positive, `is_block_plain_allowed` when `flow_level = 0`), the value
is non-empty unless `flow_level = 0` outside a simple key, and the scalar is
tagged or `is_plain_implicit`.  SINGLE-QUOTED: `is_single_quoted_allowed`.
LITERAL or FOLDED: `is_block_allowed`, `flow_level = 0` and not a simple key. -/
theorem select_scalar_style_legal (emitter : yaml_emitter_t) (event : yaml_event_t)
    (hok : (yaml_emitter_select_scalar_style emitter event).1 = true) :
    ((yaml_emitter_select_scalar_style emitter event).2.scalar_data.style
        = YAML_PLAIN_SCALAR_STYLE →
      (emitter.flow_level ≠ 0 → emitter.scalar_data.is_flow_plain_allowed = true) ∧
      (emitter.flow_level = 0 → emitter.scalar_data.is_block_plain_allowed = true) ∧
      (emitter.scalar_data.length ≠ 0 ∨
        (emitter.flow_level = 0 ∧ emitter.is_simple_key_context = false)) ∧
      ((emitter.tag_data.handle ≠ none ∨ emitter.tag_data.suffix ≠ none) ∨
        event.data.scalar.is_plain_implicit = true)) ∧
    ((yaml_emitter_select_scalar_style emitter event).2.scalar_data.style
        = YAML_SINGLE_QUOTED_SCALAR_STYLE →
      emitter.scalar_data.is_single_quoted_allowed = true) ∧
    (((yaml_emitter_select_scalar_style emitter event).2.scalar_data.style
        = YAML_LITERAL_SCALAR_STYLE ∨
      (yaml_emitter_select_scalar_style emitter event).2.scalar_data.style
        = YAML_FOLDED_SCALAR_STYLE) →
      emitter.scalar_data.is_block_allowed = true ∧ emitter.flow_level = 0 ∧
        emitter.is_simple_key_context = false) := by
  rw [select_scalar_style_stored emitter event hok]
  generalize hs1 : select_scalar_style_overrides emitter event.data.scalar.style = s1
  generalize hnt : (emitter.tag_data.handle.isNone && emitter.tag_data.suffix.isNone) = no_tag
  have hp := select_scalar_style_plain_cases emitter event no_tag s1
  have hk := select_scalar_style_plain_kept emitter event no_tag s1
  generalize hs2 : select_scalar_style_plain emitter event no_tag s1 = s2 at hp hk
  have hq := select_scalar_style_single_quoted_cases emitter s2
  generalize hs3 : select_scalar_style_single_quoted emitter s2 = s3 at hq
  have hb := select_scalar_style_block_cases emitter s3
  generalize hs4 : select_scalar_style_block emitter s3 = s4 at hb
  have hno : no_tag = false →
      (emitter.tag_data.handle ≠ none ∨ emitter.tag_data.suffix ≠ none) := by
    intro h
    rw [h] at hnt
    simp only [Bool.and_eq_false_imp, Option.isNone_iff_eq_none] at hnt
    by_cases hh : emitter.tag_data.handle = none
    · right
      have := hnt hh
      intro hsf
      simp [hsf] at this
    · exact Or.inl hh
  refine ⟨?_, ?_, ?_⟩
  · intro h4
    subst h4
    have h3 : s3 = YAML_PLAIN_SCALAR_STYLE := by
      rcases hb with ⟨h, _⟩ | ⟨_, h⟩
      · exact h.symm
      · exact absurd h (by decide)
    subst h3
    have h2 : s2 = YAML_PLAIN_SCALAR_STYLE := by
      rcases hq with ⟨h, _⟩ | ⟨_, h⟩
      · exact h.symm
      · exact absurd h (by decide)
    obtain ⟨_, hf, hbp, hl, ht⟩ := hk h2
    exact ⟨hf, hbp, hl, ht.elim (fun h => Or.inl (hno h)) Or.inr⟩
  · intro h4
    subst h4
    have h3 : s3 = YAML_SINGLE_QUOTED_SCALAR_STYLE := by
      rcases hb with ⟨h, _⟩ | ⟨_, h⟩
      · exact h.symm
      · exact absurd h (by decide)
    subst h3
    rcases hq with ⟨h, hall⟩ | ⟨_, h⟩
    · exact hall h.symm
    · exact absurd h (by decide)
  · intro h4
    rcases hb with ⟨h, hall⟩ | ⟨_, h⟩
    · exact hall (h ▸ h4)
    · rw [h] at h4
      exact absurd h4 (by decide)

/-- Witness of C6: in block context the untagged plain-implicit scalar `abc`
requested with style ANY is stored as PLAIN, and block-plain is allowed. -/
theorem select_scalar_style_legal_witness :
    (yaml_emitter_select_scalar_style emitter_plain_scalar
      (scalar_event [0x61, 0x62, 0x63] YAML_ANY_SCALAR_STYLE)).1 = true ∧
    (yaml_emitter_select_scalar_style emitter_plain_scalar
      (scalar_event [0x61, 0x62, 0x63] YAML_ANY_SCALAR_STYLE)).2.scalar_data.style
        = YAML_PLAIN_SCALAR_STYLE ∧
    emitter_plain_scalar.scalar_data.is_block_plain_allowed = true :=
  ⟨by decide, by decide,
    ((select_scalar_style_legal emitter_plain_scalar
      (scalar_event [0x61, 0x62, 0x63] YAML_ANY_SCALAR_STYLE) (by decide)).1
      (by decide)).2.1 (by decide)⟩

/-- C7: if the emitter is canonical, or the scalar is multiline and the
context is a simple key, a successful `yaml_emitter_select_scalar_style` stores
DOUBLE-QUOTED; and the style ANY is never stored, the stored style is one of
PLAIN, SINGLE-QUOTED, DOUBLE-QUOTED, LITERAL, FOLDED. -/
theorem select_scalar_style_forced_double_quoted (emitter : yaml_emitter_t)
    (event : yaml_event_t)
    (hok : (yaml_emitter_select_scalar_style emitter event).1 = true) :
    ((emitter.is_canonical = true ∨
        (emitter.scalar_data.is_multiline = true ∧ emitter.is_simple_key_context = true)) →
      (yaml_emitter_select_scalar_style emitter event).2.scalar_data.style
        = YAML_DOUBLE_QUOTED_SCALAR_STYLE) ∧
    (yaml_emitter_select_scalar_style emitter event).2.scalar_data.style
      ≠ YAML_ANY_SCALAR_STYLE ∧
    ((yaml_emitter_select_scalar_style emitter event).2.scalar_data.style
        = YAML_PLAIN_SCALAR_STYLE ∨
      (yaml_emitter_select_scalar_style emitter event).2.scalar_data.style
        = YAML_SINGLE_QUOTED_SCALAR_STYLE ∨
      (yaml_emitter_select_scalar_style emitter event).2.scalar_data.style
        = YAML_DOUBLE_QUOTED_SCALAR_STYLE ∨
      (yaml_emitter_select_scalar_style emitter event).2.scalar_data.style
        = YAML_LITERAL_SCALAR_STYLE ∨
      (yaml_emitter_select_scalar_style emitter event).2.scalar_data.style
        = YAML_FOLDED_SCALAR_STYLE) := by
  rw [select_scalar_style_stored emitter event hok]
  have h1 := select_scalar_style_overrides_ne_any emitter event.data.scalar.style
  have hf := select_scalar_style_overrides_forced emitter event.data.scalar.style
  generalize select_scalar_style_overrides emitter event.data.scalar.style = s1 at h1 hf
  generalize (emitter.tag_data.handle.isNone && emitter.tag_data.suffix.isNone) = no_tag
  have hp := select_scalar_style_plain_cases emitter event no_tag s1
  generalize select_scalar_style_plain emitter event no_tag s1 = s2 at hp
  have hq := select_scalar_style_single_quoted_cases emitter s2
  generalize select_scalar_style_single_quoted emitter s2 = s3 at hq
  have hb := select_scalar_style_block_cases emitter s3
  generalize select_scalar_style_block emitter s3 = s4 at hb
  refine ⟨?_, ?_, ?_⟩
  · intro hforce
    have e1 := hf hforce
    subst e1
    have e2 : s2 = YAML_DOUBLE_QUOTED_SCALAR_STYLE := by
      rcases hp with h | ⟨h, _⟩
      · exact h
      · exact absurd h (by decide)
    subst e2
    have e3 : s3 = YAML_DOUBLE_QUOTED_SCALAR_STYLE := by
      rcases hq with ⟨h, _⟩ | ⟨h, _⟩
      · exact h
      · exact absurd h (by decide)
    subst e3
    rcases hb with ⟨h, _⟩ | ⟨h, _⟩
    · exact h
    · rcases h with h | h <;> exact absurd h (by decide)
  · rcases hp with hp | ⟨_, hp⟩ <;> rcases hq with ⟨hq, _⟩ | ⟨_, hq⟩ <;>
      rcases hb with ⟨hb, _⟩ | ⟨_, hb⟩ <;> simp_all
  · have hne : s4 ≠ YAML_ANY_SCALAR_STYLE := by
      rcases hp with hp | ⟨_, hp⟩ <;> rcases hq with ⟨hq, _⟩ | ⟨_, hq⟩ <;>
        rcases hb with ⟨hb, _⟩ | ⟨_, hb⟩ <;> simp_all
    cases s4 <;> simp_all

/-- Witness of C7: in canonical mode the plain-implicit scalar `abc` requested
with style ANY is stored as DOUBLE-QUOTED. -/
theorem select_scalar_style_forced_double_quoted_witness :
    (yaml_emitter_select_scalar_style emitter_canonical_scalar
      (scalar_event [0x61, 0x62, 0x63] YAML_ANY_SCALAR_STYLE)).1 = true ∧
    emitter_canonical_scalar.is_canonical = true ∧
    (yaml_emitter_select_scalar_style emitter_canonical_scalar
      (scalar_event [0x61, 0x62, 0x63] YAML_ANY_SCALAR_STYLE)).2.scalar_data.style
        = YAML_DOUBLE_QUOTED_SCALAR_STYLE :=
  ⟨by decide, rfl,
    (select_scalar_style_forced_double_quoted emitter_canonical_scalar
      (scalar_event [0x61, 0x62, 0x63] YAML_ANY_SCALAR_STYLE) (by decide)).1
      (Or.inl rfl)⟩

/-- C8: after a successful `yaml_emitter_select_scalar_style` on an untagged
scalar, the tag handle is the one-byte handle `!` (with `handle_length = 1`) if
and only if the stored style is not PLAIN and `is_quoted_implicit` is false;
in that case nothing else of `tag_data` changes, and otherwise `tag_data` is
left unchanged. -/
theorem select_scalar_style_bang_handle (emitter : yaml_emitter_t) (event : yaml_event_t)
    (hh : emitter.tag_data.handle = none) (hs : emitter.tag_data.suffix = none)
    (hok : (yaml_emitter_select_scalar_style emitter event).1 = true) :
    (((yaml_emitter_select_scalar_style emitter event).2.tag_data.handle = some [0x21] ∧
        (yaml_emitter_select_scalar_style emitter event).2.tag_data.handle_length = 1) ↔
      ((yaml_emitter_select_scalar_style emitter event).2.scalar_data.style
          ≠ YAML_PLAIN_SCALAR_STYLE ∧
        event.data.scalar.is_quoted_implicit = false)) ∧
    (((yaml_emitter_select_scalar_style emitter event).2.scalar_data.style
          ≠ YAML_PLAIN_SCALAR_STYLE ∧
        event.data.scalar.is_quoted_implicit = false) →
      (yaml_emitter_select_scalar_style emitter event).2.tag_data =
        { emitter.tag_data with handle := some [0x21], handle_length := 1 }) ∧
    (¬ ((yaml_emitter_select_scalar_style emitter event).2.scalar_data.style
          ≠ YAML_PLAIN_SCALAR_STYLE ∧
        event.data.scalar.is_quoted_implicit = false) →
      (yaml_emitter_select_scalar_style emitter event).2.tag_data = emitter.tag_data) := by
  have hstyle := select_scalar_style_stored emitter event hok
  have htag : (yaml_emitter_select_scalar_style emitter event).2.tag_data =
      if (!event.data.scalar.is_quoted_implicit
          && (yaml_emitter_select_scalar_style emitter event).2.scalar_data.style
            != YAML_PLAIN_SCALAR_STYLE) = true then
        { emitter.tag_data with handle := some [0x21], handle_length := 1 }
      else emitter.tag_data := by
    rw [hstyle]
    revert hok
    simp only [yaml_emitter_select_scalar_style, hh, hs, Option.isNone_none, Bool.and_self,
      Bool.true_and]
    split_ifs <;> simp_all
  generalize (yaml_emitter_select_scalar_style emitter event).2.scalar_data.style = stored
    at htag
  rw [htag]
  cases hq : event.data.scalar.is_quoted_implicit <;>
    by_cases hp : stored = YAML_PLAIN_SCALAR_STYLE <;> simp [hp, hh]

/-- Witness of C8: the untagged plain-implicit scalar `abc`, for which
block-plain style is not allowed, is stored SINGLE-QUOTED and gets the handle
`!`. -/
theorem select_scalar_style_bang_handle_witness :
    emitter_quoted_scalar.tag_data.handle = none ∧
    emitter_quoted_scalar.tag_data.suffix = none ∧
    (yaml_emitter_select_scalar_style emitter_quoted_scalar
      (scalar_event [0x61, 0x62, 0x63] YAML_ANY_SCALAR_STYLE)).1 = true ∧
    (yaml_emitter_select_scalar_style emitter_quoted_scalar
      (scalar_event [0x61, 0x62, 0x63] YAML_ANY_SCALAR_STYLE)).2.scalar_data.style
        = YAML_SINGLE_QUOTED_SCALAR_STYLE ∧
    (yaml_emitter_select_scalar_style emitter_quoted_scalar
      (scalar_event [0x61, 0x62, 0x63] YAML_ANY_SCALAR_STYLE)).2.tag_data.handle
        = some [0x21] :=
  ⟨rfl, rfl, by decide, by decide,
    ((select_scalar_style_bang_handle emitter_quoted_scalar
      (scalar_event [0x61, 0x62, 0x63] YAML_ANY_SCALAR_STYLE) rfl rfl (by decide)).1.2
      ⟨by decide, rfl⟩).1⟩

/-- When the analysis allows none of the four styles, a successful
`yaml_emitter_select_scalar_style` stores DOUBLE-QUOTED. -/
theorem select_scalar_style_no_permission (emitter : yaml_emitter_t) (event : yaml_event_t)
    (hflow : emitter.scalar_data.is_flow_plain_allowed = false)
    (hblock_plain : emitter.scalar_data.is_block_plain_allowed = false)
    (hsingle : emitter.scalar_data.is_single_quoted_allowed = false)
    (hblock : emitter.scalar_data.is_block_allowed = false)
    (hok : (yaml_emitter_select_scalar_style emitter event).1 = true) :
    (yaml_emitter_select_scalar_style emitter event).2.scalar_data.style
      = YAML_DOUBLE_QUOTED_SCALAR_STYLE := by
  rw [select_scalar_style_stored emitter event hok]
  have h1 := select_scalar_style_overrides_ne_any emitter event.data.scalar.style
  generalize select_scalar_style_overrides emitter event.data.scalar.style = s1 at h1
  generalize (emitter.tag_data.handle.isNone && emitter.tag_data.suffix.isNone) = no_tag
  cases s1 <;>
    simp [select_scalar_style_plain, select_scalar_style_single_quoted,
      select_scalar_style_block, hflow, hblock_plain, hsingle, hblock] at h1 ⊢

/-! ## Theorems: scalar analysis -/

@[simp] theorem analyze_scalar_indicators_special (string : yaml_string_t)
    (l : analyze_scalar_locals) :
    (analyze_scalar_indicators string l).special_characters = l.special_characters := by
  simp only [analyze_scalar_indicators]
  split_ifs <;> rfl

@[simp] theorem analyze_scalar_run_end_special (l : analyze_scalar_locals) :
    (analyze_scalar_run_end l).special_characters = l.special_characters := by
  simp only [analyze_scalar_run_end]
  split_ifs <;> rfl

@[simp] theorem analyze_scalar_whitespace_special (string : yaml_string_t)
    (l : analyze_scalar_locals) :
    (analyze_scalar_whitespace string l).special_characters = l.special_characters := by
  unfold analyze_scalar_whitespace
  split_ifs <;> first | rfl | exact analyze_scalar_run_end_special l

@[simp] theorem analyze_scalar_last_special (string : yaml_string_t)
    (l : analyze_scalar_locals) :
    (analyze_scalar_last string l).special_characters = l.special_characters := by
  unfold analyze_scalar_last
  split_ifs <;> rfl

/-- C9 (the code at the failing input): in Unicode mode the value that is the
single line break LS (`U+2028`, the octets `E2 80 A8`) starts with a line
break, and so does the value LF followed by PS (`U+2029`), while the value
space followed by LS starts with a space; `yaml_emitter_analyze_scalar`
returns on each of them with `is_flow_plain_allowed` and
`is_block_plain_allowed` cleared but with `is_block_allowed` still set: the
last character is three octets wide, so the test
`string.pointer == string.capacity-1` never holds and neither
`leading_breaks` nor `leading_spaces` is recorded. -/
theorem analyze_scalar_leading_break_keeps_block :
    IS_BREAK (string_at [0xE2, 0x80, 0xA8] 0) = true ∧
    (yaml_emitter_analyze_scalar emitter_unicode [0xE2, 0x80, 0xA8]).map
      (fun result => (result.2.scalar_data.is_flow_plain_allowed,
        result.2.scalar_data.is_block_plain_allowed,
        result.2.scalar_data.is_block_allowed)) = some (false, false, true) ∧
    IS_BREAK (string_at [0x0A, 0xE2, 0x80, 0xA9] 0) = true ∧
    (yaml_emitter_analyze_scalar emitter_unicode [0x0A, 0xE2, 0x80, 0xA9]).map
      (fun result => (result.2.scalar_data.is_flow_plain_allowed,
        result.2.scalar_data.is_block_plain_allowed,
        result.2.scalar_data.is_block_allowed)) = some (false, false, true) ∧
    IS_SPACE (string_at [0x20, 0xE2, 0x80, 0xA8] 0) = true ∧
    (yaml_emitter_analyze_scalar emitter_unicode [0x20, 0xE2, 0x80, 0xA8]).map
      (fun result => (result.2.scalar_data.is_flow_plain_allowed,
        result.2.scalar_data.is_block_plain_allowed,
        result.2.scalar_data.is_block_allowed)) = some (false, false, true) := by
  refine ⟨by decide, by decide, by decide, by decide, by decide, by decide⟩

/-- One iteration sets `special_characters` at a special character and never
clears it. -/
theorem analyze_scalar_step_special (emitter : yaml_emitter_t) (string : yaml_string_t)
    (l : analyze_scalar_locals) :
    (analyze_scalar_step emitter string l).2.special_characters =
      (l.special_characters
        || (!IS_PRINTABLE string || (!IS_ASCII string && !emitter.is_unicode))) := by
  have hsp : (analyze_scalar_special emitter string
        (analyze_scalar_indicators string l)).special_characters =
      (l.special_characters
        || (!IS_PRINTABLE string || (!IS_ASCII string && !emitter.is_unicode))) := by
    unfold analyze_scalar_special
    split_ifs with h1 h2 h2
    · simp [h1]
    · simp [h1]
    · simp only [Bool.not_eq_true] at h1
      simp [h1]
    · simp only [Bool.not_eq_true] at h1
      simp [h1]
  unfold analyze_scalar_step
  simp only []
  split_ifs <;> simpa using hsp

/-- One iteration moves the pointer by the width of the character read. -/
theorem analyze_scalar_step_string (emitter : yaml_emitter_t) (value : List yaml_char_t)
    (position : Nat) (l : analyze_scalar_locals) :
    (analyze_scalar_step emitter (string_at value position) l).1 =
      string_at value (position + WIDTH (string_at value position)) := rfl

/-- The loop never clears `special_characters`. -/
theorem analyze_scalar_loop_special_kept (emitter : yaml_emitter_t) (fuel : Nat) :
    ∀ (string : yaml_string_t) (l l' : analyze_scalar_locals),
      analyze_scalar_loop emitter fuel string l = some l' →
      l.special_characters = true → l'.special_characters = true := by
  induction fuel with
  | zero =>
    intro string l l' h hl
    simp only [analyze_scalar_loop] at h
    split_ifs at h
    cases h
    exact hl
  | succ fuel ih =>
    intro string l l' h hl
    simp only [analyze_scalar_loop] at h
    split_ifs at h
    · refine ih _ _ _ h ?_
      rw [analyze_scalar_step_special, hl]
      rfl
    · cases h
      exact hl

/-- The loop sets `special_characters` when one of the characters it reads is
special. -/
theorem analyze_scalar_loop_special_found (emitter : yaml_emitter_t)
    (value : List yaml_char_t) (fuel : Nat) :
    ∀ (pointer : Nat) (l l' : analyze_scalar_locals) (position : Nat),
      position ∈ character_positions value fuel pointer →
      (!IS_PRINTABLE (string_at value position)
        || (!IS_ASCII (string_at value position) && !emitter.is_unicode)) = true →
      analyze_scalar_loop emitter fuel (string_at value pointer) l = some l' →
      l'.special_characters = true := by
  induction fuel with
  | zero =>
    intro pointer l l' position hmem
    simp [character_positions] at hmem
  | succ fuel ih =>
    intro pointer l l' position hmem hspecial h
    simp only [character_positions] at hmem
    simp only [analyze_scalar_loop] at h
    have hcap : (string_at value pointer).capacity = value.length := rfl
    have hptr : (string_at value pointer).pointer = pointer := rfl
    rw [hcap, hptr] at h
    by_cases hlt : pointer < value.length
    · rw [if_pos hlt] at hmem h
      rw [analyze_scalar_step_string] at h
      rcases List.mem_cons.mp hmem with heq | hrest
      · subst heq
        refine analyze_scalar_loop_special_kept emitter fuel _ _ _ h ?_
        rw [analyze_scalar_step_special, hspecial]
        simp
      · exact ih _ _ _ position hrest hspecial h
    · rw [if_neg hlt] at hmem
      simp at hmem

/-- The loop exits within `fuel` iterations when at most `fuel` octets remain
and every character it reads starts with a UTF-8 lead byte. -/
theorem analyze_scalar_loop_terminates (emitter : yaml_emitter_t)
    (value : List yaml_char_t) (fuel : Nat) :
    ∀ (pointer : Nat) (l : analyze_scalar_locals),
      value.length - pointer ≤ fuel →
      (∀ position ∈ character_positions value fuel pointer,
        WIDTH (string_at value position) ≠ 0) →
      (analyze_scalar_loop emitter fuel (string_at value pointer) l).isSome = true := by
  induction fuel with
  | zero =>
    intro pointer l hfuel _
    have hcap : (string_at value pointer).capacity = value.length := rfl
    have hptr : (string_at value pointer).pointer = pointer := rfl
    simp only [analyze_scalar_loop, hcap, hptr]
    rw [if_neg (by omega)]
    rfl
  | succ fuel ih =>
    intro pointer l hfuel hvalid
    have hcap : (string_at value pointer).capacity = value.length := rfl
    have hptr : (string_at value pointer).pointer = pointer := rfl
    simp only [analyze_scalar_loop, hcap, hptr]
    by_cases hlt : pointer < value.length
    · rw [if_pos hlt, analyze_scalar_step_string]
      simp only [character_positions, if_pos hlt, List.mem_cons, forall_eq_or_imp] at hvalid
      exact ih _ _ (by have := hvalid.1; omega) hvalid.2
    · rw [if_neg hlt]
      rfl

/-- On a value whose characters all start with a UTF-8 lead byte
`yaml_emitter_analyze_scalar` returns. -/
theorem analyze_scalar_returns (emitter : yaml_emitter_t) (value : List yaml_char_t)
    (hvalid : has_valid_lead_bytes value = true) :
    (yaml_emitter_analyze_scalar emitter value).isSome = true := by
  have hloop : ∀ e l, (analyze_scalar_loop e value.length (string_at value 0) l).isSome
      = true := by
    intro e l
    refine analyze_scalar_loop_terminates e value value.length 0 l (by omega) ?_
    intro position hmem
    simp only [has_valid_lead_bytes, List.all_eq_true, bne_iff_ne] at hvalid
    exact hvalid position hmem
  simp only [yaml_emitter_analyze_scalar, STRING]
  split_ifs
  · rfl
  · rw [Option.isSome_map']
    exact hloop _ _

/-- With `special_characters` set, the stored permissions are all false. -/
theorem analyze_scalar_permissions_special (l : analyze_scalar_locals)
    (data : yaml_emitter_scalar_data_t) (h : l.special_characters = true) :
    (analyze_scalar_permissions l data).is_flow_plain_allowed = false ∧
    (analyze_scalar_permissions l data).is_block_plain_allowed = false ∧
    (analyze_scalar_permissions l data).is_single_quoted_allowed = false ∧
    (analyze_scalar_permissions l data).is_block_allowed = false := by
  simp only [analyze_scalar_permissions, h, Bool.or_true, if_true]
  split_ifs <;> simp

/-- C10: for every scalar value that contains a non-printable character, or a
non-ASCII character while `is_unicode` is false, `yaml_emitter_analyze_scalar`
clears all four permissions (flow-plain, block-plain, single-quoted, block),
so that every successful `yaml_emitter_select_scalar_style` on the analysed
scalar stores DOUBLE-QUOTED.  The call returns whenever every character of the
value starts with a UTF-8 lead byte, as in every valid UTF-8 string; and every
result it returns has the four permissions cleared. -/
theorem analyze_scalar_special_characters (emitter : yaml_emitter_t)
    (value : List yaml_char_t)
    (hspecial : has_special_character emitter.is_unicode value = true) :
    (has_valid_lead_bytes value = true →
      (yaml_emitter_analyze_scalar emitter value).isSome = true) ∧
    ∀ result, yaml_emitter_analyze_scalar emitter value = some result →
      result.1 = true ∧
      result.2.scalar_data.is_flow_plain_allowed = false ∧
      result.2.scalar_data.is_block_plain_allowed = false ∧
      result.2.scalar_data.is_single_quoted_allowed = false ∧
      result.2.scalar_data.is_block_allowed = false ∧
      ∀ event, (yaml_emitter_select_scalar_style result.2 event).1 = true →
        (yaml_emitter_select_scalar_style result.2 event).2.scalar_data.style
          = YAML_DOUBLE_QUOTED_SCALAR_STYLE := by
  refine ⟨analyze_scalar_returns emitter value, ?_⟩
  intro result hres
  simp only [has_special_character, List.any_eq_true] at hspecial
  obtain ⟨position, hmem, hsp⟩ := hspecial
  have hne : value.length ≠ 0 := by
    intro h0
    rw [h0] at hmem
    simp [character_positions] at hmem
  simp only [yaml_emitter_analyze_scalar, STRING, if_neg hne, Option.map_eq_some'] at hres
  obtain ⟨l, heq, hres⟩ := hres
  subst hres
  have hl : l.special_characters = true :=
    analyze_scalar_loop_special_found (analyze_scalar_store emitter value) value
      value.length 0 _ l position hmem hsp heq
  obtain ⟨h1, h2, h3, h4⟩ :=
    analyze_scalar_permissions_special l (analyze_scalar_store emitter value).scalar_data hl
  exact ⟨rfl, h1, h2, h3, h4, fun event hok =>
    select_scalar_style_no_permission _ event h1 h2 h3 h4 hok⟩

/-- Witness of C10: the value consisting of the BEL character `0x07`, which is
not printable, is analysed with all four permissions cleared, single quotes
among them. -/
theorem analyze_scalar_special_characters_witness :
    has_special_character emitter_unicode.is_unicode [0x07] = true ∧
    has_valid_lead_bytes [0x07] = true ∧
    (yaml_emitter_analyze_scalar emitter_unicode [0x07]).isSome = true ∧
    ∀ result, yaml_emitter_analyze_scalar emitter_unicode [0x07] = some result →
      result.2.scalar_data.is_single_quoted_allowed = false :=
  ⟨by decide, by decide,
    (analyze_scalar_special_characters emitter_unicode [0x07] (by decide)).1 (by decide),
    fun result h =>
      ((analyze_scalar_special_characters emitter_unicode [0x07] (by decide)).2
        result h).2.2.2.1⟩

/-- A property of the locals that every iteration keeps is kept by the loop. -/
theorem analyze_scalar_loop_invariant (emitter : yaml_emitter_t)
    (P : analyze_scalar_locals → Prop)
    (hstep : ∀ string l, P l → P (analyze_scalar_step emitter string l).2) (fuel : Nat) :
    ∀ (string : yaml_string_t) (l l' : analyze_scalar_locals),
      analyze_scalar_loop emitter fuel string l = some l' → P l → P l' := by
  induction fuel with
  | zero =>
    intro string l l' h hl
    simp only [analyze_scalar_loop] at h
    split_ifs at h
    cases h
    exact hl
  | succ fuel ih =>
    intro string l l' h hl
    simp only [analyze_scalar_loop] at h
    split_ifs at h
    · exact ih _ _ _ h (hstep _ _ hl)
    · cases h
      exact hl

theorem analyze_scalar_indicators_flow_kept (string : yaml_string_t)
    (l : analyze_scalar_locals) (h : l.flow_indicators = true) :
    (analyze_scalar_indicators string l).flow_indicators = true := by
  simp only [analyze_scalar_indicators]
  split_ifs <;> simp [h]

theorem analyze_scalar_indicators_block_kept (string : yaml_string_t)
    (l : analyze_scalar_locals) (h : l.block_indicators = true) :
    (analyze_scalar_indicators string l).block_indicators = true := by
  simp only [analyze_scalar_indicators]
  split_ifs <;> simp [h]

@[simp] theorem analyze_scalar_indicators_line_breaks (string : yaml_string_t)
    (l : analyze_scalar_locals) :
    (analyze_scalar_indicators string l).line_breaks = l.line_breaks := by
  simp only [analyze_scalar_indicators]
  split_ifs <;> rfl

/-- The tests for special characters and line breaks touch no other local. -/
theorem analyze_scalar_special_fields (emitter : yaml_emitter_t) (string : yaml_string_t)
    (l : analyze_scalar_locals) :
    (analyze_scalar_special emitter string l).flow_indicators = l.flow_indicators ∧
    (analyze_scalar_special emitter string l).block_indicators = l.block_indicators ∧
    (analyze_scalar_special emitter string l).line_breaks = (l.line_breaks || IS_BREAK string) := by
  simp only [analyze_scalar_special]
  split_ifs <;> simp_all

/-- The run tracking of one iteration changes none of the indicator flags and
not `line_breaks`. -/
theorem analyze_scalar_whitespace_fields (string : yaml_string_t)
    (l : analyze_scalar_locals) :
    (analyze_scalar_last string (analyze_scalar_whitespace string l)).flow_indicators
      = l.flow_indicators ∧
    (analyze_scalar_last string (analyze_scalar_whitespace string l)).block_indicators
      = l.block_indicators ∧
    (analyze_scalar_last string (analyze_scalar_whitespace string l)).line_breaks
      = l.line_breaks := by
  have hrun : (analyze_scalar_run_end l).flow_indicators = l.flow_indicators ∧
      (analyze_scalar_run_end l).block_indicators = l.block_indicators ∧
      (analyze_scalar_run_end l).line_breaks = l.line_breaks := by
    simp only [analyze_scalar_run_end]
    split_ifs <;> exact ⟨rfl, rfl, rfl⟩
  have hws : (analyze_scalar_whitespace string l).flow_indicators = l.flow_indicators ∧
      (analyze_scalar_whitespace string l).block_indicators = l.block_indicators ∧
      (analyze_scalar_whitespace string l).line_breaks = l.line_breaks := by
    simp only [analyze_scalar_whitespace]
    split_ifs <;> first | exact ⟨rfl, rfl, rfl⟩ | exact hrun
  have hlast : ∀ m : analyze_scalar_locals,
      (analyze_scalar_last string m).flow_indicators = m.flow_indicators ∧
      (analyze_scalar_last string m).block_indicators = m.block_indicators ∧
      (analyze_scalar_last string m).line_breaks = m.line_breaks := by
    intro m
    simp only [analyze_scalar_last]
    split_ifs <;> exact ⟨rfl, rfl, rfl⟩
  obtain ⟨a1, a2, a3⟩ := hlast (analyze_scalar_whitespace string l)
  obtain ⟨b1, b2, b3⟩ := hws
  exact ⟨a1.trans b1, a2.trans b2, a3.trans b3⟩

/-- The indicator flags and `line_breaks` after one iteration, in terms of the
indicator tests of that iteration. -/
theorem analyze_scalar_step_fields (emitter : yaml_emitter_t) (string : yaml_string_t)
    (l : analyze_scalar_locals) :
    (analyze_scalar_step emitter string l).2.flow_indicators
      = (analyze_scalar_indicators string l).flow_indicators ∧
    (analyze_scalar_step emitter string l).2.block_indicators
      = (analyze_scalar_indicators string l).block_indicators ∧
    (analyze_scalar_step emitter string l).2.line_breaks
      = (l.line_breaks || IS_BREAK string) := by
  obtain ⟨a1, a2, a3⟩ := analyze_scalar_whitespace_fields string
    (analyze_scalar_special emitter string (analyze_scalar_indicators string l))
  obtain ⟨b1, b2, b3⟩ := analyze_scalar_special_fields emitter string
    (analyze_scalar_indicators string l)
  rw [b1] at a1
  rw [b2] at a2
  rw [b3, analyze_scalar_indicators_line_breaks] at a3
  simp only [analyze_scalar_step]
  split_ifs <;> exact ⟨a1, a2, a3⟩

/-- The permissions stored for given indicator and line-break flags. -/
theorem analyze_scalar_permissions_flags (l : analyze_scalar_locals)
    (data : yaml_emitter_scalar_data_t) :
    (analyze_scalar_permissions l data).is_multiline = l.line_breaks ∧
    (l.flow_indicators = true →
      (analyze_scalar_permissions l data).is_flow_plain_allowed = false) ∧
    (l.block_indicators = true →
      (analyze_scalar_permissions l data).is_block_plain_allowed = false) ∧
    (l.line_breaks = true →
      (analyze_scalar_permissions l data).is_flow_plain_allowed = false ∧
      (analyze_scalar_permissions l data).is_block_plain_allowed = false) := by
  refine ⟨?_, ?_, ?_, ?_⟩
  · simp only [analyze_scalar_permissions,
      apply_ite yaml_emitter_scalar_data_t.is_multiline, ite_self]
  · intro h
    simp only [analyze_scalar_permissions, h, if_true,
      apply_ite yaml_emitter_scalar_data_t.is_flow_plain_allowed, ite_self]
  · intro h
    simp only [analyze_scalar_permissions, h, if_true]
  · intro h
    simp only [analyze_scalar_permissions, h, if_true,
      apply_ite yaml_emitter_scalar_data_t.is_flow_plain_allowed,
      apply_ite yaml_emitter_scalar_data_t.is_block_plain_allowed, ite_self, and_self]

/-- The result of `yaml_emitter_analyze_scalar` on a non-empty value: the
permissions computed from the locals at the end of the loop, which has run its
first iteration at position 0 on the locals of the loop entry. -/
theorem analyze_scalar_nonempty (emitter : yaml_emitter_t) (c : yaml_char_t)
    (rest : List yaml_char_t) (result : Bool × yaml_emitter_t)
    (h : yaml_emitter_analyze_scalar emitter (c :: rest) = some result) :
    ∃ l, analyze_scalar_loop (analyze_scalar_store emitter (c :: rest)) rest.length
        (analyze_scalar_step (analyze_scalar_store emitter (c :: rest))
          (string_at (c :: rest) 0) (analyze_scalar_start (string_at (c :: rest) 0))).1
        (analyze_scalar_step (analyze_scalar_store emitter (c :: rest))
          (string_at (c :: rest) 0) (analyze_scalar_start (string_at (c :: rest) 0))).2
        = some l ∧
      result.1 = true ∧
      result.2.scalar_data = analyze_scalar_permissions l
        (analyze_scalar_store emitter (c :: rest)).scalar_data := by
  simp only [yaml_emitter_analyze_scalar, STRING, List.length_cons, Nat.succ_ne_zero, if_false,
    Option.map_eq_some'] at h
  obtain ⟨l, hl, hres⟩ := h
  subst hres
  refine ⟨l, ?_, rfl, rfl⟩
  simp only [analyze_scalar_loop] at hl
  rw [if_pos (Nat.succ_pos _)] at hl
  exact hl

/-- The indicator flags after the indicator tests of the first iteration, when
the value starts with an indicator character. -/
theorem analyze_scalar_indicators_first (c : yaml_char_t) (rest : List yaml_char_t) :
    ((c ∈ [0x23, 0x2C, 0x5B, 0x5D, 0x7B, 0x7D, 0x26, 0x2A, 0x21, 0x7C, 0x3E, 0x27, 0x22,
          0x25, 0x40, 0x60] ∨
        (c ∈ [0x2D, 0x3F, 0x3A] ∧ rest.head? = some 0x20)) →
      (analyze_scalar_indicators (string_at (c :: rest) 0)
        (analyze_scalar_start (string_at (c :: rest) 0))).flow_indicators = true ∧
      (analyze_scalar_indicators (string_at (c :: rest) 0)
        (analyze_scalar_start (string_at (c :: rest) 0))).block_indicators = true) ∧
    (c ∈ [0x3F, 0x3A] →
      (analyze_scalar_indicators (string_at (c :: rest) 0)
        (analyze_scalar_start (string_at (c :: rest) 0))).flow_indicators = true) := by
  refine ⟨?_, ?_⟩
  · rintro (hc | ⟨hc, hrest⟩)
    · simp only [List.mem_cons, List.mem_singleton, List.not_mem_nil, or_false] at hc
      rcases hc with rfl | rfl | rfl | rfl | rfl | rfl | rfl | rfl | rfl | rfl | rfl | rfl
        | rfl | rfl | rfl | rfl <;>
        simp [analyze_scalar_indicators, string_at, CHECK, CHECK_AT, OCTET_AT]
    · cases rest with
      | nil => simp at hrest
      | cons b rest =>
        simp only [List.head?_cons, Option.some.injEq] at hrest
        subst hrest
        simp only [List.mem_cons, List.mem_singleton, List.not_mem_nil, or_false] at hc
        rcases hc with rfl | rfl | rfl <;>
          simp [analyze_scalar_indicators, analyze_scalar_start, string_at, CHECK, CHECK_AT,
            OCTET_AT, IS_BLANKZ_AT, IS_SPACE_AT, WIDTH]
  · intro hc
    simp only [List.mem_cons, List.mem_singleton, List.not_mem_nil, or_false] at hc
    rcases hc with rfl | rfl <;>
      simp [analyze_scalar_indicators, string_at, CHECK, CHECK_AT, OCTET_AT]

/-- The loop never clears `flow_indicators`, `block_indicators` and
`line_breaks`. -/
theorem analyze_scalar_loop_flags_kept (emitter : yaml_emitter_t) (fuel : Nat)
    (string : yaml_string_t) (l l' : analyze_scalar_locals)
    (h : analyze_scalar_loop emitter fuel string l = some l') :
    (l.flow_indicators = true → l'.flow_indicators = true) ∧
    (l.block_indicators = true → l'.block_indicators = true) ∧
    (l.line_breaks = true → l'.line_breaks = true) := by
  refine ⟨?_, ?_, ?_⟩
  · refine analyze_scalar_loop_invariant emitter (fun m => m.flow_indicators = true) ?_
      fuel string l l' h
    intro s m hm
    rw [(analyze_scalar_step_fields emitter s m).1]
    exact analyze_scalar_indicators_flow_kept s m hm
  · refine analyze_scalar_loop_invariant emitter (fun m => m.block_indicators = true) ?_
      fuel string l l' h
    intro s m hm
    rw [(analyze_scalar_step_fields emitter s m).2.1]
    exact analyze_scalar_indicators_block_kept s m hm
  · refine analyze_scalar_loop_invariant emitter (fun m => m.line_breaks = true) ?_
      fuel string l l' h
    intro s m hm
    rw [(analyze_scalar_step_fields emitter s m).2.2, hm]
    rfl

/-- C11: for every non-empty scalar value whose first character is one of
`# , [ ] { } & * ! | > ' " % @` or a backquote, or whose first character is
`-`, `?` or `:` immediately followed by a space,
`yaml_emitter_analyze_scalar` clears both `is_flow_plain_allowed` and
`is_block_plain_allowed`; and for a first character `?` or `:`, whatever
follows it, it clears `is_flow_plain_allowed`.  The call returns whenever
every character of the value starts with a UTF-8 lead byte, and every result
it returns has the permissions cleared as said. -/
theorem analyze_scalar_leading_indicator (emitter : yaml_emitter_t) (c : yaml_char_t)
    (rest : List yaml_char_t) :
    (has_valid_lead_bytes (c :: rest) = true →
      (yaml_emitter_analyze_scalar emitter (c :: rest)).isSome = true) ∧
    ∀ result, yaml_emitter_analyze_scalar emitter (c :: rest) = some result →
      ((c ∈ [0x23, 0x2C, 0x5B, 0x5D, 0x7B, 0x7D, 0x26, 0x2A, 0x21, 0x7C, 0x3E, 0x27, 0x22,
            0x25, 0x40, 0x60] ∨
          (c ∈ [0x2D, 0x3F, 0x3A] ∧ rest.head? = some 0x20)) →
        result.2.scalar_data.is_flow_plain_allowed = false ∧
        result.2.scalar_data.is_block_plain_allowed = false) ∧
      (c ∈ [0x3F, 0x3A] → result.2.scalar_data.is_flow_plain_allowed = false) := by
  refine ⟨analyze_scalar_returns emitter (c :: rest), ?_⟩
  intro result hres
  obtain ⟨l, hloop, _, hdata⟩ := analyze_scalar_nonempty emitter c rest result hres
  obtain ⟨hflow, hblock, _⟩ := analyze_scalar_loop_flags_kept _ _ _ _ _ hloop
  rw [(analyze_scalar_step_fields _ _ _).1] at hflow
  rw [(analyze_scalar_step_fields _ _ _).2.1] at hblock
  obtain ⟨_, pflow, pblock, _⟩ := analyze_scalar_permissions_flags l
    (analyze_scalar_store emitter (c :: rest)).scalar_data
  obtain ⟨hboth, hq⟩ := analyze_scalar_indicators_first c rest
  rw [hdata]
  exact ⟨fun hc => ⟨pflow (hflow (hboth hc).1), pblock (hblock (hboth hc).2)⟩,
    fun hc => pflow (hflow (hq hc))⟩

/-- Witness of C11: the value `- a` starts with `-` followed by a space and is
analysed with both plain permissions cleared. -/
theorem analyze_scalar_leading_indicator_witness :
    (yaml_emitter_analyze_scalar emitter_unicode [0x2D, 0x20, 0x61]).isSome = true ∧
    ∀ result, yaml_emitter_analyze_scalar emitter_unicode [0x2D, 0x20, 0x61] = some result →
      result.2.scalar_data.is_flow_plain_allowed = false ∧
      result.2.scalar_data.is_block_plain_allowed = false :=
  ⟨(analyze_scalar_leading_indicator emitter_unicode 0x2D [0x20, 0x61]).1 (by decide),
    fun result h =>
      ((analyze_scalar_leading_indicator emitter_unicode 0x2D [0x20, 0x61]).2 result h).1
        (Or.inr ⟨by decide, rfl⟩)⟩

/-- C12: for every scalar value that begins with the three characters `---` or
`...`, `yaml_emitter_analyze_scalar` clears both `is_flow_plain_allowed` and
`is_block_plain_allowed`, so that no successful
`yaml_emitter_select_scalar_style` on the analysed scalar stores PLAIN.  The
call returns whenever every character of the value starts with a UTF-8 lead
byte, and every result it returns has the two permissions cleared. -/
theorem analyze_scalar_document_marker (emitter : yaml_emitter_t)
    (value rest : List yaml_char_t)
    (hvalue : value = 0x2D :: 0x2D :: 0x2D :: rest ∨ value = 0x2E :: 0x2E :: 0x2E :: rest) :
    (has_valid_lead_bytes value = true →
      (yaml_emitter_analyze_scalar emitter value).isSome = true) ∧
    ∀ result, yaml_emitter_analyze_scalar emitter value = some result →
      result.2.scalar_data.is_flow_plain_allowed = false ∧
      result.2.scalar_data.is_block_plain_allowed = false ∧
      ∀ event, (yaml_emitter_select_scalar_style result.2 event).1 = true →
        (yaml_emitter_select_scalar_style result.2 event).2.scalar_data.style
          ≠ YAML_PLAIN_SCALAR_STYLE := by
  refine ⟨analyze_scalar_returns emitter value, ?_⟩
  intro result hres
  have hstart : ∃ c tail, value = c :: tail ∧
      (analyze_scalar_start (string_at value 0)).flow_indicators = true ∧
      (analyze_scalar_start (string_at value 0)).block_indicators = true := by
    rcases hvalue with h | h <;>
      exact ⟨_, _, h, by
        subst h
        simp [analyze_scalar_start, string_at, CHECK_AT, OCTET_AT]⟩
  obtain ⟨c, tail, hc, sflow, sblock⟩ := hstart
  subst hc
  obtain ⟨l, hloop, _, hdata⟩ := analyze_scalar_nonempty emitter c tail result hres
  obtain ⟨hflow, hblock, _⟩ := analyze_scalar_loop_flags_kept _ _ _ _ _ hloop
  rw [(analyze_scalar_step_fields _ _ _).1] at hflow
  rw [(analyze_scalar_step_fields _ _ _).2.1] at hblock
  obtain ⟨_, pflow, pblock, _⟩ := analyze_scalar_permissions_flags l
    (analyze_scalar_store emitter (c :: tail)).scalar_data
  have h1 : result.2.scalar_data.is_flow_plain_allowed = false := by
    rw [hdata]
    exact pflow (hflow (analyze_scalar_indicators_flow_kept _ _ sflow))
  have h2 : result.2.scalar_data.is_block_plain_allowed = false := by
    rw [hdata]
    exact pblock (hblock (analyze_scalar_indicators_block_kept _ _ sblock))
  refine ⟨h1, h2, ?_⟩
  intro event hok hplain
  obtain ⟨hf, hb⟩ := select_scalar_style_plain_permission result.2 event hok hplain
  by_cases h0 : result.2.flow_level = 0
  · have := hb h0
    rw [h2] at this
    exact Bool.noConfusion this
  · have := hf h0
    rw [h1] at this
    exact Bool.noConfusion this

/-- Witness of C12: the value `---` is analysed with both plain permissions
cleared. -/
theorem analyze_scalar_document_marker_witness :
    (yaml_emitter_analyze_scalar emitter_unicode [0x2D, 0x2D, 0x2D]).isSome = true ∧
    ∀ result, yaml_emitter_analyze_scalar emitter_unicode [0x2D, 0x2D, 0x2D] = some result →
      result.2.scalar_data.is_flow_plain_allowed = false ∧
      result.2.scalar_data.is_block_plain_allowed = false :=
  ⟨(analyze_scalar_document_marker emitter_unicode [0x2D, 0x2D, 0x2D] [] (Or.inl rfl)).1
      (by decide),
    fun result h =>
      ⟨((analyze_scalar_document_marker emitter_unicode [0x2D, 0x2D, 0x2D] []
          (Or.inl rfl)).2 result h).1,
        ((analyze_scalar_document_marker emitter_unicode [0x2D, 0x2D, 0x2D] []
          (Or.inl rfl)).2 result h).2.1⟩⟩

/-- The loop sets `line_breaks` exactly when it was set before or one of the
characters read is a line break. -/
theorem analyze_scalar_loop_line_breaks (emitter : yaml_emitter_t)
    (value : List yaml_char_t) (fuel : Nat) :
    ∀ (pointer : Nat) (l l' : analyze_scalar_locals),
      analyze_scalar_loop emitter fuel (string_at value pointer) l = some l' →
      l'.line_breaks = (l.line_breaks ||
        (character_positions value fuel pointer).any
          (fun position => IS_BREAK (string_at value position))) := by
  induction fuel with
  | zero =>
    intro pointer l l' h
    simp only [analyze_scalar_loop] at h
    split_ifs at h
    cases h
    simp [character_positions]
  | succ fuel ih =>
    intro pointer l l' h
    simp only [analyze_scalar_loop] at h
    have hcap : (string_at value pointer).capacity = value.length := rfl
    have hptr : (string_at value pointer).pointer = pointer := rfl
    rw [hcap, hptr] at h
    simp only [character_positions]
    by_cases hlt : pointer < value.length
    · rw [if_pos hlt] at h ⊢
      rw [analyze_scalar_step_string] at h
      rw [ih _ _ _ h, (analyze_scalar_step_fields _ _ _).2.2, List.any_cons, Bool.or_assoc]
    · rw [if_neg hlt] at h ⊢
      cases h
      simp

/-- C13: for every scalar value, `yaml_emitter_analyze_scalar` sets
`is_multiline` if and only if the value contains a line-break character (CR,
LF, NEL, LS or PS, the characters `IS_BREAK` accepts), and whenever
`is_multiline` is set both `is_flow_plain_allowed` and
`is_block_plain_allowed` are false.  The call returns whenever every character
of the value starts with a UTF-8 lead byte, and every result it returns is as
said. -/
theorem analyze_scalar_multiline (emitter : yaml_emitter_t) (value : List yaml_char_t) :
    (has_valid_lead_bytes value = true →
      (yaml_emitter_analyze_scalar emitter value).isSome = true) ∧
    ∀ result, yaml_emitter_analyze_scalar emitter value = some result →
      (result.2.scalar_data.is_multiline = true ↔ has_line_break value = true) ∧
      (result.2.scalar_data.is_multiline = true →
        result.2.scalar_data.is_flow_plain_allowed = false ∧
        result.2.scalar_data.is_block_plain_allowed = false) := by
  refine ⟨analyze_scalar_returns emitter value, ?_⟩
  intro result hres
  cases value with
  | nil =>
    simp only [yaml_emitter_analyze_scalar, STRING, List.length_nil, if_true,
      Option.some.injEq] at hres
    subst hres
    simp [has_line_break, character_positions]
  | cons c rest =>
    have hres' := hres
    simp only [yaml_emitter_analyze_scalar, STRING, List.length_cons, Nat.succ_ne_zero,
      if_false, Option.map_eq_some'] at hres'
    obtain ⟨l, hloop, hdata⟩ := hres'
    subst hdata
    have hlb := analyze_scalar_loop_line_breaks _ (c :: rest) _ 0 _ l hloop
    obtain ⟨pml, _, _, pboth⟩ := analyze_scalar_permissions_flags l
      (analyze_scalar_store emitter (c :: rest)).scalar_data
    have hstart : (analyze_scalar_start
        { buffer := c :: rest, pointer := 0, capacity := rest.length + 1 }).line_breaks
          = false := by
      simp only [analyze_scalar_start]
      split_ifs <;> rfl
    rw [hstart, Bool.false_or] at hlb
    refine ⟨?_, ?_⟩
    · show (analyze_scalar_permissions l _).is_multiline = true ↔ _
      rw [pml, hlb]
      rfl
    · intro hml
      have hml' : (analyze_scalar_permissions l
          (analyze_scalar_store emitter (c :: rest)).scalar_data).is_multiline = true := hml
      rw [pml] at hml'
      exact pboth hml'

/-! ## Theorems: directive and anchor analysis -/

/-- An alphanumerical character is one octet wide. -/
theorem WIDTH_of_IS_ALPHA (string : yaml_string_t) (h : IS_ALPHA string = true) :
    WIDTH string = 1 := by
  simp only [IS_ALPHA, is_alphanumeric] at h
  simp only [WIDTH]
  generalize OCTET_AT string 0 = octet at h ⊢
  simp only [Bool.or_eq_true, Bool.and_eq_true, decide_eq_true_eq] at h
  have key : ∀ b : Nat, ((48 ≤ b ∧ b ≤ 57 ∨ 65 ≤ b ∧ b ≤ 90) ∨ 97 ≤ b ∧ b ≤ 122) → b < 128 := by
    intro b hb
    omega
  rw [if_pos (key octet h)]

/-- With enough fuel the loop over alphanumerical characters ends, and it ends
with `true` exactly when every octet from the pointer up to the limit is
alphanumerical. -/
theorem analyze_alpha_loop_spec (buffer : List yaml_char_t) (capacity limit : Nat)
    (fuel : Nat) :
    ∀ pointer, limit - pointer ≤ fuel →
      ∃ ok, analyze_alpha_loop limit fuel
          { buffer := buffer, pointer := pointer, capacity := capacity } = some ok ∧
        (ok = true ↔ ∀ i, pointer ≤ i → i < limit →
          is_alphanumeric (buffer.getD i 0) = true) := by
  induction fuel with
  | zero =>
    intro pointer hfuel
    refine ⟨true, ?_, ?_⟩
    · simp only [analyze_alpha_loop]
      rw [if_neg (by omega)]
    · simp only [true_iff]
      intro i h1 h2
      omega
  | succ fuel ih =>
    intro pointer hfuel
    simp only [analyze_alpha_loop]
    by_cases hlt : pointer < limit
    · rw [if_pos hlt]
      by_cases ha : IS_ALPHA { buffer := buffer, pointer := pointer, capacity := capacity }
          = true
      · have hw := WIDTH_of_IS_ALPHA _ ha
        simp only [ha, Bool.not_true, Bool.false_eq_true, if_false, MOVE, hw]
        obtain ⟨ok, hloop, hok⟩ := ih (pointer + 1) (by omega)
        refine ⟨ok, hloop, hok.trans ?_⟩
        constructor
        · intro hall i h1 h2
          by_cases hi : i = pointer
          · subst hi
            simpa only [IS_ALPHA, OCTET_AT, Nat.add_zero] using ha
          · exact hall i (by omega) h2
        · intro hall i h1 h2
          exact hall i (by omega) h2
      · simp only [Bool.not_eq_true] at ha
        simp only [ha, Bool.not_false, if_true]
        refine ⟨false, rfl, ?_⟩
        simp only [Bool.false_eq_true, false_iff]
        intro hall
        have := hall pointer (le_refl _) hlt
        simp only [IS_ALPHA, OCTET_AT, Nat.add_zero] at ha
        rw [ha] at this
        exact Bool.noConfusion this
    · rw [if_neg hlt]
      refine ⟨true, rfl, ?_⟩
      simp only [true_iff]
      intro i h1 h2
      omega

/-- C19: `yaml_emitter_analyze_tag_directive` always returns, and it succeeds if
and only if the handle is non-empty, its first and last bytes are `!`, every
byte strictly between them is alphanumeric, and the prefix is non-empty; a
successful call leaves the emitter as it was. -/
theorem analyze_tag_directive_succeeds_iff (emitter : yaml_emitter_t)
    (tag_directive : yaml_tag_directive_t) :
    (yaml_emitter_analyze_tag_directive emitter tag_directive).isSome = true ∧
    ((yaml_emitter_analyze_tag_directive emitter tag_directive).map (fun result => result.1)
        = some true ↔
      (tag_directive.handle ≠ [] ∧
        tag_directive.handle.head? = some 0x21 ∧
        tag_directive.handle.getLast? = some 0x21 ∧
        (∀ i, 0 < i → i < tag_directive.handle.length - 1 →
          is_alphanumeric (tag_directive.handle.getD i 0) = true) ∧
        tag_directive.prefix_ ≠ [])) ∧
    ((yaml_emitter_analyze_tag_directive emitter tag_directive).map (fun result => result.1)
        = some true →
      yaml_emitter_analyze_tag_directive emitter tag_directive = some (true, emitter)) := by
  obtain ⟨handle, prefix_bytes⟩ := tag_directive
  cases handle with
  | nil => simp [yaml_emitter_analyze_tag_directive, STRING]
  | cons c rest =>
    obtain ⟨ok, hloop, hok⟩ := analyze_alpha_loop_spec (c :: rest) (rest.length + 1)
      rest.length (rest.length + 1) 1 (by omega)
    have hlast : (c :: rest).getLast? = some ((c :: rest).getD rest.length 0) := by
      rw [List.getLast?_eq_getElem?, List.getD_eq_getElem?_getD]
      simp
    have hinner : ok = true ↔
        (∀ i, 0 < i → i < rest.length → is_alphanumeric ((c :: rest).getD i 0) = true) :=
      hok
    simp only [yaml_emitter_analyze_tag_directive, STRING, List.length_cons,
      Nat.succ_ne_zero, if_false, Nat.add_sub_cancel, Nat.zero_add, hloop, hlast,
      List.head?_cons, Option.some.injEq, ne_eq, List.cons_ne_nil, not_false_eq_true,
      true_and, List.getD_cons_zero]
    generalize (∀ i, 0 < i → i < rest.length →
      is_alphanumeric ((c :: rest).getD i 0) = true) = inner at hinner ⊢
    generalize (c :: rest).getD rest.length 0 = last
    clear hok hloop hlast
    by_cases h1 : c = 0x21 <;> by_cases h2 : last = 0x21 <;> cases ok <;>
      cases prefix_bytes <;> simp_all


/-- C20: `yaml_emitter_analyze_anchor` always returns, and it succeeds if and
only if the anchor (or alias) string is non-empty and consists of alphanumeric
characters only; on success `anchor_data` holds the string, its length and the
`is_alias` flag and nothing else of the emitter changes, and on failure
`anchor_data` is unchanged and the EMITTER error is recorded. -/
theorem analyze_anchor_spec (emitter : yaml_emitter_t) (anchor : List yaml_char_t)
    (is_alias : Bool) :
    ∃ result, yaml_emitter_analyze_anchor emitter anchor is_alias = some result ∧
      (result.1 = true ↔
        (anchor ≠ [] ∧ ∀ octet ∈ anchor, is_alphanumeric octet = true)) ∧
      (result.1 = true →
        result.2 = { emitter with
          anchor_data := { anchor := some anchor, anchor_length := anchor.length,
                           is_alias := is_alias } }) ∧
      (result.1 = false →
        result.2.anchor_data = emitter.anchor_data ∧
        result.2.error = YAML_EMITTER_ERROR) := by
  cases hanchor : anchor with
  | nil =>
    refine ⟨_, rfl, ?_⟩
    simp [EMITTER_ERROR_INIT]
  | cons c rest =>
    obtain ⟨ok, hloop, hok⟩ := analyze_alpha_loop_spec (c :: rest) (rest.length + 1)
      (rest.length + 1) (rest.length + 1) 0 (by omega)
    have hmem : ok = true ↔ ∀ octet ∈ c :: rest, is_alphanumeric octet = true := by
      rw [hok]
      constructor
      · intro hall octet hoctet
        obtain ⟨i, hi, hget⟩ := List.mem_iff_getElem.mp hoctet
        have := hall i (Nat.zero_le _) hi
        rw [List.getD_eq_getElem _ _ hi, hget] at this
        exact this
      · intro hall i _ hi
        have hi' : i < (c :: rest).length := hi
        rw [List.getD_eq_getElem _ _ hi']
        exact hall _ (List.getElem_mem _)
    simp only [yaml_emitter_analyze_anchor, STRING, List.length_cons, Nat.succ_ne_zero,
      if_false, hloop]
    generalize (∀ octet ∈ c :: rest, is_alphanumeric octet = true) = inner at hmem ⊢
    cases ok
    · refine ⟨_, rfl, ?_⟩
      have hn : ¬ inner := fun h => Bool.noConfusion (hmem.mpr h)
      simp [EMITTER_ERROR_INIT, hn]
    · refine ⟨_, rfl, ?_⟩
      have hy : inner := hmem.mp rfl
      simp [hy]

/-! ## Theorems: UTF-8 -/

/-- The octets read at a position that follows `before` are those of the rest
of the value. -/
theorem OCTET_AT_append (before after : List yaml_char_t) (offset : Nat) :
    OCTET_AT (string_at (before ++ after) before.length) offset = after.getD offset 0 := by
  simp only [OCTET_AT, string_at]
  rw [List.getD_append_right _ _ _ _ (Nat.le_add_right _ _), Nat.add_sub_cancel_left]

/-- The shapes of a UTF-8 character, with the ranges of its octets. -/
theorem is_utf8_character_cases (octets : List yaml_char_t)
    (h : is_utf8_character octets = true) :
    (∃ b0 : Nat, octets = [b0] ∧ b0 < 0x80) ∨
    (∃ b0 b1 : Nat, octets = [b0, b1] ∧ 0xC2 ≤ b0 ∧ b0 < 0xE0 ∧ 0x80 ≤ b1 ∧ b1 < 0xC0) ∨
    (∃ b0 b1 b2 : Nat, octets = [b0, b1, b2] ∧ 0xE0 ≤ b0 ∧ b0 < 0xF0 ∧ 0x80 ≤ b1 ∧ b1 < 0xC0 ∧
      0x80 ≤ b2 ∧ b2 < 0xC0 ∧ (b0 = 0xE0 → 0xA0 ≤ b1)) ∨
    (∃ b0 b1 b2 b3 : Nat, octets = [b0, b1, b2, b3] ∧ 0xF0 ≤ b0 ∧ b0 < 0xF8 ∧
      0x80 ≤ b1 ∧ b1 < 0xC0 ∧ 0x80 ≤ b2 ∧ b2 < 0xC0 ∧ 0x80 ≤ b3 ∧ b3 < 0xC0 ∧
      (b0 = 0xF0 → 0x90 ≤ b1)) := by
  match octets, h with
  | [b0], h =>
    left
    exact ⟨b0, rfl, by simpa [is_utf8_character] using h⟩
  | [b0, b1], h =>
    right; left
    simp only [is_utf8_character, is_continuation, Bool.and_eq_true, decide_eq_true_eq] at h
    exact ⟨b0, b1, rfl, h.1.1, h.1.2, h.2.1, h.2.2⟩
  | [b0, b1, b2], h =>
    right; right; left
    simp only [is_utf8_character, is_continuation, Bool.and_eq_true, decide_eq_true_eq,
      Bool.or_eq_true, bne_iff_ne, ne_eq] at h
    refine ⟨b0, b1, b2, rfl, h.1.1.1.1, h.1.1.1.2, h.1.1.2.1, h.1.1.2.2, h.1.2.1, h.1.2.2, ?_⟩
    intro h0
    rcases h.2 with h' | h'
    · exact absurd h0 h'
    · exact h'
  | [b0, b1, b2, b3], h =>
    right; right; right
    simp only [is_utf8_character, is_continuation, Bool.and_eq_true, decide_eq_true_eq,
      Bool.or_eq_true, bne_iff_ne, ne_eq] at h
    refine ⟨b0, b1, b2, b3, rfl, h.1.1.1.1.1, h.1.1.1.1.2, h.1.1.1.2.1, h.1.1.1.2.2,
      h.1.1.2.1, h.1.1.2.2, h.1.2.1, h.1.2.2, ?_⟩
    intro h0
    rcases h.2 with h' | h'
    · exact absurd h0 h'
    · exact h'
  | [], h => simp [is_utf8_character] at h
  | _ :: _ :: _ :: _ :: _ :: _, h => simp [is_utf8_character] at h

/-- A UTF-8 character has at least one octet. -/
theorem is_utf8_character_ne_nil (octets : List yaml_char_t)
    (h : is_utf8_character octets = true) : octets ≠ [] := by
  intro h0
  subst h0
  simp [is_utf8_character] at h

/-- The characters found in a string are UTF-8 characters and make up the
string. -/
theorem utf8_characters_spec (fuel : Nat) :
    ∀ (value : List yaml_char_t) (characters : List (List yaml_char_t)),
      utf8_characters fuel value = some characters →
      characters.flatten = value ∧
      ∀ octets ∈ characters, is_utf8_character octets = true := by
  induction fuel with
  | zero =>
    intro value characters h
    cases value with
    | nil =>
      simp only [utf8_characters, Option.some.injEq] at h
      subst h
      simp
    | cons b0 rest => simp [utf8_characters] at h
  | succ fuel ih =>
    intro value characters h
    cases value with
    | nil =>
      simp only [utf8_characters, Option.some.injEq] at h
      subst h
      simp
    | cons b0 rest =>
      simp only [utf8_characters] at h
      generalize (if b0 < 0x80 then 1 else if b0 < 0xE0 then 2 else if b0 < 0xF0 then 3
        else 4) = width at h
      split_ifs at h with hc
      simp only [Option.map_eq_some'] at h
      obtain ⟨tail, htail, hcs⟩ := h
      subst hcs
      obtain ⟨hflat, hall⟩ := ih _ _ htail
      refine ⟨?_, ?_⟩
      · rw [List.flatten_cons, hflat, List.take_append_drop]
      · intro octets hmem
        rcases List.mem_cons.mp hmem with h1 | h1
        · rw [h1]
          exact hc
        · exact hall _ h1

/-- A valid UTF-8 string is the concatenation of UTF-8 characters. -/
theorem is_valid_utf8_characters (value : List yaml_char_t)
    (h : is_valid_utf8 value = true) :
    ∃ characters : List (List yaml_char_t), characters.flatten = value ∧
      ∀ octets ∈ characters, is_utf8_character octets = true := by
  simp only [is_valid_utf8, Option.isSome_iff_exists] at h
  obtain ⟨characters, hcs⟩ := h
  exact ⟨characters, utf8_characters_spec _ _ _ hcs⟩

/-- A string of UTF-8 characters has at least as many octets as characters. -/
theorem length_le_flatten_length (characters : List (List yaml_char_t))
    (h : ∀ octets ∈ characters, is_utf8_character octets = true) :
    characters.length ≤ characters.flatten.length := by
  induction characters with
  | nil => simp
  | cons c cs ih =>
    have hc := is_utf8_character_ne_nil c (h c (List.mem_cons_self _ _))
    have hlen : 0 < c.length := List.length_pos.mpr hc
    have := ih (fun o ho => h o (List.mem_cons_of_mem _ ho))
    simp only [List.flatten_cons, List.length_append, List.length_cons]
    omega

/-- Reading a UTF-8 character: its width and its octets. -/
theorem WIDTH_utf8_character (before octets after : List yaml_char_t)
    (h : is_utf8_character octets = true) :
    WIDTH (string_at (before ++ (octets ++ after)) before.length) = octets.length ∧
    character_octets (string_at (before ++ (octets ++ after)) before.length) = octets := by
  have hw : WIDTH (string_at (before ++ (octets ++ after)) before.length) = octets.length := by
    simp only [WIDTH, OCTET_AT_append]
    rcases is_utf8_character_cases octets h with ⟨b0, rfl, h0⟩ | ⟨b0, b1, rfl, h0, h1, _⟩ |
      ⟨b0, b1, b2, rfl, h0, h1, _⟩ | ⟨b0, b1, b2, b3, rfl, h0, h1, _⟩
    · simp only [List.cons_append, List.nil_append, List.getD_cons_zero, List.length_cons,
        List.length_nil]
      rw [if_pos h0]
    · simp only [List.cons_append, List.nil_append, List.getD_cons_zero, List.length_cons,
        List.length_nil]
      have n1 : ¬ b0 < 0x80 := by omega
      have p2 : 0xC0 ≤ b0 := by omega
      rw [if_neg n1, if_pos ⟨p2, h1⟩]
    · simp only [List.cons_append, List.nil_append, List.getD_cons_zero, List.length_cons,
        List.length_nil]
      have n1 : ¬ b0 < 0x80 := by omega
      have n2 : ¬ (0xC0 ≤ b0 ∧ b0 < 0xE0) := by omega
      rw [if_neg n1, if_neg n2, if_pos ⟨h0, h1⟩]
    · simp only [List.cons_append, List.nil_append, List.getD_cons_zero, List.length_cons,
        List.length_nil]
      have n1 : ¬ b0 < 0x80 := by omega
      have n2 : ¬ (0xC0 ≤ b0 ∧ b0 < 0xE0) := by omega
      have n3 : ¬ (0xE0 ≤ b0 ∧ b0 < 0xF0) := by omega
      rw [if_neg n1, if_neg n2, if_neg n3, if_pos ⟨h0, h1⟩]
  refine ⟨hw, ?_⟩
  simp only [character_octets, hw, OCTET_AT_append]
  rcases is_utf8_character_cases octets h with ⟨b0, rfl, _⟩ | ⟨b0, b1, rfl, _⟩ |
    ⟨b0, b1, b2, rfl, _⟩ | ⟨b0, b1, b2, b3, rfl, _⟩ <;> rfl

/-- Moving past a UTF-8 character leads to the position after it. -/
theorem string_at_append_move (before octets after : List yaml_char_t) :
    ({ string_at (before ++ (octets ++ after)) before.length with
        pointer := before.length + octets.length } : yaml_string_t)
      = string_at ((before ++ octets) ++ after) (before ++ octets).length := by
  simp [string_at]


/-- The octets of a UTF-8 character are below 256, the first is not a
continuation octet and the others are. -/
theorem is_utf8_character_octets (octets : List Nat)
    (h : is_utf8_character octets = true) :
    (∀ octet ∈ octets, octet < 256) ∧
    (∃ (lead : Nat) (tail : List Nat), octets = lead :: tail ∧
      (lead < 0x80 ∨ 0xC2 ≤ lead) ∧ (lead < 0x80 → tail = []) ∧
      ∀ octet ∈ tail, 0x80 ≤ octet ∧ octet < 0xC0) := by
  rcases is_utf8_character_cases octets h with ⟨b0, rfl, h0⟩ | ⟨b0, b1, rfl, h0, h1, h2, h3⟩ |
    ⟨b0, b1, b2, rfl, h0, h1, h2, h3, h4, h5, _⟩ |
    ⟨b0, b1, b2, b3, rfl, h0, h1, h2, h3, h4, h5, h6, h7, _⟩
  · refine ⟨?_, b0, [], rfl, Or.inl h0, fun _ => rfl, ?_⟩
    · intro o ho
      simp only [List.mem_singleton] at ho
      subst ho
      omega
    · intro o ho
      simp at ho
  · refine ⟨?_, b0, [b1], rfl, Or.inr h0, fun hlt => absurd hlt (by omega), ?_⟩
    · intro o ho
      simp only [List.mem_cons, List.mem_singleton, List.not_mem_nil, or_false] at ho
      rcases ho with rfl | rfl <;> omega
    · intro o ho
      simp only [List.mem_singleton] at ho
      subst ho
      omega
  · refine ⟨?_, b0, [b1, b2], rfl, Or.inr (by omega), fun hlt => absurd hlt (by omega), ?_⟩
    · intro o ho
      simp only [List.mem_cons, List.mem_singleton, List.not_mem_nil, or_false] at ho
      rcases ho with rfl | rfl | rfl <;> omega
    · intro o ho
      simp only [List.mem_cons, List.mem_singleton, List.not_mem_nil, or_false] at ho
      rcases ho with rfl | rfl <;> omega
  · refine ⟨?_, b0, [b1, b2, b3], rfl, Or.inr (by omega), fun hlt => absurd hlt (by omega),
      ?_⟩
    · intro o ho
      simp only [List.mem_cons, List.mem_singleton, List.not_mem_nil, or_false] at ho
      rcases ho with rfl | rfl | rfl | rfl <;> omega
    · intro o ho
      simp only [List.mem_cons, List.mem_singleton, List.not_mem_nil, or_false] at ho
      rcases ho with rfl | rfl | rfl <;> omega

/-- `WRITE` on a UTF-8 character appends its octets and moves past it. -/
theorem WRITE_utf8_character (before octets after : List yaml_char_t)
    (emitter : yaml_emitter_t) (h : is_utf8_character octets = true) :
    (WRITE emitter (string_at (before ++ (octets ++ after)) before.length)).1
      = { emitter with output := emitter.output ++ octets, column := emitter.column + 1 } ∧
    (WRITE emitter (string_at (before ++ (octets ++ after)) before.length)).2
      = string_at ((before ++ octets) ++ after) (before ++ octets).length := by
  obtain ⟨hw, hoct⟩ := WIDTH_utf8_character before octets after h
  refine ⟨?_, ?_⟩
  · simp only [WRITE, COPY, hoct]
  · simp only [WRITE, COPY, MOVE, hw]
    exact string_at_append_move before octets after

/-- At the end of the value the pointer is not below the capacity. -/
theorem string_at_end (value : List yaml_char_t) :
    ¬ (string_at (value ++ []) value.length).pointer
      < (string_at (value ++ []) value.length).capacity := by
  simp [string_at]

/-- Before a UTF-8 character the pointer is below the capacity. -/
theorem string_at_lt (before octets after : List yaml_char_t)
    (h : is_utf8_character octets = true) :
    (string_at (before ++ (octets ++ after)) before.length).pointer
      < (string_at (before ++ (octets ++ after)) before.length).capacity := by
  have := List.length_pos.mpr (is_utf8_character_ne_nil octets h)
  simp only [string_at, List.length_append]
  omega

/-! ## Theorems: tag content -/

/-- The digit character of the emitter is the uppercase hexadecimal digit, and
reading it as a hexadecimal digit gives the digit value back. -/
theorem hex_digit_eq : ∀ digit : Nat, digit < 16 →
    hex_digit digit = uppercase_hex_digit digit ∧
    hex_value (uppercase_hex_digit digit) = some digit ∧
    uppercase_hex_digit digit < 0x80 := by
  decide

/-- The two digits written for an octet are the uppercase hexadecimal digits
of its high and low half. -/
theorem hex_digit_octet (octet : Nat) (h : octet < 256) :
    hex_digit (octet >>> 4) = uppercase_hex_digit (octet / 16) ∧
    hex_digit (octet &&& 0x0F) = uppercase_hex_digit (octet % 16) := by
  have h1 : octet >>> 4 = octet / 16 := Nat.shiftRight_eq_div_pow octet 4
  have h2 : octet &&& 0x0F = octet % 16 := Nat.and_pow_two_sub_one_eq_mod octet 4
  rw [h1, h2]
  exact ⟨(hex_digit_eq _ (by omega)).1, (hex_digit_eq _ (Nat.mod_lt _ (by omega))).1⟩

/-- A URI character is an ASCII character other than `%`. -/
theorem is_uri_character_ascii (octet : Nat) (h : is_uri_character octet = true) :
    octet < 0x80 ∧ octet ≠ 0x25 := by
  simp only [is_uri_character, is_alphanumeric, Bool.or_eq_true,
    Bool.and_eq_true, decide_eq_true_eq, beq_iff_eq] at h
  unfold yaml_char_t at h
  omega

/-- The test of the emitter for a character written as it is, is the test for
a URI character on the octet under the pointer. -/
theorem write_tag_content_is_verbatim_eq (string : yaml_string_t) :
    write_tag_content_is_verbatim string = is_uri_character (OCTET_AT string 0) := by
  simp only [write_tag_content_is_verbatim, is_uri_character, IS_ALPHA, CHECK, CHECK_AT]

/-- The escape loop writes the percent-encoding of the octets it passes. -/
theorem write_tag_content_escape_spec (octets : List yaml_char_t) :
    ∀ (before after : List yaml_char_t) (emitter : yaml_emitter_t),
      (∀ octet ∈ octets, octet < 256) →
      (write_tag_content_escape octets.length emitter
          (string_at (before ++ (octets ++ after)) before.length)).2
        = string_at ((before ++ octets) ++ after) (before ++ octets).length ∧
      (write_tag_content_escape octets.length emitter
          (string_at (before ++ (octets ++ after)) before.length)).1.output
        = emitter.output ++ percent_escape octets := by
  induction octets with
  | nil =>
    intro before after emitter _
    simp [write_tag_content_escape, percent_escape]
  | cons o os ih =>
    intro before after emitter hlt
    have ho : o < 256 := hlt o (List.mem_cons_self _ _)
    have hos : ∀ octet ∈ os, octet < 256 := fun x hx => hlt x (List.mem_cons_of_mem _ hx)
    have hstr : ({ string_at (before ++ (o :: os ++ after)) before.length with
        pointer := (string_at (before ++ (o :: os ++ after)) before.length).pointer + 1 }
          : yaml_string_t)
        = string_at ((before ++ [o]) ++ (os ++ after)) (before ++ [o]).length := by
      simp [string_at]
    have hoct : OCTET_AT (string_at (before ++ (o :: os ++ after)) before.length) 0 = o := by
      rw [OCTET_AT_append]
      rfl
    simp only [List.length_cons, write_tag_content_escape, hstr, hoct]
    obtain ⟨h1, h2⟩ := ih (before ++ [o]) after
      (PUT (PUT (PUT emitter 0x25) (hex_digit (o >>> 4))) (hex_digit (o &&& 0x0F))) hos
    refine ⟨?_, ?_⟩
    · rw [h1]
      simp [string_at]
    · rw [h2]
      obtain ⟨d1, d2⟩ := hex_digit_octet o ho
      simp [PUT, percent_escape, d1, d2]

/-- The percent-encoding of a UTF-8 character: a URI character is kept, every
octet of any other character is escaped. -/
theorem percent_encode_character (octets : List Nat)
    (h : is_utf8_character octets = true) :
    (is_uri_character (octets.getD 0 0) = true → percent_encode octets = octets) ∧
    (is_uri_character (octets.getD 0 0) = false →
      percent_encode octets = percent_escape octets) := by
  obtain ⟨_, lead, tail, rfl, hlead, hone, htail⟩ := is_utf8_character_octets octets h
  simp only [List.getD_cons_zero]
  refine ⟨?_, ?_⟩
  · intro huri
    have hl := (is_uri_character_ascii lead huri).1
    rw [hone hl]
    simp [percent_encode, huri]
  · intro huri
    have htail' : ∀ octet ∈ tail, is_uri_character octet = false := by
      intro o ho
      by_contra hc
      simp only [Bool.not_eq_false] at hc
      have h1 := (is_uri_character_ascii o hc).1
      have h2 := (htail o ho).1
      omega
    simp only [percent_encode, percent_escape, List.flatMap_cons, huri, Bool.false_eq_true,
      if_false]
    congr 1
    apply List.flatMap_congr
    intro o ho
    rw [htail' o ho]
    rfl

/-- The loop of `yaml_emitter_write_tag_content` over a string of UTF-8
characters exits and writes their percent-encoding. -/
theorem write_tag_content_loop_spec (characters : List (List yaml_char_t)) :
    ∀ (before : List yaml_char_t) (fuel : Nat) (emitter : yaml_emitter_t),
      (∀ octets ∈ characters, is_utf8_character octets = true) →
      characters.length ≤ fuel →
      ∃ emitter', write_tag_content_loop fuel emitter
          (string_at (before ++ characters.flatten) before.length) = some emitter' ∧
        emitter'.output = emitter.output ++ percent_encode characters.flatten := by
  induction characters with
  | nil =>
    intro before fuel emitter _ _
    refine ⟨emitter, ?_, by simp [percent_encode]⟩
    have hend := string_at_end before
    cases fuel <;> simp only [write_tag_content_loop, List.flatten_nil, if_neg hend]
  | cons c cs ih =>
    intro before fuel emitter hall hfuel
    have hc := hall c (List.mem_cons_self _ _)
    have hcs : ∀ octets ∈ cs, is_utf8_character octets = true :=
      fun o ho => hall o (List.mem_cons_of_mem _ ho)
    cases fuel with
    | zero => simp at hfuel
    | succ fuel =>
      have hlt := string_at_lt before c cs.flatten hc
      obtain ⟨hw, _⟩ := WIDTH_utf8_character before c cs.flatten hc
      have henc : percent_encode (c ++ cs.flatten)
          = percent_encode c ++ percent_encode cs.flatten := by
        simp [percent_encode]
      have hoct : OCTET_AT (string_at (before ++ (c ++ cs.flatten)) before.length) 0
          = c.getD 0 0 := by
        rw [OCTET_AT_append]
        have := is_utf8_character_ne_nil c hc
        cases c with
        | nil => exact absurd rfl this
        | cons b0 tail => rfl
      simp only [List.flatten_cons, write_tag_content_loop, if_pos hlt,
        write_tag_content_is_verbatim_eq, hoct]
      obtain ⟨hkeep, hesc⟩ := percent_encode_character c hc
      cases huri : is_uri_character (c.getD 0 0)
      · simp only [Bool.false_eq_true, if_false, hw]
        obtain ⟨hlt256, _⟩ := is_utf8_character_octets c hc
        obtain ⟨hs, ho⟩ := write_tag_content_escape_spec c before cs.flatten emitter hlt256
        rw [hs]
        obtain ⟨emitter', hloop, hout⟩ := ih (before ++ c) fuel
          (write_tag_content_escape c.length emitter
            (string_at (before ++ (c ++ cs.flatten)) before.length)).1 hcs
          (by simp only [List.length_cons] at hfuel; omega)
        refine ⟨emitter', hloop, ?_⟩
        rw [hout, ho, henc, hesc huri, List.append_assoc]
      · simp only [if_true]
        obtain ⟨hw1, hw2⟩ := WRITE_utf8_character before c cs.flatten emitter hc
        rw [hw1, hw2]
        obtain ⟨emitter', hloop, hout⟩ := ih (before ++ c) fuel
          { emitter with output := emitter.output ++ c, column := emitter.column + 1 } hcs
          (by simp only [List.length_cons] at hfuel; omega)
        refine ⟨emitter', hloop, ?_⟩
        rw [hout, henc, hkeep huri, List.append_assoc]

/-- Percent-decoding undoes the percent-encoding of octets below 256. -/
theorem percent_decode_encode (value : List Nat) (h : ∀ octet ∈ value, octet < 256) :
    percent_decode (percent_encode value) = some value := by
  induction value with
  | nil => rfl
  | cons o os ih =>
    have ho : o < 256 := h o (List.mem_cons_self _ _)
    have hos := ih (fun x hx => h x (List.mem_cons_of_mem _ hx))
    have henc : percent_encode (o :: os) = percent_encode [o] ++ percent_encode os := by
      simp [percent_encode]
    rw [henc]
    cases huri : is_uri_character o
    · have h1 := (hex_digit_eq (o / 16) (by omega)).2.1
      have h2 := (hex_digit_eq (o % 16) (Nat.mod_lt _ (by omega))).2.1
      have h3 : o / 16 * 16 + o % 16 = o := by omega
      have e1 : percent_encode [o]
          = [0x25, uppercase_hex_digit (o / 16), uppercase_hex_digit (o % 16)] := by
        simp [percent_encode, huri]
      rw [e1]
      show percent_decode (0x25 :: uppercase_hex_digit (o / 16)
        :: uppercase_hex_digit (o % 16) :: percent_encode os) = _
      rw [percent_decode, if_pos rfl]
      simp only [h1, h2, hos, Option.map_some', h3]
    · have hne := (is_uri_character_ascii o huri).2
      have e1 : percent_encode [o] = [o] := by
        simp [percent_encode, huri]
      rw [e1]
      show percent_decode (o :: percent_encode os) = _
      unfold percent_decode
      rw [if_neg hne, hos]
      rfl

/-- The octets of the percent-encoding of octets below 256 are ASCII. -/
theorem percent_encode_ascii (value : List Nat) (h : ∀ octet ∈ value, octet < 256) :
    ∀ octet ∈ percent_encode value, octet < 0x80 := by
  intro x hx
  simp only [percent_encode, List.mem_flatMap] at hx
  obtain ⟨o, ho, hxo⟩ := hx
  have ho256 := h o ho
  cases huri : is_uri_character o
  · simp only [huri, Bool.false_eq_true, if_false, List.mem_cons, List.mem_singleton,
      List.not_mem_nil, or_false] at hxo
    rcases hxo with rfl | rfl | rfl
    · decide
    · exact (hex_digit_eq (o / 16) (by omega)).2.2
    · exact (hex_digit_eq (o % 16) (Nat.mod_lt _ (by omega))).2.2
  · simp only [huri, if_true, List.mem_singleton] at hxo
    subst hxo
    exact (is_uri_character_ascii x huri).1

/-- The octets of a valid UTF-8 string are below 256. -/
theorem is_valid_utf8_octets (value : List Nat) (h : is_valid_utf8 value = true) :
    ∀ octet ∈ value, octet < 256 := by
  obtain ⟨characters, hflat, hall⟩ := is_valid_utf8_characters value h
  intro o ho
  rw [← hflat, List.mem_flatten] at ho
  obtain ⟨c, hc, hoc⟩ := ho
  exact (is_utf8_character_octets c (hall c hc)).1 o hoc

/-- C18: for every valid UTF-8 tag string `yaml_emitter_write_tag_content`
returns and writes, after one space when `need_whitespace` is set and the
emitter is not at whitespace, the percent-encoding of the string: each URI
character (alphanumeric or one of `; / ? : @ & = + $ , _ . ~ * ' ( ) [ ]`) as
it is and every other octet as `%` followed by its two uppercase hexadecimal
digits.  The octets written for the string are all ASCII and percent-decoding
them yields exactly the input. -/
theorem write_tag_content_percent_encodes (emitter : yaml_emitter_t) (value : List Nat)
    (need_whitespace : Bool) (hvalid : is_valid_utf8 value = true) :
    ∃ emitter', yaml_emitter_write_tag_content emitter value need_whitespace
        = some emitter' ∧
      emitter'.output
        = emitter.output
          ++ (if need_whitespace && !emitter.is_whitespace then [0x20] else [])
          ++ percent_encode value ∧
      (∀ octet ∈ percent_encode value, octet < 0x80) ∧
      percent_decode (percent_encode value) = some value := by
  obtain ⟨characters, hflat, hall⟩ := is_valid_utf8_characters value hvalid
  have hlen := length_le_flatten_length characters hall
  rw [hflat] at hlen
  have hlt := is_valid_utf8_octets value hvalid
  obtain ⟨emitter', hloop, hout⟩ := write_tag_content_loop_spec characters [] value.length
    (if (need_whitespace && !emitter.is_whitespace) = true then PUT emitter 0x20 else emitter)
    hall hlen
  rw [hflat] at hloop hout
  refine ⟨{ emitter' with is_whitespace := false, is_indention := false }, ?_, ?_,
    percent_encode_ascii value hlt, percent_decode_encode value hlt⟩
  · simp only [yaml_emitter_write_tag_content, STRING]
    have : string_at ([] ++ value) ([] : List yaml_char_t).length
        = { buffer := value, pointer := 0, capacity := value.length } := rfl
    rw [this] at hloop
    rw [hloop]
    rfl
  · show emitter'.output = _
    rw [hout]
    split_ifs <;> simp [PUT]

/-- Witness of C18: the tag content `a é` (the octets `61 20 C3 A9`) is written
as `a%20%C3%A9`. -/
theorem write_tag_content_percent_encodes_witness :
    is_valid_utf8 [0x61, 0x20, 0xC3, 0xA9] = true ∧
    ∃ emitter', yaml_emitter_write_tag_content emitter_unicode [0x61, 0x20, 0xC3, 0xA9] false
        = some emitter' ∧
      emitter'.output = [0x61, 0x25, 0x32, 0x30, 0x25, 0x43, 0x33, 0x25, 0x41, 0x39] :=
  ⟨by decide, by
    obtain ⟨emitter', h1, h2, _⟩ := write_tag_content_percent_encodes emitter_unicode
      [0x61, 0x20, 0xC3, 0xA9] false (by decide)
    exact ⟨emitter', h1, by rw [h2]; decide⟩⟩

/-! ## Theorems: chomping -/


set_option maxRecDepth 100000 in
/-- The masks of the emitter on an octet, as ranges. -/
theorem octet_masks : ∀ octet : Nat, octet < 256 →
    ((octet &&& 0x80 = 0x00) ↔ octet < 0x80) ∧
    ((octet &&& 0xE0 = 0xC0) ↔ (0xC0 ≤ octet ∧ octet < 0xE0)) ∧
    ((octet &&& 0xF0 = 0xE0) ↔ (0xE0 ≤ octet ∧ octet < 0xF0)) ∧
    ((octet &&& 0xF8 = 0xF0) ↔ (0xF0 ≤ octet ∧ octet < 0xF8)) ∧
    ((octet &&& 0xC0 = 0x80) ↔ (0x80 ≤ octet ∧ octet < 0xC0)) := by
  decide

/-- `IS_BREAK` on a UTF-8 character tells whether the character is a line
break. -/
theorem IS_BREAK_utf8_character (before octets after : List yaml_char_t)
    (h : is_utf8_character octets = true) :
    IS_BREAK (string_at (before ++ (octets ++ after)) before.length)
      = is_break_character octets := by
  simp only [IS_BREAK, IS_BREAK_AT, CHECK_AT, OCTET_AT_append]
  rcases is_utf8_character_cases octets h with ⟨b0, rfl, h0⟩ | ⟨b0, b1, rfl, h0, h1, _⟩ |
    ⟨b0, b1, b2, rfl, h0, h1, _⟩ | ⟨b0, b1, b2, b3, rfl, h0, h1, _⟩
  · have n1 : (b0 == 0xC2) = false := by rw [beq_eq_false_iff_ne]; omega
    have n2 : (b0 == 0xE2) = false := by rw [beq_eq_false_iff_ne]; omega
    simp [is_break_character, n1, n2]
  · have n1 : (b0 == 0x0D) = false := by rw [beq_eq_false_iff_ne]; omega
    have n2 : (b0 == 0x0A) = false := by rw [beq_eq_false_iff_ne]; omega
    have n3 : (b0 == 0xE2) = false := by rw [beq_eq_false_iff_ne]; omega
    simp [is_break_character, n1, n2, n3]
  · have n1 : (b0 == 0x0D) = false := by rw [beq_eq_false_iff_ne]; omega
    have n2 : (b0 == 0x0A) = false := by rw [beq_eq_false_iff_ne]; omega
    have n3 : (b0 == 0xC2) = false := by rw [beq_eq_false_iff_ne]; omega
    simp [is_break_character, n1, n2, n3, Bool.and_or_distrib_left]
  · have n1 : (b0 == 0x0D) = false := by rw [beq_eq_false_iff_ne]; omega
    have n2 : (b0 == 0x0A) = false := by rw [beq_eq_false_iff_ne]; omega
    have n3 : (b0 == 0xC2) = false := by rw [beq_eq_false_iff_ne]; omega
    have n4 : (b0 == 0xE2) = false := by rw [beq_eq_false_iff_ne]; omega
    simp [is_break_character, n1, n2, n3, n4]

/-- From the end of a UTF-8 character the backward loop stops at its first
octet. -/
theorem determine_chomping_back_spec (before octets after : List Nat) (position : Nat)
    (h : is_utf8_character octets = true) :
    determine_chomping_back (string_at (before ++ (octets ++ after)) position)
        (before ++ octets).length
      = some (string_at (before ++ (octets ++ after)) before.length) := by
  obtain ⟨hlt, lead, tail, rfl, hlead, _, htail⟩ := is_utf8_character_octets octets h
  have hlead256 : lead < 256 := hlt lead (List.mem_cons_self _ _)
  have hstep : ∀ n, n ≤ tail.length →
      determine_chomping_back (string_at (before ++ (lead :: tail ++ after)) position)
          (before.length + 1 + n)
        = some (string_at (before ++ (lead :: tail ++ after)) before.length) := by
    intro n
    induction n with
    | zero =>
      intro _
      have hoct : OCTET_AT { string_at (before ++ (lead :: tail ++ after)) position with
          pointer := before.length } 0 = lead := by
        have := OCTET_AT_append before (lead :: tail ++ after) 0
        simpa [string_at] using this
      have hmask : ¬ (lead &&& 0xC0 = 0x80) := by
        rw [(octet_masks lead hlead256).2.2.2.2]
        omega
      simp only [Nat.add_zero, determine_chomping_back, hoct, if_neg hmask]
      rfl
    | succ n ih =>
      intro hn
      have hn' : n < tail.length := hn
      have hoct : OCTET_AT { string_at (before ++ (lead :: tail ++ after)) position with
          pointer := before.length + 1 + n } 0 = tail.getD n 0 := by
        simp only [OCTET_AT, string_at, Nat.add_zero]
        rw [List.getD_append_right _ _ _ _ (by omega)]
        have e1 : before.length + 1 + n - before.length = n + 1 := by omega
        rw [e1, List.cons_append, List.getD_cons_succ, List.getD_append _ _ _ _ hn']
      have hmem : tail.getD n 0 ∈ tail := by
        rw [List.getD_eq_getElem _ _ hn']
        exact List.getElem_mem _
      have hc := htail _ hmem
      have hmask : tail.getD n 0 &&& 0xC0 = 0x80 := by
        rw [(octet_masks _ (by omega)).2.2.2.2]
        exact hc
      have e2 : before.length + 1 + (n + 1) = (before.length + 1 + n) + 1 := by omega
      rw [e2]
      simp only [determine_chomping_back, hoct, if_pos hmask]
      exact ih (by omega)
  have hlen : (before ++ lead :: tail).length = before.length + 1 + tail.length := by
    simp only [List.length_append, List.length_cons]
    omega
  rw [hlen]
  exact hstep tail.length (le_refl _)

/-- The chomping of a value that ends with the UTF-8 character `last`: -1 when
it is not a line break, and otherwise what the second backward loop finds. -/
theorem determine_chomping_last (emitter : yaml_emitter_t) (before last : List Nat)
    (hlast : is_utf8_character last = true) :
    yaml_emitter_determine_chomping emitter (STRING (before ++ last) (before ++ last).length)
      = if is_break_character last = false then some (-1)
        else if before.length = 0 then some 0
        else
          match determine_chomping_back (string_at (before ++ last) before.length)
              before.length with
          | none => none
          | some string => if !IS_BREAK string then some 0 else some 1 := by
  have hpos : 0 < last.length := List.length_pos.mpr (is_utf8_character_ne_nil last hlast)
  have hcap : (before ++ last).length ≠ 0 := by
    simp only [List.length_append]
    omega
  have hback := determine_chomping_back_spec before last [] (before ++ last).length hlast
  have hbreak := IS_BREAK_utf8_character before last [] hlast
  simp only [List.append_nil] at hback hbreak
  have hstr0 : ({ buffer := before ++ last, pointer := (before ++ last).length, capacity := (before ++ last).length } : yaml_string_t)
      = string_at (before ++ last) (before ++ last).length := rfl
  simp only [yaml_emitter_determine_chomping, STRING, hcap, if_false, hstr0, hback, hbreak]
  cases is_break_character last
  · rfl
  · simp only [Bool.not_true, Bool.false_eq_true, if_false]
    rfl

/-- The second backward loop, from the start of the last character of the
value, finds the character before it. -/
theorem determine_chomping_second (before previous last : List Nat)
    (hprevious : is_utf8_character previous = true) :
    (match determine_chomping_back
        (string_at ((before ++ previous) ++ last) (before ++ previous).length)
        (before ++ previous).length with
      | none => none
      | some string => if !IS_BREAK string then some (0 : Int) else some 1)
      = some (if is_break_character previous then 1 else 0) := by
  have hback := determine_chomping_back_spec before previous last
    (before ++ previous).length hprevious
  have hbreak := IS_BREAK_utf8_character before previous last hprevious
  rw [List.append_assoc, hback]
  simp only [hbreak]
  cases is_break_character previous <;> rfl

/-- The number of trailing line breaks of a string of characters with one more
character at its end. -/
theorem trailing_breaks_append (characters : List (List yaml_char_t))
    (last : List yaml_char_t) :
    trailing_breaks (characters ++ [last])
      = if is_break_character last then trailing_breaks characters + 1 else 0 := by
  simp only [trailing_breaks, List.reverse_append, List.reverse_cons, List.reverse_nil,
    List.nil_append, List.singleton_append, List.takeWhile_cons]
  split_ifs <;> simp

/-- C14: for every valid UTF-8 scalar value `yaml_emitter_determine_chomping`
returns -1 if the value is empty or does not end with a line break, 0 if it
ends with exactly one line break, and +1 if it ends with two or more line
breaks (the line breaks counted over the UTF-8 characters of the value). -/
theorem determine_chomping_spec (emitter : yaml_emitter_t) (value : List Nat)
    (hvalid : is_valid_utf8 value = true) :
    ∃ characters, utf8_characters value.length value = some characters ∧
      yaml_emitter_determine_chomping emitter (STRING value value.length)
        = some (if trailing_breaks characters = 0 then -1
                else if trailing_breaks characters = 1 then 0 else 1) := by
  have hsome := hvalid
  simp only [is_valid_utf8, Option.isSome_iff_exists] at hsome
  obtain ⟨characters, hcs⟩ := hsome
  refine ⟨characters, hcs, ?_⟩
  obtain ⟨hflat, hall⟩ := utf8_characters_spec _ _ _ hcs
  clear hcs hvalid
  subst hflat
  rcases List.eq_nil_or_concat characters with rfl | ⟨init, last, hconcat⟩
  · rfl
  rw [List.concat_eq_append] at hconcat
  subst hconcat
  have hlast := hall last (by simp)
  have hinit : ∀ octets ∈ init, is_utf8_character octets = true :=
    fun o ho => hall o (by simp [ho])
  have hflat : (init ++ [last]).flatten = init.flatten ++ last := by simp
  rw [hflat, determine_chomping_last emitter init.flatten last hlast, trailing_breaks_append]
  cases hb : is_break_character last
  · rfl
  · simp only [Bool.true_eq_false, if_false, if_true]
    rcases List.eq_nil_or_concat init with rfl | ⟨init2, previous, hconcat2⟩
    · rfl
    rw [List.concat_eq_append] at hconcat2
    subst hconcat2
    have hprevious := hinit previous (by simp)
    have hpos : 0 < previous.length :=
      List.length_pos.mpr (is_utf8_character_ne_nil previous hprevious)
    have hflat2 : (init2 ++ [previous]).flatten = init2.flatten ++ previous := by simp
    have hlen : (init2.flatten ++ previous).length ≠ 0 := by
      simp only [List.length_append]
      omega
    rw [hflat2, if_neg hlen, determine_chomping_second init2.flatten previous last hprevious,
      trailing_breaks_append]
    cases is_break_character previous <;> simp

/-- Witness of C14: the value made of `a`, LF and LS is valid UTF-8, so the
chomping indicator is determined by its trailing line breaks. -/
theorem determine_chomping_spec_witness :
    is_valid_utf8 [0x61, 0x0A, 0xE2, 0x80, 0xA8] = true ∧
    ∃ characters,
      utf8_characters [0x61, 0x0A, 0xE2, 0x80, 0xA8].length [0x61, 0x0A, 0xE2, 0x80, 0xA8]
        = some characters ∧
      yaml_emitter_determine_chomping emitter_unicode
          (STRING [0x61, 0x0A, 0xE2, 0x80, 0xA8] [0x61, 0x0A, 0xE2, 0x80, 0xA8].length)
        = some (if trailing_breaks characters = 0 then -1
                else if trailing_breaks characters = 1 then 0 else 1) :=
  ⟨by decide, determine_chomping_spec emitter_unicode [0x61, 0x0A, 0xE2, 0x80, 0xA8] (by decide)⟩

/-! ## Theorems: plain scalars -/

/-- When the analyzer allows the block-plain style the value has no line
break. -/
theorem analyze_scalar_plain_no_break (emitter : yaml_emitter_t) (value : List yaml_char_t)
    (result : Bool × yaml_emitter_t)
    (hres : yaml_emitter_analyze_scalar emitter value = some result)
    (hplain : result.2.scalar_data.is_block_plain_allowed = true) :
    has_line_break value = false := by
  cases value with
  | nil => simp [has_line_break, character_positions]
  | cons c rest =>
    have hres' := hres
    simp only [yaml_emitter_analyze_scalar, STRING, List.length_cons, Nat.succ_ne_zero,
      if_false, Option.map_eq_some'] at hres'
    obtain ⟨l, hloop, hdata⟩ := hres'
    subst hdata
    have hlb := analyze_scalar_loop_line_breaks _ (c :: rest) _ 0 _ l hloop
    obtain ⟨_, _, _, pboth⟩ := analyze_scalar_permissions_flags l
      (analyze_scalar_store emitter (c :: rest)).scalar_data
    have hstart : (analyze_scalar_start
        { buffer := c :: rest, pointer := 0, capacity := rest.length + 1 }).line_breaks
          = false := by
      simp only [analyze_scalar_start]
      split_ifs <;> rfl
    rw [hstart, Bool.false_or] at hlb
    have hplain' : (analyze_scalar_permissions l
        (analyze_scalar_store emitter (c :: rest)).scalar_data).is_block_plain_allowed
          = true := hplain
    cases hl : l.line_breaks
    · rw [hl] at hlb
      exact hlb.symm
    · rw [(pboth hl).2] at hplain'
      cases hplain'

/-- The characters that the loops of the emitter visit in a string of UTF-8
characters are these characters: a test by `IS_BREAK` at the visited positions
is a test of the characters. -/
theorem character_positions_any_break (characters : List (List yaml_char_t)) :
    ∀ (before : List yaml_char_t) (fuel : Nat),
      (∀ octets ∈ characters, is_utf8_character octets = true) →
      characters.length ≤ fuel →
      (character_positions (before ++ characters.flatten) fuel before.length).any
          (fun position => IS_BREAK (string_at (before ++ characters.flatten) position))
        = characters.any is_break_character := by
  induction characters with
  | nil =>
    intro before fuel _ _
    cases fuel <;> simp [character_positions]
  | cons c cs ih =>
    intro before fuel hall hfuel
    have hc := hall c (List.mem_cons_self _ _)
    have hcs : ∀ octets ∈ cs, is_utf8_character octets = true :=
      fun o ho => hall o (List.mem_cons_of_mem _ ho)
    cases fuel with
    | zero => simp at hfuel
    | succ fuel =>
      have hpos : 0 < c.length := List.length_pos.mpr (is_utf8_character_ne_nil c hc)
      have hlt : before.length < (before ++ (c :: cs).flatten).length := by
        simp only [List.flatten_cons, List.length_append]
        omega
      have hw := (WIDTH_utf8_character before c cs.flatten hc).1
      have hb := IS_BREAK_utf8_character before c cs.flatten hc
      have hval : before ++ (c ++ cs.flatten) = (before ++ c) ++ cs.flatten :=
        (List.append_assoc _ _ _).symm
      have hlen : before.length + c.length = (before ++ c).length := by simp
      simp only [character_positions, if_pos hlt, List.any_cons]
      simp only [List.flatten_cons, hw, hb, hlen]
      rw [hval, ih (before ++ c) fuel hcs (by simpa using hfuel)]

/-- A valid UTF-8 value without a line break, as the analyzer sees it, is a
sequence of UTF-8 characters none of which is a line break. -/
theorem no_line_break_characters (characters : List (List yaml_char_t))
    (hall : ∀ octets ∈ characters, is_utf8_character octets = true)
    (hbreak : has_line_break characters.flatten = false) :
    ∀ octets ∈ characters, is_break_character octets = false := by
  have h := character_positions_any_break characters [] characters.flatten.length hall
    (length_le_flatten_length characters hall)
  simp only [List.nil_append, List.length_nil] at h
  simp only [has_line_break] at hbreak
  rw [hbreak] at h
  intro octets ho
  cases hb : is_break_character octets
  · rfl
  · have : characters.any is_break_character = true :=
      List.any_eq_true.mpr ⟨octets, ho, hb⟩
    rw [this] at h
    cases h

/-- On a UTF-8 character that is not a line break, with the column within the
width and no line break pending, one iteration of the loop of
`yaml_emitter_write_plain_scalar` copies the character. -/
theorem write_plain_step_copies (allow_breaks : Bool) (emitter : yaml_emitter_t)
    (before octets after : List yaml_char_t) (spaces : Bool)
    (hchar : is_utf8_character octets = true) (hbreak : is_break_character octets = false)
    (hcolumn : emitter.column ≤ emitter.best_width) :
    ∃ result : yaml_emitter_t × yaml_string_t × Bool × Bool,
      write_plain_step allow_breaks emitter
        (string_at (before ++ (octets ++ after)) before.length) spaces false = result ∧
      result.1.output = emitter.output ++ octets ∧
      result.1.column = emitter.column + 1 ∧
      result.1.best_width = emitter.best_width ∧
      result.2.1 = string_at ((before ++ octets) ++ after) (before ++ octets).length ∧
      result.2.2.2 = false := by
  have hw := WRITE_utf8_character before octets after emitter hchar
  have hb := IS_BREAK_utf8_character before octets after hchar
  rw [hbreak] at hb
  have hwide : decide (emitter.column > emitter.best_width) = false := by
    rw [decide_eq_false_iff_not]
    omega
  refine ⟨_, rfl, ?_⟩
  simp only [write_plain_step, hwide, hb, Bool.and_false, Bool.false_and, Bool.false_eq_true,
    if_false, hw.1, hw.2]
  cases IS_SPACE (string_at (before ++ (octets ++ after)) before.length) <;> simp

/-- Over UTF-8 characters none of which is a line break, with the column within
the width to the end, the loop of `yaml_emitter_write_plain_scalar` ends and
has written the characters. -/
theorem write_plain_loop_copies (allow_breaks : Bool) (characters : List (List yaml_char_t)) :
    ∀ (before : List yaml_char_t) (emitter : yaml_emitter_t) (spaces : Bool) (fuel : Nat),
      (∀ octets ∈ characters, is_utf8_character octets = true) →
      (∀ octets ∈ characters, is_break_character octets = false) →
      characters.length ≤ fuel →
      emitter.column + characters.length ≤ emitter.best_width →
      ∃ result, write_plain_loop allow_breaks fuel emitter
          (string_at (before ++ characters.flatten) before.length) spaces false = some result ∧
        result.output = emitter.output ++ characters.flatten := by
  induction characters with
  | nil =>
    intro before emitter spaces fuel _ _ _ _
    refine ⟨emitter, ?_, by simp⟩
    have hend := string_at_end before
    simp only [List.flatten_nil]
    cases fuel <;> simp only [write_plain_loop, if_neg hend]
  | cons c cs ih =>
    intro before emitter spaces fuel hall hbreak hfuel hcolumn
    have hc := hall c (List.mem_cons_self _ _)
    have hcs : ∀ octets ∈ cs, is_utf8_character octets = true :=
      fun o ho => hall o (List.mem_cons_of_mem _ ho)
    have hbc := hbreak c (List.mem_cons_self _ _)
    have hbcs : ∀ octets ∈ cs, is_break_character octets = false :=
      fun o ho => hbreak o (List.mem_cons_of_mem _ ho)
    simp only [List.length_cons] at hfuel hcolumn
    cases fuel with
    | zero => omega
    | succ fuel =>
      have hlt := string_at_lt before c cs.flatten hc
      obtain ⟨step, hstep, hout, hcol, hbw, hstr, hbrk⟩ :=
        write_plain_step_copies allow_breaks emitter before c cs.flatten spaces hc hbc
          (by push_cast at hcolumn; omega)
      simp only [List.flatten_cons, write_plain_loop, if_pos hlt, hstep, hstr, hbrk]
      obtain ⟨result, hres, hresout⟩ := ih (before ++ c) step.1 step.2.2.1 fuel hcs hbcs
        (by omega) (by rw [hcol, hbw]; push_cast at hcolumn ⊢; omega)
      refine ⟨result, hres, ?_⟩
      rw [hresout, hout, List.append_assoc]

/-- C17: for every scalar value, a string of UTF-8 text as the emitter is
given it, for which the analyzer permits the block-plain style,
`yaml_emitter_write_plain_scalar` with a width that the column does not reach
(unlimited width) returns and has written exactly the octets of the value, in
order, after one space if and only if the emitter was not at whitespace. -/
theorem write_plain_scalar_verbatim (analyzer emitter : yaml_emitter_t) (value : List yaml_char_t)
    (allow_breaks : Bool) (analysis : Bool × yaml_emitter_t)
    (hvalid : is_valid_utf8 value = true)
    (hanalysis : yaml_emitter_analyze_scalar analyzer value = some analysis)
    (hplain : analysis.2.scalar_data.is_block_plain_allowed = true)
    (hwidth : emitter.column + 1 + value.length ≤ emitter.best_width) :
    ∃ result, yaml_emitter_write_plain_scalar emitter value allow_breaks = some result ∧
      result.output
        = emitter.output ++ (if emitter.is_whitespace then [] else [0x20]) ++ value := by
  obtain ⟨characters, hflat, hall⟩ := is_valid_utf8_characters value hvalid
  subst hflat
  have hnb := no_line_break_characters characters hall
    (analyze_scalar_plain_no_break analyzer _ analysis hanalysis hplain)
  have hlen := length_le_flatten_length characters hall
  have hstr : STRING characters.flatten characters.flatten.length
      = string_at ([] ++ characters.flatten) ([] : List yaml_char_t).length := rfl
  cases hws : emitter.is_whitespace
  · obtain ⟨result, hres, hout⟩ := write_plain_loop_copies allow_breaks characters []
      (PUT emitter 0x20) false characters.flatten.length hall hnb hlen
      (by simp only [PUT]; omega)
    refine ⟨{ result with is_whitespace := false, is_indention := false }, ?_, ?_⟩
    · simp only [yaml_emitter_write_plain_scalar, hws, Bool.not_false, if_true, hstr]
      rw [show (string_at ([] ++ characters.flatten) ([] : List yaml_char_t).length).capacity
        = characters.flatten.length from rfl, hres]
      rfl
    · simp only [hout, PUT, Bool.false_eq_true, if_false]
  · obtain ⟨result, hres, hout⟩ := write_plain_loop_copies allow_breaks characters []
      emitter false characters.flatten.length hall hnb hlen
      (by omega)
    refine ⟨{ result with is_whitespace := false, is_indention := false }, ?_, ?_⟩
    · simp only [yaml_emitter_write_plain_scalar, hws, Bool.not_true, Bool.false_eq_true,
        if_false, hstr]
      rw [show (string_at ([] ++ characters.flatten) ([] : List yaml_char_t).length).capacity
        = characters.flatten.length from rfl, hres]
      rfl
    · simp only [hout, if_true, List.append_nil]

/-- Witness of C17: the value `a b`, valid UTF-8 and allowed in block-plain
style, is written as it is after a space by an emitter that is not at
whitespace. -/
theorem write_plain_scalar_verbatim_witness :
    is_valid_utf8 [0x61, 0x20, 0x62] = true ∧
    ∃ result, yaml_emitter_write_plain_scalar { best_width := 80 } [0x61, 0x20, 0x62] true
        = some result ∧
      result.output = [] ++ (if false then [] else [0x20]) ++ [0x61, 0x20, 0x62] :=
  ⟨by decide,
    write_plain_scalar_verbatim {} { best_width := 80 } [0x61, 0x20, 0x62] true
      ((yaml_emitter_analyze_scalar {} [0x61, 0x20, 0x62]).get (by decide))
      (by decide) (by decide) (by decide) (by decide)⟩

/-! ## Theorems: double-quoted scalars -/

/-- Octets written one after the other by `PUT` are appended to the output, and
the column advances by their number. -/
theorem PUT_foldl (octets : List yaml_char_t) :
    ∀ emitter : yaml_emitter_t,
      octets.foldl PUT emitter
        = { emitter with output := emitter.output ++ octets,
                         column := emitter.column + octets.length } := by
  induction octets with
  | nil =>
    intro emitter
    simp
  | cons o os ih =>
    intro emitter
    rw [List.foldl_cons, ih]
    simp only [PUT, List.append_assoc, List.singleton_append, List.length_cons]
    congr 1
    push_cast
    omega

/-- The UTF-8 form of a code point given by the payload of two octets. -/
theorem utf8_encode_two (x0 x1 : Nat) (h0 : 2 ≤ x0) (h0' : x0 < 32) (h1 : x1 < 64) :
    utf8_encode (x0 * 64 + x1) = [0xC0 + x0, 0x80 + x1] := by
  have n1 : ¬ (x0 * 64 + x1 < 0x80) := by omega
  have n2 : x0 * 64 + x1 < 0x800 := by omega
  have q0 : (x0 * 64 + x1) / 0x40 = x0 := by omega
  have q1 : (x0 * 64 + x1) % 0x40 = x1 := by omega
  simp only [utf8_encode, if_neg n1, if_pos n2, q0, q1]

/-- The UTF-8 form of a code point given by the payload of three octets. -/
theorem utf8_encode_three (x0 x1 x2 : Nat) (h0 : x0 < 16) (h1 : x1 < 64) (h2 : x2 < 64)
    (hs : x0 = 0 → 32 ≤ x1) :
    utf8_encode ((x0 * 64 + x1) * 64 + x2) = [0xE0 + x0, 0x80 + x1, 0x80 + x2] := by
  have n1 : ¬ ((x0 * 64 + x1) * 64 + x2 < 0x80) := by omega
  have n2 : ¬ ((x0 * 64 + x1) * 64 + x2 < 0x800) := by omega
  have n3 : (x0 * 64 + x1) * 64 + x2 < 0x10000 := by omega
  have q0 : ((x0 * 64 + x1) * 64 + x2) / 0x1000 = x0 := by omega
  have q1 : ((x0 * 64 + x1) * 64 + x2) / 0x40 % 0x40 = x1 := by omega
  have q2 : ((x0 * 64 + x1) * 64 + x2) % 0x40 = x2 := by omega
  simp only [utf8_encode, if_neg n1, if_neg n2, if_pos n3, q0, q1, q2]

/-- The UTF-8 form of a code point given by the payload of four octets. -/
theorem utf8_encode_four (x0 x1 x2 x3 : Nat) (h0 : x0 < 8) (h1 : x1 < 64) (h2 : x2 < 64)
    (h3 : x3 < 64) (hs : x0 = 0 → 16 ≤ x1) :
    utf8_encode (((x0 * 64 + x1) * 64 + x2) * 64 + x3)
      = [0xF0 + x0, 0x80 + x1, 0x80 + x2, 0x80 + x3] := by
  have n1 : ¬ (((x0 * 64 + x1) * 64 + x2) * 64 + x3 < 0x80) := by omega
  have n2 : ¬ (((x0 * 64 + x1) * 64 + x2) * 64 + x3 < 0x800) := by omega
  have n3 : ¬ (((x0 * 64 + x1) * 64 + x2) * 64 + x3 < 0x10000) := by omega
  have q0 : (((x0 * 64 + x1) * 64 + x2) * 64 + x3) / 0x40000 = x0 := by omega
  have q1 : (((x0 * 64 + x1) * 64 + x2) * 64 + x3) / 0x1000 % 0x40 = x1 := by omega
  have q2 : (((x0 * 64 + x1) * 64 + x2) * 64 + x3) / 0x40 % 0x40 = x2 := by omega
  have q3 : (((x0 * 64 + x1) * 64 + x2) * 64 + x3) % 0x40 = x3 := by omega
  simp only [utf8_encode, if_neg n1, if_neg n2, if_neg n3, q0, q1, q2, q3]

/-- The escape branch of `yaml_emitter_write_double_quoted_scalar` reads a
UTF-8 character as its length and its code point, from which the character
can be written again. -/
theorem double_quoted_character (before octets after : List Nat)
    (h : is_utf8_character octets = true) :
    double_quoted_width (OCTET_AT (string_at (before ++ (octets ++ after)) before.length) 0)
      = octets.length ∧
    double_quoted_value (string_at (before ++ (octets ++ after)) before.length)
        octets.length
        (double_quoted_lead
          (OCTET_AT (string_at (before ++ (octets ++ after)) before.length) 0))
      = utf8_code_point octets ∧
    utf8_encode (utf8_code_point octets) = octets ∧
    utf8_code_point octets < 0x200000 := by
  have m7 : ∀ b : Nat, b &&& 0x7F = b % 128 := fun b => Nat.and_pow_two_sub_one_eq_mod b 7
  have m6 : ∀ b : Nat, b &&& 0x3F = b % 64 := fun b => Nat.and_pow_two_sub_one_eq_mod b 6
  have m5 : ∀ b : Nat, b &&& 0x1F = b % 32 := fun b => Nat.and_pow_two_sub_one_eq_mod b 5
  have m4 : ∀ b : Nat, b &&& 0x0F = b % 16 := fun b => Nat.and_pow_two_sub_one_eq_mod b 4
  have m3 : ∀ b : Nat, b &&& 0x07 = b % 8 := fun b => Nat.and_pow_two_sub_one_eq_mod b 3
  have s6 : ∀ b : Nat, b <<< 6 = b * 64 := fun b => Nat.shiftLeft_eq b 6
  simp only [OCTET_AT_append, double_quoted_value]
  rcases is_utf8_character_cases octets h with ⟨b0, rfl, h0⟩ | ⟨b0, b1, rfl, h0, h0', h1, h1'⟩ |
    ⟨b0, b1, b2, rfl, h0, h0', h1, h1', h2, h2', hs⟩ |
    ⟨b0, b1, b2, b3, rfl, h0, h0', h1, h1', h2, h2', h3, h3', hs⟩
  · obtain ⟨k1, _, _, _, _⟩ := octet_masks b0 (by omega)
    have c1 : b0 &&& 0x80 = 0x00 := k1.mpr h0
    have r0 : b0 % 128 = b0 := by omega
    simp only [List.cons_append, List.getD_cons_zero, double_quoted_width, double_quoted_lead,
      c1, if_true, List.length_singleton, Nat.sub_self, List.range'_zero, List.foldl_nil,
      utf8_code_point, utf8_encode, if_pos h0, m7, r0]
    exact ⟨trivial, trivial, trivial, by omega⟩
  · obtain ⟨k1, k2, _, _, _⟩ := octet_masks b0 (by omega)
    have c1 : ¬ b0 &&& 0x80 = 0x00 := fun hc => by have := k1.mp hc; omega
    have c2 : b0 &&& 0xE0 = 0xC0 := k2.mpr ⟨by omega, h0'⟩
    have e1 : ((b0 :: b1 :: after) : List Nat).getD 1 0 = b1 := rfl
    have r0 : b0 - 0xC0 = b0 % 32 := by omega
    have r1 : b1 - 0x80 = b1 % 64 := by omega
    have t0 : 0xC0 + b0 % 32 = b0 := by omega
    have t1 : 0x80 + b1 % 64 = b1 := by omega
    have hcp : (b0 - 0xC0) * 0x40 + (b1 - 0x80) = b0 % 32 * 64 + b1 % 64 := by rw [r0, r1]
    simp only [List.cons_append, List.nil_append, List.getD_cons_zero, double_quoted_width,
      double_quoted_lead, c1, c2, if_true, if_false, List.length_cons, List.length_nil,
      utf8_code_point, hcp, m5, m6, s6]
    refine ⟨trivial, ?_, ?_, ?_⟩
    · show ((b0 % 32) * 64 + ((b0 :: b1 :: after) : List Nat).getD 1 0 % 64) = _
      rw [e1]
    · rw [utf8_encode_two _ _ (by omega) (by omega) (by omega), t0, t1]
    · omega
  · obtain ⟨k1, k2, k3, _, _⟩ := octet_masks b0 (by omega)
    have c1 : ¬ b0 &&& 0x80 = 0x00 := fun hc => by have := k1.mp hc; omega
    have c2 : ¬ b0 &&& 0xE0 = 0xC0 := fun hc => by have := k2.mp hc; omega
    have c3 : b0 &&& 0xF0 = 0xE0 := k3.mpr ⟨h0, h0'⟩
    have e1 : ((b0 :: b1 :: b2 :: after) : List Nat).getD 1 0 = b1 := rfl
    have e2 : ((b0 :: b1 :: b2 :: after) : List Nat).getD 2 0 = b2 := rfl
    have r0 : b0 - 0xE0 = b0 % 16 := by omega
    have r1 : b1 - 0x80 = b1 % 64 := by omega
    have r2 : b2 - 0x80 = b2 % 64 := by omega
    have t0 : 0xE0 + b0 % 16 = b0 := by omega
    have t1 : 0x80 + b1 % 64 = b1 := by omega
    have t2 : 0x80 + b2 % 64 = b2 := by omega
    have hcp : (b0 - 0xE0) * 0x1000 + (b1 - 0x80) * 0x40 + (b2 - 0x80)
        = (b0 % 16 * 64 + b1 % 64) * 64 + b2 % 64 := by
      rw [r0, r1, r2]
      generalize b0 % 16 = x0
      generalize b1 % 64 = x1
      omega
    simp only [List.cons_append, List.nil_append, List.getD_cons_zero, double_quoted_width,
      double_quoted_lead, c1, c2, c3, if_true, if_false, List.length_cons, List.length_nil,
      utf8_code_point, hcp, m4, m6, s6]
    refine ⟨trivial, ?_, ?_, ?_⟩
    · show ((b0 % 16) * 64 + ((b0 :: b1 :: b2 :: after) : List Nat).getD 1 0 % 64) * 64
        + ((b0 :: b1 :: b2 :: after) : List Nat).getD 2 0 % 64 = _
      rw [e1, e2]
    · rw [utf8_encode_three _ _ _ (by omega) (by omega) (by omega) (by omega), t0, t1, t2]
    · have b0' : b0 % 16 < 16 := by omega
      have b1' : b1 % 64 < 64 := by omega
      have b2' : b2 % 64 < 64 := by omega
      generalize b0 % 16 = x0 at b0' ⊢
      generalize b1 % 64 = x1 at b1' ⊢
      generalize b2 % 64 = x2 at b2' ⊢
      omega
  · obtain ⟨k1, k2, k3, k4, _⟩ := octet_masks b0 (by omega)
    have c1 : ¬ b0 &&& 0x80 = 0x00 := fun hc => by have := k1.mp hc; omega
    have c2 : ¬ b0 &&& 0xE0 = 0xC0 := fun hc => by have := k2.mp hc; omega
    have c3 : ¬ b0 &&& 0xF0 = 0xE0 := fun hc => by have := k3.mp hc; omega
    have c4 : b0 &&& 0xF8 = 0xF0 := k4.mpr ⟨h0, h0'⟩
    have e1 : ((b0 :: b1 :: b2 :: b3 :: after) : List Nat).getD 1 0 = b1 := rfl
    have e2 : ((b0 :: b1 :: b2 :: b3 :: after) : List Nat).getD 2 0 = b2 := rfl
    have e3 : ((b0 :: b1 :: b2 :: b3 :: after) : List Nat).getD 3 0 = b3 := rfl
    have r0 : b0 - 0xF0 = b0 % 8 := by omega
    have r1 : b1 - 0x80 = b1 % 64 := by omega
    have r2 : b2 - 0x80 = b2 % 64 := by omega
    have r3 : b3 - 0x80 = b3 % 64 := by omega
    have t0 : 0xF0 + b0 % 8 = b0 := by omega
    have t1 : 0x80 + b1 % 64 = b1 := by omega
    have t2 : 0x80 + b2 % 64 = b2 := by omega
    have t3 : 0x80 + b3 % 64 = b3 := by omega
    have hcp : (b0 - 0xF0) * 0x40000 + (b1 - 0x80) * 0x1000 + (b2 - 0x80) * 0x40 + (b3 - 0x80)
        = ((b0 % 8 * 64 + b1 % 64) * 64 + b2 % 64) * 64 + b3 % 64 := by
      rw [r0, r1, r2, r3]
      generalize b0 % 8 = x0
      generalize b1 % 64 = x1
      generalize b2 % 64 = x2
      omega
    simp only [List.cons_append, List.nil_append, List.getD_cons_zero, double_quoted_width,
      double_quoted_lead, c1, c2, c3, c4, if_true, if_false, List.length_cons, List.length_nil,
      utf8_code_point, hcp, m3, m6, s6]
    refine ⟨trivial, ?_, ?_, ?_⟩
    · show (((b0 % 8) * 64 + ((b0 :: b1 :: b2 :: b3 :: after) : List Nat).getD 1 0 % 64) * 64
        + ((b0 :: b1 :: b2 :: b3 :: after) : List Nat).getD 2 0 % 64) * 64
        + ((b0 :: b1 :: b2 :: b3 :: after) : List Nat).getD 3 0 % 64 = _
      rw [e1, e2, e3]
    · rw [utf8_encode_four _ _ _ _ (by omega) (by omega) (by omega) (by omega) (by omega),
        t0, t1, t2, t3]
    · have b0' : b0 % 8 < 8 := by omega
      have b1' : b1 % 64 < 64 := by omega
      have b2' : b2 % 64 < 64 := by omega
      have b3' : b3 % 64 < 64 := by omega
      generalize b0 % 8 = x0 at b0' ⊢
      generalize b1 % 64 = x1 at b1' ⊢
      generalize b2 % 64 = x2 at b2' ⊢
      generalize b3 % 64 = x3 at b3' ⊢
      omega

/-- The digit that the emitter writes for the hexadecimal place `place` of a
value is the uppercase digit of that place. -/
theorem double_quoted_hex_digit (value place : Nat) :
    hex_value (hex_digit ((value >>> (place * 4)) &&& 0x0F))
      = some (value / 16 ^ place % 16) ∧
    is_uppercase_hex_digit (hex_digit ((value >>> (place * 4)) &&& 0x0F)) = true := by
  have h1 : value >>> (place * 4) = value / 16 ^ place := by
    rw [Nat.shiftRight_eq_div_pow, Nat.mul_comm, Nat.pow_mul]
  have h2 : ∀ b : Nat, b &&& 0x0F = b % 16 := fun b => Nat.and_pow_two_sub_one_eq_mod b 4
  have hlt : value / 16 ^ place % 16 < 16 := Nat.mod_lt _ (by omega)
  have key : ∀ digit : Nat, digit < 16 →
      hex_value (hex_digit digit) = some digit ∧
      is_uppercase_hex_digit (hex_digit digit) = true := by
    decide
  rw [h1, h2]
  exact key _ hlt

/-- The digits that the emitter writes for a value are as many uppercase
hexadecimal digits as asked, and they are the number `value` modulo `16 ^ width`. -/
theorem double_quoted_hex_number (width : Nat) :
    ∀ value before : Nat,
      (double_quoted_hex width value).length = width ∧
      (∀ digit ∈ double_quoted_hex width value, is_uppercase_hex_digit digit = true) ∧
      hex_number before (double_quoted_hex width value)
        = some (before * 16 ^ width + value % 16 ^ width) := by
  induction width with
  | zero =>
    intro value before
    simp [double_quoted_hex, hex_number, Nat.mod_one]
  | succ width ih =>
    intro value before
    obtain ⟨hv, hu⟩ := double_quoted_hex_digit value width
    obtain ⟨hlen, hall, hnum⟩ := ih value (before * 16 + value / 16 ^ width % 16)
    refine ⟨?_, ?_, ?_⟩
    · simp only [double_quoted_hex, List.length_cons, hlen]
    · intro digit hd
      simp only [double_quoted_hex, List.mem_cons] at hd
      rcases hd with rfl | hd
      · exact hu
      · exact hall digit hd
    · simp only [double_quoted_hex, hex_number, hv, hnum]
      congr 1
      rw [Nat.mod_pow_succ, Nat.pow_succ]
      ring

/-- After `\x`, `\u` or `\U` the reader of a double-quoted scalar turns the
digits written by the emitter into the UTF-8 form of the number they
write. -/
theorem double_quoted_hex_decode (width : Nat) :
    ∀ (value before : Nat) (decoded : List yaml_char_t),
      (double_quoted_hex (width + 1) value).foldl double_quoted_decode_step
          { mode := double_quoted_mode.hex (width + 1) before, decoded := decoded }
        = { mode := double_quoted_mode.text,
            decoded := decoded
              ++ utf8_encode (before * 16 ^ (width + 1) + value % 16 ^ (width + 1)) } := by
  induction width with
  | zero =>
    intro value before decoded
    obtain ⟨hv, _⟩ := double_quoted_hex_digit value 0
    simp only [double_quoted_hex, List.foldl_cons, List.foldl_nil, double_quoted_decode_step, hv]
    simp
  | succ width ih =>
    intro value before decoded
    obtain ⟨hv, _⟩ := double_quoted_hex_digit value (width + 1)
    have hnot : ¬ (width + 1 + 1 ≤ 1) := by omega
    rw [double_quoted_hex, List.foldl_cons]
    simp only [double_quoted_decode_step, hv, if_neg hnot, Nat.add_sub_cancel]
    rw [ih]
    have hm : value % 16 ^ (width + 1 + 1)
        = value % 16 ^ (width + 1) + 16 ^ (width + 1) * (value / 16 ^ (width + 1) % 16) :=
      Nat.mod_pow_succ
    have hp : 16 ^ (width + 1 + 1) = 16 ^ (width + 1) * 16 := Nat.pow_succ 16 (width + 1)
    have harith : (before * 16 + value / 16 ^ (width + 1) % 16) * 16 ^ (width + 1)
          + value % 16 ^ (width + 1)
        = before * 16 ^ (width + 1 + 1) + value % 16 ^ (width + 1 + 1) := by
      rw [hm, hp]
      generalize 16 ^ (width + 1) = p
      generalize value / p % 16 = d
      generalize value % p = r
      ring
    rw [harith]

/-- The octets written after the backslash are the named letter of the code
point when it has one, and otherwise `x`, `u` or `U` and two, four or eight
hexadecimal digits. -/
theorem double_quoted_escape_letter (value : Nat) :
    match escape_letter value with
    | some letter => double_quoted_escape value = [letter]
    | none =>
      double_quoted_escape value
        = (if value ≤ 0xFF then 0x78 else if value ≤ 0xFFFF then 0x75 else 0x55)
          :: double_quoted_hex
              (if value ≤ 0xFF then 2 else if value ≤ 0xFFFF then 4 else 8) value := by
  have hcases : value = 0x00 ∨ value = 0x07 ∨ value = 0x08 ∨ value = 0x09 ∨ value = 0x0A ∨
      value = 0x0B ∨ value = 0x0C ∨ value = 0x0D ∨ value = 0x1B ∨ value = 0x22 ∨
      value = 0x5C ∨ value = 0x85 ∨ value = 0xA0 ∨ value = 0x2028 ∨ value = 0x2029 ∨
      (value ≠ 0x00 ∧ value ≠ 0x07 ∧ value ≠ 0x08 ∧ value ≠ 0x09 ∧ value ≠ 0x0A ∧
        value ≠ 0x0B ∧ value ≠ 0x0C ∧ value ≠ 0x0D ∧ value ≠ 0x1B ∧ value ≠ 0x22 ∧
        value ≠ 0x5C ∧ value ≠ 0x85 ∧ value ≠ 0xA0 ∧ value ≠ 0x2028 ∧ value ≠ 0x2029) := by
    omega
  rcases hcases with rfl | rfl | rfl | rfl | rfl | rfl | rfl | rfl | rfl | rfl | rfl | rfl |
    rfl | rfl | rfl | ⟨h0, h1, h2, h3, h4, h5, h6, h7, h8, h9, h10, h11, h12, h13, h14⟩
  iterate 15 exact rfl
  have hnone : escape_letter value = none := by
    simp only [escape_letter, List.lookup, beq_eq_false_iff_ne.mpr h0,
      beq_eq_false_iff_ne.mpr h1, beq_eq_false_iff_ne.mpr h2, beq_eq_false_iff_ne.mpr h3,
      beq_eq_false_iff_ne.mpr h4, beq_eq_false_iff_ne.mpr h5, beq_eq_false_iff_ne.mpr h6,
      beq_eq_false_iff_ne.mpr h7, beq_eq_false_iff_ne.mpr h8, beq_eq_false_iff_ne.mpr h9,
      beq_eq_false_iff_ne.mpr h10, beq_eq_false_iff_ne.mpr h11, beq_eq_false_iff_ne.mpr h12,
      beq_eq_false_iff_ne.mpr h13, beq_eq_false_iff_ne.mpr h14]
  rw [hnone]
  simp only [double_quoted_escape, if_neg h0, if_neg h1, if_neg h2, if_neg h3, if_neg h4,
    if_neg h5, if_neg h6, if_neg h7, if_neg h8, if_neg h9, if_neg h10, if_neg h11, if_neg h12,
    if_neg h13, if_neg h14]
  split_ifs <;> rfl

/-- After a backslash the reader of a double-quoted scalar turns the octets
that the emitter writes for a code point into the UTF-8 form of that code
point. -/
theorem double_quoted_escape_decode (value : Nat) (hvalue : value < 0x200000)
    (decoded : List yaml_char_t) :
    (double_quoted_escape value).foldl double_quoted_decode_step
        { mode := double_quoted_mode.escape, decoded := decoded }
      = { mode := double_quoted_mode.text, decoded := decoded ++ utf8_encode value } := by
  have hcases : value = 0x00 ∨ value = 0x07 ∨ value = 0x08 ∨ value = 0x09 ∨ value = 0x0A ∨
      value = 0x0B ∨ value = 0x0C ∨ value = 0x0D ∨ value = 0x1B ∨ value = 0x22 ∨
      value = 0x5C ∨ value = 0x85 ∨ value = 0xA0 ∨ value = 0x2028 ∨ value = 0x2029 ∨
      (value ≠ 0x00 ∧ value ≠ 0x07 ∧ value ≠ 0x08 ∧ value ≠ 0x09 ∧ value ≠ 0x0A ∧
        value ≠ 0x0B ∧ value ≠ 0x0C ∧ value ≠ 0x0D ∧ value ≠ 0x1B ∧ value ≠ 0x22 ∧
        value ≠ 0x5C ∧ value ≠ 0x85 ∧ value ≠ 0xA0 ∧ value ≠ 0x2028 ∧ value ≠ 0x2029) := by
    omega
  rcases hcases with rfl | rfl | rfl | rfl | rfl | rfl | rfl | rfl | rfl | rfl | rfl | rfl |
    rfl | rfl | rfl | ⟨h0, h1, h2, h3, h4, h5, h6, h7, h8, h9, h10, h11, h12, h13, h14⟩
  iterate 15 exact rfl
  have hx : double_quoted_decode_step
      { mode := double_quoted_mode.escape, decoded := decoded } 0x78
      = { mode := double_quoted_mode.hex 2 0, decoded := decoded } := rfl
  have hu : double_quoted_decode_step
      { mode := double_quoted_mode.escape, decoded := decoded } 0x75
      = { mode := double_quoted_mode.hex 4 0, decoded := decoded } := rfl
  have hU : double_quoted_decode_step
      { mode := double_quoted_mode.escape, decoded := decoded } 0x55
      = { mode := double_quoted_mode.hex 8 0, decoded := decoded } := rfl
  simp only [double_quoted_escape, if_neg h0, if_neg h1, if_neg h2, if_neg h3, if_neg h4,
    if_neg h5, if_neg h6, if_neg h7, if_neg h8, if_neg h9, if_neg h10, if_neg h11, if_neg h12,
    if_neg h13, if_neg h14]
  split_ifs with hs hm
  · rw [List.foldl_cons, hx, double_quoted_hex_decode 1 value 0 decoded]
    have hmod : 0 * 16 ^ (1 + 1) + value % 16 ^ (1 + 1) = value := by
      have : (16 : Nat) ^ (1 + 1) = 256 := by norm_num
      rw [this]
      omega
    rw [hmod]
  · rw [List.foldl_cons, hu, double_quoted_hex_decode 3 value 0 decoded]
    have hmod : 0 * 16 ^ (3 + 1) + value % 16 ^ (3 + 1) = value := by
      have : (16 : Nat) ^ (3 + 1) = 65536 := by norm_num
      rw [this]
      omega
    rw [hmod]
  · rw [List.foldl_cons, hU, double_quoted_hex_decode 7 value 0 decoded]
    have hmod : 0 * 16 ^ (7 + 1) + value % 16 ^ (7 + 1) = value := by
      have : (16 : Nat) ^ (7 + 1) = 4294967296 := by norm_num
      rw [this]
      omega
    rw [hmod]

/-- The emitter writes at most nine octets after the backslash. -/
theorem double_quoted_escape_length (value : Nat) :
    (double_quoted_escape value).length ≤ 9 := by
  have h := double_quoted_escape_letter value
  cases hl : escape_letter value with
  | some letter =>
    rw [hl] at h
    simp only at h
    rw [h]
    simp
  | none =>
    rw [hl] at h
    simp only at h
    rw [h, List.length_cons, (double_quoted_hex_number _ value 0).1]
    split_ifs <;> omega

/-- In the text the reader of a double-quoted scalar takes octets other than
the quote and the backslash as they are. -/
theorem double_quoted_text_decode (octets : List yaml_char_t) :
    ∀ decoded : List yaml_char_t,
      (∀ octet ∈ octets, octet ≠ 0x22 ∧ octet ≠ 0x5C) →
      octets.foldl double_quoted_decode_step
          { mode := double_quoted_mode.text, decoded := decoded }
        = { mode := double_quoted_mode.text, decoded := decoded ++ octets } := by
  induction octets with
  | nil =>
    intro decoded _
    simp
  | cons o os ih =>
    intro decoded h
    obtain ⟨h1, h2⟩ := h o (List.mem_cons_self _ _)
    rw [List.foldl_cons]
    have hstep : double_quoted_decode_step
        { mode := double_quoted_mode.text, decoded := decoded } o
        = { mode := double_quoted_mode.text, decoded := decoded ++ [o] } := by
      simp only [double_quoted_decode_step, if_neg h1, if_neg h2]
    rw [hstep, ih _ (fun x hx => h x (List.mem_cons_of_mem _ hx))]
    simp

/-- One iteration of the loop of `yaml_emitter_write_double_quoted_scalar` on a
UTF-8 character, with the column within the width: what is written is read
back as the character, and takes at most ten columns. -/
theorem write_double_quoted_step_spec (allow_breaks : Bool) (emitter : yaml_emitter_t)
    (before octets after : List Nat) (spaces : Bool)
    (hchar : is_utf8_character octets = true)
    (hcolumn : emitter.column ≤ emitter.best_width) :
    ∃ (result : yaml_emitter_t × yaml_string_t × Bool) (written : List yaml_char_t),
      write_double_quoted_step allow_breaks emitter
        (string_at (before ++ (octets ++ after)) before.length) spaces = result ∧
      result.1.output = emitter.output ++ written ∧
      result.1.column ≤ emitter.column + 10 ∧
      result.1.best_width = emitter.best_width ∧
      result.2.1 = string_at ((before ++ octets) ++ after) (before ++ octets).length ∧
      ∀ decoded : List yaml_char_t,
        written.foldl double_quoted_decode_step
            { mode := double_quoted_mode.text, decoded := decoded }
          = { mode := double_quoted_mode.text, decoded := decoded ++ octets } := by
  have hw := WRITE_utf8_character before octets after emitter hchar
  obtain ⟨hwidth, hvalue, hencode, hlt⟩ := double_quoted_character before octets after hchar
  have hwide : decide (emitter.column > emitter.best_width) = false := by
    rw [decide_eq_false_iff_not]
    omega
  cases hesc : write_double_quoted_is_escaped emitter
      (string_at (before ++ (octets ++ after)) before.length)
  · refine ⟨_, octets, rfl, ?_, ?_, ?_, ?_, ?_⟩
    · simp only [write_double_quoted_step, hesc, hwide, Bool.false_eq_true, if_false,
        Bool.and_false, Bool.false_and]
      split_ifs <;> rw [hw.1]
    · simp only [write_double_quoted_step, hesc, hwide, Bool.false_eq_true, if_false,
        Bool.and_false, Bool.false_and]
      split_ifs <;> rw [hw.1] <;> show emitter.column + 1 ≤ emitter.column + 10 <;> omega
    · simp only [write_double_quoted_step, hesc, hwide, Bool.false_eq_true, if_false,
        Bool.and_false, Bool.false_and]
      split_ifs <;> rw [hw.1]
    · simp only [write_double_quoted_step, hesc, hwide, Bool.false_eq_true, if_false,
        Bool.and_false, Bool.false_and]
      split_ifs <;> rw [hw.2]
    · intro decoded
      apply double_quoted_text_decode
      obtain ⟨_, lead, tail, rfl, _, _, htail⟩ := is_utf8_character_octets octets hchar
      simp only [write_double_quoted_is_escaped, Bool.or_eq_false_iff, CHECK, CHECK_AT,
        OCTET_AT_append, List.cons_append, List.getD_cons_zero, beq_eq_false_iff_ne] at hesc
      intro octet ho
      rcases List.mem_cons.mp ho with rfl | ho
      · exact ⟨hesc.1.2, hesc.2⟩
      · have := htail octet ho
        unfold yaml_char_t
        omega
  · refine ⟨_, 0x5C :: double_quoted_escape (utf8_code_point octets), rfl, ?_, ?_, ?_, ?_, ?_⟩
    · simp only [write_double_quoted_step, hesc, if_true, hwidth, hvalue, PUT_foldl, PUT,
        List.append_assoc, List.singleton_append]
    · simp only [write_double_quoted_step, hesc, if_true, hwidth, hvalue, PUT_foldl, PUT]
      have := double_quoted_escape_length (utf8_code_point octets)
      omega
    · simp only [write_double_quoted_step, hesc, if_true, hwidth, hvalue, PUT_foldl, PUT]
    · simp only [write_double_quoted_step, hesc, if_true, hwidth]
      exact string_at_append_move before octets after
    · intro decoded
      rw [List.foldl_cons]
      have hback : double_quoted_decode_step
          { mode := double_quoted_mode.text, decoded := decoded } 0x5C
          = { mode := double_quoted_mode.escape, decoded := decoded } := rfl
      rw [hback, double_quoted_escape_decode _ hlt, hencode]

/-- Over UTF-8 characters, with room for ten columns a character within the
width, the loop of `yaml_emitter_write_double_quoted_scalar` ends, and what it
has written is read back as the characters. -/
theorem write_double_quoted_loop_spec (allow_breaks : Bool) (characters : List (List Nat)) :
    ∀ (before : List Nat) (emitter : yaml_emitter_t) (spaces : Bool) (fuel : Nat),
      (∀ octets ∈ characters, is_utf8_character octets = true) →
      characters.length ≤ fuel →
      emitter.column + 10 * characters.length ≤ emitter.best_width →
      ∃ (result : yaml_emitter_t) (written : List yaml_char_t),
        write_double_quoted_loop allow_breaks fuel emitter
          (string_at (before ++ characters.flatten) before.length) spaces = some result ∧
        result.output = emitter.output ++ written ∧
        ∀ decoded : List yaml_char_t,
          written.foldl double_quoted_decode_step
              { mode := double_quoted_mode.text, decoded := decoded }
            = { mode := double_quoted_mode.text, decoded := decoded ++ characters.flatten } := by
  induction characters with
  | nil =>
    intro before emitter spaces fuel _ _ _
    refine ⟨emitter, [], ?_, by simp, by simp⟩
    have hend := string_at_end before
    simp only [List.flatten_nil]
    cases fuel <;> simp only [write_double_quoted_loop, if_neg hend]
  | cons c cs ih =>
    intro before emitter spaces fuel hall hfuel hcolumn
    have hc := hall c (List.mem_cons_self _ _)
    have hcs : ∀ octets ∈ cs, is_utf8_character octets = true :=
      fun o ho => hall o (List.mem_cons_of_mem _ ho)
    simp only [List.length_cons] at hfuel hcolumn
    cases fuel with
    | zero => omega
    | succ fuel =>
      have hlt := string_at_lt before c cs.flatten hc
      obtain ⟨step, written, hstep, hout, hcol, hbw, hstr, hdec⟩ :=
        write_double_quoted_step_spec allow_breaks emitter before c cs.flatten spaces hc
          (by push_cast at hcolumn; omega)
      simp only [List.flatten_cons, write_double_quoted_loop, if_pos hlt, hstep, hstr]
      obtain ⟨result, rest, hres, hresout, hrest⟩ := ih (before ++ c) step.1 step.2.2 fuel hcs
        (by omega) (by rw [hbw]; push_cast at hcolumn ⊢; omega)
      refine ⟨result, written ++ rest, hres, ?_, ?_⟩
      · rw [hresout, hout, List.append_assoc]
      · intro decoded
        rw [List.foldl_append, hdec, hrest, List.append_assoc]

/-- The indicator `"` is written after a space when one is asked for and the
emitter is not at whitespace. -/
theorem write_indicator_quote (emitter : yaml_emitter_t) (need_whitespace : Bool) :
    ∃ result, yaml_emitter_write_indicator emitter [0x22] need_whitespace false false
        = some result ∧
      result.output
        = emitter.output
          ++ (if need_whitespace && !emitter.is_whitespace then [0x20] else []) ++ [0x22] ∧
      result.column
        = emitter.column + (if need_whitespace && !emitter.is_whitespace then 1 else 0) + 1 ∧
      result.best_width = emitter.best_width := by
  have hloop : ∀ base : yaml_emitter_t,
      write_string_loop 1 base (STRING [0x22] 1)
        = some { base with output := base.output ++ [0x22], column := base.column + 1 } :=
    fun _ => rfl
  simp only [yaml_emitter_write_indicator, List.length_singleton, STRING] at hloop ⊢
  rw [hloop]
  refine ⟨_, rfl, ?_, ?_, ?_⟩
  · split_ifs <;> simp [PUT]
  · split_ifs <;> simp [PUT]
  · split_ifs <;> rfl

/-- C15: for every valid UTF-8 scalar value, in Unicode and in non-Unicode
mode, with a width that the column cannot reach (ten columns a character are
the most that is written), `yaml_emitter_write_double_quoted_scalar` returns,
and what it has written, after the space that separates it when the emitter
was not at whitespace, is a double-quoted scalar that is read back by the
rules of YAML 1.1 (quotes stripped, every escape replaced by its code point)
as exactly the original value. -/
theorem write_double_quoted_scalar_round_trip (emitter : yaml_emitter_t) (value : List Nat)
    (allow_breaks : Bool) (hvalid : is_valid_utf8 value = true)
    (hwidth : emitter.column + 2 + 10 * value.length ≤ emitter.best_width) :
    ∃ (result : yaml_emitter_t) (quoted : List yaml_char_t),
      yaml_emitter_write_double_quoted_scalar emitter value allow_breaks = some result ∧
      result.output
        = emitter.output ++ (if emitter.is_whitespace then [] else [0x20]) ++ quoted ∧
      double_quoted_decode quoted = some value := by
  obtain ⟨characters, hflat, hall⟩ := is_valid_utf8_characters value hvalid
  subst hflat
  have hlen := length_le_flatten_length characters hall
  obtain ⟨opened, hopen, hopen_output, hopen_column, hopen_width⟩ :=
    write_indicator_quote emitter true
  have hroom : opened.column + 10 * characters.length ≤ opened.best_width := by
    rw [hopen_column, hopen_width]
    split_ifs <;> omega
  obtain ⟨looped, written, hloop, hloop_output, hdecode⟩ :=
    write_double_quoted_loop_spec allow_breaks characters [] opened false
      characters.flatten.length hall hlen hroom
  obtain ⟨closed, hclose, hclose_output, _, _⟩ := write_indicator_quote looped false
  have hstring : STRING characters.flatten characters.flatten.length
      = string_at ([] ++ characters.flatten) ([] : List Nat).length := rfl
  refine ⟨{ closed with is_whitespace := false, is_indention := false },
    0x22 :: (written ++ [0x22]), ?_, ?_, ?_⟩
  · simp only [yaml_emitter_write_double_quoted_scalar, hopen, Option.some_bind, hstring]
    rw [show (string_at ([] ++ characters.flatten) ([] : List Nat).length).capacity
      = characters.flatten.length from rfl, hloop]
    simp only [Option.some_bind, hclose, Option.map_some']
  · show closed.output = _
    rw [hclose_output, hloop_output, hopen_output]
    cases emitter.is_whitespace <;> simp
  · have hfirst : double_quoted_decode_step {} 0x22
        = { mode := double_quoted_mode.text, decoded := [] } := rfl
    have hlast : double_quoted_decode_step
        { mode := double_quoted_mode.text, decoded := characters.flatten } 0x22
        = { mode := double_quoted_mode.closed, decoded := characters.flatten } := rfl
    simp only [double_quoted_decode, List.foldl_cons, List.foldl_append, List.foldl_nil, hfirst,
      hdecode, List.nil_append, hlast, if_true]

/-- Witness of C15: the value `a`, `é` is valid UTF-8 and, in non-Unicode mode
with a width of 80 columns, is written as a double-quoted scalar that is read
back as the value. -/
theorem write_double_quoted_scalar_round_trip_witness :
    is_valid_utf8 [0x61, 0xC3, 0xA9] = true ∧
    ∃ (result : yaml_emitter_t) (quoted : List yaml_char_t),
      yaml_emitter_write_double_quoted_scalar { best_width := 80 } [0x61, 0xC3, 0xA9] true
        = some result ∧
      result.output = [] ++ (if false then [] else [0x20]) ++ quoted ∧
      double_quoted_decode quoted = some [0x61, 0xC3, 0xA9] :=
  ⟨by decide,
    write_double_quoted_scalar_round_trip { best_width := 80 } [0x61, 0xC3, 0xA9] true
      (by decide) (by decide)⟩

/-- C16: in `yaml_emitter_write_double_quoted_scalar` every character that is
not printable, not ASCII in non-Unicode mode, a BOM, a line break, `"` or `\`
is written as a backslash escape: the backslash and the named letter for the
code points `0x00`, `0x07`-`0x0D`, `0x1B`, `0x22`, `0x5C`, `0x85`, `0xA0`,
`0x2028`, `0x2029`, and otherwise the backslash, `x`, `u` or `U` and two, four
or eight uppercase hexadecimal digits (for code points up to `0xFF`, up to
`0xFFFF`, larger) that write the code point; and the value `a<TAB>b"c` is
written as the octets `"a\tb\"c"`. -/
theorem write_double_quoted_escapes (allow_breaks : Bool) (emitter : yaml_emitter_t)
    (before octets after : List Nat) (spaces : Bool)
    (hchar : is_utf8_character octets = true)
    (hescaped : write_double_quoted_is_escaped emitter
      (string_at (before ++ (octets ++ after)) before.length) = true) :
    (∃ escape : List yaml_char_t,
      (write_double_quoted_step allow_breaks emitter
          (string_at (before ++ (octets ++ after)) before.length) spaces).1.output
        = emitter.output ++ 0x5C :: escape ∧
      (write_double_quoted_step allow_breaks emitter
          (string_at (before ++ (octets ++ after)) before.length) spaces).2.1
        = string_at ((before ++ octets) ++ after) (before ++ octets).length ∧
      match escape_letter (utf8_code_point octets) with
      | some letter => escape = [letter]
      | none =>
        ∃ digits : List yaml_char_t,
          escape
            = (if utf8_code_point octets ≤ 0xFF then 0x78
               else if utf8_code_point octets ≤ 0xFFFF then 0x75 else 0x55) :: digits ∧
          digits.length
            = (if utf8_code_point octets ≤ 0xFF then 2
               else if utf8_code_point octets ≤ 0xFFFF then 4 else 8) ∧
          (∀ digit ∈ digits, is_uppercase_hex_digit digit = true) ∧
          hex_number 0 digits = some (utf8_code_point octets)) ∧
    (yaml_emitter_write_double_quoted_scalar emitter_line_start
        [0x61, 0x09, 0x62, 0x22, 0x63] allow_breaks).map (fun emitter => emitter.output)
      = some [0x22, 0x61, 0x5C, 0x74, 0x62, 0x5C, 0x22, 0x63, 0x22] := by
  have hexample : ∀ allow_breaks : Bool,
      (yaml_emitter_write_double_quoted_scalar emitter_line_start
          [0x61, 0x09, 0x62, 0x22, 0x63] allow_breaks).map (fun emitter => emitter.output)
        = some [0x22, 0x61, 0x5C, 0x74, 0x62, 0x5C, 0x22, 0x63, 0x22] := by
    decide
  refine ⟨?_, hexample allow_breaks⟩
  obtain ⟨hwidth, hvalue, _, hlt⟩ := double_quoted_character before octets after hchar
  refine ⟨double_quoted_escape (utf8_code_point octets), ?_, ?_, ?_⟩
  · simp only [write_double_quoted_step, hescaped, if_true, hwidth, hvalue, PUT_foldl, PUT,
      List.append_assoc, List.singleton_append]
  · simp only [write_double_quoted_step, hescaped, if_true, hwidth]
    exact string_at_append_move before octets after
  · have h := double_quoted_escape_letter (utf8_code_point octets)
    cases hl : escape_letter (utf8_code_point octets) with
    | some letter =>
      rw [hl] at h
      exact h
    | none =>
      rw [hl] at h
      simp only at h ⊢
      obtain ⟨hlen, hupper, hnumber⟩ := double_quoted_hex_number
        (if utf8_code_point octets ≤ 0xFF then 2
         else if utf8_code_point octets ≤ 0xFFFF then 4 else 8) (utf8_code_point octets) 0
      refine ⟨_, h, hlen, hupper, ?_⟩
      rw [hnumber]
      congr 1
      split_ifs with hs hm
      · have : (16 : Nat) ^ 2 = 256 := by norm_num
        rw [this]
        omega
      · have : (16 : Nat) ^ 4 = 65536 := by norm_num
        rw [this]
        omega
      · have : (16 : Nat) ^ 8 = 4294967296 := by norm_num
        rw [this]
        omega

/-- Witness of C16: the tab is not printable, and is written as `\t`. -/
theorem write_double_quoted_escapes_witness :
    is_utf8_character [0x09] = true ∧
    write_double_quoted_is_escaped emitter_line_start (string_at [0x09] 0) = true ∧
    (write_double_quoted_step true emitter_line_start (string_at [0x09] 0) false).1.output
      = [0x5C, 0x74] := by
  refine ⟨by decide, by decide, ?_⟩
  obtain ⟨⟨escape, houtput, _, hletter⟩, _⟩ := write_double_quoted_escapes true
    emitter_line_start [] [0x09] [] false (by decide) (by decide)
  have hescape : escape = [0x74] := hletter
  rw [hescape] at houtput
  exact houtput

/-! ## Theorems: writers of indicators and indentation -/

/-- Over UTF-8 characters the loop `while (string.pointer < string.capacity)
WRITE(emitter, string)` ends, has copied the characters and has advanced the
column by their number. -/
theorem write_string_loop_spec (characters : List (List yaml_char_t)) :
    ∀ (before : List yaml_char_t) (emitter : yaml_emitter_t) (fuel : Nat),
      (∀ octets ∈ characters, is_utf8_character octets = true) →
      characters.length ≤ fuel →
      write_string_loop fuel emitter (string_at (before ++ characters.flatten) before.length)
        = some { emitter with output := emitter.output ++ characters.flatten,
                              column := emitter.column + characters.length } := by
  induction characters with
  | nil =>
    intro before emitter fuel _ _
    have hend := string_at_end before
    simp only [List.flatten_nil]
    cases fuel <;> simp only [write_string_loop, if_neg hend] <;> simp
  | cons c cs ih =>
    intro before emitter fuel hall hfuel
    have hc := hall c (List.mem_cons_self _ _)
    have hcs : ∀ octets ∈ cs, is_utf8_character octets = true :=
      fun o ho => hall o (List.mem_cons_of_mem _ ho)
    simp only [List.length_cons] at hfuel
    cases fuel with
    | zero => omega
    | succ fuel =>
      have hlt := string_at_lt before c cs.flatten hc
      obtain ⟨hw1, hw2⟩ := WRITE_utf8_character before c cs.flatten emitter hc
      simp only [List.flatten_cons, write_string_loop, if_pos hlt, hw1, hw2]
      rw [ih (before ++ c) _ fuel hcs (by omega)]
      simp only [List.append_assoc, List.length_cons, Nat.cast_add, Nat.cast_one]
      congr 2
      omega

/-- A string of ASCII octets is the string of its one-octet characters. -/
theorem ascii_characters (value : List yaml_char_t) (h : ∀ octet ∈ value, octet < 0x80) :
    (value.map fun octet => [octet]).flatten = value ∧
    (value.map fun octet => [octet]).length = value.length ∧
    ∀ octets ∈ value.map (fun octet => [octet]), is_utf8_character octets = true := by
  refine ⟨?_, by simp, ?_⟩
  · induction value with
    | nil => rfl
    | cons o os ih =>
      simp only [List.map_cons, List.flatten_cons, List.singleton_append]
      rw [ih (fun x hx => h x (List.mem_cons_of_mem _ hx))]
  · intro octets ho
    obtain ⟨o, hmem, rfl⟩ := List.mem_map.mp ho
    have := h o hmem
    simp only [is_utf8_character, decide_eq_true_eq]
    exact this

/-- An indicator of ASCII octets is written octet by octet, after a space when
one is asked for and the emitter is not at whitespace. -/
theorem write_indicator_ascii (emitter : yaml_emitter_t) (indicator : List yaml_char_t)
    (need_whitespace is_whitespace is_indention : Bool)
    (h : ∀ octet ∈ indicator, octet < 0x80) :
    yaml_emitter_write_indicator emitter indicator need_whitespace is_whitespace is_indention
      = some
        { (if need_whitespace && !emitter.is_whitespace then PUT emitter 0x20 else emitter) with
          output := (if need_whitespace && !emitter.is_whitespace then PUT emitter 0x20
                     else emitter).output ++ indicator,
          column := (if need_whitespace && !emitter.is_whitespace then PUT emitter 0x20
                     else emitter).column + indicator.length,
          is_whitespace := is_whitespace,
          is_indention := (if need_whitespace && !emitter.is_whitespace then PUT emitter 0x20
                           else emitter).is_indention && is_indention } := by
  obtain ⟨hflat, hlen, hall⟩ := ascii_characters indicator h
  have hloop := write_string_loop_spec (indicator.map fun octet => [octet]) []
    (if need_whitespace && !emitter.is_whitespace then PUT emitter 0x20 else emitter)
    indicator.length hall (le_of_eq hlen)
  rw [hflat, hlen] at hloop
  simp only [yaml_emitter_write_indicator, STRING]
  have hstring : ({ buffer := indicator, pointer := 0, capacity := indicator.length }
      : yaml_string_t) = string_at ([] ++ indicator) ([] : List yaml_char_t).length := rfl
  rw [hstring, hloop]
  rfl

/-- The padding loop of `yaml_emitter_write_indent` writes one space for each
unit of fuel while the column is below the indent. -/
theorem write_indent_loop_spec (indent : Int) (fuel : Nat) :
    ∀ emitter : yaml_emitter_t, fuel ≤ (indent - emitter.column).toNat →
      write_indent_loop indent fuel emitter
        = { emitter with output := emitter.output ++ List.replicate fuel 0x20,
                         column := emitter.column + fuel } := by
  induction fuel with
  | zero =>
    intro emitter _
    simp [write_indent_loop]
  | succ fuel ih =>
    intro emitter h
    have hlt : emitter.column < indent := by omega
    simp only [write_indent_loop, if_pos hlt]
    rw [ih (PUT emitter 0x20) (by simp only [PUT]; omega)]
    simp only [PUT, List.append_assoc, List.singleton_append, List.replicate_succ, Nat.cast_add,
      Nat.cast_one]
    congr 1
    omega

/-- The emitter after `yaml_emitter_write_indent`: a line break unless the
emitter is at indentation within the indent, then spaces up to the indent. -/
theorem write_indent_eq (emitter : yaml_emitter_t) :
    yaml_emitter_write_indent emitter
      = { (if !emitter.is_indention || decide (emitter.column > max emitter.indent 0)
              || (emitter.column == max emitter.indent 0 && !emitter.is_whitespace) then
            PUT_BREAK emitter else emitter) with
          output :=
            (if !emitter.is_indention || decide (emitter.column > max emitter.indent 0)
                || (emitter.column == max emitter.indent 0 && !emitter.is_whitespace) then
              PUT_BREAK emitter else emitter).output
            ++ List.replicate (max emitter.indent 0
                - (if !emitter.is_indention || decide (emitter.column > max emitter.indent 0)
                      || (emitter.column == max emitter.indent 0 && !emitter.is_whitespace) then
                    PUT_BREAK emitter else emitter).column).toNat 0x20,
          column := max ((if !emitter.is_indention
                || decide (emitter.column > max emitter.indent 0)
                || (emitter.column == max emitter.indent 0 && !emitter.is_whitespace) then
              PUT_BREAK emitter else emitter).column) (max emitter.indent 0),
          is_whitespace := true, is_indention := true } := by
  have hindent : (if emitter.indent ≥ 0 then emitter.indent else 0) = max emitter.indent 0 := by
    split_ifs with h
    · exact (max_eq_left h).symm
    · exact (max_eq_right (by omega)).symm
  simp only [yaml_emitter_write_indent, hindent]
  generalize (if !emitter.is_indention || decide (emitter.column > max emitter.indent 0)
      || (emitter.column == max emitter.indent 0 && !emitter.is_whitespace) then
    PUT_BREAK emitter else emitter) = base
  generalize max emitter.indent 0 = indent
  rw [write_indent_loop_spec _ _ base (le_refl _)]
  have hcolumn : base.column + ((indent - base.column).toNat : Int) = max base.column indent := by
    omega
  simp only [hcolumn]

/-! ## Theorems: the start of the stream -/

/-- The choice of the encoding at STREAM-START changes nothing but the
encoding. -/
theorem emit_stream_start_encoding_eq (emitter : yaml_emitter_t) (event : yaml_event_t) :
    emit_stream_start_encoding emitter event
      = { emitter with
          encoding :=
            if emitter.encoding ≠ YAML_ANY_ENCODING then emitter.encoding
            else if event.data.stream_start.encoding ≠ YAML_ANY_ENCODING then
              event.data.stream_start.encoding
            else YAML_UTF8_ENCODING } := by
  simp only [emit_stream_start_encoding]
  by_cases h1 : emitter.encoding = YAML_ANY_ENCODING <;>
    by_cases h2 : event.data.stream_start.encoding = YAML_ANY_ENCODING <;>
    simp [h1, h2]

/-- The defaults put in at STREAM-START change nothing but the indent, the
width and the line break. -/
theorem emit_stream_start_options_eq (emitter : yaml_emitter_t) :
    emit_stream_start_options emitter
      = { emitter with
          best_indent := (emit_stream_start_options emitter).best_indent,
          best_width := (emit_stream_start_options emitter).best_width,
          line_break := (emit_stream_start_options emitter).line_break } := by
  simp only [emit_stream_start_options]
  split_ifs <;> rfl

/-! ## Theorems: directives and the start of the stream -/

/-- C21: `yaml_emitter_analyze_version_directive` succeeds if and only if
major = 1 and minor = 1, and `yaml_emitter_emit_document_start` on a
DOCUMENT-START event that carries any other version pair fails with the
EMITTER error `incompatible %YAML directive` and has written nothing. -/
theorem analyze_version_directive_spec (emitter : yaml_emitter_t) (event : yaml_event_t)
    (first : Bool) (version_directive : yaml_version_directive_t)
    (htype : event.type = YAML_DOCUMENT_START_EVENT)
    (hversion : event.data.document_start.version_directive = some version_directive) :
    ((yaml_emitter_analyze_version_directive emitter version_directive).1 = true ↔
      (version_directive.major = 1 ∧ version_directive.minor = 1)) ∧
    (¬ (version_directive.major = 1 ∧ version_directive.minor = 1) →
      ∃ result, yaml_emitter_emit_document_start emitter event first = some (false, result) ∧
        result.error = YAML_EMITTER_ERROR ∧
        result.problem = some "incompatible %YAML directive" ∧
        result.output = emitter.output) := by
  refine ⟨?_, ?_⟩
  · simp only [yaml_emitter_analyze_version_directive]
    split_ifs with h
    · simp only [Bool.false_eq_true, false_iff]
      omega
    · simp only [true_iff]
      omega
  · intro hbad
    have hne : version_directive.major ≠ 1 ∨ version_directive.minor ≠ 1 := by omega
    refine ⟨EMITTER_ERROR_INIT emitter "incompatible %YAML directive", ?_, rfl, rfl, rfl⟩
    simp only [yaml_emitter_emit_document_start, htype, if_true, hversion,
      yaml_emitter_analyze_version_directive, if_pos hne, or_return]

/-- Witness of C21: a DOCUMENT-START event with the directive `%YAML 1.2` is
rejected. -/
theorem analyze_version_directive_spec_witness :
    ∃ result,
      yaml_emitter_emit_document_start emitter_initial
          (document_start_event (some { major := 1, minor := 2 }) [] false) true
        = some (false, result) ∧
      result.error = YAML_EMITTER_ERROR ∧
      result.problem = some "incompatible %YAML directive" ∧
      result.output = emitter_initial.output :=
  (analyze_version_directive_spec emitter_initial
    (document_start_event (some { major := 1, minor := 2 }) [] false) true
    { major := 1, minor := 2 } rfl rfl).2 (by decide)

/-- The analysis of an event that is not an ALIAS, a SCALAR, a SEQUENCE-START
or a MAPPING-START only clears the data of the last analysis. -/
theorem analyze_event_other (emitter : yaml_emitter_t) (event : yaml_event_t)
    (h1 : event.type ≠ YAML_ALIAS_EVENT) (h2 : event.type ≠ YAML_SCALAR_EVENT)
    (h3 : event.type ≠ YAML_SEQUENCE_START_EVENT) (h4 : event.type ≠ YAML_MAPPING_START_EVENT) :
    yaml_emitter_analyze_event emitter event = some (true, analyze_event_reset emitter) := by
  unfold yaml_emitter_analyze_event
  cases htype : event.type
  case YAML_ALIAS_EVENT => exact absurd htype h1
  case YAML_SCALAR_EVENT => exact absurd htype h2
  case YAML_SEQUENCE_START_EVENT => exact absurd htype h3
  case YAML_MAPPING_START_EVENT => exact absurd htype h4
  all_goals rfl

/-- An event that needs no lookahead, emitted on an empty queue, is analysed
and passed to the state machine at once. -/
theorem emit_on_empty_queue (emitter : yaml_emitter_t) (event : yaml_event_t)
    (hevents : emitter.events = [])
    (hneed : need_more_events_accumulate event.type = none) :
    yaml_emitter_emit emitter event
      = or_return (yaml_emitter_analyze_event { emitter with events := [event] } event)
          fun emitter =>
        or_return (yaml_emitter_state_machine emitter event) fun emitter =>
        yaml_emitter_emit_loop 0 { emitter with events := emitter.events.tail } := by
  have hfalse : yaml_emitter_need_more_events { emitter with events := [event] } = false := by
    simp only [yaml_emitter_need_more_events, hneed]
  simp only [yaml_emitter_emit, hevents, List.nil_append, List.length_singleton]
  rw [yaml_emitter_emit_loop]
  simp only [hfalse, Bool.false_eq_true, if_false]

/-- C23: on an emitter in the STREAM-START state with an empty queue, emitting
STREAM-START succeeds and writes no bytes when the encoding of the stream is
UTF-8 and exactly the three bytes `EF BB BF` otherwise; and when the emitter
has written nothing and its encoding is unset or UTF-8, the stream
STREAM-START(UTF-8), STREAM-END succeeds with empty output and leaves the
emitter in the END state. -/
theorem emit_stream_start_bom (emitter : yaml_emitter_t) (stream_start stream_end : yaml_event_t)
    (hstate : emitter.state = YAML_EMIT_STREAM_START_STATE)
    (hevents : emitter.events = [])
    (hstart : stream_start.type = YAML_STREAM_START_EVENT)
    (hend : stream_end.type = YAML_STREAM_END_EVENT) :
    (∃ result, yaml_emitter_emit emitter stream_start = some (true, result) ∧
      result.state = YAML_EMIT_FIRST_DOCUMENT_START_STATE ∧
      result.encoding = stream_encoding emitter stream_start ∧
      result.output
        = emitter.output
          ++ (if stream_encoding emitter stream_start = YAML_UTF8_ENCODING then []
              else [0xEF, 0xBB, 0xBF])) ∧
    (emitter.output = [] → stream_encoding emitter stream_start = YAML_UTF8_ENCODING →
      ∃ result, emit_events [stream_start, stream_end] emitter = some (true, result) ∧
        result.output = [] ∧ result.state = YAML_EMIT_END_STATE) := by
  have hstep : ∃ result, yaml_emitter_emit emitter stream_start = some (true, result) ∧
      result.state = YAML_EMIT_FIRST_DOCUMENT_START_STATE ∧
      result.encoding = stream_encoding emitter stream_start ∧
      result.output
        = emitter.output
          ++ (if stream_encoding emitter stream_start = YAML_UTF8_ENCODING then []
              else [0xEF, 0xBB, 0xBF]) ∧
      result.events = [] := by
    have hanalyze := analyze_event_other { emitter with events := [stream_start] } stream_start
      (by rw [hstart]; decide) (by rw [hstart]; decide) (by rw [hstart]; decide)
      (by rw [hstart]; decide)
    have hmachine : ∃ result,
        yaml_emitter_state_machine
            (analyze_event_reset { emitter with events := [stream_start] }) stream_start
          = some (true, result) ∧
        result.state = YAML_EMIT_FIRST_DOCUMENT_START_STATE ∧
        result.encoding = stream_encoding emitter stream_start ∧
        result.output
          = emitter.output
            ++ (if stream_encoding emitter stream_start = YAML_UTF8_ENCODING then []
                else [0xEF, 0xBB, 0xBF]) ∧
        result.events = [stream_start] := by
      have hs : (analyze_event_reset { emitter with events := [stream_start] }).state
          = YAML_EMIT_STREAM_START_STATE := hstate
      simp only [yaml_emitter_state_machine, hs, yaml_emitter_emit_stream_start, hstart, if_true]
      rw [emit_stream_start_options_eq, emit_stream_start_encoding_eq]
      refine ⟨_, rfl, rfl, ?_, ?_, ?_⟩
      · simp only [stream_encoding, yaml_emitter_write_bom, analyze_event_reset]
        split_ifs <;> rfl
      · simp only [stream_encoding, yaml_emitter_write_bom, analyze_event_reset]
        split_ifs <;> simp_all
      · simp only [yaml_emitter_write_bom, analyze_event_reset]
        split_ifs <;> rfl
    obtain ⟨result, hresult, h1, h2, h3, h4⟩ := hmachine
    refine ⟨{ result with events := [] }, ?_, h1, h2, h3, rfl⟩
    rw [emit_on_empty_queue emitter stream_start hevents (by rw [hstart]; rfl), hanalyze]
    simp only [or_return, hresult, h4, List.tail_cons, yaml_emitter_emit_loop,
      yaml_emitter_need_more_events, if_true]
  obtain ⟨first, hfirst, hfirst_state, hfirst_encoding, hfirst_output, hfirst_events⟩ := hstep
  refine ⟨⟨first, hfirst, hfirst_state, hfirst_encoding, hfirst_output⟩, ?_⟩
  intro houtput hutf8
  have hanalyze := analyze_event_other { first with events := [stream_end] } stream_end
    (by rw [hend]; decide) (by rw [hend]; decide) (by rw [hend]; decide) (by rw [hend]; decide)
  have hnot : ¬ (YAML_STREAM_END_EVENT = YAML_DOCUMENT_START_EVENT) := by decide
  have hs : (analyze_event_reset { first with events := [stream_end] }).state
      = YAML_EMIT_FIRST_DOCUMENT_START_STATE := hfirst_state
  have he : (analyze_event_reset { first with events := [stream_end] }).events
      = [stream_end] := rfl
  have ho : (analyze_event_reset { first with events := [stream_end] }).output
      = first.output := rfl
  generalize analyze_event_reset { first with events := [stream_end] } = reset at hanalyze hs he ho
  refine ⟨{ reset with state := YAML_EMIT_END_STATE, events := [] }, ?_, ?_, rfl⟩
  · simp only [emit_events, hfirst, or_return]
    rw [emit_on_empty_queue first stream_end hfirst_events (by rw [hend]; rfl), hanalyze]
    simp only [or_return, yaml_emitter_state_machine, hs, yaml_emitter_emit_document_start,
      hend, if_neg hnot, if_true, he, List.tail_cons, yaml_emitter_emit_loop,
      yaml_emitter_need_more_events]
  · show reset.output = []
    rw [ho, hfirst_output, houtput, if_pos hutf8]
    rfl

/-! ## Theorems: the state machine -/

/-- The state is not touched by `yaml_emitter_write_indent`. -/
theorem write_indent_state (emitter : yaml_emitter_t) :
    (yaml_emitter_write_indent emitter).state = emitter.state := by
  rw [write_indent_eq]
  show (if _ then PUT_BREAK emitter else emitter).state = _
  split_ifs <;> rfl

/-- The state is not touched by `yaml_emitter_increase_indent`. -/
theorem increase_indent_state (emitter : yaml_emitter_t) (flow indentless : Bool) :
    (yaml_emitter_increase_indent emitter flow indentless).state = emitter.state := by
  simp only [yaml_emitter_increase_indent]
  split_ifs <;> rfl

/-- An indicator of one ASCII octet is written, and the state is not
touched. -/
theorem write_indicator_octet (emitter : yaml_emitter_t) (octet : yaml_char_t)
    (need_whitespace is_whitespace is_indention : Bool) (h : octet < 0x80) :
    ∃ result,
      yaml_emitter_write_indicator emitter [octet] need_whitespace is_whitespace is_indention
        = some result ∧
      result.state = emitter.state := by
  refine ⟨_, write_indicator_ascii emitter [octet] _ _ _ ?_, ?_⟩
  · intro o ho
    rw [List.mem_singleton.mp ho]
    exact h
  · show (if _ then PUT emitter 0x20 else emitter).state = _
    split_ifs <;> rfl

/-- With an event that does not start a node `yaml_emitter_emit_node` fails
with the EMITTER error, the state as it was. -/
theorem emit_node_rejects (emitter : yaml_emitter_t) (event : yaml_event_t)
    (is_root is_sequence is_mapping is_simple_key : Bool)
    (h : is_node_event event.type = false) :
    ∃ result,
      yaml_emitter_emit_node emitter event is_root is_sequence is_mapping is_simple_key
        = some (false, result) ∧
      result.error = YAML_EMITTER_ERROR ∧ result.state = emitter.state := by
  unfold yaml_emitter_emit_node
  cases htype : event.type <;> rw [htype] at h <;>
    first
    | exact absurd h (by decide)
    | exact ⟨_, rfl, rfl, rfl⟩

/-- Where an item of a flow sequence is expected, an event that is neither the
end of the sequence nor the start of a node is rejected. -/
theorem emit_flow_sequence_item_rejects (emitter : yaml_emitter_t) (event : yaml_event_t)
    (first : Bool) (hend : event.type ≠ YAML_SEQUENCE_END_EVENT)
    (h : is_node_event event.type = false) :
    ∃ result, yaml_emitter_emit_flow_sequence_item emitter event first = some (false, result) ∧
      result.error = YAML_EMITTER_ERROR ∧ result.state = emitter.state := by
  obtain ⟨opened, hopened, hopened_state⟩ : ∃ opened,
      emit_flow_first emitter 0x5B first = some opened ∧ opened.state = emitter.state := by
    cases first
    · exact ⟨emitter, rfl, rfl⟩
    · obtain ⟨written, hwritten, hstate⟩ :=
        write_indicator_octet emitter 0x5B true true false (by decide)
      refine ⟨{ yaml_emitter_increase_indent written true false with
          flow_level := (yaml_emitter_increase_indent written true false).flow_level + 1 },
        by simp only [emit_flow_first, if_true, hwritten, Option.map_some'], ?_⟩
      show (yaml_emitter_increase_indent written true false).state = _
      rw [increase_indent_state, hstate]
  obtain ⟨separated, hseparated, hseparated_state⟩ : ∃ separated,
      emit_flow_separator opened first = some separated ∧ separated.state = opened.state := by
    obtain ⟨written, hwritten, hstate⟩ : ∃ written,
        (if !first then yaml_emitter_write_indicator opened [0x2C] false false false
         else some opened) = some written ∧ written.state = opened.state := by
      cases first
      · exact write_indicator_octet opened 0x2C false false false (by decide)
      · exact ⟨opened, rfl, rfl⟩
    refine ⟨if written.is_canonical || decide (written.column > written.best_width) then
        yaml_emitter_write_indent written else written,
      by simp only [emit_flow_separator, hwritten, Option.map_some'], ?_⟩
    split_ifs
    · rw [write_indent_state, hstate]
    · exact hstate
  obtain ⟨result, hresult, herror, hstate⟩ := emit_node_rejects
    { separated with states := PUSH separated.states YAML_EMIT_FLOW_SEQUENCE_ITEM_STATE }
    event false true false false h
  refine ⟨result, ?_, herror, ?_⟩
  · simp only [yaml_emitter_emit_flow_sequence_item, hopened, Option.some_bind, if_neg hend,
      hseparated, hresult]
  · rw [hstate]
    exact hseparated_state.trans hopened_state

/-- Where a key of a flow mapping is expected, an event that is neither the
end of the mapping nor the start of a node is rejected. -/
theorem emit_flow_mapping_key_rejects (emitter : yaml_emitter_t) (event : yaml_event_t)
    (first : Bool) (hend : event.type ≠ YAML_MAPPING_END_EVENT)
    (h : is_node_event event.type = false) :
    ∃ result, yaml_emitter_emit_flow_mapping_key emitter event first = some (false, result) ∧
      result.error = YAML_EMITTER_ERROR ∧ result.state = emitter.state := by
  obtain ⟨opened, hopened, hopened_state⟩ : ∃ opened,
      emit_flow_first emitter 0x7B first = some opened ∧ opened.state = emitter.state := by
    cases first
    · exact ⟨emitter, rfl, rfl⟩
    · obtain ⟨written, hwritten, hstate⟩ :=
        write_indicator_octet emitter 0x7B true true false (by decide)
      refine ⟨{ yaml_emitter_increase_indent written true false with
          flow_level := (yaml_emitter_increase_indent written true false).flow_level + 1 },
        by simp only [emit_flow_first, if_true, hwritten, Option.map_some'], ?_⟩
      show (yaml_emitter_increase_indent written true false).state = _
      rw [increase_indent_state, hstate]
  obtain ⟨separated, hseparated, hseparated_state⟩ : ∃ separated,
      emit_flow_separator opened first = some separated ∧ separated.state = opened.state := by
    obtain ⟨written, hwritten, hstate⟩ : ∃ written,
        (if !first then yaml_emitter_write_indicator opened [0x2C] false false false
         else some opened) = some written ∧ written.state = opened.state := by
      cases first
      · exact write_indicator_octet opened 0x2C false false false (by decide)
      · exact ⟨opened, rfl, rfl⟩
    refine ⟨if written.is_canonical || decide (written.column > written.best_width) then
        yaml_emitter_write_indent written else written,
      by simp only [emit_flow_separator, hwritten, Option.map_some'], ?_⟩
    split_ifs
    · rw [write_indent_state, hstate]
    · exact hstate
  simp only [yaml_emitter_emit_flow_mapping_key, hopened, Option.some_bind, if_neg hend,
    hseparated]
  split_ifs
  · obtain ⟨result, hresult, herror, hstate⟩ := emit_node_rejects
      { separated with
        states := PUSH separated.states YAML_EMIT_FLOW_MAPPING_SIMPLE_VALUE_STATE }
      event false false true true h
    exact ⟨result, hresult, herror, by rw [hstate]; exact hseparated_state.trans hopened_state⟩
  · obtain ⟨written, hwritten, hwritten_state⟩ :=
      write_indicator_octet separated 0x3F true false false (by decide)
    obtain ⟨result, hresult, herror, hstate⟩ := emit_node_rejects
      { written with states := PUSH written.states YAML_EMIT_FLOW_MAPPING_VALUE_STATE }
      event false false true false h
    refine ⟨result, by simp only [hwritten, Option.some_bind, hresult], herror, ?_⟩
    rw [hstate]
    exact hwritten_state.trans (hseparated_state.trans hopened_state)

/-- Where a value of a flow mapping is expected, an event that does not start
a node is rejected. -/
theorem emit_flow_mapping_value_rejects (emitter : yaml_emitter_t) (event : yaml_event_t)
    (simple : Bool) (h : is_node_event event.type = false) :
    ∃ result, yaml_emitter_emit_flow_mapping_value emitter event simple
        = some (false, result) ∧
      result.error = YAML_EMITTER_ERROR ∧ result.state = emitter.state := by
  obtain ⟨written, hwritten, hwritten_state⟩ : ∃ written,
      (if simple then yaml_emitter_write_indicator emitter [0x3A] false false false
       else
        yaml_emitter_write_indicator
          (if emitter.is_canonical || decide (emitter.column > emitter.best_width) then
            yaml_emitter_write_indent emitter
           else emitter) [0x3A] true false false) = some written ∧
      written.state = emitter.state := by
    cases simple
    · obtain ⟨written, hwritten, hstate⟩ := write_indicator_octet
        (if emitter.is_canonical || decide (emitter.column > emitter.best_width) then
          yaml_emitter_write_indent emitter
         else emitter) 0x3A true false false (by decide)
      refine ⟨written, hwritten, ?_⟩
      rw [hstate]
      split_ifs
      · exact write_indent_state emitter
      · rfl
    · exact write_indicator_octet emitter 0x3A false false false (by decide)
  obtain ⟨result, hresult, herror, hstate⟩ := emit_node_rejects
    { written with states := PUSH written.states YAML_EMIT_FLOW_MAPPING_KEY_STATE }
    event false false true false h
  refine ⟨result, ?_, herror, by rw [hstate]; exact hwritten_state⟩
  simp only [yaml_emitter_emit_flow_mapping_value, hwritten, Option.some_bind, hresult]

/-- Where an item of a block sequence is expected, an event that is neither
the end of the sequence nor the start of a node is rejected. -/
theorem emit_block_sequence_item_rejects (emitter : yaml_emitter_t) (event : yaml_event_t)
    (first : Bool) (hend : event.type ≠ YAML_SEQUENCE_END_EVENT)
    (h : is_node_event event.type = false) :
    ∃ result, yaml_emitter_emit_block_sequence_item emitter event first
        = some (false, result) ∧
      result.error = YAML_EMITTER_ERROR ∧ result.state = emitter.state := by
  have hindent : (if first then
        yaml_emitter_increase_indent emitter false
          (emitter.is_mapping_context && !emitter.is_indention)
      else emitter).state = emitter.state := by
    split_ifs
    · exact increase_indent_state _ _ _
    · rfl
  simp only [yaml_emitter_emit_block_sequence_item, if_neg hend]
  generalize (if first then
        yaml_emitter_increase_indent emitter false
          (emitter.is_mapping_context && !emitter.is_indention)
      else emitter) = indented at hindent ⊢
  obtain ⟨written, hwritten, hwritten_state⟩ :=
    write_indicator_octet (yaml_emitter_write_indent indented) 0x2D true false true (by decide)
  obtain ⟨result, hresult, herror, hstate⟩ := emit_node_rejects
    { written with states := PUSH written.states YAML_EMIT_BLOCK_SEQUENCE_ITEM_STATE }
    event false true false false h
  refine ⟨result, by simp only [hwritten, Option.some_bind, hresult], herror, ?_⟩
  rw [hstate]
  exact hwritten_state.trans ((write_indent_state indented).trans hindent)

/-- Where a key of a block mapping is expected, an event that is neither the
end of the mapping nor the start of a node is rejected. -/
theorem emit_block_mapping_key_rejects (emitter : yaml_emitter_t) (event : yaml_event_t)
    (first : Bool) (hend : event.type ≠ YAML_MAPPING_END_EVENT)
    (h : is_node_event event.type = false) :
    ∃ result, yaml_emitter_emit_block_mapping_key emitter event first = some (false, result) ∧
      result.error = YAML_EMITTER_ERROR ∧ result.state = emitter.state := by
  have hindent : (if first then yaml_emitter_increase_indent emitter false false
      else emitter).state = emitter.state := by
    split_ifs
    · exact increase_indent_state _ _ _
    · rfl
  simp only [yaml_emitter_emit_block_mapping_key, if_neg hend]
  generalize (if first then yaml_emitter_increase_indent emitter false false
      else emitter) = indented at hindent ⊢
  split_ifs
  · obtain ⟨result, hresult, herror, hstate⟩ := emit_node_rejects
      { yaml_emitter_write_indent indented with
        states := PUSH (yaml_emitter_write_indent indented).states
          YAML_EMIT_BLOCK_MAPPING_SIMPLE_VALUE_STATE }
      event false false true true h
    refine ⟨result, hresult, herror, ?_⟩
    rw [hstate]
    exact (write_indent_state indented).trans hindent
  · obtain ⟨written, hwritten, hwritten_state⟩ :=
      write_indicator_octet (yaml_emitter_write_indent indented) 0x3F true false true
        (by decide)
    obtain ⟨result, hresult, herror, hstate⟩ := emit_node_rejects
      { written with states := PUSH written.states YAML_EMIT_BLOCK_MAPPING_VALUE_STATE }
      event false false true false h
    refine ⟨result, by simp only [hwritten, Option.some_bind, hresult], herror, ?_⟩
    rw [hstate]
    exact hwritten_state.trans ((write_indent_state indented).trans hindent)

/-- Where a value of a block mapping is expected, an event that does not start
a node is rejected. -/
theorem emit_block_mapping_value_rejects (emitter : yaml_emitter_t) (event : yaml_event_t)
    (simple : Bool) (h : is_node_event event.type = false) :
    ∃ result, yaml_emitter_emit_block_mapping_value emitter event simple
        = some (false, result) ∧
      result.error = YAML_EMITTER_ERROR ∧ result.state = emitter.state := by
  obtain ⟨written, hwritten, hwritten_state⟩ : ∃ written,
      (if simple then yaml_emitter_write_indicator emitter [0x3A] false false false
       else
        yaml_emitter_write_indicator (yaml_emitter_write_indent emitter) [0x3A]
          true false true) = some written ∧
      written.state = emitter.state := by
    cases simple
    · obtain ⟨written, hwritten, hstate⟩ := write_indicator_octet
        (yaml_emitter_write_indent emitter) 0x3A true false true (by decide)
      exact ⟨written, hwritten, hstate.trans (write_indent_state emitter)⟩
    · exact write_indicator_octet emitter 0x3A false false false (by decide)
  obtain ⟨result, hresult, herror, hstate⟩ := emit_node_rejects
    { written with states := PUSH written.states YAML_EMIT_BLOCK_MAPPING_KEY_STATE }
    event false false true false h
  refine ⟨result, ?_, herror, by rw [hstate]; exact hwritten_state⟩
  simp only [yaml_emitter_emit_block_mapping_value, hwritten, Option.some_bind, hresult]

/-- C30: the state machine rejects every transition that is not in the table
of the specification with the EMITTER error and leaves the state field
unchanged: any event in the END state; any event other than STREAM-START in
STREAM_START; any event other than DOCUMENT-START or STREAM-END in
FIRST_DOCUMENT_START / DOCUMENT_START; any event other than DOCUMENT-END in
DOCUMENT_END; and any event that is not ALIAS, SCALAR, SEQUENCE-START or
MAPPING-START where a node is expected (an event other than the end of the
collection where an item or a key is expected). -/
theorem state_machine_rejects (emitter : yaml_emitter_t) (event : yaml_event_t)
    (h : is_expected_event emitter.state event.type = false) :
    ∃ result, yaml_emitter_state_machine emitter event = some (false, result) ∧
      result.error = YAML_EMITTER_ERROR ∧ result.state = emitter.state := by
  unfold yaml_emitter_state_machine
  cases hstate : emitter.state <;> rw [hstate] at h <;>
    simp only [is_expected_event, Bool.or_eq_false_iff, beq_eq_false_iff_ne] at h
  case YAML_EMIT_STREAM_START_STATE =>
    exact ⟨EMITTER_ERROR_INIT emitter "expected STREAM-START",
      by simp only [yaml_emitter_emit_stream_start, if_neg h], rfl, hstate⟩
  case YAML_EMIT_FIRST_DOCUMENT_START_STATE =>
    exact ⟨EMITTER_ERROR_INIT emitter "expected DOCUMENT-START or STREAM-END",
      by simp only [yaml_emitter_emit_document_start, if_neg h.1, if_neg h.2], rfl, hstate⟩
  case YAML_EMIT_DOCUMENT_START_STATE =>
    exact ⟨EMITTER_ERROR_INIT emitter "expected DOCUMENT-START or STREAM-END",
      by simp only [yaml_emitter_emit_document_start, if_neg h.1, if_neg h.2], rfl, hstate⟩
  case YAML_EMIT_DOCUMENT_CONTENT_STATE =>
    obtain ⟨result, hresult, herror, hs⟩ := emit_node_rejects
      { emitter with states := PUSH emitter.states YAML_EMIT_DOCUMENT_END_STATE } event
      true false false false h
    exact ⟨result, hresult, herror, hs.trans hstate⟩
  case YAML_EMIT_DOCUMENT_END_STATE =>
    exact ⟨EMITTER_ERROR_INIT emitter "expected DOCUMENT-END",
      by simp only [yaml_emitter_emit_document_end, if_neg h], rfl, hstate⟩
  case YAML_EMIT_END_STATE =>
    exact ⟨EMITTER_ERROR_INIT emitter "expected nothing after STREAM-END", rfl, rfl, hstate⟩
  case YAML_EMIT_FLOW_SEQUENCE_FIRST_ITEM_STATE =>
    obtain ⟨result, hresult, herror, hs⟩ :=
      emit_flow_sequence_item_rejects emitter event true h.1 h.2
    exact ⟨result, hresult, herror, hs.trans hstate⟩
  case YAML_EMIT_FLOW_SEQUENCE_ITEM_STATE =>
    obtain ⟨result, hresult, herror, hs⟩ :=
      emit_flow_sequence_item_rejects emitter event false h.1 h.2
    exact ⟨result, hresult, herror, hs.trans hstate⟩
  case YAML_EMIT_FLOW_MAPPING_FIRST_KEY_STATE =>
    obtain ⟨result, hresult, herror, hs⟩ :=
      emit_flow_mapping_key_rejects emitter event true h.1 h.2
    exact ⟨result, hresult, herror, hs.trans hstate⟩
  case YAML_EMIT_FLOW_MAPPING_KEY_STATE =>
    obtain ⟨result, hresult, herror, hs⟩ :=
      emit_flow_mapping_key_rejects emitter event false h.1 h.2
    exact ⟨result, hresult, herror, hs.trans hstate⟩
  case YAML_EMIT_FLOW_MAPPING_SIMPLE_VALUE_STATE =>
    obtain ⟨result, hresult, herror, hs⟩ :=
      emit_flow_mapping_value_rejects emitter event true h
    exact ⟨result, hresult, herror, hs.trans hstate⟩
  case YAML_EMIT_FLOW_MAPPING_VALUE_STATE =>
    obtain ⟨result, hresult, herror, hs⟩ :=
      emit_flow_mapping_value_rejects emitter event false h
    exact ⟨result, hresult, herror, hs.trans hstate⟩
  case YAML_EMIT_BLOCK_SEQUENCE_FIRST_ITEM_STATE =>
    obtain ⟨result, hresult, herror, hs⟩ :=
      emit_block_sequence_item_rejects emitter event true h.1 h.2
    exact ⟨result, hresult, herror, hs.trans hstate⟩
  case YAML_EMIT_BLOCK_SEQUENCE_ITEM_STATE =>
    obtain ⟨result, hresult, herror, hs⟩ :=
      emit_block_sequence_item_rejects emitter event false h.1 h.2
    exact ⟨result, hresult, herror, hs.trans hstate⟩
  case YAML_EMIT_BLOCK_MAPPING_FIRST_KEY_STATE =>
    obtain ⟨result, hresult, herror, hs⟩ :=
      emit_block_mapping_key_rejects emitter event true h.1 h.2
    exact ⟨result, hresult, herror, hs.trans hstate⟩
  case YAML_EMIT_BLOCK_MAPPING_KEY_STATE =>
    obtain ⟨result, hresult, herror, hs⟩ :=
      emit_block_mapping_key_rejects emitter event false h.1 h.2
    exact ⟨result, hresult, herror, hs.trans hstate⟩
  case YAML_EMIT_BLOCK_MAPPING_SIMPLE_VALUE_STATE =>
    obtain ⟨result, hresult, herror, hs⟩ :=
      emit_block_mapping_value_rejects emitter event true h
    exact ⟨result, hresult, herror, hs.trans hstate⟩
  case YAML_EMIT_BLOCK_MAPPING_VALUE_STATE =>
    obtain ⟨result, hresult, herror, hs⟩ :=
      emit_block_mapping_value_rejects emitter event false h
    exact ⟨result, hresult, herror, hs.trans hstate⟩

/-- Witness of C30: in the DOCUMENT-END state a SCALAR event is not in the
table, and is rejected with the state as it was. -/
theorem state_machine_rejects_witness :
    is_expected_event YAML_EMIT_DOCUMENT_END_STATE YAML_SCALAR_EVENT = false ∧
    ∃ result,
      yaml_emitter_state_machine { emitter_initial with state := YAML_EMIT_DOCUMENT_END_STATE }
          (scalar_event [0x61] YAML_PLAIN_SCALAR_STYLE)
        = some (false, result) ∧
      result.error = YAML_EMITTER_ERROR ∧ result.state = YAML_EMIT_DOCUMENT_END_STATE :=
  ⟨rfl, state_machine_rejects { emitter_initial with state := YAML_EMIT_DOCUMENT_END_STATE }
    (scalar_event [0x61] YAML_PLAIN_SCALAR_STYLE) rfl⟩

/-! ## Theorems: tag directives at the start of a document -/

/-- The verdict of `yaml_emitter_analyze_tag_directive` does not depend on the
emitter, and a directive that passes leaves the emitter as it was. -/
theorem analyze_tag_directive_valid (emitter : yaml_emitter_t)
    (tag_directive : yaml_tag_directive_t)
    (h : is_valid_tag_directive tag_directive = true) :
    yaml_emitter_analyze_tag_directive emitter tag_directive = some (true, emitter) := by
  simp only [is_valid_tag_directive, beq_iff_eq] at h
  unfold yaml_emitter_analyze_tag_directive at h ⊢
  simp only [] at h ⊢
  generalize analyze_alpha_loop _ _ _ = loop at h ⊢
  split_ifs at h ⊢ <;> rcases loop with _ | _ | _ <;> simp_all

/-- The loop over the tag directives of a DOCUMENT-START event fails with
`duplicate %TAG directive`, before anything is written, when the directives
are valid and a handle is found twice. -/
theorem emit_document_start_directives_duplicate (tag_directives : List yaml_tag_directive_t) :
    ∀ emitter : yaml_emitter_t,
      (∀ tag_directive ∈ tag_directives, is_valid_tag_directive tag_directive = true) →
      ((∃ tag_directive ∈ tag_directives,
          tag_directive.handle ∈ emitter.tag_directives.map (fun known => known.handle)) ∨
        ¬ (tag_directives.map fun tag_directive => tag_directive.handle).Nodup) →
      ∃ result, emit_document_start_directives tag_directives emitter = some (false, result) ∧
        result.error = YAML_EMITTER_ERROR ∧
        result.problem = some "duplicate %TAG directive" ∧
        result.output = emitter.output := by
  induction tag_directives with
  | nil =>
    intro emitter _ h
    rcases h with ⟨d, hd, _⟩ | h
    · cases hd
    · exact absurd List.nodup_nil h
  | cons d rest ih =>
    intro emitter hvalid h
    have hd := analyze_tag_directive_valid emitter d (hvalid d (List.mem_cons_self _ _))
    have hrest : ∀ tag_directive ∈ rest, is_valid_tag_directive tag_directive = true :=
      fun x hx => hvalid x (List.mem_cons_of_mem _ hx)
    by_cases hknown : emitter.tag_directives.any (fun known => d.handle == known.handle) = true
    · refine ⟨EMITTER_ERROR_INIT emitter "duplicate %TAG directive", ?_, rfl, rfl, rfl⟩
      simp only [emit_document_start_directives, hd, or_return,
        yaml_emitter_append_tag_directive, hknown, if_true, Bool.false_eq_true, if_false]
    · have hnew : d.handle ∉ emitter.tag_directives.map (fun known => known.handle) := by
        intro hmem
        obtain ⟨known, hk, hkh⟩ := List.mem_map.mp hmem
        exact hknown (List.any_eq_true.mpr ⟨known, hk, by simp [hkh]⟩)
      obtain ⟨result, hresult, herror, hproblem, houtput⟩ := ih
        { emitter with tag_directives := emitter.tag_directives ++ [d] } hrest (by
          rcases h with ⟨x, hx, hxk⟩ | h
          · rcases List.mem_cons.mp hx with rfl | hx
            · exact absurd hxk hnew
            · left
              refine ⟨x, hx, ?_⟩
              simp only [List.map_append, List.mem_append]
              exact Or.inl hxk
          · simp only [List.map_cons, List.nodup_cons, not_and_or, not_not] at h
            rcases h with h | h
            · obtain ⟨x, hx, hxh⟩ := List.mem_map.mp h
              left
              refine ⟨x, hx, ?_⟩
              simp only [List.map_append, List.mem_append, List.map_cons, List.map_nil,
                List.mem_singleton]
              exact Or.inr hxh
            · exact Or.inr h)
      refine ⟨result, ?_, herror, hproblem, houtput⟩
      simp only [emit_document_start_directives, hd, or_return,
        yaml_emitter_append_tag_directive, hknown, Bool.false_eq_true, if_false, hresult]

/-! ## Theorems: position in the output -/

/-- A string of UTF-8 characters is read back as these characters. -/
theorem utf8_characters_flatten (characters : List (List yaml_char_t)) :
    ∀ fuel : Nat, (∀ octets ∈ characters, is_utf8_character octets = true) →
      characters.length ≤ fuel →
      utf8_characters fuel characters.flatten = some characters := by
  induction characters with
  | nil =>
    intro fuel _ _
    cases fuel <;> rfl
  | cons c cs ih =>
    intro fuel hall hfuel
    have hc := hall c (List.mem_cons_self _ _)
    have hcs : ∀ octets ∈ cs, is_utf8_character octets = true :=
      fun o ho => hall o (List.mem_cons_of_mem _ ho)
    simp only [List.length_cons] at hfuel
    cases fuel with
    | zero => omega
    | succ fuel =>
      have hrest := ih fuel hcs (by omega)
      rcases is_utf8_character_cases c hc with ⟨b0, rfl, h0⟩ | ⟨b0, b1, rfl, h0, h1, _⟩ |
        ⟨b0, b1, b2, rfl, h0, h1, _⟩ | ⟨b0, b1, b2, b3, rfl, h0, h1, _⟩
      · have hflat : ([b0] :: cs).flatten = b0 :: cs.flatten := rfl
        rw [hflat]
        simp only [utf8_characters, if_pos h0]
        show (if is_utf8_character [b0] = true then
            Option.map (fun characters => [b0] :: characters) (utf8_characters fuel cs.flatten)
          else none) = _
        rw [if_pos hc, hrest]
        rfl
      · have n1 : ¬ b0 < 0x80 := by omega
        have hflat : ([b0, b1] :: cs).flatten = b0 :: b1 :: cs.flatten := rfl
        rw [hflat]
        simp only [utf8_characters, if_neg n1, if_pos h1]
        show (if is_utf8_character [b0, b1] = true then
            Option.map (fun characters => [b0, b1] :: characters)
              (utf8_characters fuel cs.flatten)
          else none) = _
        rw [if_pos hc, hrest]
        rfl
      · have n1 : ¬ b0 < 0x80 := by omega
        have n2 : ¬ b0 < 0xE0 := by omega
        have hflat : ([b0, b1, b2] :: cs).flatten = b0 :: b1 :: b2 :: cs.flatten := rfl
        rw [hflat]
        simp only [utf8_characters, if_neg n1, if_neg n2, if_pos h1]
        show (if is_utf8_character [b0, b1, b2] = true then
            Option.map (fun characters => [b0, b1, b2] :: characters)
              (utf8_characters fuel cs.flatten)
          else none) = _
        rw [if_pos hc, hrest]
        rfl
      · have n1 : ¬ b0 < 0x80 := by omega
        have n2 : ¬ b0 < 0xE0 := by omega
        have n3 : ¬ b0 < 0xF0 := by omega
        have hflat : ([b0, b1, b2, b3] :: cs).flatten = b0 :: b1 :: b2 :: b3 :: cs.flatten := rfl
        rw [hflat]
        simp only [utf8_characters, if_neg n1, if_neg n2, if_neg n3]
        show (if is_utf8_character [b0, b1, b2, b3] = true then
            Option.map (fun characters => [b0, b1, b2, b3] :: characters)
              (utf8_characters fuel cs.flatten)
          else none) = _
        rw [if_pos hc, hrest]
        rfl

/-- The position at which a string of UTF-8 characters ends. -/
theorem output_position_flatten (line_break : yaml_break_t)
    (characters : List (List yaml_char_t))
    (h : ∀ octets ∈ characters, is_utf8_character octets = true) :
    output_position line_break characters.flatten
      = some ((line_break_count line_break characters : Int),
          (last_line_length characters : Int)) := by
  simp only [output_position,
    utf8_characters_flatten characters _ h (length_le_flatten_length characters h),
    Option.map_some']

/-- The counters agree with the output exactly when the output is a string of
UTF-8 characters with `line` line breaks and `column` characters after the
last. -/
theorem counters_agree_iff (emitter : yaml_emitter_t) :
    counters_agree emitter = true ↔
      emitter.line_break ≠ YAML_ANY_BREAK ∧
      ∃ characters : List (List yaml_char_t),
        (∀ octets ∈ characters, is_utf8_character octets = true) ∧
        emitter.output = characters.flatten ∧
        emitter.line = line_break_count emitter.line_break characters ∧
        emitter.column = last_line_length characters := by
  simp only [counters_agree, Bool.and_eq_true, bne_iff_ne, ne_eq, beq_iff_eq]
  constructor
  · rintro ⟨hbreak, hposition⟩
    refine ⟨hbreak, ?_⟩
    simp only [output_position, Option.map_eq_some'] at hposition
    obtain ⟨characters, hcharacters, hpair⟩ := hposition
    obtain ⟨hflat, hall⟩ := utf8_characters_spec _ _ _ hcharacters
    simp only [Prod.mk.injEq] at hpair
    exact ⟨characters, hall, hflat.symm, hpair.1.symm, hpair.2.symm⟩
  · rintro ⟨hbreak, characters, hall, houtput, hline, hcolumn⟩
    refine ⟨hbreak, ?_⟩
    rw [houtput, output_position_flatten _ characters hall, hline, hcolumn]

/-- The counters still agree when the output, the counters and the line break
are kept. -/
theorem counters_agree_of_eq (emitter result : yaml_emitter_t)
    (h : counters_agree emitter = true)
    (hbreak : result.line_break = emitter.line_break)
    (houtput : result.output = emitter.output)
    (hline : result.line = emitter.line)
    (hcolumn : result.column = emitter.column) :
    counters_agree result = true := by
  simp only [counters_agree, hbreak, houtput, hline, hcolumn] at h ⊢
  exact h

/-- The counters still agree after a character that is not a line break when
the column has advanced by one. -/
theorem counters_agree_character (emitter result : yaml_emitter_t) (octets : List yaml_char_t)
    (h : counters_agree emitter = true)
    (hcharacter : is_utf8_character octets = true)
    (hnot : is_break_character octets = false)
    (hbreak : result.line_break = emitter.line_break)
    (houtput : result.output = emitter.output ++ octets)
    (hline : result.line = emitter.line)
    (hcolumn : result.column = emitter.column + 1) :
    counters_agree result = true := by
  rw [counters_agree_iff] at h ⊢
  obtain ⟨hb, characters, hall, hout, hl, hc⟩ := h
  refine ⟨hbreak ▸ hb, characters ++ [octets], ?_, ?_, ?_, ?_⟩
  · intro o ho
    rcases List.mem_append.mp ho with ho | ho
    · exact hall o ho
    · rw [List.mem_singleton.mp ho]
      exact hcharacter
  · rw [houtput, hout]
    simp
  · rw [hline, hl, hbreak]
    simp [line_break_count, List.countP_append, is_counted_break, hnot]
  · rw [hcolumn, hc]
    simp [last_line_length, List.takeWhile_cons, hnot]

/-- The counters still agree after a line-break character that is counted when
the column is back at zero and the line has advanced by one. -/
theorem counters_agree_break (emitter result : yaml_emitter_t) (octets : List yaml_char_t)
    (h : counters_agree emitter = true)
    (hcharacter : is_utf8_character octets = true)
    (his : is_counted_break emitter.line_break octets = true)
    (hbreak : result.line_break = emitter.line_break)
    (houtput : result.output = emitter.output ++ octets)
    (hline : result.line = emitter.line + 1)
    (hcolumn : result.column = 0) :
    counters_agree result = true := by
  rw [counters_agree_iff] at h ⊢
  obtain ⟨hb, characters, hall, hout, hl, _⟩ := h
  have hcharacter_break : is_break_character octets = true := by
    simp only [is_counted_break, Bool.and_eq_true] at his
    exact his.1
  refine ⟨hbreak ▸ hb, characters ++ [octets], ?_, ?_, ?_, ?_⟩
  · intro o ho
    rcases List.mem_append.mp ho with ho | ho
    · exact hall o ho
    · rw [List.mem_singleton.mp ho]
      exact hcharacter
  · rw [houtput, hout]
    simp
  · rw [hline, hl, hbreak]
    simp [line_break_count, List.countP_append, his]
  · rw [hcolumn]
    simp [last_line_length, List.takeWhile_cons, hcharacter_break]

/-- The counters still agree after the LF of a line break CR LF when the
column stays at zero. -/
theorem counters_agree_second_half (emitter result : yaml_emitter_t)
    (h : counters_agree emitter = true)
    (hcrln : emitter.line_break = YAML_CRLN_BREAK)
    (hbreak : result.line_break = emitter.line_break)
    (houtput : result.output = emitter.output ++ [0x0A])
    (hline : result.line = emitter.line)
    (hcolumn : result.column = 0) :
    counters_agree result = true := by
  rw [counters_agree_iff] at h ⊢
  obtain ⟨hb, characters, hall, hout, hl, _⟩ := h
  refine ⟨hbreak ▸ hb, characters ++ [[0x0A]], ?_, ?_, ?_, ?_⟩
  · intro o ho
    rcases List.mem_append.mp ho with ho | ho
    · exact hall o ho
    · rw [List.mem_singleton.mp ho]
      rfl
  · rw [houtput, hout]
    simp
  · rw [hline, hl, hbreak, hcrln]
    simp [line_break_count, List.countP_append, is_counted_break]
  · rw [hcolumn]
    simp [last_line_length, List.takeWhile_cons, is_break_character]

/-! ## Theorems: the counters after the output macros -/

/-- An ASCII octet that is not a line break is a character that is not a line
break. -/
theorem is_text_octet_character (octet : yaml_char_t) (h : is_text_octet octet = true) :
    is_utf8_character [octet] = true ∧ is_break_character [octet] = false := by
  simp only [is_text_octet, Bool.and_eq_true, decide_eq_true_eq, bne_iff_ne, ne_eq] at h
  simp only [is_utf8_character, is_break_character, decide_eq_true_eq, Bool.or_eq_false_iff,
    beq_eq_false_iff_ne, ne_eq]
  exact ⟨h.1.1, h.2, h.1.2⟩

/-- `PUT` of an ASCII octet that is not a line break keeps the counters in
agreement with the output. -/
theorem PUT_counters (emitter : yaml_emitter_t) (value : yaml_char_t)
    (h : counters_agree emitter = true) (hvalue : is_text_octet value = true) :
    counters_agree (PUT emitter value) = true :=
  counters_agree_character emitter (PUT emitter value) [value] h
    (is_text_octet_character value hvalue).1 (is_text_octet_character value hvalue).2
    rfl rfl rfl rfl

/-- `PUT_BREAK` keeps the counters in agreement with the output. -/
theorem PUT_BREAK_counters (emitter : yaml_emitter_t) (h : counters_agree emitter = true) :
    counters_agree (PUT_BREAK emitter) = true := by
  have hbreak := ((counters_agree_iff emitter).mp h).1
  cases hline_break : emitter.line_break with
  | YAML_ANY_BREAK => exact absurd hline_break hbreak
  | YAML_CR_BREAK =>
    exact counters_agree_break emitter (PUT_BREAK emitter) [0x0D] h (by decide)
      (by rw [hline_break]; decide) rfl (by simp [PUT_BREAK, hline_break]) rfl rfl
  | YAML_LN_BREAK =>
    exact counters_agree_break emitter (PUT_BREAK emitter) [0x0A] h (by decide)
      (by rw [hline_break]; decide) rfl (by simp [PUT_BREAK, hline_break]) rfl rfl
  | YAML_CRLN_BREAK =>
    have hfirst : counters_agree
        { emitter with output := emitter.output ++ [0x0D], column := 0,
                       line := emitter.line + 1 } = true :=
      counters_agree_break emitter _ [0x0D] h (by decide) (by rw [hline_break]; decide)
        rfl rfl rfl rfl
    exact counters_agree_second_half _ (PUT_BREAK emitter) hfirst hline_break rfl
      (by simp [PUT_BREAK, hline_break]) rfl rfl

/-- Writing ASCII octets that are not line breaks with `PUT` keeps the counters
in agreement with the output. -/
theorem PUT_foldl_counters (octets : List yaml_char_t) :
    ∀ emitter : yaml_emitter_t, counters_agree emitter = true →
      (∀ octet ∈ octets, is_text_octet octet = true) →
      counters_agree (octets.foldl PUT emitter) = true := by
  induction octets with
  | nil =>
    intro emitter h _
    exact h
  | cons o os ih =>
    intro emitter h hall
    exact ih (PUT emitter o) (PUT_counters emitter o h (hall o (List.mem_cons_self _ _)))
      (fun x hx => hall x (List.mem_cons_of_mem _ hx))

/-- `WRITE` on a character that is not a line break keeps the counters in
agreement with the output. -/
theorem WRITE_counters (emitter : yaml_emitter_t) (string : yaml_string_t)
    (h : counters_agree emitter = true)
    (hcharacter : is_utf8_character (character_octets string) = true)
    (hnot : is_break_character (character_octets string) = false) :
    counters_agree (WRITE emitter string).1 = true :=
  counters_agree_character emitter (WRITE emitter string).1 (character_octets string) h
    hcharacter hnot rfl rfl rfl rfl

/-- A character on which `IS_BREAK` holds is one of the five line-break
characters. -/
theorem IS_BREAK_character_octets (string : yaml_string_t) (h : IS_BREAK string = true) :
    is_utf8_character (character_octets string) = true ∧
    is_break_character (character_octets string) = true := by
  simp only [IS_BREAK, IS_BREAK_AT, CHECK_AT, Bool.or_eq_true, Bool.and_eq_true, beq_iff_eq,
    Nat.zero_add] at h
  rcases h with (((h | h) | ⟨h0, h1⟩) | ⟨⟨h0, h1⟩, h2⟩) | ⟨⟨h0, h1⟩, h2⟩
  · simp [character_octets, WIDTH, h, List.range_succ, is_utf8_character, is_break_character]
  · simp [character_octets, WIDTH, h, List.range_succ, is_utf8_character, is_break_character]
  · simp [character_octets, WIDTH, h0, h1, List.range_succ, is_utf8_character,
      is_continuation, is_break_character]
  · simp [character_octets, WIDTH, h0, h1, h2, List.range_succ, is_utf8_character,
      is_continuation, is_break_character]
  · simp [character_octets, WIDTH, h0, h1, h2, List.range_succ, is_utf8_character,
      is_continuation, is_break_character]

/-- `WRITE_BREAK` on a line break keeps the counters in agreement with the
output. -/
theorem WRITE_BREAK_counters (emitter : yaml_emitter_t) (string : yaml_string_t)
    (h : counters_agree emitter = true) (his : IS_BREAK string = true) :
    counters_agree (WRITE_BREAK emitter string).1 = true := by
  by_cases hcheck : CHECK string 0x0A = true
  · simp only [WRITE_BREAK, if_pos hcheck]
    exact PUT_BREAK_counters emitter h
  · simp only [WRITE_BREAK, if_neg hcheck]
    have hnot : (character_octets string == [0x0A]) = false := by
      rw [beq_eq_false_iff_ne]
      intro heq
      apply hcheck
      have hwidth : WIDTH string = 1 := by
        have := congrArg List.length heq
        simpa [character_octets] using this
      simp only [character_octets, hwidth, List.range_succ, List.range_zero, List.nil_append,
        List.map_cons, List.map_nil, List.cons.injEq, and_true] at heq
      simp [CHECK, CHECK_AT, heq]
    exact counters_agree_break emitter _ (character_octets string) h
      (IS_BREAK_character_octets string his).1
      (by simp [is_counted_break, (IS_BREAK_character_octets string his).2, hnot])
      rfl rfl rfl rfl

/-- The padding loop of `yaml_emitter_write_indent` keeps the counters in
agreement with the output. -/
theorem write_indent_loop_counters (indent : Int) (fuel : Nat) :
    ∀ emitter : yaml_emitter_t, counters_agree emitter = true →
      counters_agree (write_indent_loop indent fuel emitter) = true := by
  induction fuel with
  | zero =>
    intro emitter h
    exact h
  | succ fuel ih =>
    intro emitter h
    simp only [write_indent_loop]
    split_ifs
    · exact ih _ (PUT_counters emitter 0x20 h (by decide))
    · exact h

/-- `yaml_emitter_write_indent` keeps the counters in agreement with the
output. -/
theorem write_indent_counters (emitter : yaml_emitter_t) (h : counters_agree emitter = true) :
    counters_agree (yaml_emitter_write_indent emitter) = true := by
  simp only [yaml_emitter_write_indent]
  refine counters_agree_of_eq (write_indent_loop _ _ _) _ ?_ rfl rfl rfl rfl
  apply write_indent_loop_counters
  split_ifs
  all_goals first | exact PUT_BREAK_counters emitter h | exact h

/-! ## Theorems: the counters after the writers -/

/-- The five line-break characters. -/
theorem is_break_character_cases (octets : List yaml_char_t)
    (h : is_break_character octets = true) :
    octets = [0x0D] ∨ octets = [0x0A] ∨ octets = [0xC2, 0x85] ∨ octets = [0xE2, 0x80, 0xA8] ∨
      octets = [0xE2, 0x80, 0xA9] := by
  match octets, h with
  | [], h => simp [is_break_character] at h
  | [b0], h =>
    simp only [is_break_character, Bool.or_eq_true, beq_iff_eq] at h
    rcases h with h | h <;> simp [h]
  | [b0, b1], h =>
    simp only [is_break_character, Bool.and_eq_true, beq_iff_eq] at h
    simp [h.1, h.2]
  | [b0, b1, b2], h =>
    simp only [is_break_character, Bool.and_eq_true, Bool.or_eq_true, beq_iff_eq] at h
    rcases h.2 with h2 | h2 <;> simp [h.1.1, h.1.2, h2]
  | _ :: _ :: _ :: _ :: _, h => simp [is_break_character] at h

/-- Moving past a UTF-8 character with `MOVE`. -/
theorem MOVE_utf8_character (before octets after : List yaml_char_t)
    (h : is_utf8_character octets = true) :
    MOVE (string_at (before ++ (octets ++ after)) before.length)
      = string_at ((before ++ octets) ++ after) (before ++ octets).length := by
  simp only [MOVE, (WIDTH_utf8_character before octets after h).1]
  exact string_at_append_move before octets after

/-- `WRITE_BREAK` on a line-break character moves past it. -/
theorem WRITE_BREAK_utf8_character (before octets after : List yaml_char_t)
    (emitter : yaml_emitter_t) (h : is_utf8_character octets = true)
    (his : is_break_character octets = true) :
    (WRITE_BREAK emitter (string_at (before ++ (octets ++ after)) before.length)).2
      = string_at ((before ++ octets) ++ after) (before ++ octets).length := by
  have hmove := MOVE_utf8_character before octets after h
  have hcheck : CHECK (string_at (before ++ (octets ++ after)) before.length) 0x0A
      = ((octets ++ after).getD 0 0 == 0x0A) := by
    simp only [CHECK, CHECK_AT, OCTET_AT_append]
  rcases is_break_character_cases octets his with rfl | rfl | rfl | rfl | rfl
  · simp only [WRITE_BREAK, hcheck, COPY, hmove]
    rfl
  · simp only [WRITE_BREAK, hcheck]
    exact string_at_append_move before [0x0A] after
  · simp only [WRITE_BREAK, hcheck, COPY, hmove]
    rfl
  · simp only [WRITE_BREAK, hcheck, COPY, hmove]
    rfl
  · simp only [WRITE_BREAK, hcheck, COPY, hmove]
    rfl

/-- A space is not a line break. -/
theorem IS_BREAK_of_IS_SPACE (string : yaml_string_t) (h : IS_SPACE string = true) :
    IS_BREAK string = false := by
  simp only [IS_SPACE, IS_SPACE_AT, CHECK_AT, beq_iff_eq] at h
  simp [IS_BREAK, IS_BREAK_AT, CHECK_AT, h]

/-- `WRITE` on a UTF-8 character of the value that is not a line break keeps the
counters in agreement with the output. -/
theorem WRITE_character_counters (before octets after : List yaml_char_t)
    (emitter : yaml_emitter_t) (h : counters_agree emitter = true)
    (hcharacter : is_utf8_character octets = true)
    (hnot : IS_BREAK (string_at (before ++ (octets ++ after)) before.length) = false) :
    counters_agree (WRITE emitter (string_at (before ++ (octets ++ after)) before.length)).1
      = true := by
  have hoct := (WIDTH_utf8_character before octets after hcharacter).2
  rw [IS_BREAK_utf8_character before octets after hcharacter] at hnot
  exact WRITE_counters emitter _ h (by rw [hoct]; exact hcharacter) (by rw [hoct]; exact hnot)

/-- The counters still agree after characters that are not line breaks when the
column has advanced by their number. -/
theorem counters_agree_text (written : List (List yaml_char_t)) :
    ∀ emitter result : yaml_emitter_t, counters_agree emitter = true →
      (∀ octets ∈ written, is_utf8_character octets = true) →
      (∀ octets ∈ written, is_break_character octets = false) →
      result.line_break = emitter.line_break →
      result.output = emitter.output ++ written.flatten →
      result.line = emitter.line →
      result.column = emitter.column + written.length →
      counters_agree result = true := by
  induction written with
  | nil =>
    intro emitter result h _ _ hbreak houtput hline hcolumn
    exact counters_agree_of_eq emitter result h hbreak (by simpa using houtput) hline
      (by simpa using hcolumn)
  | cons c cs ih =>
    intro emitter result h hall hnot hbreak houtput hline hcolumn
    refine ih { emitter with output := emitter.output ++ c, column := emitter.column + 1 }
      result ?_ (fun o ho => hall o (List.mem_cons_of_mem _ ho))
      (fun o ho => hnot o (List.mem_cons_of_mem _ ho)) hbreak ?_ hline ?_
    · exact counters_agree_character emitter _ c h (hall c (List.mem_cons_self _ _))
        (hnot c (List.mem_cons_self _ _)) rfl rfl rfl rfl
    · rw [houtput]
      simp
    · rw [hcolumn]
      simp only [List.length_cons, Nat.cast_add, Nat.cast_one]
      omega

/-- A valid UTF-8 value without line breaks is a string of characters that are
not line breaks. -/
theorem is_text_characters (value : List yaml_char_t) (h : is_text value = true) :
    ∃ characters : List (List yaml_char_t), characters.flatten = value ∧
      (∀ octets ∈ characters, is_utf8_character octets = true) ∧
      ∀ octets ∈ characters, is_break_character octets = false := by
  unfold is_text at h
  cases hcharacters : utf8_characters value.length value with
  | none => simp [hcharacters] at h
  | some characters =>
    simp only [hcharacters, List.all_eq_true, Bool.not_eq_true'] at h
    obtain ⟨hflat, hall⟩ := utf8_characters_spec _ _ _ hcharacters
    exact ⟨characters, hflat, hall, h⟩

/-- The loop `while (string.pointer < string.capacity) WRITE(emitter, string)`
over a valid UTF-8 value without line breaks ends and keeps the counters in
agreement with the output. -/
theorem write_string_loop_counters (emitter : yaml_emitter_t) (value : List yaml_char_t)
    (h : counters_agree emitter = true) (hvalue : is_text value = true) :
    ∃ result, write_string_loop (STRING value value.length).capacity emitter
        (STRING value value.length) = some result ∧
      counters_agree result = true ∧ result.is_whitespace = emitter.is_whitespace := by
  obtain ⟨characters, hflat, hall, hnot⟩ := is_text_characters value hvalue
  have hloop := write_string_loop_spec characters [] emitter value.length hall
    (by rw [← hflat]; exact length_le_flatten_length characters hall)
  have hstring : STRING value value.length
      = string_at ([] ++ characters.flatten) ([] : List yaml_char_t).length := by
    rw [hflat]
    rfl
  rw [hstring]
  have hcapacity : (string_at ([] ++ characters.flatten) ([] : List yaml_char_t).length).capacity
      = value.length := by
    rw [hflat]
    rfl
  rw [hcapacity, hloop]
  exact ⟨_, rfl, counters_agree_text characters emitter _ h hall hnot rfl rfl rfl rfl, rfl⟩

/-- `yaml_emitter_write_indicator` with an indicator without line breaks ends and
keeps the counters in agreement with the output. -/
theorem write_indicator_counters (emitter : yaml_emitter_t) (indicator : List yaml_char_t)
    (need_whitespace is_whitespace is_indention : Bool)
    (h : counters_agree emitter = true) (hindicator : is_text indicator = true) :
    ∃ result, yaml_emitter_write_indicator emitter indicator need_whitespace is_whitespace
        is_indention = some result ∧ counters_agree result = true := by
  have hbase : counters_agree
      (if need_whitespace && !emitter.is_whitespace then PUT emitter 0x20 else emitter)
        = true := by
    split_ifs
    · exact PUT_counters emitter 0x20 h (by decide)
    · exact h
  obtain ⟨result, hloop, hresult, _⟩ := write_string_loop_counters _ indicator hbase hindicator
  refine ⟨{ result with is_whitespace := is_whitespace,
                        is_indention := result.is_indention && is_indention }, ?_, ?_⟩
  · simp only [yaml_emitter_write_indicator, hloop, Option.map_some']
  · exact counters_agree_of_eq result _ hresult rfl rfl rfl rfl

/-- `yaml_emitter_write_anchor` with an anchor without line breaks ends and keeps
the counters in agreement with the output. -/
theorem write_anchor_counters (emitter : yaml_emitter_t) (value : List yaml_char_t)
    (h : counters_agree emitter = true) (hvalue : is_text value = true) :
    ∃ result, yaml_emitter_write_anchor emitter value = some result ∧
      counters_agree result = true := by
  obtain ⟨result, hloop, hresult, _⟩ := write_string_loop_counters emitter value h hvalue
  refine ⟨{ result with is_whitespace := false, is_indention := false }, ?_, ?_⟩
  · simp only [yaml_emitter_write_anchor, hloop, Option.map_some']
  · exact counters_agree_of_eq result _ hresult rfl rfl rfl rfl

/-- `yaml_emitter_write_tag_handle` with a handle without line breaks ends and
keeps the counters in agreement with the output. -/
theorem write_tag_handle_counters (emitter : yaml_emitter_t) (value : List yaml_char_t)
    (h : counters_agree emitter = true) (hvalue : is_text value = true) :
    ∃ result, yaml_emitter_write_tag_handle emitter value = some result ∧
      counters_agree result = true := by
  have hbase : counters_agree (if !emitter.is_whitespace then PUT emitter 0x20 else emitter)
      = true := by
    split_ifs
    · exact PUT_counters emitter 0x20 h (by decide)
    · exact h
  obtain ⟨result, hloop, hresult, _⟩ := write_string_loop_counters _ value hbase hvalue
  refine ⟨{ result with is_whitespace := false, is_indention := false }, ?_, ?_⟩
  · simp only [yaml_emitter_write_tag_handle, hloop, Option.map_some']
  · exact counters_agree_of_eq result _ hresult rfl rfl rfl rfl

/-! ## Theorems: the counters after the scalar and tag writers -/

/-- The hexadecimal digits written by the emitter are ASCII octets that are not
line breaks. -/
theorem hex_digit_text : ∀ digit : Nat, digit < 16 → is_text_octet (hex_digit digit) = true := by
  decide

/-- The escape loop of `yaml_emitter_write_tag_content` keeps the counters in
agreement with the output. -/
theorem write_tag_content_escape_counters (octets : List Nat) :
    ∀ (before after : List Nat) (emitter : yaml_emitter_t),
      (∀ octet ∈ octets, octet < 256) →
      counters_agree emitter = true →
      counters_agree (write_tag_content_escape octets.length emitter
        (string_at (before ++ (octets ++ after)) before.length)).1 = true := by
  induction octets with
  | nil =>
    intro before after emitter _ h
    exact h
  | cons o os ih =>
    intro before after emitter hlt h
    have ho : o < 256 := hlt o (List.mem_cons_self _ _)
    have hos : ∀ octet ∈ os, octet < 256 := fun x hx => hlt x (List.mem_cons_of_mem _ hx)
    have hstr : ({ string_at (before ++ (o :: os ++ after)) before.length with
        pointer := (string_at (before ++ (o :: os ++ after)) before.length).pointer + 1 }
          : yaml_string_t)
        = string_at ((before ++ [o]) ++ (os ++ after)) (before ++ [o]).length := by
      simp [string_at]
    have hoct : OCTET_AT (string_at (before ++ (o :: os ++ after)) before.length) 0 = o := by
      rw [OCTET_AT_append]
      rfl
    simp only [List.length_cons, write_tag_content_escape, hstr, hoct]
    have hhigh : o >>> 4 < 16 := by
      rw [Nat.shiftRight_eq_div_pow]
      omega
    have hlow : o &&& 0x0F < 16 := by
      have : o &&& 0x0F = o % 16 := Nat.and_pow_two_sub_one_eq_mod o 4
      omega
    exact ih (before ++ [o]) after _ hos
      (PUT_counters _ _ (PUT_counters _ _ (PUT_counters emitter 0x25 h (by decide))
        (hex_digit_text _ hhigh)) (hex_digit_text _ hlow))

/-- The loop of `yaml_emitter_write_tag_content` over a string of UTF-8
characters ends and keeps the counters in agreement with the output. -/
theorem write_tag_content_loop_counters (characters : List (List yaml_char_t)) :
    ∀ (before : List yaml_char_t) (fuel : Nat) (emitter : yaml_emitter_t),
      (∀ octets ∈ characters, is_utf8_character octets = true) →
      characters.length ≤ fuel →
      counters_agree emitter = true →
      ∃ result, write_tag_content_loop fuel emitter
          (string_at (before ++ characters.flatten) before.length) = some result ∧
        counters_agree result = true := by
  induction characters with
  | nil =>
    intro before fuel emitter _ _ h
    refine ⟨emitter, ?_, h⟩
    have hend := string_at_end before
    cases fuel <;> simp only [write_tag_content_loop, List.flatten_nil, if_neg hend]
  | cons c cs ih =>
    intro before fuel emitter hall hfuel h
    have hc := hall c (List.mem_cons_self _ _)
    have hcs : ∀ octets ∈ cs, is_utf8_character octets = true :=
      fun o ho => hall o (List.mem_cons_of_mem _ ho)
    cases fuel with
    | zero => simp at hfuel
    | succ fuel =>
      have hlt := string_at_lt before c cs.flatten hc
      obtain ⟨hw, _⟩ := WIDTH_utf8_character before c cs.flatten hc
      simp only [List.flatten_cons, write_tag_content_loop, if_pos hlt]
      cases hverbatim : write_tag_content_is_verbatim
          (string_at (before ++ (c ++ cs.flatten)) before.length)
      · simp only [Bool.false_eq_true, if_false, hw]
        obtain ⟨hlt256, _⟩ := is_utf8_character_octets c hc
        obtain ⟨hs, _⟩ := write_tag_content_escape_spec c before cs.flatten emitter hlt256
        rw [hs]
        exact ih (before ++ c) fuel _ hcs (by simp only [List.length_cons] at hfuel; omega)
          (write_tag_content_escape_counters c before cs.flatten emitter hlt256 h)
      · simp only [if_true]
        have hnot : IS_BREAK (string_at (before ++ (c ++ cs.flatten)) before.length) = false := by
          rw [write_tag_content_is_verbatim_eq] at hverbatim
          revert hverbatim
          simp only [IS_BREAK, IS_BREAK_AT, CHECK_AT, Nat.zero_add]
          generalize OCTET_AT (string_at (before ++ (c ++ cs.flatten)) before.length) 0 = o
          intro huri
          have hascii : (o : Nat) < 0x80 := (is_uri_character_ascii o huri).1
          have h1 : (o == 0x0D) = false := by
            rw [beq_eq_false_iff_ne]
            rintro rfl
            revert huri
            decide
          have h2 : (o == 0x0A) = false := by
            rw [beq_eq_false_iff_ne]
            rintro rfl
            revert huri
            decide
          have h3 : (o == 0xC2) = false := by
            rw [beq_eq_false_iff_ne]
            rintro rfl
            revert hascii
            decide
          have h4 : (o == 0xE2) = false := by
            rw [beq_eq_false_iff_ne]
            rintro rfl
            revert hascii
            decide
          simp [h1, h2, h3, h4]
        have hwritten := WRITE_character_counters before c cs.flatten emitter h hc hnot
        rw [(WRITE_utf8_character before c cs.flatten emitter hc).2] at *
        exact ih (before ++ c) fuel _ hcs (by simp only [List.length_cons] at hfuel; omega)
          hwritten

/-- `yaml_emitter_write_tag_content` on valid UTF-8 ends and keeps the counters
in agreement with the output. -/
theorem write_tag_content_counters (emitter : yaml_emitter_t) (value : List yaml_char_t)
    (need_whitespace : Bool)
    (h : counters_agree emitter = true) (hvalue : is_valid_utf8 value = true) :
    ∃ result, yaml_emitter_write_tag_content emitter value need_whitespace = some result ∧
      counters_agree result = true := by
  obtain ⟨characters, hflat, hall⟩ := is_valid_utf8_characters value hvalue
  have hbase : counters_agree
      (if need_whitespace && !emitter.is_whitespace then PUT emitter 0x20 else emitter)
        = true := by
    split_ifs
    · exact PUT_counters emitter 0x20 h (by decide)
    · exact h
  obtain ⟨result, hloop, hresult⟩ := write_tag_content_loop_counters characters [] value.length
    _ hall (by rw [← hflat]; exact length_le_flatten_length characters hall) hbase
  have hstring : STRING value value.length
      = string_at ([] ++ characters.flatten) ([] : List yaml_char_t).length := by
    rw [hflat]
    rfl
  refine ⟨{ result with is_whitespace := false, is_indention := false }, ?_, ?_⟩
  · simp only [yaml_emitter_write_tag_content, hstring]
    rw [show (string_at ([] ++ characters.flatten) ([] : List yaml_char_t).length).capacity
      = value.length from by rw [hflat]; rfl, hloop]
    rfl
  · exact counters_agree_of_eq result _ hresult rfl rfl rfl rfl

/-! ## Theorems: the counters after plain, single-quoted and literal scalars -/

/-- One iteration of the loop of `yaml_emitter_write_plain_scalar` on a UTF-8
character moves past it and keeps the counters in agreement with the output. -/
theorem write_plain_step_counters (allow_breaks : Bool) (emitter : yaml_emitter_t)
    (before octets after : List yaml_char_t) (spaces breaks : Bool)
    (h : counters_agree emitter = true) (hc : is_utf8_character octets = true) :
    counters_agree (write_plain_step allow_breaks emitter
      (string_at (before ++ (octets ++ after)) before.length) spaces breaks).1 = true ∧
    (write_plain_step allow_breaks emitter
      (string_at (before ++ (octets ++ after)) before.length) spaces breaks).2.1
        = string_at ((before ++ octets) ++ after) (before ++ octets).length := by
  have hmove := MOVE_utf8_character before octets after hc
  have hwrite := fun e => (WRITE_utf8_character before octets after e hc).2
  by_cases hspace : IS_SPACE (string_at (before ++ (octets ++ after)) before.length) = true
  · have hnot := IS_BREAK_of_IS_SPACE _ hspace
    simp only [write_plain_step, if_pos hspace]
    split_ifs
    · exact ⟨write_indent_counters emitter h, hmove⟩
    · exact ⟨WRITE_character_counters before octets after emitter h hc hnot, hwrite emitter⟩
  · by_cases hbreak : IS_BREAK (string_at (before ++ (octets ++ after)) before.length) = true
    · have his : is_break_character octets = true := by
        rw [← IS_BREAK_utf8_character before octets after hc]
        exact hbreak
      have hbase : counters_agree
          (if !breaks && CHECK (string_at (before ++ (octets ++ after)) before.length) 0x0A then
            PUT_BREAK emitter else emitter) = true := by
        split_ifs
        · exact PUT_BREAK_counters emitter h
        · exact h
      simp only [write_plain_step, if_neg hspace, if_pos hbreak]
      exact ⟨WRITE_BREAK_counters _ _ hbase hbreak,
        WRITE_BREAK_utf8_character before octets after _ hc his⟩
    · have hnot : IS_BREAK (string_at (before ++ (octets ++ after)) before.length) = false := by
        simpa using hbreak
      have hbase : counters_agree
          (if breaks then yaml_emitter_write_indent emitter else emitter) = true := by
        split_ifs
        · exact write_indent_counters emitter h
        · exact h
      simp only [write_plain_step, if_neg hspace, if_neg hbreak]
      exact ⟨WRITE_character_counters before octets after _ hbase hc hnot,
        hwrite (if breaks then yaml_emitter_write_indent emitter else emitter)⟩

/-- The loop of `yaml_emitter_write_plain_scalar` over a string of UTF-8
characters ends and keeps the counters in agreement with the output. -/
theorem write_plain_loop_counters (allow_breaks : Bool) (characters : List (List yaml_char_t)) :
    ∀ (before : List yaml_char_t) (emitter : yaml_emitter_t) (spaces breaks : Bool) (fuel : Nat),
      (∀ octets ∈ characters, is_utf8_character octets = true) →
      characters.length ≤ fuel →
      counters_agree emitter = true →
      ∃ result, write_plain_loop allow_breaks fuel emitter
          (string_at (before ++ characters.flatten) before.length) spaces breaks = some result ∧
        counters_agree result = true := by
  induction characters with
  | nil =>
    intro before emitter spaces breaks fuel _ _ h
    refine ⟨emitter, ?_, h⟩
    have hend := string_at_end before
    cases fuel <;> simp only [write_plain_loop, List.flatten_nil, if_neg hend]
  | cons c cs ih =>
    intro before emitter spaces breaks fuel hall hfuel h
    have hc := hall c (List.mem_cons_self _ _)
    have hcs : ∀ octets ∈ cs, is_utf8_character octets = true :=
      fun o ho => hall o (List.mem_cons_of_mem _ ho)
    cases fuel with
    | zero => simp at hfuel
    | succ fuel =>
      have hlt := string_at_lt before c cs.flatten hc
      obtain ⟨hstep, hnext⟩ := write_plain_step_counters allow_breaks emitter before c
        cs.flatten spaces breaks h hc
      simp only [List.flatten_cons, write_plain_loop, if_pos hlt, hnext]
      exact ih (before ++ c) _ _ _ fuel hcs (by simp only [List.length_cons] at hfuel; omega)
        hstep

/-- `yaml_emitter_write_plain_scalar` on valid UTF-8 ends and keeps the counters
in agreement with the output. -/
theorem write_plain_scalar_counters (emitter : yaml_emitter_t) (value : List yaml_char_t)
    (allow_breaks : Bool)
    (h : counters_agree emitter = true) (hvalue : is_valid_utf8 value = true) :
    ∃ result, yaml_emitter_write_plain_scalar emitter value allow_breaks = some result ∧
      counters_agree result = true := by
  obtain ⟨characters, hflat, hall⟩ := is_valid_utf8_characters value hvalue
  have hbase : counters_agree (if !emitter.is_whitespace then PUT emitter 0x20 else emitter)
      = true := by
    split_ifs
    · exact PUT_counters emitter 0x20 h (by decide)
    · exact h
  obtain ⟨result, hloop, hresult⟩ := write_plain_loop_counters allow_breaks characters []
    _ false false value.length hall
    (by rw [← hflat]; exact length_le_flatten_length characters hall) hbase
  have hstring : STRING value value.length
      = string_at ([] ++ characters.flatten) ([] : List yaml_char_t).length := by
    rw [hflat]
    rfl
  refine ⟨{ result with is_whitespace := false, is_indention := false }, ?_, ?_⟩
  · simp only [yaml_emitter_write_plain_scalar, hstring]
    rw [show (string_at ([] ++ characters.flatten) ([] : List yaml_char_t).length).capacity
      = value.length from by rw [hflat]; rfl, hloop]
    rfl
  · exact counters_agree_of_eq result _ hresult rfl rfl rfl rfl

/-- One iteration of the loop of `yaml_emitter_write_single_quoted_scalar` on a
UTF-8 character moves past it and keeps the counters in agreement with the
output. -/
theorem write_single_quoted_step_counters (allow_breaks : Bool) (emitter : yaml_emitter_t)
    (before octets after : List yaml_char_t) (spaces breaks : Bool)
    (h : counters_agree emitter = true) (hc : is_utf8_character octets = true) :
    counters_agree (write_single_quoted_step allow_breaks emitter
      (string_at (before ++ (octets ++ after)) before.length) spaces breaks).1 = true ∧
    (write_single_quoted_step allow_breaks emitter
      (string_at (before ++ (octets ++ after)) before.length) spaces breaks).2.1
        = string_at ((before ++ octets) ++ after) (before ++ octets).length := by
  have hmove := MOVE_utf8_character before octets after hc
  have hwrite := fun e => (WRITE_utf8_character before octets after e hc).2
  by_cases hspace : IS_SPACE (string_at (before ++ (octets ++ after)) before.length) = true
  · have hnot := IS_BREAK_of_IS_SPACE _ hspace
    simp only [write_single_quoted_step, if_pos hspace]
    split_ifs
    · exact ⟨write_indent_counters emitter h, hmove⟩
    · exact ⟨WRITE_character_counters before octets after emitter h hc hnot, hwrite emitter⟩
  · by_cases hbreak : IS_BREAK (string_at (before ++ (octets ++ after)) before.length) = true
    · have his : is_break_character octets = true := by
        rw [← IS_BREAK_utf8_character before octets after hc]
        exact hbreak
      have hbase : counters_agree
          (if !breaks && CHECK (string_at (before ++ (octets ++ after)) before.length) 0x0A then
            PUT_BREAK emitter else emitter) = true := by
        split_ifs
        · exact PUT_BREAK_counters emitter h
        · exact h
      simp only [write_single_quoted_step, if_neg hspace, if_pos hbreak]
      exact ⟨WRITE_BREAK_counters _ _ hbase hbreak,
        WRITE_BREAK_utf8_character before octets after _ hc his⟩
    · have hnot : IS_BREAK (string_at (before ++ (octets ++ after)) before.length) = false := by
        simpa using hbreak
      have hbase : counters_agree
          (if breaks then yaml_emitter_write_indent emitter else emitter) = true := by
        split_ifs
        · exact write_indent_counters emitter h
        · exact h
      have hquote : counters_agree
          (if CHECK (string_at (before ++ (octets ++ after)) before.length) 0x27 then
            PUT (if breaks then yaml_emitter_write_indent emitter else emitter) 0x27
          else (if breaks then yaml_emitter_write_indent emitter else emitter)) = true := by
        split_ifs
        all_goals first
          | exact PUT_counters _ 0x27 (write_indent_counters emitter h) (by decide)
          | exact PUT_counters _ 0x27 h (by decide)
          | exact write_indent_counters emitter h
          | exact h
      simp only [write_single_quoted_step, if_neg hspace, if_neg hbreak]
      exact ⟨WRITE_character_counters before octets after _ hquote hc hnot,
        hwrite (if CHECK (string_at (before ++ (octets ++ after)) before.length) 0x27 then
            PUT (if breaks then yaml_emitter_write_indent emitter else emitter) 0x27
          else (if breaks then yaml_emitter_write_indent emitter else emitter))⟩

/-- The loop of `yaml_emitter_write_single_quoted_scalar` over a string of UTF-8
characters ends and keeps the counters in agreement with the output. -/
theorem write_single_quoted_loop_counters (allow_breaks : Bool)
    (characters : List (List yaml_char_t)) :
    ∀ (before : List yaml_char_t) (emitter : yaml_emitter_t) (spaces breaks : Bool) (fuel : Nat),
      (∀ octets ∈ characters, is_utf8_character octets = true) →
      characters.length ≤ fuel →
      counters_agree emitter = true →
      ∃ result, write_single_quoted_loop allow_breaks fuel emitter
          (string_at (before ++ characters.flatten) before.length) spaces breaks = some result ∧
        counters_agree result = true := by
  induction characters with
  | nil =>
    intro before emitter spaces breaks fuel _ _ h
    refine ⟨emitter, ?_, h⟩
    have hend := string_at_end before
    cases fuel <;> simp only [write_single_quoted_loop, List.flatten_nil, if_neg hend]
  | cons c cs ih =>
    intro before emitter spaces breaks fuel hall hfuel h
    have hc := hall c (List.mem_cons_self _ _)
    have hcs : ∀ octets ∈ cs, is_utf8_character octets = true :=
      fun o ho => hall o (List.mem_cons_of_mem _ ho)
    cases fuel with
    | zero => simp at hfuel
    | succ fuel =>
      have hlt := string_at_lt before c cs.flatten hc
      obtain ⟨hstep, hnext⟩ := write_single_quoted_step_counters allow_breaks emitter before c
        cs.flatten spaces breaks h hc
      simp only [List.flatten_cons, write_single_quoted_loop, if_pos hlt, hnext]
      exact ih (before ++ c) _ _ _ fuel hcs (by simp only [List.length_cons] at hfuel; omega)
        hstep

/-- `yaml_emitter_write_single_quoted_scalar` on valid UTF-8 ends and keeps the
counters in agreement with the output. -/
theorem write_single_quoted_scalar_counters (emitter : yaml_emitter_t)
    (value : List yaml_char_t) (allow_breaks : Bool)
    (h : counters_agree emitter = true) (hvalue : is_valid_utf8 value = true) :
    ∃ result, yaml_emitter_write_single_quoted_scalar emitter value allow_breaks
        = some result ∧ counters_agree result = true := by
  obtain ⟨characters, hflat, hall⟩ := is_valid_utf8_characters value hvalue
  obtain ⟨opened, hopen, hopened⟩ := write_indicator_counters emitter [0x27] true false false h
    (by decide)
  obtain ⟨written, hloop, hwritten⟩ := write_single_quoted_loop_counters allow_breaks
    characters [] opened false false value.length hall
    (by rw [← hflat]; exact length_le_flatten_length characters hall) hopened
  obtain ⟨closed, hclose, hclosed⟩ := write_indicator_counters written [0x27] false false false
    hwritten (by decide)
  have hstring : STRING value value.length
      = string_at ([] ++ characters.flatten) ([] : List yaml_char_t).length := by
    rw [hflat]
    rfl
  refine ⟨{ closed with is_whitespace := false, is_indention := false }, ?_, ?_⟩
  · simp only [yaml_emitter_write_single_quoted_scalar, hstring, hopen, Option.bind_eq_bind,
      Option.some_bind]
    rw [show (string_at ([] ++ characters.flatten) ([] : List yaml_char_t).length).capacity
      = value.length from by rw [hflat]; rfl, hloop]
    simp only [Option.some_bind, hclose, Option.map_some']
  · exact counters_agree_of_eq closed _ hclosed rfl rfl rfl rfl

/-- One iteration of the loop of `yaml_emitter_write_literal_scalar` on a UTF-8
character moves past it and keeps the counters in agreement with the output. -/
theorem write_literal_step_counters (emitter : yaml_emitter_t)
    (before octets after : List yaml_char_t) (breaks : Bool)
    (h : counters_agree emitter = true) (hc : is_utf8_character octets = true) :
    counters_agree (write_literal_step emitter
      (string_at (before ++ (octets ++ after)) before.length) breaks).1 = true ∧
    (write_literal_step emitter
      (string_at (before ++ (octets ++ after)) before.length) breaks).2.1
        = string_at ((before ++ octets) ++ after) (before ++ octets).length := by
  have hwrite := fun e => (WRITE_utf8_character before octets after e hc).2
  by_cases hbreak : IS_BREAK (string_at (before ++ (octets ++ after)) before.length) = true
  · have his : is_break_character octets = true := by
      rw [← IS_BREAK_utf8_character before octets after hc]
      exact hbreak
    simp only [write_literal_step, if_pos hbreak]
    exact ⟨WRITE_BREAK_counters _ _ h hbreak,
      WRITE_BREAK_utf8_character before octets after _ hc his⟩
  · have hnot : IS_BREAK (string_at (before ++ (octets ++ after)) before.length) = false := by
      simpa using hbreak
    have hbase : counters_agree
        (if breaks then yaml_emitter_write_indent emitter else emitter) = true := by
      split_ifs
      · exact write_indent_counters emitter h
      · exact h
    simp only [write_literal_step, if_neg hbreak]
    exact ⟨WRITE_character_counters before octets after _ hbase hc hnot,
      hwrite (if breaks then yaml_emitter_write_indent emitter else emitter)⟩

/-- The loop of `yaml_emitter_write_literal_scalar` over a string of UTF-8
characters ends and keeps the counters in agreement with the output. -/
theorem write_literal_loop_counters (characters : List (List yaml_char_t)) :
    ∀ (before : List yaml_char_t) (emitter : yaml_emitter_t) (breaks : Bool) (fuel : Nat),
      (∀ octets ∈ characters, is_utf8_character octets = true) →
      characters.length ≤ fuel →
      counters_agree emitter = true →
      ∃ result, write_literal_loop fuel emitter
          (string_at (before ++ characters.flatten) before.length) breaks = some result ∧
        counters_agree result = true := by
  induction characters with
  | nil =>
    intro before emitter breaks fuel _ _ h
    refine ⟨emitter, ?_, h⟩
    have hend := string_at_end before
    cases fuel <;> simp only [write_literal_loop, List.flatten_nil, if_neg hend]
  | cons c cs ih =>
    intro before emitter breaks fuel hall hfuel h
    have hc := hall c (List.mem_cons_self _ _)
    have hcs : ∀ octets ∈ cs, is_utf8_character octets = true :=
      fun o ho => hall o (List.mem_cons_of_mem _ ho)
    cases fuel with
    | zero => simp at hfuel
    | succ fuel =>
      have hlt := string_at_lt before c cs.flatten hc
      obtain ⟨hstep, hnext⟩ := write_literal_step_counters emitter before c cs.flatten breaks
        h hc
      simp only [List.flatten_cons, write_literal_loop, if_pos hlt, hnext]
      exact ih (before ++ c) _ _ fuel hcs (by simp only [List.length_cons] at hfuel; omega)
        hstep

/-! ## Theorems: the counters after literal, folded and double-quoted scalars -/

/-- On valid UTF-8 `yaml_emitter_determine_chomping` returns. -/
theorem determine_chomping_returns (emitter : yaml_emitter_t) (value : List Nat)
    (hvalid : is_valid_utf8 value = true) :
    ∃ chomp, yaml_emitter_determine_chomping emitter (STRING value value.length)
      = some chomp := by
  obtain ⟨characters, hflat, hall⟩ := is_valid_utf8_characters value hvalid
  subst hflat
  rcases List.eq_nil_or_concat characters with rfl | ⟨init, last, hconcat⟩
  · exact ⟨_, rfl⟩
  rw [List.concat_eq_append] at hconcat
  subst hconcat
  have hlast := hall last (by simp)
  have hinit : ∀ octets ∈ init, is_utf8_character octets = true :=
    fun o ho => hall o (by simp [ho])
  have hflat : (init ++ [last]).flatten = init.flatten ++ last := by simp
  rw [hflat, determine_chomping_last emitter init.flatten last hlast]
  cases hb : is_break_character last
  · exact ⟨_, rfl⟩
  · simp only [Bool.true_eq_false, if_false]
    rcases List.eq_nil_or_concat init with rfl | ⟨init2, previous, hconcat2⟩
    · exact ⟨_, rfl⟩
    rw [List.concat_eq_append] at hconcat2
    subst hconcat2
    have hprevious := hinit previous (by simp)
    have hpos : 0 < previous.length :=
      List.length_pos.mpr (is_utf8_character_ne_nil previous hprevious)
    have hflat2 : (init2 ++ [previous]).flatten = init2.flatten ++ previous := by simp
    have hlen : (init2.flatten ++ previous).length ≠ 0 := by
      simp only [List.length_append]
      omega
    rw [hflat2, if_neg hlen, determine_chomping_second init2.flatten previous last hprevious]
    exact ⟨_, rfl⟩

/-- The header of a literal or folded scalar has no line break. -/
theorem block_scalar_indicator_text (chomp : Int) :
    is_text (block_scalar_indicator 0x7C chomp) = true ∧
    is_text (block_scalar_indicator 0x3E chomp) = true := by
  simp only [block_scalar_indicator]
  split_ifs <;> decide

/-- `yaml_emitter_write_literal_scalar` on valid UTF-8 ends and keeps the
counters in agreement with the output. -/
theorem write_literal_scalar_counters (emitter : yaml_emitter_t) (value : List yaml_char_t)
    (h : counters_agree emitter = true) (hvalue : is_valid_utf8 value = true) :
    ∃ result, yaml_emitter_write_literal_scalar emitter value = some result ∧
      counters_agree result = true := by
  obtain ⟨characters, hflat, hall⟩ := is_valid_utf8_characters value hvalue
  obtain ⟨chomp, hchomp⟩ := determine_chomping_returns emitter value hvalue
  obtain ⟨opened, hopen, hopened⟩ := write_indicator_counters emitter
    (block_scalar_indicator 0x7C chomp) true false false h (block_scalar_indicator_text chomp).1
  obtain ⟨written, hloop, hwritten⟩ := write_literal_loop_counters characters []
    (yaml_emitter_write_indent opened) false value.length hall
    (by rw [← hflat]; exact length_le_flatten_length characters hall)
    (write_indent_counters opened hopened)
  have hstring : STRING value value.length
      = string_at ([] ++ characters.flatten) ([] : List yaml_char_t).length := by
    rw [hflat]
    rfl
  refine ⟨written, ?_, hwritten⟩
  simp only [yaml_emitter_write_literal_scalar, hchomp, Option.bind_eq_bind, Option.some_bind,
    hopen]
  rw [hstring, show (string_at ([] ++ characters.flatten) ([] : List yaml_char_t).length).capacity
    = value.length from by rw [hflat]; rfl, hloop]

/-- After the end of the buffer no octet is a line break. -/
theorem IS_BREAK_AT_end (string : yaml_string_t) (k : Nat)
    (h : string.buffer.length ≤ string.pointer + k) : IS_BREAK_AT string k = false := by
  have h0 : OCTET_AT string k = 0 := by
    simp only [OCTET_AT]
    exact List.getD_eq_default _ _ h
  simp [IS_BREAK_AT, CHECK_AT, h0]

/-- A line break is at least one octet wide. -/
theorem WIDTH_AT_pos (string : yaml_string_t) (k : Nat) (h : IS_BREAK_AT string k = true) :
    0 < WIDTH_AT string k := by
  have hoct : OCTET_AT { string with pointer := string.pointer + k } 0 = OCTET_AT string k := rfl
  simp only [IS_BREAK_AT, CHECK_AT, Bool.or_eq_true, Bool.and_eq_true, beq_iff_eq] at h
  simp only [WIDTH_AT, WIDTH, hoct]
  rcases h with (((h | h) | ⟨h, _⟩) | ⟨⟨h, _⟩, _⟩) | ⟨⟨h, _⟩, _⟩ <;> simp [h]

/-- The loop of `yaml_emitter_write_folded_scalar` over the line breaks that
follow ends. -/
theorem write_folded_skip_breaks_returns (string : yaml_string_t) (fuel : Nat) :
    ∀ k : Nat, string.buffer.length ≤ string.pointer + k + fuel →
      ∃ offset, write_folded_skip_breaks string fuel k = some offset := by
  induction fuel with
  | zero =>
    intro k h
    simp only [write_folded_skip_breaks, IS_BREAK_AT_end string k (by omega),
      Bool.false_eq_true, if_false]
    exact ⟨k, rfl⟩
  | succ fuel ih =>
    intro k h
    simp only [write_folded_skip_breaks]
    by_cases hbreak : IS_BREAK_AT string k = true
    · rw [if_pos hbreak]
      have := WIDTH_AT_pos string k hbreak
      exact ih _ (by omega)
    · rw [if_neg hbreak]
      exact ⟨k, rfl⟩

/-- One iteration of the loop of `yaml_emitter_write_folded_scalar` on a UTF-8
character ends, moves past it and keeps the counters in agreement with the
output. -/
theorem write_folded_step_counters (emitter : yaml_emitter_t)
    (before octets after : List yaml_char_t) (breaks leading_spaces : Bool)
    (h : counters_agree emitter = true) (hc : is_utf8_character octets = true) :
    ∃ step, write_folded_step emitter
        (string_at (before ++ (octets ++ after)) before.length) breaks leading_spaces
          = some step ∧
      counters_agree step.1 = true ∧
      step.2.1 = string_at ((before ++ octets) ++ after) (before ++ octets).length := by
  have hmove := MOVE_utf8_character before octets after hc
  have hwrite := fun e => (WRITE_utf8_character before octets after e hc).2
  by_cases hbreak : IS_BREAK (string_at (before ++ (octets ++ after)) before.length) = true
  · have his : is_break_character octets = true := by
      rw [← IS_BREAK_utf8_character before octets after hc]
      exact hbreak
    obtain ⟨k, hk⟩ := write_folded_skip_breaks_returns
      (string_at (before ++ (octets ++ after)) before.length)
      ((string_at (before ++ (octets ++ after)) before.length).capacity + 1) 0
      (by simp only [string_at]; omega)
    simp only [write_folded_step, if_pos hbreak, hk, Option.map_some']
    split_ifs
    all_goals
      simp only [Option.map_some']
      refine ⟨_, rfl, ?_, WRITE_BREAK_utf8_character before octets after _ hc his⟩
      first
        | exact WRITE_BREAK_counters _ _ (PUT_BREAK_counters emitter h) hbreak
        | exact WRITE_BREAK_counters _ _ h hbreak
  · have hnot : IS_BREAK (string_at (before ++ (octets ++ after)) before.length) = false := by
      simpa using hbreak
    have hbase : counters_agree
        (if breaks then yaml_emitter_write_indent emitter else emitter) = true := by
      split_ifs
      · exact write_indent_counters emitter h
      · exact h
    simp only [write_folded_step, if_neg hbreak]
    by_cases hfold : (!breaks && IS_SPACE (string_at (before ++ (octets ++ after)) before.length)
        && !IS_SPACE_AT (string_at (before ++ (octets ++ after)) before.length) 1
        && decide ((if breaks then yaml_emitter_write_indent emitter else emitter).column
            > (if breaks then yaml_emitter_write_indent emitter else emitter).best_width)) = true
    · rw [if_pos hfold]
      exact ⟨_, rfl, write_indent_counters _ hbase, hmove⟩
    · rw [if_neg hfold]
      exact ⟨_, rfl, WRITE_character_counters before octets after _ hbase hc hnot,
        hwrite (if breaks then yaml_emitter_write_indent emitter else emitter)⟩

/-- The loop of `yaml_emitter_write_folded_scalar` over a string of UTF-8
characters ends and keeps the counters in agreement with the output. -/
theorem write_folded_loop_counters (characters : List (List yaml_char_t)) :
    ∀ (before : List yaml_char_t) (emitter : yaml_emitter_t) (breaks leading_spaces : Bool)
      (fuel : Nat),
      (∀ octets ∈ characters, is_utf8_character octets = true) →
      characters.length ≤ fuel →
      counters_agree emitter = true →
      ∃ result, write_folded_loop fuel emitter
          (string_at (before ++ characters.flatten) before.length) breaks leading_spaces
            = some result ∧
        counters_agree result = true := by
  induction characters with
  | nil =>
    intro before emitter breaks leading_spaces fuel _ _ h
    refine ⟨emitter, ?_, h⟩
    have hend := string_at_end before
    cases fuel <;> simp only [write_folded_loop, List.flatten_nil, if_neg hend]
  | cons c cs ih =>
    intro before emitter breaks leading_spaces fuel hall hfuel h
    have hc := hall c (List.mem_cons_self _ _)
    have hcs : ∀ octets ∈ cs, is_utf8_character octets = true :=
      fun o ho => hall o (List.mem_cons_of_mem _ ho)
    cases fuel with
    | zero => simp at hfuel
    | succ fuel =>
      have hlt := string_at_lt before c cs.flatten hc
      obtain ⟨step, hstep, hcounters, hnext⟩ := write_folded_step_counters emitter before c
        cs.flatten breaks leading_spaces h hc
      simp only [List.flatten_cons, write_folded_loop, if_pos hlt, hstep, Option.bind_eq_bind,
        Option.some_bind, hnext]
      exact ih (before ++ c) _ _ _ fuel hcs (by simp only [List.length_cons] at hfuel; omega)
        hcounters

/-- `yaml_emitter_write_folded_scalar` on valid UTF-8 ends and keeps the
counters in agreement with the output. -/
theorem write_folded_scalar_counters (emitter : yaml_emitter_t) (value : List yaml_char_t)
    (h : counters_agree emitter = true) (hvalue : is_valid_utf8 value = true) :
    ∃ result, yaml_emitter_write_folded_scalar emitter value = some result ∧
      counters_agree result = true := by
  obtain ⟨characters, hflat, hall⟩ := is_valid_utf8_characters value hvalue
  obtain ⟨chomp, hchomp⟩ := determine_chomping_returns emitter value hvalue
  obtain ⟨opened, hopen, hopened⟩ := write_indicator_counters emitter
    (block_scalar_indicator 0x3E chomp) true false false h (block_scalar_indicator_text chomp).2
  obtain ⟨written, hloop, hwritten⟩ := write_folded_loop_counters characters []
    (yaml_emitter_write_indent opened) true false value.length hall
    (by rw [← hflat]; exact length_le_flatten_length characters hall)
    (write_indent_counters opened hopened)
  have hstring : STRING value value.length
      = string_at ([] ++ characters.flatten) ([] : List yaml_char_t).length := by
    rw [hflat]
    rfl
  refine ⟨written, ?_, hwritten⟩
  simp only [yaml_emitter_write_folded_scalar, hchomp, Option.bind_eq_bind, Option.some_bind,
    hopen]
  rw [hstring, show (string_at ([] ++ characters.flatten) ([] : List yaml_char_t).length).capacity
    = value.length from by rw [hflat]; rfl, hloop]

/-- The digits of an escape are ASCII octets that are not line breaks. -/
theorem double_quoted_hex_text (width : Nat) (value : Nat) :
    ∀ octet ∈ double_quoted_hex width value, is_text_octet octet = true := by
  induction width with
  | zero =>
    intro o ho
    simp [double_quoted_hex] at ho
  | succ width ih =>
    intro o ho
    simp only [double_quoted_hex, List.mem_cons] at ho
    rcases ho with rfl | ho
    · apply hex_digit_text
      have : (value >>> (width * 4)) &&& 0x0F = (value >>> (width * 4)) % 16 :=
        Nat.and_pow_two_sub_one_eq_mod _ 4
      omega
    · exact ih o ho

/-- The octets of an escape sequence are ASCII octets that are not line
breaks. -/
theorem double_quoted_escape_text (value : Nat) :
    ∀ octet ∈ double_quoted_escape value, is_text_octet octet = true := by
  have hcases : value = 0x00 ∨ value = 0x07 ∨ value = 0x08 ∨ value = 0x09 ∨ value = 0x0A ∨
      value = 0x0B ∨ value = 0x0C ∨ value = 0x0D ∨ value = 0x1B ∨ value = 0x22 ∨
      value = 0x5C ∨ value = 0x85 ∨ value = 0xA0 ∨ value = 0x2028 ∨ value = 0x2029 ∨
      (value ≠ 0x00 ∧ value ≠ 0x07 ∧ value ≠ 0x08 ∧ value ≠ 0x09 ∧ value ≠ 0x0A ∧
        value ≠ 0x0B ∧ value ≠ 0x0C ∧ value ≠ 0x0D ∧ value ≠ 0x1B ∧ value ≠ 0x22 ∧
        value ≠ 0x5C ∧ value ≠ 0x85 ∧ value ≠ 0xA0 ∧ value ≠ 0x2028 ∧ value ≠ 0x2029) := by
    omega
  rcases hcases with rfl | rfl | rfl | rfl | rfl | rfl | rfl | rfl | rfl | rfl | rfl | rfl |
    rfl | rfl | rfl | ⟨h0, h1, h2, h3, h4, h5, h6, h7, h8, h9, h10, h11, h12, h13, h14⟩
  iterate 15 decide
  simp only [double_quoted_escape, if_neg h0, if_neg h1, if_neg h2, if_neg h3, if_neg h4,
    if_neg h5, if_neg h6, if_neg h7, if_neg h8, if_neg h9, if_neg h10, if_neg h11, if_neg h12,
    if_neg h13, if_neg h14]
  split_ifs
  all_goals
    intro o ho
    rcases List.mem_cons.mp ho with rfl | ho
    · decide
    · exact double_quoted_hex_text _ _ o ho

/-- One iteration of the loop of `yaml_emitter_write_double_quoted_scalar` on a
UTF-8 character moves past it and keeps the counters in agreement with the
output. -/
theorem write_double_quoted_step_counters (allow_breaks : Bool) (emitter : yaml_emitter_t)
    (before octets after : List Nat) (spaces : Bool)
    (h : counters_agree emitter = true) (hc : is_utf8_character octets = true) :
    counters_agree (write_double_quoted_step allow_breaks emitter
      (string_at (before ++ (octets ++ after)) before.length) spaces).1 = true ∧
    (write_double_quoted_step allow_breaks emitter
      (string_at (before ++ (octets ++ after)) before.length) spaces).2.1
        = string_at ((before ++ octets) ++ after) (before ++ octets).length := by
  have hmove := MOVE_utf8_character before octets after hc
  have hwrite := fun e => (WRITE_utf8_character before octets after e hc).2
  by_cases hescaped : write_double_quoted_is_escaped emitter
      (string_at (before ++ (octets ++ after)) before.length) = true
  · simp only [write_double_quoted_step, if_pos hescaped,
      (double_quoted_character before octets after hc).1]
    refine ⟨PUT_foldl_counters _ _ (PUT_counters emitter 0x5C h (by decide))
      (double_quoted_escape_text _), ?_⟩
    exact string_at_append_move before octets after
  · have hnot : IS_BREAK (string_at (before ++ (octets ++ after)) before.length) = false := by
      simp only [write_double_quoted_is_escaped, Bool.or_eq_true, not_or,
        Bool.not_eq_true] at hescaped
      exact hescaped.1.1.2
    simp only [write_double_quoted_step, if_neg hescaped]
    split_ifs
    all_goals first
      | exact ⟨PUT_counters _ 0x5C (write_indent_counters emitter h) (by decide), hmove⟩
      | exact ⟨write_indent_counters emitter h, hmove⟩
      | exact ⟨WRITE_character_counters before octets after emitter h hc hnot, hwrite emitter⟩

/-- The loop of `yaml_emitter_write_double_quoted_scalar` over a string of UTF-8
characters ends and keeps the counters in agreement with the output. -/
theorem write_double_quoted_loop_counters (allow_breaks : Bool)
    (characters : List (List Nat)) :
    ∀ (before : List Nat) (emitter : yaml_emitter_t) (spaces : Bool) (fuel : Nat),
      (∀ octets ∈ characters, is_utf8_character octets = true) →
      characters.length ≤ fuel →
      counters_agree emitter = true →
      ∃ result, write_double_quoted_loop allow_breaks fuel emitter
          (string_at (before ++ characters.flatten) before.length) spaces = some result ∧
        counters_agree result = true := by
  induction characters with
  | nil =>
    intro before emitter spaces fuel _ _ h
    refine ⟨emitter, ?_, h⟩
    have hend := string_at_end before
    cases fuel <;> simp only [write_double_quoted_loop, List.flatten_nil, if_neg hend]
  | cons c cs ih =>
    intro before emitter spaces fuel hall hfuel h
    have hc := hall c (List.mem_cons_self _ _)
    have hcs : ∀ octets ∈ cs, is_utf8_character octets = true :=
      fun o ho => hall o (List.mem_cons_of_mem _ ho)
    cases fuel with
    | zero => simp at hfuel
    | succ fuel =>
      have hlt := string_at_lt before c cs.flatten hc
      obtain ⟨hstep, hnext⟩ := write_double_quoted_step_counters allow_breaks emitter before c
        cs.flatten spaces h hc
      simp only [List.flatten_cons, write_double_quoted_loop, if_pos hlt, hnext]
      exact ih (before ++ c) _ _ fuel hcs (by simp only [List.length_cons] at hfuel; omega)
        hstep

/-- `yaml_emitter_write_double_quoted_scalar` on valid UTF-8 ends and keeps the
counters in agreement with the output. -/
theorem write_double_quoted_scalar_counters (emitter : yaml_emitter_t)
    (value : List yaml_char_t) (allow_breaks : Bool)
    (h : counters_agree emitter = true) (hvalue : is_valid_utf8 value = true) :
    ∃ result, yaml_emitter_write_double_quoted_scalar emitter value allow_breaks
        = some result ∧ counters_agree result = true := by
  obtain ⟨characters, hflat, hall⟩ := is_valid_utf8_characters value hvalue
  obtain ⟨opened, hopen, hopened⟩ := write_indicator_counters emitter [0x22] true false false h
    (by decide)
  obtain ⟨written, hloop, hwritten⟩ := write_double_quoted_loop_counters allow_breaks
    characters [] opened false value.length hall
    (by rw [← hflat]; exact length_le_flatten_length characters hall) hopened
  obtain ⟨closed, hclose, hclosed⟩ := write_indicator_counters written [0x22] false false false
    hwritten (by decide)
  have hstring : STRING value value.length
      = string_at ([] ++ characters.flatten) ([] : List yaml_char_t).length := by
    rw [hflat]
    rfl
  refine ⟨{ closed with is_whitespace := false, is_indention := false }, ?_, ?_⟩
  · simp only [yaml_emitter_write_double_quoted_scalar, hstring, hopen, Option.bind_eq_bind,
      Option.some_bind]
    rw [show (string_at ([] ++ characters.flatten) ([] : List yaml_char_t).length).capacity
      = value.length from by rw [hflat]; rfl, hloop]
    simp only [Option.some_bind, hclose, Option.map_some']
  · exact counters_agree_of_eq closed _ hclosed rfl rfl rfl rfl

/-! ## Theorems: the counters after any sequence of writer operations -/

/-- A writer operation on text ends and keeps the counters in agreement with
the output. -/
theorem run_writer_operation_counters (emitter : yaml_emitter_t)
    (operation : writer_operation)
    (h : counters_agree emitter = true) (htext : is_text_operation operation = true) :
    ∃ result, run_writer_operation emitter operation = some result ∧
      counters_agree result = true := by
  cases operation with
  | put value => exact ⟨_, rfl, PUT_counters emitter value h htext⟩
  | put_break => exact ⟨_, rfl, PUT_BREAK_counters emitter h⟩
  | write string =>
    simp only [is_text_operation, Bool.and_eq_true, Bool.not_eq_true'] at htext
    exact ⟨_, rfl, WRITE_counters emitter string h htext.1 htext.2⟩
  | write_break string => exact ⟨_, rfl, WRITE_BREAK_counters emitter string h htext⟩
  | write_indent => exact ⟨_, rfl, write_indent_counters emitter h⟩
  | write_indicator indicator need_whitespace is_whitespace is_indention =>
    exact write_indicator_counters emitter indicator need_whitespace is_whitespace
      is_indention h htext
  | write_anchor value => exact write_anchor_counters emitter value h htext
  | write_tag_handle value => exact write_tag_handle_counters emitter value h htext
  | write_tag_content value need_whitespace =>
    exact write_tag_content_counters emitter value need_whitespace h htext
  | write_plain_scalar value allow_breaks =>
    exact write_plain_scalar_counters emitter value allow_breaks h htext
  | write_single_quoted_scalar value allow_breaks =>
    exact write_single_quoted_scalar_counters emitter value allow_breaks h htext
  | write_double_quoted_scalar value allow_breaks =>
    exact write_double_quoted_scalar_counters emitter value allow_breaks h htext
  | write_literal_scalar value => exact write_literal_scalar_counters emitter value h htext
  | write_folded_scalar value => exact write_folded_scalar_counters emitter value h htext

/-- A sequence of writer operations on text ends and keeps the counters in
agreement with the output. -/
theorem run_writer_operations_counters (operations : List writer_operation) :
    ∀ emitter : yaml_emitter_t, counters_agree emitter = true →
      (∀ operation ∈ operations, is_text_operation operation = true) →
      ∃ result, run_writer_operations operations emitter = some result ∧
        counters_agree result = true := by
  induction operations with
  | nil =>
    intro emitter h _
    exact ⟨emitter, rfl, h⟩
  | cons operation rest ih =>
    intro emitter h htext
    obtain ⟨next, hnext, hcounters⟩ := run_writer_operation_counters emitter operation h
      (htext operation (List.mem_cons_self _ _))
    obtain ⟨result, hresult, hagree⟩ := ih next hcounters
      (fun o ho => htext o (List.mem_cons_of_mem _ ho))
    refine ⟨result, ?_, hagree⟩
    simp only [run_writer_operations, hnext, Option.bind_eq_bind, Option.some_bind, hresult]

/-- After `yaml_emitter_write_bom` the output ends one character after the
column of the emitter. -/
theorem write_bom_position (emitter : yaml_emitter_t) (h : counters_agree emitter = true) :
    output_position emitter.line_break (yaml_emitter_write_bom emitter).output
      = some (emitter.line, emitter.column + 1) := by
  have hafter : counters_agree
      { emitter with output := emitter.output ++ [0xEF, 0xBB, 0xBF],
                     column := emitter.column + 1 } = true :=
    counters_agree_character emitter _ [0xEF, 0xBB, 0xBF] h (by decide) (by decide)
      rfl rfl rfl rfl
  simp only [counters_agree, Bool.and_eq_true, beq_iff_eq] at hafter
  exact hafter.2

set_option maxRecDepth 100000 in
/-- C28, counterexample: STREAM-START with the encoding UTF-16LE on a fresh
emitter succeeds and calls `yaml_emitter_write_bom`; the output is the one
character U+FEFF (octets EF BB BF) with no line break, so it ends at column 1
of line 0, while the counters `line` and `column` of the emitter are both 0. -/
theorem write_bom_column_behind :
    (yaml_emitter_state_machine emitter_initial
        (stream_start_event YAML_UTF16LE_ENCODING)).map
      (fun result => (result.1, result.2.output, result.2.line, result.2.column))
    = some (true, [0xEF, 0xBB, 0xBF], 0, 0) ∧
    (yaml_emitter_state_machine emitter_initial
        (stream_start_event YAML_UTF16LE_ENCODING)).bind
      (fun result => output_position result.2.line_break result.2.output)
    = some (0, 1) := by
  decide

/-- C28 (amended): with a configured line break (CR, LF or CR LF, as from
STREAM-START on) every sequence of writer operations other than write_bom
(PUT of an ASCII octet that is not a line break, PUT_BREAK, WRITE on a UTF-8
character that is not a line break, WRITE_BREAK on a line break, write_indent,
write_indicator, write_anchor and write_tag_handle on valid UTF-8 without line
breaks, write_tag_content and the five scalar writers on valid UTF-8) ends,
and afterwards the line counter of the emitter is the number of line breaks
in the output (the characters CR, LF, NEL, LS, PS, the LF of a configured
CR LF not counted again) and its column is the number of characters, not
octets, after the last line-break character, provided that held before;
write_bom adds the character U+FEFF and leaves the column as it is, one
behind. -/
theorem writer_operations_counters (emitter : yaml_emitter_t)
    (operations : List writer_operation)
    (h : counters_agree emitter = true)
    (htext : ∀ operation ∈ operations, is_text_operation operation = true) :
    (∃ result, run_writer_operations operations emitter = some result ∧
      result.line_break ≠ YAML_ANY_BREAK ∧
      output_position result.line_break result.output = some (result.line, result.column)) ∧
    output_position emitter.line_break (yaml_emitter_write_bom emitter).output
      = some (emitter.line, emitter.column + 1) ∧
    (yaml_emitter_write_bom emitter).column = emitter.column := by
  obtain ⟨result, hresult, hagree⟩ := run_writer_operations_counters operations emitter h htext
  simp only [counters_agree, Bool.and_eq_true, bne_iff_ne, ne_eq, beq_iff_eq] at hagree
  exact ⟨⟨result, hresult, hagree.1, hagree.2⟩, write_bom_position emitter h, rfl⟩

set_option maxRecDepth 100000 in
/-- Witness of C28 (amended): after STREAM-START with the line break LF, the
indicator `-`, the plain scalar `a`, LF, `é` (with line breaks allowed), the
indentation and the literal scalar `b`, LS are writer operations on text. -/
theorem writer_operations_counters_witness :
    counters_agree { emitter_initial with line_break := YAML_LN_BREAK } = true ∧
    (∀ operation ∈
        [writer_operation.write_indicator [0x2D] true false true,
         writer_operation.write_plain_scalar [0x61, 0x0A, 0xC3, 0xA9] true,
         writer_operation.write_indent,
         writer_operation.write_literal_scalar [0x62, 0xE2, 0x80, 0xA8]],
      is_text_operation operation = true) ∧
    ((∃ result, run_writer_operations
        [writer_operation.write_indicator [0x2D] true false true,
         writer_operation.write_plain_scalar [0x61, 0x0A, 0xC3, 0xA9] true,
         writer_operation.write_indent,
         writer_operation.write_literal_scalar [0x62, 0xE2, 0x80, 0xA8]]
        { emitter_initial with line_break := YAML_LN_BREAK } = some result ∧
      result.line_break ≠ YAML_ANY_BREAK ∧
      output_position result.line_break result.output = some (result.line, result.column)) ∧
    output_position YAML_LN_BREAK
        (yaml_emitter_write_bom { emitter_initial with line_break := YAML_LN_BREAK }).output
      = some (0, 0 + 1) ∧
    (yaml_emitter_write_bom { emitter_initial with line_break := YAML_LN_BREAK }).column = 0) :=
  ⟨by decide, by decide,
    writer_operations_counters { emitter_initial with line_break := YAML_LN_BREAK } _
      (by decide) (by decide)⟩

/-! ## Theorems: the streams of the specification -/

/-- Witness of C23: a fresh emitter is in the STREAM-START state with an empty
queue and no output, the encoding of the stream STREAM-START(UTF-8) is UTF-8,
and the stream STREAM-START(UTF-8), STREAM-END leaves no output and the END
state. -/
theorem emit_stream_start_bom_witness :
    emitter_initial.state = YAML_EMIT_STREAM_START_STATE ∧
    emitter_initial.events = [] ∧
    emitter_initial.output = [] ∧
    stream_encoding emitter_initial (stream_start_event YAML_UTF8_ENCODING)
      = YAML_UTF8_ENCODING ∧
    ∃ result,
      emit_events [stream_start_event YAML_UTF8_ENCODING, event_of_type YAML_STREAM_END_EVENT]
          emitter_initial = some (true, result) ∧
        result.output = [] ∧ result.state = YAML_EMIT_END_STATE :=
  ⟨rfl, rfl, rfl, by decide,
    (emit_stream_start_bom emitter_initial (stream_start_event YAML_UTF8_ENCODING)
      (event_of_type YAML_STREAM_END_EVENT) rfl rfl rfl rfl).2 rfl (by decide)⟩

/-- After the separator of a flow collection, which is not the first item, the
output has gained the comma, and a line break with the indentation exactly when
the column after the comma is beyond the best width (not in canonical mode,
line break LF). -/
theorem emit_flow_separator_output (emitter : yaml_emitter_t)
    (hcanonical : emitter.is_canonical = false)
    (hbreak : emitter.line_break = YAML_LN_BREAK) :
    ∃ result, emit_flow_separator emitter false = some result ∧
      result.output
        = emitter.output ++ [0x2C]
          ++ (if emitter.column + 1 > emitter.best_width then
                0x0A :: List.replicate (max emitter.indent 0).toNat 0x20
              else []) := by
  have hindicator := write_indicator_ascii emitter [0x2C] false false false (by decide)
  simp only [Bool.false_and, Bool.false_eq_true, if_false, Bool.and_false] at hindicator
  by_cases hwide : emitter.column + 1 > emitter.best_width
  · refine ⟨yaml_emitter_write_indent
      { emitter with output := emitter.output ++ [0x2C],
                     column := emitter.column + ([0x2C] : List yaml_char_t).length,
                     is_whitespace := false, is_indention := false }, ?_, ?_⟩
    · simp only [emit_flow_separator, Bool.not_false, if_true, hindicator, Option.map_some',
        hcanonical, Bool.false_or]
      rw [if_pos (by simpa using hwide)]
    · rw [write_indent_eq]
      simp only [Bool.not_false, Bool.true_or, if_true, PUT_BREAK, hbreak, if_pos hwide]
      simp
  · refine ⟨{ emitter with output := emitter.output ++ [0x2C],
                           column := emitter.column + ([0x2C] : List yaml_char_t).length,
                           is_whitespace := false, is_indention := false }, ?_, ?_⟩
    · simp only [emit_flow_separator, Bool.not_false, if_true, hindicator, Option.map_some',
        hcanonical, Bool.false_or]
      rw [if_neg (by simpa using hwide)]
    · simp only [if_neg hwide, List.append_nil]

set_option maxRecDepth 100000 in
/-- C25, counterexample: with `best_width = 8` and `best_indent = 2` the root
FLOW sequence of `alpha`, `beta`, `gamma` is written as `[alpha, beta,`, a line
break, two spaces and `gamma]`: the eighth octet of the output, after
`[alpha,`, is a space and not a line break, the column after that comma being
7. -/
theorem flow_sequence_no_wrap_after_alpha :
    (emit_events flow_sequence_stream
        { emitter_initial with best_width := 8, best_indent := 2 }).map
      (fun result => (result.1, result.2.output.take 8, result.2.output))
    = some (true, [0x5B, 0x61, 0x6C, 0x70, 0x68, 0x61, 0x2C, 0x20],
        [0x5B, 0x61, 0x6C, 0x70, 0x68, 0x61, 0x2C, 0x20, 0x62, 0x65, 0x74, 0x61, 0x2C, 0x0A,
         0x20, 0x20, 0x67, 0x61, 0x6D, 0x6D, 0x61, 0x5D, 0x0A]) := by
  decide

set_option maxRecDepth 100000 in
/-- C25 (amended): with `best_width = 8` and `best_indent = 2`, emitting a root
FLOW sequence of the plain scalars `alpha`, `beta`, `gamma` writes
`[alpha, beta,`, then a line break, then two spaces of indent and `gamma]`
(and the line break that ends the document); in general, outside canonical
mode and with the line break LF, the separator before an item that is not the
first writes the comma and then, exactly when the column after the comma
exceeds `best_width`, a line break and the indentation of the sequence
(`best_indent` for a root sequence). -/
theorem flow_sequence_wraps_beyond_width (emitter : yaml_emitter_t)
    (hcanonical : emitter.is_canonical = false)
    (hbreak : emitter.line_break = YAML_LN_BREAK) :
    (emit_events flow_sequence_stream
        { emitter_initial with best_width := 8, best_indent := 2 }).map
      (fun result => (result.1, result.2.output))
    = some (true,
        [0x5B, 0x61, 0x6C, 0x70, 0x68, 0x61, 0x2C, 0x20, 0x62, 0x65, 0x74, 0x61, 0x2C, 0x0A,
         0x20, 0x20, 0x67, 0x61, 0x6D, 0x6D, 0x61, 0x5D, 0x0A]) ∧
    ∃ result, emit_flow_separator emitter false = some result ∧
      result.output
        = emitter.output ++ [0x2C]
          ++ (if emitter.column + 1 > emitter.best_width then
                0x0A :: List.replicate (max emitter.indent 0).toNat 0x20
              else []) :=
  ⟨by decide, emit_flow_separator_output emitter hcanonical hbreak⟩

/-- Witness of C25 (amended): an emitter with the line break LF, the indent 2
and the width 8 at column 12, as after `[alpha, beta`, is not in canonical
mode; the separator writes the comma, a line break and two spaces. -/
theorem flow_sequence_wraps_beyond_width_witness :
    ({ emitter_initial with line_break := YAML_LN_BREAK, best_width := 8, indent := 2,
                            column := 12 } : yaml_emitter_t).is_canonical = false ∧
    ({ emitter_initial with line_break := YAML_LN_BREAK, best_width := 8, indent := 2,
                            column := 12 } : yaml_emitter_t).line_break = YAML_LN_BREAK ∧
    ∃ result,
      emit_flow_separator
          { emitter_initial with line_break := YAML_LN_BREAK, best_width := 8, indent := 2,
                                 column := 12 } false = some result ∧
        result.output = [0x2C, 0x0A, 0x20, 0x20] :=
  ⟨rfl, rfl,
    (flow_sequence_wraps_beyond_width
      { emitter_initial with line_break := YAML_LN_BREAK, best_width := 8, indent := 2,
                             column := 12 } rfl rfl).2⟩

set_option maxRecDepth 100000 in
/-- C26: emitting a root SCALAR with the value `line1`, LF, `line2`, LF, the
style LITERAL and both implicit flags set, in an implicit document with the
default configuration, succeeds and writes exactly `|`, LF, two spaces,
`line1`, LF, two spaces, `line2`, LF: the header is `|` with no chomping
indicator and every content line is indented by `best_indent`, which is 2. -/
theorem literal_scalar_clip :
    (emit_events literal_scalar_stream emitter_initial).map
      (fun result => (result.1, result.2.output, result.2.best_indent))
    = some (true,
        [0x7C, 0x0A, 0x20, 0x20, 0x6C, 0x69, 0x6E, 0x65, 0x31, 0x0A, 0x20, 0x20, 0x6C, 0x69,
         0x6E, 0x65, 0x32, 0x0A], 2) := by
  decide

set_option maxRecDepth 100000 in
/-- C27, counterexample: with the tag directive `!e!` for
`tag:example.com,2024:` and the root scalar `v` tagged
`tag:example.com,2024:t`, the 31 octets of the `%TAG` line are followed by
`---`, a space and `!e!t` on one line: the octet after `---` is a space, not a
line break. -/
theorem tag_directive_stream_marker_line :
    (emit_events tag_directive_stream emitter_initial).map
      (fun result => (result.1, (result.2.output.drop 31).take 8))
    = some (true, [0x2D, 0x2D, 0x2D, 0x20, 0x21, 0x65, 0x21, 0x74]) := by
  decide

set_option maxRecDepth 100000 in
/-- C27 (amended): when DOCUMENT-START carries the tag directive (handle `!e!`,
prefix `tag:example.com,2024:`) and the root SCALAR (value `v`, plain style,
default configuration) has the non-implicit tag `tag:example.com,2024:t`, the
output is the line `%TAG !e! tag:example.com,2024:` followed by the line
`--- !e!t v`: the shorthand tag `!e!t` follows `---` on the same line, after
one space. -/
theorem tag_directive_stream_output :
    (emit_events tag_directive_stream emitter_initial).map
      (fun result => (result.1, result.2.output))
    = some (true,
        [0x25, 0x54, 0x41, 0x47, 0x20, 0x21, 0x65, 0x21, 0x20] ++ example_uri
          ++ [0x0A, 0x2D, 0x2D, 0x2D, 0x20, 0x21, 0x65, 0x21, 0x74, 0x20, 0x76, 0x0A]) := by
  decide

/-! ## Theorems: the best width -/

/-- The character under the pointer is the space when `IS_SPACE` holds. -/
theorem character_octets_of_IS_SPACE (string : yaml_string_t) (h : IS_SPACE string = true) :
    character_octets string = [0x20] := by
  simp only [IS_SPACE, IS_SPACE_AT, CHECK_AT, beq_iff_eq] at h
  simp [character_octets, WIDTH, h, List.range_succ]

set_option maxRecDepth 100000 in
/-- C29, counterexample: with `best_width = 8` the root plain scalar
`aaaa bbbb cccc dddd`, whose runs of non-space characters are four columns
long, is written as `aaaa bbbb`, a line break, two spaces and `cccc dddd`: the
first line has nine columns although it could have been broken at its first
space. -/
theorem plain_scalar_line_beyond_width :
    (emit_events plain_words_stream { emitter_initial with best_width := 8 }).map
      (fun result => (result.1, result.2.best_width, result.2.output,
        (result.2.output.takeWhile fun octet => octet != 0x0A).length))
    = some (true, 8,
        [0x61, 0x61, 0x61, 0x61, 0x20, 0x62, 0x62, 0x62, 0x62, 0x0A, 0x20, 0x20, 0x63, 0x63,
         0x63, 0x63, 0x20, 0x64, 0x64, 0x64, 0x64, 0x0A], 9) := by
  decide

/-- C29 (amended): the emitter wraps a line only where the column has already
exceeded `best_width`, so `best_width` is not an upper bound of the length of
a line.  At a space of a plain scalar with the column not beyond `best_width`
the loop of `yaml_emitter_write_plain_scalar` writes the space and no line
break, whatever follows; with the column beyond `best_width` (line breaks
allowed, no space before or after) it writes the indentation of a new line
in place of the space; and outside canonical mode, with the column after the
comma not beyond `best_width`, the separator before an item of a flow sequence
writes the comma and no line break. -/
theorem wrap_only_beyond_width (allow_breaks : Bool) (emitter : yaml_emitter_t)
    (string : yaml_string_t) (spaces breaks : Bool)
    (hspace : IS_SPACE string = true) :
    (emitter.column ≤ emitter.best_width →
      (write_plain_step allow_breaks emitter string spaces breaks).1.output
        = emitter.output ++ [0x20] ∧
      (write_plain_step allow_breaks emitter string spaces breaks).1.line = emitter.line ∧
      (write_plain_step allow_breaks emitter string spaces breaks).1.column
        = emitter.column + 1) ∧
    (allow_breaks = true → spaces = false → IS_SPACE_AT string 1 = false →
      emitter.column > emitter.best_width →
      (write_plain_step allow_breaks emitter string spaces breaks).1
        = yaml_emitter_write_indent emitter) ∧
    (emitter.is_canonical = false → emitter.column + 1 ≤ emitter.best_width →
      ∃ result, emit_flow_separator emitter false = some result ∧
        result.output = emitter.output ++ [0x2C] ∧
        result.line = emitter.line ∧ result.column = emitter.column + 1) := by
  refine ⟨?_, ?_, ?_⟩
  · intro hcolumn
    have hnot : ¬ emitter.column > emitter.best_width := by omega
    have hoctets := character_octets_of_IS_SPACE string hspace
    simp only [write_plain_step, if_pos hspace, hnot, decide_False, Bool.and_false,
      Bool.false_and, Bool.false_eq_true, if_false, WRITE, COPY, hoctets]
    exact ⟨trivial, trivial, trivial⟩
  · intro hallow hspaces hnext hcolumn
    simp only [write_plain_step, if_pos hspace, hallow, hspaces, hnext, hcolumn, decide_True,
      Bool.not_false, Bool.and_self, if_true]
  · intro hcanonical hfits
    have hindicator := write_indicator_ascii emitter [0x2C] false false false (by decide)
    simp only [Bool.false_and, Bool.false_eq_true, if_false, Bool.and_false] at hindicator
    have hnot : ¬ emitter.column + 1 > emitter.best_width := by omega
    refine ⟨{ emitter with output := emitter.output ++ [0x2C],
                           column := emitter.column + ([0x2C] : List yaml_char_t).length,
                           is_whitespace := false, is_indention := false }, ?_, rfl, rfl, ?_⟩
    · simp only [emit_flow_separator, Bool.not_false, if_true, hindicator, Option.map_some',
        hcanonical, Bool.false_or]
      rw [if_neg (by simpa using hnot)]
    · simp

/-- Witness of C29 (amended): at the first space of ` bbbb`, at column 4 with
the width 8, the space is written and the line goes on. -/
theorem wrap_only_beyond_width_witness :
    IS_SPACE (STRING [0x20, 0x62, 0x62, 0x62, 0x62] 5) = true ∧
    (write_plain_step true { emitter_initial with best_width := 8, column := 4 }
        (STRING [0x20, 0x62, 0x62, 0x62, 0x62] 5) false false).1.output = [] ++ [0x20] ∧
    (write_plain_step true { emitter_initial with best_width := 8, column := 4 }
        (STRING [0x20, 0x62, 0x62, 0x62, 0x62] 5) false false).1.line = 0 ∧
    (write_plain_step true { emitter_initial with best_width := 8, column := 4 }
        (STRING [0x20, 0x62, 0x62, 0x62, 0x62] 5) false false).1.column = 4 + 1 :=
  ⟨by decide,
    (wrap_only_beyond_width true { emitter_initial with best_width := 8, column := 4 }
      (STRING [0x20, 0x62, 0x62, 0x62, 0x62] 5) false false (by decide)).1 (by decide)⟩

/-! ## Theorems: the start of a document -/

/-- `yaml_emitter_write_tag_handle` on an ASCII handle returns. -/
theorem write_tag_handle_returns (emitter : yaml_emitter_t) (value : List yaml_char_t)
    (h : ∀ octet ∈ value, octet < 0x80) :
    ∃ result, yaml_emitter_write_tag_handle emitter value = some result := by
  obtain ⟨hflat, hlen, hall⟩ := ascii_characters value h
  have hloop := write_string_loop_spec (value.map fun octet => [octet]) []
    (if !emitter.is_whitespace then PUT emitter 0x20 else emitter) value.length hall
    (le_of_eq hlen)
  rw [hflat, hlen] at hloop
  have hstring : ({ buffer := value, pointer := 0, capacity := value.length } : yaml_string_t)
      = string_at ([] ++ value) ([] : List yaml_char_t).length := rfl
  simp only [yaml_emitter_write_tag_handle, STRING]
  rw [hstring, hloop]
  exact ⟨_, rfl⟩

/-- `yaml_emitter_write_tag_content` on valid UTF-8 returns. -/
theorem write_tag_content_returns (emitter : yaml_emitter_t) (value : List yaml_char_t)
    (need_whitespace : Bool) (hvalid : is_valid_utf8 value = true) :
    ∃ result, yaml_emitter_write_tag_content emitter value need_whitespace = some result := by
  obtain ⟨characters, hflat, hall⟩ := is_valid_utf8_characters value hvalid
  obtain ⟨written, hloop, _⟩ := write_tag_content_loop_spec characters [] value.length
    (if need_whitespace && !emitter.is_whitespace then PUT emitter 0x20 else emitter) hall
    (by rw [← hflat]; exact length_le_flatten_length characters hall)
  have hstring : STRING value value.length
      = string_at ([] ++ characters.flatten) ([] : List yaml_char_t).length := by
    rw [hflat]
    rfl
  refine ⟨{ written with is_whitespace := false, is_indention := false }, ?_⟩
  simp only [yaml_emitter_write_tag_content, hstring]
  rw [show (string_at ([] ++ characters.flatten) ([] : List yaml_char_t).length).capacity
    = value.length from by rw [hflat]; rfl, hloop]
  rfl

/-- The loop that writes the `%TAG` lines returns when the handles are ASCII and
the prefixes valid UTF-8. -/
theorem emit_document_start_write_directives_returns
    (tag_directives : List yaml_tag_directive_t) :
    ∀ emitter : yaml_emitter_t,
      (∀ tag_directive ∈ tag_directives,
        (∀ octet ∈ tag_directive.handle, octet < 0x80) ∧
        is_valid_utf8 tag_directive.prefix_ = true) →
      ∃ result, emit_document_start_write_directives tag_directives emitter = some result := by
  induction tag_directives with
  | nil =>
    intro emitter _
    exact ⟨emitter, rfl⟩
  | cons d rest ih =>
    intro emitter h
    obtain ⟨hhandle, huri⟩ := h d (List.mem_cons_self _ _)
    have hindicator := write_indicator_ascii emitter [0x25, 0x54, 0x41, 0x47] true false false
      (by decide)
    obtain ⟨with_handle, hwith_handle⟩ := write_tag_handle_returns
      { (if true && !emitter.is_whitespace then PUT emitter 0x20 else emitter) with
        output := (if true && !emitter.is_whitespace then PUT emitter 0x20
                   else emitter).output ++ [0x25, 0x54, 0x41, 0x47],
        column := (if true && !emitter.is_whitespace then PUT emitter 0x20
                   else emitter).column + ([0x25, 0x54, 0x41, 0x47] : List yaml_char_t).length,
        is_whitespace := false,
        is_indention := (if true && !emitter.is_whitespace then PUT emitter 0x20
                         else emitter).is_indention && false } d.handle hhandle
    obtain ⟨prefixed, hprefixed⟩ := write_tag_content_returns with_handle d.prefix_ true
      huri
    obtain ⟨result, hresult⟩ := ih (yaml_emitter_write_indent prefixed)
      (fun x hx => h x (List.mem_cons_of_mem _ hx))
    refine ⟨result, ?_⟩
    simp only [emit_document_start_write_directives, hindicator, Option.bind_eq_bind,
      Option.some_bind, hwith_handle, hprefixed, hresult]

/-- The loop over the default tag directives succeeds and changes nothing but
the stack of tag directives. -/
theorem emit_document_start_defaults_returns (tag_directives : List yaml_tag_directive_t) :
    ∀ emitter : yaml_emitter_t,
      ∃ result, emit_document_start_defaults tag_directives emitter = some (true, result) ∧
        result = { emitter with tag_directives := result.tag_directives } := by
  induction tag_directives with
  | nil =>
    intro emitter
    exact ⟨emitter, rfl, rfl⟩
  | cons d rest ih =>
    intro emitter
    by_cases hknown : emitter.tag_directives.any (fun known => d.handle == known.handle) = true
    · obtain ⟨result, hresult, hframe⟩ := ih emitter
      refine ⟨result, ?_, hframe⟩
      simp only [emit_document_start_defaults, yaml_emitter_append_tag_directive, hknown,
        if_true, or_return, hresult]
    · obtain ⟨result, hresult, hframe⟩ := ih
        { emitter with tag_directives := emitter.tag_directives ++ [d] }
      refine ⟨result, ?_, ?_⟩
      · simp only [emit_document_start_defaults, yaml_emitter_append_tag_directive, hknown,
          Bool.false_eq_true, if_false, or_return, hresult]
      · rw [hframe]

/-- The part of `yaml_emitter_emit_document_start` that writes the start of
the document returns `1` and leads to the DOCUMENT-CONTENT state when the
handles of the tag directives are ASCII and their prefixes valid UTF-8. -/
theorem emit_document_start_write_returns (emitter : yaml_emitter_t) (event : yaml_event_t)
    (first : Bool)
    (h : ∀ tag_directive ∈ event.data.document_start.tag_directives,
      (∀ octet ∈ tag_directive.handle, octet < 0x80) ∧
      is_valid_utf8 tag_directive.prefix_ = true) :
    ∃ result, emit_document_start_write emitter event first = some (true, result) ∧
      result.state = YAML_EMIT_DOCUMENT_CONTENT_STATE := by
  have hversion : ∃ written,
      (if event.data.document_start.version_directive.isSome then
        (yaml_emitter_write_indicator emitter [0x25, 0x59, 0x41, 0x4D, 0x4C]
          true false false).bind fun emitter =>
        (yaml_emitter_write_indicator emitter [0x31, 0x2E, 0x31] true false false).map
          fun emitter => yaml_emitter_write_indent emitter
      else some emitter) = some written := by
    split_ifs
    · rw [write_indicator_ascii emitter _ true false false (by decide)]
      simp only [Option.bind_eq_bind, Option.some_bind]
      rw [write_indicator_ascii _ _ true false false (by decide)]
      exact ⟨_, rfl⟩
    · exact ⟨_, rfl⟩
  obtain ⟨versioned, hversioned⟩ := hversion
  have hdirectives : ∃ written,
      (if event.data.document_start.tag_directives.length ≠ 0 then
        emit_document_start_write_directives event.data.document_start.tag_directives
          versioned
      else some versioned) = some written := by
    split_ifs
    · exact emit_document_start_write_directives_returns _ versioned h
    · exact ⟨_, rfl⟩
  obtain ⟨directed, hdirected⟩ := hdirectives
  have hmarker : ∀ is_implicit : Bool, ∃ written,
      (if !is_implicit then
        (yaml_emitter_write_indicator (yaml_emitter_write_indent directed) [0x2D, 0x2D, 0x2D]
          true false false).map fun emitter =>
          if emitter.is_canonical then yaml_emitter_write_indent emitter else emitter
      else some directed) = some written := by
    intro is_implicit
    split_ifs
    · rw [write_indicator_ascii _ _ true false false (by decide)]
      exact ⟨_, rfl⟩
    · exact ⟨_, rfl⟩
  simp only [emit_document_start_write, hversioned, Option.bind_eq_bind, Option.some_bind,
    hdirected, yaml_emitter_check_empty_document, Bool.false_eq_true, if_false]
  obtain ⟨marked, hmarked⟩ := hmarker
    (if event.data.document_start.tag_directives.length ≠ 0 then false
     else if event.data.document_start.version_directive.isSome = true then false
     else if (!first || emitter.is_canonical) = true then false
     else event.data.document_start.is_implicit)
  rw [hmarked]
  exact ⟨_, rfl, rfl⟩

set_option maxRecDepth 100000 in
/-- C22, counterexample: a DOCUMENT-START event with the tag directive `!e!`
given twice and the version directive `%YAML 1.2` is rejected with
`incompatible %YAML directive`, and one with two tag directives of the same
handle `e` with `tag handle must start with '!'`, not with
`duplicate %TAG directive`; and the single directive `!!` with an empty
prefix, which redeclares a default handle, is rejected with
`tag prefix must not be empty`. -/
theorem emit_document_start_duplicate_other_problem :
    (emit_events incompatible_duplicate_stream emitter_initial).map
        (fun result => (result.1, result.2.error, result.2.problem))
      = some (false, YAML_EMITTER_ERROR, some "incompatible %YAML directive") ∧
    (emit_events malformed_duplicate_stream emitter_initial).map
        (fun result => (result.1, result.2.error, result.2.problem))
      = some (false, YAML_EMITTER_ERROR, some "tag handle must start with '!'") ∧
    (emit_events empty_prefix_stream emitter_initial).map
        (fun result => (result.1, result.2.error, result.2.problem))
      = some (false, YAML_EMITTER_ERROR, some "tag prefix must not be empty") :=
  ⟨rfl, rfl, rfl⟩

/-- C22 (amended): a DOCUMENT-START event (without a version directive or with `%YAML
1.1`) whose tag directives are each valid and among which two have the same
handle is rejected with the EMITTER error `duplicate %TAG directive`, before
anything is written; whereas a single valid directive that redeclares a
default handle (`!` or `!!`), with a prefix in valid UTF-8, is accepted on an
emitter that holds no tag directive: the call succeeds and leads to the
DOCUMENT-CONTENT state. -/
theorem emit_document_start_duplicate_tag (emitter : yaml_emitter_t) (event : yaml_event_t)
    (first : Bool)
    (htype : event.type = YAML_DOCUMENT_START_EVENT)
    (hversion : ∀ version_directive,
      event.data.document_start.version_directive = some version_directive →
      version_directive.major = 1 ∧ version_directive.minor = 1)
    (hvalid : ∀ tag_directive ∈ event.data.document_start.tag_directives,
      is_valid_tag_directive tag_directive = true) :
    (¬ (event.data.document_start.tag_directives.map
          fun tag_directive => tag_directive.handle).Nodup →
      ∃ result, yaml_emitter_emit_document_start emitter event first = some (false, result) ∧
        result.error = YAML_EMITTER_ERROR ∧
        result.problem = some "duplicate %TAG directive" ∧
        result.output = emitter.output) ∧
    (∀ tag_directive, event.data.document_start.tag_directives = [tag_directive] →
      tag_directive.handle = [0x21] ∨ tag_directive.handle = [0x21, 0x21] →
      is_valid_utf8 tag_directive.prefix_ = true →
      emitter.tag_directives = [] →
      ∃ result, yaml_emitter_emit_document_start emitter event first = some (true, result) ∧
        result.state = YAML_EMIT_DOCUMENT_CONTENT_STATE) := by
  have hstart : yaml_emitter_emit_document_start emitter event first
      = or_return
          (emit_document_start_directives event.data.document_start.tag_directives emitter)
          fun emitter =>
        or_return (emit_document_start_defaults default_tag_directives emitter) fun emitter =>
        emit_document_start_write emitter event first := by
    simp only [yaml_emitter_emit_document_start, htype, if_true]
    cases hv : event.data.document_start.version_directive with
    | none => rfl
    | some version_directive =>
      obtain ⟨hmajor, hminor⟩ := hversion version_directive hv
      simp only [yaml_emitter_analyze_version_directive, hmajor, hminor, ne_eq,
        not_true_eq_false, or_self, if_false]
      rfl
  refine ⟨?_, ?_⟩
  · intro hduplicate
    obtain ⟨result, hresult, herror, hproblem, houtput⟩ :=
      emit_document_start_directives_duplicate event.data.document_start.tag_directives
        emitter hvalid (Or.inr hduplicate)
    refine ⟨result, ?_, herror, hproblem, houtput⟩
    rw [hstart]
    simp only [or_return, hresult]
  · intro tag_directive hsingle hhandle huri hempty
    have hd := analyze_tag_directive_valid emitter tag_directive
      (hvalid tag_directive (by rw [hsingle]; exact List.mem_cons_self _ _))
    have hdirectives : emit_document_start_directives
        event.data.document_start.tag_directives emitter
          = some (true, { emitter with tag_directives := [tag_directive] }) := by
      simp only [hsingle, emit_document_start_directives, hd, or_return,
        yaml_emitter_append_tag_directive, hempty, List.any_nil, Bool.false_eq_true, if_false,
        List.nil_append]
    obtain ⟨defaulted, hdefaulted, _⟩ := emit_document_start_defaults_returns
      default_tag_directives { emitter with tag_directives := [tag_directive] }
    obtain ⟨result, hresult, hstate⟩ := emit_document_start_write_returns defaulted event first
      (by
        intro x hx
        rw [hsingle, List.mem_singleton] at hx
        subst hx
        refine ⟨?_, huri⟩
        rcases hhandle with hh | hh <;> rw [hh] <;> decide)
    refine ⟨result, ?_, hstate⟩
    rw [hstart]
    simp only [or_return, hdirectives, hdefaulted, hresult]

/-- Witness of C22 (amended): the directive `!e!` for `tag:example.com,2024:` given twice
is a duplicate, and the directive `!!` for the same prefix alone is
accepted. -/
theorem emit_document_start_duplicate_tag_witness :
    (∃ result,
      yaml_emitter_emit_document_start emitter_initial
          (document_start_event none [example_tag_directive, example_tag_directive] true) true
        = some (false, result) ∧
      result.error = YAML_EMITTER_ERROR ∧
      result.problem = some "duplicate %TAG directive" ∧
      result.output = emitter_initial.output) ∧
    (∃ result,
      yaml_emitter_emit_document_start emitter_initial
          (document_start_event none
            [{ handle := [0x21, 0x21], prefix_ := example_uri }] true) true
        = some (true, result) ∧
      result.state = YAML_EMIT_DOCUMENT_CONTENT_STATE) :=
  ⟨(emit_document_start_duplicate_tag emitter_initial
      (document_start_event none [example_tag_directive, example_tag_directive] true) true rfl
      (by intro v h; cases h) (by decide)).1 (by decide),
   (emit_document_start_duplicate_tag emitter_initial
      (document_start_event none [{ handle := [0x21, 0x21], prefix_ := example_uri }] true)
      true rfl (by intro v h; cases h) (by decide)).2
      { handle := [0x21, 0x21], prefix_ := example_uri } rfl (Or.inr rfl) (by decide) rfl⟩

/-! ## Theorems: simple plain scalars -/

/-- One pass of the loop of the analyzer reads the emitter through `is_unicode`
only. -/
theorem analyze_scalar_step_unicode (first second : yaml_emitter_t)
    (h : first.is_unicode = second.is_unicode) (string : yaml_string_t)
    (l : analyze_scalar_locals) :
    analyze_scalar_step first string l = analyze_scalar_step second string l := by
  simp only [analyze_scalar_step, analyze_scalar_special, h]

/-- The loop of the analyzer reads the emitter through `is_unicode` only. -/
theorem analyze_scalar_loop_unicode (first second : yaml_emitter_t)
    (h : first.is_unicode = second.is_unicode) (fuel : Nat) :
    ∀ (string : yaml_string_t) (l : analyze_scalar_locals),
      analyze_scalar_loop first fuel string l = analyze_scalar_loop second fuel string l := by
  induction fuel with
  | zero =>
    intro string l
    rfl
  | succ fuel ih =>
    intro string l
    simp only [analyze_scalar_loop, analyze_scalar_step_unicode first second h, ih]

/-- The permissions are stored over the value, the length and the style that
the data holds. -/
theorem analyze_scalar_permissions_eq (l : analyze_scalar_locals)
    (data : yaml_emitter_scalar_data_t) :
    analyze_scalar_permissions l data
      = { analyze_scalar_permissions l {} with
          value := data.value, length := data.length, style := data.style } := by
  unfold analyze_scalar_permissions
  generalize (l.leading_spaces || l.leading_breaks || l.trailing_spaces) = c1
  generalize l.trailing_breaks = c2
  generalize l.inline_breaks_spaces = c3
  generalize (l.mixed_breaks_spaces || l.special_characters) = c4
  generalize l.line_breaks = c5
  generalize l.flow_indicators = c6
  generalize l.block_indicators = c7
  cases c1 <;> cases c2 <;> cases c3 <;> cases c4 <;> cases c5 <;> cases c6 <;> cases c7 <;> rfl

/-- The result of the analyzer on any emitter, from the analysis of the
value. -/
theorem analyze_scalar_eq (emitter : yaml_emitter_t) (value : List yaml_char_t) :
    yaml_emitter_analyze_scalar emitter value
      = (scalar_analysis emitter.is_unicode value).map fun data =>
          (true, { emitter with
            scalar_data := { data with style := emitter.scalar_data.style } }) := by
  simp only [scalar_analysis, yaml_emitter_analyze_scalar, STRING]
  split_ifs with hempty
  · rfl
  · rw [analyze_scalar_loop_unicode (analyze_scalar_store emitter value)
      (analyze_scalar_store { is_unicode := emitter.is_unicode } value) rfl]
    simp only [Option.map_map]
    congr 1
    funext l
    simp only [Function.comp]
    rw [analyze_scalar_permissions_eq l (analyze_scalar_store emitter value).scalar_data,
      analyze_scalar_permissions_eq l
        (analyze_scalar_store { is_unicode := emitter.is_unicode } value).scalar_data]
    rfl

/-- What the analysis of a simple plain scalar holds. -/
theorem is_simple_plain_analysis (is_unicode : Bool) (value : List yaml_char_t)
    (h : is_simple_plain is_unicode value = true) :
    ∃ data, scalar_analysis is_unicode value = some data ∧
      data.value = some value ∧ data.length = value.length ∧
      data.is_multiline = false ∧ data.is_block_plain_allowed = true := by
  simp only [is_simple_plain, Bool.and_eq_true, bne_iff_ne, ne_eq, decide_eq_true_eq,
    beq_iff_eq, Option.map_eq_some'] at h
  obtain ⟨⟨⟨_, hlength⟩, _⟩, data, hdata, hplain⟩ := h
  refine ⟨data, hdata, ?_, ?_, ?_, hplain⟩
  all_goals
    simp only [scalar_analysis, yaml_emitter_analyze_scalar, STRING, hlength, if_false,
      Option.map_map, Option.map_eq_some', Function.comp] at hdata
    obtain ⟨l, _, hl⟩ := hdata
    subst hl
  · rw [analyze_scalar_permissions_eq]
    rfl
  · rw [analyze_scalar_permissions_eq]
    rfl
  · obtain ⟨hmultiline, _, _, hbreaks⟩ := analyze_scalar_permissions_flags l
      (analyze_scalar_store { is_unicode := is_unicode } value).scalar_data
    rw [hmultiline]
    cases hlb : l.line_breaks
    · rfl
    · rw [(hbreaks hlb).2] at hplain
      cases hplain

/-- A simple plain scalar is a string of UTF-8 characters none of which is a
line break. -/
theorem is_simple_plain_characters (is_unicode : Bool) (value : List yaml_char_t)
    (h : is_simple_plain is_unicode value = true) :
    ∃ characters : List (List yaml_char_t), characters.flatten = value ∧
      (∀ octets ∈ characters, is_utf8_character octets = true) ∧
      (∀ octets ∈ characters, is_break_character octets = false) ∧
      characters.length ≤ value.length := by
  obtain ⟨data, hdata, _, _, _, hplain⟩ := is_simple_plain_analysis is_unicode value h
  have hvalid : is_valid_utf8 value = true := by
    simp only [is_simple_plain, Bool.and_eq_true] at h
    exact h.1.1.1
  obtain ⟨characters, hflat, hall⟩ := is_valid_utf8_characters value hvalid
  simp only [scalar_analysis, Option.map_eq_some'] at hdata
  obtain ⟨analysis, hanalysis, hscalar⟩ := hdata
  have hbreak := analyze_scalar_plain_no_break _ value analysis hanalysis
    (by rw [hscalar]; exact hplain)
  refine ⟨characters, hflat, hall, ?_, ?_⟩
  · exact no_line_break_characters characters hall (by rw [hflat]; exact hbreak)
  · rw [← hflat]
    exact length_le_flatten_length characters hall

/-! ## Theorems: a plain scalar within the width -/

/-- On a UTF-8 character that is not a line break, with the column within the
width and no line break pending, one iteration of the loop of
`yaml_emitter_write_plain_scalar` changes the output, the column and the
indentation flag only. -/
theorem write_plain_step_eq (allow_breaks : Bool) (emitter : yaml_emitter_t)
    (before octets after : List yaml_char_t) (spaces : Bool)
    (hchar : is_utf8_character octets = true) (hbreak : is_break_character octets = false)
    (hcolumn : emitter.column ≤ emitter.best_width) :
    ∃ (indention after_space : Bool),
      write_plain_step allow_breaks emitter
        (string_at (before ++ (octets ++ after)) before.length) spaces false
        = ({ emitter with output := emitter.output ++ octets, column := emitter.column + 1,
                          is_indention := indention },
            string_at ((before ++ octets) ++ after) (before ++ octets).length,
            after_space, false) := by
  have hw := WRITE_utf8_character before octets after emitter hchar
  have hb := IS_BREAK_utf8_character before octets after hchar
  rw [hbreak] at hb
  have hwide : decide (emitter.column > emitter.best_width) = false := by
    rw [decide_eq_false_iff_not]
    omega
  simp only [write_plain_step, hwide, hb, Bool.and_false, Bool.false_and, Bool.false_eq_true,
    if_false, hw.1, hw.2]
  cases IS_SPACE (string_at (before ++ (octets ++ after)) before.length)
  · exact ⟨false, false, rfl⟩
  · exact ⟨emitter.is_indention, true, rfl⟩

/-- Over UTF-8 characters none of which is a line break, with the column within
the width to the end, the loop of `yaml_emitter_write_plain_scalar` ends and
changes the output, the column and the indentation flag only. -/
theorem write_plain_loop_eq (allow_breaks : Bool) (characters : List (List yaml_char_t)) :
    ∀ (before : List yaml_char_t) (emitter : yaml_emitter_t) (spaces : Bool) (fuel : Nat),
      (∀ octets ∈ characters, is_utf8_character octets = true) →
      (∀ octets ∈ characters, is_break_character octets = false) →
      characters.length ≤ fuel →
      emitter.column + characters.length ≤ emitter.best_width →
      ∃ indention : Bool,
        write_plain_loop allow_breaks fuel emitter
          (string_at (before ++ characters.flatten) before.length) spaces false
          = some { emitter with output := emitter.output ++ characters.flatten,
                                column := emitter.column + characters.length,
                                is_indention := indention } := by
  induction characters with
  | nil =>
    intro before emitter spaces fuel _ _ _ _
    refine ⟨emitter.is_indention, ?_⟩
    have hend := string_at_end before
    simp only [List.flatten_nil]
    cases fuel <;> simp only [write_plain_loop, if_neg hend] <;> simp
  | cons c cs ih =>
    intro before emitter spaces fuel hall hbreak hfuel hcolumn
    have hc := hall c (List.mem_cons_self _ _)
    have hcs : ∀ octets ∈ cs, is_utf8_character octets = true :=
      fun o ho => hall o (List.mem_cons_of_mem _ ho)
    have hbc := hbreak c (List.mem_cons_self _ _)
    have hbcs : ∀ octets ∈ cs, is_break_character octets = false :=
      fun o ho => hbreak o (List.mem_cons_of_mem _ ho)
    simp only [List.length_cons] at hfuel hcolumn
    cases fuel with
    | zero => omega
    | succ fuel =>
      have hlt := string_at_lt before c cs.flatten hc
      obtain ⟨indention, after_space, hstep⟩ :=
        write_plain_step_eq allow_breaks emitter before c cs.flatten spaces hc hbc
          (by push_cast at hcolumn; omega)
      simp only [List.flatten_cons, write_plain_loop, if_pos hlt, hstep]
      obtain ⟨last, hlast⟩ := ih (before ++ c)
        { emitter with output := emitter.output ++ c, column := emitter.column + 1,
                       is_indention := indention } after_space fuel hcs hbcs
        (by omega) (by push_cast at hcolumn ⊢; omega)
      refine ⟨last, ?_⟩
      rw [hlast]
      simp only [List.append_assoc, List.length_cons, Nat.cast_add, Nat.cast_one]
      congr 2
      omega

/-- A value of UTF-8 characters none of which is a line break, within the width,
is written by `yaml_emitter_write_plain_scalar` as it is, after a space unless
the emitter is at whitespace. -/
theorem write_plain_scalar_eq (emitter : yaml_emitter_t) (characters : List (List yaml_char_t))
    (allow_breaks : Bool)
    (hall : ∀ octets ∈ characters, is_utf8_character octets = true)
    (hbreak : ∀ octets ∈ characters, is_break_character octets = false)
    (hwidth : emitter.column + 1 + characters.length ≤ emitter.best_width) :
    yaml_emitter_write_plain_scalar emitter characters.flatten allow_breaks
      = some { emitter with
          output := emitter.output ++ (if emitter.is_whitespace then [] else [0x20])
            ++ characters.flatten,
          column := emitter.column + (if emitter.is_whitespace then 0 else 1)
            + characters.length,
          is_whitespace := false, is_indention := false } := by
  have hlen := length_le_flatten_length characters hall
  have hstr : STRING characters.flatten characters.flatten.length
      = string_at ([] ++ characters.flatten) ([] : List yaml_char_t).length := rfl
  have hcapacity : (string_at ([] ++ characters.flatten) ([] : List yaml_char_t).length).capacity
      = characters.flatten.length := rfl
  cases hws : emitter.is_whitespace
  · obtain ⟨indention, hloop⟩ := write_plain_loop_eq allow_breaks characters []
      (PUT emitter 0x20) false characters.flatten.length hall hbreak hlen
      (by simp only [PUT]; omega)
    simp only [yaml_emitter_write_plain_scalar, hws, Bool.not_false, if_true, hstr]
    rw [hcapacity, hloop]
    simp only [PUT, Option.map_some', Bool.false_eq_true, if_false, List.append_assoc]
  · obtain ⟨indention, hloop⟩ := write_plain_loop_eq allow_breaks characters []
      emitter false characters.flatten.length hall hbreak hlen (by omega)
    simp only [yaml_emitter_write_plain_scalar, hws, Bool.not_true, Bool.false_eq_true,
      if_false, hstr]
    rw [hcapacity, hloop]
    simp only [Option.map_some', if_true, List.append_nil, add_zero]

/-! ## Theorems: a plain scalar as a node -/

/-- The style PLAIN is selected for an untagged plain-implicit scalar in block
context that is not empty, not multiline and allowed in the block-plain
style. -/
theorem select_scalar_style_plain_eq (emitter : yaml_emitter_t) (value : List yaml_char_t)
    (hhandle : emitter.tag_data.handle = none) (hsuffix : emitter.tag_data.suffix = none)
    (hlength : emitter.scalar_data.length ≠ 0)
    (hmultiline : emitter.scalar_data.is_multiline = false)
    (hplain : emitter.scalar_data.is_block_plain_allowed = true)
    (hcanonical : emitter.is_canonical = false)
    (hflow : emitter.flow_level = 0) :
    yaml_emitter_select_scalar_style emitter (scalar_event value YAML_PLAIN_SCALAR_STYLE)
      = (true, { emitter with
          scalar_data := { emitter.scalar_data with style := YAML_PLAIN_SCALAR_STYLE } }) := by
  have hlen : (emitter.scalar_data.length != 0) = true := by
    rw [bne_iff_ne]
    exact hlength
  simp [yaml_emitter_select_scalar_style, select_scalar_style_overrides,
    select_scalar_style_plain, select_scalar_style_single_quoted, select_scalar_style_block,
    scalar_event, hhandle, hsuffix, hcanonical, hmultiline, hflow, hplain, hlen]

/-- The deeper indent of a node in a flow or scalar context. -/
theorem increase_indent_flow_eq (emitter : yaml_emitter_t) :
    yaml_emitter_increase_indent emitter true false
      = { emitter with
          indents := emitter.indent :: emitter.indents,
          indent := if emitter.indent < 0 then emitter.best_indent
                    else emitter.indent + emitter.best_indent } := by
  simp only [yaml_emitter_increase_indent, PUSH, Bool.not_false, if_true]
  split_ifs <;> rfl

/-- An untagged plain-implicit scalar without an anchor, in block context, not
empty, not multiline, allowed in the block-plain style and within the width:
`yaml_emitter_emit_scalar` writes the value as it is, after a space unless the
emitter is at whitespace, and pops the next state. -/
theorem emit_scalar_plain (emitter : yaml_emitter_t)
    (characters : List (List yaml_char_t))
    (state : yaml_emitter_state_t) (rest : List yaml_emitter_state_t)
    (hall : ∀ octets ∈ characters, is_utf8_character octets = true)
    (hbreak : ∀ octets ∈ characters, is_break_character octets = false)
    (hanchor : emitter.anchor_data.anchor = none)
    (hhandle : emitter.tag_data.handle = none) (hsuffix : emitter.tag_data.suffix = none)
    (hvalue : emitter.scalar_data.value = some characters.flatten)
    (hlength : emitter.scalar_data.length ≠ 0)
    (hmultiline : emitter.scalar_data.is_multiline = false)
    (hplain : emitter.scalar_data.is_block_plain_allowed = true)
    (hcanonical : emitter.is_canonical = false)
    (hflow : emitter.flow_level = 0)
    (hstates : emitter.states = state :: rest)
    (hwidth : emitter.column + 1 + characters.length ≤ emitter.best_width) :
    yaml_emitter_emit_scalar emitter (scalar_event characters.flatten YAML_PLAIN_SCALAR_STYLE)
      = some (true, { emitter with
          scalar_data := { emitter.scalar_data with style := YAML_PLAIN_SCALAR_STYLE },
          output := emitter.output ++ (if emitter.is_whitespace then [] else [0x20])
            ++ characters.flatten,
          column := emitter.column + (if emitter.is_whitespace then 0 else 1)
            + characters.length,
          is_whitespace := false, is_indention := false,
          state := state, states := rest }) := by
  have hselect := select_scalar_style_plain_eq emitter characters.flatten hhandle hsuffix
    hlength hmultiline hplain hcanonical hflow
  have hwrite : ∀ (writer : yaml_emitter_t) (allow_breaks : Bool),
      writer.column = emitter.column → writer.best_width = emitter.best_width →
      yaml_emitter_write_plain_scalar writer characters.flatten allow_breaks
        = some { writer with
            output := writer.output ++ (if writer.is_whitespace then [] else [0x20])
              ++ characters.flatten,
            column := writer.column + (if writer.is_whitespace then 0 else 1)
              + characters.length,
            is_whitespace := false, is_indention := false } :=
    fun writer allow_breaks hcolumn hbest =>
      write_plain_scalar_eq writer characters allow_breaks hall hbreak
        (by rw [hcolumn, hbest]; exact hwidth)
  simp only [yaml_emitter_emit_scalar, hselect, or_return, yaml_emitter_process_anchor,
    hanchor, yaml_emitter_process_tag, hhandle, hsuffix, yaml_emitter_process_scalar,
    increase_indent_flow_eq, hvalue, Option.getD_some, hwrite, Option.map_some', pop_indent,
    POP, Option.bind_eq_bind, Option.some_bind, pop_state, hstates]

/-- A node that is such a scalar: `yaml_emitter_emit_node` sets the context and
writes the value. -/
theorem emit_node_plain_scalar (emitter : yaml_emitter_t)
    (characters : List (List yaml_char_t))
    (is_root is_sequence is_mapping is_simple_key : Bool)
    (state : yaml_emitter_state_t) (rest : List yaml_emitter_state_t)
    (hall : ∀ octets ∈ characters, is_utf8_character octets = true)
    (hbreak : ∀ octets ∈ characters, is_break_character octets = false)
    (hanchor : emitter.anchor_data.anchor = none)
    (hhandle : emitter.tag_data.handle = none) (hsuffix : emitter.tag_data.suffix = none)
    (hvalue : emitter.scalar_data.value = some characters.flatten)
    (hlength : emitter.scalar_data.length ≠ 0)
    (hmultiline : emitter.scalar_data.is_multiline = false)
    (hplain : emitter.scalar_data.is_block_plain_allowed = true)
    (hcanonical : emitter.is_canonical = false)
    (hflow : emitter.flow_level = 0)
    (hstates : emitter.states = state :: rest)
    (hwidth : emitter.column + 1 + characters.length ≤ emitter.best_width) :
    yaml_emitter_emit_node emitter (scalar_event characters.flatten YAML_PLAIN_SCALAR_STYLE)
        is_root is_sequence is_mapping is_simple_key
      = some (true, { emitter with
          is_root_context := is_root, is_sequence_context := is_sequence,
          is_mapping_context := is_mapping, is_simple_key_context := is_simple_key,
          scalar_data := { emitter.scalar_data with style := YAML_PLAIN_SCALAR_STYLE },
          output := emitter.output ++ (if emitter.is_whitespace then [] else [0x20])
            ++ characters.flatten,
          column := emitter.column + (if emitter.is_whitespace then 0 else 1)
            + characters.length,
          is_whitespace := false, is_indention := false,
          state := state, states := rest }) := by
  have htype : (scalar_event characters.flatten YAML_PLAIN_SCALAR_STYLE).type
      = YAML_SCALAR_EVENT := rfl
  have hscalar := emit_scalar_plain
    { emitter with is_root_context := is_root, is_sequence_context := is_sequence,
                   is_mapping_context := is_mapping, is_simple_key_context := is_simple_key }
    characters state rest hall hbreak hanchor hhandle hsuffix hvalue hlength hmultiline hplain
    hcanonical hflow hstates hwidth
  unfold yaml_emitter_emit_node
  simp only [htype]
  exact hscalar

/-! ## Theorems: a pair of a block mapping -/

/-- `yaml_emitter_write_indent` changes the output, the line, the column and
the two flags only. -/
theorem write_indent_frame (emitter : yaml_emitter_t) :
    yaml_emitter_write_indent emitter
      = { emitter with
          output := (yaml_emitter_write_indent emitter).output,
          line := (yaml_emitter_write_indent emitter).line,
          column := (yaml_emitter_write_indent emitter).column,
          is_whitespace := true, is_indention := true } := by
  rw [write_indent_eq]
  simp only [PUT_BREAK]
  split_ifs <;> rfl

/-- After `yaml_emitter_write_indent` the column is the indent. -/
theorem write_indent_column (emitter : yaml_emitter_t) :
    (yaml_emitter_write_indent emitter).column = max emitter.indent 0 := by
  rw [write_indent_eq]
  by_cases h : (!emitter.is_indention || decide (emitter.column > max emitter.indent 0)
      || (emitter.column == max emitter.indent 0 && !emitter.is_whitespace)) = true
  · rw [if_pos h]
    show max (0 : Int) (max emitter.indent 0) = max emitter.indent 0
    omega
  · rw [if_neg h]
    show max emitter.column (max emitter.indent 0) = max emitter.indent 0
    simp only [Bool.or_eq_true, Bool.not_eq_true', decide_eq_true_eq, Bool.and_eq_true,
      beq_iff_eq, not_or, not_and] at h
    have := h.1.2
    omega

/-- The output of `yaml_emitter_write_indent` for an emitter that is not at
the start of a line, with the line break LF: a line break and the spaces of the
indent. -/
theorem write_indent_output (emitter : yaml_emitter_t)
    (hindention : emitter.is_indention = false)
    (hbreak : emitter.line_break = YAML_LN_BREAK) :
    (yaml_emitter_write_indent emitter).output
      = emitter.output ++ 0x0A :: List.replicate (max emitter.indent 0).toNat 0x20 := by
  rw [write_indent_eq]
  simp [PUT_BREAK, hindention, hbreak]

/-- A key of a block mapping that is a simple plain scalar, analysed and at the
head of the queue: the indentation and the value are written, and the next
event is the value of a simple key. -/
theorem emit_block_mapping_key_plain (emitter : yaml_emitter_t)
    (characters : List (List yaml_char_t)) (tail : List yaml_event_t)
    (hall : ∀ octets ∈ characters, is_utf8_character octets = true)
    (hbreak : ∀ octets ∈ characters, is_break_character octets = false)
    (hanchor : emitter.anchor_data = { emitter.anchor_data with anchor := none,
                                                                anchor_length := 0 })
    (htag : emitter.tag_data = {})
    (hvalue : emitter.scalar_data.value = some characters.flatten)
    (hlength : emitter.scalar_data.length = characters.flatten.length)
    (hnonempty : characters.flatten.length ≠ 0)
    (hshort : characters.flatten.length ≤ 128)
    (hmultiline : emitter.scalar_data.is_multiline = false)
    (hplain : emitter.scalar_data.is_block_plain_allowed = true)
    (hcanonical : emitter.is_canonical = false)
    (hflow : emitter.flow_level = 0)
    (hevents : emitter.events
      = scalar_event characters.flatten YAML_PLAIN_SCALAR_STYLE :: tail)
    (hwidth : (yaml_emitter_write_indent emitter).column + 1 + characters.length
      ≤ emitter.best_width) :
    yaml_emitter_emit_block_mapping_key emitter
        (scalar_event characters.flatten YAML_PLAIN_SCALAR_STYLE) false
      = some (true, { yaml_emitter_write_indent emitter with
          is_root_context := false, is_sequence_context := false,
          is_mapping_context := true, is_simple_key_context := true,
          scalar_data := { emitter.scalar_data with style := YAML_PLAIN_SCALAR_STYLE },
          output := (yaml_emitter_write_indent emitter).output ++ characters.flatten,
          column := (yaml_emitter_write_indent emitter).column + characters.length,
          is_whitespace := false, is_indention := false,
          state := YAML_EMIT_BLOCK_MAPPING_SIMPLE_VALUE_STATE,
          states := emitter.states }) := by
  have hframe := write_indent_frame emitter
  have hanchor_none : emitter.anchor_data.anchor = none := by rw [hanchor]
  have hanchor_length : emitter.anchor_data.anchor_length = 0 := by rw [hanchor]
  have hhandle : emitter.tag_data.handle = none := by rw [htag]
  have hsuffix : emitter.tag_data.suffix = none := by rw [htag]
  have hhandle_length : emitter.tag_data.handle_length = 0 := by rw [htag]
  have hsuffix_length : emitter.tag_data.suffix_length = 0 := by rw [htag]
  have hnot : ¬ (scalar_event characters.flatten YAML_PLAIN_SCALAR_STYLE).type
      = YAML_MAPPING_END_EVENT := by
    simp [scalar_event]
  have hcheck : yaml_emitter_check_simple_key (yaml_emitter_write_indent emitter) = true := by
    rw [hframe]
    have hle : ¬ characters.flatten.length > 128 := by omega
    simp only [yaml_emitter_check_simple_key, hevents, scalar_event, hmultiline,
      Bool.false_eq_true, if_false, hanchor_length, hhandle_length, hsuffix_length, hlength,
      Nat.zero_add, hle]
  have hnode := emit_node_plain_scalar
    { yaml_emitter_write_indent emitter with
      states := PUSH (yaml_emitter_write_indent emitter).states
        YAML_EMIT_BLOCK_MAPPING_SIMPLE_VALUE_STATE }
    characters false false true true YAML_EMIT_BLOCK_MAPPING_SIMPLE_VALUE_STATE emitter.states
    hall hbreak
    (by rw [hframe]; exact hanchor_none) (by rw [hframe]; exact hhandle)
    (by rw [hframe]; exact hsuffix) (by rw [hframe]; exact hvalue)
    (by rw [hframe]; rw [hlength]; exact hnonempty) (by rw [hframe]; exact hmultiline)
    (by rw [hframe]; exact hplain) (by rw [hframe]; exact hcanonical)
    (by rw [hframe]; exact hflow) (by rw [hframe]; rfl)
    (by
      have hbest : (yaml_emitter_write_indent emitter).best_width = emitter.best_width := by
        rw [hframe]
      show (yaml_emitter_write_indent emitter).column + 1 + characters.length
        ≤ (yaml_emitter_write_indent emitter).best_width
      rw [hbest]
      exact hwidth)
  simp only [yaml_emitter_emit_block_mapping_key, Bool.false_eq_true, if_false, hnot, hcheck,
    if_true]
  rw [hnode]
  have hwhitespace : (yaml_emitter_write_indent emitter).is_whitespace = true := by
    rw [hframe]
  have hscalar : (yaml_emitter_write_indent emitter).scalar_data = emitter.scalar_data := by
    rw [hframe]
  simp only [hwhitespace, if_true, List.append_nil, add_zero, hscalar]

/-- The value of a simple key of a block mapping that is a simple plain scalar,
analysed: the indicator `:`, a space and the value are written, and the next
event is a key. -/
theorem emit_block_mapping_value_plain (emitter : yaml_emitter_t)
    (characters : List (List yaml_char_t))
    (hall : ∀ octets ∈ characters, is_utf8_character octets = true)
    (hbreak : ∀ octets ∈ characters, is_break_character octets = false)
    (hanchor : emitter.anchor_data.anchor = none)
    (hhandle : emitter.tag_data.handle = none) (hsuffix : emitter.tag_data.suffix = none)
    (hvalue : emitter.scalar_data.value = some characters.flatten)
    (hlength : emitter.scalar_data.length ≠ 0)
    (hmultiline : emitter.scalar_data.is_multiline = false)
    (hplain : emitter.scalar_data.is_block_plain_allowed = true)
    (hcanonical : emitter.is_canonical = false)
    (hflow : emitter.flow_level = 0)
    (hwidth : emitter.column + 1 + 1 + characters.length ≤ emitter.best_width) :
    yaml_emitter_emit_block_mapping_value emitter
        (scalar_event characters.flatten YAML_PLAIN_SCALAR_STYLE) true
      = some (true, { emitter with
          is_root_context := false, is_sequence_context := false,
          is_mapping_context := true, is_simple_key_context := false,
          scalar_data := { emitter.scalar_data with style := YAML_PLAIN_SCALAR_STYLE },
          output := emitter.output ++ [0x3A] ++ [0x20] ++ characters.flatten,
          column := emitter.column + 1 + 1 + characters.length,
          is_whitespace := false, is_indention := false,
          state := YAML_EMIT_BLOCK_MAPPING_KEY_STATE,
          states := emitter.states }) := by
  have hindicator := write_indicator_ascii emitter [0x3A] false false false (by decide)
  simp only [Bool.false_and, Bool.false_eq_true, if_false, Bool.and_false] at hindicator
  have hnode := emit_node_plain_scalar
    { emitter with
      output := emitter.output ++ [0x3A],
      column := emitter.column + ([0x3A] : List yaml_char_t).length,
      is_whitespace := false, is_indention := false,
      states := PUSH emitter.states YAML_EMIT_BLOCK_MAPPING_KEY_STATE }
    characters false false true false YAML_EMIT_BLOCK_MAPPING_KEY_STATE emitter.states
    hall hbreak hanchor hhandle hsuffix hvalue hlength hmultiline hplain hcanonical hflow rfl
    (by
      show emitter.column + (([0x3A] : List yaml_char_t).length : Int) + 1 + characters.length
        ≤ emitter.best_width
      simp only [List.length_singleton, Nat.cast_one]
      exact hwidth)
  simp only [yaml_emitter_emit_block_mapping_value, if_true, hindicator, Option.bind_eq_bind,
    Option.some_bind]
  rw [hnode]
  simp only [Bool.false_eq_true, if_false, List.length_singleton, Nat.cast_one,
    List.append_assoc]

/-! ## Theorems: emitting a pair of a block mapping -/

/-- The analysis of an untagged plain-implicit scalar event without an anchor
clears the anchor and the tag and stores the analysis of the value. -/
theorem analyze_event_plain_scalar (emitter : yaml_emitter_t) (value : List yaml_char_t)
    (data : yaml_emitter_scalar_data_t)
    (hdata : scalar_analysis emitter.is_unicode value = some data) :
    yaml_emitter_analyze_event emitter (scalar_event value YAML_PLAIN_SCALAR_STYLE)
      = some (true, { analyze_event_reset emitter with
          scalar_data := { data with style := emitter.scalar_data.style } }) := by
  have hanalysis := analyze_scalar_eq (analyze_event_reset emitter) value
  have hunicode : (analyze_event_reset emitter).is_unicode = emitter.is_unicode := rfl
  rw [hunicode, hdata] at hanalysis
  simp only [yaml_emitter_analyze_event, scalar_event, analyze_event_anchor, analyze_event_tag,
    or_return, hanalysis, Option.map_some']
  rfl

/-- The output of `yaml_emitter_write_indent` depends on the output, the
column, the indent, the two flags and the line break only. -/
theorem write_indent_output_congr (first second : yaml_emitter_t)
    (houtput : first.output = second.output) (hcolumn : first.column = second.column)
    (hindent : first.indent = second.indent)
    (hindention : first.is_indention = second.is_indention)
    (hwhitespace : first.is_whitespace = second.is_whitespace)
    (hbreak : first.line_break = second.line_break) :
    (yaml_emitter_write_indent first).output = (yaml_emitter_write_indent second).output := by
  rw [write_indent_eq first, write_indent_eq second]
  simp only [hcolumn, hindent, hindention, hwhitespace]
  split_ifs
  · simp only [PUT_BREAK, houtput, hbreak]
  · simp only [houtput, hcolumn]

/-- In the state BLOCK-MAPPING-KEY the state machine calls
`yaml_emitter_emit_block_mapping_key`. -/
theorem state_machine_block_mapping_key (emitter : yaml_emitter_t) (event : yaml_event_t)
    (h : emitter.state = YAML_EMIT_BLOCK_MAPPING_KEY_STATE) :
    yaml_emitter_state_machine emitter event
      = yaml_emitter_emit_block_mapping_key emitter event false := by
  unfold yaml_emitter_state_machine
  rw [h]

/-- In the state BLOCK-MAPPING-SIMPLE-VALUE the state machine calls
`yaml_emitter_emit_block_mapping_value` for a simple key. -/
theorem state_machine_block_mapping_simple_value (emitter : yaml_emitter_t)
    (event : yaml_event_t)
    (h : emitter.state = YAML_EMIT_BLOCK_MAPPING_SIMPLE_VALUE_STATE) :
    yaml_emitter_state_machine emitter event
      = yaml_emitter_emit_block_mapping_value emitter event true := by
  unfold yaml_emitter_state_machine
  rw [h]

/-- With nothing left in the queue the loop of `yaml_emitter_emit` ends. -/
theorem emit_loop_done (emitter : yaml_emitter_t) (h : emitter.events = []) :
    yaml_emitter_emit_loop 0 emitter = some (true, emitter) := by
  simp only [yaml_emitter_emit_loop, yaml_emitter_need_more_events, h, if_true]

/-- Emitting a simple plain scalar as a key of a block mapping: the
indentation and the key are written, and the emitter waits for the value of a
simple key. -/
theorem emit_block_mapping_key_event (emitter : yaml_emitter_t)
    (characters : List (List yaml_char_t))
    (hstate : emitter.state = YAML_EMIT_BLOCK_MAPPING_KEY_STATE)
    (hevents : emitter.events = [])
    (hcanonical : emitter.is_canonical = false)
    (hflow : emitter.flow_level = 0)
    (hall : ∀ octets ∈ characters, is_utf8_character octets = true)
    (hbreak : ∀ octets ∈ characters, is_break_character octets = false)
    (hsimple : is_simple_plain emitter.is_unicode characters.flatten = true)
    (hwidth : max emitter.indent 0 + 1 + characters.length ≤ emitter.best_width) :
    ∃ result, yaml_emitter_emit emitter
        (scalar_event characters.flatten YAML_PLAIN_SCALAR_STYLE) = some (true, result) ∧
      result.state = YAML_EMIT_BLOCK_MAPPING_SIMPLE_VALUE_STATE ∧
      result.events = [] ∧
      result.output = (yaml_emitter_write_indent emitter).output ++ characters.flatten ∧
      result.column = max emitter.indent 0 + characters.length ∧
      result.is_canonical = false ∧ result.flow_level = 0 ∧
      result.is_unicode = emitter.is_unicode ∧ result.best_width = emitter.best_width ∧
      result.states = emitter.states ∧ result.indent = emitter.indent ∧
      result.line_break = emitter.line_break := by
  obtain ⟨data, hdata, hvalue, hlength, hmultiline, hplain⟩ :=
    is_simple_plain_analysis emitter.is_unicode characters.flatten hsimple
  have hbounds : characters.flatten.length ≠ 0 ∧ characters.flatten.length ≤ 128 := by
    simp only [is_simple_plain, Bool.and_eq_true, bne_iff_ne, ne_eq, decide_eq_true_eq] at hsimple
    exact ⟨hsimple.1.1.2, hsimple.1.2⟩
  have hanalyze := analyze_event_plain_scalar
    { emitter with events := [scalar_event characters.flatten YAML_PLAIN_SCALAR_STYLE] }
    characters.flatten data hdata
  have hframe := write_indent_frame
    { analyze_event_reset
        { emitter with
          events := [scalar_event characters.flatten YAML_PLAIN_SCALAR_STYLE] } with
      scalar_data := { data with style := emitter.scalar_data.style } }
  have hcolumn := write_indent_column
    { analyze_event_reset
        { emitter with
          events := [scalar_event characters.flatten YAML_PLAIN_SCALAR_STYLE] } with
      scalar_data := { data with style := emitter.scalar_data.style } }
  have houtput : (yaml_emitter_write_indent
      { analyze_event_reset
          { emitter with
            events := [scalar_event characters.flatten YAML_PLAIN_SCALAR_STYLE] } with
        scalar_data := { data with style := emitter.scalar_data.style } }).output
      = (yaml_emitter_write_indent emitter).output := by
    exact write_indent_output_congr _ _ rfl rfl rfl rfl rfl rfl
  have hkey := emit_block_mapping_key_plain
    { analyze_event_reset
        { emitter with
          events := [scalar_event characters.flatten YAML_PLAIN_SCALAR_STYLE] } with
      scalar_data := { data with style := emitter.scalar_data.style } }
    characters [] hall hbreak rfl rfl hvalue hlength hbounds.1 hbounds.2 hmultiline hplain
    hcanonical hflow rfl
    (by
      rw [hcolumn]
      exact hwidth)
  have hmachine := state_machine_block_mapping_key
    { analyze_event_reset
        { emitter with
          events := [scalar_event characters.flatten YAML_PLAIN_SCALAR_STYLE] } with
      scalar_data := { data with style := emitter.scalar_data.style } }
    (scalar_event characters.flatten YAML_PLAIN_SCALAR_STYLE) hstate
  rw [emit_on_empty_queue emitter
    (scalar_event characters.flatten YAML_PLAIN_SCALAR_STYLE) hevents rfl, hanalyze]
  simp only [or_return]
  rw [hmachine, hkey]
  simp only []
  generalize hw : yaml_emitter_write_indent
      { analyze_event_reset
          { emitter with
            events := [scalar_event characters.flatten YAML_PLAIN_SCALAR_STYLE] } with
        scalar_data := { data with style := emitter.scalar_data.style } } = written
    at hframe hcolumn houtput ⊢
  have hwritten_events : written.events
      = [scalar_event characters.flatten YAML_PLAIN_SCALAR_STYLE] := by rw [hframe]; rfl
  refine ⟨_, emit_loop_done _ (by simp only [hwritten_events, List.tail_cons]), rfl, ?_, ?_, ?_,
    ?_, ?_, ?_, ?_, rfl, ?_, ?_⟩
  · simp only [hwritten_events, List.tail_cons]
  · show written.output ++ characters.flatten = _
    rw [houtput]
  · show written.column + (characters.length : Int) = _
    rw [hcolumn]
    rfl
  · show written.is_canonical = false
    rw [hframe]
    exact hcanonical
  · show written.flow_level = 0
    rw [hframe]
    exact hflow
  · show written.is_unicode = emitter.is_unicode
    rw [hframe]
    rfl
  · show written.best_width = emitter.best_width
    rw [hframe]
    rfl
  · show written.indent = emitter.indent
    rw [hframe]
    rfl
  · show written.line_break = emitter.line_break
    rw [hframe]
    rfl

/-- Emitting a simple plain scalar as the value of a simple key of a block
mapping: `:`, a space and the value are written, and the emitter waits for the
next key. -/
theorem emit_block_mapping_value_event (emitter : yaml_emitter_t)
    (characters : List (List yaml_char_t))
    (hstate : emitter.state = YAML_EMIT_BLOCK_MAPPING_SIMPLE_VALUE_STATE)
    (hevents : emitter.events = [])
    (hcanonical : emitter.is_canonical = false)
    (hflow : emitter.flow_level = 0)
    (hall : ∀ octets ∈ characters, is_utf8_character octets = true)
    (hbreak : ∀ octets ∈ characters, is_break_character octets = false)
    (hsimple : is_simple_plain emitter.is_unicode characters.flatten = true)
    (hwidth : emitter.column + 1 + 1 + characters.length ≤ emitter.best_width) :
    ∃ result, yaml_emitter_emit emitter
        (scalar_event characters.flatten YAML_PLAIN_SCALAR_STYLE) = some (true, result) ∧
      result.state = YAML_EMIT_BLOCK_MAPPING_KEY_STATE ∧
      result.events = [] ∧
      result.output = emitter.output ++ [0x3A, 0x20] ++ characters.flatten ∧
      result.is_canonical = false ∧ result.flow_level = 0 ∧
      result.is_unicode = emitter.is_unicode ∧ result.best_width = emitter.best_width ∧
      result.states = emitter.states ∧ result.indent = emitter.indent ∧
      result.line_break = emitter.line_break ∧ result.is_indention = false := by
  obtain ⟨data, hdata, hvalue, hlength, hmultiline, hplain⟩ :=
    is_simple_plain_analysis emitter.is_unicode characters.flatten hsimple
  have hbounds : characters.flatten.length ≠ 0 := by
    simp only [is_simple_plain, Bool.and_eq_true, bne_iff_ne, ne_eq, decide_eq_true_eq] at hsimple
    exact hsimple.1.1.2
  have hanalyze := analyze_event_plain_scalar
    { emitter with events := [scalar_event characters.flatten YAML_PLAIN_SCALAR_STYLE] }
    characters.flatten data hdata
  have hvalue_plain := emit_block_mapping_value_plain
    { analyze_event_reset
        { emitter with
          events := [scalar_event characters.flatten YAML_PLAIN_SCALAR_STYLE] } with
      scalar_data := { data with style := emitter.scalar_data.style } }
    characters hall hbreak rfl rfl rfl hvalue (by rw [← hlength] at hbounds; exact hbounds)
    hmultiline hplain hcanonical hflow hwidth
  have hmachine := state_machine_block_mapping_simple_value
    { analyze_event_reset
        { emitter with
          events := [scalar_event characters.flatten YAML_PLAIN_SCALAR_STYLE] } with
      scalar_data := { data with style := emitter.scalar_data.style } }
    (scalar_event characters.flatten YAML_PLAIN_SCALAR_STYLE) hstate
  rw [emit_on_empty_queue emitter
    (scalar_event characters.flatten YAML_PLAIN_SCALAR_STYLE) hevents rfl, hanalyze]
  simp only [or_return]
  rw [hmachine, hvalue_plain]
  simp only []
  refine ⟨_, emit_loop_done _ rfl, rfl, rfl, ?_, hcanonical, hflow, rfl, rfl, rfl, rfl, rfl,
    rfl⟩
  show emitter.output ++ [0x3A] ++ [0x20] ++ characters.flatten
    = emitter.output ++ [0x3A, 0x20] ++ characters.flatten
  simp

/-- C24: with the default configuration, emitting STREAM-START,
DOCUMENT-START(implicit), MAPPING-START(BLOCK), SCALAR `a`, SCALAR `1`,
SCALAR `b`, SCALAR `2` (all plain-implicit), MAPPING-END,
DOCUMENT-END(implicit), STREAM-END succeeds and the bytes written are exactly
`a: 1`, LF, `b: 2`, LF; more generally, in a block mapping (the emitter waits
for a key, not in canonical mode, outside flow collections, with an empty
queue) emitting a key and a value that are simple plain scalars, the pair
fitting in `best_width` at the indent of the mapping, succeeds and writes the
indentation of the mapping (on a new line when the emitter is not at the start
of a line), the key, `: ` and the value, and leaves the emitter waiting for
the next key at the same indent and not at the start of a line, so that the
next pair is written on a line of its own. -/
theorem block_mapping_pairs (emitter : yaml_emitter_t) (key value : List yaml_char_t)
    (hstate : emitter.state = YAML_EMIT_BLOCK_MAPPING_KEY_STATE)
    (hevents : emitter.events = [])
    (hcanonical : emitter.is_canonical = false)
    (hflow : emitter.flow_level = 0)
    (hkey : is_simple_plain emitter.is_unicode key = true)
    (hvalue : is_simple_plain emitter.is_unicode value = true)
    (hwidth : max emitter.indent 0 + key.length + 2 + value.length ≤ emitter.best_width) :
    (emit_events block_mapping_stream emitter_initial).map
        (fun result => (result.1, result.2.output, result.2.state))
      = some (true, [0x61, 0x3A, 0x20, 0x31, 0x0A, 0x62, 0x3A, 0x20, 0x32, 0x0A],
          YAML_EMIT_END_STATE) ∧
    ∃ result,
      emit_events [scalar_event key YAML_PLAIN_SCALAR_STYLE,
          scalar_event value YAML_PLAIN_SCALAR_STYLE] emitter = some (true, result) ∧
      result.output
        = (yaml_emitter_write_indent emitter).output ++ key ++ [0x3A, 0x20] ++ value ∧
      (emitter.is_indention = false → emitter.line_break = YAML_LN_BREAK →
        result.output
          = emitter.output ++ 0x0A :: List.replicate (max emitter.indent 0).toNat 0x20
            ++ key ++ [0x3A, 0x20] ++ value) ∧
      result.state = YAML_EMIT_BLOCK_MAPPING_KEY_STATE ∧
      result.events = [] ∧
      result.is_canonical = false ∧ result.flow_level = 0 ∧
      result.is_unicode = emitter.is_unicode ∧ result.best_width = emitter.best_width ∧
      result.states = emitter.states ∧ result.indent = emitter.indent ∧
      result.line_break = emitter.line_break ∧ result.is_indention = false := by
  refine ⟨by decide, ?_⟩
  obtain ⟨key_characters, hkey_flat, hkey_all, hkey_break, hkey_length⟩ :=
    is_simple_plain_characters emitter.is_unicode key hkey
  obtain ⟨value_characters, hvalue_flat, hvalue_all, hvalue_break, hvalue_length⟩ :=
    is_simple_plain_characters emitter.is_unicode value hvalue
  subst hkey_flat
  subst hvalue_flat
  obtain ⟨after_key, hafter_key, hk_state, hk_events, hk_output, hk_column, hk_canonical,
    hk_flow, hk_unicode, hk_width, hk_states, hk_indent, hk_break⟩ :=
    emit_block_mapping_key_event emitter key_characters hstate hevents hcanonical hflow
      hkey_all hkey_break hkey (by omega)
  obtain ⟨result, hresult, hv_state, hv_events, hv_output, hv_canonical, hv_flow, hv_unicode,
    hv_width, hv_states, hv_indent, hv_break, hv_indention⟩ :=
    emit_block_mapping_value_event after_key value_characters hk_state hk_events hk_canonical
      hk_flow hvalue_all hvalue_break (by rw [hk_unicode]; exact hvalue)
      (by rw [hk_column, hk_width]; omega)
  have houtput : result.output
      = (yaml_emitter_write_indent emitter).output ++ key_characters.flatten ++ [0x3A, 0x20]
        ++ value_characters.flatten := by
    rw [hv_output, hk_output]
  refine ⟨result, ?_, houtput, ?_, hv_state, hv_events, hv_canonical, hv_flow,
    hv_unicode.trans hk_unicode, hv_width.trans hk_width, hv_states.trans hk_states,
    hv_indent.trans hk_indent, hv_break.trans hk_break, hv_indention⟩
  · simp only [emit_events, hafter_key, or_return, hresult]
  · intro hindention hbreak
    rw [houtput, write_indent_output emitter hindention hbreak]

/-- Witness of C24: after the pair `a: 1` of a root block mapping, the key `b`
and the value `2` are simple plain scalars, and the pair is written on a new
line as `b: 2`. -/
theorem block_mapping_pairs_witness :
    is_simple_plain emitter_in_block_mapping.is_unicode [0x62] = true ∧
    is_simple_plain emitter_in_block_mapping.is_unicode [0x32] = true ∧
    ∃ result,
      emit_events [scalar_event [0x62] YAML_PLAIN_SCALAR_STYLE,
          scalar_event [0x32] YAML_PLAIN_SCALAR_STYLE] emitter_in_block_mapping
        = some (true, result) ∧
      result.output = [0x61, 0x3A, 0x20, 0x31, 0x0A, 0x62, 0x3A, 0x20, 0x32] ∧
      result.state = YAML_EMIT_BLOCK_MAPPING_KEY_STATE := by
  refine ⟨by decide, by decide, ?_⟩
  obtain ⟨result, hresult, _, houtput, hstate, _⟩ :=
    (block_mapping_pairs emitter_in_block_mapping [0x62] [0x32] rfl rfl rfl rfl (by decide)
      (by decide) (by decide)).2
  exact ⟨result, hresult, houtput rfl rfl, hstate⟩

/-! ## Theorems: the options at the start of the stream -/

/-- The indent and the width after the defaults of STREAM-START are put in. -/
theorem emit_stream_start_options_indent_width (emitter : yaml_emitter_t) :
    (emit_stream_start_options emitter).best_indent
      = (if 2 ≤ emitter.best_indent ∧ emitter.best_indent ≤ 9 then emitter.best_indent
         else 2) ∧
    (emitter.best_width < 0 →
      (emit_stream_start_options emitter).best_width = 2147483647) := by
  refine ⟨?_, ?_⟩
  · simp only [emit_stream_start_options]
    split_ifs <;> (try dsimp only at *) <;> first | rfl | omega
  · intro hwidth
    simp only [emit_stream_start_options]
    split_ifs <;> (try dsimp only at *) <;> first | rfl | omega

/-- C33, counterexample: with the configured indent 10 the
STREAM-START event leaves `best_indent` at 2, while 10 clamped into the range
[2,9] is 9. -/
theorem emit_stream_start_indent_above_nine :
    (yaml_emitter_emit { emitter_initial with best_indent := 10 }
        (stream_start_event YAML_UTF8_ENCODING)).map (fun result => result.2.best_indent)
      = some 2 ∧
    clamped_indent 10 = 9 := by
  decide

/-- C33 (amended): on an emitter in the STREAM-START state with an empty queue, emitting
STREAM-START succeeds; afterwards `best_indent` is the configured indent when
that lies in the range [2,9] and 2 otherwise (a value above 9 becomes 2, not
9), so it agrees with the clamped indent exactly when the configured indent is
at most 9; and a negative configured `best_width` becomes `INT_MAX`. -/
theorem emit_stream_start_indent_width (emitter : yaml_emitter_t) (event : yaml_event_t)
    (hstate : emitter.state = YAML_EMIT_STREAM_START_STATE)
    (hevents : emitter.events = [])
    (htype : event.type = YAML_STREAM_START_EVENT) :
    ∃ result, yaml_emitter_emit emitter event = some (true, result) ∧
      result.best_indent
        = (if 2 ≤ emitter.best_indent ∧ emitter.best_indent ≤ 9 then emitter.best_indent
           else 2) ∧
      (emitter.best_indent ≤ 9 → result.best_indent = clamped_indent emitter.best_indent) ∧
      (9 < emitter.best_indent → result.best_indent = 2) ∧
      (emitter.best_width < 0 → result.best_width = 2147483647) := by
  have hanalyze := analyze_event_other { emitter with events := [event] } event
    (by rw [htype]; decide) (by rw [htype]; decide) (by rw [htype]; decide)
    (by rw [htype]; decide)
  have hs : (analyze_event_reset { emitter with events := [event] }).state
      = YAML_EMIT_STREAM_START_STATE := hstate
  obtain ⟨hindent, hwidth⟩ := emit_stream_start_options_indent_width
    (emit_stream_start_encoding (analyze_event_reset { emitter with events := [event] }) event)
  have hbi : (emit_stream_start_encoding
      (analyze_event_reset { emitter with events := [event] }) event).best_indent
        = emitter.best_indent := by
    rw [emit_stream_start_encoding_eq]
    rfl
  have hbw : (emit_stream_start_encoding
      (analyze_event_reset { emitter with events := [event] }) event).best_width
        = emitter.best_width := by
    rw [emit_stream_start_encoding_eq]
    rfl
  rw [hbi] at hindent
  rw [hbw] at hwidth
  have hmachine : ∃ result,
      yaml_emitter_state_machine
          (analyze_event_reset { emitter with events := [event] }) event
        = some (true, result) ∧
      result.best_indent
        = (emit_stream_start_options (emit_stream_start_encoding
            (analyze_event_reset { emitter with events := [event] }) event)).best_indent ∧
      result.best_width
        = (emit_stream_start_options (emit_stream_start_encoding
            (analyze_event_reset { emitter with events := [event] }) event)).best_width ∧
      result.events = [event] := by
    simp only [yaml_emitter_state_machine, hs, yaml_emitter_emit_stream_start, htype, if_true]
    rw [emit_stream_start_options_eq, emit_stream_start_encoding_eq]
    refine ⟨_, rfl, ?_, ?_, ?_⟩
    · simp only [yaml_emitter_write_bom, analyze_event_reset]
      split_ifs <;> rfl
    · simp only [yaml_emitter_write_bom, analyze_event_reset]
      split_ifs <;> rfl
    · simp only [yaml_emitter_write_bom, analyze_event_reset]
      split_ifs <;> rfl
  obtain ⟨result, hresult, h1, h2, h3⟩ := hmachine
  refine ⟨{ result with events := [] }, ?_, ?_, ?_, ?_, ?_⟩
  · rw [emit_on_empty_queue emitter event hevents (by rw [htype]; rfl), hanalyze]
    simp only [or_return, hresult, h3, List.tail_cons, yaml_emitter_emit_loop,
      yaml_emitter_need_more_events, if_true]
  · show result.best_indent = _
    rw [h1, hindent]
  · intro hle
    show result.best_indent = _
    rw [h1, hindent]
    simp only [clamped_indent]
    split_ifs <;> omega
  · intro hgt
    show result.best_indent = _
    rw [h1, hindent, if_neg (by omega)]
  · intro hneg
    show result.best_width = _
    rw [h2]
    exact hwidth hneg

/-- Witness of C33: the configured indent 4 is kept and the configured width
-1 becomes `INT_MAX`. -/
theorem emit_stream_start_indent_width_witness :
    ∃ result,
      yaml_emitter_emit { emitter_initial with best_indent := 4, best_width := -1 }
          (stream_start_event YAML_UTF8_ENCODING) = some (true, result) ∧
      result.best_indent = 4 ∧ result.best_width = 2147483647 := by
  obtain ⟨result, hresult, hindent, _, _, hwidth⟩ :=
    emit_stream_start_indent_width
      { emitter_initial with best_indent := 4, best_width := -1 }
      (stream_start_event YAML_UTF8_ENCODING) rfl rfl rfl
  exact ⟨result, hresult, hindent, hwidth (by decide)⟩

/-! ## Theorems: the lookahead of the checkers -/

/-- C37: whenever `yaml_emitter_need_more_events` returns false and the head of
the queue is SEQUENCE-START or MAPPING-START, the queue holds at least two
events: the event at `head+1` that `yaml_emitter_check_empty_sequence`,
`yaml_emitter_check_empty_mapping` and `yaml_emitter_check_simple_key` read
while that head is processed is in the queue, and the two checks of emptiness
compare the types of the head and of that event. -/
theorem need_more_events_lookahead (emitter : yaml_emitter_t) (head : yaml_event_t)
    (rest : List yaml_event_t) (hq : emitter.events = head :: rest)
    (hneed : yaml_emitter_need_more_events emitter = false)
    (htype : head.type = YAML_SEQUENCE_START_EVENT ∨ head.type = YAML_MAPPING_START_EVENT) :
    2 ≤ emitter.events.length ∧
    ∃ next tail, emitter.events = head :: next :: tail ∧
      yaml_emitter_check_empty_sequence emitter
        = (head.type == YAML_SEQUENCE_START_EVENT && next.type == YAML_SEQUENCE_END_EVENT) ∧
      yaml_emitter_check_empty_mapping emitter
        = (head.type == YAML_MAPPING_START_EVENT && next.type == YAML_MAPPING_END_EVENT) := by
  cases rest with
  | nil =>
    exfalso
    rcases htype with h | h <;>
      simp [yaml_emitter_need_more_events, hq, h, need_more_events_accumulate,
        need_more_events_loop, need_more_events_level] at hneed
  | cons next tail =>
    refine ⟨by rw [hq]; simp, next, tail, hq, ?_, ?_⟩
    · simp [yaml_emitter_check_empty_sequence, hq]
    · simp [yaml_emitter_check_empty_mapping, hq]

/-- Witness of C37: on the queue SEQUENCE-START, SEQUENCE-END no more events
are needed, and the queue holds two events. -/
theorem need_more_events_lookahead_witness :
    yaml_emitter_need_more_events emitter_empty_sequence = false ∧
    2 ≤ emitter_empty_sequence.events.length :=
  ⟨by decide,
    (need_more_events_lookahead emitter_empty_sequence
      (event_of_type YAML_SEQUENCE_START_EVENT) [event_of_type YAML_SEQUENCE_END_EVENT]
      rfl (by decide) (Or.inl rfl)).1⟩

/-! ## Theorems: the analysis of a tag -/

/-- A strict prefix of the tag is shorter than the tag and equal to its first
octets. -/
theorem starts_strictly_iff (start tag : List yaml_char_t) :
    starts_strictly start tag = true ↔
      (start.length < tag.length ∧ tag.take start.length = start) := by
  simp only [starts_strictly, Bool.and_eq_true, List.isPrefixOf_iff_prefix, bne_iff_ne, ne_eq]
  constructor
  · rintro ⟨⟨rest, hrest⟩, hne⟩
    subst hrest
    refine ⟨?_, by simp⟩
    cases rest with
    | nil => simp at hne
    | cons c rest => simp
  · rintro ⟨hlength, htake⟩
    refine ⟨⟨tag.drop start.length, ?_⟩, ?_⟩
    · nth_rewrite 1 [← htake]
      exact List.take_append_drop _ _
    · intro h
      rw [h] at hlength
      omega

/-- The loop of `yaml_emitter_analyze_tag` stops at the first directive whose
prefix is a strict prefix of the tag. -/
theorem analyze_tag_loop_eq (tag : List yaml_char_t)
    (tag_directives : List yaml_tag_directive_t) :
    analyze_tag_loop tag tag_directives
      = (first_matching_directive tag_directives tag).map fun tag_directive =>
          (tag_directive.handle, tag.drop tag_directive.prefix_.length) := by
  induction tag_directives with
  | nil => rfl
  | cons tag_directive rest ih =>
    simp only [analyze_tag_loop, first_matching_directive, List.find?_cons]
    by_cases h : starts_strictly tag_directive.prefix_ tag = true
    · rw [if_pos ((starts_strictly_iff _ _).1 h), h]
      rfl
    · rw [if_neg (fun hc => h ((starts_strictly_iff _ _).2 hc))]
      simp only [Bool.not_eq_true] at h
      rw [h, ih]
      rfl

/-- C39: for every non-empty tag and every list of tag directives,
`yaml_emitter_analyze_tag` succeeds and splits the tag without loss: when the
prefix of some directive is a strict prefix of the tag, the handle is the
handle of the first such directive in list order, the suffix is not empty and
the prefix followed by the suffix is the tag; otherwise the handle stays as it
was (absent after the reset of `yaml_emitter_analyze_event`) and the suffix is
the tag.  An empty tag is rejected with `tag value must not be empty`. -/
theorem analyze_tag_spec (emitter : yaml_emitter_t) (tag : List yaml_char_t) :
    (tag ≠ [] →
      ∃ result, yaml_emitter_analyze_tag emitter tag = (true, result) ∧
        (∀ tag_directive,
          first_matching_directive emitter.tag_directives tag = some tag_directive →
          result.tag_data.handle = some tag_directive.handle ∧
          result.tag_data.handle_length = tag_directive.handle.length ∧
          ∃ suffix, result.tag_data.suffix = some suffix ∧
            result.tag_data.suffix_length = suffix.length ∧
            suffix ≠ [] ∧ tag_directive.prefix_ ++ suffix = tag) ∧
        (first_matching_directive emitter.tag_directives tag = none →
          result.tag_data.handle = emitter.tag_data.handle ∧
          result.tag_data.suffix = some tag ∧
          result.tag_data.suffix_length = tag.length)) ∧
    (tag = [] →
      yaml_emitter_analyze_tag emitter tag
        = (false, EMITTER_ERROR_INIT emitter "tag value must not be empty")) := by
  refine ⟨?_, ?_⟩
  · intro hne
    have hlength : tag.length ≠ 0 := by
      intro h
      exact hne (List.length_eq_zero.1 h)
    simp only [yaml_emitter_analyze_tag, STRING, if_neg hlength, analyze_tag_loop_eq]
    cases hfirst : first_matching_directive emitter.tag_directives tag with
    | none =>
      refine ⟨_, rfl, ?_, ?_⟩
      · intro tag_directive h
        cases h
      · intro _
        exact ⟨rfl, rfl, rfl⟩
    | some found =>
      refine ⟨_, rfl, ?_, ?_⟩
      · intro tag_directive h
        cases h
        have hmatch : starts_strictly found.prefix_ tag = true := by
          have := List.find?_some hfirst
          exact this
        obtain ⟨hshort, htake⟩ := (starts_strictly_iff _ _).1 hmatch
        refine ⟨rfl, rfl, tag.drop found.prefix_.length, rfl, rfl, ?_, ?_⟩
        · intro hnil
          have := congrArg List.length hnil
          simp only [List.length_drop, List.length_nil] at this
          omega
        · nth_rewrite 1 [← htake]
          exact List.take_append_drop _ _
      · intro h
        cases h
  · intro hnil
    subst hnil
    rfl

/-- Witness of C39: with the directive `!e!` for `tag:example.com,2024:` the
tag `tag:example.com,2024:t` is split into the handle `!e!` and the suffix
`t`. -/
theorem analyze_tag_spec_witness :
    ∃ result,
      yaml_emitter_analyze_tag { emitter_initial with tag_directives := [example_tag_directive] }
          (example_uri ++ [0x74]) = (true, result) ∧
      result.tag_data.handle = some [0x21, 0x65, 0x21] ∧
      ∃ suffix, result.tag_data.suffix = some suffix ∧ suffix ≠ [] ∧
        example_uri ++ suffix = example_uri ++ [0x74] := by
  obtain ⟨result, hresult, hfound, _⟩ :=
    (analyze_tag_spec { emitter_initial with tag_directives := [example_tag_directive] }
      (example_uri ++ [0x74])).1 (by decide)
  obtain ⟨hhandle, _, suffix, hsuffix, _, hne, hsplit⟩ :=
    hfound example_tag_directive (by decide)
  exact ⟨result, hresult, hhandle, suffix, hsuffix, hne, hsplit⟩

/-! ## Theorems: alphanumerical scalars -/

/-- An alphanumerical octet is none of the octets that the analyzer tests
for. -/
theorem is_alphanumeric_octet (octet : Nat) (h : is_alphanumeric octet = true) :
    0x20 < octet ∧ octet ≤ 0x7A ∧
    octet ≠ 0x21 ∧ octet ≠ 0x22 ∧ octet ≠ 0x23 ∧ octet ≠ 0x25 ∧ octet ≠ 0x26 ∧ octet ≠ 0x27 ∧
    octet ≠ 0x2A ∧ octet ≠ 0x2C ∧ octet ≠ 0x2D ∧ octet ≠ 0x2E ∧ octet ≠ 0x3A ∧ octet ≠ 0x3E ∧
    octet ≠ 0x3F ∧ octet ≠ 0x40 ∧ octet ≠ 0x5B ∧ octet ≠ 0x5D ∧ octet ≠ 0x60 := by
  simp only [is_alphanumeric, Bool.or_eq_true, Bool.and_eq_true, decide_eq_true_eq] at h
  have h' : (0x30 ≤ octet ∧ octet ≤ 0x39) ∨ (0x41 ≤ octet ∧ octet ≤ 0x5A)
      ∨ (0x61 ≤ octet ∧ octet ≤ 0x7A) := by
    rcases h with (h | h) | h
    · exact Or.inl h
    · exact Or.inr (Or.inl h)
    · exact Or.inr (Or.inr h)
  omega

/-- The character tests of the analyzer on an alphanumerical octet. -/
theorem alphanumeric_character_tests (string : yaml_string_t)
    (h : is_alphanumeric (OCTET_AT string 0) = true) :
    IS_PRINTABLE string = true ∧ IS_ASCII string = true ∧ IS_BREAK string = false ∧
    IS_SPACE string = false ∧ WIDTH string = 1 := by
  have hoctet := is_alphanumeric_octet (OCTET_AT string 0) h
  obtain ⟨c, hc⟩ : ∃ c : Nat, OCTET_AT string 0 = c := ⟨_, rfl⟩
  rw [hc] at hoctet
  have h1 : (c == 0x0A) = false := by
    rw [beq_eq_false_iff_ne]
    omega
  have h2 : (c == 0x0D) = false := by
    rw [beq_eq_false_iff_ne]
    omega
  have h3 : (c == 0xC2) = false := by
    rw [beq_eq_false_iff_ne]
    omega
  have h4 : (c == 0xE2) = false := by
    rw [beq_eq_false_iff_ne]
    omega
  have h5 : (c == 0x20) = false := by
    rw [beq_eq_false_iff_ne]
    omega
  have h6 : decide (0x20 ≤ c) = true := by
    rw [decide_eq_true_eq]
    omega
  have h7 : decide (c ≤ 0x7E) = true := by
    rw [decide_eq_true_eq]
    omega
  refine ⟨?_, ?_, ?_, ?_, ?_⟩
  · simp only [IS_PRINTABLE, hc, h1, h6, h7, Bool.false_or, Bool.and_self, Bool.true_or]
  · simp only [IS_ASCII, hc, decide_eq_true_eq]
    have hle : c ≤ 0x7F := by omega
    exact hle
  · simp only [IS_BREAK, IS_BREAK_AT, CHECK_AT, hc, h1, h2, h3, h4, Bool.false_and,
      Bool.or_self]
  · simp only [IS_SPACE, IS_SPACE_AT, CHECK_AT, hc, h5]
  · simp only [WIDTH, hc]
    have hlt : c < 0x80 := by omega
    exact if_pos hlt

/-- The indicator tests of the analyzer leave the locals as they are on an
alphanumerical octet. -/
theorem analyze_scalar_indicators_alphanumeric (string : yaml_string_t)
    (l : analyze_scalar_locals) (h : is_alphanumeric (OCTET_AT string 0) = true) :
    analyze_scalar_indicators string l = l := by
  have hoctet := is_alphanumeric_octet (OCTET_AT string 0) h
  obtain ⟨c, hc⟩ : ∃ c : Nat, OCTET_AT string 0 = c := ⟨_, rfl⟩
  rw [hc] at hoctet
  have hne : ∀ x : Nat, c ≠ x → (c == x) = false := fun x hx => by
    rw [beq_eq_false_iff_ne]
    exact hx
  obtain ⟨_, _, a1, a2, a3, a4, a5, a6, a7, a8, a9, _, a11, a12, a13, a14, a15, a16, a17⟩ :=
    hoctet
  have a18 : c ≠ 0x7B := by omega
  have a19 : c ≠ 0x7C := by omega
  have a20 : c ≠ 0x7D := by omega
  simp only [analyze_scalar_indicators, CHECK, CHECK_AT, hc, hne _ a1, hne _ a2, hne _ a3,
    hne _ a4, hne _ a5, hne _ a6, hne _ a7, hne _ a8, hne _ a9, hne _ a11, hne _ a12,
    hne _ a13, hne _ a14, hne _ a15, hne _ a16, hne _ a17, hne _ a18, hne _ a19, hne _ a20,
    Bool.or_self, Bool.false_and, Bool.false_eq_true, if_false, ite_self]

/-- One iteration of the loop of the analyzer on an alphanumerical octet, with
no run of spaces or breaks open: the pointer moves by one octet and only
`preceeded_by_space` and `followed_by_space` are written. -/
theorem analyze_scalar_step_alphanumeric (emitter : yaml_emitter_t) (string : yaml_string_t)
    (l : analyze_scalar_locals) (h : is_alphanumeric (OCTET_AT string 0) = true)
    (hspaces : l.spaces = false) (hbreaks : l.breaks = false) :
    (analyze_scalar_step emitter string l).1
      = { string with pointer := string.pointer + 1 } ∧
    { (analyze_scalar_step emitter string l).2 with
        preceeded_by_space := false, followed_by_space := false }
      = { l with preceeded_by_space := false, followed_by_space := false } := by
  obtain ⟨hprintable, hascii, hbreak, hspace, hwidth⟩ := alphanumeric_character_tests string h
  have hspecial : analyze_scalar_special emitter string l = l := by
    simp only [analyze_scalar_special, hprintable, hascii, hbreak, Bool.not_true,
      Bool.false_and, Bool.or_self, Bool.false_eq_true, if_false]
  have hwhitespace : analyze_scalar_whitespace string l = l := by
    simp only [analyze_scalar_whitespace, hspace, hbreak, hspaces, hbreaks, Bool.or_self,
      Bool.false_eq_true, if_false]
  have hlast : analyze_scalar_last string l = l := by
    simp only [analyze_scalar_last, hspaces, hbreaks, Bool.or_self, Bool.false_and,
      Bool.false_eq_true, if_false]
  simp only [analyze_scalar_step, analyze_scalar_indicators_alphanumeric string l h, hspecial,
    hwhitespace, hlast, MOVE, hwidth]
  refine ⟨trivial, ?_⟩
  split_ifs <;> rfl

/-- On an alphanumerical value the loop of the analyzer ends and writes only
`preceeded_by_space` and `followed_by_space`. -/
theorem analyze_scalar_loop_alphanumeric (emitter : yaml_emitter_t)
    (value : List yaml_char_t) (hall : ∀ octet ∈ value, is_alphanumeric octet = true)
    (fuel : Nat) :
    ∀ (pointer : Nat) (l : analyze_scalar_locals),
      value.length - pointer ≤ fuel → l.spaces = false → l.breaks = false →
      ∃ l', analyze_scalar_loop emitter fuel (string_at value pointer) l = some l' ∧
        { l' with preceeded_by_space := false, followed_by_space := false }
          = { l with preceeded_by_space := false, followed_by_space := false } := by
  induction fuel with
  | zero =>
    intro pointer l hfuel _ _
    have hcap : (string_at value pointer).capacity = value.length := rfl
    have hptr : (string_at value pointer).pointer = pointer := rfl
    refine ⟨l, ?_, rfl⟩
    simp only [analyze_scalar_loop, hcap, hptr]
    rw [if_neg (by omega)]
  | succ fuel ih =>
    intro pointer l hfuel hspaces hbreaks
    have hcap : (string_at value pointer).capacity = value.length := rfl
    have hptr : (string_at value pointer).pointer = pointer := rfl
    simp only [analyze_scalar_loop, hcap, hptr]
    by_cases hlt : pointer < value.length
    · rw [if_pos hlt]
      have hoctet : is_alphanumeric (OCTET_AT (string_at value pointer) 0) = true := by
        have hget : OCTET_AT (string_at value pointer) 0 = value[pointer] := by
          simp only [OCTET_AT, string_at, Nat.add_zero]
          exact List.getD_eq_getElem _ _ hlt
        rw [hget]
        exact hall _ (List.getElem_mem hlt)
      obtain ⟨hstring, hlocals⟩ :=
        analyze_scalar_step_alphanumeric emitter (string_at value pointer) l hoctet hspaces
          hbreaks
      have hs := congrArg analyze_scalar_locals.spaces hlocals
      have hb := congrArg analyze_scalar_locals.breaks hlocals
      simp only [] at hs hb
      rw [hstring]
      obtain ⟨l', hloop, hl'⟩ := ih (pointer + 1)
        (analyze_scalar_step emitter (string_at value pointer) l).2 (by omega)
        (hs.trans hspaces) (hb.trans hbreaks)
      exact ⟨l', hloop, hl'.trans hlocals⟩
    · rw [if_neg hlt]
      exact ⟨l, rfl, rfl⟩

/-- The permissions depend on the locals other than `preceeded_by_space` and
`followed_by_space`. -/
theorem analyze_scalar_permissions_congr (first second : analyze_scalar_locals)
    (data : yaml_emitter_scalar_data_t)
    (h : { first with preceeded_by_space := false, followed_by_space := false }
        = { second with preceeded_by_space := false, followed_by_space := false }) :
    analyze_scalar_permissions first data = analyze_scalar_permissions second data := by
  cases first
  cases second
  simp only [analyze_scalar_locals.mk.injEq] at h
  obtain ⟨h1, h2, h3, h4, h5, h6, h7, h8, h9, h10, h11, h12, _, _, h15, h16, h17, h18⟩ := h
  subst h1 h2 h3 h4 h5 h6 h7 h8 h9 h10 h11 h12 h15 h16 h17 h18
  rfl

/-- C40, counterexample: in canonical mode the alphanumerical
scalar `abc` with the style ANY and `is_plain_implicit` set is analysed with
all four permissions, but the style selected is DOUBLE-QUOTED, and the stream
of that root scalar is written as `---`, a line break and `! "abc"`. -/
theorem select_scalar_style_canonical_alphanumeric :
    (yaml_emitter_analyze_scalar { emitter_initial with is_canonical := true }
        [0x61, 0x62, 0x63]).map
      (fun result =>
        (result.2.scalar_data.is_flow_plain_allowed,
         result.2.scalar_data.is_block_plain_allowed,
         (yaml_emitter_select_scalar_style result.2
           (scalar_event [0x61, 0x62, 0x63] YAML_ANY_SCALAR_STYLE)).2.scalar_data.style))
      = some (true, true, YAML_DOUBLE_QUOTED_SCALAR_STYLE) ∧
    (emit_events alphanumeric_scalar_stream
        { emitter_initial with is_canonical := true }).map
      (fun result => (result.1, result.2.output))
      = some (true, [0x2D, 0x2D, 0x2D, 0x0A, 0x21, 0x20, 0x22, 0x61, 0x62, 0x63, 0x22, 0x0A]) := by
  decide

/-- The locals at the entry of the loop of the analyzer on a value that starts
with an alphanumerical octet: no flag is set but `preceeded_by_space` and
`followed_by_space`. -/
theorem analyze_scalar_start_alphanumeric (string : yaml_string_t)
    (h : is_alphanumeric (OCTET_AT string 0) = true) :
    { analyze_scalar_start string with preceeded_by_space := false, followed_by_space := false }
      = {} := by
  have hoctet := is_alphanumeric_octet (OCTET_AT string 0) h
  obtain ⟨c, hc⟩ : ∃ c : Nat, OCTET_AT string 0 = c := ⟨_, rfl⟩
  rw [hc] at hoctet
  have h1 : (c == 0x2D) = false := by
    rw [beq_eq_false_iff_ne]
    omega
  have h2 : (c == 0x2E) = false := by
    rw [beq_eq_false_iff_ne]
    omega
  simp only [analyze_scalar_start, CHECK_AT, hc, h1, h2, Bool.false_and, Bool.or_self,
    Bool.false_eq_true, if_false]

/-- C40 (amended): for every non-empty scalar value of ASCII letters and digits (such a
value cannot start with `---`), `yaml_emitter_analyze_scalar` returns with
`is_multiline` false and all four permissions (flow-plain, block-plain,
single-quoted, block) true; and in every context that is not canonical mode,
whatever the flow level, the simple-key context and the tag,
`yaml_emitter_select_scalar_style` selects PLAIN for the analysed scalar when
the event asks for the style ANY with `is_plain_implicit` set.  In canonical
mode the style selected is DOUBLE-QUOTED. -/
theorem analyze_scalar_alphanumeric (emitter : yaml_emitter_t) (value : List yaml_char_t)
    (hne : value ≠ []) (hall : ∀ octet ∈ value, is_alphanumeric octet = true) :
    ∃ result, yaml_emitter_analyze_scalar emitter value = some (true, result) ∧
      result.scalar_data.is_multiline = false ∧
      result.scalar_data.is_flow_plain_allowed = true ∧
      result.scalar_data.is_block_plain_allowed = true ∧
      result.scalar_data.is_single_quoted_allowed = true ∧
      result.scalar_data.is_block_allowed = true ∧
      ∀ (context : yaml_emitter_t) (event : yaml_event_t),
        context.scalar_data = result.scalar_data →
        event.data.scalar.style = YAML_ANY_SCALAR_STYLE →
        event.data.scalar.is_plain_implicit = true →
        (context.is_canonical = false →
          ∃ selected, yaml_emitter_select_scalar_style context event = (true, selected) ∧
            selected.scalar_data.style = YAML_PLAIN_SCALAR_STYLE) ∧
        (context.is_canonical = true →
          ∃ selected, yaml_emitter_select_scalar_style context event = (true, selected) ∧
            selected.scalar_data.style = YAML_DOUBLE_QUOTED_SCALAR_STYLE) := by
  have hlength : value.length ≠ 0 := fun h => hne (List.length_eq_zero.1 h)
  have hfirst : is_alphanumeric (OCTET_AT (string_at value 0) 0) = true := by
    have hpos : 0 < value.length := by omega
    have hget : OCTET_AT (string_at value 0) 0 = value[0] := by
      simp only [OCTET_AT, string_at, Nat.add_zero]
      exact List.getD_eq_getElem _ _ hpos
    rw [hget]
    exact hall _ (List.getElem_mem hpos)
  have hstart := analyze_scalar_start_alphanumeric (string_at value 0) hfirst
  have hs := congrArg analyze_scalar_locals.spaces hstart
  have hb := congrArg analyze_scalar_locals.breaks hstart
  simp only [] at hs hb
  obtain ⟨l, hloop, hl⟩ := analyze_scalar_loop_alphanumeric (analyze_scalar_store emitter value)
    value hall value.length 0 (analyze_scalar_start (string_at value 0)) (by omega) hs hb
  have hpermissions : analyze_scalar_permissions l
      (analyze_scalar_store emitter value).scalar_data
      = analyze_scalar_permissions {} (analyze_scalar_store emitter value).scalar_data :=
    analyze_scalar_permissions_congr l {} _ (hl.trans hstart)
  have hdata : ∀ data : yaml_emitter_scalar_data_t,
      analyze_scalar_permissions {} data
        = { data with is_multiline := false, is_flow_plain_allowed := true,
                      is_block_plain_allowed := true, is_single_quoted_allowed := true,
                      is_block_allowed := true } := fun data => rfl
  refine ⟨{ analyze_scalar_store emitter value with
      scalar_data := analyze_scalar_permissions l
        (analyze_scalar_store emitter value).scalar_data }, ?_, ?_⟩
  · simp only [yaml_emitter_analyze_scalar, STRING, if_neg hlength]
    have hstring : ({ buffer := value, pointer := 0, capacity := value.length } : yaml_string_t)
        = string_at value 0 := rfl
    rw [hstring, hloop]
    rfl
  · rw [hpermissions, hdata]
    refine ⟨rfl, rfl, rfl, rfl, rfl, ?_⟩
    intro context event hcontext hstyle himplicit
    have h1 : context.scalar_data.is_multiline = false := by rw [hcontext]
    have h2 : context.scalar_data.is_flow_plain_allowed = true := by rw [hcontext]
    have h3 : context.scalar_data.is_block_plain_allowed = true := by rw [hcontext]
    have h4 : context.scalar_data.length = value.length := by rw [hcontext]; rfl
    have h5 : (context.scalar_data.length != 0) = true := by
      rw [h4, bne_iff_ne]
      exact hlength
    have hok : (yaml_emitter_select_scalar_style context event).1 = true := by
      simp only [yaml_emitter_select_scalar_style, himplicit, Bool.not_true, Bool.and_false,
        Bool.false_and, Bool.false_eq_true, if_false]
    have hstored := select_scalar_style_stored context event hok
    refine ⟨?_, ?_⟩
    · intro hcanonical
      refine ⟨(yaml_emitter_select_scalar_style context event).2, Prod.ext hok rfl, ?_⟩
      rw [hstored]
      simp [select_scalar_style_overrides, select_scalar_style_plain,
        select_scalar_style_single_quoted, select_scalar_style_block, hstyle, hcanonical,
        h1, h2, h3, h5, himplicit]
    · intro hcanonical
      refine ⟨(yaml_emitter_select_scalar_style context event).2, Prod.ext hok rfl, ?_⟩
      rw [hstored]
      simp [select_scalar_style_overrides, select_scalar_style_plain,
        select_scalar_style_single_quoted, select_scalar_style_block, hstyle, hcanonical]

/-- Witness of C40: the value `abc` is analysed with all permissions, and the
style PLAIN is selected for it inside a flow collection in a simple key. -/
theorem analyze_scalar_alphanumeric_witness :
    ∃ result, yaml_emitter_analyze_scalar emitter_initial [0x61, 0x62, 0x63]
        = some (true, result) ∧
      result.scalar_data.is_multiline = false ∧
      result.scalar_data.is_flow_plain_allowed = true ∧
      ∃ selected,
        yaml_emitter_select_scalar_style
            { emitter_initial with
              scalar_data := result.scalar_data, flow_level := 1, is_simple_key_context := true }
            (scalar_event [0x61, 0x62, 0x63] YAML_ANY_SCALAR_STYLE) = (true, selected) ∧
        selected.scalar_data.style = YAML_PLAIN_SCALAR_STYLE := by
  obtain ⟨result, hresult, hmultiline, hflow, _, _, _, hselect⟩ :=
    analyze_scalar_alphanumeric emitter_initial [0x61, 0x62, 0x63] (by decide) (by decide)
  exact ⟨result, hresult, hmultiline, hflow,
    (hselect
      { emitter_initial with
        scalar_data := result.scalar_data, flow_level := 1, is_simple_key_context := true }
      (scalar_event [0x61, 0x62, 0x63] YAML_ANY_SCALAR_STYLE) rfl rfl rfl).1 rfl⟩

/-! ## Theorems: what the writers keep -/

theorem unwritten_PUT (emitter : yaml_emitter_t) (value : yaml_char_t) :
    unwritten (PUT emitter value) = unwritten emitter := rfl

theorem unwritten_PUT_BREAK (emitter : yaml_emitter_t) :
    unwritten (PUT_BREAK emitter) = unwritten emitter := rfl

theorem unwritten_WRITE (emitter : yaml_emitter_t) (string : yaml_string_t) :
    unwritten (WRITE emitter string).1 = unwritten emitter := rfl

theorem unwritten_WRITE_BREAK (emitter : yaml_emitter_t) (string : yaml_string_t) :
    unwritten (WRITE_BREAK emitter string).1 = unwritten emitter := by
  simp only [WRITE_BREAK]
  split_ifs <;> rfl

theorem unwritten_set_indention (emitter : yaml_emitter_t) (value : Bool) :
    unwritten { emitter with is_indention := value } = unwritten emitter := rfl

theorem unwritten_set_whitespace (emitter : yaml_emitter_t) (first second : Bool) :
    unwritten { emitter with is_whitespace := first, is_indention := second }
      = unwritten emitter := rfl

theorem unwritten_ite (condition : Prop) [Decidable condition] (first second : yaml_emitter_t)
    (target : yaml_emitter_t) (h1 : unwritten first = target) (h2 : unwritten second = target) :
    unwritten (if condition then first else second) = target := by
  split_ifs
  · exact h1
  · exact h2

theorem unwritten_PUT_foldl (octets : List yaml_char_t) :
    ∀ emitter : yaml_emitter_t, unwritten (octets.foldl PUT emitter) = unwritten emitter := by
  induction octets with
  | nil => intro emitter; rfl
  | cons octet rest ih =>
    intro emitter
    rw [List.foldl_cons, ih]
    rfl

theorem unwritten_write_indent_loop (indent : Int) (fuel : Nat) :
    ∀ emitter : yaml_emitter_t,
      unwritten (write_indent_loop indent fuel emitter) = unwritten emitter := by
  induction fuel with
  | zero => intro emitter; rfl
  | succ fuel ih =>
    intro emitter
    simp only [write_indent_loop]
    split_ifs
    · rw [ih]
      rfl
    · rfl

theorem unwritten_write_indent (emitter : yaml_emitter_t) :
    unwritten (yaml_emitter_write_indent emitter) = unwritten emitter := by
  simp only [yaml_emitter_write_indent]
  rw [unwritten_set_whitespace, unwritten_write_indent_loop]
  exact unwritten_ite _ _ _ _ rfl rfl

/-- The loop that copies a string changes nothing but what is written. -/
theorem unwritten_write_string_loop (fuel : Nat) :
    ∀ (emitter : yaml_emitter_t) (string : yaml_string_t) (result : yaml_emitter_t),
      write_string_loop fuel emitter string = some result →
      unwritten result = unwritten emitter := by
  induction fuel with
  | zero =>
    intro emitter string result h
    simp only [write_string_loop] at h
    split_ifs at h
    cases h
    rfl
  | succ fuel ih =>
    intro emitter string result h
    simp only [write_string_loop] at h
    split_ifs at h
    · exact (ih _ _ _ h).trans rfl
    · cases h
      rfl

theorem unwritten_write_indicator (emitter : yaml_emitter_t) (indicator : List yaml_char_t)
    (need_whitespace is_whitespace is_indention : Bool) (result : yaml_emitter_t)
    (h : yaml_emitter_write_indicator emitter indicator need_whitespace is_whitespace
      is_indention = some result) :
    unwritten result = unwritten emitter := by
  simp only [yaml_emitter_write_indicator, Option.map_eq_some'] at h
  obtain ⟨written, hloop, hresult⟩ := h
  subst hresult
  rw [unwritten_set_whitespace, unwritten_write_string_loop _ _ _ _ hloop]
  exact unwritten_ite _ _ _ _ rfl rfl

theorem unwritten_write_anchor (emitter : yaml_emitter_t) (value : List yaml_char_t)
    (result : yaml_emitter_t) (h : yaml_emitter_write_anchor emitter value = some result) :
    unwritten result = unwritten emitter := by
  simp only [yaml_emitter_write_anchor, Option.map_eq_some'] at h
  obtain ⟨written, hloop, hresult⟩ := h
  subst hresult
  rw [unwritten_set_whitespace, unwritten_write_string_loop _ _ _ _ hloop]

theorem unwritten_write_tag_handle (emitter : yaml_emitter_t) (value : List yaml_char_t)
    (result : yaml_emitter_t) (h : yaml_emitter_write_tag_handle emitter value = some result) :
    unwritten result = unwritten emitter := by
  simp only [yaml_emitter_write_tag_handle, Option.map_eq_some'] at h
  obtain ⟨written, hloop, hresult⟩ := h
  subst hresult
  rw [unwritten_set_whitespace, unwritten_write_string_loop _ _ _ _ hloop]
  exact unwritten_ite _ _ _ _ rfl rfl

theorem unwritten_write_tag_content_escape (width : Nat) :
    ∀ (emitter : yaml_emitter_t) (string : yaml_string_t),
      unwritten (write_tag_content_escape width emitter string).1 = unwritten emitter := by
  induction width with
  | zero => intro emitter string; rfl
  | succ width ih =>
    intro emitter string
    simp only [write_tag_content_escape]
    rw [ih]
    rfl

theorem unwritten_write_tag_content_loop (fuel : Nat) :
    ∀ (emitter : yaml_emitter_t) (string : yaml_string_t) (result : yaml_emitter_t),
      write_tag_content_loop fuel emitter string = some result →
      unwritten result = unwritten emitter := by
  induction fuel with
  | zero =>
    intro emitter string result h
    simp only [write_tag_content_loop] at h
    split_ifs at h
    cases h
    rfl
  | succ fuel ih =>
    intro emitter string result h
    simp only [write_tag_content_loop] at h
    split_ifs at h
    · exact (ih _ _ _ h).trans rfl
    · rw [ih _ _ _ h]
      exact unwritten_write_tag_content_escape _ _ _
    · cases h
      rfl

theorem unwritten_write_tag_content (emitter : yaml_emitter_t) (value : List yaml_char_t)
    (need_whitespace : Bool) (result : yaml_emitter_t)
    (h : yaml_emitter_write_tag_content emitter value need_whitespace = some result) :
    unwritten result = unwritten emitter := by
  simp only [yaml_emitter_write_tag_content, Option.map_eq_some'] at h
  obtain ⟨written, hloop, hresult⟩ := h
  subst hresult
  rw [unwritten_set_whitespace, unwritten_write_tag_content_loop _ _ _ _ hloop]
  exact unwritten_ite _ _ _ _ rfl rfl

theorem unwritten_write_plain_step (allow_breaks : Bool) (emitter : yaml_emitter_t)
    (string : yaml_string_t) (spaces breaks : Bool) :
    unwritten (write_plain_step allow_breaks emitter string spaces breaks).1
      = unwritten emitter := by
  simp only [write_plain_step]
  split_ifs <;>
    simp only [unwritten_set_indention, unwritten_set_whitespace, unwritten_WRITE,
      unwritten_WRITE_BREAK, unwritten_write_indent, unwritten_PUT, unwritten_PUT_BREAK,
      unwritten_PUT_foldl]

theorem unwritten_write_plain_loop (allow_breaks : Bool) (fuel : Nat) :
    ∀ (emitter : yaml_emitter_t) (string : yaml_string_t) (spaces breaks : Bool)
      (result : yaml_emitter_t),
      write_plain_loop allow_breaks fuel emitter string spaces breaks = some result →
      unwritten result = unwritten emitter := by
  induction fuel with
  | zero =>
    intro emitter string spaces breaks result h
    simp only [write_plain_loop] at h
    split_ifs at h
    cases h
    rfl
  | succ fuel ih =>
    intro emitter string spaces breaks result h
    simp only [write_plain_loop] at h
    split_ifs at h
    · rw [ih _ _ _ _ _ h]
      exact unwritten_write_plain_step _ _ _ _ _
    · cases h
      rfl

theorem unwritten_write_plain_scalar (emitter : yaml_emitter_t) (value : List yaml_char_t)
    (allow_breaks : Bool) (result : yaml_emitter_t)
    (h : yaml_emitter_write_plain_scalar emitter value allow_breaks = some result) :
    unwritten result = unwritten emitter := by
  simp only [yaml_emitter_write_plain_scalar, Option.map_eq_some'] at h
  obtain ⟨written, hloop, hresult⟩ := h
  subst hresult
  rw [unwritten_set_whitespace, unwritten_write_plain_loop _ _ _ _ _ _ _ hloop]
  exact unwritten_ite _ _ _ _ rfl rfl

theorem unwritten_write_single_quoted_step (allow_breaks : Bool) (emitter : yaml_emitter_t)
    (string : yaml_string_t) (spaces breaks : Bool) :
    unwritten (write_single_quoted_step allow_breaks emitter string spaces breaks).1
      = unwritten emitter := by
  simp only [write_single_quoted_step]
  split_ifs <;>
    simp only [unwritten_set_indention, unwritten_set_whitespace, unwritten_WRITE,
      unwritten_WRITE_BREAK, unwritten_write_indent, unwritten_PUT, unwritten_PUT_BREAK,
      unwritten_PUT_foldl]

theorem unwritten_write_single_quoted_loop (allow_breaks : Bool) (fuel : Nat) :
    ∀ (emitter : yaml_emitter_t) (string : yaml_string_t) (spaces breaks : Bool)
      (result : yaml_emitter_t),
      write_single_quoted_loop allow_breaks fuel emitter string spaces breaks = some result →
      unwritten result = unwritten emitter := by
  induction fuel with
  | zero =>
    intro emitter string spaces breaks result h
    simp only [write_single_quoted_loop] at h
    split_ifs at h
    cases h
    rfl
  | succ fuel ih =>
    intro emitter string spaces breaks result h
    simp only [write_single_quoted_loop] at h
    split_ifs at h
    · rw [ih _ _ _ _ _ h]
      exact unwritten_write_single_quoted_step _ _ _ _ _
    · cases h
      rfl

theorem unwritten_write_single_quoted_scalar (emitter : yaml_emitter_t)
    (value : List yaml_char_t) (allow_breaks : Bool) (result : yaml_emitter_t)
    (h : yaml_emitter_write_single_quoted_scalar emitter value allow_breaks = some result) :
    unwritten result = unwritten emitter := by
  simp only [yaml_emitter_write_single_quoted_scalar, Option.bind_eq_bind,
    Option.bind_eq_some, Option.map_eq_some'] at h
  obtain ⟨opened, hopen, written, hloop, closed, hclose, hresult⟩ := h
  subst hresult
  rw [unwritten_set_whitespace, unwritten_write_indicator _ _ _ _ _ _ hclose,
    unwritten_write_single_quoted_loop _ _ _ _ _ _ _ hloop,
    unwritten_write_indicator _ _ _ _ _ _ hopen]

theorem unwritten_write_double_quoted_step (allow_breaks : Bool) (emitter : yaml_emitter_t)
    (string : yaml_string_t) (spaces : Bool) :
    unwritten (write_double_quoted_step allow_breaks emitter string spaces).1
      = unwritten emitter := by
  simp only [write_double_quoted_step]
  split_ifs <;>
    simp only [unwritten_set_indention, unwritten_set_whitespace, unwritten_WRITE,
      unwritten_WRITE_BREAK, unwritten_write_indent, unwritten_PUT, unwritten_PUT_BREAK,
      unwritten_PUT_foldl]

theorem unwritten_write_double_quoted_loop (allow_breaks : Bool) (fuel : Nat) :
    ∀ (emitter : yaml_emitter_t) (string : yaml_string_t) (spaces : Bool)
      (result : yaml_emitter_t),
      write_double_quoted_loop allow_breaks fuel emitter string spaces = some result →
      unwritten result = unwritten emitter := by
  induction fuel with
  | zero =>
    intro emitter string spaces result h
    simp only [write_double_quoted_loop] at h
    split_ifs at h
    cases h
    rfl
  | succ fuel ih =>
    intro emitter string spaces result h
    simp only [write_double_quoted_loop] at h
    split_ifs at h
    · rw [ih _ _ _ _ h]
      exact unwritten_write_double_quoted_step _ _ _ _
    · cases h
      rfl

theorem unwritten_write_double_quoted_scalar (emitter : yaml_emitter_t)
    (value : List yaml_char_t) (allow_breaks : Bool) (result : yaml_emitter_t)
    (h : yaml_emitter_write_double_quoted_scalar emitter value allow_breaks = some result) :
    unwritten result = unwritten emitter := by
  simp only [yaml_emitter_write_double_quoted_scalar, Option.bind_eq_bind,
    Option.bind_eq_some, Option.map_eq_some'] at h
  obtain ⟨opened, hopen, written, hloop, closed, hclose, hresult⟩ := h
  subst hresult
  rw [unwritten_set_whitespace, unwritten_write_indicator _ _ _ _ _ _ hclose,
    unwritten_write_double_quoted_loop _ _ _ _ _ _ hloop,
    unwritten_write_indicator _ _ _ _ _ _ hopen]

theorem unwritten_write_literal_step (emitter : yaml_emitter_t) (string : yaml_string_t)
    (breaks : Bool) :
    unwritten (write_literal_step emitter string breaks).1 = unwritten emitter := by
  simp only [write_literal_step]
  split_ifs <;>
    simp only [unwritten_set_indention, unwritten_set_whitespace, unwritten_WRITE,
      unwritten_WRITE_BREAK, unwritten_write_indent, unwritten_PUT, unwritten_PUT_BREAK,
      unwritten_PUT_foldl]

theorem unwritten_write_literal_loop (fuel : Nat) :
    ∀ (emitter : yaml_emitter_t) (string : yaml_string_t) (breaks : Bool)
      (result : yaml_emitter_t),
      write_literal_loop fuel emitter string breaks = some result →
      unwritten result = unwritten emitter := by
  induction fuel with
  | zero =>
    intro emitter string breaks result h
    simp only [write_literal_loop] at h
    split_ifs at h
    cases h
    rfl
  | succ fuel ih =>
    intro emitter string breaks result h
    simp only [write_literal_loop] at h
    split_ifs at h
    · rw [ih _ _ _ _ h]
      exact unwritten_write_literal_step _ _ _
    · cases h
      rfl

theorem unwritten_write_literal_scalar (emitter : yaml_emitter_t) (value : List yaml_char_t)
    (result : yaml_emitter_t)
    (h : yaml_emitter_write_literal_scalar emitter value = some result) :
    unwritten result = unwritten emitter := by
  simp only [yaml_emitter_write_literal_scalar, Option.bind_eq_bind,
    Option.bind_eq_some] at h
  obtain ⟨chomp, _, opened, hopen, hloop⟩ := h
  rw [unwritten_write_literal_loop _ _ _ _ _ hloop, unwritten_write_indent,
    unwritten_write_indicator _ _ _ _ _ _ hopen]

theorem unwritten_write_folded_step (emitter : yaml_emitter_t) (string : yaml_string_t)
    (breaks leading_spaces : Bool) (step : yaml_emitter_t × yaml_string_t × Bool × Bool)
    (h : write_folded_step emitter string breaks leading_spaces = some step) :
    unwritten step.1 = unwritten emitter := by
  simp only [write_folded_step] at h
  by_cases hbreak : IS_BREAK string = true
  · rw [if_pos hbreak] at h
    simp only [Option.map_eq_some'] at h
    obtain ⟨written, hwritten, hstep⟩ := h
    subst hstep
    rw [unwritten_set_indention, unwritten_WRITE_BREAK]
    split_ifs at hwritten
    · simp only [Option.map_eq_some'] at hwritten
      obtain ⟨k, _, hk⟩ := hwritten
      subst hk
      exact unwritten_ite _ _ _ _ rfl rfl
    · cases hwritten
      rfl
  · rw [if_neg hbreak] at h
    split_ifs at h
    all_goals
      simp only [Option.some.injEq] at h
      subst h
      simp only [unwritten_set_indention, unwritten_WRITE, unwritten_write_indent]

theorem unwritten_write_folded_loop (fuel : Nat) :
    ∀ (emitter : yaml_emitter_t) (string : yaml_string_t) (breaks leading_spaces : Bool)
      (result : yaml_emitter_t),
      write_folded_loop fuel emitter string breaks leading_spaces = some result →
      unwritten result = unwritten emitter := by
  induction fuel with
  | zero =>
    intro emitter string breaks leading_spaces result h
    simp only [write_folded_loop] at h
    split_ifs at h
    cases h
    rfl
  | succ fuel ih =>
    intro emitter string breaks leading_spaces result h
    simp only [write_folded_loop] at h
    split_ifs at h
    · simp only [Option.bind_eq_bind, Option.bind_eq_some] at h
      obtain ⟨step, hstep, hloop⟩ := h
      rw [ih _ _ _ _ _ hloop]
      exact unwritten_write_folded_step _ _ _ _ _ hstep
    · cases h
      rfl

theorem unwritten_write_folded_scalar (emitter : yaml_emitter_t) (value : List yaml_char_t)
    (result : yaml_emitter_t)
    (h : yaml_emitter_write_folded_scalar emitter value = some result) :
    unwritten result = unwritten emitter := by
  simp only [yaml_emitter_write_folded_scalar, Option.bind_eq_bind,
    Option.bind_eq_some] at h
  obtain ⟨chomp, _, opened, hopen, hloop⟩ := h
  rw [unwritten_write_folded_loop _ _ _ _ _ _ hloop, unwritten_write_indent,
    unwritten_write_indicator _ _ _ _ _ _ hopen]

/-! ## Theorems: the writers return on valid UTF-8 -/

/-- One iteration of the loop of `yaml_emitter_write_plain_scalar` on a UTF-8
character moves the pointer past it. -/
theorem write_plain_step_string (allow_breaks : Bool) (emitter : yaml_emitter_t)
    (before octets after : List yaml_char_t) (spaces breaks : Bool)
    (hc : is_utf8_character octets = true) :
    (write_plain_step allow_breaks emitter
      (string_at (before ++ (octets ++ after)) before.length) spaces breaks).2.1
        = string_at ((before ++ octets) ++ after) (before ++ octets).length := by
  have hmove := MOVE_utf8_character before octets after hc
  have hwrite := fun e => (WRITE_utf8_character before octets after e hc).2
  by_cases hspace : IS_SPACE (string_at (before ++ (octets ++ after)) before.length) = true
  · simp only [write_plain_step, if_pos hspace]
    split_ifs
    · exact hmove
    · exact hwrite emitter
  · by_cases hbreak : IS_BREAK (string_at (before ++ (octets ++ after)) before.length) = true
    · have his : is_break_character octets = true := by
        rw [← IS_BREAK_utf8_character before octets after hc]
        exact hbreak
      simp only [write_plain_step, if_neg hspace, if_pos hbreak]
      exact WRITE_BREAK_utf8_character before octets after _ hc his
    · simp only [write_plain_step, if_neg hspace, if_neg hbreak]
      exact hwrite _

/-- The loop of `yaml_emitter_write_plain_scalar` over a string of UTF-8
characters ends. -/
theorem write_plain_loop_returns (allow_breaks : Bool) (characters : List (List yaml_char_t)) :
    ∀ (before : List yaml_char_t) (emitter : yaml_emitter_t) (spaces breaks : Bool) (fuel : Nat),
      (∀ octets ∈ characters, is_utf8_character octets = true) →
      characters.length ≤ fuel →
      ∃ result, write_plain_loop allow_breaks fuel emitter
          (string_at (before ++ characters.flatten) before.length) spaces breaks
            = some result := by
  induction characters with
  | nil =>
    intro before emitter spaces breaks fuel _ _
    refine ⟨emitter, ?_⟩
    have hend := string_at_end before
    cases fuel <;> simp only [write_plain_loop, List.flatten_nil, if_neg hend]
  | cons c cs ih =>
    intro before emitter spaces breaks fuel hall hfuel
    have hc := hall c (List.mem_cons_self _ _)
    have hcs : ∀ octets ∈ cs, is_utf8_character octets = true :=
      fun o ho => hall o (List.mem_cons_of_mem _ ho)
    cases fuel with
    | zero => simp at hfuel
    | succ fuel =>
      have hlt := string_at_lt before c cs.flatten hc
      have hnext := write_plain_step_string allow_breaks emitter before c cs.flatten spaces
        breaks hc
      simp only [List.flatten_cons, write_plain_loop, if_pos hlt, hnext]
      exact ih (before ++ c) _ _ _ fuel hcs (by simp only [List.length_cons] at hfuel; omega)

/-- The string of a value of UTF-8 characters, read from its start. -/
theorem STRING_characters (value : List yaml_char_t) (characters : List (List yaml_char_t))
    (hflat : characters.flatten = value) :
    STRING value value.length
      = string_at ([] ++ characters.flatten) ([] : List yaml_char_t).length ∧
    (string_at ([] ++ characters.flatten) ([] : List yaml_char_t).length).capacity
      = value.length := by
  rw [hflat]
  exact ⟨rfl, rfl⟩

/-- `yaml_emitter_write_plain_scalar` on valid UTF-8 returns. -/
theorem write_plain_scalar_returns (emitter : yaml_emitter_t) (value : List yaml_char_t)
    (allow_breaks : Bool) (hvalue : is_valid_utf8 value = true) :
    ∃ result, yaml_emitter_write_plain_scalar emitter value allow_breaks = some result := by
  obtain ⟨characters, hflat, hall⟩ := is_valid_utf8_characters value hvalue
  obtain ⟨result, hloop⟩ := write_plain_loop_returns allow_breaks characters []
    (if !emitter.is_whitespace then PUT emitter 0x20 else emitter) false false value.length hall
    (by rw [← hflat]; exact length_le_flatten_length characters hall)
  obtain ⟨hstring, hcapacity⟩ := STRING_characters value characters hflat
  refine ⟨{ result with is_whitespace := false, is_indention := false }, ?_⟩
  simp only [yaml_emitter_write_plain_scalar, hstring]
  rw [hcapacity, hloop]
  rfl

/-- One iteration of the loop of `yaml_emitter_write_single_quoted_scalar` on a
UTF-8 character moves the pointer past it. -/
theorem write_single_quoted_step_string (allow_breaks : Bool) (emitter : yaml_emitter_t)
    (before octets after : List yaml_char_t) (spaces breaks : Bool)
    (hc : is_utf8_character octets = true) :
    (write_single_quoted_step allow_breaks emitter
      (string_at (before ++ (octets ++ after)) before.length) spaces breaks).2.1
        = string_at ((before ++ octets) ++ after) (before ++ octets).length := by
  have hmove := MOVE_utf8_character before octets after hc
  have hwrite := fun e => (WRITE_utf8_character before octets after e hc).2
  by_cases hspace : IS_SPACE (string_at (before ++ (octets ++ after)) before.length) = true
  · simp only [write_single_quoted_step, if_pos hspace]
    split_ifs
    · exact hmove
    · exact hwrite emitter
  · by_cases hbreak : IS_BREAK (string_at (before ++ (octets ++ after)) before.length) = true
    · have his : is_break_character octets = true := by
        rw [← IS_BREAK_utf8_character before octets after hc]
        exact hbreak
      simp only [write_single_quoted_step, if_neg hspace, if_pos hbreak]
      exact WRITE_BREAK_utf8_character before octets after _ hc his
    · simp only [write_single_quoted_step, if_neg hspace, if_neg hbreak]
      exact hwrite _

/-- The loop of `yaml_emitter_write_single_quoted_scalar` over a string of UTF-8
characters ends. -/
theorem write_single_quoted_loop_returns (allow_breaks : Bool)
    (characters : List (List yaml_char_t)) :
    ∀ (before : List yaml_char_t) (emitter : yaml_emitter_t) (spaces breaks : Bool) (fuel : Nat),
      (∀ octets ∈ characters, is_utf8_character octets = true) →
      characters.length ≤ fuel →
      ∃ result, write_single_quoted_loop allow_breaks fuel emitter
          (string_at (before ++ characters.flatten) before.length) spaces breaks
            = some result := by
  induction characters with
  | nil =>
    intro before emitter spaces breaks fuel _ _
    refine ⟨emitter, ?_⟩
    have hend := string_at_end before
    cases fuel <;> simp only [write_single_quoted_loop, List.flatten_nil, if_neg hend]
  | cons c cs ih =>
    intro before emitter spaces breaks fuel hall hfuel
    have hc := hall c (List.mem_cons_self _ _)
    have hcs : ∀ octets ∈ cs, is_utf8_character octets = true :=
      fun o ho => hall o (List.mem_cons_of_mem _ ho)
    cases fuel with
    | zero => simp at hfuel
    | succ fuel =>
      have hlt := string_at_lt before c cs.flatten hc
      have hnext := write_single_quoted_step_string allow_breaks emitter before c cs.flatten
        spaces breaks hc
      simp only [List.flatten_cons, write_single_quoted_loop, if_pos hlt, hnext]
      exact ih (before ++ c) _ _ _ fuel hcs (by simp only [List.length_cons] at hfuel; omega)

/-- `yaml_emitter_write_indicator` on an indicator of ASCII octets returns. -/
theorem write_indicator_returns (emitter : yaml_emitter_t) (indicator : List yaml_char_t)
    (need_whitespace is_whitespace is_indention : Bool)
    (h : ∀ octet ∈ indicator, octet < 0x80) :
    ∃ result, yaml_emitter_write_indicator emitter indicator need_whitespace is_whitespace
      is_indention = some result :=
  ⟨_, write_indicator_ascii emitter indicator need_whitespace is_whitespace is_indention h⟩

/-- `yaml_emitter_write_single_quoted_scalar` on valid UTF-8 returns. -/
theorem write_single_quoted_scalar_returns (emitter : yaml_emitter_t)
    (value : List yaml_char_t) (allow_breaks : Bool) (hvalue : is_valid_utf8 value = true) :
    ∃ result, yaml_emitter_write_single_quoted_scalar emitter value allow_breaks
      = some result := by
  obtain ⟨characters, hflat, hall⟩ := is_valid_utf8_characters value hvalue
  obtain ⟨opened, hopen⟩ := write_indicator_returns emitter [0x27] true false false
    (by decide)
  obtain ⟨written, hloop⟩ := write_single_quoted_loop_returns allow_breaks characters []
    opened false false value.length hall
    (by rw [← hflat]; exact length_le_flatten_length characters hall)
  obtain ⟨closed, hclose⟩ := write_indicator_returns written [0x27] false false false
    (by decide)
  obtain ⟨hstring, hcapacity⟩ := STRING_characters value characters hflat
  refine ⟨{ closed with is_whitespace := false, is_indention := false }, ?_⟩
  simp only [yaml_emitter_write_single_quoted_scalar, hstring, hopen, Option.bind_eq_bind,
    Option.some_bind]
  rw [hcapacity, hloop]
  simp only [Option.some_bind, hclose, Option.map_some']

/-- One iteration of the loop of `yaml_emitter_write_double_quoted_scalar` on a
UTF-8 character moves the pointer past it. -/
theorem write_double_quoted_step_string (allow_breaks : Bool) (emitter : yaml_emitter_t)
    (before octets after : List Nat) (spaces : Bool)
    (hc : is_utf8_character octets = true) :
    (write_double_quoted_step allow_breaks emitter
      (string_at (before ++ (octets ++ after)) before.length) spaces).2.1
        = string_at ((before ++ octets) ++ after) (before ++ octets).length := by
  have hmove := MOVE_utf8_character before octets after hc
  have hwrite := fun e => (WRITE_utf8_character before octets after e hc).2
  by_cases hescaped : write_double_quoted_is_escaped emitter
      (string_at (before ++ (octets ++ after)) before.length) = true
  · simp only [write_double_quoted_step, if_pos hescaped,
      (double_quoted_character before octets after hc).1]
    exact string_at_append_move before octets after
  · simp only [write_double_quoted_step, if_neg hescaped]
    split_ifs
    all_goals exact hmove

/-- The loop of `yaml_emitter_write_double_quoted_scalar` over a string of UTF-8
characters ends. -/
theorem write_double_quoted_loop_returns (allow_breaks : Bool)
    (characters : List (List Nat)) :
    ∀ (before : List Nat) (emitter : yaml_emitter_t) (spaces : Bool) (fuel : Nat),
      (∀ octets ∈ characters, is_utf8_character octets = true) →
      characters.length ≤ fuel →
      ∃ result, write_double_quoted_loop allow_breaks fuel emitter
          (string_at (before ++ characters.flatten) before.length) spaces = some result := by
  induction characters with
  | nil =>
    intro before emitter spaces fuel _ _
    refine ⟨emitter, ?_⟩
    have hend := string_at_end before
    cases fuel <;> simp only [write_double_quoted_loop, List.flatten_nil, if_neg hend]
  | cons c cs ih =>
    intro before emitter spaces fuel hall hfuel
    have hc := hall c (List.mem_cons_self _ _)
    have hcs : ∀ octets ∈ cs, is_utf8_character octets = true :=
      fun o ho => hall o (List.mem_cons_of_mem _ ho)
    cases fuel with
    | zero => simp at hfuel
    | succ fuel =>
      have hlt := string_at_lt before c cs.flatten hc
      have hnext := write_double_quoted_step_string allow_breaks emitter before c cs.flatten
        spaces hc
      simp only [List.flatten_cons, write_double_quoted_loop, if_pos hlt, hnext]
      exact ih (before ++ c) _ _ fuel hcs (by simp only [List.length_cons] at hfuel; omega)

/-- `yaml_emitter_write_double_quoted_scalar` on valid UTF-8 returns. -/
theorem write_double_quoted_scalar_returns (emitter : yaml_emitter_t)
    (value : List yaml_char_t) (allow_breaks : Bool) (hvalue : is_valid_utf8 value = true) :
    ∃ result, yaml_emitter_write_double_quoted_scalar emitter value allow_breaks
      = some result := by
  obtain ⟨characters, hflat, hall⟩ := is_valid_utf8_characters value hvalue
  obtain ⟨opened, hopen⟩ := write_indicator_returns emitter [0x22] true false false
    (by decide)
  obtain ⟨written, hloop⟩ := write_double_quoted_loop_returns allow_breaks characters []
    opened false value.length hall
    (by rw [← hflat]; exact length_le_flatten_length characters hall)
  obtain ⟨closed, hclose⟩ := write_indicator_returns written [0x22] false false false
    (by decide)
  obtain ⟨hstring, hcapacity⟩ := STRING_characters value characters hflat
  refine ⟨{ closed with is_whitespace := false, is_indention := false }, ?_⟩
  simp only [yaml_emitter_write_double_quoted_scalar, hstring, hopen, Option.bind_eq_bind,
    Option.some_bind]
  rw [hcapacity, hloop]
  simp only [Option.some_bind, hclose, Option.map_some']

/-- One iteration of the loop of `yaml_emitter_write_literal_scalar` on a UTF-8
character moves the pointer past it. -/
theorem write_literal_step_string (emitter : yaml_emitter_t)
    (before octets after : List yaml_char_t) (breaks : Bool)
    (hc : is_utf8_character octets = true) :
    (write_literal_step emitter
      (string_at (before ++ (octets ++ after)) before.length) breaks).2.1
        = string_at ((before ++ octets) ++ after) (before ++ octets).length := by
  have hwrite := fun e => (WRITE_utf8_character before octets after e hc).2
  by_cases hbreak : IS_BREAK (string_at (before ++ (octets ++ after)) before.length) = true
  · have his : is_break_character octets = true := by
      rw [← IS_BREAK_utf8_character before octets after hc]
      exact hbreak
    simp only [write_literal_step, if_pos hbreak]
    exact WRITE_BREAK_utf8_character before octets after _ hc his
  · simp only [write_literal_step, if_neg hbreak]
    exact hwrite _

/-- The loop of `yaml_emitter_write_literal_scalar` over a string of UTF-8
characters ends. -/
theorem write_literal_loop_returns (characters : List (List yaml_char_t)) :
    ∀ (before : List yaml_char_t) (emitter : yaml_emitter_t) (breaks : Bool) (fuel : Nat),
      (∀ octets ∈ characters, is_utf8_character octets = true) →
      characters.length ≤ fuel →
      ∃ result, write_literal_loop fuel emitter
          (string_at (before ++ characters.flatten) before.length) breaks = some result := by
  induction characters with
  | nil =>
    intro before emitter breaks fuel _ _
    refine ⟨emitter, ?_⟩
    have hend := string_at_end before
    cases fuel <;> simp only [write_literal_loop, List.flatten_nil, if_neg hend]
  | cons c cs ih =>
    intro before emitter breaks fuel hall hfuel
    have hc := hall c (List.mem_cons_self _ _)
    have hcs : ∀ octets ∈ cs, is_utf8_character octets = true :=
      fun o ho => hall o (List.mem_cons_of_mem _ ho)
    cases fuel with
    | zero => simp at hfuel
    | succ fuel =>
      have hlt := string_at_lt before c cs.flatten hc
      have hnext := write_literal_step_string emitter before c cs.flatten breaks hc
      simp only [List.flatten_cons, write_literal_loop, if_pos hlt, hnext]
      exact ih (before ++ c) _ _ fuel hcs (by simp only [List.length_cons] at hfuel; omega)

/-- The header of a literal or folded scalar is made of ASCII octets. -/
theorem block_scalar_indicator_ascii (indicator : yaml_char_t) (chomp : Int)
    (h : indicator < 0x80) :
    ∀ octet ∈ block_scalar_indicator indicator chomp, octet < 0x80 := by
  intro octet hmem
  simp only [block_scalar_indicator] at hmem
  split_ifs at hmem <;>
    simp only [List.mem_cons, List.mem_singleton, List.not_mem_nil, or_false] at hmem <;>
    rcases hmem with rfl | rfl <;> first | exact h | decide

/-- `yaml_emitter_write_literal_scalar` on valid UTF-8 returns. -/
theorem write_literal_scalar_returns (emitter : yaml_emitter_t) (value : List yaml_char_t)
    (hvalue : is_valid_utf8 value = true) :
    ∃ result, yaml_emitter_write_literal_scalar emitter value = some result := by
  obtain ⟨characters, hflat, hall⟩ := is_valid_utf8_characters value hvalue
  obtain ⟨chomp, hchomp⟩ := determine_chomping_returns emitter value hvalue
  obtain ⟨opened, hopen⟩ := write_indicator_returns emitter
    (block_scalar_indicator 0x7C chomp) true false false
    (block_scalar_indicator_ascii 0x7C chomp (by decide))
  obtain ⟨written, hloop⟩ := write_literal_loop_returns characters []
    (yaml_emitter_write_indent opened) false value.length hall
    (by rw [← hflat]; exact length_le_flatten_length characters hall)
  obtain ⟨hstring, hcapacity⟩ := STRING_characters value characters hflat
  refine ⟨written, ?_⟩
  simp only [yaml_emitter_write_literal_scalar, hchomp, Option.bind_eq_bind, Option.some_bind,
    hopen]
  rw [hstring, hcapacity, hloop]

/-- One iteration of the loop of `yaml_emitter_write_folded_scalar` on a UTF-8
character ends and moves the pointer past it. -/
theorem write_folded_step_string (emitter : yaml_emitter_t)
    (before octets after : List yaml_char_t) (breaks leading_spaces : Bool)
    (hc : is_utf8_character octets = true) :
    ∃ step, write_folded_step emitter
        (string_at (before ++ (octets ++ after)) before.length) breaks leading_spaces
          = some step ∧
      step.2.1 = string_at ((before ++ octets) ++ after) (before ++ octets).length := by
  have hmove := MOVE_utf8_character before octets after hc
  have hwrite := fun e => (WRITE_utf8_character before octets after e hc).2
  by_cases hbreak : IS_BREAK (string_at (before ++ (octets ++ after)) before.length) = true
  · have his : is_break_character octets = true := by
      rw [← IS_BREAK_utf8_character before octets after hc]
      exact hbreak
    obtain ⟨k, hk⟩ := write_folded_skip_breaks_returns
      (string_at (before ++ (octets ++ after)) before.length)
      ((string_at (before ++ (octets ++ after)) before.length).capacity + 1) 0
      (by simp only [string_at]; omega)
    simp only [write_folded_step, if_pos hbreak, hk, Option.map_some']
    split_ifs
    all_goals
      simp only [Option.map_some']
      exact ⟨_, rfl, WRITE_BREAK_utf8_character before octets after _ hc his⟩
  · simp only [write_folded_step, if_neg hbreak]
    split_ifs
    all_goals exact ⟨_, rfl, hmove⟩

/-- The loop of `yaml_emitter_write_folded_scalar` over a string of UTF-8
characters ends. -/
theorem write_folded_loop_returns (characters : List (List yaml_char_t)) :
    ∀ (before : List yaml_char_t) (emitter : yaml_emitter_t) (breaks leading_spaces : Bool)
      (fuel : Nat),
      (∀ octets ∈ characters, is_utf8_character octets = true) →
      characters.length ≤ fuel →
      ∃ result, write_folded_loop fuel emitter
          (string_at (before ++ characters.flatten) before.length) breaks leading_spaces
            = some result := by
  induction characters with
  | nil =>
    intro before emitter breaks leading_spaces fuel _ _
    refine ⟨emitter, ?_⟩
    have hend := string_at_end before
    cases fuel <;> simp only [write_folded_loop, List.flatten_nil, if_neg hend]
  | cons c cs ih =>
    intro before emitter breaks leading_spaces fuel hall hfuel
    have hc := hall c (List.mem_cons_self _ _)
    have hcs : ∀ octets ∈ cs, is_utf8_character octets = true :=
      fun o ho => hall o (List.mem_cons_of_mem _ ho)
    cases fuel with
    | zero => simp at hfuel
    | succ fuel =>
      have hlt := string_at_lt before c cs.flatten hc
      obtain ⟨step, hstep, hnext⟩ := write_folded_step_string emitter before c cs.flatten
        breaks leading_spaces hc
      simp only [List.flatten_cons, write_folded_loop, if_pos hlt, hstep, Option.bind_eq_bind,
        Option.some_bind, hnext]
      exact ih (before ++ c) _ _ _ fuel hcs (by simp only [List.length_cons] at hfuel; omega)

/-- `yaml_emitter_write_folded_scalar` on valid UTF-8 returns. -/
theorem write_folded_scalar_returns (emitter : yaml_emitter_t) (value : List yaml_char_t)
    (hvalue : is_valid_utf8 value = true) :
    ∃ result, yaml_emitter_write_folded_scalar emitter value = some result := by
  obtain ⟨characters, hflat, hall⟩ := is_valid_utf8_characters value hvalue
  obtain ⟨chomp, hchomp⟩ := determine_chomping_returns emitter value hvalue
  obtain ⟨opened, hopen⟩ := write_indicator_returns emitter
    (block_scalar_indicator 0x3E chomp) true false false
    (block_scalar_indicator_ascii 0x3E chomp (by decide))
  obtain ⟨written, hloop⟩ := write_folded_loop_returns characters []
    (yaml_emitter_write_indent opened) true false value.length hall
    (by rw [← hflat]; exact length_le_flatten_length characters hall)
  obtain ⟨hstring, hcapacity⟩ := STRING_characters value characters hflat
  refine ⟨written, ?_⟩
  simp only [yaml_emitter_write_folded_scalar, hchomp, Option.bind_eq_bind, Option.some_bind,
    hopen]
  rw [hstring, hcapacity, hloop]

/-- `yaml_emitter_write_anchor` on valid UTF-8 returns. -/
theorem write_anchor_returns (emitter : yaml_emitter_t) (value : List yaml_char_t)
    (hvalue : is_valid_utf8 value = true) :
    ∃ result, yaml_emitter_write_anchor emitter value = some result := by
  obtain ⟨characters, hflat, hall⟩ := is_valid_utf8_characters value hvalue
  have hloop := write_string_loop_spec characters [] emitter value.length hall
    (by rw [← hflat]; exact length_le_flatten_length characters hall)
  obtain ⟨hstring, hcapacity⟩ := STRING_characters value characters hflat
  simp only [yaml_emitter_write_anchor, hstring]
  rw [hcapacity, hloop]
  exact ⟨_, rfl⟩

/-- `yaml_emitter_write_tag_handle` on valid UTF-8 returns. -/
theorem write_tag_handle_returns_utf8 (emitter : yaml_emitter_t) (value : List yaml_char_t)
    (hvalue : is_valid_utf8 value = true) :
    ∃ result, yaml_emitter_write_tag_handle emitter value = some result := by
  obtain ⟨characters, hflat, hall⟩ := is_valid_utf8_characters value hvalue
  have hloop := write_string_loop_spec characters []
    (if !emitter.is_whitespace then PUT emitter 0x20 else emitter) value.length hall
    (by rw [← hflat]; exact length_le_flatten_length characters hall)
  obtain ⟨hstring, hcapacity⟩ := STRING_characters value characters hflat
  simp only [yaml_emitter_write_tag_handle, hstring]
  rw [hcapacity, hloop]
  exact ⟨_, rfl⟩

/-! ## Theorems: the progress of the writer loops -/

set_option maxRecDepth 100000 in
/-- On an octet that is not a UTF-8 lead byte the widths computed by the
writers are 0. -/
theorem non_lead_octet_width :
    ∀ octet : Nat, octet < 256 → (0x80 ≤ octet ∧ octet < 0xC0) ∨ 0xF8 ≤ octet →
      double_quoted_width octet = 0 ∧ WIDTH (string_at [octet] 0) = 0 := by
  decide

/-- C38: for every valid UTF-8 value, which is a string of UTF-8 characters,
an iteration of the main loop of `yaml_emitter_write_double_quoted_scalar`
that starts before one of the characters moves the read position past that
character, by at least one octet and not past the end of the value, and so
does an iteration of the percent-encoding loop of
`yaml_emitter_write_tag_content`, in the branch that copies the character and
in the branch that escapes its octets; both writers return on the value.  The
precondition matters: on an octet that is not a UTF-8 lead byte the width
computed is 0, and on the value of the single octet `0x80` neither writer
returns. -/
theorem writer_loops_progress (value : List yaml_char_t)
    (hvalid : is_valid_utf8 value = true) :
    (∀ (emitter : yaml_emitter_t) (allow_breaks : Bool),
      ∃ result, yaml_emitter_write_double_quoted_scalar emitter value allow_breaks
        = some result) ∧
    (∀ (emitter : yaml_emitter_t) (need_whitespace : Bool),
      ∃ result, yaml_emitter_write_tag_content emitter value need_whitespace = some result) ∧
    (∃ characters : List (List yaml_char_t), characters.flatten = value ∧
      ∀ (done rest : List (List yaml_char_t)) (octets : List yaml_char_t),
        characters = done ++ octets :: rest →
        0 < octets.length ∧ done.flatten.length + octets.length ≤ value.length ∧
        ∀ (emitter : yaml_emitter_t) (allow_breaks spaces : Bool),
          (write_double_quoted_step allow_breaks emitter
              (string_at value done.flatten.length) spaces).2.1
            = string_at value (done.flatten.length + octets.length) ∧
          (WRITE emitter (string_at value done.flatten.length)).2
            = string_at value (done.flatten.length + octets.length) ∧
          (write_tag_content_escape (WIDTH (string_at value done.flatten.length)) emitter
              (string_at value done.flatten.length)).2
            = string_at value (done.flatten.length + octets.length)) ∧
    (∀ octet : Nat, octet < 256 → (0x80 ≤ octet ∧ octet < 0xC0) ∨ 0xF8 ≤ octet →
      double_quoted_width octet = 0 ∧ WIDTH (string_at [octet] 0) = 0) ∧
    yaml_emitter_write_double_quoted_scalar emitter_initial [0x80] true = none ∧
    yaml_emitter_write_tag_content emitter_initial [0x80] false = none := by
  refine ⟨fun emitter allow_breaks =>
      write_double_quoted_scalar_returns emitter value allow_breaks hvalid,
    fun emitter need_whitespace =>
      write_tag_content_returns emitter value need_whitespace hvalid, ?_, ?_, by decide,
    by decide⟩
  · obtain ⟨characters, hflat, hall⟩ := is_valid_utf8_characters value hvalid
    refine ⟨characters, hflat, ?_⟩
    intro done rest octets hsplit
    have hc : is_utf8_character octets = true := hall octets (by rw [hsplit]; simp)
    have hpos : 0 < octets.length := List.length_pos.mpr (is_utf8_character_ne_nil octets hc)
    have hvalue : value = done.flatten ++ (octets ++ rest.flatten) := by
      rw [← hflat, hsplit]
      simp
    have hnext : string_at ((done.flatten ++ octets) ++ rest.flatten)
        (done.flatten ++ octets).length
          = string_at value (done.flatten.length + octets.length) := by
      rw [hvalue, List.length_append, List.append_assoc]
    refine ⟨hpos, ?_, ?_⟩
    · rw [hvalue]
      simp only [List.length_append]
      omega
    · intro emitter allow_breaks spaces
      obtain ⟨hlt256, _⟩ := is_utf8_character_octets octets hc
      refine ⟨?_, ?_, ?_⟩
      · rw [← hnext]
        nth_rewrite 1 [hvalue]
        exact write_double_quoted_step_string allow_breaks emitter done.flatten octets
          rest.flatten spaces hc
      · rw [← hnext]
        nth_rewrite 1 [hvalue]
        exact (WRITE_utf8_character done.flatten octets rest.flatten emitter hc).2
      · rw [← hnext]
        nth_rewrite 1 [hvalue]
        nth_rewrite 1 [hvalue]
        rw [(WIDTH_utf8_character done.flatten octets rest.flatten hc).1]
        exact (write_tag_content_escape_spec octets done.flatten rest.flatten emitter
          hlt256).1
  · exact non_lead_octet_width

/-- Witness of C38: both writers return on the value `é` (the octets `C3 A9`),
one character of two octets. -/
theorem writer_loops_progress_witness :
    (∃ result, yaml_emitter_write_double_quoted_scalar emitter_initial [0xC3, 0xA9] true
      = some result) ∧
    (∃ result, yaml_emitter_write_tag_content emitter_initial [0xC3, 0xA9] false
      = some result) :=
  ⟨(writer_loops_progress [0xC3, 0xA9] (by decide)).1 emitter_initial true,
    (writer_loops_progress [0xC3, 0xA9] (by decide)).2.1 emitter_initial false⟩

/-! ## Theorems: the processors and the control part -/

/-- Emitters that agree apart from what is written have the same control
part. -/
theorem control_of_unwritten (first second : yaml_emitter_t)
    (h : unwritten first = unwritten second) : control first = control second := by
  simp only [control, h]

theorem control_EMITTER_ERROR_INIT (emitter : yaml_emitter_t) (problem : String) :
    control (EMITTER_ERROR_INIT emitter problem) = control emitter := rfl

/-- The fields of the control part. -/
theorem control_fields (first second : yaml_emitter_t) (h : control first = control second) :
    first.state = second.state ∧ first.states = second.states ∧
    first.indents = second.indents ∧ first.indent = second.indent ∧
    first.flow_level = second.flow_level ∧ first.events = second.events ∧
    first.tag_directives = second.tag_directives ∧
    first.is_canonical = second.is_canonical ∧ first.is_unicode = second.is_unicode :=
  ⟨(congrArg yaml_emitter_t.state h : (control first).state = (control second).state),
    (congrArg yaml_emitter_t.states h : (control first).states = (control second).states),
    (congrArg yaml_emitter_t.indents h : (control first).indents = (control second).indents),
    (congrArg yaml_emitter_t.indent h : (control first).indent = (control second).indent),
    (congrArg yaml_emitter_t.flow_level h :
      (control first).flow_level = (control second).flow_level),
    (congrArg yaml_emitter_t.events h : (control first).events = (control second).events),
    (congrArg yaml_emitter_t.tag_directives h :
      (control first).tag_directives = (control second).tag_directives),
    (congrArg yaml_emitter_t.is_canonical h :
      (control first).is_canonical = (control second).is_canonical),
    (congrArg yaml_emitter_t.is_unicode h :
      (control first).is_unicode = (control second).is_unicode)⟩

/-- The data of the analysed event are not written by the writers. -/
theorem unwritten_data (first second : yaml_emitter_t)
    (h : unwritten first = unwritten second) :
    first.anchor_data = second.anchor_data ∧ first.tag_data = second.tag_data ∧
    first.scalar_data = second.scalar_data ∧
    first.is_simple_key_context = second.is_simple_key_context ∧
    first.error = second.error ∧ first.problem = second.problem :=
  ⟨(congrArg yaml_emitter_t.anchor_data h :
      (unwritten first).anchor_data = (unwritten second).anchor_data),
    (congrArg yaml_emitter_t.tag_data h :
      (unwritten first).tag_data = (unwritten second).tag_data),
    (congrArg yaml_emitter_t.scalar_data h :
      (unwritten first).scalar_data = (unwritten second).scalar_data),
    (congrArg yaml_emitter_t.is_simple_key_context h :
      (unwritten first).is_simple_key_context = (unwritten second).is_simple_key_context),
    (congrArg yaml_emitter_t.error h : (unwritten first).error = (unwritten second).error),
    (congrArg yaml_emitter_t.problem h :
      (unwritten first).problem = (unwritten second).problem)⟩

/-- `yaml_emitter_process_anchor` does not fail, and changes nothing but what
is written. -/
theorem process_anchor_unwritten (emitter : yaml_emitter_t) (result : Bool × yaml_emitter_t)
    (h : yaml_emitter_process_anchor emitter = some result) :
    result.1 = true ∧ unwritten result.2 = unwritten emitter := by
  simp only [yaml_emitter_process_anchor] at h
  cases hanchor : emitter.anchor_data.anchor with
  | none =>
    simp only [hanchor, Option.some.injEq] at h
    subst h
    exact ⟨rfl, rfl⟩
  | some anchor =>
    simp only [hanchor, Option.bind_eq_bind, Option.bind_eq_some, Option.map_eq_some'] at h
    obtain ⟨written, hwritten, anchored, hanchored, hresult⟩ := h
    subst hresult
    exact ⟨rfl, (unwritten_write_anchor _ _ _ hanchored).trans
      (unwritten_write_indicator _ _ _ _ _ _ hwritten)⟩

/-- `yaml_emitter_process_tag` does not fail, and changes nothing but what is
written. -/
theorem process_tag_unwritten (emitter : yaml_emitter_t) (result : Bool × yaml_emitter_t)
    (h : yaml_emitter_process_tag emitter = some result) :
    result.1 = true ∧ unwritten result.2 = unwritten emitter := by
  simp only [yaml_emitter_process_tag] at h
  cases hhandle : emitter.tag_data.handle with
  | none =>
    cases hsuffix : emitter.tag_data.suffix with
    | none =>
      simp only [hhandle, hsuffix, Option.some.injEq] at h
      subst h
      exact ⟨rfl, rfl⟩
    | some suffix =>
      simp only [hhandle, hsuffix, Option.bind_eq_bind, Option.bind_eq_some,
        Option.map_eq_some'] at h
      obtain ⟨opened, hopened, written, hwritten, closed, hclosed, hresult⟩ := h
      subst hresult
      exact ⟨rfl, (unwritten_write_indicator _ _ _ _ _ _ hclosed).trans
        ((unwritten_write_tag_content _ _ _ _ hwritten).trans
          (unwritten_write_indicator _ _ _ _ _ _ hopened))⟩
  | some handle =>
    simp only [hhandle, Option.bind_eq_bind, Option.bind_eq_some] at h
    obtain ⟨handled, hhandled, hrest⟩ := h
    cases hsuffix : emitter.tag_data.suffix with
    | none =>
      simp only [hsuffix, Option.some.injEq] at hrest
      subst hrest
      exact ⟨rfl, unwritten_write_tag_handle _ _ _ hhandled⟩
    | some suffix =>
      simp only [hsuffix, Option.map_eq_some'] at hrest
      obtain ⟨written, hwritten, hresult⟩ := hrest
      subst hresult
      exact ⟨rfl, (unwritten_write_tag_content _ _ _ _ hwritten).trans
        (unwritten_write_tag_handle _ _ _ hhandled)⟩

/-- `yaml_emitter_process_scalar` changes nothing but what is written, and
fails only when no style is selected. -/
theorem process_scalar_unwritten (emitter : yaml_emitter_t) (result : Bool × yaml_emitter_t)
    (h : yaml_emitter_process_scalar emitter = some result) :
    unwritten result.2 = unwritten emitter ∧
    (emitter.scalar_data.style ≠ YAML_ANY_SCALAR_STYLE → result.1 = true) := by
  simp only [yaml_emitter_process_scalar] at h
  cases hstyle : emitter.scalar_data.style <;>
    simp only [hstyle, Option.map_eq_some', Option.some.injEq] at h
  case YAML_ANY_SCALAR_STYLE =>
    subst h
    exact ⟨rfl, fun hne => absurd rfl hne⟩
  case YAML_PLAIN_SCALAR_STYLE =>
    obtain ⟨written, hwritten, hresult⟩ := h
    subst hresult
    exact ⟨unwritten_write_plain_scalar _ _ _ _ hwritten, fun _ => rfl⟩
  case YAML_SINGLE_QUOTED_SCALAR_STYLE =>
    obtain ⟨written, hwritten, hresult⟩ := h
    subst hresult
    exact ⟨unwritten_write_single_quoted_scalar _ _ _ _ hwritten, fun _ => rfl⟩
  case YAML_DOUBLE_QUOTED_SCALAR_STYLE =>
    obtain ⟨written, hwritten, hresult⟩ := h
    subst hresult
    exact ⟨unwritten_write_double_quoted_scalar _ _ _ _ hwritten, fun _ => rfl⟩
  case YAML_LITERAL_SCALAR_STYLE =>
    obtain ⟨written, hwritten, hresult⟩ := h
    subst hresult
    exact ⟨unwritten_write_literal_scalar _ _ _ hwritten, fun _ => rfl⟩
  case YAML_FOLDED_SCALAR_STYLE =>
    obtain ⟨written, hwritten, hresult⟩ := h
    subst hresult
    exact ⟨unwritten_write_folded_scalar _ _ _ hwritten, fun _ => rfl⟩

/-- The style stored by `yaml_emitter_select_scalar_style` is never ANY. -/
theorem select_scalar_style_ne_any (emitter : yaml_emitter_t) (event : yaml_event_t)
    (hok : (yaml_emitter_select_scalar_style emitter event).1 = true) :
    (yaml_emitter_select_scalar_style emitter event).2.scalar_data.style
      ≠ YAML_ANY_SCALAR_STYLE := by
  rw [select_scalar_style_stored emitter event hok]
  have h0 := select_scalar_style_overrides_ne_any emitter event.data.scalar.style
  generalize select_scalar_style_overrides emitter event.data.scalar.style = s0 at h0
  have h1 : select_scalar_style_plain emitter event
      (emitter.tag_data.handle.isNone && emitter.tag_data.suffix.isNone) s0
        ≠ YAML_ANY_SCALAR_STYLE := by
    rcases select_scalar_style_plain_cases emitter event
      (emitter.tag_data.handle.isNone && emitter.tag_data.suffix.isNone) s0 with h | ⟨_, h⟩
    · rw [h]
      exact h0
    · rw [h]
      decide
  generalize select_scalar_style_plain emitter event
    (emitter.tag_data.handle.isNone && emitter.tag_data.suffix.isNone) s0 = s1 at h1
  have h2 : select_scalar_style_single_quoted emitter s1 ≠ YAML_ANY_SCALAR_STYLE := by
    rcases select_scalar_style_single_quoted_cases emitter s1 with ⟨h, _⟩ | ⟨_, h⟩
    · rw [h]
      exact h1
    · rw [h]
      decide
  generalize select_scalar_style_single_quoted emitter s1 = s2 at h2
  rcases select_scalar_style_block_cases emitter s2 with ⟨h, _⟩ | ⟨_, h⟩
  · rw [h]
    exact h2
  · rw [h]
    decide

/-- What `yaml_emitter_select_scalar_style` changes: the error when it fails,
the tag handle and the style when it succeeds. -/
theorem select_scalar_style_control (emitter : yaml_emitter_t) (event : yaml_event_t) :
    control (yaml_emitter_select_scalar_style emitter event).2 = control emitter ∧
    unwritten { (yaml_emitter_select_scalar_style emitter event).2 with
        error := emitter.error, problem := emitter.problem,
        tag_data := emitter.tag_data, scalar_data := emitter.scalar_data }
      = unwritten emitter ∧
    (yaml_emitter_select_scalar_style emitter event).2.anchor_data = emitter.anchor_data ∧
    (yaml_emitter_select_scalar_style emitter event).2.scalar_data.value
      = emitter.scalar_data.value ∧
    (yaml_emitter_select_scalar_style emitter event).2.tag_data.suffix
      = emitter.tag_data.suffix ∧
    ((yaml_emitter_select_scalar_style emitter event).2.tag_data.handle
        = emitter.tag_data.handle ∨
      (yaml_emitter_select_scalar_style emitter event).2.tag_data.handle = some [0x21]) := by
  simp only [yaml_emitter_select_scalar_style]
  split_ifs <;> exact ⟨rfl, rfl, rfl, rfl, rfl, by first | exact Or.inl rfl | exact Or.inr rfl⟩

/-- The statement that pops the state. -/
theorem pop_state_eq (emitter : yaml_emitter_t) (result : Bool × yaml_emitter_t)
    (h : pop_state emitter = some result) :
    ∃ state states, emitter.states = state :: states ∧
      result = (true, { emitter with state := state, states := states }) := by
  simp only [pop_state, POP] at h
  cases hstates : emitter.states with
  | nil => simp [hstates] at h
  | cons state states =>
    simp only [hstates, Option.map_some', Option.some.injEq] at h
    exact ⟨state, states, rfl, h.symm⟩

/-- The statement that pops the indent. -/
theorem pop_indent_eq (emitter result : yaml_emitter_t)
    (h : pop_indent emitter = some result) :
    ∃ indent indents, emitter.indents = indent :: indents ∧
      result = { emitter with indent := indent, indents := indents } := by
  simp only [pop_indent, POP] at h
  cases hindents : emitter.indents with
  | nil => simp [hindents] at h
  | cons indent indents =>
    simp only [hindents, Option.map_some', Option.some.injEq] at h
    exact ⟨indent, indents, rfl, h.symm⟩

/-- `yaml_emitter_increase_indent` pushes the indent and sets a new one. -/
theorem increase_indent_eq (emitter : yaml_emitter_t) (flow indentless : Bool) :
    yaml_emitter_increase_indent emitter flow indentless
      = { emitter with
          indents := emitter.indent :: emitter.indents,
          indent := (yaml_emitter_increase_indent emitter flow indentless).indent } := by
  simp only [yaml_emitter_increase_indent, PUSH]
  split_ifs <;> rfl

/-! ## Theorems: the state functions in normal form -/

/-- The control part after an update of the fields that the state machine
writes, from what is unwritten. -/
theorem control_of_unwritten_update (first second : yaml_emitter_t)
    (state : yaml_emitter_state_t) (states : List yaml_emitter_state_t)
    (indents : List Int) (indent flow_level : Int)
    (h : unwritten first
      = { unwritten second with state := state, states := states, indents := indents,
                                indent := indent, flow_level := flow_level }) :
    control first
      = { control second with state := state, states := states, indents := indents,
                              indent := indent, flow_level := flow_level } := by
  simp only [control, h]

/-- `yaml_emitter_check_empty_sequence` reads the queue only. -/
theorem check_empty_sequence_congr (first second : yaml_emitter_t)
    (h : first.events = second.events) :
    yaml_emitter_check_empty_sequence first = yaml_emitter_check_empty_sequence second := by
  simp only [yaml_emitter_check_empty_sequence, h]

/-- `yaml_emitter_check_empty_mapping` reads the queue only. -/
theorem check_empty_mapping_congr (first second : yaml_emitter_t)
    (h : first.events = second.events) :
    yaml_emitter_check_empty_mapping first = yaml_emitter_check_empty_mapping second := by
  simp only [yaml_emitter_check_empty_mapping, h]

/-- `yaml_emitter_emit_alias` does not fail; it writes the alias and pops the
state. -/
theorem emit_alias_eq (emitter : yaml_emitter_t) (event : yaml_event_t)
    (result : Bool × yaml_emitter_t)
    (h : yaml_emitter_emit_alias emitter event = some result) :
    ∃ written state states, unwritten written = unwritten emitter ∧
      emitter.states = state :: states ∧
      result = (true, { written with state := state, states := states }) := by
  simp only [yaml_emitter_emit_alias] at h
  cases hanchor : yaml_emitter_process_anchor emitter with
  | none => simp [hanchor, or_return] at h
  | some anchored =>
    obtain ⟨hb, hu⟩ := process_anchor_unwritten emitter anchored hanchor
    obtain ⟨b, written⟩ := anchored
    simp only at hb hu
    subst hb
    simp only [hanchor, or_return] at h
    obtain ⟨state, states, hstates, hresult⟩ := pop_state_eq written result h
    refine ⟨written, state, states, hu, ?_, hresult⟩
    rw [← hstates]
    exact (congrArg yaml_emitter_t.states hu : (unwritten written).states = _).symm

/-- `yaml_emitter_select_scalar_style` fails exactly when the scalar has no
tag and no implicit flag. -/
theorem select_scalar_style_fails (emitter : yaml_emitter_t) (event : yaml_event_t) :
    (yaml_emitter_select_scalar_style emitter event).1 = false ↔
      (emitter.tag_data.handle = none ∧ emitter.tag_data.suffix = none ∧
        event.data.scalar.is_plain_implicit = false ∧
        event.data.scalar.is_quoted_implicit = false) := by
  have hfst : (yaml_emitter_select_scalar_style emitter event).1 =
      !(emitter.tag_data.handle.isNone && emitter.tag_data.suffix.isNone
        && !event.data.scalar.is_plain_implicit && !event.data.scalar.is_quoted_implicit) := by
    cases hc : (emitter.tag_data.handle.isNone && emitter.tag_data.suffix.isNone
        && !event.data.scalar.is_plain_implicit && !event.data.scalar.is_quoted_implicit) <;>
      simp [yaml_emitter_select_scalar_style, hc]
  rw [hfst]
  simp only [Bool.not_eq_false', Bool.and_eq_true, Bool.not_eq_true',
    Option.isNone_iff_eq_none]
  tauto

/-- A failing `yaml_emitter_select_scalar_style` only records the error. -/
theorem select_scalar_style_failure (emitter : yaml_emitter_t) (event : yaml_event_t)
    (h : (yaml_emitter_select_scalar_style emitter event).1 = false) :
    (yaml_emitter_select_scalar_style emitter event).2
      = EMITTER_ERROR_INIT emitter "neither tag nor implicit flags are specified" := by
  revert h
  simp only [yaml_emitter_select_scalar_style]
  split_ifs <;> simp

/-- `yaml_emitter_emit_scalar` fails only when no style can be selected;
otherwise it writes the scalar, restores the indent and pops the state. -/
theorem emit_scalar_eq (emitter : yaml_emitter_t) (event : yaml_event_t)
    (result : Bool × yaml_emitter_t)
    (h : yaml_emitter_emit_scalar emitter event = some result) :
    ((yaml_emitter_select_scalar_style emitter event).1 = false ∧
      result
        = (false, EMITTER_ERROR_INIT emitter "neither tag nor implicit flags are specified")) ∨
    ((yaml_emitter_select_scalar_style emitter event).1 = true ∧
      ∃ state states, emitter.states = state :: states ∧ result.1 = true ∧
        control result.2 = { control emitter with state := state, states := states }) := by
  simp only [yaml_emitter_emit_scalar] at h
  cases hselect : (yaml_emitter_select_scalar_style emitter event).1
  · left
    refine ⟨rfl, ?_⟩
    have hpair : yaml_emitter_select_scalar_style emitter event
        = (false, EMITTER_ERROR_INIT emitter "neither tag nor implicit flags are specified") :=
      Prod.ext hselect (select_scalar_style_failure emitter event hselect)
    simp only [hpair, or_return, Option.some.injEq] at h
    exact h.symm
  · right
    refine ⟨rfl, ?_⟩
    have hstyle := select_scalar_style_ne_any emitter event hselect
    obtain ⟨hcontrol, _⟩ := select_scalar_style_control emitter event
    have hpair : yaml_emitter_select_scalar_style emitter event
        = (true, (yaml_emitter_select_scalar_style emitter event).2) :=
      Prod.ext hselect rfl
    generalize (yaml_emitter_select_scalar_style emitter event).2 = selected at *
    simp only [hpair, or_return] at h
    cases hanchor : yaml_emitter_process_anchor selected with
    | none => simp [hanchor] at h
    | some anchored =>
      obtain ⟨hb1, hu1⟩ := process_anchor_unwritten selected anchored hanchor
      obtain ⟨b1, anchored⟩ := anchored
      simp only at hb1 hu1
      subst hb1
      simp only [hanchor] at h
      cases htag : yaml_emitter_process_tag anchored with
      | none => simp [htag] at h
      | some tagged =>
        obtain ⟨hb2, hu2⟩ := process_tag_unwritten anchored tagged htag
        obtain ⟨b2, tagged⟩ := tagged
        simp only at hb2 hu2
        subst hb2
        simp only [htag] at h
        cases hscalar : yaml_emitter_process_scalar
            (yaml_emitter_increase_indent tagged true false) with
        | none => simp [hscalar] at h
        | some written =>
          obtain ⟨hu3, hb3⟩ := process_scalar_unwritten _ written hscalar
          obtain ⟨b3, written⟩ := written
          simp only at hb3 hu3
          have hu : unwritten tagged = unwritten selected := hu2.trans hu1
          have hstyle3 : (yaml_emitter_increase_indent tagged true false).scalar_data.style
              ≠ YAML_ANY_SCALAR_STYLE := by
            rw [increase_indent_eq]
            rw [(unwritten_data tagged selected hu).2.2.1]
            exact hstyle
          have hb3' := hb3 hstyle3
          subst hb3'
          simp only [hscalar, Option.bind_eq_bind, Option.bind_eq_some] at h
          obtain ⟨popped, hpopped, hstate⟩ := h
          obtain ⟨indent, indents, hindents, hpopped_eq⟩ := pop_indent_eq written popped hpopped
          obtain ⟨state, states, hstates, hresult⟩ := pop_state_eq popped result hstate
          have hw : unwritten written
              = unwritten { tagged with
                  indents := tagged.indent :: tagged.indents,
                  indent := (yaml_emitter_increase_indent tagged true false).indent } := by
            rw [hu3]
            nth_rewrite 1 [increase_indent_eq]
            rfl
          have hwi : written.indents = tagged.indent :: tagged.indents :=
            (congrArg yaml_emitter_t.indents hw : (unwritten written).indents = _)
          rw [hwi] at hindents
          simp only [List.cons.injEq] at hindents
          obtain ⟨hi1, hi2⟩ := hindents
          subst hi1 hi2
          have hpu : unwritten popped = unwritten tagged := by
            rw [hpopped_eq]
            simp only [unwritten] at hw ⊢
            simp only [yaml_emitter_t.mk.injEq] at hw ⊢
            tauto
          have hpc : control popped = control emitter :=
            (control_of_unwritten popped tagged hpu).trans
              ((control_of_unwritten tagged selected hu).trans hcontrol)
          have hps : popped.states = emitter.states :=
            (control_fields popped emitter hpc).2.1
          refine ⟨state, states, by rw [← hps]; exact hstates, by rw [hresult], ?_⟩
          rw [hresult]
          show { control popped with state := state, states := states } = _
          rw [hpc]

/-- `yaml_emitter_emit_sequence_start` does not fail; it writes the anchor and
the tag and selects the flow or the block style. -/
theorem emit_sequence_start_eq (emitter : yaml_emitter_t) (event : yaml_event_t)
    (result : Bool × yaml_emitter_t)
    (h : yaml_emitter_emit_sequence_start emitter event = some result) :
    ∃ written, unwritten written = unwritten emitter ∧
      result = (true, { written with
        state :=
          if emitter.flow_level != 0 || emitter.is_canonical
              || event.data.sequence_start.style == YAML_FLOW_SEQUENCE_STYLE
              || yaml_emitter_check_empty_sequence emitter then
            YAML_EMIT_FLOW_SEQUENCE_FIRST_ITEM_STATE
          else YAML_EMIT_BLOCK_SEQUENCE_FIRST_ITEM_STATE }) := by
  simp only [yaml_emitter_emit_sequence_start] at h
  cases hanchor : yaml_emitter_process_anchor emitter with
  | none => simp [hanchor, or_return] at h
  | some anchored =>
    obtain ⟨hb1, hu1⟩ := process_anchor_unwritten emitter anchored hanchor
    obtain ⟨b1, anchored⟩ := anchored
    simp only at hb1 hu1
    subst hb1
    simp only [hanchor, or_return] at h
    cases htag : yaml_emitter_process_tag anchored with
    | none => simp [htag] at h
    | some tagged =>
      obtain ⟨hb2, hu2⟩ := process_tag_unwritten anchored tagged htag
      obtain ⟨b2, tagged⟩ := tagged
      simp only at hb2 hu2
      subst hb2
      simp only [htag] at h
      have hu : unwritten tagged = unwritten emitter := hu2.trans hu1
      have hflow : tagged.flow_level = emitter.flow_level :=
        (congrArg yaml_emitter_t.flow_level hu : (unwritten tagged).flow_level = _)
      have hcanonical : tagged.is_canonical = emitter.is_canonical :=
        (congrArg yaml_emitter_t.is_canonical hu : (unwritten tagged).is_canonical = _)
      have hevents : tagged.events = emitter.events :=
        (congrArg yaml_emitter_t.events hu : (unwritten tagged).events = _)
      have hcondition : (tagged.flow_level != 0 || tagged.is_canonical
          || event.data.sequence_start.style == YAML_FLOW_SEQUENCE_STYLE
          || yaml_emitter_check_empty_sequence tagged)
          = (emitter.flow_level != 0 || emitter.is_canonical
          || event.data.sequence_start.style == YAML_FLOW_SEQUENCE_STYLE
          || yaml_emitter_check_empty_sequence emitter) := by
        rw [hflow, hcanonical, check_empty_sequence_congr tagged emitter hevents]
      refine ⟨tagged, hu, ?_⟩
      by_cases hc : (emitter.flow_level != 0 || emitter.is_canonical
          || event.data.sequence_start.style == YAML_FLOW_SEQUENCE_STYLE
          || yaml_emitter_check_empty_sequence emitter) = true
      · rw [if_pos (hcondition.trans hc)] at h
        rw [if_pos hc]
        exact (Option.some.inj h).symm
      · rw [if_neg (fun hn => hc (hcondition.symm.trans hn))] at h
        rw [if_neg hc]
        exact (Option.some.inj h).symm

/-- `yaml_emitter_emit_mapping_start` does not fail; it writes the anchor and
the tag and selects the flow or the block style. -/
theorem emit_mapping_start_eq (emitter : yaml_emitter_t) (event : yaml_event_t)
    (result : Bool × yaml_emitter_t)
    (h : yaml_emitter_emit_mapping_start emitter event = some result) :
    ∃ written, unwritten written = unwritten emitter ∧
      result = (true, { written with
        state :=
          if emitter.flow_level != 0 || emitter.is_canonical
              || event.data.mapping_start.style == YAML_FLOW_MAPPING_STYLE
              || yaml_emitter_check_empty_mapping emitter then
            YAML_EMIT_FLOW_MAPPING_FIRST_KEY_STATE
          else YAML_EMIT_BLOCK_MAPPING_FIRST_KEY_STATE }) := by
  simp only [yaml_emitter_emit_mapping_start] at h
  cases hanchor : yaml_emitter_process_anchor emitter with
  | none => simp [hanchor, or_return] at h
  | some anchored =>
    obtain ⟨hb1, hu1⟩ := process_anchor_unwritten emitter anchored hanchor
    obtain ⟨b1, anchored⟩ := anchored
    simp only at hb1 hu1
    subst hb1
    simp only [hanchor, or_return] at h
    cases htag : yaml_emitter_process_tag anchored with
    | none => simp [htag] at h
    | some tagged =>
      obtain ⟨hb2, hu2⟩ := process_tag_unwritten anchored tagged htag
      obtain ⟨b2, tagged⟩ := tagged
      simp only at hb2 hu2
      subst hb2
      simp only [htag] at h
      have hu : unwritten tagged = unwritten emitter := hu2.trans hu1
      have hflow : tagged.flow_level = emitter.flow_level :=
        (congrArg yaml_emitter_t.flow_level hu : (unwritten tagged).flow_level = _)
      have hcanonical : tagged.is_canonical = emitter.is_canonical :=
        (congrArg yaml_emitter_t.is_canonical hu : (unwritten tagged).is_canonical = _)
      have hevents : tagged.events = emitter.events :=
        (congrArg yaml_emitter_t.events hu : (unwritten tagged).events = _)
      have hcondition : (tagged.flow_level != 0 || tagged.is_canonical
          || event.data.mapping_start.style == YAML_FLOW_MAPPING_STYLE
          || yaml_emitter_check_empty_mapping tagged)
          = (emitter.flow_level != 0 || emitter.is_canonical
          || event.data.mapping_start.style == YAML_FLOW_MAPPING_STYLE
          || yaml_emitter_check_empty_mapping emitter) := by
        rw [hflow, hcanonical, check_empty_mapping_congr tagged emitter hevents]
      refine ⟨tagged, hu, ?_⟩
      by_cases hc : (emitter.flow_level != 0 || emitter.is_canonical
          || event.data.mapping_start.style == YAML_FLOW_MAPPING_STYLE
          || yaml_emitter_check_empty_mapping emitter) = true
      · rw [if_pos (hcondition.trans hc)] at h
        rw [if_pos hc]
        exact (Option.some.inj h).symm
      · rw [if_neg (fun hn => hc (hcondition.symm.trans hn))] at h
        rw [if_neg hc]
        exact (Option.some.inj h).symm

theorem control_set_state (emitter : yaml_emitter_t) (state : yaml_emitter_state_t) :
    control { emitter with state := state } = { control emitter with state := state } := rfl

/-- What `yaml_emitter_emit_node` does, by the type of the event: it rejects
an event that does not start a node and a scalar for which no style can be
selected; an alias or a scalar is written and the state popped; a collection
start selects the state of the first item or key. -/
theorem emit_node_eq (emitter : yaml_emitter_t) (event : yaml_event_t)
    (is_root is_sequence is_mapping is_simple_key : Bool) (result : Bool × yaml_emitter_t)
    (h : yaml_emitter_emit_node emitter event is_root is_sequence is_mapping is_simple_key
      = some result) :
    (result.1 = false ∧ is_node_event event.type = false ∧
      result.2.error = YAML_EMITTER_ERROR ∧
      result.2.problem = some "expected SCALAR, SEQUENCE-START, MAPPING-START, or ALIAS" ∧
      control result.2 = control emitter) ∨
    (result.1 = false ∧ event.type = YAML_SCALAR_EVENT ∧
      emitter.tag_data.handle = none ∧ emitter.tag_data.suffix = none ∧
      event.data.scalar.is_plain_implicit = false ∧
      event.data.scalar.is_quoted_implicit = false ∧
      result.2.error = YAML_EMITTER_ERROR ∧
      result.2.problem = some "neither tag nor implicit flags are specified" ∧
      control result.2 = control emitter) ∨
    (result.1 = true ∧
      (event.type = YAML_ALIAS_EVENT ∨ event.type = YAML_SCALAR_EVENT) ∧
      ∃ state states, emitter.states = state :: states ∧
        control result.2 = { control emitter with state := state, states := states }) ∨
    (result.1 = true ∧ event.type = YAML_SEQUENCE_START_EVENT ∧
      control result.2 = { control emitter with
        state :=
          if emitter.flow_level != 0 || emitter.is_canonical
              || event.data.sequence_start.style == YAML_FLOW_SEQUENCE_STYLE
              || yaml_emitter_check_empty_sequence emitter then
            YAML_EMIT_FLOW_SEQUENCE_FIRST_ITEM_STATE
          else YAML_EMIT_BLOCK_SEQUENCE_FIRST_ITEM_STATE }) ∨
    (result.1 = true ∧ event.type = YAML_MAPPING_START_EVENT ∧
      control result.2 = { control emitter with
        state :=
          if emitter.flow_level != 0 || emitter.is_canonical
              || event.data.mapping_start.style == YAML_FLOW_MAPPING_STYLE
              || yaml_emitter_check_empty_mapping emitter then
            YAML_EMIT_FLOW_MAPPING_FIRST_KEY_STATE
          else YAML_EMIT_BLOCK_MAPPING_FIRST_KEY_STATE }) := by
  unfold yaml_emitter_emit_node at h
  cases htype : event.type <;> simp only [htype] at h
  case YAML_ALIAS_EVENT =>
    obtain ⟨written, state, states, hu, hstates, hresult⟩ := emit_alias_eq _ _ _ h
    right; right; left
    subst hresult
    refine ⟨rfl, Or.inl rfl, state, states, hstates, ?_⟩
    show { control written with state := state, states := states } = _
    rw [control_of_unwritten _ _ hu]
    rfl
  case YAML_SCALAR_EVENT =>
    rcases emit_scalar_eq _ _ _ h with ⟨hfail, hresult⟩ | ⟨_, state, states, hstates, hb, hc⟩
    · right; left
      subst hresult
      obtain ⟨h1, h2, h3, h4⟩ := (select_scalar_style_fails _ event).1 hfail
      exact ⟨rfl, rfl, h1, h2, h3, h4, rfl, rfl, rfl⟩
    · right; right; left
      exact ⟨hb, Or.inr rfl, state, states, hstates, hc⟩
  case YAML_SEQUENCE_START_EVENT =>
    obtain ⟨written, hu, hresult⟩ := emit_sequence_start_eq _ _ _ h
    right; right; right; left
    subst hresult
    refine ⟨rfl, rfl, ?_⟩
    rw [control_set_state, control_of_unwritten _ _ hu]
    rfl
  case YAML_MAPPING_START_EVENT =>
    obtain ⟨written, hu, hresult⟩ := emit_mapping_start_eq _ _ _ h
    right; right; right; right
    subst hresult
    refine ⟨rfl, rfl, ?_⟩
    rw [control_set_state, control_of_unwritten _ _ hu]
    rfl
  all_goals
    left
    simp only [Option.some.injEq] at h
    subst h
    exact ⟨rfl, rfl, rfl, rfl, rfl⟩

/-- An indicator of one ASCII octet is written, and nothing else changes. -/
theorem write_indicator_octet_unwritten (emitter : yaml_emitter_t) (octet : yaml_char_t)
    (need_whitespace is_whitespace is_indention : Bool) (h : octet < 0x80) :
    ∃ result,
      yaml_emitter_write_indicator emitter [octet] need_whitespace is_whitespace is_indention
        = some result ∧
      unwritten result = unwritten emitter := by
  obtain ⟨result, hresult⟩ := write_indicator_returns emitter [octet] need_whitespace
    is_whitespace is_indention (by
      intro o ho
      rw [List.mem_singleton.mp ho]
      exact h)
  exact ⟨result, hresult, unwritten_write_indicator _ _ _ _ _ _ hresult⟩

/-- The end of a block collection pops the indent and the state. -/
theorem emit_block_end_eq (emitter : yaml_emitter_t) :
    (∀ indent indents state states, emitter.indents = indent :: indents →
      emitter.states = state :: states →
      emit_block_end emitter
        = some (true, { emitter with indent := indent, indents := indents,
                                     state := state, states := states })) ∧
    (∀ result, emit_block_end emitter = some result →
      ∃ indent indents state states, emitter.indents = indent :: indents ∧
        emitter.states = state :: states) := by
  refine ⟨?_, ?_⟩
  · intro indent indents state states hindents hstates
    simp only [emit_block_end, pop_indent, POP, hindents, Option.map_some',
      Option.bind_eq_bind, Option.some_bind, pop_state, hstates]
  · intro result h
    simp only [emit_block_end, Option.bind_eq_bind, Option.bind_eq_some] at h
    obtain ⟨popped, hpopped, hstate⟩ := h
    obtain ⟨indent, indents, hindents, hpopped_eq⟩ := pop_indent_eq _ _ hpopped
    obtain ⟨state, states, hstates, _⟩ := pop_state_eq _ _ hstate
    subst hpopped_eq
    exact ⟨indent, indents, state, states, hindents, hstates⟩

/-- The end of a flow collection lowers the flow level, pops the indent,
writes the closing indicator and pops the state. -/
theorem emit_flow_end_eq (emitter : yaml_emitter_t) (indicator : yaml_char_t) (first : Bool)
    (hindicator : indicator < 0x80) :
    (∀ indent indents state states, emitter.indents = indent :: indents →
      emitter.states = state :: states →
      ∃ written,
        unwritten written
          = { unwritten emitter with flow_level := emitter.flow_level - 1, indent := indent,
                                     indents := indents } ∧
        emit_flow_end emitter indicator first
          = some (true, { written with state := state, states := states })) ∧
    (∀ result, emit_flow_end emitter indicator first = some result →
      ∃ indent indents state states, emitter.indents = indent :: indents ∧
        emitter.states = state :: states) := by
  refine ⟨?_, ?_⟩
  · intro indent indents state states hindents hstates
    obtain ⟨separated, hseparated, hu1⟩ : ∃ separated,
        (if ({ emitter with flow_level := emitter.flow_level - 1, indent := indent,
                            indents := indents } : yaml_emitter_t).is_canonical && !first then
          (yaml_emitter_write_indicator
            { emitter with flow_level := emitter.flow_level - 1, indent := indent,
                           indents := indents } [0x2C] false false false).map
            fun emitter => yaml_emitter_write_indent emitter
        else some { emitter with flow_level := emitter.flow_level - 1, indent := indent,
                                 indents := indents }) = some separated ∧
        unwritten separated
          = unwritten { emitter with flow_level := emitter.flow_level - 1, indent := indent,
                                     indents := indents } := by
      split_ifs
      · obtain ⟨written, hwritten, hu⟩ := write_indicator_octet_unwritten
          { emitter with flow_level := emitter.flow_level - 1, indent := indent,
                         indents := indents } 0x2C false false false (by decide)
        exact ⟨yaml_emitter_write_indent written, by rw [hwritten]; rfl,
          (unwritten_write_indent written).trans hu⟩
      · exact ⟨_, rfl, rfl⟩
    obtain ⟨closed, hclosed, hu2⟩ := write_indicator_octet_unwritten separated indicator
      false false false hindicator
    have hstates2 : closed.states = state :: states := by
      rw [← hstates]
      exact (congrArg yaml_emitter_t.states (hu2.trans hu1) : (unwritten closed).states = _)
    refine ⟨closed, hu2.trans hu1, ?_⟩
    simp only [emit_flow_end, pop_indent, POP, hindents, Option.map_some', Option.bind_eq_bind,
      Option.some_bind, hseparated, hclosed, pop_state, hstates2]
  · intro result h
    simp only [emit_flow_end, Option.bind_eq_bind, Option.bind_eq_some] at h
    obtain ⟨popped, hpopped, separated, hseparated, closed, hclosed, hstate⟩ := h
    obtain ⟨indent, indents, hindents, hpopped_eq⟩ := pop_indent_eq _ _ hpopped
    obtain ⟨state, states, hstates, _⟩ := pop_state_eq _ _ hstate
    have hu2 := unwritten_write_indicator _ _ _ _ _ _ hclosed
    have hu1 : unwritten separated = unwritten popped := by
      split_ifs at hseparated
      · simp only [Option.map_eq_some'] at hseparated
        obtain ⟨written, hwritten, hindent⟩ := hseparated
        subst hindent
        exact (unwritten_write_indent written).trans
          (unwritten_write_indicator _ _ _ _ _ _ hwritten)
      · cases hseparated
        rfl
    refine ⟨indent, indents, state, states, hindents, ?_⟩
    rw [← hstates]
    have h3 : closed.states = popped.states :=
      (congrArg yaml_emitter_t.states (hu2.trans hu1) : (unwritten closed).states = _)
    rw [h3, hpopped_eq]

/-- The start of a flow collection: with the first item or key the opening
indicator is written, the indent is pushed and the flow level raised. -/
theorem emit_flow_first_eq (emitter : yaml_emitter_t) (indicator : yaml_char_t) (first : Bool)
    (hindicator : indicator < 0x80) :
    ∃ opened, emit_flow_first emitter indicator first = some opened ∧
      unwritten opened
        = (if first then
            { unwritten emitter with
              indents := emitter.indent :: emitter.indents, indent := opened.indent,
              flow_level := emitter.flow_level + 1 }
          else unwritten emitter) := by
  cases first
  · exact ⟨emitter, rfl, rfl⟩
  · obtain ⟨written, hwritten, hu⟩ := write_indicator_octet_unwritten emitter indicator
      true true false hindicator
    refine ⟨{ yaml_emitter_increase_indent written true false with
        flow_level := (yaml_emitter_increase_indent written true false).flow_level + 1 },
      by simp only [emit_flow_first, if_true, hwritten, Option.map_some'], ?_⟩
    rw [if_pos rfl, increase_indent_eq]
    simp only [unwritten] at hu ⊢
    simp only [yaml_emitter_t.mk.injEq] at hu ⊢
    obtain ⟨h1, h2, _, h4, h5, h6, h7, h8, h9, h10, h11, h12, h13, h14, h15, h16, h17, h18,
      h19, h20, _, _, _, _, h25, h26, h27⟩ := hu
    simp only [h1, h2, h4, h5, h6, h7, h8, h9, h10, h11, h12, h13, h14, h15, h16, h17, h18,
      h19, h20, h25, h26, h27, and_self]

/-- The separator of a flow collection changes nothing but what is written. -/
theorem emit_flow_separator_eq (emitter : yaml_emitter_t) (first : Bool) :
    ∃ separated, emit_flow_separator emitter first = some separated ∧
      unwritten separated = unwritten emitter := by
  obtain ⟨written, hwritten, hu⟩ : ∃ written,
      (if !first then yaml_emitter_write_indicator emitter [0x2C] false false false
       else some emitter) = some written ∧ unwritten written = unwritten emitter := by
    cases first
    · exact write_indicator_octet_unwritten emitter 0x2C false false false (by decide)
    · exact ⟨emitter, rfl, rfl⟩
  refine ⟨if written.is_canonical || decide (written.column > written.best_width) then
      yaml_emitter_write_indent written else written,
    by simp only [emit_flow_separator, hwritten, Option.map_some'], ?_⟩
  split_ifs
  · exact (unwritten_write_indent written).trans hu
  · exact hu

/-! ## Theorems: the state functions as an end or a node -/

/-- The state function of an item of a flow sequence is the end of the
sequence or a node, after the opening indicator and the separator. -/
theorem emit_flow_sequence_item_form (emitter : yaml_emitter_t) (event : yaml_event_t)
    (first : Bool) :
    ∃ opened separated,
      unwritten opened
        = (if first then
            { unwritten emitter with
              indents := emitter.indent :: emitter.indents, indent := opened.indent,
              flow_level := emitter.flow_level + 1 }
          else unwritten emitter) ∧
      unwritten separated = unwritten opened ∧
      yaml_emitter_emit_flow_sequence_item emitter event first
        = (if event.type = YAML_SEQUENCE_END_EVENT then emit_flow_end opened 0x5D first
           else
            yaml_emitter_emit_node
              { separated with
                states := PUSH separated.states YAML_EMIT_FLOW_SEQUENCE_ITEM_STATE }
              event false true false false) := by
  obtain ⟨opened, hopened, hu1⟩ := emit_flow_first_eq emitter 0x5B first (by decide)
  obtain ⟨separated, hseparated, hu2⟩ := emit_flow_separator_eq opened first
  refine ⟨opened, separated, hu1, hu2, ?_⟩
  simp only [yaml_emitter_emit_flow_sequence_item, hopened, Option.bind_eq_bind,
    Option.some_bind, hseparated]

/-- The state function of a key of a flow mapping is the end of the mapping or
a node, a simple key or not, after the opening indicator, the separator and
the indicator `?`. -/
theorem emit_flow_mapping_key_form (emitter : yaml_emitter_t) (event : yaml_event_t)
    (first : Bool) :
    ∃ (opened separated : yaml_emitter_t) (simple : Bool),
      unwritten opened
        = (if first then
            { unwritten emitter with
              indents := emitter.indent :: emitter.indents, indent := opened.indent,
              flow_level := emitter.flow_level + 1 }
          else unwritten emitter) ∧
      unwritten separated = unwritten opened ∧
      yaml_emitter_emit_flow_mapping_key emitter event first
        = (if event.type = YAML_MAPPING_END_EVENT then emit_flow_end opened 0x7D first
           else
            yaml_emitter_emit_node
              { separated with
                states := PUSH separated.states
                  (if simple then YAML_EMIT_FLOW_MAPPING_SIMPLE_VALUE_STATE
                   else YAML_EMIT_FLOW_MAPPING_VALUE_STATE) }
              event false false true simple) := by
  obtain ⟨opened, hopened, hu1⟩ := emit_flow_first_eq emitter 0x7B first (by decide)
  obtain ⟨separated, hseparated, hu2⟩ := emit_flow_separator_eq opened first
  by_cases hsimple : (!separated.is_canonical && yaml_emitter_check_simple_key separated) = true
  · refine ⟨opened, separated, true, hu1, hu2, ?_⟩
    simp only [yaml_emitter_emit_flow_mapping_key, hopened, Option.bind_eq_bind,
      Option.some_bind, hseparated, if_pos hsimple, if_true]
  · obtain ⟨written, hwritten, hu3⟩ := write_indicator_octet_unwritten separated 0x3F
      true false false (by decide)
    refine ⟨opened, written, false, hu1, hu3.trans hu2, ?_⟩
    simp only [yaml_emitter_emit_flow_mapping_key, hopened, Option.bind_eq_bind,
      Option.some_bind, hseparated, if_neg hsimple, hwritten, Bool.false_eq_true, if_false]

/-- The state function of a value of a flow mapping is a node, after the
indicator `:`. -/
theorem emit_flow_mapping_value_form (emitter : yaml_emitter_t) (event : yaml_event_t)
    (simple : Bool) :
    ∃ written, unwritten written = unwritten emitter ∧
      yaml_emitter_emit_flow_mapping_value emitter event simple
        = yaml_emitter_emit_node
            { written with states := PUSH written.states YAML_EMIT_FLOW_MAPPING_KEY_STATE }
            event false false true false := by
  obtain ⟨written, hwritten, hu⟩ : ∃ written,
      (if simple then yaml_emitter_write_indicator emitter [0x3A] false false false
       else
        yaml_emitter_write_indicator
          (if emitter.is_canonical || decide (emitter.column > emitter.best_width) then
            yaml_emitter_write_indent emitter
           else emitter) [0x3A] true false false) = some written ∧
      unwritten written = unwritten emitter := by
    cases simple
    · obtain ⟨written, hwritten, hu⟩ := write_indicator_octet_unwritten
        (if emitter.is_canonical || decide (emitter.column > emitter.best_width) then
          yaml_emitter_write_indent emitter
         else emitter) 0x3A true false false (by decide)
      refine ⟨written, hwritten, hu.trans ?_⟩
      split_ifs
      · exact unwritten_write_indent emitter
      · rfl
    · exact write_indicator_octet_unwritten emitter 0x3A false false false (by decide)
  refine ⟨written, hu, ?_⟩
  simp only [yaml_emitter_emit_flow_mapping_value, hwritten, Option.bind_eq_bind,
    Option.some_bind]

/-- The state function of an item of a block sequence is the end of the
sequence or a node, after the indentation and the indicator `-`; with the
first item the indent is pushed. -/
theorem emit_block_sequence_item_form (emitter : yaml_emitter_t) (event : yaml_event_t)
    (first : Bool) :
    ∃ opened written,
      unwritten opened
        = (if first then
            { unwritten emitter with
              indents := emitter.indent :: emitter.indents, indent := opened.indent }
          else unwritten emitter) ∧
      unwritten written = unwritten opened ∧
      yaml_emitter_emit_block_sequence_item emitter event first
        = (if event.type = YAML_SEQUENCE_END_EVENT then emit_block_end opened
           else
            yaml_emitter_emit_node
              { written with
                states := PUSH written.states YAML_EMIT_BLOCK_SEQUENCE_ITEM_STATE }
              event false true false false) := by
  have hopened : unwritten (if first then
        yaml_emitter_increase_indent emitter false
          (emitter.is_mapping_context && !emitter.is_indention)
      else emitter)
      = (if first then
          { unwritten emitter with
            indents := emitter.indent :: emitter.indents,
            indent := (if first then
                yaml_emitter_increase_indent emitter false
                  (emitter.is_mapping_context && !emitter.is_indention)
              else emitter).indent }
        else unwritten emitter) := by
    cases first
    · rfl
    · simp only [if_true]
      nth_rewrite 1 [increase_indent_eq]
      rfl
  unfold yaml_emitter_emit_block_sequence_item
  simp only []
  generalize (if first then
        yaml_emitter_increase_indent emitter false
          (emitter.is_mapping_context && !emitter.is_indention)
      else emitter) = opened at hopened ⊢
  obtain ⟨written, hwritten, hu⟩ := write_indicator_octet_unwritten
    (yaml_emitter_write_indent opened) 0x2D true false true (by decide)
  refine ⟨opened, written, hopened, hu.trans (unwritten_write_indent opened), ?_⟩
  simp only [hwritten, Option.bind_eq_bind, Option.some_bind]

/-- The state function of a key of a block mapping is the end of the mapping
or a node, a simple key or not, after the indentation and the indicator `?`;
with the first key the indent is pushed. -/
theorem emit_block_mapping_key_form (emitter : yaml_emitter_t) (event : yaml_event_t)
    (first : Bool) :
    ∃ (opened written : yaml_emitter_t) (simple : Bool),
      unwritten opened
        = (if first then
            { unwritten emitter with
              indents := emitter.indent :: emitter.indents, indent := opened.indent }
          else unwritten emitter) ∧
      unwritten written = unwritten opened ∧
      yaml_emitter_emit_block_mapping_key emitter event first
        = (if event.type = YAML_MAPPING_END_EVENT then emit_block_end opened
           else
            yaml_emitter_emit_node
              { written with
                states := PUSH written.states
                  (if simple then YAML_EMIT_BLOCK_MAPPING_SIMPLE_VALUE_STATE
                   else YAML_EMIT_BLOCK_MAPPING_VALUE_STATE) }
              event false false true simple) := by
  have hopened : unwritten (if first then yaml_emitter_increase_indent emitter false false
      else emitter)
      = (if first then
          { unwritten emitter with
            indents := emitter.indent :: emitter.indents,
            indent := (if first then yaml_emitter_increase_indent emitter false false
              else emitter).indent }
        else unwritten emitter) := by
    cases first
    · rfl
    · simp only [if_true]
      nth_rewrite 1 [increase_indent_eq]
      rfl
  unfold yaml_emitter_emit_block_mapping_key
  simp only []
  generalize (if first then yaml_emitter_increase_indent emitter false false
      else emitter) = opened at hopened ⊢
  by_cases hsimple : yaml_emitter_check_simple_key (yaml_emitter_write_indent opened) = true
  · refine ⟨opened, yaml_emitter_write_indent opened, true, hopened,
      unwritten_write_indent opened, ?_⟩
    simp only [if_pos hsimple, if_true]
  · obtain ⟨written, hwritten, hu⟩ := write_indicator_octet_unwritten
      (yaml_emitter_write_indent opened) 0x3F true false true (by decide)
    refine ⟨opened, written, false, hopened, hu.trans (unwritten_write_indent opened), ?_⟩
    simp only [if_neg hsimple, hwritten, Option.bind_eq_bind, Option.some_bind,
      Bool.false_eq_true, if_false]

/-- The state function of a value of a block mapping is a node, after the
indicator `:`. -/
theorem emit_block_mapping_value_form (emitter : yaml_emitter_t) (event : yaml_event_t)
    (simple : Bool) :
    ∃ written, unwritten written = unwritten emitter ∧
      yaml_emitter_emit_block_mapping_value emitter event simple
        = yaml_emitter_emit_node
            { written with states := PUSH written.states YAML_EMIT_BLOCK_MAPPING_KEY_STATE }
            event false false true false := by
  obtain ⟨written, hwritten, hu⟩ : ∃ written,
      (if simple then yaml_emitter_write_indicator emitter [0x3A] false false false
       else
        yaml_emitter_write_indicator (yaml_emitter_write_indent emitter) [0x3A]
          true false true) = some written ∧
      unwritten written = unwritten emitter := by
    cases simple
    · obtain ⟨written, hwritten, hu⟩ := write_indicator_octet_unwritten
        (yaml_emitter_write_indent emitter) 0x3A true false true (by decide)
      exact ⟨written, hwritten, hu.trans (unwritten_write_indent emitter)⟩
    · exact write_indicator_octet_unwritten emitter 0x3A false false false (by decide)
  refine ⟨written, hu, ?_⟩
  simp only [yaml_emitter_emit_block_mapping_value, hwritten, Option.bind_eq_bind,
    Option.some_bind]

/-! ## Theorems: a step of the state machine -/

/-- The control part after the stacks are set, from what is unwritten. -/
theorem control_of_unwritten_stacks (first second : yaml_emitter_t)
    (states : List yaml_emitter_state_t) (indents : List Int) (indent flow_level : Int)
    (h : unwritten first = set_stacks (unwritten second) states indents indent flow_level) :
    control first = set_stacks (control second) states indents indent flow_level := by
  simp only [control, h]
  rfl

/-- What is unwritten after the first item or key of a collection is reached,
with the stacks set. -/
theorem unwritten_opened (emitter opened : yaml_emitter_t) (first : Bool)
    (flow_level : Int)
    (h : unwritten opened
      = (if first then
          { unwritten emitter with
            indents := emitter.indent :: emitter.indents, indent := opened.indent,
            flow_level := flow_level }
        else unwritten emitter)) :
    unwritten opened
      = set_stacks (unwritten emitter) emitter.states
          (if first then emitter.indent :: emitter.indents else emitter.indents)
          opened.indent
          (if first then flow_level else emitter.flow_level) ∧
    (first = false → opened.indent = emitter.indent) := by
  cases first
  · simp only [Bool.false_eq_true, if_false] at h ⊢
    have hi : opened.indent = emitter.indent :=
      (congrArg yaml_emitter_t.indent h : (unwritten opened).indent = _)
    exact ⟨by rw [h, hi]; rfl, fun _ => hi⟩
  · simp only [if_true] at h ⊢
    exact ⟨h.trans rfl, fun hn => Bool.noConfusion hn⟩

/-- In a state where a node is emitted, an event that does not end the
collection is passed to `yaml_emitter_emit_node` after the state that follows
the node is pushed; before that the indent is pushed and the flow level
raised with the first item or key, and nothing else but what is written
changes. -/
theorem state_machine_node (emitter : yaml_emitter_t) (event : yaml_event_t)
    (hstate : is_node_state emitter.state = true)
    (hevent : collection_end_event emitter.state ≠ some event.type) :
    ∃ (pushed : yaml_emitter_t) (continuation : yaml_emitter_state_t)
      (is_root is_sequence is_mapping is_simple_key : Bool) (indent : Int),
      is_continuation_state emitter.state continuation = true ∧
      unwritten pushed
        = set_stacks (unwritten emitter) (continuation :: emitter.states)
            (if is_first_state emitter.state then emitter.indent :: emitter.indents
             else emitter.indents)
            indent
            (if is_first_state emitter.state && is_flow_state emitter.state then
              emitter.flow_level + 1
             else emitter.flow_level) ∧
      (is_first_state emitter.state = false → indent = emitter.indent) ∧
      yaml_emitter_state_machine emitter event
        = yaml_emitter_emit_node pushed event is_root is_sequence is_mapping is_simple_key := by
  have push : ∀ (written : yaml_emitter_t) (continuation : yaml_emitter_state_t)
      (states : List yaml_emitter_state_t) (indents : List Int) (indent flow_level : Int),
      unwritten written = set_stacks (unwritten emitter) states indents indent flow_level →
      unwritten { written with states := PUSH written.states continuation }
        = set_stacks (unwritten emitter) (continuation :: states) indents indent
            flow_level := by
    intro written continuation states indents indent flow_level h
    have hs : written.states = states :=
      (congrArg yaml_emitter_t.states h : (unwritten written).states = _)
    show (fun x : yaml_emitter_t => { x with states := PUSH written.states continuation })
      (unwritten written) = _
    rw [h, hs]
    rfl
  unfold yaml_emitter_state_machine
  cases hs : emitter.state <;> rw [hs] at hstate hevent <;>
    simp only [is_node_state, is_flow_state, is_block_state, collection_end_event,
      is_first_state, is_continuation_state, Bool.or_false, Bool.or_true, beq_self_eq_true,
      beq_iff_eq, Bool.false_eq_true, reduceCtorEq, ne_eq, Option.some.injEq, if_true,
      if_false, Bool.and_self, Bool.and_false, Bool.and_true, not_false_eq_true,
      forall_true_left, IsEmpty.forall_iff, true_and] at hstate hevent ⊢
  case YAML_EMIT_DOCUMENT_CONTENT_STATE =>
    exact ⟨_, YAML_EMIT_DOCUMENT_END_STATE, true, false, false, false, emitter.indent, rfl,
      push emitter _ _ _ _ _ rfl, rfl, rfl⟩
  case YAML_EMIT_FLOW_SEQUENCE_FIRST_ITEM_STATE =>
    obtain ⟨opened, separated, hu1, hu2, heq⟩ := emit_flow_sequence_item_form emitter event true
    obtain ⟨hu1, _⟩ := unwritten_opened emitter opened true _ hu1
    rw [if_neg (fun h => hevent h.symm)] at heq
    exact ⟨_, YAML_EMIT_FLOW_SEQUENCE_ITEM_STATE, _, _, _, _, opened.indent, rfl,
      push separated _ _ _ _ _ (hu2.trans hu1), heq⟩
  case YAML_EMIT_FLOW_SEQUENCE_ITEM_STATE =>
    obtain ⟨opened, separated, hu1, hu2, heq⟩ := emit_flow_sequence_item_form emitter event false
    obtain ⟨hu1, hi⟩ := unwritten_opened emitter opened false _ hu1
    rw [if_neg (fun h => hevent h.symm)] at heq
    exact ⟨_, YAML_EMIT_FLOW_SEQUENCE_ITEM_STATE, _, _, _, _, opened.indent, rfl,
      push separated _ _ _ _ _ (hu2.trans hu1), hi rfl, heq⟩
  case YAML_EMIT_FLOW_MAPPING_FIRST_KEY_STATE =>
    obtain ⟨opened, separated, simple, hu1, hu2, heq⟩ := emit_flow_mapping_key_form emitter event true
    obtain ⟨hu1, _⟩ := unwritten_opened emitter opened true _ hu1
    rw [if_neg (fun h => hevent h.symm)] at heq
    refine ⟨_, (if simple then YAML_EMIT_FLOW_MAPPING_SIMPLE_VALUE_STATE else YAML_EMIT_FLOW_MAPPING_VALUE_STATE), _, _, _, _, opened.indent, ?_,
      push separated _ _ _ _ _ (hu2.trans hu1), heq⟩
    cases simple <;> rfl
  case YAML_EMIT_FLOW_MAPPING_KEY_STATE =>
    obtain ⟨opened, separated, simple, hu1, hu2, heq⟩ := emit_flow_mapping_key_form emitter event false
    obtain ⟨hu1, hi⟩ := unwritten_opened emitter opened false _ hu1
    rw [if_neg (fun h => hevent h.symm)] at heq
    refine ⟨_, (if simple then YAML_EMIT_FLOW_MAPPING_SIMPLE_VALUE_STATE else YAML_EMIT_FLOW_MAPPING_VALUE_STATE), _, _, _, _, opened.indent, ?_,
      push separated _ _ _ _ _ (hu2.trans hu1), hi rfl, heq⟩
    cases simple <;> rfl
  case YAML_EMIT_FLOW_MAPPING_SIMPLE_VALUE_STATE =>
    obtain ⟨written, hu, heq⟩ := emit_flow_mapping_value_form emitter event true
    exact ⟨_, YAML_EMIT_FLOW_MAPPING_KEY_STATE, _, _, _, _, emitter.indent, rfl,
      push written _ _ _ _ _ (hu.trans rfl), rfl, heq⟩
  case YAML_EMIT_FLOW_MAPPING_VALUE_STATE =>
    obtain ⟨written, hu, heq⟩ := emit_flow_mapping_value_form emitter event false
    exact ⟨_, YAML_EMIT_FLOW_MAPPING_KEY_STATE, _, _, _, _, emitter.indent, rfl,
      push written _ _ _ _ _ (hu.trans rfl), rfl, heq⟩
  case YAML_EMIT_BLOCK_SEQUENCE_FIRST_ITEM_STATE =>
    obtain ⟨opened, separated, hu1, hu2, heq⟩ := emit_block_sequence_item_form emitter event true
    obtain ⟨hu1, _⟩ := unwritten_opened emitter opened true _ hu1
    rw [if_neg (fun h => hevent h.symm)] at heq
    exact ⟨_, YAML_EMIT_BLOCK_SEQUENCE_ITEM_STATE, _, _, _, _, opened.indent, rfl,
      push separated _ _ _ _ _ (hu2.trans hu1), heq⟩
  case YAML_EMIT_BLOCK_SEQUENCE_ITEM_STATE =>
    obtain ⟨opened, separated, hu1, hu2, heq⟩ := emit_block_sequence_item_form emitter event false
    obtain ⟨hu1, hi⟩ := unwritten_opened emitter opened false _ hu1
    rw [if_neg (fun h => hevent h.symm)] at heq
    exact ⟨_, YAML_EMIT_BLOCK_SEQUENCE_ITEM_STATE, _, _, _, _, opened.indent, rfl,
      push separated _ _ _ _ _ (hu2.trans hu1), hi rfl, heq⟩
  case YAML_EMIT_BLOCK_MAPPING_FIRST_KEY_STATE =>
    obtain ⟨opened, separated, simple, hu1, hu2, heq⟩ := emit_block_mapping_key_form emitter event true
    obtain ⟨hu1, _⟩ := unwritten_opened emitter opened true _ hu1
    rw [if_neg (fun h => hevent h.symm)] at heq
    refine ⟨_, (if simple then YAML_EMIT_BLOCK_MAPPING_SIMPLE_VALUE_STATE else YAML_EMIT_BLOCK_MAPPING_VALUE_STATE), _, _, _, _, opened.indent, ?_,
      push separated _ _ _ _ _ (hu2.trans hu1), heq⟩
    cases simple <;> rfl
  case YAML_EMIT_BLOCK_MAPPING_KEY_STATE =>
    obtain ⟨opened, separated, simple, hu1, hu2, heq⟩ := emit_block_mapping_key_form emitter event false
    obtain ⟨hu1, hi⟩ := unwritten_opened emitter opened false _ hu1
    rw [if_neg (fun h => hevent h.symm)] at heq
    refine ⟨_, (if simple then YAML_EMIT_BLOCK_MAPPING_SIMPLE_VALUE_STATE else YAML_EMIT_BLOCK_MAPPING_VALUE_STATE), _, _, _, _, opened.indent, ?_,
      push separated _ _ _ _ _ (hu2.trans hu1), hi rfl, heq⟩
    cases simple <;> rfl
  case YAML_EMIT_BLOCK_MAPPING_SIMPLE_VALUE_STATE =>
    obtain ⟨written, hu, heq⟩ := emit_block_mapping_value_form emitter event true
    exact ⟨_, YAML_EMIT_BLOCK_MAPPING_KEY_STATE, _, _, _, _, emitter.indent, rfl,
      push written _ _ _ _ _ (hu.trans rfl), rfl, heq⟩
  case YAML_EMIT_BLOCK_MAPPING_VALUE_STATE =>
    obtain ⟨written, hu, heq⟩ := emit_block_mapping_value_form emitter event false
    exact ⟨_, YAML_EMIT_BLOCK_MAPPING_KEY_STATE, _, _, _, _, emitter.indent, rfl,
      push written _ _ _ _ _ (hu.trans rfl), rfl, heq⟩

/-- The control part after the end of a flow collection, from the emitter
before the state function. -/
theorem emit_flow_end_control (emitter opened : yaml_emitter_t) (indicator : yaml_char_t)
    (first : Bool) (hindicator : indicator < 0x80) (pushed : List Int)
    (indent flow_level : Int)
    (hu : unwritten opened
      = set_stacks (unwritten emitter) emitter.states pushed indent flow_level) :
    (∀ state states top indents, emitter.states = state :: states → pushed = top :: indents →
      ∃ result, emit_flow_end opened indicator first = some (true, result) ∧
        control result
          = { set_stacks (control emitter) states indents top (flow_level - 1) with
              state := state }) ∧
    (∀ result, emit_flow_end opened indicator first = some result →
      emitter.states ≠ [] ∧ pushed ≠ []) := by
  have hstates : opened.states = emitter.states :=
    (congrArg yaml_emitter_t.states hu : (unwritten opened).states = _)
  have hindents : opened.indents = pushed :=
    (congrArg yaml_emitter_t.indents hu : (unwritten opened).indents = _)
  have hflow : opened.flow_level = flow_level :=
    (congrArg yaml_emitter_t.flow_level hu : (unwritten opened).flow_level = _)
  obtain ⟨htotal, hsome⟩ := emit_flow_end_eq opened indicator first hindicator
  refine ⟨?_, ?_⟩
  · intro state states top indents hs hi
    obtain ⟨written, hw, heq⟩ := htotal top indents state states (hindents.trans hi)
      (hstates.trans hs)
    refine ⟨_, heq, ?_⟩
    have hw2 : unwritten written
        = set_stacks (unwritten emitter) emitter.states indents top (flow_level - 1) := by
      rw [hw, hflow, hu]
      rfl
    have hc := control_of_unwritten_stacks written emitter _ _ _ _ hw2
    show (fun x : yaml_emitter_t => { x with state := state, states := states })
      (control written) = _
    rw [hc]
    rfl
  · intro result h
    obtain ⟨top, indents, state, states, hi, hs⟩ := hsome result h
    rw [hstates] at hs
    rw [hindents] at hi
    exact ⟨by rw [hs]; exact List.cons_ne_nil _ _, by rw [hi]; exact List.cons_ne_nil _ _⟩

/-- The control part after the end of a block collection, from the emitter
before the state function. -/
theorem emit_block_end_control (emitter opened : yaml_emitter_t) (pushed : List Int)
    (indent flow_level : Int)
    (hu : unwritten opened
      = set_stacks (unwritten emitter) emitter.states pushed indent flow_level) :
    (∀ state states top indents, emitter.states = state :: states → pushed = top :: indents →
      ∃ result, emit_block_end opened = some (true, result) ∧
        control result
          = { set_stacks (control emitter) states indents top flow_level with
              state := state }) ∧
    (∀ result, emit_block_end opened = some result → emitter.states ≠ [] ∧ pushed ≠ []) := by
  have hstates : opened.states = emitter.states :=
    (congrArg yaml_emitter_t.states hu : (unwritten opened).states = _)
  have hindents : opened.indents = pushed :=
    (congrArg yaml_emitter_t.indents hu : (unwritten opened).indents = _)
  obtain ⟨htotal, hsome⟩ := emit_block_end_eq opened
  refine ⟨?_, ?_⟩
  · intro state states top indents hs hi
    refine ⟨_, htotal top indents state states (hindents.trans hi) (hstates.trans hs), ?_⟩
    have hw2 : unwritten { opened with indent := top, indents := indents }
        = set_stacks (unwritten emitter) emitter.states indents top flow_level := by
      show (fun x : yaml_emitter_t => { x with indent := top, indents := indents })
        (unwritten opened) = _
      rw [hu]
      rfl
    have hc := control_of_unwritten_stacks _ emitter _ _ _ _ hw2
    show (fun x : yaml_emitter_t => { x with state := state, states := states })
      (control { opened with indent := top, indents := indents }) = _
    rw [hc]
    rfl
  · intro result h
    obtain ⟨top, indents, state, states, hi, hs⟩ := hsome result h
    rw [hstates] at hs
    rw [hindents] at hi
    exact ⟨by rw [hs]; exact List.cons_ne_nil _ _, by rw [hi]; exact List.cons_ne_nil _ _⟩

/-- In a state of an item or a key, the event that ends the collection pops
the indent and the state, and lowers the flow level of a flow collection that
was entered; the call returns when the stacks are not empty. -/
theorem state_machine_end (emitter : yaml_emitter_t) (event : yaml_event_t)
    (hevent : collection_end_event emitter.state = some event.type) :
    (∀ state states top indents, emitter.states = state :: states →
      (if is_first_state emitter.state then emitter.indent :: emitter.indents
       else emitter.indents) = top :: indents →
      ∃ result, yaml_emitter_state_machine emitter event = some (true, result) ∧
        control result
          = { set_stacks (control emitter) states indents top
                (if is_first_state emitter.state || !is_flow_state emitter.state then
                  emitter.flow_level
                 else emitter.flow_level - 1) with
              state := state }) ∧
    (∀ result, yaml_emitter_state_machine emitter event = some result →
      emitter.states ≠ [] ∧
      (if is_first_state emitter.state then emitter.indent :: emitter.indents
       else emitter.indents) ≠ []) := by
  unfold yaml_emitter_state_machine
  cases hs : emitter.state <;> rw [hs] at hevent <;>
    simp only [collection_end_event, reduceCtorEq, Option.some.injEq] at hevent <;>
    simp only [is_flow_state, is_first_state, Bool.or_false, Bool.or_true, Bool.not_true,
      Bool.not_false, Bool.false_eq_true, if_true, if_false]
  case YAML_EMIT_FLOW_SEQUENCE_FIRST_ITEM_STATE =>
    obtain ⟨opened, separated, hu1, hu2, heq⟩ := emit_flow_sequence_item_form emitter event true
    obtain ⟨hu1, _⟩ := unwritten_opened emitter opened true _ hu1
    rw [if_pos hevent.symm] at heq
    rw [heq]
    have h := emit_flow_end_control emitter opened 0x5D true (by decide) _ _ _ hu1
    simp only [if_true, Bool.false_eq_true, if_false, add_sub_cancel_right] at h
    exact h
  case YAML_EMIT_FLOW_SEQUENCE_ITEM_STATE =>
    obtain ⟨opened, separated, hu1, hu2, heq⟩ := emit_flow_sequence_item_form emitter event false
    obtain ⟨hu1, _⟩ := unwritten_opened emitter opened false _ hu1
    rw [if_pos hevent.symm] at heq
    rw [heq]
    have h := emit_flow_end_control emitter opened 0x5D false (by decide) _ _ _ hu1
    simp only [if_true, Bool.false_eq_true, if_false, add_sub_cancel_right] at h
    exact h
  case YAML_EMIT_FLOW_MAPPING_FIRST_KEY_STATE =>
    obtain ⟨opened, separated, simple, hu1, hu2, heq⟩ := emit_flow_mapping_key_form emitter event true
    obtain ⟨hu1, _⟩ := unwritten_opened emitter opened true _ hu1
    rw [if_pos hevent.symm] at heq
    rw [heq]
    have h := emit_flow_end_control emitter opened 0x7D true (by decide) _ _ _ hu1
    simp only [if_true, Bool.false_eq_true, if_false, add_sub_cancel_right] at h
    exact h
  case YAML_EMIT_FLOW_MAPPING_KEY_STATE =>
    obtain ⟨opened, separated, simple, hu1, hu2, heq⟩ := emit_flow_mapping_key_form emitter event false
    obtain ⟨hu1, _⟩ := unwritten_opened emitter opened false _ hu1
    rw [if_pos hevent.symm] at heq
    rw [heq]
    have h := emit_flow_end_control emitter opened 0x7D false (by decide) _ _ _ hu1
    simp only [if_true, Bool.false_eq_true, if_false, add_sub_cancel_right] at h
    exact h
  case YAML_EMIT_BLOCK_SEQUENCE_FIRST_ITEM_STATE =>
    obtain ⟨opened, separated, hu1, hu2, heq⟩ := emit_block_sequence_item_form emitter event true
    obtain ⟨hu1, _⟩ := unwritten_opened emitter opened true _ hu1
    rw [if_pos hevent.symm] at heq
    rw [heq]
    have h := emit_block_end_control emitter opened _ _ _ hu1
    simp only [if_true, Bool.false_eq_true, if_false] at h
    exact h
  case YAML_EMIT_BLOCK_SEQUENCE_ITEM_STATE =>
    obtain ⟨opened, separated, hu1, hu2, heq⟩ := emit_block_sequence_item_form emitter event false
    obtain ⟨hu1, _⟩ := unwritten_opened emitter opened false _ hu1
    rw [if_pos hevent.symm] at heq
    rw [heq]
    have h := emit_block_end_control emitter opened _ _ _ hu1
    simp only [if_true, Bool.false_eq_true, if_false] at h
    exact h
  case YAML_EMIT_BLOCK_MAPPING_FIRST_KEY_STATE =>
    obtain ⟨opened, separated, simple, hu1, hu2, heq⟩ := emit_block_mapping_key_form emitter event true
    obtain ⟨hu1, _⟩ := unwritten_opened emitter opened true _ hu1
    rw [if_pos hevent.symm] at heq
    rw [heq]
    have h := emit_block_end_control emitter opened _ _ _ hu1
    simp only [if_true, Bool.false_eq_true, if_false] at h
    exact h
  case YAML_EMIT_BLOCK_MAPPING_KEY_STATE =>
    obtain ⟨opened, separated, simple, hu1, hu2, heq⟩ := emit_block_mapping_key_form emitter event false
    obtain ⟨hu1, _⟩ := unwritten_opened emitter opened false _ hu1
    rw [if_pos hevent.symm] at heq
    rw [heq]
    have h := emit_block_end_control emitter opened _ _ _ hu1
    simp only [if_true, Bool.false_eq_true, if_false] at h
    exact h

/-! ## Theorems: the analysis and the control part -/

/-- `yaml_emitter_analyze_anchor` changes the data of the anchor and the error
only. -/
theorem analyze_anchor_control (emitter : yaml_emitter_t) (anchor : List yaml_char_t)
    (is_alias : Bool) (result : Bool × yaml_emitter_t)
    (h : yaml_emitter_analyze_anchor emitter anchor is_alias = some result) :
    control result.2 = control emitter ∧ result.2.tag_data = emitter.tag_data := by
  simp only [yaml_emitter_analyze_anchor] at h
  by_cases hempty : (STRING anchor anchor.length).capacity = 0
  · rw [if_pos hempty] at h
    cases h
    exact ⟨rfl, rfl⟩
  · rw [if_neg hempty] at h
    cases hloop : analyze_alpha_loop (STRING anchor anchor.length).capacity
        (STRING anchor anchor.length).capacity (STRING anchor anchor.length) with
    | none => simp [hloop] at h
    | some ok =>
      cases ok <;> simp only [hloop, Option.some.injEq] at h <;> subst h <;> exact ⟨rfl, rfl⟩

/-- The analysis of the anchor of an event changes the data of the anchor and
the error only. -/
theorem analyze_event_anchor_control (emitter : yaml_emitter_t)
    (anchor : Option (List yaml_char_t)) (result : Bool × yaml_emitter_t)
    (h : analyze_event_anchor emitter anchor = some result) :
    control result.2 = control emitter ∧ result.2.tag_data = emitter.tag_data := by
  cases anchor with
  | none =>
    cases h
    exact ⟨rfl, rfl⟩
  | some anchor => exact analyze_anchor_control emitter anchor false result h

/-- `yaml_emitter_analyze_tag` changes the data of the tag and the error only. -/
theorem analyze_tag_control (emitter : yaml_emitter_t) (tag : List yaml_char_t) :
    control (yaml_emitter_analyze_tag emitter tag).2 = control emitter := by
  simp only [yaml_emitter_analyze_tag]
  split_ifs
  · rfl
  · split <;> rfl

/-- The analysis of the tag of an event changes the data of the tag and the
error only. -/
theorem analyze_event_tag_control (emitter : yaml_emitter_t)
    (tag : Option (List yaml_char_t)) (is_implicit : Bool) (result : Bool × yaml_emitter_t)
    (h : analyze_event_tag emitter tag is_implicit = some result) :
    control result.2 = control emitter := by
  cases tag with
  | none =>
    cases h
    rfl
  | some tag =>
    simp only [analyze_event_tag] at h
    split_ifs at h
    · cases h
      exact analyze_tag_control emitter tag
    · cases h
      rfl

/-- `yaml_emitter_analyze_scalar` changes the data of the scalar only, and
does not fail. -/
theorem analyze_scalar_control (emitter : yaml_emitter_t) (value : List yaml_char_t)
    (result : Bool × yaml_emitter_t)
    (h : yaml_emitter_analyze_scalar emitter value = some result) :
    result.1 = true ∧ unwritten result.2 = unwritten { emitter with scalar_data := result.2.scalar_data } := by
  rw [analyze_scalar_eq, Option.map_eq_some'] at h
  obtain ⟨data, _, hresult⟩ := h
  subst hresult
  exact ⟨rfl, rfl⟩

/-- `yaml_emitter_analyze_event` changes the analysed data and the error
only. -/
theorem analyze_event_control (emitter : yaml_emitter_t) (event : yaml_event_t)
    (result : Bool × yaml_emitter_t)
    (h : yaml_emitter_analyze_event emitter event = some result) :
    control result.2 = control emitter := by
  have hreset : control (analyze_event_reset emitter) = control emitter := rfl
  unfold yaml_emitter_analyze_event at h
  cases htype : event.type <;> simp only [htype] at h
  case YAML_ALIAS_EVENT => exact (analyze_anchor_control _ _ _ _ h).1.trans hreset
  case YAML_SCALAR_EVENT =>
    cases hanchor : analyze_event_anchor (analyze_event_reset emitter) event.data.scalar.anchor
      with
    | none => simp [hanchor, or_return] at h
    | some anchored =>
      have h1 := (analyze_event_anchor_control _ _ _ hanchor).1
      obtain ⟨b1, anchored⟩ := anchored
      cases b1
      · simp only [hanchor, or_return, Option.some.injEq] at h
        subst h
        exact h1.trans hreset
      · simp only [hanchor, or_return] at h
        cases htag : analyze_event_tag anchored event.data.scalar.tag
          (event.data.scalar.is_plain_implicit || event.data.scalar.is_quoted_implicit) with
        | none => simp [htag] at h
        | some tagged =>
          have h2 := analyze_event_tag_control _ _ _ _ htag
          obtain ⟨b2, tagged⟩ := tagged
          cases b2
          · simp only [htag, Option.some.injEq] at h
            subst h
            exact h2.trans (h1.trans hreset)
          · simp only [htag] at h
            have h3 := (analyze_scalar_control _ _ _ h).2
            exact ((control_of_unwritten _ _ h3).trans rfl).trans (h2.trans (h1.trans hreset))
  case YAML_SEQUENCE_START_EVENT =>
    cases hanchor : analyze_event_anchor (analyze_event_reset emitter)
      event.data.sequence_start.anchor with
    | none => simp [hanchor, or_return] at h
    | some anchored =>
      have h1 := (analyze_event_anchor_control _ _ _ hanchor).1
      obtain ⟨b1, anchored⟩ := anchored
      cases b1
      · simp only [hanchor, or_return, Option.some.injEq] at h
        subst h
        exact h1.trans hreset
      · simp only [hanchor, or_return] at h
        exact (analyze_event_tag_control _ _ _ _ h).trans (h1.trans hreset)
  case YAML_MAPPING_START_EVENT =>
    cases hanchor : analyze_event_anchor (analyze_event_reset emitter)
      event.data.mapping_start.anchor with
    | none => simp [hanchor, or_return] at h
    | some anchored =>
      have h1 := (analyze_event_anchor_control _ _ _ hanchor).1
      obtain ⟨b1, anchored⟩ := anchored
      cases b1
      · simp only [hanchor, or_return, Option.some.injEq] at h
        subst h
        exact h1.trans hreset
      · simp only [hanchor, or_return] at h
        exact (analyze_event_tag_control _ _ _ _ h).trans (h1.trans hreset)
  all_goals
    simp only [Option.some.injEq] at h
    subst h
    exact hreset

/-! ## Theorems: empty collections -/

/-- An indicator of one ASCII octet is joined to the output, after a space
when one is asked for and the emitter is not at whitespace. -/
theorem write_indicator_octet_output (emitter : yaml_emitter_t) (octet : yaml_char_t)
    (need_whitespace is_whitespace is_indention : Bool) (h : octet < 0x80) :
    ∃ result,
      yaml_emitter_write_indicator emitter [octet] need_whitespace is_whitespace is_indention
        = some result ∧
      unwritten result = unwritten emitter ∧
      result.output
        = emitter.output ++ (if need_whitespace && !emitter.is_whitespace then [0x20] else [])
            ++ [octet] ∧
      result.is_whitespace = is_whitespace := by
  have hascii : ∀ o ∈ [octet], o < 0x80 := by
    intro o ho
    rw [List.mem_singleton.mp ho]
    exact h
  have hw := write_indicator_ascii emitter [octet] need_whitespace is_whitespace is_indention
    hascii
  refine ⟨_, hw, unwritten_write_indicator _ _ _ _ _ _ hw, ?_, rfl⟩
  show (if _ then PUT emitter 0x20 else emitter).output ++ [octet] = _
  split_ifs
  · rfl
  · simp

/-- A flow collection that ends at once, outside canonical mode: the opening
and the closing indicator are written, after a space when the emitter is not
at whitespace; the indent, the flow level and the stacks are restored and the
state is popped. -/
theorem emit_flow_empty (emitter : yaml_emitter_t) (opening closing : yaml_char_t)
    (state : yaml_emitter_state_t) (states : List yaml_emitter_state_t)
    (hopening : opening < 0x80) (hclosing : closing < 0x80)
    (hcanonical : emitter.is_canonical = false) (hstates : emitter.states = state :: states) :
    ∃ closed,
      (emit_flow_first emitter opening true).bind
        (fun opened => emit_flow_end opened closing true) = some (true, closed) ∧
      closed.output
        = emitter.output ++ (if emitter.is_whitespace then [] else [0x20])
            ++ [opening, closing] ∧
      closed.indent = emitter.indent ∧ closed.indents = emitter.indents ∧
      closed.flow_level = emitter.flow_level ∧ closed.state = state ∧
      closed.states = states ∧ closed.events = emitter.events := by
  obtain ⟨first, hfirst, hu1, ho1, hw1⟩ := write_indicator_octet_output emitter opening
    true true false hopening
  have hf : ∀ field : yaml_emitter_t → Int,
      field (unwritten first) = field (unwritten emitter) := fun field => by rw [hu1]
  have hpop : pop_indent
      { ({ yaml_emitter_increase_indent first true false with
            flow_level := (yaml_emitter_increase_indent first true false).flow_level + 1 }
          : yaml_emitter_t) with
        flow_level := (yaml_emitter_increase_indent first true false).flow_level + 1 - 1 }
      = some first := by
    rw [increase_indent_eq]
    simp only [pop_indent, POP, Option.map_some', add_sub_cancel_right]
  obtain ⟨second, hsecond, hu2, ho2, hw2⟩ := write_indicator_octet_output
    first closing false false false hclosing
  have hu : unwritten second = unwritten emitter := hu2.trans hu1
  have hs : second.states = state :: states := by
    rw [← hstates]
    exact (congrArg yaml_emitter_t.states hu : (unwritten second).states = _)
  have hc : first.is_canonical = false := by
    rw [← hcanonical]
    exact (congrArg yaml_emitter_t.is_canonical hu1 : (unwritten first).is_canonical = _)
  refine ⟨{ second with state := state, states := states }, ?_, ?_,
    (congrArg yaml_emitter_t.indent hu : (unwritten second).indent = _),
    (congrArg yaml_emitter_t.indents hu : (unwritten second).indents = _),
    (congrArg yaml_emitter_t.flow_level hu : (unwritten second).flow_level = _), rfl, rfl,
    (congrArg yaml_emitter_t.events hu : (unwritten second).events = _)⟩
  · simp only [emit_flow_first, if_true, hfirst, Option.map_some', Option.bind_eq_bind,
      Option.some_bind, emit_flow_end]
    rw [hpop]
    simp only [Option.some_bind, hc, Bool.false_and, Bool.false_eq_true, if_false, hsecond,
      pop_state, POP, hs, Option.map_some']
  · show second.output = _
    rw [ho2, ho1]
    simp only [Bool.true_and, Bool.false_and, Bool.false_eq_true, if_false,
      List.append_nil, List.append_assoc, List.singleton_append]
    cases emitter.is_whitespace <;> rfl

/-- The analysis of the start of a collection with no anchor and no tag to
write only clears the data of the last analysis. -/
theorem analyze_event_plain_start (emitter : yaml_emitter_t)
    (tag : Option (List yaml_char_t)) (is_implicit : Bool)
    (hcanonical : emitter.is_canonical = false)
    (htag : tag = none ∨ is_implicit = true) :
    or_return (analyze_event_anchor (analyze_event_reset emitter) none)
      (fun emitter => analyze_event_tag emitter tag is_implicit)
      = some (true, analyze_event_reset emitter) := by
  have hc : (analyze_event_reset emitter).is_canonical = false := hcanonical
  rcases htag with htag | htag
  · subst htag
    rfl
  · subst htag
    cases tag with
    | none => rfl
    | some tag =>
      simp only [analyze_event_anchor, or_return, analyze_event_tag, hc, Bool.not_true,
        Bool.or_self, Bool.false_eq_true, if_false]

/-- An empty sequence outside canonical mode is written as `[]` in the flow
style, whatever style the event asks for. -/
theorem empty_sequence_flow (emitter : yaml_emitter_t) (start finish : yaml_event_t)
    (rest : List yaml_event_t) (state : yaml_emitter_state_t)
    (states : List yaml_emitter_state_t) (is_root is_sequence is_mapping is_simple_key : Bool)
    (hcanonical : emitter.is_canonical = false)
    (hevents : emitter.events = start :: finish :: rest)
    (hstates : emitter.states = state :: states)
    (hstart : start.type = YAML_SEQUENCE_START_EVENT)
    (hfinish : finish.type = YAML_SEQUENCE_END_EVENT)
    (hanchor : start.data.sequence_start.anchor = none)
    (htag : start.data.sequence_start.tag = none
      ∨ start.data.sequence_start.is_implicit = true) :
    ∃ analysed opened closed,
      yaml_emitter_analyze_event emitter start = some (true, analysed) ∧
      yaml_emitter_emit_node analysed start is_root is_sequence is_mapping is_simple_key
        = some (true, opened) ∧
      opened.state = YAML_EMIT_FLOW_SEQUENCE_FIRST_ITEM_STATE ∧
      opened.output = emitter.output ∧
      or_return (yaml_emitter_analyze_event { opened with events := opened.events.tail } finish)
        (fun emitter => yaml_emitter_state_machine emitter finish) = some (true, closed) ∧
      closed.output
        = emitter.output ++ (if emitter.is_whitespace then [] else [0x20]) ++ [0x5B, 0x5D] ∧
      closed.indent = emitter.indent ∧ closed.indents = emitter.indents ∧
      closed.flow_level = emitter.flow_level ∧ closed.state = state ∧
      closed.states = states := by
  have hanalysis : yaml_emitter_analyze_event emitter start
      = some (true, analyze_event_reset emitter) := by
    unfold yaml_emitter_analyze_event
    simp only [hstart, hanchor]
    exact analyze_event_plain_start emitter _ _ hcanonical htag
  have hempty : yaml_emitter_check_empty_sequence
      { analyze_event_reset emitter with
        is_root_context := is_root, is_sequence_context := is_sequence,
        is_mapping_context := is_mapping, is_simple_key_context := is_simple_key } = true := by
    refine (check_empty_sequence_congr _ emitter rfl).trans ?_
    simp [yaml_emitter_check_empty_sequence, hevents, hstart, hfinish]
  have hnode : yaml_emitter_emit_node (analyze_event_reset emitter) start is_root is_sequence
      is_mapping is_simple_key
      = some (true, { analyze_event_reset emitter with
          is_root_context := is_root, is_sequence_context := is_sequence,
          is_mapping_context := is_mapping, is_simple_key_context := is_simple_key,
          state := YAML_EMIT_FLOW_SEQUENCE_FIRST_ITEM_STATE }) := by
    unfold yaml_emitter_emit_node
    simp only [hstart, yaml_emitter_emit_sequence_start]
    simp only [yaml_emitter_process_anchor, analyze_event_reset, or_return,
      yaml_emitter_process_tag]
    simp only [analyze_event_reset] at hempty
    simp only [hempty, Bool.or_true, if_true]
  have hother : ∀ e : yaml_emitter_t, yaml_emitter_analyze_event e finish
      = some (true, analyze_event_reset e) := fun e =>
    analyze_event_other e finish (by rw [hfinish]; decide) (by rw [hfinish]; decide)
      (by rw [hfinish]; decide) (by rw [hfinish]; decide)
  obtain ⟨closed, hclosed, houtput, hindent, hindents, hflow, hstate, hstates2, _⟩ :=
    emit_flow_empty
      (analyze_event_reset
        { ({ analyze_event_reset emitter with
              is_root_context := is_root, is_sequence_context := is_sequence,
              is_mapping_context := is_mapping, is_simple_key_context := is_simple_key,
              state := YAML_EMIT_FLOW_SEQUENCE_FIRST_ITEM_STATE } : yaml_emitter_t) with
          events := (start :: finish :: rest).tail })
      0x5B 0x5D state states (by decide) (by decide) hcanonical hstates
  refine ⟨_, _, closed, hanalysis, hnode, rfl, rfl, ?_, houtput, hindent, hindents, hflow,
    hstate, hstates2⟩
  rw [hother]
  simp only [or_return]
  have he : (analyze_event_reset emitter).events = start :: finish :: rest := hevents
  simp only [he]
  unfold yaml_emitter_state_machine
  simp only [analyze_event_reset, yaml_emitter_emit_flow_sequence_item, hfinish, if_true]
  exact hclosed

/-- An empty mapping outside canonical mode is written as `{}` in the flow
style, whatever style the event asks for. -/
theorem empty_mapping_flow (emitter : yaml_emitter_t) (start finish : yaml_event_t)
    (rest : List yaml_event_t) (state : yaml_emitter_state_t)
    (states : List yaml_emitter_state_t) (is_root is_sequence is_mapping is_simple_key : Bool)
    (hcanonical : emitter.is_canonical = false)
    (hevents : emitter.events = start :: finish :: rest)
    (hstates : emitter.states = state :: states)
    (hstart : start.type = YAML_MAPPING_START_EVENT)
    (hfinish : finish.type = YAML_MAPPING_END_EVENT)
    (hanchor : start.data.mapping_start.anchor = none)
    (htag : start.data.mapping_start.tag = none
      ∨ start.data.mapping_start.is_implicit = true) :
    ∃ analysed opened closed,
      yaml_emitter_analyze_event emitter start = some (true, analysed) ∧
      yaml_emitter_emit_node analysed start is_root is_sequence is_mapping is_simple_key
        = some (true, opened) ∧
      opened.state = YAML_EMIT_FLOW_MAPPING_FIRST_KEY_STATE ∧
      opened.output = emitter.output ∧
      or_return (yaml_emitter_analyze_event { opened with events := opened.events.tail } finish)
        (fun emitter => yaml_emitter_state_machine emitter finish) = some (true, closed) ∧
      closed.output
        = emitter.output ++ (if emitter.is_whitespace then [] else [0x20]) ++ [0x7B, 0x7D] ∧
      closed.indent = emitter.indent ∧ closed.indents = emitter.indents ∧
      closed.flow_level = emitter.flow_level ∧ closed.state = state ∧
      closed.states = states := by
  have hanalysis : yaml_emitter_analyze_event emitter start
      = some (true, analyze_event_reset emitter) := by
    unfold yaml_emitter_analyze_event
    simp only [hstart, hanchor]
    exact analyze_event_plain_start emitter _ _ hcanonical htag
  have hempty : yaml_emitter_check_empty_mapping
      { analyze_event_reset emitter with
        is_root_context := is_root, is_sequence_context := is_sequence,
        is_mapping_context := is_mapping, is_simple_key_context := is_simple_key } = true := by
    refine (check_empty_mapping_congr _ emitter rfl).trans ?_
    simp [yaml_emitter_check_empty_mapping, hevents, hstart, hfinish]
  have hnode : yaml_emitter_emit_node (analyze_event_reset emitter) start is_root is_sequence
      is_mapping is_simple_key
      = some (true, { analyze_event_reset emitter with
          is_root_context := is_root, is_sequence_context := is_sequence,
          is_mapping_context := is_mapping, is_simple_key_context := is_simple_key,
          state := YAML_EMIT_FLOW_MAPPING_FIRST_KEY_STATE }) := by
    unfold yaml_emitter_emit_node
    simp only [hstart, yaml_emitter_emit_mapping_start]
    simp only [yaml_emitter_process_anchor, analyze_event_reset, or_return,
      yaml_emitter_process_tag]
    simp only [analyze_event_reset] at hempty
    simp only [hempty, Bool.or_true, if_true]
  have hother : ∀ e : yaml_emitter_t, yaml_emitter_analyze_event e finish
      = some (true, analyze_event_reset e) := fun e =>
    analyze_event_other e finish (by rw [hfinish]; decide) (by rw [hfinish]; decide)
      (by rw [hfinish]; decide) (by rw [hfinish]; decide)
  obtain ⟨closed, hclosed, houtput, hindent, hindents, hflow, hstate, hstates2, _⟩ :=
    emit_flow_empty
      (analyze_event_reset
        { ({ analyze_event_reset emitter with
              is_root_context := is_root, is_sequence_context := is_sequence,
              is_mapping_context := is_mapping, is_simple_key_context := is_simple_key,
              state := YAML_EMIT_FLOW_MAPPING_FIRST_KEY_STATE } : yaml_emitter_t) with
          events := (start :: finish :: rest).tail })
      0x7B 0x7D state states (by decide) (by decide) hcanonical hstates
  refine ⟨_, _, closed, hanalysis, hnode, rfl, rfl, ?_, houtput, hindent, hindents, hflow,
    hstate, hstates2⟩
  rw [hother]
  simp only [or_return]
  have he : (analyze_event_reset emitter).events = start :: finish :: rest := hevents
  simp only [he]
  unfold yaml_emitter_state_machine
  simp only [analyze_event_reset, yaml_emitter_emit_flow_mapping_key, hfinish, if_true]
  exact hclosed

set_option maxRecDepth 100000 in
/-- C36, counterexample: outside canonical mode the empty sequence with the
anchor `a` is written as `&a []` and the empty mapping with the tag `!t`, not
implicit, as `!t {}`: the anchor and the tag are written before the two
characters of the collection. -/
theorem empty_collection_with_properties :
    (emit_events anchored_empty_sequence_stream emitter_initial).map
        (fun result => (result.1, result.2.is_canonical, result.2.output))
      = some (true, false, [0x26, 0x61, 0x20, 0x5B, 0x5D]) ∧
    (emit_events tagged_empty_mapping_stream emitter_initial).map
        (fun result => (result.1, result.2.is_canonical, result.2.output))
      = some (true, false, [0x21, 0x74, 0x20, 0x7B, 0x7D]) := by
  decide

/-- C36 (amended): outside canonical mode, whatever style the event asks for, a
SEQUENCE-START with no anchor and no tag to write that is followed at once by
SEQUENCE-END is emitted in the flow style as the two characters `[` `]`, and
a MAPPING-START followed at once by MAPPING-END as `{` `}`, after one space
exactly when the emitter is not at whitespace; the start event writes
nothing, and after the end event the indent, the stack of indents and the
flow level are as before and the state is popped. -/
theorem empty_collection_flow (emitter : yaml_emitter_t) (start finish : yaml_event_t)
    (rest : List yaml_event_t) (state : yaml_emitter_state_t)
    (states : List yaml_emitter_state_t) (is_root is_sequence is_mapping is_simple_key : Bool)
    (hcanonical : emitter.is_canonical = false)
    (hevents : emitter.events = start :: finish :: rest)
    (hstates : emitter.states = state :: states)
    (hkind :
      (start.type = YAML_SEQUENCE_START_EVENT ∧ finish.type = YAML_SEQUENCE_END_EVENT ∧
        start.data.sequence_start.anchor = none ∧
        (start.data.sequence_start.tag = none
          ∨ start.data.sequence_start.is_implicit = true)) ∨
      (start.type = YAML_MAPPING_START_EVENT ∧ finish.type = YAML_MAPPING_END_EVENT ∧
        start.data.mapping_start.anchor = none ∧
        (start.data.mapping_start.tag = none
          ∨ start.data.mapping_start.is_implicit = true))) :
    ∃ analysed opened closed,
      yaml_emitter_analyze_event emitter start = some (true, analysed) ∧
      yaml_emitter_emit_node analysed start is_root is_sequence is_mapping is_simple_key
        = some (true, opened) ∧
      opened.state
        = (if start.type = YAML_SEQUENCE_START_EVENT then
            YAML_EMIT_FLOW_SEQUENCE_FIRST_ITEM_STATE
           else YAML_EMIT_FLOW_MAPPING_FIRST_KEY_STATE) ∧
      opened.output = emitter.output ∧
      or_return (yaml_emitter_analyze_event { opened with events := opened.events.tail } finish)
        (fun emitter => yaml_emitter_state_machine emitter finish) = some (true, closed) ∧
      closed.output
        = emitter.output ++ (if emitter.is_whitespace then [] else [0x20])
            ++ (if start.type = YAML_SEQUENCE_START_EVENT then [0x5B, 0x5D]
                else [0x7B, 0x7D]) ∧
      closed.indent = emitter.indent ∧ closed.indents = emitter.indents ∧
      closed.flow_level = emitter.flow_level ∧ closed.state = state ∧
      closed.states = states := by
  rcases hkind with ⟨hstart, hfinish, hanchor, htag⟩ | ⟨hstart, hfinish, hanchor, htag⟩
  · have h := empty_sequence_flow emitter start finish rest state states is_root is_sequence
      is_mapping is_simple_key hcanonical hevents hstates hstart hfinish hanchor htag
    simp only [hstart, if_true]
    exact h
  · have h := empty_mapping_flow emitter start finish rest state states is_root is_sequence
      is_mapping is_simple_key hcanonical hevents hstates hstart hfinish hanchor htag
    simp only [hstart, reduceCtorEq, if_false]
    exact h

/-- Witness of C36 (amended): an empty sequence for which the block style is asked, in
an emitter that is not at whitespace, is written as a space and `[]`. -/
theorem empty_collection_flow_witness :
    emitter_block_empty_sequence.is_canonical = false ∧
    emitter_block_empty_sequence.events
      = [sequence_start_event YAML_BLOCK_SEQUENCE_STYLE,
         event_of_type YAML_SEQUENCE_END_EVENT] ∧
    emitter_block_empty_sequence.states = [YAML_EMIT_DOCUMENT_END_STATE] ∧
    ∃ analysed opened closed,
      yaml_emitter_analyze_event emitter_block_empty_sequence
        (sequence_start_event YAML_BLOCK_SEQUENCE_STYLE) = some (true, analysed) ∧
      yaml_emitter_emit_node analysed (sequence_start_event YAML_BLOCK_SEQUENCE_STYLE)
        true false false false = some (true, opened) ∧
      opened.state = YAML_EMIT_FLOW_SEQUENCE_FIRST_ITEM_STATE ∧
      opened.output = [] ∧
      or_return
        (yaml_emitter_analyze_event { opened with events := opened.events.tail }
          (event_of_type YAML_SEQUENCE_END_EVENT))
        (fun emitter =>
          yaml_emitter_state_machine emitter (event_of_type YAML_SEQUENCE_END_EVENT))
        = some (true, closed) ∧
      closed.output = [0x20, 0x5B, 0x5D] ∧
      closed.indent = emitter_block_empty_sequence.indent ∧
      closed.indents = emitter_block_empty_sequence.indents ∧
      closed.flow_level = emitter_block_empty_sequence.flow_level ∧
      closed.state = YAML_EMIT_DOCUMENT_END_STATE ∧ closed.states = [] :=
  ⟨rfl, rfl, rfl,
    empty_collection_flow emitter_block_empty_sequence
      (sequence_start_event YAML_BLOCK_SEQUENCE_STYLE) (event_of_type YAML_SEQUENCE_END_EVENT)
      [] YAML_EMIT_DOCUMENT_END_STATE [] true false false false rfl rfl rfl
      (Or.inl ⟨rfl, rfl, rfl, Or.inr rfl⟩)⟩

/-! ## Theorems: the states of the stream and of the document -/

/-- `yaml_emitter_emit_stream_start` keeps the stacks, the queue and the tag
directives; the state follows when it succeeds. -/
theorem emit_stream_start_frame (emitter : yaml_emitter_t) (event : yaml_event_t) :
    ∃ result, yaml_emitter_emit_stream_start emitter event = some result ∧
      result.1 = decide (event.type = YAML_STREAM_START_EVENT) ∧
      result.2.state
        = (if result.1 then YAML_EMIT_FIRST_DOCUMENT_START_STATE else emitter.state) ∧
      result.2.states = emitter.states ∧ result.2.indents = emitter.indents ∧
      result.2.flow_level = emitter.flow_level ∧ result.2.events = emitter.events ∧
      result.2.tag_directives = emitter.tag_directives ∧
      result.2.is_canonical = emitter.is_canonical ∧
      result.2.is_unicode = emitter.is_unicode ∧
      (result.1 = false →
        result.2 = EMITTER_ERROR_INIT emitter "expected STREAM-START") := by
  simp only [yaml_emitter_emit_stream_start]
  by_cases htype : event.type = YAML_STREAM_START_EVENT
  · rw [if_pos htype]
    have hoptions : ∀ options : yaml_emitter_t,
        options = emit_stream_start_options (emit_stream_start_encoding emitter event) →
        options.states = emitter.states ∧ options.indents = emitter.indents ∧
        options.flow_level = emitter.flow_level ∧ options.events = emitter.events ∧
        options.tag_directives = emitter.tag_directives ∧
        options.is_canonical = emitter.is_canonical ∧
        options.is_unicode = emitter.is_unicode := by
      intro options hoptions
      rw [hoptions, emit_stream_start_options_eq, emit_stream_start_encoding_eq]
      exact ⟨rfl, rfl, rfl, rfl, rfl, rfl, rfl⟩
    obtain ⟨h1, h2, h3, h4, h5, h6, h7⟩ := hoptions _ rfl
    generalize emit_stream_start_options (emit_stream_start_encoding emitter event)
      = options at h1 h2 h3 h4 h5 h6 h7 ⊢
    have hbom : ∀ (c : Prop) [Decidable c] (written : yaml_emitter_t),
        unwritten (if c then yaml_emitter_write_bom written else written)
          = unwritten written := by
      intro c _ written
      split_ifs <;> rfl
    refine ⟨_, rfl, by simp only [htype, decide_True], rfl,
      (congrArg yaml_emitter_t.states (hbom _ _)).trans h1,
      (congrArg yaml_emitter_t.indents (hbom _ _)).trans h2,
      (congrArg yaml_emitter_t.flow_level (hbom _ _)).trans h3,
      (congrArg yaml_emitter_t.events (hbom _ _)).trans h4,
      (congrArg yaml_emitter_t.tag_directives (hbom _ _)).trans h5,
      (congrArg yaml_emitter_t.is_canonical (hbom _ _)).trans h6,
      (congrArg yaml_emitter_t.is_unicode (hbom _ _)).trans h7,
      fun hn => Bool.noConfusion hn⟩
  · rw [if_neg htype]
    exact ⟨_, rfl, by simp only [htype, decide_False], rfl, rfl, rfl, rfl, rfl, rfl, rfl, rfl,
      fun _ => rfl⟩

/-- `yaml_emitter_emit_document_end` keeps the stacks and the queue; when it
succeeds the stack of tag directives is emptied and the state follows. -/
theorem emit_document_end_frame (emitter : yaml_emitter_t) (event : yaml_event_t)
    (result : Bool × yaml_emitter_t)
    (h : yaml_emitter_emit_document_end emitter event = some result) :
    result.1 = decide (event.type = YAML_DOCUMENT_END_EVENT) ∧
    (result.1 = true →
      control result.2
        = { control emitter with state := YAML_EMIT_DOCUMENT_START_STATE,
                                 tag_directives := [] }) ∧
    (result.1 = false → result.2 = EMITTER_ERROR_INIT emitter "expected DOCUMENT-END") := by
  simp only [yaml_emitter_emit_document_end] at h
  by_cases htype : event.type = YAML_DOCUMENT_END_EVENT
  · rw [if_pos htype] at h
    simp only [Option.map_eq_some'] at h
    obtain ⟨written, hwritten, hresult⟩ := h
    subst hresult
    refine ⟨by simp [htype], fun _ => ?_, fun hn => Bool.noConfusion hn⟩
    have hu : unwritten written = unwritten emitter := by
      split_ifs at hwritten
      · simp only [Option.map_eq_some'] at hwritten
        obtain ⟨indicated, hindicated, hindent⟩ := hwritten
        subst hindent
        exact (unwritten_write_indent indicated).trans
          ((unwritten_write_indicator _ _ _ _ _ _ hindicated).trans
            (unwritten_write_indent emitter))
      · cases hwritten
        exact unwritten_write_indent emitter
    show (fun x : yaml_emitter_t =>
      { x with state := YAML_EMIT_DOCUMENT_START_STATE, tag_directives := [] })
      (control written) = _
    rw [control_of_unwritten _ _ hu]
  · rw [if_neg htype] at h
    cases h
    exact ⟨by simp [htype], fun hn => Bool.noConfusion hn, fun _ => rfl⟩

/-- The verdict of `yaml_emitter_analyze_tag_directive` and the problem it
records do not depend on the emitter; a directive that passes leaves the
emitter as it was. -/
theorem analyze_tag_directive_eq (tag_directive : yaml_tag_directive_t) :
    ∃ (ok : Bool) (problem : String), ∀ emitter : yaml_emitter_t,
      yaml_emitter_analyze_tag_directive emitter tag_directive
        = some (if ok then (true, emitter) else (false, EMITTER_ERROR_INIT emitter problem)) := by
  obtain ⟨ok, hloop, _⟩ := analyze_alpha_loop_spec tag_directive.handle
    tag_directive.handle.length (tag_directive.handle.length - 1) tag_directive.handle.length
    1 (by omega)
  unfold yaml_emitter_analyze_tag_directive
  simp only [STRING, Nat.zero_add, hloop]
  split_ifs <;> cases ok <;>
    first
    | exact ⟨false, _, fun _ => rfl⟩
    | exact ⟨true, "", fun _ => rfl⟩

/-- The loop over the tag directives of a DOCUMENT-START event: the directives
before the first that fails are appended, and nothing else changes but the
error; after a failure the loop fails again on every emitter that holds the
tag directives left by it, with the same problem or with
`duplicate %TAG directive`. -/
theorem emit_document_start_directives_frame (tag_directives : List yaml_tag_directive_t) :
    ∀ emitter : yaml_emitter_t,
      ∃ (ok : Bool) (appended : List yaml_tag_directive_t) (problem : String),
        emit_document_start_directives tag_directives emitter
          = some (if ok then
              (true, { emitter with tag_directives := emitter.tag_directives ++ appended })
            else
              (false, EMITTER_ERROR_INIT
                { emitter with tag_directives := emitter.tag_directives ++ appended }
                problem)) ∧
        (ok = true → appended = tag_directives) ∧
        (ok = false → ∀ other : yaml_emitter_t,
          other.tag_directives = emitter.tag_directives ++ appended →
          ∃ again, emit_document_start_directives tag_directives other
              = some (false, EMITTER_ERROR_INIT other again) ∧
            (again = problem ∨ again = "duplicate %TAG directive")) := by
  induction tag_directives with
  | nil =>
    intro emitter
    refine ⟨true, [], "", ?_, fun _ => rfl, fun hn => Bool.noConfusion hn⟩
    simp only [emit_document_start_directives, if_true, List.append_nil]
  | cons d rest ih =>
    intro emitter
    obtain ⟨ok, problem, hanalyze⟩ := analyze_tag_directive_eq d
    cases ok
    · refine ⟨false, [], problem, ?_, fun hn => Bool.noConfusion hn, ?_⟩
      · simp only [emit_document_start_directives, hanalyze, or_return, Bool.false_eq_true,
          if_false, List.append_nil]
      · intro _ other _
        refine ⟨problem, ?_, Or.inl rfl⟩
        simp only [emit_document_start_directives, hanalyze, or_return, Bool.false_eq_true,
          if_false]
    · by_cases hknown : emitter.tag_directives.any (fun known => d.handle == known.handle)
          = true
      · refine ⟨false, [], "duplicate %TAG directive", ?_, fun hn => Bool.noConfusion hn, ?_⟩
        · simp only [emit_document_start_directives, hanalyze, or_return, if_true,
            yaml_emitter_append_tag_directive, hknown, Bool.false_eq_true, if_false,
            List.append_nil]
        · intro _ other hother
          refine ⟨_, ?_, Or.inr rfl⟩
          rw [List.append_nil] at hother
          simp only [emit_document_start_directives, hanalyze, or_return, if_true,
            yaml_emitter_append_tag_directive, hother, hknown, Bool.false_eq_true, if_false]
      · obtain ⟨ok, appended, problem, hloop, hok, hfail⟩ := ih
          { emitter with tag_directives := emitter.tag_directives ++ [d] }
        refine ⟨ok, d :: appended, problem, ?_, ?_, ?_⟩
        · simp only [emit_document_start_directives, hanalyze, or_return, if_true,
            yaml_emitter_append_tag_directive, hknown, Bool.false_eq_true, if_false, hloop]
          cases ok <;> simp [EMITTER_ERROR_INIT]
        · intro h
          rw [hok h]
        · intro h other hother
          refine ⟨"duplicate %TAG directive", ?_, Or.inr rfl⟩
          have hdup : other.tag_directives.any (fun known => d.handle == known.handle)
              = true := by
            rw [hother]
            simp
          simp only [emit_document_start_directives, hanalyze, or_return, if_true,
            yaml_emitter_append_tag_directive, hdup, Bool.false_eq_true, if_false]

/-- The loop over the default tag directives appends those whose handle the
stack does not hold yet. -/
theorem emit_document_start_defaults_eq (emitter : yaml_emitter_t) :
    emit_document_start_defaults default_tag_directives emitter
      = some (true, { emitter with
          tag_directives := emitter.tag_directives ++
            default_tag_directives.filter fun tag_directive =>
              !emitter.tag_directives.any fun known => tag_directive.handle == known.handle }) := by
  simp only [default_tag_directives, emit_document_start_defaults,
    yaml_emitter_append_tag_directive, or_return, List.filter]
  by_cases h1 : emitter.tag_directives.any (fun known => [0x21] == known.handle) = true <;>
    by_cases h2 : emitter.tag_directives.any (fun known => [0x21, 0x21] == known.handle)
      = true
  · simp [h1, h2]
  · simp [h1, h2]
  · have h3 : (emitter.tag_directives ++ [({ handle := [0x21], prefix_ := [0x21] }
        : yaml_tag_directive_t)]).any (fun known => [0x21, 0x21] == known.handle) = true := by
      simp only [List.any_append, h2, Bool.true_or]
    simp [h1, h2, h3]
  · have h3 : (emitter.tag_directives ++ [({ handle := [0x21], prefix_ := [0x21] }
        : yaml_tag_directive_t)]).any (fun known => [0x21, 0x21] == known.handle) = false := by
      simp only [List.any_append, Bool.not_eq_true] at h2 ⊢
      rw [h2]
      decide
    simp [h1, h2, h3]

/-- The part of `yaml_emitter_emit_document_start` that writes the start of
the document changes nothing but what is written and the state. -/
theorem emit_document_start_write_frame (emitter : yaml_emitter_t) (event : yaml_event_t)
    (first : Bool) (result : Bool × yaml_emitter_t)
    (h : emit_document_start_write emitter event first = some result) :
    result.1 = true ∧
    unwritten result.2
      = { unwritten emitter with state := YAML_EMIT_DOCUMENT_CONTENT_STATE } := by
  have hlist : ∀ (tag_directives : List yaml_tag_directive_t) (first last : yaml_emitter_t),
      emit_document_start_write_directives tag_directives first = some last →
      unwritten last = unwritten first := by
    intro tag_directives
    induction tag_directives with
    | nil =>
      intro first last hlast
      cases hlast
      rfl
    | cons d rest ih =>
      intro first last hlast
      simp only [emit_document_start_write_directives, Option.bind_eq_bind,
        Option.bind_eq_some] at hlast
      obtain ⟨w1, h1, w2, h2, w3, h3, h4⟩ := hlast
      exact (ih _ _ h4).trans ((unwritten_write_indent w3).trans
        ((unwritten_write_tag_content _ _ _ _ h3).trans
          ((unwritten_write_tag_handle _ _ _ h2).trans
            (unwritten_write_indicator _ _ _ _ _ _ h1))))
  simp only [emit_document_start_write, Option.bind_eq_bind, Option.bind_eq_some,
    Option.map_eq_some'] at h
  obtain ⟨versioned, hversioned, directed, hdirected, marked, hmarked, hresult⟩ := h
  subst hresult
  refine ⟨rfl, ?_⟩
  have hu1 : unwritten versioned = unwritten emitter := by
    split_ifs at hversioned
    · simp only [Option.bind_eq_bind, Option.bind_eq_some, Option.map_eq_some'] at hversioned
      obtain ⟨w1, h1, w2, h2, h3⟩ := hversioned
      subst h3
      exact (unwritten_write_indent w2).trans
        ((unwritten_write_indicator _ _ _ _ _ _ h2).trans
          (unwritten_write_indicator _ _ _ _ _ _ h1))
    · cases hversioned
      rfl
  have hu2 : unwritten directed = unwritten versioned := by
    split_ifs at hdirected
    · exact hlist _ _ _ hdirected
    · cases hdirected
      rfl
  have hmark : ∀ (c : Bool) (marked : yaml_emitter_t),
      (if c then
        (yaml_emitter_write_indicator (yaml_emitter_write_indent directed) [0x2D, 0x2D, 0x2D]
          true false false).map fun emitter =>
          if emitter.is_canonical then yaml_emitter_write_indent emitter else emitter
      else some directed) = some marked →
      unwritten marked = unwritten directed := by
    intro c marked hc
    cases c
    · cases hc
      rfl
    · simp only [if_true, Option.map_eq_some'] at hc
      obtain ⟨w1, h1, h2⟩ := hc
      subst h2
      have hw := (unwritten_write_indicator _ _ _ _ _ _ h1).trans
        (unwritten_write_indent directed)
      split_ifs
      · exact (unwritten_write_indent w1).trans hw
      · exact hw
  have hu3 : unwritten marked = unwritten directed := hmark _ _ hmarked
  show (fun x : yaml_emitter_t => { x with state := YAML_EMIT_DOCUMENT_CONTENT_STATE })
    (unwritten marked) = _
  rw [hu3, hu2, hu1]

/-- `yaml_emitter_emit_document_start`: when it succeeds on DOCUMENT-START the
tag directives of the event and the default tag directives whose handle is
not yet known are appended, and the state is DOCUMENT-CONTENT; on STREAM-END
the state is END; when it fails only the error and the stack of tag
directives change, and it fails again on every emitter that holds the tag
directives left by the failure, with the same problem or with
`duplicate %TAG directive`. -/
theorem emit_document_start_frame (emitter : yaml_emitter_t) (event : yaml_event_t)
    (first : Bool) (result : Bool × yaml_emitter_t)
    (h : yaml_emitter_emit_document_start emitter event first = some result) :
    (result.1 = true →
      (event.type = YAML_DOCUMENT_START_EVENT ∧
        control result.2
          = { control emitter with
              state := YAML_EMIT_DOCUMENT_CONTENT_STATE,
              tag_directives :=
                (emitter.tag_directives ++ event.data.document_start.tag_directives) ++
                  default_tag_directives.filter fun tag_directive =>
                    !(emitter.tag_directives ++ event.data.document_start.tag_directives).any
                      fun known => tag_directive.handle == known.handle }) ∨
      (event.type = YAML_STREAM_END_EVENT ∧
        result.2 = { emitter with state := YAML_EMIT_END_STATE })) ∧
    (result.1 = false →
      ∃ (appended : List yaml_tag_directive_t) (problem : String),
        result.2
          = EMITTER_ERROR_INIT
              { emitter with tag_directives := emitter.tag_directives ++ appended } problem ∧
        (event.type ≠ YAML_DOCUMENT_START_EVENT → appended = []) ∧
        ∀ (other : yaml_emitter_t) (again_first : Bool),
          other.tag_directives = emitter.tag_directives ++ appended →
          ∃ again, yaml_emitter_emit_document_start other event again_first
              = some (false, EMITTER_ERROR_INIT other again) ∧
            (again = problem ∨ again = "duplicate %TAG directive")) := by
  by_cases htype : event.type = YAML_DOCUMENT_START_EVENT
  · by_cases hversion : ∃ version_directive,
        event.data.document_start.version_directive = some version_directive ∧
        (version_directive.major ≠ 1 ∨ version_directive.minor ≠ 1)
    · obtain ⟨version_directive, hsome, hbad⟩ := hversion
      have hfails : ∀ (x : yaml_emitter_t) (x_first : Bool),
          yaml_emitter_emit_document_start x event x_first
            = some (false, EMITTER_ERROR_INIT x "incompatible %YAML directive") := by
        intro x x_first
        unfold yaml_emitter_emit_document_start
        simp only [if_pos htype, hsome, yaml_emitter_analyze_version_directive, if_pos hbad,
          or_return]
      rw [hfails, Option.some.injEq] at h
      subst h
      refine ⟨fun hn => Bool.noConfusion hn,
        fun _ => ⟨[], "incompatible %YAML directive", ?_, fun _ => rfl, ?_⟩⟩
      · rw [List.append_nil]
      · intro other again_first _
        exact ⟨_, hfails other again_first, Or.inl rfl⟩
    · have hpass : ∀ (x : yaml_emitter_t) (x_first : Bool),
          yaml_emitter_emit_document_start x event x_first
            = or_return
                (emit_document_start_directives event.data.document_start.tag_directives x)
                fun emitter =>
              or_return (emit_document_start_defaults default_tag_directives emitter)
                fun emitter =>
              emit_document_start_write emitter event x_first := by
        intro x x_first
        unfold yaml_emitter_emit_document_start
        rw [if_pos htype]
        cases hv : event.data.document_start.version_directive with
        | none => rfl
        | some version_directive =>
          have hgood : ¬ (version_directive.major ≠ 1 ∨ version_directive.minor ≠ 1) :=
            fun hbad => hversion ⟨version_directive, hv, hbad⟩
          simp only [yaml_emitter_analyze_version_directive, if_neg hgood, or_return]
      rw [hpass] at h
      obtain ⟨ok, appended, problem, hloop, hok, hfail⟩ :=
        emit_document_start_directives_frame event.data.document_start.tag_directives emitter
      rw [hloop] at h
      cases ok
      · simp only [Bool.false_eq_true, if_false, or_return, Option.some.injEq] at h
        subst h
        refine ⟨fun hn => Bool.noConfusion hn,
          fun _ => ⟨appended, problem, rfl, fun hn => absurd htype hn, ?_⟩⟩
        intro other again_first hother
        obtain ⟨again, hagain, hor⟩ := hfail rfl other hother
        refine ⟨again, ?_, hor⟩
        rw [hpass, hagain]
        rfl
      · simp only [if_true, or_return] at h
        rw [emit_document_start_defaults_eq] at h
        simp only [] at h
        obtain ⟨hb, hu⟩ := emit_document_start_write_frame _ _ _ _ h
        refine ⟨fun _ => Or.inl ⟨htype, ?_⟩, fun hn => ?_⟩
        · rw [hok rfl] at hu
          simp only [control, hu]
          rfl
        · rw [hb] at hn
          exact Bool.noConfusion hn
  · unfold yaml_emitter_emit_document_start at h
    rw [if_neg htype] at h
    by_cases hend : event.type = YAML_STREAM_END_EVENT
    · rw [if_pos hend] at h
      cases h
      exact ⟨fun _ => Or.inr ⟨hend, rfl⟩, fun hn => Bool.noConfusion hn⟩
    · rw [if_neg hend] at h
      cases h
      refine ⟨fun hn => Bool.noConfusion hn,
        fun _ => ⟨[], "expected DOCUMENT-START or STREAM-END", ?_, fun _ => rfl, ?_⟩⟩
      · rw [List.append_nil]
      · intro other again_first _
        refine ⟨_, ?_, Or.inl rfl⟩
        unfold yaml_emitter_emit_document_start
        simp only [if_neg htype, if_neg hend]

/-! ## Theorems: invariants of the emitter -/

/-- A call of `or_return` that returns `1` ran both parts. -/
theorem or_return_eq_true (first : Option (Bool × yaml_emitter_t))
    (rest : yaml_emitter_t → Option (Bool × yaml_emitter_t)) (result : yaml_emitter_t)
    (h : or_return first rest = some (true, result)) :
    ∃ middle, first = some (true, middle) ∧ rest middle = some (true, result) := by
  rcases first with _ | ⟨_ | _, middle⟩
  · cases h
  · simp only [or_return, Option.some.injEq, Prod.mk.injEq, Bool.false_eq_true, false_and] at h
  · exact ⟨middle, rfl, h⟩

/-- A property of the emitter that does not depend on the queue and that every
successful step of the state machine keeps holds after the loop of
`yaml_emitter_emit`. -/
theorem emit_loop_invariant (P : yaml_emitter_t → Prop)
    (hqueue : ∀ (emitter : yaml_emitter_t) (events : List yaml_event_t),
      P emitter → P { emitter with events := events })
    (hstep : ∀ (emitter : yaml_emitter_t) (event : yaml_event_t) (rest : List yaml_event_t)
      (analysed result : yaml_emitter_t),
      P emitter → emitter.events = event :: rest →
      yaml_emitter_analyze_event emitter event = some (true, analysed) →
      yaml_emitter_state_machine analysed event = some (true, result) → P result) :
    ∀ (fuel : Nat) (emitter result : yaml_emitter_t), P emitter →
      yaml_emitter_emit_loop fuel emitter = some (true, result) → P result := by
  intro fuel
  induction fuel with
  | zero =>
    intro emitter result hP h
    simp only [yaml_emitter_emit_loop] at h
    split_ifs at h
    cases h
    exact hP
  | succ fuel ih =>
    intro emitter result hP h
    simp only [yaml_emitter_emit_loop] at h
    split_ifs at h
    · cases h
      exact hP
    · cases hevents : emitter.events with
      | nil =>
        simp only [hevents] at h
        cases h
        exact hP
      | cons event rest =>
        simp only [hevents] at h
        obtain ⟨analysed, hanalysed, h⟩ := or_return_eq_true _ _ _ h
        obtain ⟨stepped, hstepped, h⟩ := or_return_eq_true _ _ _ h
        exact ih _ _ (hqueue _ _ (hstep emitter event rest analysed stepped hP hevents
          hanalysed hstepped)) h

/-- A property of the emitter that does not depend on the queue and that every
successful step of the state machine keeps holds after every sequence of
successful calls of `yaml_emitter_emit`. -/
theorem emit_events_invariant (P : yaml_emitter_t → Prop)
    (hqueue : ∀ (emitter : yaml_emitter_t) (events : List yaml_event_t),
      P emitter → P { emitter with events := events })
    (hstep : ∀ (emitter : yaml_emitter_t) (event : yaml_event_t) (rest : List yaml_event_t)
      (analysed result : yaml_emitter_t),
      P emitter → emitter.events = event :: rest →
      yaml_emitter_analyze_event emitter event = some (true, analysed) →
      yaml_emitter_state_machine analysed event = some (true, result) → P result) :
    ∀ (stream : List yaml_event_t) (emitter result : yaml_emitter_t), P emitter →
      emit_events stream emitter = some (true, result) → P result := by
  intro stream
  induction stream with
  | nil =>
    intro emitter result hP h
    cases h
    exact hP
  | cons event rest ih =>
    intro emitter result hP h
    simp only [emit_events] at h
    obtain ⟨emitted, hemitted, h⟩ := or_return_eq_true _ _ _ h
    exact ih _ _ (emit_loop_invariant P hqueue hstep _ _ _ (hqueue _ _ hP) hemitted) h

/-- A successful step of the state machine in a state where a node is emitted:
the end of the collection pops the indent and the state; an alias or a scalar
leads to the state that follows the node; the start of a collection pushes
that state and leads to the state of the first item or key, of a block
collection only when the flow level is zero. -/
theorem state_machine_step (emitter : yaml_emitter_t) (event : yaml_event_t)
    (result : yaml_emitter_t) (hstate : is_node_state emitter.state = true)
    (h : yaml_emitter_state_machine emitter event = some (true, result)) :
    (collection_end_event emitter.state = some event.type ∧
      ∃ state states top indents, emitter.states = state :: states ∧
        (if is_first_state emitter.state then emitter.indent :: emitter.indents
         else emitter.indents) = top :: indents ∧
        control result
          = { set_stacks (control emitter) states indents top
                (if is_first_state emitter.state || !is_flow_state emitter.state then
                  emitter.flow_level
                 else emitter.flow_level - 1) with
              state := state }) ∨
    (collection_end_event emitter.state ≠ some event.type ∧
      ∃ (continuation : yaml_emitter_state_t) (indent : Int),
        is_continuation_state emitter.state continuation = true ∧
        (is_first_state emitter.state = false → indent = emitter.indent) ∧
        (((event.type = YAML_ALIAS_EVENT ∨ event.type = YAML_SCALAR_EVENT) ∧
          control result
            = { set_stacks (control emitter) emitter.states
                  (if is_first_state emitter.state then emitter.indent :: emitter.indents
                   else emitter.indents)
                  indent
                  (if is_first_state emitter.state && is_flow_state emitter.state then
                    emitter.flow_level + 1
                   else emitter.flow_level) with
                state := continuation }) ∨
        ((event.type = YAML_SEQUENCE_START_EVENT ∨ event.type = YAML_MAPPING_START_EVENT) ∧
          ∃ opened,
            (opened = (if event.type = YAML_SEQUENCE_START_EVENT then
                YAML_EMIT_FLOW_SEQUENCE_FIRST_ITEM_STATE
              else YAML_EMIT_FLOW_MAPPING_FIRST_KEY_STATE) ∨
             (opened = (if event.type = YAML_SEQUENCE_START_EVENT then
                YAML_EMIT_BLOCK_SEQUENCE_FIRST_ITEM_STATE
              else YAML_EMIT_BLOCK_MAPPING_FIRST_KEY_STATE) ∧
              (if is_first_state emitter.state && is_flow_state emitter.state then
                emitter.flow_level + 1
               else emitter.flow_level) = 0)) ∧
            control result
              = { set_stacks (control emitter) (continuation :: emitter.states)
                    (if is_first_state emitter.state then emitter.indent :: emitter.indents
                     else emitter.indents)
                    indent
                    (if is_first_state emitter.state && is_flow_state emitter.state then
                      emitter.flow_level + 1
                     else emitter.flow_level) with
                  state := opened }))) := by
  by_cases hevent : collection_end_event emitter.state = some event.type
  · left
    refine ⟨hevent, ?_⟩
    obtain ⟨htotal, hsome⟩ := state_machine_end emitter event hevent
    obtain ⟨hstates, hindents⟩ := hsome _ h
    obtain ⟨state, states, hs⟩ := List.exists_cons_of_ne_nil hstates
    obtain ⟨top, indents, hi⟩ := List.exists_cons_of_ne_nil hindents
    obtain ⟨ended, hended, hcontrol⟩ := htotal state states top indents hs hi
    rw [h, Option.some.injEq, Prod.mk.injEq] at hended
    rw [hended.2]
    exact ⟨state, states, top, indents, hs, hi, hcontrol⟩
  · right
    refine ⟨hevent, ?_⟩
    obtain ⟨pushed, continuation, is_root, is_sequence, is_mapping, is_simple_key, indent,
      hcontinuation, hu, hindent, heq⟩ := state_machine_node emitter event hstate hevent
    rw [heq] at h
    have hc := control_of_unwritten_stacks pushed emitter _ _ _ _ hu
    have hstates : pushed.states = continuation :: emitter.states :=
      (congrArg yaml_emitter_t.states hu : (unwritten pushed).states = _)
    have hflow : pushed.flow_level
        = (if is_first_state emitter.state && is_flow_state emitter.state then
            emitter.flow_level + 1
           else emitter.flow_level) :=
      (congrArg yaml_emitter_t.flow_level hu : (unwritten pushed).flow_level = _)
    refine ⟨continuation, indent, hcontinuation, hindent, ?_⟩
    rcases emit_node_eq pushed event _ _ _ _ _ h with
      ⟨hb, _⟩ | ⟨hb, _⟩ | ⟨_, htype, state, states, hs, hr⟩ | ⟨_, htype, hr⟩ | ⟨_, htype, hr⟩
    · exact Bool.noConfusion hb
    · exact Bool.noConfusion hb
    · left
      refine ⟨htype, ?_⟩
      rw [hstates, List.cons.injEq] at hs
      obtain ⟨hs1, hs2⟩ := hs
      subst hs1 hs2
      rw [hr, hc]
      rfl
    · right
      refine ⟨Or.inl htype,
        (if pushed.flow_level != 0 || pushed.is_canonical
            || event.data.sequence_start.style == YAML_FLOW_SEQUENCE_STYLE
            || yaml_emitter_check_empty_sequence pushed then
          YAML_EMIT_FLOW_SEQUENCE_FIRST_ITEM_STATE
        else YAML_EMIT_BLOCK_SEQUENCE_FIRST_ITEM_STATE), ?_, by rw [hr, hc]⟩
      rw [if_pos htype, if_pos htype]
      by_cases hcondition : (pushed.flow_level != 0 || pushed.is_canonical
          || event.data.sequence_start.style == YAML_FLOW_SEQUENCE_STYLE
          || yaml_emitter_check_empty_sequence pushed) = true
      · exact Or.inl (if_pos hcondition)
      · refine Or.inr ⟨if_neg hcondition, ?_⟩
        rw [← hflow]
        simp only [Bool.or_eq_true, bne_iff_ne, ne_eq, not_or, not_not] at hcondition
        exact hcondition.1.1.1
    · right
      have hne : event.type ≠ YAML_SEQUENCE_START_EVENT := by
        rw [htype]
        decide
      refine ⟨Or.inr htype,
        (if pushed.flow_level != 0 || pushed.is_canonical
            || event.data.mapping_start.style == YAML_FLOW_MAPPING_STYLE
            || yaml_emitter_check_empty_mapping pushed then
          YAML_EMIT_FLOW_MAPPING_FIRST_KEY_STATE
        else YAML_EMIT_BLOCK_MAPPING_FIRST_KEY_STATE), ?_, by rw [hr, hc]⟩
      rw [if_neg hne, if_neg hne]
      by_cases hcondition : (pushed.flow_level != 0 || pushed.is_canonical
          || event.data.mapping_start.style == YAML_FLOW_MAPPING_STYLE
          || yaml_emitter_check_empty_mapping pushed) = true
      · exact Or.inl (if_pos hcondition)
      · refine Or.inr ⟨if_neg hcondition, ?_⟩
        rw [← hflow]
        simp only [Bool.or_eq_true, bne_iff_ne, ne_eq, not_or, not_not] at hcondition
        exact hcondition.1.1.1

/-- A successful step of the state machine in a state of the stream or of the
document: the stacks and the flow level are kept; STREAM-START leads to the
state of the first document, DOCUMENT-START appends the tag directives of
the event and the default ones and leads to DOCUMENT-CONTENT, STREAM-END
leads to END, and DOCUMENT-END empties the tag directives. -/
theorem state_machine_document_step (emitter : yaml_emitter_t) (event : yaml_event_t)
    (result : yaml_emitter_t) (hstate : is_node_state emitter.state = false)
    (h : yaml_emitter_state_machine emitter event = some (true, result)) :
    result.states = emitter.states ∧ result.indents = emitter.indents ∧
    result.flow_level = emitter.flow_level ∧ result.events = emitter.events ∧
    result.is_canonical = emitter.is_canonical ∧
    ((emitter.state = YAML_EMIT_STREAM_START_STATE ∧ event.type = YAML_STREAM_START_EVENT ∧
        result.state = YAML_EMIT_FIRST_DOCUMENT_START_STATE ∧
        result.tag_directives = emitter.tag_directives) ∨
     ((emitter.state = YAML_EMIT_FIRST_DOCUMENT_START_STATE
          ∨ emitter.state = YAML_EMIT_DOCUMENT_START_STATE) ∧
        event.type = YAML_DOCUMENT_START_EVENT ∧
        result.state = YAML_EMIT_DOCUMENT_CONTENT_STATE ∧ result.indent = emitter.indent ∧
        result.tag_directives
          = (emitter.tag_directives ++ event.data.document_start.tag_directives) ++
              default_tag_directives.filter fun tag_directive =>
                !(emitter.tag_directives ++ event.data.document_start.tag_directives).any
                  fun known => tag_directive.handle == known.handle) ∨
     ((emitter.state = YAML_EMIT_FIRST_DOCUMENT_START_STATE
          ∨ emitter.state = YAML_EMIT_DOCUMENT_START_STATE) ∧
        event.type = YAML_STREAM_END_EVENT ∧ result.state = YAML_EMIT_END_STATE ∧
        result.indent = emitter.indent ∧ result.tag_directives = emitter.tag_directives) ∨
     (emitter.state = YAML_EMIT_DOCUMENT_END_STATE ∧ event.type = YAML_DOCUMENT_END_EVENT ∧
        result.state = YAML_EMIT_DOCUMENT_START_STATE ∧ result.indent = emitter.indent ∧
        result.tag_directives = [])) := by
  unfold yaml_emitter_state_machine at h
  cases hs : emitter.state <;> rw [hs] at hstate <;>
    simp only [is_node_state, is_flow_state, is_block_state, Bool.or_false, Bool.or_true,
      beq_self_eq_true, Bool.true_eq_false, reduceCtorEq] at hstate <;> simp only [hs] at h
  case YAML_EMIT_STREAM_START_STATE =>
    obtain ⟨stepped, hstepped, hb, h1, h2, h3, h4, h5, h6, h7, _⟩ :=
      emit_stream_start_frame emitter event
    rw [h, Option.some.injEq] at hstepped
    subst hstepped
    simp only [if_true] at h1
    exact ⟨h2, h3, h4, h5, h7, Or.inl ⟨rfl, of_decide_eq_true hb.symm, h1, h6⟩⟩
  case YAML_EMIT_FIRST_DOCUMENT_START_STATE =>
    rcases (emit_document_start_frame emitter event true _ h).1 rfl with
      ⟨htype, hc⟩ | ⟨htype, hr⟩
    · obtain ⟨h1, h2, h3, h4, h5, h6, h7, h8, _⟩ := control_fields result
        { emitter with
          state := YAML_EMIT_DOCUMENT_CONTENT_STATE,
          tag_directives :=
            (emitter.tag_directives ++ event.data.document_start.tag_directives) ++
              default_tag_directives.filter fun tag_directive =>
                !(emitter.tag_directives ++ event.data.document_start.tag_directives).any
                  fun known => tag_directive.handle == known.handle } hc
      exact ⟨h2, h3, h5, h6, h8, Or.inr (Or.inl ⟨Or.inl rfl, htype, h1, h4, h7⟩)⟩
    · simp only at hr
      subst hr
      exact ⟨rfl, rfl, rfl, rfl, rfl,
        Or.inr (Or.inr (Or.inl ⟨Or.inl rfl, htype, rfl, rfl, rfl⟩))⟩
  case YAML_EMIT_DOCUMENT_START_STATE =>
    rcases (emit_document_start_frame emitter event false _ h).1 rfl with
      ⟨htype, hc⟩ | ⟨htype, hr⟩
    · obtain ⟨h1, h2, h3, h4, h5, h6, h7, h8, _⟩ := control_fields result
        { emitter with
          state := YAML_EMIT_DOCUMENT_CONTENT_STATE,
          tag_directives :=
            (emitter.tag_directives ++ event.data.document_start.tag_directives) ++
              default_tag_directives.filter fun tag_directive =>
                !(emitter.tag_directives ++ event.data.document_start.tag_directives).any
                  fun known => tag_directive.handle == known.handle } hc
      exact ⟨h2, h3, h5, h6, h8, Or.inr (Or.inl ⟨Or.inr rfl, htype, h1, h4, h7⟩)⟩
    · simp only at hr
      subst hr
      exact ⟨rfl, rfl, rfl, rfl, rfl,
        Or.inr (Or.inr (Or.inl ⟨Or.inr rfl, htype, rfl, rfl, rfl⟩))⟩
  case YAML_EMIT_DOCUMENT_END_STATE =>
    obtain ⟨hb, hc, _⟩ := emit_document_end_frame emitter event _ h
    obtain ⟨h1, h2, h3, h4, h5, h6, h7, h8, _⟩ := control_fields result
      { emitter with state := YAML_EMIT_DOCUMENT_START_STATE, tag_directives := [] } (hc rfl)
    exact ⟨h2, h3, h5, h6, h8,
      Or.inr (Or.inr (Or.inr ⟨rfl, of_decide_eq_true hb.symm, h1, h4, h7⟩))⟩
  case YAML_EMIT_END_STATE =>
    simp only [Option.some.injEq, Prod.mk.injEq, Bool.false_eq_true, false_and] at h

/-! ## Theorems: the flow level -/

/-- The state that follows a node is the state of an entered flow collection
exactly in a flow collection, and the state of a block collection only in a
block collection. -/
theorem continuation_state_flow (state continuation : yaml_emitter_state_t)
    (h : is_continuation_state state continuation = true) :
    flow_count [continuation]
      = flow_count [state] + (if is_first_state state && is_flow_state state then 1 else 0) ∧
    (is_block_state continuation = true → is_block_state state = true) := by
  cases state <;> cases continuation <;> first | (exact absurd h (by decide)) | decide

/-- The count of the states of entered flow collections, state by state. -/
theorem flow_count_cons (state : yaml_emitter_state_t) (below : List yaml_emitter_state_t) :
    flow_count (state :: below) = flow_count [state] + flow_count below := by
  simp only [flow_count, List.filter]
  cases is_entered_flow_state state
  · simp
  · simp [Nat.add_comm]

/-- The states of entered flow collections are the states of a flow
collection other than the first. -/
theorem entered_flow_state_eq (state : yaml_emitter_state_t) :
    flow_count [state] = (if is_first_state state || !is_flow_state state then 0 else 1) := by
  cases state <;> decide

/-- The flow level counts the open flow collections and no block collection is
nested in a flow collection: this is kept by every successful step of the
state machine. -/
theorem flow_level_step (emitter : yaml_emitter_t) (event : yaml_event_t)
    (result : yaml_emitter_t)
    (hlevel : emitter.flow_level = open_flow_collections emitter)
    (hblock : block_outside_flow (emitter.state :: emitter.states) = true)
    (h : yaml_emitter_state_machine emitter event = some (true, result)) :
    result.flow_level = open_flow_collections result ∧
    block_outside_flow (result.state :: result.states) = true := by
  simp only [open_flow_collections] at hlevel ⊢
  rw [flow_count_cons] at hlevel
  simp only [block_outside_flow, Bool.and_eq_true, Bool.or_eq_true, Bool.not_eq_true',
    beq_iff_eq] at hblock
  obtain ⟨hhead, hbelow⟩ := hblock
  by_cases hnode : is_node_state emitter.state = true
  · rcases state_machine_step emitter event result hnode h with
      ⟨hend, state, states, top, indents, hs, _, hc⟩ |
      ⟨_, continuation, indent, hcontinuation, _, ⟨_, hc⟩ | ⟨_, opened, hopened, hc⟩⟩
    · obtain ⟨h1, h2, _, _, h5, _⟩ := control_fields result
        { set_stacks emitter states indents top
            (if is_first_state emitter.state || !is_flow_state emitter.state then
              emitter.flow_level
             else emitter.flow_level - 1) with state := state } hc
      simp only [set_stacks] at h1 h2 h5
      rw [h1, h2, h5]
      rw [hs] at hlevel hbelow
      have hw := entered_flow_state_eq emitter.state
      refine ⟨?_, hbelow⟩
      split_ifs at hw ⊢ <;> omega
    · obtain ⟨h1, h2, _, _, h5, _⟩ := control_fields result
        { set_stacks emitter emitter.states
            (if is_first_state emitter.state then emitter.indent :: emitter.indents
             else emitter.indents) indent
            (if is_first_state emitter.state && is_flow_state emitter.state then
              emitter.flow_level + 1
             else emitter.flow_level) with state := continuation } hc
      simp only [set_stacks] at h1 h2 h5
      rw [h1, h2, h5]
      obtain ⟨hw, hb⟩ := continuation_state_flow _ _ hcontinuation
      refine ⟨?_, ?_⟩
      · rw [flow_count_cons]
        split_ifs at hw ⊢ <;> omega
      · simp only [block_outside_flow, Bool.and_eq_true, Bool.or_eq_true, Bool.not_eq_true',
          beq_iff_eq]
        refine ⟨?_, hbelow⟩
        cases hk : is_block_state continuation
        · exact Or.inl rfl
        · rcases hhead with hhead | hhead
          · rw [hb hk] at hhead
            exact Bool.noConfusion hhead
          · exact Or.inr hhead
    · obtain ⟨h1, h2, _, _, h5, _⟩ := control_fields result
        { set_stacks emitter (continuation :: emitter.states)
            (if is_first_state emitter.state then emitter.indent :: emitter.indents
             else emitter.indents) indent
            (if is_first_state emitter.state && is_flow_state emitter.state then
              emitter.flow_level + 1
             else emitter.flow_level) with state := opened } hc
      simp only [set_stacks] at h1 h2 h5
      rw [h1, h2, h5]
      obtain ⟨hw, hb⟩ := continuation_state_flow _ _ hcontinuation
      have hbelow2 : block_outside_flow (continuation :: emitter.states) = true := by
        simp only [block_outside_flow, Bool.and_eq_true, Bool.or_eq_true, Bool.not_eq_true',
          beq_iff_eq]
        refine ⟨?_, hbelow⟩
        cases hk : is_block_state continuation
        · exact Or.inl rfl
        · rcases hhead with hhead | hhead
          · rw [hb hk] at hhead
            exact Bool.noConfusion hhead
          · exact Or.inr hhead
      have hzero : flow_count [opened] = 0 := by
        rcases hopened with hopened | ⟨hopened, _⟩ <;> rw [hopened] <;> split_ifs <;> rfl
      have hcount : (if is_first_state emitter.state && is_flow_state emitter.state then
            emitter.flow_level + 1
          else emitter.flow_level) = ((flow_count (continuation :: emitter.states) : Nat) : Int) := by
        rw [flow_count_cons]
        split_ifs at hw ⊢ <;> omega
      refine ⟨?_, ?_⟩
      · rw [flow_count_cons opened, hzero, hcount]
        simp
      · rw [block_outside_flow, hbelow2, Bool.and_true]
        rcases hopened with hopened | ⟨hopened, hlevel0⟩
        · have : is_block_state opened = false := by
            rw [hopened]
            split_ifs <;> rfl
          rw [this]
          rfl
        · rw [hcount] at hlevel0
          have : flow_count (continuation :: emitter.states) = 0 := by omega
          rw [this]
          simp
  · rw [Bool.not_eq_true] at hnode
    obtain ⟨h1, _, h3, _, _, hcases⟩ := state_machine_document_step emitter event result hnode h
    rw [h1, h3]
    have hboth : flow_count [emitter.state] = 0 ∧ flow_count [result.state] = 0 ∧
        is_block_state result.state = false := by
      rcases hcases with ⟨hs, _, hr, _⟩ | ⟨hs | hs, _, hr, _⟩ | ⟨hs | hs, _, hr, _⟩ |
        ⟨hs, _, hr, _⟩ <;> rw [hs, hr] <;> exact ⟨rfl, rfl, rfl⟩
    obtain ⟨hz1, hz2, hnb⟩ := hboth
    refine ⟨?_, ?_⟩
    · rw [flow_count_cons, hz2]
      omega
    · simp only [block_outside_flow, Bool.and_eq_true, Bool.or_eq_true, Bool.not_eq_true',
        beq_iff_eq]
      exact ⟨Or.inl hnb, hbelow⟩

set_option maxRecDepth 100000 in
/-- C35, counterexample: after the call that rejects DOCUMENT-END in the place
of an item of a flow sequence, `flow_level` is 1 while the states of two
entered flow collections are counted, because the state pushed before the
event was rejected stays on the stack; and after two calls that reject
DOCUMENT-END in the place of the first item, `flow_level` is 2 and `[` has
been written twice although the stream has started one collection only. -/
theorem flow_level_after_rejected_event :
    (emit_events rejected_flow_item_stream emitter_initial).map
        (fun result => (result.1, result.2.state, result.2.states, result.2.flow_level,
          open_flow_collections result.2))
      = some (false, YAML_EMIT_FLOW_SEQUENCE_ITEM_STATE,
          [YAML_EMIT_FLOW_SEQUENCE_ITEM_STATE, YAML_EMIT_DOCUMENT_END_STATE], 1, 2) ∧
    (emit_each rejected_first_item_stream emitter_initial).map
        (fun result => (result.error, result.state, result.flow_level, result.output))
      = some (YAML_EMITTER_ERROR, YAML_EMIT_FLOW_SEQUENCE_FIRST_ITEM_STATE, 2, [0x5B, 0x5B]) ∧
    (rejected_first_item_stream.filter fun event =>
        event.type == YAML_SEQUENCE_START_EVENT || event.type == YAML_MAPPING_START_EVENT).length
      = 1 := by
  decide

/-- C35 (amended): in every state reached by successful calls of `yaml_emitter_emit` on
a fresh emitter, `flow_level` is not negative and equals the number of open
flow collections (those whose opening indicator is written and whose closing
indicator is not: a collection is entered, and `flow_level` raised, with the
event that follows its start); the state is a state of a block collection
only while `flow_level` is zero, and no state of a block collection lies
above an open flow collection in the stack; and the start of a collection
that is emitted in a state of a flow collection leads to a state of a flow
collection, whatever style it asks for. -/
theorem flow_level_counts_open_flow (stream : List yaml_event_t) (result : yaml_emitter_t)
    (h : emit_events stream emitter_initial = some (true, result)) :
    0 ≤ result.flow_level ∧
    result.flow_level = open_flow_collections result ∧
    (is_block_state result.state = true → result.flow_level = 0) ∧
    block_outside_flow (result.state :: result.states) = true ∧
    (∀ (events : List yaml_event_t) (event : yaml_event_t) (analysed next : yaml_emitter_t),
      is_flow_state result.state = true →
      event.type = YAML_SEQUENCE_START_EVENT ∨ event.type = YAML_MAPPING_START_EVENT →
      yaml_emitter_analyze_event { result with events := events } event
        = some (true, analysed) →
      yaml_emitter_state_machine analysed event = some (true, next) →
      next.state
        = (if event.type = YAML_SEQUENCE_START_EVENT then
            YAML_EMIT_FLOW_SEQUENCE_FIRST_ITEM_STATE
           else YAML_EMIT_FLOW_MAPPING_FIRST_KEY_STATE)) := by
  have hinvariant := emit_events_invariant
    (fun emitter => emitter.flow_level = open_flow_collections emitter ∧
      block_outside_flow (emitter.state :: emitter.states) = true)
    (fun emitter events hP => hP)
    (fun emitter event rest analysed stepped hP _ hanalysed hstepped => by
      obtain ⟨h1, h2, _, _, h5, _⟩ := control_fields _ _
        (analyze_event_control emitter event _ hanalysed)
      simp only at h1 h2 h5
      refine flow_level_step analysed event stepped ?_ ?_ hstepped
      · simp only [open_flow_collections]
        rw [h1, h2, h5]
        exact hP.1
      · rw [h1, h2]
        exact hP.2)
    stream emitter_initial result ⟨rfl, rfl⟩ h
  obtain ⟨hlevel, hblock⟩ := hinvariant
  have hblock2 := hblock
  simp only [block_outside_flow, Bool.and_eq_true, Bool.or_eq_true, Bool.not_eq_true',
    beq_iff_eq] at hblock2
  refine ⟨by rw [hlevel]; exact Int.natCast_nonneg _, hlevel, ?_, hblock, ?_⟩
  · intro hb
    rcases hblock2.1 with hn | hz
    · rw [hb] at hn
      exact Bool.noConfusion hn
    · simp only [open_flow_collections] at hlevel
      rw [flow_count_cons, hz] at hlevel
      have hw := entered_flow_state_eq result.state
      have hf : is_flow_state result.state = false := by
        revert hb
        cases result.state <;> decide
      rw [hf] at hw
      simp only [Bool.not_false, Bool.or_true, if_true] at hw
      rw [hlevel, hw]
      rfl
  · intro events event analysed next hflow htype hanalysed hnext
    obtain ⟨h1, h2, _, _, h5, _⟩ := control_fields _ _
      (analyze_event_control _ event _ hanalysed)
    simp only at h1 h2 h5
    have hnode : is_node_state analysed.state = true := by
      rw [h1]
      simp only [is_node_state, hflow, Bool.or_true, Bool.true_or]
    rcases state_machine_step analysed event next hnode hnext with
      ⟨hend, _⟩ | ⟨_, continuation, indent, hcontinuation, _, ⟨hleaf, _⟩ | ⟨_, opened, hopened, hc⟩⟩
    · exfalso
      rw [h1] at hend
      revert hend hflow
      rcases htype with htype | htype <;> rw [htype] <;> cases result.state <;> decide
    · exfalso
      rcases htype with htype | htype <;> rw [htype] at hleaf <;>
        rcases hleaf with hleaf | hleaf <;> exact absurd hleaf (by decide)
    · obtain ⟨hs, _⟩ := control_fields next
        { set_stacks analysed (continuation :: analysed.states)
            (if is_first_state analysed.state then analysed.indent :: analysed.indents
             else analysed.indents) indent
            (if is_first_state analysed.state && is_flow_state analysed.state then
              analysed.flow_level + 1
             else analysed.flow_level) with state := opened } hc
      simp only at hs
      rw [hs]
      rcases hopened with hopened | ⟨_, hzero⟩
      · exact hopened
      · exfalso
        rw [h1, h5, hflow, Bool.and_true] at hzero
        simp only [open_flow_collections] at hlevel
        rw [flow_count_cons] at hlevel
        have hw := entered_flow_state_eq result.state
        rw [hflow] at hw
        simp only [Bool.not_true, Bool.or_false] at hw
        split_ifs at hzero hw <;> omega

/-- Witness of C35 (amended): after the second item of a sequence for which the BLOCK
style is asked inside a FLOW sequence, two flow collections are open and the
flow level is 2. -/
theorem flow_level_counts_open_flow_witness :
    ∃ result, emit_events nested_sequence_stream emitter_initial = some (true, result) ∧
      result.state = YAML_EMIT_FLOW_SEQUENCE_ITEM_STATE ∧ result.flow_level = 2 ∧
      0 ≤ result.flow_level ∧
      result.flow_level = open_flow_collections result ∧
      (is_block_state result.state = true → result.flow_level = 0) ∧
      block_outside_flow (result.state :: result.states) = true := by
  have hrun : (emit_events nested_sequence_stream emitter_initial).map
      (fun result => (result.1, result.2.state, result.2.flow_level))
      = some (true, YAML_EMIT_FLOW_SEQUENCE_ITEM_STATE, 2) := by
    decide
  obtain ⟨⟨ok, result⟩, hresult, hfields⟩ := Option.map_eq_some'.mp hrun
  simp only [Prod.mk.injEq] at hfields
  obtain ⟨hok, hstate, hlevel⟩ := hfields
  subst hok
  obtain ⟨h1, h2, h3, h4, _⟩ := flow_level_counts_open_flow nested_sequence_stream result hresult
  exact ⟨result, hresult, hstate, hlevel, h1, h2, h3, h4⟩

/-! ## Theorems: the tag directives of a document -/

/-- The stack built by DOCUMENT-START holds a directive for each default
handle. -/
theorem document_tag_directives_handles (declared : List yaml_tag_directive_t) :
    ∀ tag_directive ∈ default_tag_directives,
      ∃ known ∈ document_tag_directives declared, known.handle = tag_directive.handle := by
  intro d hd
  by_cases hknown : declared.any (fun known => d.handle == known.handle) = true
  · obtain ⟨known, hmem, heq⟩ := List.any_eq_true.mp hknown
    exact ⟨known, List.mem_append_left _ hmem, (beq_iff_eq.mp heq).symm⟩
  · refine ⟨d, List.mem_append_right _ (List.mem_filter.mpr ⟨hd, ?_⟩), rfl⟩
    simp only [Bool.not_eq_true] at hknown
    rw [hknown]
    rfl

/-- The states that follow a node and the states of the first item or key are
states inside a document. -/
theorem continuation_state_document (state continuation : yaml_emitter_state_t)
    (h : is_continuation_state state continuation = true) :
    is_document_state continuation = true := by
  cases state <;> cases continuation <;> first | (exact absurd h (by decide)) | decide

/-- Inside a document the stack of tag directives is the one built by
DOCUMENT-START, outside it is empty, and the stack of states holds states
inside a document: this is kept by every successful step of the state
machine. -/
theorem tag_directives_step (emitter : yaml_emitter_t) (event : yaml_event_t)
    (result : yaml_emitter_t)
    (hinside : is_document_state emitter.state = true →
      ∃ declared, emitter.tag_directives = document_tag_directives declared)
    (houtside : is_document_state emitter.state = false → emitter.tag_directives = [])
    (hstack : ∀ state ∈ emitter.states, is_document_state state = true)
    (h : yaml_emitter_state_machine emitter event = some (true, result)) :
    (is_document_state result.state = true →
      ∃ declared, result.tag_directives = document_tag_directives declared) ∧
    (is_document_state result.state = false → result.tag_directives = []) ∧
    (∀ state ∈ result.states, is_document_state state = true) := by
  by_cases hnode : is_node_state emitter.state = true
  · have hdocument : is_document_state emitter.state = true := by
      simp only [is_document_state, hnode, Bool.true_or]
    have hkeep : ∀ (state : yaml_emitter_state_t) (states : List yaml_emitter_state_t),
        result.state = state → result.states = states →
        result.tag_directives = emitter.tag_directives →
        is_document_state state = true →
        (∀ below ∈ states, is_document_state below = true) →
        (is_document_state result.state = true →
          ∃ declared, result.tag_directives = document_tag_directives declared) ∧
        (is_document_state result.state = false → result.tag_directives = []) ∧
        (∀ below ∈ result.states, is_document_state below = true) := by
      intro state states h1 h2 h7 hd hs
      rw [h1, h2, h7]
      refine ⟨fun _ => hinside hdocument, fun hn => ?_, hs⟩
      rw [hd] at hn
      exact Bool.noConfusion hn
    rcases state_machine_step emitter event result hnode h with
      ⟨hend, state, states, top, indents, hs, _, hc⟩ |
      ⟨_, continuation, indent, hcontinuation, _, ⟨_, hc⟩ | ⟨_, opened, hopened, hc⟩⟩
    · obtain ⟨h1, h2, _, _, _, _, h7, _⟩ := control_fields result
        { set_stacks emitter states indents top
            (if is_first_state emitter.state || !is_flow_state emitter.state then
              emitter.flow_level
             else emitter.flow_level - 1) with state := state } hc
      refine hkeep state states h1 h2 h7 (hstack state (by rw [hs]; exact List.mem_cons_self _ _))
        (fun below hbelow => hstack below (by rw [hs]; exact List.mem_cons_of_mem _ hbelow))
    · obtain ⟨h1, h2, _, _, _, _, h7, _⟩ := control_fields result
        { set_stacks emitter emitter.states
            (if is_first_state emitter.state then emitter.indent :: emitter.indents
             else emitter.indents) indent
            (if is_first_state emitter.state && is_flow_state emitter.state then
              emitter.flow_level + 1
             else emitter.flow_level) with state := continuation } hc
      exact hkeep continuation emitter.states h1 h2 h7
        (continuation_state_document _ _ hcontinuation) hstack
    · obtain ⟨h1, h2, _, _, _, _, h7, _⟩ := control_fields result
        { set_stacks emitter (continuation :: emitter.states)
            (if is_first_state emitter.state then emitter.indent :: emitter.indents
             else emitter.indents) indent
            (if is_first_state emitter.state && is_flow_state emitter.state then
              emitter.flow_level + 1
             else emitter.flow_level) with state := opened } hc
      refine hkeep opened (continuation :: emitter.states) h1 h2 h7 ?_ ?_
      · rcases hopened with hopened | ⟨hopened, _⟩ <;> rw [hopened] <;> split_ifs <;> rfl
      · intro below hbelow
        rcases List.mem_cons.mp hbelow with hbelow | hbelow
        · rw [hbelow]
          exact continuation_state_document _ _ hcontinuation
        · exact hstack below hbelow
  · rw [Bool.not_eq_true] at hnode
    obtain ⟨h1, _, _, _, _, hcases⟩ := state_machine_document_step emitter event result hnode h
    rw [h1]
    rcases hcases with ⟨hs, _, hr, htd⟩ | ⟨hs, _, hr, _, htd⟩ | ⟨hs, _, hr, _, htd⟩ |
      ⟨hs, _, hr, _, htd⟩
    · rw [hr, htd]
      exact ⟨fun hn => Bool.noConfusion hn, fun _ => houtside (by rw [hs]; rfl), hstack⟩
    · have hempty : emitter.tag_directives = [] :=
        houtside (by rcases hs with hs | hs <;> rw [hs] <;> rfl)
      rw [hr, htd, hempty]
      exact ⟨fun _ => ⟨event.data.document_start.tag_directives, rfl⟩,
        fun hn => Bool.noConfusion hn, hstack⟩
    · have hempty : emitter.tag_directives = [] :=
        houtside (by rcases hs with hs | hs <;> rw [hs] <;> rfl)
      rw [hr, htd]
      exact ⟨fun hn => Bool.noConfusion hn, fun _ => hempty, hstack⟩
    · rw [hr, htd]
      exact ⟨fun hn => Bool.noConfusion hn, fun _ => rfl, hstack⟩

/-- C32, counterexample: a DOCUMENT-START event that
declares the handle `!` is processed successfully, and inside the document
the stack of tag directives holds `!` for `tag:example.com,2024:` and the
default pair of `!!`, but not the default pair (`!`, `!`). -/
theorem document_start_redeclared_primary :
    (emit_events primary_handle_stream emitter_initial).map
      (fun result => (result.1, result.2.state, result.2.tag_directives,
        decide (({ handle := [0x21], prefix_ := [0x21] } : yaml_tag_directive_t)
          ∈ result.2.tag_directives)))
      = some (true, YAML_EMIT_DOCUMENT_END_STATE,
          [{ handle := [0x21], prefix_ := example_uri },
           { handle := [0x21, 0x21],
             prefix_ := [0x74, 0x61, 0x67, 0x3A, 0x79, 0x61, 0x6D, 0x6C, 0x2E, 0x6F, 0x72, 0x67,
                         0x2C, 0x32, 0x30, 0x30, 0x32, 0x3A] }],
          false) := by
  decide

/-- C32 (amended): in every state reached by successful calls of
`yaml_emitter_emit` on a fresh emitter, inside a document (after a
DOCUMENT-START was processed and until the DOCUMENT-END is) the stack of tag
directives is the list of the tag directives of the DOCUMENT-START event
followed by each default pair whose handle the event does not declare: it
holds a directive for each of the handles `!` and `!!`, and the default pair
itself when the event does not declare its handle; outside a document the
stack is empty.  A successful DOCUMENT-START builds that stack, a successful
DOCUMENT-END empties it, and no other successful step changes it. -/
theorem tag_directives_in_document (stream : List yaml_event_t) (result : yaml_emitter_t)
    (h : emit_events stream emitter_initial = some (true, result)) :
    (is_document_state result.state = true →
      ∃ declared, result.tag_directives = document_tag_directives declared ∧
        (∀ tag_directive ∈ default_tag_directives,
          ∃ known ∈ result.tag_directives, known.handle = tag_directive.handle) ∧
        (∀ tag_directive ∈ default_tag_directives,
          (∀ known ∈ declared, known.handle ≠ tag_directive.handle) →
          tag_directive ∈ result.tag_directives)) ∧
    (is_document_state result.state = false → result.tag_directives = []) ∧
    (∀ (events : List yaml_event_t) (event : yaml_event_t) (analysed next : yaml_emitter_t),
      yaml_emitter_analyze_event { result with events := events } event
        = some (true, analysed) →
      yaml_emitter_state_machine analysed event = some (true, next) →
      (is_document_state result.state = false → event.type = YAML_DOCUMENT_START_EVENT →
        next.state = YAML_EMIT_DOCUMENT_CONTENT_STATE ∧
        next.tag_directives
          = document_tag_directives event.data.document_start.tag_directives) ∧
      (result.state = YAML_EMIT_DOCUMENT_END_STATE →
        next.state = YAML_EMIT_DOCUMENT_START_STATE ∧ next.tag_directives = []) ∧
      (is_node_state result.state = true →
        is_document_state next.state = true ∧
        next.tag_directives = result.tag_directives)) := by
  have hinvariant := emit_events_invariant
    (fun emitter =>
      (is_document_state emitter.state = true →
        ∃ declared, emitter.tag_directives = document_tag_directives declared) ∧
      (is_document_state emitter.state = false → emitter.tag_directives = []) ∧
      (∀ state ∈ emitter.states, is_document_state state = true))
    (fun emitter events hP => hP)
    (fun emitter event rest analysed stepped hP _ hanalysed hstepped => by
      obtain ⟨h1, h2, _, _, _, _, h7, _⟩ := control_fields _ _
        (analyze_event_control emitter event _ hanalysed)
      simp only at h1 h2 h7
      refine tag_directives_step analysed event stepped ?_ ?_ ?_ hstepped
      · rw [h1, h7]
        exact hP.1
      · rw [h1, h7]
        exact hP.2.1
      · rw [h2]
        exact hP.2.2)
    stream emitter_initial result
    ⟨fun hn => Bool.noConfusion hn, fun _ => rfl, fun state hstate => by cases hstate⟩ h
  obtain ⟨hinside, houtside, hstack⟩ := hinvariant
  refine ⟨?_, houtside, ?_⟩
  · intro hdocument
    obtain ⟨declared, hdeclared⟩ := hinside hdocument
    refine ⟨declared, hdeclared, ?_, ?_⟩
    · rw [hdeclared]
      exact document_tag_directives_handles declared
    · intro d hd hnew
      rw [hdeclared]
      refine List.mem_append_right _ (List.mem_filter.mpr ⟨hd, ?_⟩)
      rw [Bool.not_eq_true', List.any_eq_false]
      intro known hknown heq
      exact hnew known hknown (beq_iff_eq.mp heq).symm
  · intro events event analysed next hanalysed hnext
    obtain ⟨h1, h2, _, _, _, _, h7, _⟩ := control_fields _ _
      (analyze_event_control _ event _ hanalysed)
    simp only at h1 h2 h7
    have hstep := tag_directives_step analysed event next
      (by rw [h1, h7]; exact hinside) (by rw [h1, h7]; exact houtside)
      (by rw [h2]; exact hstack) hnext
    refine ⟨?_, ?_, ?_⟩
    · intro hout htype
      have hnode : is_node_state analysed.state = false := by
        rw [h1]
        revert hout
        cases result.state <;> decide
      obtain ⟨_, _, _, _, _, hcases⟩ :=
        state_machine_document_step analysed event next hnode hnext
      rcases hcases with ⟨_, ht, _⟩ | ⟨_, _, hr, _, htd⟩ | ⟨_, ht, _⟩ | ⟨_, ht, _⟩
      · rw [htype] at ht
        exact absurd ht (by decide)
      · refine ⟨hr, ?_⟩
        rw [htd, h7, houtside hout]
        rfl
      · rw [htype] at ht
        exact absurd ht (by decide)
      · rw [htype] at ht
        exact absurd ht (by decide)
    · intro hstate
      have hnode : is_node_state analysed.state = false := by
        rw [h1, hstate]
        rfl
      obtain ⟨_, _, _, _, _, hcases⟩ :=
        state_machine_document_step analysed event next hnode hnext
      rw [h1, hstate] at hcases
      rcases hcases with ⟨hs, _⟩ | ⟨hs | hs, _⟩ | ⟨hs | hs, _⟩ | ⟨_, _, hr, _, htd⟩
      · exact absurd hs (by decide)
      · exact absurd hs (by decide)
      · exact absurd hs (by decide)
      · exact absurd hs (by decide)
      · exact absurd hs (by decide)
      · exact ⟨hr, htd⟩
    · intro hnode
      have hnode2 : is_node_state analysed.state = true := by
        rw [h1]
        exact hnode
      have hresult : ∀ state : yaml_emitter_state_t, next.state = state →
          next.tag_directives = analysed.tag_directives →
          is_document_state state = true →
          is_document_state next.state = true ∧
          next.tag_directives = result.tag_directives := by
        intro state hs htd hd
        rw [hs, htd, h7]
        exact ⟨hd, rfl⟩
      rcases state_machine_step analysed event next hnode2 hnext with
        ⟨hend, state, states, top, indents, hs, _, hc⟩ |
        ⟨_, continuation, indent, hcontinuation, _, ⟨_, hc⟩ | ⟨_, opened, hopened, hc⟩⟩
      · obtain ⟨h1', _, _, _, _, _, h7', _⟩ := control_fields next
          { set_stacks analysed states indents top
              (if is_first_state analysed.state || !is_flow_state analysed.state then
                analysed.flow_level
               else analysed.flow_level - 1) with state := state } hc
        refine hresult state h1' h7' ?_
        refine hstack state ?_
        rw [← h2, hs]
        exact List.mem_cons_self _ _
      · obtain ⟨h1', _, _, _, _, _, h7', _⟩ := control_fields next
          { set_stacks analysed analysed.states
              (if is_first_state analysed.state then analysed.indent :: analysed.indents
               else analysed.indents) indent
              (if is_first_state analysed.state && is_flow_state analysed.state then
                analysed.flow_level + 1
               else analysed.flow_level) with state := continuation } hc
        exact hresult continuation h1' h7' (continuation_state_document _ _ hcontinuation)
      · obtain ⟨h1', _, _, _, _, _, h7', _⟩ := control_fields next
          { set_stacks analysed (continuation :: analysed.states)
              (if is_first_state analysed.state then analysed.indent :: analysed.indents
               else analysed.indents) indent
              (if is_first_state analysed.state && is_flow_state analysed.state then
                analysed.flow_level + 1
               else analysed.flow_level) with state := opened } hc
        refine hresult opened h1' h7' ?_
        rcases hopened with hopened | ⟨hopened, _⟩ <;> rw [hopened] <;> split_ifs <;> rfl

/-- Witness of C32: inside the document of `tag_directive_stream`, after the
root scalar, the stack of tag directives is the directive `!e!` of the
DOCUMENT-START event followed by the two default pairs. -/
theorem tag_directives_in_document_witness :
    ∃ result, emit_events (tag_directive_stream.take 3) emitter_initial = some (true, result) ∧
      result.state = YAML_EMIT_DOCUMENT_END_STATE ∧
      result.tag_directives = example_tag_directive :: default_tag_directives ∧
      (∀ tag_directive ∈ default_tag_directives,
        ∃ known ∈ result.tag_directives, known.handle = tag_directive.handle) := by
  have hrun : (emit_events (tag_directive_stream.take 3) emitter_initial).map
      (fun result => (result.1, result.2.state, result.2.tag_directives))
      = some (true, YAML_EMIT_DOCUMENT_END_STATE,
          example_tag_directive :: default_tag_directives) := by
    decide
  obtain ⟨⟨ok, result⟩, hresult, hfields⟩ := Option.map_eq_some'.mp hrun
  simp only [Prod.mk.injEq] at hfields
  obtain ⟨hok, hstate, hdirectives⟩ := hfields
  subst hok
  obtain ⟨hinside, _, _⟩ :=
    tag_directives_in_document (tag_directive_stream.take 3) result hresult
  obtain ⟨declared, _, hhandles, _⟩ := hinside (by rw [hstate]; rfl)
  exact ⟨result, hresult, hstate, hdirectives, hhandles⟩

/-! ## Theorems: the analysis on another emitter -/

/-- `yaml_emitter_analyze_anchor` gives the same verdict and the same problem
on every emitter. -/
theorem analyze_anchor_congr (first second : yaml_emitter_t) (anchor : List yaml_char_t)
    (is_alias : Bool) (result : Bool × yaml_emitter_t)
    (h : yaml_emitter_analyze_anchor first anchor is_alias = some result) :
    ∃ again, yaml_emitter_analyze_anchor second anchor is_alias = some again ∧
      again.1 = result.1 ∧ control again.2 = control second ∧
      again.2.tag_data = second.tag_data ∧
      (result.1 = false → result.2.error = YAML_EMITTER_ERROR ∧
        again.2.error = YAML_EMITTER_ERROR ∧
        ∃ problem, result.2.problem = some problem ∧ again.2.problem = some problem) := by
  simp only [yaml_emitter_analyze_anchor] at h ⊢
  by_cases hempty : (STRING anchor anchor.length).capacity = 0
  · rw [if_pos hempty] at h ⊢
    cases h
    exact ⟨_, rfl, rfl, rfl, rfl, fun _ => ⟨rfl, rfl, _, rfl, rfl⟩⟩
  · rw [if_neg hempty] at h ⊢
    cases hloop : analyze_alpha_loop (STRING anchor anchor.length).capacity
        (STRING anchor anchor.length).capacity (STRING anchor anchor.length) with
    | none => simp [hloop] at h
    | some ok =>
      cases ok <;> simp only [hloop, Option.some.injEq] at h ⊢ <;> subst h
      · exact ⟨_, rfl, rfl, rfl, rfl, fun _ => ⟨rfl, rfl, _, rfl, rfl⟩⟩
      · exact ⟨_, rfl, rfl, rfl, rfl, fun hn => Bool.noConfusion hn⟩

/-- The analysis of the anchor of an event gives the same verdict and the same
problem on every emitter. -/
theorem analyze_event_anchor_congr (first second : yaml_emitter_t)
    (anchor : Option (List yaml_char_t)) (result : Bool × yaml_emitter_t)
    (h : analyze_event_anchor first anchor = some result) :
    ∃ again, analyze_event_anchor second anchor = some again ∧
      again.1 = result.1 ∧ control again.2 = control second ∧
      again.2.tag_data = second.tag_data ∧
      (result.1 = false → result.2.error = YAML_EMITTER_ERROR ∧
        again.2.error = YAML_EMITTER_ERROR ∧
        ∃ problem, result.2.problem = some problem ∧ again.2.problem = some problem) := by
  cases anchor with
  | none =>
    cases h
    exact ⟨_, rfl, rfl, rfl, rfl, fun hn => Bool.noConfusion hn⟩
  | some anchor => exact analyze_anchor_congr first second anchor false result h

/-- `yaml_emitter_analyze_tag` gives the same verdict, the same problem and the
same data of the tag on every emitter with the same tag directives. -/
theorem analyze_tag_congr (first second : yaml_emitter_t) (tag : List yaml_char_t)
    (hdirectives : second.tag_directives = first.tag_directives)
    (hdata : second.tag_data = first.tag_data) :
    (yaml_emitter_analyze_tag second tag).1 = (yaml_emitter_analyze_tag first tag).1 ∧
    (yaml_emitter_analyze_tag second tag).2.tag_data
      = (yaml_emitter_analyze_tag first tag).2.tag_data ∧
    ((yaml_emitter_analyze_tag first tag).1 = false →
      (yaml_emitter_analyze_tag first tag).2.error = YAML_EMITTER_ERROR ∧
      (yaml_emitter_analyze_tag second tag).2.error = YAML_EMITTER_ERROR ∧
      ∃ problem, (yaml_emitter_analyze_tag first tag).2.problem = some problem ∧
        (yaml_emitter_analyze_tag second tag).2.problem = some problem) := by
  have hloop : analyze_tag_loop (STRING tag tag.length).buffer second.tag_directives
      = analyze_tag_loop (STRING tag tag.length).buffer first.tag_directives := by
    rw [hdirectives]
  simp only [yaml_emitter_analyze_tag]
  by_cases hempty : (STRING tag tag.length).capacity = 0
  · rw [if_pos hempty, if_pos hempty]
    exact ⟨rfl, hdata, fun _ => ⟨rfl, rfl, _, rfl, rfl⟩⟩
  · rw [if_neg hempty, if_neg hempty, hloop]
    cases analyze_tag_loop (STRING tag tag.length).buffer first.tag_directives with
    | none =>
      refine ⟨rfl, ?_, fun hn => Bool.noConfusion hn⟩
      show ({ second.tag_data with suffix := _, suffix_length := _ } : yaml_tag_data_t) = _
      rw [hdata]
    | some found => exact ⟨rfl, rfl, fun hn => Bool.noConfusion hn⟩

/-- The analysis of the tag of an event gives the same verdict, the same
problem and the same data of the tag on every emitter with the same tag
directives and the same canonical flag. -/
theorem analyze_event_tag_congr (first second : yaml_emitter_t)
    (tag : Option (List yaml_char_t)) (is_implicit : Bool) (result : Bool × yaml_emitter_t)
    (hcanonical : second.is_canonical = first.is_canonical)
    (hdirectives : second.tag_directives = first.tag_directives)
    (hdata : second.tag_data = first.tag_data)
    (h : analyze_event_tag first tag is_implicit = some result) :
    ∃ again, analyze_event_tag second tag is_implicit = some again ∧
      again.1 = result.1 ∧ control again.2 = control second ∧
      again.2.tag_data = result.2.tag_data ∧
      (result.1 = false → result.2.error = YAML_EMITTER_ERROR ∧
        again.2.error = YAML_EMITTER_ERROR ∧
        ∃ problem, result.2.problem = some problem ∧ again.2.problem = some problem) := by
  cases tag with
  | none =>
    cases h
    exact ⟨_, rfl, rfl, rfl, hdata, fun hn => Bool.noConfusion hn⟩
  | some tag =>
    simp only [analyze_event_tag] at h ⊢
    rw [hcanonical]
    by_cases hc : (first.is_canonical || !is_implicit) = true
    · rw [if_pos hc] at h ⊢
      cases h
      obtain ⟨h1, h2, h3⟩ := analyze_tag_congr first second tag hdirectives hdata
      exact ⟨_, rfl, h1, analyze_tag_control second tag, h2, h3⟩
    · rw [if_neg hc] at h ⊢
      cases h
      exact ⟨_, rfl, rfl, rfl, hdata, fun hn => Bool.noConfusion hn⟩

/-- Two uses of `or_return` one after the other. -/
theorem or_return_assoc (first : Option (Bool × yaml_emitter_t))
    (second third : yaml_emitter_t → Option (Bool × yaml_emitter_t)) :
    or_return first (fun emitter => or_return (second emitter) third)
      = or_return (or_return first second) third := by
  rcases first with _ | ⟨_ | _, emitter⟩ <;> rfl

/-- `yaml_emitter_analyze_event` gives the same verdict, the same problem and
the same data of the tag on every emitter with the same tag directives, the
same canonical flag and the same unicode flag. -/
theorem analyze_event_congr (first second : yaml_emitter_t) (event : yaml_event_t)
    (result : Bool × yaml_emitter_t)
    (hcanonical : second.is_canonical = first.is_canonical)
    (hunicode : second.is_unicode = first.is_unicode)
    (hdirectives : second.tag_directives = first.tag_directives)
    (h : yaml_emitter_analyze_event first event = some result) :
    ∃ again, yaml_emitter_analyze_event second event = some again ∧
      again.1 = result.1 ∧ control again.2 = control second ∧
      again.2.tag_data = result.2.tag_data ∧
      (result.1 = false → result.2.error = YAML_EMITTER_ERROR ∧
        again.2.error = YAML_EMITTER_ERROR ∧
        ∃ problem, result.2.problem = some problem ∧ again.2.problem = some problem) := by
  have hreset : control (analyze_event_reset second) = control second := rfl
  have hreset_data : (analyze_event_reset second).tag_data
      = (analyze_event_reset first).tag_data := rfl
  have hstart : ∀ (anchor : Option (List yaml_char_t)) (tag : Option (List yaml_char_t))
      (is_implicit : Bool) (result : Bool × yaml_emitter_t),
      or_return (analyze_event_anchor (analyze_event_reset first) anchor)
        (fun emitter => analyze_event_tag emitter tag is_implicit) = some result →
      ∃ again,
        or_return (analyze_event_anchor (analyze_event_reset second) anchor)
          (fun emitter => analyze_event_tag emitter tag is_implicit) = some again ∧
        again.1 = result.1 ∧ control again.2 = control second ∧
        again.2.tag_data = result.2.tag_data ∧
        again.2.is_unicode = result.2.is_unicode ∧
        (result.1 = false → result.2.error = YAML_EMITTER_ERROR ∧
          again.2.error = YAML_EMITTER_ERROR ∧
          ∃ problem, result.2.problem = some problem ∧ again.2.problem = some problem) := by
    intro anchor tag is_implicit result h
    cases hanchor : analyze_event_anchor (analyze_event_reset first) anchor with
    | none => simp [hanchor, or_return] at h
    | some anchored =>
      obtain ⟨again1, hagain1, hb1, hc1, hd1, hf1⟩ :=
        analyze_event_anchor_congr _ (analyze_event_reset second) anchor _ hanchor
      obtain ⟨hk1, hk2⟩ := analyze_event_anchor_control _ _ _ hanchor
      obtain ⟨b1, anchored⟩ := anchored
      obtain ⟨b1', anchored'⟩ := again1
      simp only at hb1 hc1 hd1 hf1 hk1 hk2
      subst hb1
      obtain ⟨_, _, _, _, _, _, g7, g8, g9⟩ := control_fields _ _ hc1
      obtain ⟨_, _, _, _, _, _, k7, k8, k9⟩ := control_fields _ _ hk1
      cases b1'
      · simp only [hanchor, hagain1, or_return, Option.some.injEq] at h ⊢
        subst h
        refine ⟨_, rfl, rfl, hc1.trans hreset, ?_, ?_, hf1⟩
        · exact hd1.trans (hreset_data.trans hk2.symm)
        · exact g9.trans (hunicode.trans k9.symm)
      · simp only [hanchor, hagain1, or_return] at h ⊢
        obtain ⟨again2, hagain2, hb2, hc2, hd2, hf2⟩ :=
          analyze_event_tag_congr anchored anchored' tag is_implicit result
            (g8.trans (hcanonical.trans k8.symm)) (g7.trans (hdirectives.trans k7.symm))
            (hd1.trans (hreset_data.trans hk2.symm)) h
        obtain ⟨_, _, _, _, _, _, _, _, m9⟩ := control_fields _ _ hc2
        obtain ⟨_, _, _, _, _, _, _, _, n9⟩ := control_fields _ _
          (analyze_event_tag_control _ _ _ _ h)
        exact ⟨again2, hagain2, hb2, hc2.trans (hc1.trans hreset), hd2,
          m9.trans (g9.trans (hunicode.trans (k9.symm.trans n9.symm))), hf2⟩
  unfold yaml_emitter_analyze_event at h ⊢
  cases htype : event.type <;> simp only [htype] at h ⊢
  case YAML_ALIAS_EVENT =>
    obtain ⟨again, hagain, hb, hc, hd, hf⟩ :=
      analyze_anchor_congr _ (analyze_event_reset second) _ true _ h
    exact ⟨again, hagain, hb, hc.trans hreset,
      hd.trans (hreset_data.trans (analyze_anchor_control _ _ _ _ h).2.symm), hf⟩
  case YAML_SCALAR_EVENT =>
    rw [or_return_assoc] at h ⊢
    cases hfirst : or_return
        (analyze_event_anchor (analyze_event_reset first) event.data.scalar.anchor)
        (fun emitter => analyze_event_tag emitter event.data.scalar.tag
          (event.data.scalar.is_plain_implicit || event.data.scalar.is_quoted_implicit)) with
    | none =>
      rw [hfirst] at h
      cases h
    | some tagged =>
      obtain ⟨again, hagain, hb, hc, hd, hu, hf⟩ := hstart _ _ _ _ hfirst
      obtain ⟨b, tagged⟩ := tagged
      obtain ⟨b', tagged'⟩ := again
      simp only at hb hc hd hu hf
      subst hb
      rw [hfirst] at h
      rw [hagain]
      cases b'
      · simp only [or_return, Option.some.injEq] at h ⊢
        subst h
        exact ⟨_, rfl, rfl, hc, hd, hf⟩
      · simp only [or_return] at h ⊢
        rw [analyze_scalar_eq, Option.map_eq_some'] at h
        obtain ⟨data, hdata, hresult⟩ := h
        subst hresult
        have hagain_data : scalar_analysis tagged'.is_unicode event.data.scalar.value
            = some data := by
          rw [hu]
          exact hdata
        rw [analyze_scalar_eq, hagain_data]
        exact ⟨_, rfl, rfl, Eq.trans rfl hc, hd, fun hn => Bool.noConfusion hn⟩
  case YAML_SEQUENCE_START_EVENT =>
    obtain ⟨again, hagain, hb, hc, hd, _, hf⟩ := hstart _ _ _ _ h
    exact ⟨again, hagain, hb, hc, hd, hf⟩
  case YAML_MAPPING_START_EVENT =>
    obtain ⟨again, hagain, hb, hc, hd, _, hf⟩ := hstart _ _ _ _ h
    exact ⟨again, hagain, hb, hc, hd, hf⟩
  all_goals
    simp only [Option.some.injEq] at h
    subst h
    exact ⟨_, rfl, rfl, rfl, rfl, fun hn => Bool.noConfusion hn⟩

/-! ## Theorems: calls after a failure -/

/-- An event that does not start a node is rejected by
`yaml_emitter_emit_node`. -/
theorem emit_node_rejects_eq (emitter : yaml_emitter_t) (event : yaml_event_t)
    (is_root is_sequence is_mapping is_simple_key : Bool)
    (h : is_node_event event.type = false) :
    yaml_emitter_emit_node emitter event is_root is_sequence is_mapping is_simple_key
      = some (false, EMITTER_ERROR_INIT
          { emitter with is_root_context := is_root, is_sequence_context := is_sequence,
                         is_mapping_context := is_mapping,
                         is_simple_key_context := is_simple_key }
          "expected SCALAR, SEQUENCE-START, MAPPING-START, or ALIAS") := by
  unfold yaml_emitter_emit_node
  cases htype : event.type <;> rw [htype] at h <;>
    first | rfl | exact absurd h (by decide)

/-- A scalar with no tag and no implicit flag is rejected by
`yaml_emitter_emit_node`. -/
theorem emit_node_scalar_fails (emitter : yaml_emitter_t) (event : yaml_event_t)
    (is_root is_sequence is_mapping is_simple_key : Bool)
    (htype : event.type = YAML_SCALAR_EVENT)
    (hhandle : emitter.tag_data.handle = none) (hsuffix : emitter.tag_data.suffix = none)
    (hplain : event.data.scalar.is_plain_implicit = false)
    (hquoted : event.data.scalar.is_quoted_implicit = false) :
    yaml_emitter_emit_node emitter event is_root is_sequence is_mapping is_simple_key
      = some (false, EMITTER_ERROR_INIT
          { emitter with is_root_context := is_root, is_sequence_context := is_sequence,
                         is_mapping_context := is_mapping,
                         is_simple_key_context := is_simple_key }
          "neither tag nor implicit flags are specified") := by
  unfold yaml_emitter_emit_node
  simp only [htype, yaml_emitter_emit_scalar]
  have hfail := (select_scalar_style_fails
    { emitter with is_root_context := is_root, is_sequence_context := is_sequence,
                   is_mapping_context := is_mapping, is_simple_key_context := is_simple_key }
    event).2 ⟨hhandle, hsuffix, hplain, hquoted⟩
  have hpair : yaml_emitter_select_scalar_style
      { emitter with is_root_context := is_root, is_sequence_context := is_sequence,
                     is_mapping_context := is_mapping, is_simple_key_context := is_simple_key }
      event
      = (false, EMITTER_ERROR_INIT
          { emitter with is_root_context := is_root, is_sequence_context := is_sequence,
                         is_mapping_context := is_mapping,
                         is_simple_key_context := is_simple_key }
          "neither tag nor implicit flags are specified") :=
    Prod.ext hfail (select_scalar_style_failure _ event hfail)
  rw [hpair]
  rfl

/-- In a state where a node is emitted: a step of the state machine that fails
records the EMITTER error and a
problem and keeps the state, the flags and the queue; on every emitter in the
same state, with the same data of the tag and with the tag directives left
by the failure, the step fails again, with the same problem or with
`duplicate %TAG directive`. -/
theorem state_machine_failure_node (emitter : yaml_emitter_t) (event : yaml_event_t)
    (result : yaml_emitter_t)
    (hnode : is_node_state emitter.state = true)
    (h : yaml_emitter_state_machine emitter event = some (false, result)) :
    result.error = YAML_EMITTER_ERROR ∧
    ∃ problem, result.problem = some problem ∧
      result.state = emitter.state ∧ result.is_canonical = emitter.is_canonical ∧
      result.is_unicode = emitter.is_unicode ∧ result.events = emitter.events ∧
      (is_node_event event.type = true →
        result.tag_directives = emitter.tag_directives) ∧
      ∀ other : yaml_emitter_t, other.state = emitter.state →
        other.tag_data = emitter.tag_data →
        other.tag_directives = result.tag_directives →
        ∃ again, yaml_emitter_state_machine other event = some (false, again) ∧
          again.error = YAML_EMITTER_ERROR ∧
          (again.problem = some problem ∨
            (again.problem = some "duplicate %TAG directive" ∧
              (emitter.state = YAML_EMIT_FIRST_DOCUMENT_START_STATE
                ∨ emitter.state = YAML_EMIT_DOCUMENT_START_STATE))) ∧
          step_key again = step_key other ∧ again.events = other.events := by
  by_cases hevent : collection_end_event emitter.state = some event.type
  · exfalso
    obtain ⟨htotal, hsome⟩ := state_machine_end emitter event hevent
    obtain ⟨hstates, hindents⟩ := hsome _ h
    obtain ⟨state, states, hs⟩ := List.exists_cons_of_ne_nil hstates
    obtain ⟨top, indents, hi⟩ := List.exists_cons_of_ne_nil hindents
    obtain ⟨ended, hended, _⟩ := htotal state states top indents hs hi
    rw [h] at hended
    cases hended
  · obtain ⟨pushed, continuation, is_root, is_sequence, is_mapping, is_simple_key, indent,
      _, hu, _, heq⟩ := state_machine_node emitter event hnode hevent
    rw [heq] at h
    have hc := control_of_unwritten_stacks pushed emitter _ _ _ _ hu
    obtain ⟨p1, _, _, _, _, p6, p7, p8, p9⟩ := control_fields pushed
      (set_stacks emitter (continuation :: emitter.states)
        (if is_first_state emitter.state then emitter.indent :: emitter.indents
         else emitter.indents) indent
        (if is_first_state emitter.state && is_flow_state emitter.state then
          emitter.flow_level + 1
         else emitter.flow_level)) hc
    simp only [set_stacks] at p1 p6 p7 p8 p9
    have hdata : pushed.tag_data = emitter.tag_data :=
      (congrArg yaml_emitter_t.tag_data hu : (unwritten pushed).tag_data = _)
    have hother : ∀ (other : yaml_emitter_t) (problem : String),
        other.state = emitter.state →
        (∀ (again_pushed : yaml_emitter_t) (r s m k : Bool),
          again_pushed.tag_data = other.tag_data →
          yaml_emitter_emit_node again_pushed event r s m k
            = some (false, EMITTER_ERROR_INIT
                { again_pushed with is_root_context := r, is_sequence_context := s,
                                    is_mapping_context := m, is_simple_key_context := k }
                problem)) →
        ∃ again, yaml_emitter_state_machine other event = some (false, again) ∧
          again.error = YAML_EMITTER_ERROR ∧
          (again.problem = some problem ∨
            (again.problem = some "duplicate %TAG directive" ∧
              (emitter.state = YAML_EMIT_FIRST_DOCUMENT_START_STATE
                ∨ emitter.state = YAML_EMIT_DOCUMENT_START_STATE))) ∧
          step_key again = step_key other ∧ again.events = other.events := by
      intro other problem hstate hfails
      obtain ⟨again_pushed, again_continuation, r, s, m, k, again_indent, _, hu2, _, heq2⟩ :=
        state_machine_node other event (by rw [hstate]; exact hnode)
          (by rw [hstate]; exact hevent)
      have hc2 := control_of_unwritten_stacks again_pushed other _ _ _ _ hu2
      obtain ⟨q1, _, _, _, _, q6, q7, q8, q9⟩ := control_fields again_pushed
        (set_stacks other (again_continuation :: other.states)
          (if is_first_state other.state then other.indent :: other.indents
           else other.indents) again_indent
          (if is_first_state other.state && is_flow_state other.state then
            other.flow_level + 1
           else other.flow_level)) hc2
      simp only [set_stacks] at q1 q6 q7 q8 q9
      refine ⟨_, heq2.trans (hfails again_pushed r s m k
        (congrArg yaml_emitter_t.tag_data hu2 : (unwritten again_pushed).tag_data = _)),
        rfl, Or.inl rfl, ?_, q6⟩
      simp only [step_key, EMITTER_ERROR_INIT, q1, q7, q8, q9]
    rcases emit_node_eq pushed event _ _ _ _ _ h with
      ⟨_, hreject, herror, hproblem, hcontrol⟩ |
      ⟨_, htype, h1, h2, h3, h4, herror, hproblem, hcontrol⟩ |
      ⟨hb, _⟩ | ⟨hb, _⟩ | ⟨hb, _⟩
    · obtain ⟨c1, _, _, _, _, c6, c7, c8, c9⟩ := control_fields _ _ hcontrol
      simp only at c1 c6 c7 c8 c9 herror hproblem
      refine ⟨herror, _, hproblem, c1.trans p1, c8.trans p8, c9.trans p9, c6.trans p6,
        fun _ => c7.trans p7, ?_⟩
      intro other hstate _ _
      exact hother other _ hstate
        (fun again_pushed r s m k _ => emit_node_rejects_eq again_pushed event r s m k hreject)
    · obtain ⟨c1, _, _, _, _, c6, c7, c8, c9⟩ := control_fields _ _ hcontrol
      simp only at c1 c6 c7 c8 c9 herror hproblem
      refine ⟨herror, _, hproblem, c1.trans p1, c8.trans p8, c9.trans p9, c6.trans p6,
        fun _ => c7.trans p7, ?_⟩
      intro other hstate hsame _
      refine hother other _ hstate (fun again_pushed r s m k hd =>
        emit_node_scalar_fails again_pushed event r s m k htype ?_ ?_ h3 h4)
      · rw [hd, hsame, ← hdata]
        exact h1
      · rw [hd, hsame, ← hdata]
        exact h2
    · exact Bool.noConfusion hb
    · exact Bool.noConfusion hb
    · exact Bool.noConfusion hb

/-- In a state of the stream or of the document: a step of the state machine
that fails records the EMITTER error and a
problem and keeps the state, the flags and the queue; on every emitter in the
same state, with the same data of the tag and with the tag directives left
by the failure, the step fails again, with the same problem or with
`duplicate %TAG directive`. -/
theorem state_machine_failure_document (emitter : yaml_emitter_t) (event : yaml_event_t)
    (result : yaml_emitter_t)
    (hnode : ¬ is_node_state emitter.state = true)
    (h : yaml_emitter_state_machine emitter event = some (false, result)) :
    result.error = YAML_EMITTER_ERROR ∧
    ∃ problem, result.problem = some problem ∧
      result.state = emitter.state ∧ result.is_canonical = emitter.is_canonical ∧
      result.is_unicode = emitter.is_unicode ∧ result.events = emitter.events ∧
      (is_node_event event.type = true →
        result.tag_directives = emitter.tag_directives) ∧
      ∀ other : yaml_emitter_t, other.state = emitter.state →
        other.tag_data = emitter.tag_data →
        other.tag_directives = result.tag_directives →
        ∃ again, yaml_emitter_state_machine other event = some (false, again) ∧
          again.error = YAML_EMITTER_ERROR ∧
          (again.problem = some problem ∨
            (again.problem = some "duplicate %TAG directive" ∧
              (emitter.state = YAML_EMIT_FIRST_DOCUMENT_START_STATE
                ∨ emitter.state = YAML_EMIT_DOCUMENT_START_STATE))) ∧
          step_key again = step_key other ∧ again.events = other.events := by
  rw [Bool.not_eq_true] at hnode
  unfold yaml_emitter_state_machine at h
  cases hs : emitter.state <;> rw [hs] at hnode <;>
    simp only [is_node_state, is_flow_state, is_block_state, Bool.or_false, Bool.or_true,
      beq_self_eq_true, Bool.true_eq_false, reduceCtorEq] at hnode <;> simp only [hs] at h
  case YAML_EMIT_STREAM_START_STATE =>
    obtain ⟨stepped, hstepped, hb, _, _, _, _, _, _, _, _, hfail⟩ :=
      emit_stream_start_frame emitter event
    rw [h, Option.some.injEq] at hstepped
    subst hstepped
    have htype : event.type ≠ YAML_STREAM_START_EVENT := of_decide_eq_false hb.symm
    have hresult : result = EMITTER_ERROR_INIT emitter "expected STREAM-START" := hfail rfl
    subst hresult
    refine ⟨rfl, _, rfl, hs, rfl, rfl, rfl, fun _ => rfl, ?_⟩
    intro other hstate _ _
    refine ⟨EMITTER_ERROR_INIT other "expected STREAM-START", ?_, rfl, Or.inl rfl, rfl, rfl⟩
    unfold yaml_emitter_state_machine
    simp only [hstate, hs, yaml_emitter_emit_stream_start, if_neg htype]
  case YAML_EMIT_FIRST_DOCUMENT_START_STATE =>
    obtain ⟨appended, problem, hresult, hempty, hagain⟩ :=
      (emit_document_start_frame emitter event true _ h).2 rfl
    simp only at hresult
    subst hresult
    refine ⟨rfl, problem, rfl, hs, rfl, rfl, rfl, ?_, ?_⟩
    · intro hn
      have : event.type ≠ YAML_DOCUMENT_START_EVENT := by
        intro ht
        rw [ht] at hn
        exact absurd hn (by decide)
      show emitter.tag_directives ++ appended = _
      rw [hempty this, List.append_nil]
    · intro other hstate _ hdirectives
      obtain ⟨again, hfails, hor⟩ := hagain other true hdirectives
      refine ⟨EMITTER_ERROR_INIT other again, ?_, rfl, ?_, rfl, rfl⟩
      · unfold yaml_emitter_state_machine
        simp only [hstate, hs]
        exact hfails
      · rcases hor with hor | hor
        · exact Or.inl (by rw [hor]; rfl)
        · exact Or.inr ⟨by rw [hor]; rfl, Or.inl rfl⟩
  case YAML_EMIT_DOCUMENT_START_STATE =>
    obtain ⟨appended, problem, hresult, hempty, hagain⟩ :=
      (emit_document_start_frame emitter event false _ h).2 rfl
    simp only at hresult
    subst hresult
    refine ⟨rfl, problem, rfl, hs, rfl, rfl, rfl, ?_, ?_⟩
    · intro hn
      have : event.type ≠ YAML_DOCUMENT_START_EVENT := by
        intro ht
        rw [ht] at hn
        exact absurd hn (by decide)
      show emitter.tag_directives ++ appended = _
      rw [hempty this, List.append_nil]
    · intro other hstate _ hdirectives
      obtain ⟨again, hfails, hor⟩ := hagain other false hdirectives
      refine ⟨EMITTER_ERROR_INIT other again, ?_, rfl, ?_, rfl, rfl⟩
      · unfold yaml_emitter_state_machine
        simp only [hstate, hs]
        exact hfails
      · rcases hor with hor | hor
        · exact Or.inl (by rw [hor]; rfl)
        · exact Or.inr ⟨by rw [hor]; rfl, Or.inr rfl⟩
  case YAML_EMIT_DOCUMENT_END_STATE =>
    obtain ⟨hb, _, hfail⟩ := emit_document_end_frame emitter event _ h
    have htype : event.type ≠ YAML_DOCUMENT_END_EVENT := of_decide_eq_false hb.symm
    have hresult : result = EMITTER_ERROR_INIT emitter "expected DOCUMENT-END" := hfail rfl
    subst hresult
    refine ⟨rfl, _, rfl, hs, rfl, rfl, rfl, fun _ => rfl, ?_⟩
    intro other hstate _ _
    refine ⟨EMITTER_ERROR_INIT other "expected DOCUMENT-END", ?_, rfl, Or.inl rfl, rfl, rfl⟩
    unfold yaml_emitter_state_machine
    simp only [hstate, hs, yaml_emitter_emit_document_end, if_neg htype]
  case YAML_EMIT_END_STATE =>
    simp only [Option.some.injEq, Prod.mk.injEq, true_and] at h
    subst h
    refine ⟨rfl, _, rfl, hs, rfl, rfl, rfl, fun _ => rfl, ?_⟩
    intro other hstate _ _
    refine ⟨EMITTER_ERROR_INIT other "expected nothing after STREAM-END", ?_, rfl, Or.inl rfl,
      rfl, rfl⟩
    unfold yaml_emitter_state_machine
    simp only [hstate, hs]

/-- A step of the state machine that fails records the EMITTER error and a
problem and keeps the state, the flags and the queue; on every emitter in the
same state, with the same data of the tag and with the tag directives left
by the failure, the step fails again, with the same problem or with
`duplicate %TAG directive`. -/
theorem state_machine_failure (emitter : yaml_emitter_t) (event : yaml_event_t)
    (result : yaml_emitter_t)
    (h : yaml_emitter_state_machine emitter event = some (false, result)) :
    result.error = YAML_EMITTER_ERROR ∧
    ∃ problem, result.problem = some problem ∧
      result.state = emitter.state ∧ result.is_canonical = emitter.is_canonical ∧
      result.is_unicode = emitter.is_unicode ∧ result.events = emitter.events ∧
      (is_node_event event.type = true →
        result.tag_directives = emitter.tag_directives) ∧
      ∀ other : yaml_emitter_t, other.state = emitter.state →
        other.tag_data = emitter.tag_data →
        other.tag_directives = result.tag_directives →
        ∃ again, yaml_emitter_state_machine other event = some (false, again) ∧
          again.error = YAML_EMITTER_ERROR ∧
          (again.problem = some problem ∨
            (again.problem = some "duplicate %TAG directive" ∧
              (emitter.state = YAML_EMIT_FIRST_DOCUMENT_START_STATE
                ∨ emitter.state = YAML_EMIT_DOCUMENT_START_STATE))) ∧
          step_key again = step_key other ∧ again.events = other.events := by
  by_cases hnode : is_node_state emitter.state = true
  · exact state_machine_failure_node emitter event result hnode h
  · exact state_machine_failure_document emitter event result hnode h

/-- The key of a step and the queue are part of the control part. -/
theorem step_key_of_control (first second : yaml_emitter_t)
    (h : control first = control second) :
    step_key first = step_key second ∧ first.events = second.events := by
  obtain ⟨h1, _, _, _, _, h6, h7, h8, h9⟩ := control_fields first second h
  exact ⟨by simp only [step_key, h1, h7, h8, h9], h6⟩

/-- The fields of the key of a step. -/
theorem step_key_fields (first second : yaml_emitter_t) (h : step_key first = step_key second) :
    first.state = second.state ∧ first.is_canonical = second.is_canonical ∧
    first.is_unicode = second.is_unicode ∧ first.tag_directives = second.tag_directives := by
  simp only [step_key, Prod.mk.injEq] at h
  exact h

/-- A step of the loop of `yaml_emitter_emit`, the analysis of the event and
the state machine, that fails records the EMITTER error and a problem and
keeps the queue; on every emitter with the key left by the failure the step
fails again, with the same problem or with `duplicate %TAG directive`, and
keeps the key and the queue. -/
theorem failed_step_fails_again (emitter : yaml_emitter_t) (event : yaml_event_t)
    (result : yaml_emitter_t)
    (h : or_return (yaml_emitter_analyze_event emitter event)
      (fun analysed => yaml_emitter_state_machine analysed event) = some (false, result)) :
    result.error = YAML_EMITTER_ERROR ∧
    ∃ problem, result.problem = some problem ∧ result.events = emitter.events ∧
      result.state = emitter.state ∧
      ∀ other : yaml_emitter_t, step_key other = step_key result →
        ∃ again,
          or_return (yaml_emitter_analyze_event other event)
            (fun analysed => yaml_emitter_state_machine analysed event)
              = some (false, again) ∧
          again.error = YAML_EMITTER_ERROR ∧
          (again.problem = some problem ∨
            (again.problem = some "duplicate %TAG directive" ∧
              (emitter.state = YAML_EMIT_FIRST_DOCUMENT_START_STATE
                ∨ emitter.state = YAML_EMIT_DOCUMENT_START_STATE))) ∧
          step_key again = step_key other ∧ again.events = other.events := by
  cases hanalysis : yaml_emitter_analyze_event emitter event with
  | none => simp [hanalysis, or_return] at h
  | some analysis =>
    obtain ⟨ok, analysed⟩ := analysis
    have hcontrol := analyze_event_control emitter event _ hanalysis
    obtain ⟨hkey, hevents⟩ := step_key_of_control _ _ hcontrol
    simp only at hkey hevents hcontrol
    cases ok
    · simp only [hanalysis, or_return, Option.some.injEq, Prod.mk.injEq, true_and] at h
      subst h
      obtain ⟨_, _, _, _, _, hf⟩ := analyze_event_congr emitter emitter event _ rfl rfl rfl
        hanalysis
      obtain ⟨herror, _, problem, hproblem, _⟩ := hf rfl
      refine ⟨herror, problem, hproblem, hevents, (step_key_fields _ _ hkey).1, ?_⟩
      intro other hother
      obtain ⟨k1, k2, k3, k4⟩ := step_key_fields _ _ (hother.trans hkey)
      obtain ⟨again, hagain, hb, hc, _, hf2⟩ := analyze_event_congr emitter other event _
        k2 k3 k4 hanalysis
      obtain ⟨again_ok, again⟩ := again
      simp only at hb hc hf2
      subst hb
      obtain ⟨_, herror2, problem2, hproblem2, hproblem3⟩ := hf2 trivial
      rw [hproblem] at hproblem2
      cases hproblem2
      obtain ⟨hkey2, hevents2⟩ := step_key_of_control _ _ hc
      exact ⟨again, by rw [hagain]; rfl, herror2, Or.inl hproblem3, hkey2, hevents2⟩
    · simp only [hanalysis, or_return] at h
      obtain ⟨herror, problem, hproblem, f1, f2, f3, f4, f5, hretry⟩ :=
        state_machine_failure analysed event result h
      refine ⟨herror, problem, hproblem, f4.trans hevents,
        f1.trans (step_key_fields _ _ hkey).1, ?_⟩
      intro other hother
      obtain ⟨k1, k2, k3, k4⟩ := step_key_fields _ _ hother
      obtain ⟨e1, e2, e3, e4⟩ := step_key_fields _ _ hkey
      have hstep : ∀ again_analysed : yaml_emitter_t,
          yaml_emitter_analyze_event other event = some (true, again_analysed) →
          control again_analysed = control other →
          again_analysed.tag_data = analysed.tag_data →
          ∃ again,
            or_return (yaml_emitter_analyze_event other event)
              (fun analysed => yaml_emitter_state_machine analysed event)
                = some (false, again) ∧
            again.error = YAML_EMITTER_ERROR ∧
            (again.problem = some problem ∨
              (again.problem = some "duplicate %TAG directive" ∧
              (emitter.state = YAML_EMIT_FIRST_DOCUMENT_START_STATE
                ∨ emitter.state = YAML_EMIT_DOCUMENT_START_STATE))) ∧
            step_key again = step_key other ∧ again.events = other.events := by
        intro again_analysed hagain hc hd
        obtain ⟨hkey2, hevents2⟩ := step_key_of_control _ _ hc
        obtain ⟨m1, _, _, m4⟩ := step_key_fields _ _ hkey2
        obtain ⟨again, hfails, herror2, hproblem2, hkey3, hevents3⟩ :=
          hretry again_analysed (m1.trans (k1.trans f1)) hd (m4.trans k4)
        exact ⟨again, by rw [hagain]; exact hfails, herror2, by rw [← e1]; exact hproblem2,
          hkey3.trans hkey2, hevents3.trans hevents2⟩
      by_cases hnode : is_node_event event.type = true
      · obtain ⟨again, hagain, hb, hc, hd, _⟩ := analyze_event_congr emitter other event _
          (k2.trans (f2.trans e2)) (k3.trans (f3.trans e3)) (k4.trans ((f5 hnode).trans e4))
          hanalysis
        obtain ⟨again_ok, again⟩ := again
        simp only at hb hc hd
        subst hb
        exact hstep again hagain hc hd
      · have h1 : event.type ≠ YAML_ALIAS_EVENT := fun ht => hnode (by rw [ht]; rfl)
        have h2 : event.type ≠ YAML_SCALAR_EVENT := fun ht => hnode (by rw [ht]; rfl)
        have h3 : event.type ≠ YAML_SEQUENCE_START_EVENT := fun ht => hnode (by rw [ht]; rfl)
        have h4 : event.type ≠ YAML_MAPPING_START_EVENT := fun ht => hnode (by rw [ht]; rfl)
        have hthis := analyze_event_other emitter event h1 h2 h3 h4
        rw [hanalysis, Option.some.injEq, Prod.mk.injEq] at hthis
        refine hstep _ (analyze_event_other other event h1 h2 h3 h4) rfl ?_
        rw [hthis.2]
        rfl

/-- The scanning loop of `yaml_emitter_need_more_events` that has answered
`false` answers `false` on every longer queue. -/
theorem need_more_events_loop_append (events extra : List yaml_event_t) :
    ∀ level : Int, need_more_events_loop events level = false →
      need_more_events_loop (events ++ extra) level = false := by
  induction events with
  | nil =>
    intro level h
    cases h
  | cons event rest ih =>
    intro level h
    simp only [need_more_events_loop, List.cons_append] at h ⊢
    split_ifs at h ⊢ with hzero
    · rfl
    · exact ih _ h

/-- When no more events are needed, none are needed after more events are
queued. -/
theorem need_more_events_append (emitter longer : yaml_emitter_t) (extra : List yaml_event_t)
    (h : yaml_emitter_need_more_events emitter = false)
    (hlonger : longer.events = emitter.events ++ extra) :
    yaml_emitter_need_more_events longer = false := by
  simp only [yaml_emitter_need_more_events] at h ⊢
  rw [hlonger]
  cases hevents : emitter.events with
  | nil => simp [hevents] at h
  | cons head rest =>
    simp only [hevents, List.cons_append] at h ⊢
    cases haccumulate : need_more_events_accumulate head.type with
    | none => rfl
    | some accumulate =>
      simp only [haccumulate] at h ⊢
      by_cases hlong : (head :: rest).length > accumulate
      · rw [if_pos (by simp only [List.length_cons, List.length_append] at hlong ⊢; omega)]
      · rw [if_neg hlong] at h
        split_ifs
        · rfl
        · exact need_more_events_loop_append (head :: rest) extra 0 h

/-- A call of the loop of `yaml_emitter_emit` that fails has failed in a step
on the head of the queue, when no more events were needed. -/
theorem emit_loop_failure :
    ∀ (fuel : Nat) (emitter result : yaml_emitter_t),
      yaml_emitter_emit_loop fuel emitter = some (false, result) →
      ∃ (failing : yaml_emitter_t) (head : yaml_event_t) (rest : List yaml_event_t),
        failing.events = head :: rest ∧ yaml_emitter_need_more_events failing = false ∧
        or_return (yaml_emitter_analyze_event failing head)
          (fun analysed => yaml_emitter_state_machine analysed head)
            = some (false, result) := by
  intro fuel
  induction fuel with
  | zero =>
    intro emitter result h
    simp only [yaml_emitter_emit_loop] at h
    split_ifs at h
    cases h
  | succ fuel ih =>
    intro emitter result h
    simp only [yaml_emitter_emit_loop] at h
    by_cases hneed : yaml_emitter_need_more_events emitter = true
    · rw [if_pos hneed] at h
      cases h
    · rw [if_neg hneed] at h
      rw [Bool.not_eq_true] at hneed
      cases hevents : emitter.events with
      | nil =>
        simp only [hevents] at h
        cases h
      | cons head rest =>
        simp only [hevents] at h
        rcases hanalysis : yaml_emitter_analyze_event emitter head with
          _ | ⟨_ | _, analysed⟩
        · simp [hanalysis, or_return] at h
        · refine ⟨emitter, head, rest, hevents, hneed, ?_⟩
          simp only [hanalysis, or_return] at h ⊢
          exact h
        · simp only [hanalysis, or_return] at h
          rcases hstep : yaml_emitter_state_machine analysed head with
            _ | ⟨_ | _, stepped⟩
          · simp [hstep] at h
          · refine ⟨emitter, head, rest, hevents, hneed, ?_⟩
            simp only [hstep] at h
            simp only [hanalysis, or_return, hstep]
            exact h
          · simp only [hstep] at h
            exact ih _ _ h

/-- A failure of the first two parts is a failure of the whole. -/
theorem or_return_failure (first : Option (Bool × yaml_emitter_t))
    (second third : yaml_emitter_t → Option (Bool × yaml_emitter_t)) (result : yaml_emitter_t)
    (h : or_return first second = some (false, result)) :
    or_return first (fun emitter => or_return (second emitter) third)
      = some (false, result) := by
  rw [or_return_assoc, h]
  rfl

/-- On an emitter whose step on the head of the queue fails for every emitter
with the same key, `yaml_emitter_emit` fails, with any event, and leaves such
an emitter. -/
theorem emit_fails_again (emitter : yaml_emitter_t) (head : yaml_event_t)
    (rest : List yaml_event_t) (problem : String)
    (key : yaml_emitter_state_t × Bool × Bool × List yaml_tag_directive_t)
    (hevents : emitter.events = head :: rest)
    (hneed : yaml_emitter_need_more_events emitter = false)
    (hkey : step_key emitter = key)
    (hretry : ∀ other : yaml_emitter_t, step_key other = key →
      ∃ again,
        or_return (yaml_emitter_analyze_event other head)
          (fun analysed => yaml_emitter_state_machine analysed head)
            = some (false, again) ∧
        again.error = YAML_EMITTER_ERROR ∧
        (again.problem = some problem ∨
          (again.problem = some "duplicate %TAG directive" ∧
            (key.1 = YAML_EMIT_FIRST_DOCUMENT_START_STATE
              ∨ key.1 = YAML_EMIT_DOCUMENT_START_STATE))) ∧
        step_key again = step_key other ∧ again.events = other.events)
    (event : yaml_event_t) :
    ∃ again, yaml_emitter_emit emitter event = some (false, again) ∧
      again.error = YAML_EMITTER_ERROR ∧
      (again.problem = some problem ∨
        (again.problem = some "duplicate %TAG directive" ∧
          (key.1 = YAML_EMIT_FIRST_DOCUMENT_START_STATE
            ∨ key.1 = YAML_EMIT_DOCUMENT_START_STATE))) ∧
      again.events = head :: (rest ++ [event]) ∧
      yaml_emitter_need_more_events again = false ∧ step_key again = key := by
  have hemit : yaml_emitter_emit emitter event
      = yaml_emitter_emit_loop
          ({ emitter with events := emitter.events ++ [event] } : yaml_emitter_t).events.length
          { emitter with events := emitter.events ++ [event] } := rfl
  have hneed2 : yaml_emitter_need_more_events
      { emitter with events := emitter.events ++ [event] } = false :=
    need_more_events_append emitter _ [event] hneed rfl
  have hqueue : ({ emitter with events := emitter.events ++ [event] } : yaml_emitter_t).events
      = head :: (rest ++ [event]) := by
    show emitter.events ++ [event] = _
    rw [hevents]
    rfl
  have hkey1 : step_key { emitter with events := emitter.events ++ [event] } = key := hkey
  rw [hemit]
  generalize ({ emitter with events := emitter.events ++ [event] } : yaml_emitter_t) = queued
    at hneed2 hqueue hkey1 ⊢
  obtain ⟨again, hagain, herror, hproblem, hkey2, hevents2⟩ := hretry queued hkey1
  refine ⟨again, ?_, herror, hproblem, hevents2.trans hqueue, ?_, hkey2.trans hkey1⟩
  · rw [hqueue, List.length_cons]
    simp only [yaml_emitter_emit_loop]
    rw [if_neg (by rw [hneed2]; decide)]
    simp only [hqueue]
    exact or_return_failure _ _ _ _ hagain
  · exact need_more_events_append _ again [] hneed2 (by rw [List.append_nil]; exact hevents2)

/-- After a step on the head of the queue that fails for every emitter with
the same key, every call of `yaml_emitter_emit` fails. -/
theorem emit_each_fails_again (head : yaml_event_t) (problem : String)
    (key : yaml_emitter_state_t × Bool × Bool × List yaml_tag_directive_t)
    (hretry : ∀ other : yaml_emitter_t, step_key other = key →
      ∃ again,
        or_return (yaml_emitter_analyze_event other head)
          (fun analysed => yaml_emitter_state_machine analysed head)
            = some (false, again) ∧
        again.error = YAML_EMITTER_ERROR ∧
        (again.problem = some problem ∨
          (again.problem = some "duplicate %TAG directive" ∧
            (key.1 = YAML_EMIT_FIRST_DOCUMENT_START_STATE
              ∨ key.1 = YAML_EMIT_DOCUMENT_START_STATE))) ∧
        step_key again = step_key other ∧ again.events = other.events)
    (later : List yaml_event_t) :
    ∀ (emitter : yaml_emitter_t) (rest : List yaml_event_t),
      emitter.events = head :: rest → yaml_emitter_need_more_events emitter = false →
      step_key emitter = key →
      ∀ next : yaml_event_t, ∃ before again,
        emit_each later emitter = some before ∧
        yaml_emitter_emit before next = some (false, again) ∧
        again.error = YAML_EMITTER_ERROR ∧
        (again.problem = some problem ∨
          (again.problem = some "duplicate %TAG directive" ∧
            (key.1 = YAML_EMIT_FIRST_DOCUMENT_START_STATE
              ∨ key.1 = YAML_EMIT_DOCUMENT_START_STATE))) := by
  induction later with
  | nil =>
    intro emitter rest hevents hneed hkey next
    obtain ⟨again, hagain, herror, hproblem, _⟩ :=
      emit_fails_again emitter head rest problem key hevents hneed hkey hretry next
    exact ⟨emitter, again, rfl, hagain, herror, hproblem⟩
  | cons event later ih =>
    intro emitter rest hevents hneed hkey next
    obtain ⟨failed, hfailed, _, _, hevents2, hneed2, hkey2⟩ :=
      emit_fails_again emitter head rest problem key hevents hneed hkey hretry event
    obtain ⟨before, again, hbefore, hagain, herror, hproblem⟩ :=
      ih failed _ hevents2 hneed2 hkey2 next
    refine ⟨before, again, ?_, hagain, herror, hproblem⟩
    simp only [emit_each, hfailed, Option.bind_eq_bind, Option.some_bind]
    exact hbefore

/-- C31 (amended): after a call of `yaml_emitter_emit` has failed, the EMITTER
error and a problem are recorded, and every later call on the same emitter,
with any event and after any number of other calls, fails with the EMITTER
error; its problem is that of the first failure, except that it can be
`duplicate %TAG directive` when the emitter is in a state that expects
DOCUMENT-START (the tag directives appended before the failure are found
again). -/
theorem emit_after_failure (emitter : yaml_emitter_t) (event : yaml_event_t)
    (failed : yaml_emitter_t)
    (h : yaml_emitter_emit emitter event = some (false, failed)) :
    failed.error = YAML_EMITTER_ERROR ∧
    ∃ problem, failed.problem = some problem ∧
      ∀ (later : List yaml_event_t) (next : yaml_event_t), ∃ before again,
        emit_each later failed = some before ∧
        yaml_emitter_emit before next = some (false, again) ∧
        again.error = YAML_EMITTER_ERROR ∧
        (again.problem = some problem ∨
          (again.problem = some "duplicate %TAG directive" ∧
            (failed.state = YAML_EMIT_FIRST_DOCUMENT_START_STATE
              ∨ failed.state = YAML_EMIT_DOCUMENT_START_STATE))) := by
  obtain ⟨failing, head, rest, hevents, hneed, hstep⟩ := emit_loop_failure _ _ _ h
  obtain ⟨herror, problem, hproblem, hqueue, hstate, hretry⟩ :=
    failed_step_fails_again failing head failed hstep
  refine ⟨herror, problem, hproblem, ?_⟩
  intro later next
  refine emit_each_fails_again head problem (step_key failed) ?_ later failed rest
    (hqueue.trans hevents)
    (need_more_events_append failing failed [] hneed (by rw [List.append_nil]; exact hqueue))
    rfl next
  intro other hother
  obtain ⟨again, hagain, herror2, hproblem2, hkey2, hevents2⟩ := hretry other hother
  refine ⟨again, hagain, herror2, ?_, hkey2, hevents2⟩
  rw [← hstate] at hproblem2
  exact hproblem2

/-- C31, counterexample: the DOCUMENT-START event of
`empty_handle_stream` is processed with the next event and fails with
`tag handle must not be empty`, after its first tag directive was appended;
the call after that fails with another message,
`duplicate %TAG directive`. -/
theorem emit_after_failure_other_problem :
    (emit_events empty_handle_stream emitter_initial).bind
      (fun started =>
        (yaml_emitter_emit started.2 (scalar_event [0x76] YAML_PLAIN_SCALAR_STYLE)).bind
          fun failed =>
          (yaml_emitter_emit failed.2 (scalar_event [0x76] YAML_PLAIN_SCALAR_STYLE)).map
            fun again =>
            (started.1, failed.1, failed.2.error, failed.2.problem,
              again.1, again.2.error, again.2.problem))
      = some (true, false, YAML_EMITTER_ERROR, some "tag handle must not be empty",
          false, YAML_EMITTER_ERROR, some "duplicate %TAG directive") := by
  rfl

/-- Witness of C31: a SCALAR event emitted on a fresh emitter fails with
`expected STREAM-START`, and so does every later call. -/
theorem emit_after_failure_witness :
    ∃ failed,
      yaml_emitter_emit emitter_initial (scalar_event [0x76] YAML_PLAIN_SCALAR_STYLE)
        = some (false, failed) ∧
      failed.error = YAML_EMITTER_ERROR ∧
      failed.problem = some "expected STREAM-START" ∧
      ∀ (later : List yaml_event_t) (next : yaml_event_t), ∃ before again,
        emit_each later failed = some before ∧
        yaml_emitter_emit before next = some (false, again) ∧
        again.error = YAML_EMITTER_ERROR ∧
        again.problem = some "expected STREAM-START" := by
  have hrun : (yaml_emitter_emit emitter_initial
        (scalar_event [0x76] YAML_PLAIN_SCALAR_STYLE)).map
      (fun result => (result.1, result.2.problem, result.2.state))
      = some (false, some "expected STREAM-START", YAML_EMIT_STREAM_START_STATE) := by
    decide
  obtain ⟨⟨ok, failed⟩, hfailed, hfields⟩ := Option.map_eq_some'.mp hrun
  simp only [Prod.mk.injEq] at hfields
  obtain ⟨hok, hproblem, hstate⟩ := hfields
  subst hok
  obtain ⟨herror, problem, hproblem2, hlater⟩ :=
    emit_after_failure emitter_initial (scalar_event [0x76] YAML_PLAIN_SCALAR_STYLE) failed
      hfailed
  rw [hproblem, Option.some.injEq] at hproblem2
  subst hproblem2
  refine ⟨failed, hfailed, herror, hproblem, ?_⟩
  intro later next
  obtain ⟨before, again, hbefore, hagain, herror2, hor⟩ := hlater later next
  refine ⟨before, again, hbefore, hagain, herror2, ?_⟩
  rcases hor with hor | ⟨_, hs | hs⟩
  · exact hor
  · rw [hstate] at hs
    exact absurd hs (by decide)
  · rw [hstate] at hs
    exact absurd hs (by decide)

/-! ## Theorems: valid UTF-8 strings -/

/-- An alphanumerical octet is ASCII. -/
theorem is_alphanumeric_ascii (octet : Nat) (h : is_alphanumeric octet = true) :
    octet < 0x80 := by
  have h2 : (0x30 ≤ octet ∧ octet ≤ 0x39) ∨ (0x41 ≤ octet ∧ octet ≤ 0x5A)
      ∨ (0x61 ≤ octet ∧ octet ≤ 0x7A) := by
    simpa [is_alphanumeric, or_assoc] using h
  omega

/-- A string of UTF-8 characters is valid UTF-8. -/
theorem is_valid_utf8_flatten (characters : List (List yaml_char_t))
    (hall : ∀ octets ∈ characters, is_utf8_character octets = true) :
    is_valid_utf8 characters.flatten = true := by
  simp only [is_valid_utf8]
  rw [utf8_characters_flatten characters _ hall (length_le_flatten_length characters hall)]
  rfl

/-- A string of ASCII octets is valid UTF-8. -/
theorem is_valid_utf8_ascii (value : List yaml_char_t) (h : ∀ octet ∈ value, octet < 0x80) :
    is_valid_utf8 value = true := by
  obtain ⟨hflat, _, hall⟩ := ascii_characters value h
  rw [← hflat]
  exact is_valid_utf8_flatten _ hall

/-- A valid anchor is valid UTF-8. -/
theorem is_valid_anchor_utf8 (anchor : List yaml_char_t) (h : is_valid_anchor anchor = true) :
    is_valid_utf8 anchor = true := by
  simp only [is_valid_anchor, Bool.and_eq_true, List.all_eq_true] at h
  exact is_valid_utf8_ascii anchor fun octet ho => is_alphanumeric_ascii octet (h.2 octet ho)

/-- What follows a string of UTF-8 characters in a string of UTF-8 characters
is valid UTF-8: no UTF-8 character starts another one. -/
theorem is_valid_utf8_after (first : List (List yaml_char_t)) :
    ∀ (whole : List (List yaml_char_t)) (rest : List yaml_char_t),
      (∀ octets ∈ first, is_utf8_character octets = true) →
      (∀ octets ∈ whole, is_utf8_character octets = true) →
      whole.flatten = first.flatten ++ rest → is_valid_utf8 rest = true := by
  induction first with
  | nil =>
    intro whole rest _ hwhole hflat
    simp only [List.flatten_nil, List.nil_append] at hflat
    rw [← hflat]
    exact is_valid_utf8_flatten whole hwhole
  | cons c first ih =>
    intro whole rest hfirst hwhole hflat
    have hc := hfirst c (List.mem_cons_self _ _)
    have hcne := is_utf8_character_ne_nil c hc
    cases whole with
    | nil =>
      simp only [List.flatten_nil, List.flatten_cons, List.append_assoc] at hflat
      have := congrArg List.length hflat
      have hpos : 0 < c.length := List.length_pos.mpr hcne
      simp only [List.length_nil, List.length_append] at this
      omega
    | cons d whole =>
      have hd := hwhole d (List.mem_cons_self _ _)
      simp only [List.flatten_cons, List.append_assoc] at hflat
      have hwd := (WIDTH_utf8_character [] d whole.flatten hd).1
      have hwc := (WIDTH_utf8_character [] c (first.flatten ++ rest) hc).1
      simp only [List.nil_append] at hwd hwc
      rw [hflat, hwc] at hwd
      obtain ⟨hdc, hrest⟩ := List.append_inj hflat hwd.symm
      exact ih whole rest (fun o ho => hfirst o (List.mem_cons_of_mem _ ho))
        (fun o ho => hwhole o (List.mem_cons_of_mem _ ho)) hrest

/-- What follows a valid UTF-8 prefix in a valid UTF-8 string is valid
UTF-8. -/
theorem is_valid_utf8_drop (tag start : List yaml_char_t)
    (htag : is_valid_utf8 tag = true) (hstart : is_valid_utf8 start = true)
    (htake : tag.take start.length = start) :
    is_valid_utf8 (tag.drop start.length) = true := by
  obtain ⟨whole, hwhole_flat, hwhole⟩ := is_valid_utf8_characters tag htag
  obtain ⟨first, hfirst_flat, hfirst⟩ := is_valid_utf8_characters start hstart
  refine is_valid_utf8_after first whole _ hfirst hwhole ?_
  rw [hwhole_flat, hfirst_flat]
  have hsplit := List.take_append_drop start.length tag
  rw [htake] at hsplit
  exact hsplit.symm

/-- The characters that the analysis of a scalar visits in a string of UTF-8
characters start with a lead byte. -/
theorem character_positions_all_width (characters : List (List yaml_char_t)) :
    ∀ (before : List yaml_char_t) (fuel : Nat),
      (∀ octets ∈ characters, is_utf8_character octets = true) →
      (character_positions (before ++ characters.flatten) fuel before.length).all
          (fun position => WIDTH (string_at (before ++ characters.flatten) position) != 0)
        = true := by
  induction characters with
  | nil =>
    intro before fuel _
    cases fuel <;> simp [character_positions]
  | cons c cs ih =>
    intro before fuel hall
    have hc := hall c (List.mem_cons_self _ _)
    have hcs : ∀ octets ∈ cs, is_utf8_character octets = true :=
      fun o ho => hall o (List.mem_cons_of_mem _ ho)
    cases fuel with
    | zero => simp [character_positions]
    | succ fuel =>
      have hpos : 0 < c.length := List.length_pos.mpr (is_utf8_character_ne_nil c hc)
      have hlt : before.length < (before ++ (c :: cs).flatten).length := by
        simp only [List.flatten_cons, List.length_append]
        omega
      have hw := (WIDTH_utf8_character before c cs.flatten hc).1
      have hval : before ++ (c ++ cs.flatten) = (before ++ c) ++ cs.flatten :=
        (List.append_assoc _ _ _).symm
      have hlen : before.length + c.length = (before ++ c).length := by simp
      simp only [character_positions, if_pos hlt, List.all_cons]
      simp only [List.flatten_cons, hw, hlen]
      rw [hval, ih (before ++ c) fuel hcs]
      simp only [Bool.and_true, bne_iff_ne, ne_eq]
      omega

/-- Every character of a valid UTF-8 string starts with a lead byte. -/
theorem is_valid_utf8_lead_bytes (value : List yaml_char_t)
    (h : is_valid_utf8 value = true) : has_valid_lead_bytes value = true := by
  obtain ⟨characters, hflat, hall⟩ := is_valid_utf8_characters value h
  have hpositions := character_positions_all_width characters [] value.length hall
  simp only [List.nil_append, List.length_nil, hflat] at hpositions
  exact hpositions

/-! ## Theorems: a node with valid data is written -/

/-- `or_return` returns when its first part returns and its second part
returns after a first part that returned `1`. -/
theorem or_return_returns (first : Option (Bool × yaml_emitter_t))
    (rest : yaml_emitter_t → Option (Bool × yaml_emitter_t)) (middle : Bool × yaml_emitter_t)
    (hfirst : first = some middle)
    (hrest : middle.1 = true → ∃ result, rest middle.2 = some result) :
    ∃ result, or_return first rest = some result := by
  subst hfirst
  obtain ⟨ok, emitter⟩ := middle
  cases ok
  · exact ⟨_, rfl⟩
  · exact hrest rfl

/-- What is not written is the same in two emitters that differ in what is
written only. -/
theorem unwritten_fields (first second : yaml_emitter_t)
    (h : unwritten first = unwritten second) :
    first.state = second.state ∧ first.states = second.states ∧
    first.indents = second.indents ∧ first.indent = second.indent ∧
    first.flow_level = second.flow_level ∧ first.events = second.events ∧
    first.tag_directives = second.tag_directives :=
  ⟨(congrArg yaml_emitter_t.state h : (unwritten first).state = (unwritten second).state),
   (congrArg yaml_emitter_t.states h : (unwritten first).states = (unwritten second).states),
   (congrArg yaml_emitter_t.indents h :
      (unwritten first).indents = (unwritten second).indents),
   (congrArg yaml_emitter_t.indent h : (unwritten first).indent = (unwritten second).indent),
   (congrArg yaml_emitter_t.flow_level h :
      (unwritten first).flow_level = (unwritten second).flow_level),
   (congrArg yaml_emitter_t.events h : (unwritten first).events = (unwritten second).events),
   (congrArg yaml_emitter_t.tag_directives h :
      (unwritten first).tag_directives = (unwritten second).tag_directives)⟩

/-- The parts of the data that can be written. -/
theorem has_valid_data_parts (emitter : yaml_emitter_t)
    (h : has_valid_data emitter = true) :
    (∀ anchor, emitter.anchor_data.anchor = some anchor → is_valid_utf8 anchor = true) ∧
    (∀ handle, emitter.tag_data.handle = some handle → is_valid_utf8 handle = true) ∧
    (∀ suffix, emitter.tag_data.suffix = some suffix → is_valid_utf8 suffix = true) ∧
    is_valid_utf8 (emitter.scalar_data.value.getD []) = true := by
  simp only [has_valid_data, Bool.and_eq_true] at h
  obtain ⟨⟨⟨h1, h2⟩, h3⟩, h4⟩ := h
  refine ⟨?_, ?_, ?_, h4⟩
  · intro anchor ha
    rw [ha] at h1
    exact h1
  · intro handle hh
    rw [hh] at h2
    exact h2
  · intro suffix hs
    rw [hs] at h3
    exact h3

/-- The data can be written when its parts can. -/
theorem has_valid_data_of_parts (emitter : yaml_emitter_t)
    (h1 : ∀ anchor, emitter.anchor_data.anchor = some anchor → is_valid_utf8 anchor = true)
    (h2 : ∀ handle, emitter.tag_data.handle = some handle → is_valid_utf8 handle = true)
    (h3 : ∀ suffix, emitter.tag_data.suffix = some suffix → is_valid_utf8 suffix = true)
    (h4 : is_valid_utf8 (emitter.scalar_data.value.getD []) = true) :
    has_valid_data emitter = true := by
  simp only [has_valid_data, Bool.and_eq_true]
  refine ⟨⟨⟨?_, ?_⟩, ?_⟩, h4⟩
  · cases ha : emitter.anchor_data.anchor with
    | none => rfl
    | some anchor => exact h1 anchor ha
  · cases hh : emitter.tag_data.handle with
    | none => rfl
    | some handle => exact h2 handle hh
  · cases hs : emitter.tag_data.suffix with
    | none => rfl
    | some suffix => exact h3 suffix hs

/-- The data that can be written is the same after what is written. -/
theorem has_valid_data_unwritten (first second : yaml_emitter_t)
    (h : unwritten first = unwritten second) :
    has_valid_data first = has_valid_data second := by
  obtain ⟨ha, ht, hs, _⟩ := unwritten_data first second h
  simp only [has_valid_data, ha, ht, hs]

/-- `yaml_emitter_process_anchor` returns on an anchor in UTF-8. -/
theorem process_anchor_returns (emitter : yaml_emitter_t)
    (h : ∀ anchor, emitter.anchor_data.anchor = some anchor → is_valid_utf8 anchor = true) :
    ∃ result, yaml_emitter_process_anchor emitter = some result := by
  simp only [yaml_emitter_process_anchor]
  cases hanchor : emitter.anchor_data.anchor with
  | none => exact ⟨_, rfl⟩
  | some anchor =>
    obtain ⟨written, hwritten⟩ := write_indicator_returns emitter
      (if emitter.anchor_data.is_alias then [0x2A] else [0x26]) true false false (by
        intro octet ho
        split_ifs at ho <;> rw [List.mem_singleton.mp ho] <;> decide)
    obtain ⟨anchored, hanchored⟩ := write_anchor_returns written anchor (h anchor hanchor)
    simp only [hwritten, Option.bind_eq_bind, Option.some_bind, hanchored, Option.map_some']
    exact ⟨_, rfl⟩

/-- `yaml_emitter_process_tag` returns on a handle and a suffix in UTF-8. -/
theorem process_tag_returns (emitter : yaml_emitter_t)
    (hh : ∀ handle, emitter.tag_data.handle = some handle → is_valid_utf8 handle = true)
    (hs : ∀ suffix, emitter.tag_data.suffix = some suffix → is_valid_utf8 suffix = true) :
    ∃ result, yaml_emitter_process_tag emitter = some result := by
  simp only [yaml_emitter_process_tag]
  cases hhandle : emitter.tag_data.handle with
  | none =>
    cases hsuffix : emitter.tag_data.suffix with
    | none => exact ⟨_, rfl⟩
    | some suffix =>
      obtain ⟨opened, hopened⟩ := write_indicator_returns emitter [0x21, 0x3C] true false
        false (by decide)
      obtain ⟨written, hwritten⟩ := write_tag_content_returns opened suffix false
        (hs suffix hsuffix)
      obtain ⟨closed, hclosed⟩ := write_indicator_returns written [0x3E] false false
        false (by decide)
      simp only [hopened, Option.bind_eq_bind, Option.some_bind, hwritten, hclosed,
        Option.map_some']
      exact ⟨_, rfl⟩
  | some handle =>
    obtain ⟨handled, hhandled⟩ := write_tag_handle_returns_utf8 emitter handle
      (hh handle hhandle)
    cases hsuffix : emitter.tag_data.suffix with
    | none =>
      simp only [hhandled, Option.bind_eq_bind, Option.some_bind]
      exact ⟨_, rfl⟩
    | some suffix =>
      obtain ⟨written, hwritten⟩ := write_tag_content_returns handled suffix false
        (hs suffix hsuffix)
      simp only [hhandled, Option.bind_eq_bind, Option.some_bind, hwritten, Option.map_some']
      exact ⟨_, rfl⟩

/-- `yaml_emitter_process_scalar` returns on a value in UTF-8. -/
theorem process_scalar_returns (emitter : yaml_emitter_t)
    (h : is_valid_utf8 (emitter.scalar_data.value.getD []) = true) :
    ∃ result, yaml_emitter_process_scalar emitter = some result := by
  simp only [yaml_emitter_process_scalar]
  cases hstyle : emitter.scalar_data.style <;> simp only
  case YAML_ANY_SCALAR_STYLE => exact ⟨_, rfl⟩
  case YAML_PLAIN_SCALAR_STYLE =>
    obtain ⟨written, hwritten⟩ := write_plain_scalar_returns emitter _
      (!emitter.is_simple_key_context) h
    rw [hwritten]
    exact ⟨_, rfl⟩
  case YAML_SINGLE_QUOTED_SCALAR_STYLE =>
    obtain ⟨written, hwritten⟩ := write_single_quoted_scalar_returns emitter _
      (!emitter.is_simple_key_context) h
    rw [hwritten]
    exact ⟨_, rfl⟩
  case YAML_DOUBLE_QUOTED_SCALAR_STYLE =>
    obtain ⟨written, hwritten⟩ := write_double_quoted_scalar_returns emitter _
      (!emitter.is_simple_key_context) h
    rw [hwritten]
    exact ⟨_, rfl⟩
  case YAML_LITERAL_SCALAR_STYLE =>
    obtain ⟨written, hwritten⟩ := write_literal_scalar_returns emitter _ h
    rw [hwritten]
    exact ⟨_, rfl⟩
  case YAML_FOLDED_SCALAR_STYLE =>
    obtain ⟨written, hwritten⟩ := write_folded_scalar_returns emitter _ h
    rw [hwritten]
    exact ⟨_, rfl⟩

/-- The statement that pops the state returns on a stack that is not
empty. -/
theorem pop_state_returns (emitter : yaml_emitter_t) (h : emitter.states ≠ []) :
    ∃ result, pop_state emitter = some result := by
  cases hstates : emitter.states with
  | nil => exact absurd hstates h
  | cons state states =>
    simp only [pop_state, POP, hstates, Option.map_some']
    exact ⟨_, rfl⟩

/-- `yaml_emitter_emit_alias` returns when the anchor can be written and a
state was pushed. -/
theorem emit_alias_returns (emitter : yaml_emitter_t) (event : yaml_event_t)
    (hvalid : has_valid_data emitter = true) (hstates : emitter.states ≠ []) :
    ∃ result, yaml_emitter_emit_alias emitter event = some result := by
  obtain ⟨h1, _, _, _⟩ := has_valid_data_parts emitter hvalid
  obtain ⟨anchored, hanchored⟩ := process_anchor_returns emitter h1
  obtain ⟨_, hu⟩ := process_anchor_unwritten emitter anchored hanchored
  refine or_return_returns _ _ anchored hanchored fun _ => ?_
  have hsame : anchored.2.states = emitter.states := (unwritten_fields _ _ hu).2.1
  refine pop_state_returns _ ?_
  rw [hsame]
  exact hstates

/-- The anchor and the tag of a node are written when the data can be
written, and nothing else changes. -/
theorem process_properties_returns (emitter : yaml_emitter_t)
    (rest : yaml_emitter_t → Option (Bool × yaml_emitter_t))
    (hvalid : has_valid_data emitter = true)
    (hrest : ∀ tagged, unwritten tagged = unwritten emitter →
      ∃ result, rest tagged = some result) :
    ∃ result,
      or_return (yaml_emitter_process_anchor emitter) (fun emitter =>
        or_return (yaml_emitter_process_tag emitter) rest) = some result := by
  obtain ⟨h1, _, _, _⟩ := has_valid_data_parts emitter hvalid
  obtain ⟨anchored, hanchored⟩ := process_anchor_returns emitter h1
  obtain ⟨_, hu1⟩ := process_anchor_unwritten emitter anchored hanchored
  refine or_return_returns _ _ anchored hanchored fun _ => ?_
  have hvalid2 : has_valid_data anchored.2 = true :=
    (has_valid_data_unwritten _ _ hu1).trans hvalid
  obtain ⟨_, h2, h3, _⟩ := has_valid_data_parts anchored.2 hvalid2
  obtain ⟨tagged, htagged⟩ := process_tag_returns anchored.2 h2 h3
  obtain ⟨_, hu2⟩ := process_tag_unwritten anchored.2 tagged htagged
  refine or_return_returns _ _ tagged htagged fun _ => ?_
  exact hrest tagged.2 (hu2.trans hu1)

/-- `yaml_emitter_emit_scalar` returns when the data can be written and a
state was pushed. -/
theorem emit_scalar_returns (emitter : yaml_emitter_t) (event : yaml_event_t)
    (hvalid : has_valid_data emitter = true) (hstates : emitter.states ≠ []) :
    ∃ result, yaml_emitter_emit_scalar emitter event = some result := by
  simp only [yaml_emitter_emit_scalar]
  refine or_return_returns _ _ _ rfl fun _ => ?_
  obtain ⟨hcontrol, _, hanchor, hvalue, hsuffix, hhandle⟩ :=
    select_scalar_style_control emitter event
  obtain ⟨h1, h2, h3, h4⟩ := has_valid_data_parts emitter hvalid
  generalize (yaml_emitter_select_scalar_style emitter event).2 = selected at *
  have hselected : has_valid_data selected = true := by
    refine has_valid_data_of_parts selected ?_ ?_ ?_ ?_
    · rw [hanchor]
      exact h1
    · intro handle hh
      rcases hhandle with hsame | hbang
      · exact h2 handle (hsame.symm.trans hh)
      · rw [hbang] at hh
        rw [← Option.some.inj hh]
        decide
    · rw [hsuffix]
      exact h3
    · rw [hvalue]
      exact h4
  have hselected_states : selected.states = emitter.states :=
    (control_fields selected emitter hcontrol).2.1
  refine process_properties_returns selected _ hselected fun tagged hu => ?_
  have htagged : has_valid_data tagged = true :=
    (has_valid_data_unwritten _ _ hu).trans hselected
  obtain ⟨_, _, _, h4t⟩ := has_valid_data_parts tagged htagged
  have hscalar : (yaml_emitter_increase_indent tagged true false).scalar_data
      = tagged.scalar_data := by
    rw [increase_indent_eq]
  obtain ⟨written, hwritten⟩ := process_scalar_returns
    (yaml_emitter_increase_indent tagged true false) (by rw [hscalar]; exact h4t)
  obtain ⟨hu3, _⟩ := process_scalar_unwritten _ written hwritten
  refine or_return_returns _ _ written hwritten fun _ => ?_
  have hindents : written.2.indents = tagged.indent :: tagged.indents := by
    have hsame : written.2.indents
        = (yaml_emitter_increase_indent tagged true false).indents :=
      (unwritten_fields _ _ hu3).2.2.1
    rw [hsame, increase_indent_eq]
  have hstates3 : written.2.states = emitter.states := by
    have hsame : written.2.states
        = (yaml_emitter_increase_indent tagged true false).states :=
      (unwritten_fields _ _ hu3).2.1
    have htagged_states : tagged.states = selected.states := (unwritten_fields _ _ hu).2.1
    rw [hsame, increase_indent_eq]
    exact htagged_states.trans hselected_states
  simp only [pop_indent, POP, hindents, Option.map_some', Option.bind_eq_bind,
    Option.some_bind]
  exact pop_state_returns _ (by
    show written.2.states ≠ []
    rw [hstates3]
    exact hstates)

/-- `yaml_emitter_emit_sequence_start` returns when the data can be
written. -/
theorem emit_sequence_start_returns (emitter : yaml_emitter_t) (event : yaml_event_t)
    (hvalid : has_valid_data emitter = true) :
    ∃ result, yaml_emitter_emit_sequence_start emitter event = some result := by
  simp only [yaml_emitter_emit_sequence_start]
  refine process_properties_returns emitter _ hvalid fun tagged _ => ?_
  split_ifs <;> exact ⟨_, rfl⟩

/-- `yaml_emitter_emit_mapping_start` returns when the data can be written. -/
theorem emit_mapping_start_returns (emitter : yaml_emitter_t) (event : yaml_event_t)
    (hvalid : has_valid_data emitter = true) :
    ∃ result, yaml_emitter_emit_mapping_start emitter event = some result := by
  simp only [yaml_emitter_emit_mapping_start]
  refine process_properties_returns emitter _ hvalid fun tagged _ => ?_
  split_ifs <;> exact ⟨_, rfl⟩

/-- `yaml_emitter_emit_node` returns when the data analysed from the event can
be written and the state that follows the node was pushed. -/
theorem emit_node_returns (emitter : yaml_emitter_t) (event : yaml_event_t)
    (is_root is_sequence is_mapping is_simple_key : Bool)
    (hvalid : has_valid_data emitter = true) (hstates : emitter.states ≠ []) :
    ∃ result,
      yaml_emitter_emit_node emitter event is_root is_sequence is_mapping is_simple_key
        = some result := by
  unfold yaml_emitter_emit_node
  cases htype : event.type <;> simp only
  case YAML_ALIAS_EVENT => exact emit_alias_returns _ event hvalid hstates
  case YAML_SCALAR_EVENT => exact emit_scalar_returns _ event hvalid hstates
  case YAML_SEQUENCE_START_EVENT => exact emit_sequence_start_returns _ event hvalid
  case YAML_MAPPING_START_EVENT => exact emit_mapping_start_returns _ event hvalid
  all_goals exact ⟨_, rfl⟩

/-! ## Theorems: the analysis of a valid event -/

/-- `yaml_emitter_analyze_anchor` accepts a valid anchor and stores it. -/
theorem analyze_anchor_valid (emitter : yaml_emitter_t) (anchor : List yaml_char_t)
    (is_alias : Bool) (h : is_valid_anchor anchor = true) :
    yaml_emitter_analyze_anchor emitter anchor is_alias
      = some (true, { emitter with
          anchor_data := { anchor := some anchor, anchor_length := anchor.length,
                           is_alias := is_alias } }) := by
  simp only [is_valid_anchor, Bool.and_eq_true, Bool.not_eq_true', List.isEmpty_eq_false,
    List.all_eq_true] at h
  obtain ⟨hne, hall⟩ := h
  have hlength : anchor.length ≠ 0 := fun h0 => hne (List.length_eq_zero.mp h0)
  obtain ⟨ok, hloop, hok⟩ := analyze_alpha_loop_spec anchor anchor.length anchor.length
    anchor.length 0 (by omega)
  have htrue : ok = true := by
    rw [hok]
    intro i _ hi
    rw [List.getD_eq_getElem anchor 0 hi]
    exact hall _ (List.getElem_mem hi)
  subst htrue
  simp only [yaml_emitter_analyze_anchor, STRING, if_neg hlength, hloop]

/-- The directive found by the loop of `yaml_emitter_analyze_tag`. -/
theorem analyze_tag_loop_some (tag : List yaml_char_t) (handle suffix : List yaml_char_t) :
    ∀ tag_directives : List yaml_tag_directive_t,
      analyze_tag_loop tag tag_directives = some (handle, suffix) →
      ∃ tag_directive ∈ tag_directives, handle = tag_directive.handle ∧
        suffix = tag.drop tag_directive.prefix_.length ∧
        tag.take tag_directive.prefix_.length = tag_directive.prefix_ := by
  intro tag_directives
  induction tag_directives with
  | nil =>
    intro h
    cases h
  | cons tag_directive rest ih =>
    intro h
    simp only [analyze_tag_loop] at h
    split_ifs at h with hc
    · simp only [Option.some.injEq, Prod.mk.injEq] at h
      exact ⟨tag_directive, List.mem_cons_self _ _, h.1.symm, h.2.symm, hc.2⟩
    · obtain ⟨found, hmem, hfound⟩ := ih h
      exact ⟨found, List.mem_cons_of_mem _ hmem, hfound⟩

/-- `yaml_emitter_analyze_tag` accepts a valid tag; with tag directives in
UTF-8 the handle and the suffix that it stores are valid UTF-8. -/
theorem analyze_tag_valid (emitter : yaml_emitter_t) (tag : List yaml_char_t)
    (h : is_valid_tag tag = true)
    (hdirectives : has_valid_tag_directives emitter.tag_directives = true)
    (hhandle : emitter.tag_data.handle = none) :
    ∃ tag_data : yaml_tag_data_t,
      yaml_emitter_analyze_tag emitter tag = (true, { emitter with tag_data := tag_data }) ∧
      tag_data.handle.all is_valid_utf8 = true ∧
      (∃ suffix, tag_data.suffix = some suffix ∧ is_valid_utf8 suffix = true) := by
  simp only [is_valid_tag, Bool.and_eq_true, Bool.not_eq_true', List.isEmpty_eq_false] at h
  obtain ⟨hne, hvalid⟩ := h
  have hlength : tag.length ≠ 0 := fun h0 => hne (List.length_eq_zero.mp h0)
  simp only [yaml_emitter_analyze_tag, STRING, if_neg hlength]
  cases hloop : analyze_tag_loop tag emitter.tag_directives with
  | none =>
    refine ⟨_, rfl, ?_, tag, rfl, hvalid⟩
    show emitter.tag_data.handle.all is_valid_utf8 = true
    rw [hhandle]
    rfl
  | some found =>
    obtain ⟨handle, suffix⟩ := found
    obtain ⟨tag_directive, hmem, hh, hs, htake⟩ :=
      analyze_tag_loop_some tag handle suffix _ hloop
    simp only [has_valid_tag_directives, List.all_eq_true, Bool.and_eq_true] at hdirectives
    obtain ⟨hvh, hvp⟩ := hdirectives tag_directive hmem
    refine ⟨_, rfl, ?_, suffix, rfl, ?_⟩
    · show is_valid_utf8 handle = true
      rw [hh]
      exact hvh
    · rw [hs]
      exact is_valid_utf8_drop tag tag_directive.prefix_ hvalid hvp htake

/-- The permissions of a scalar are stored next to its value. -/
theorem analyze_scalar_permissions_value (l : analyze_scalar_locals)
    (data : yaml_emitter_scalar_data_t) :
    (analyze_scalar_permissions l data).value = data.value := by
  rw [analyze_scalar_permissions_eq]

/-- `yaml_emitter_analyze_scalar` returns on a value in UTF-8, and stores the
value. -/
theorem analyze_scalar_valid (emitter : yaml_emitter_t) (value : List yaml_char_t)
    (h : is_valid_utf8 value = true) :
    ∃ scalar_data : yaml_emitter_scalar_data_t,
      yaml_emitter_analyze_scalar emitter value
        = some (true, { emitter with scalar_data := scalar_data }) ∧
      scalar_data.value = some value := by
  have hreturns := analyze_scalar_returns emitter value (is_valid_utf8_lead_bytes value h)
  obtain ⟨result, hresult⟩ := Option.isSome_iff_exists.mp hreturns
  rw [hresult]
  simp only [yaml_emitter_analyze_scalar] at hresult
  split_ifs at hresult
  · simp only [Option.some.injEq] at hresult
    subst hresult
    exact ⟨_, rfl, rfl⟩
  · simp only [Option.map_eq_some'] at hresult
    obtain ⟨l, _, hl⟩ := hresult
    subst hl
    exact ⟨_, rfl, analyze_scalar_permissions_value l _⟩

/-- The anchor and the tag of a valid node are analysed without a failure;
what is stored can be written, and a tag that is analysed is stored. -/
theorem analyze_properties_valid (emitter : yaml_emitter_t)
    (anchor tag : Option (List yaml_char_t)) (is_implicit : Bool)
    (rest : yaml_emitter_t → Option (Bool × yaml_emitter_t))
    (h : has_valid_properties anchor tag = true)
    (hdirectives : has_valid_tag_directives emitter.tag_directives = true) :
    ∃ (anchor_data : yaml_anchor_data_t) (tag_data : yaml_tag_data_t),
      or_return (analyze_event_anchor (analyze_event_reset emitter) anchor) (fun emitter =>
        or_return (analyze_event_tag emitter tag is_implicit) rest)
        = rest { analyze_event_reset emitter with
                 anchor_data := anchor_data, tag_data := tag_data } ∧
      anchor_data.anchor.all is_valid_utf8 = true ∧
      tag_data.handle.all is_valid_utf8 = true ∧
      tag_data.suffix.all is_valid_utf8 = true ∧
      (tag.isSome = true → is_implicit = false → tag_data.suffix.isSome = true) := by
  simp only [has_valid_properties, Bool.and_eq_true] at h
  obtain ⟨hanchor, htag⟩ := h
  have hfirst : ∃ anchor_data : yaml_anchor_data_t,
      analyze_event_anchor (analyze_event_reset emitter) anchor
        = some (true, { analyze_event_reset emitter with anchor_data := anchor_data }) ∧
      anchor_data.anchor.all is_valid_utf8 = true := by
    cases anchor with
    | none => exact ⟨(analyze_event_reset emitter).anchor_data, rfl, rfl⟩
    | some anchor =>
      exact ⟨_, analyze_anchor_valid _ anchor false hanchor, is_valid_anchor_utf8 anchor hanchor⟩
  obtain ⟨anchor_data, hanchored, hvalid_anchor⟩ := hfirst
  have hsecond : ∃ tag_data : yaml_tag_data_t,
      analyze_event_tag { analyze_event_reset emitter with anchor_data := anchor_data } tag
          is_implicit
        = some (true, { analyze_event_reset emitter with
                        anchor_data := anchor_data, tag_data := tag_data }) ∧
      tag_data.handle.all is_valid_utf8 = true ∧
      tag_data.suffix.all is_valid_utf8 = true ∧
      (tag.isSome = true → is_implicit = false → tag_data.suffix.isSome = true) := by
    cases tag with
    | none =>
      exact ⟨(analyze_event_reset emitter).tag_data, rfl, rfl, rfl,
        fun hn => Bool.noConfusion hn⟩
    | some tag =>
      simp only [analyze_event_tag]
      split_ifs with hc
      · obtain ⟨tag_data, heq, hvh, suffix, hsuffix, hvs⟩ := analyze_tag_valid
          { analyze_event_reset emitter with anchor_data := anchor_data } tag htag
          hdirectives rfl
        refine ⟨tag_data, by rw [heq], hvh, ?_, fun _ _ => ?_⟩
        · rw [hsuffix]
          exact hvs
        · rw [hsuffix]
          rfl
      · refine ⟨(analyze_event_reset emitter).tag_data, rfl, rfl, rfl, fun _ hi => ?_⟩
        rw [hi] at hc
        simp at hc
  obtain ⟨tag_data, htagged, hvh, hvs, hstored⟩ := hsecond
  refine ⟨anchor_data, tag_data, ?_, hvalid_anchor, hvh, hvs, hstored⟩
  rw [hanchored]
  simp only [or_return]
  rw [htagged]

/-- `yaml_emitter_analyze_event` accepts a valid event when the tag directives
are in UTF-8: the data that it stores can be written, nothing else changes,
and a scalar for which no tag is stored has an implicit flag. -/
theorem analyze_event_valid (emitter : yaml_emitter_t) (event : yaml_event_t)
    (hevent : is_valid_node_event event = true)
    (hdirectives : has_valid_tag_directives emitter.tag_directives = true) :
    ∃ analysed, yaml_emitter_analyze_event emitter event = some (true, analysed) ∧
      control analysed = control emitter ∧
      has_valid_data analysed = true ∧
      (event.type = YAML_SCALAR_EVENT → analysed.tag_data.suffix = none →
        event.data.scalar.is_plain_implicit = false →
        event.data.scalar.is_quoted_implicit = false → False) := by
  have hvalue : is_valid_utf8 ((analyze_event_reset emitter).scalar_data.value.getD [])
      = true := rfl
  unfold yaml_emitter_analyze_event
  simp only [is_valid_node_event] at hevent
  cases htype : event.type <;> simp only [htype] at hevent ⊢
  case YAML_ALIAS_EVENT =>
    rw [analyze_anchor_valid _ _ true hevent]
    refine ⟨_, rfl, rfl, ?_, fun hn => by cases hn⟩
    exact has_valid_data_of_parts _
      (fun anchor ha => by
        rw [← Option.some.inj ha]
        exact is_valid_anchor_utf8 _ hevent)
      (fun handle hh => by cases hh) (fun suffix hs => by cases hs) hvalue
  case YAML_SCALAR_EVENT =>
    simp only [Bool.and_eq_true] at hevent
    obtain ⟨⟨hproperties, hutf8⟩, hflags⟩ := hevent
    obtain ⟨anchor_data, tag_data, heq, h1, h2, h3, hstored⟩ :=
      analyze_properties_valid emitter event.data.scalar.anchor event.data.scalar.tag
        (event.data.scalar.is_plain_implicit || event.data.scalar.is_quoted_implicit)
        (fun emitter => yaml_emitter_analyze_scalar emitter event.data.scalar.value)
        hproperties hdirectives
    rw [heq]
    obtain ⟨scalar_data, hscalar, hstored_value⟩ := analyze_scalar_valid
      { analyze_event_reset emitter with anchor_data := anchor_data, tag_data := tag_data }
      event.data.scalar.value hutf8
    rw [hscalar]
    refine ⟨_, rfl, rfl, ?_, ?_⟩
    · simp only [has_valid_data, Bool.and_eq_true]
      refine ⟨⟨⟨h1, h2⟩, h3⟩, ?_⟩
      show is_valid_utf8 (scalar_data.value.getD []) = true
      rw [hstored_value]
      exact hutf8
    · intro _ hnone hplain hquoted
      rw [hplain, hquoted] at hflags hstored
      simp only [Bool.or_false] at hflags
      have hsome := hstored hflags rfl
      change tag_data.suffix = none at hnone
      rw [hnone] at hsome
      cases hsome
  case YAML_SEQUENCE_START_EVENT =>
    obtain ⟨anchor_data, tag_data, heq, h1, h2, h3, _⟩ :=
      analyze_properties_valid emitter event.data.sequence_start.anchor
        event.data.sequence_start.tag event.data.sequence_start.is_implicit
        (fun emitter => some (true, emitter)) hevent hdirectives
    have hform : (or_return
        (analyze_event_anchor (analyze_event_reset emitter) event.data.sequence_start.anchor)
        fun emitter => analyze_event_tag emitter event.data.sequence_start.tag
          event.data.sequence_start.is_implicit)
        = or_return
            (analyze_event_anchor (analyze_event_reset emitter)
              event.data.sequence_start.anchor)
            (fun emitter => or_return (analyze_event_tag emitter event.data.sequence_start.tag
              event.data.sequence_start.is_implicit) fun emitter => some (true, emitter)) := by
      congr 1
      funext x
      rcases analyze_event_tag x event.data.sequence_start.tag
        event.data.sequence_start.is_implicit with _ | ⟨_ | _, y⟩ <;> rfl
    rw [hform, heq]
    refine ⟨_, rfl, rfl, ?_, fun hn => by cases hn⟩
    simp only [has_valid_data, Bool.and_eq_true]
    exact ⟨⟨⟨h1, h2⟩, h3⟩, hvalue⟩
  case YAML_MAPPING_START_EVENT =>
    obtain ⟨anchor_data, tag_data, heq, h1, h2, h3, _⟩ :=
      analyze_properties_valid emitter event.data.mapping_start.anchor
        event.data.mapping_start.tag event.data.mapping_start.is_implicit
        (fun emitter => some (true, emitter)) hevent hdirectives
    have hform : (or_return
        (analyze_event_anchor (analyze_event_reset emitter) event.data.mapping_start.anchor)
        fun emitter => analyze_event_tag emitter event.data.mapping_start.tag
          event.data.mapping_start.is_implicit)
        = or_return
            (analyze_event_anchor (analyze_event_reset emitter)
              event.data.mapping_start.anchor)
            (fun emitter => or_return (analyze_event_tag emitter event.data.mapping_start.tag
              event.data.mapping_start.is_implicit) fun emitter => some (true, emitter)) := by
      congr 1
      funext x
      rcases analyze_event_tag x event.data.mapping_start.tag
        event.data.mapping_start.is_implicit with _ | ⟨_ | _, y⟩ <;> rfl
    rw [hform, heq]
    refine ⟨_, rfl, rfl, ?_, fun hn => by cases hn⟩
    simp only [has_valid_data, Bool.and_eq_true]
    exact ⟨⟨⟨h1, h2⟩, h3⟩, hvalue⟩
  all_goals
    refine ⟨_, rfl, rfl, ?_, fun hn => by cases hn⟩
    exact has_valid_data_of_parts _ (fun anchor ha => by cases ha)
      (fun handle hh => by cases hh) (fun suffix hs => by cases hs) hvalue

/-! ## Theorems: a step inside a node -/

/-- Nothing is left of the events only when the node of the document is
complete. -/
theorem complete_node_loop_nil (positions : List node_position)
    (h : complete_node_loop positions [] = true) : positions = [node_position.finish] := by
  cases positions with
  | nil => simp [complete_node_loop] at h
  | cons position expected =>
    simp only [complete_node_loop, beq_iff_eq] at h
    exact h

/-- An event is accepted only where a node, an item, a key or a value is
expected, and it starts a node or ends a collection. -/
theorem complete_node_loop_position (positions : List node_position)
    (type : yaml_event_type_t) (rest : List yaml_event_type_t)
    (h : complete_node_loop positions (type :: rest) = true) :
    ∃ position expected, positions = position :: expected ∧
      position ≠ node_position.finish ∧ position ≠ node_position.outside ∧
      (is_node_event type = true ∨ type = YAML_SEQUENCE_END_EVENT
        ∨ type = YAML_MAPPING_END_EVENT) := by
  cases positions with
  | nil => simp [complete_node_loop] at h
  | cons position expected =>
    simp only [complete_node_loop] at h
    by_cases hc : position = node_position.finish ∨ position = node_position.outside
    · rw [if_pos hc] at h
      cases h
    · rw [if_neg hc] at h
      refine ⟨position, expected, rfl, fun hn => hc (Or.inl hn), fun hn => hc (Or.inr hn), ?_⟩
      cases type <;> first | decide | (exact Bool.noConfusion h)

/-- After an ALIAS or a SCALAR the position after the node is expected. -/
theorem complete_node_loop_leaf (position : node_position) (expected : List node_position)
    (type : yaml_event_type_t) (rest : List yaml_event_type_t)
    (h : complete_node_loop (position :: expected) (type :: rest) = true)
    (htype : type = YAML_ALIAS_EVENT ∨ type = YAML_SCALAR_EVENT) :
    complete_node_loop (position_after_node position :: expected) rest = true := by
  simp only [complete_node_loop] at h
  by_cases hc : position = node_position.finish ∨ position = node_position.outside
  · rw [if_pos hc] at h
    cases h
  · rw [if_neg hc] at h
    rcases htype with htype | htype <;> subst htype <;> exact h

/-- After SEQUENCE-START an item is expected, after MAPPING-START a key, and
then the position after the node. -/
theorem complete_node_loop_start (position : node_position) (expected : List node_position)
    (type : yaml_event_type_t) (rest : List yaml_event_type_t)
    (h : complete_node_loop (position :: expected) (type :: rest) = true)
    (htype : type = YAML_SEQUENCE_START_EVENT ∨ type = YAML_MAPPING_START_EVENT) :
    complete_node_loop
      ((if type = YAML_SEQUENCE_START_EVENT then node_position.item else node_position.key)
        :: position_after_node position :: expected) rest = true := by
  simp only [complete_node_loop] at h
  by_cases hc : position = node_position.finish ∨ position = node_position.outside
  · rw [if_pos hc] at h
    cases h
  · rw [if_neg hc] at h
    rcases htype with htype | htype <;> subst htype <;> exact h

/-- An event that ends a collection is accepted in the place of an item or of
a key, and what was expected before the collection is expected after it. -/
theorem complete_node_loop_end (position : node_position) (expected : List node_position)
    (type : yaml_event_type_t) (rest : List yaml_event_type_t)
    (h : complete_node_loop (position :: expected) (type :: rest) = true)
    (htype : type = YAML_SEQUENCE_END_EVENT ∨ type = YAML_MAPPING_END_EVENT) :
    position = (if type = YAML_SEQUENCE_END_EVENT then node_position.item
      else node_position.key) ∧
    complete_node_loop expected rest = true := by
  simp only [complete_node_loop] at h
  by_cases hc : position = node_position.finish ∨ position = node_position.outside
  · rw [if_pos hc] at h
    cases h
  · rw [if_neg hc] at h
    rcases htype with htype | htype <;> subst htype
    · by_cases hp : position = node_position.item
      · exact ⟨hp, by simpa [hp] using h⟩
      · simp [hp] at h
    · by_cases hp : position = node_position.key
      · exact ⟨hp, by simpa [hp] using h⟩
      · simp [hp] at h

/-- What is expected is never nothing. -/
theorem complete_node_loop_ne_nil (positions : List node_position)
    (types : List yaml_event_type_t) (h : complete_node_loop positions types = true) :
    positions ≠ [] := by
  intro hn
  subst hn
  cases types <;> simp [complete_node_loop] at h

/-- A node is emitted in the states in which a node, an item, a key or a value
is expected. -/
theorem state_position_node (state : yaml_emitter_state_t)
    (hfinish : state_position state ≠ node_position.finish)
    (houtside : state_position state ≠ node_position.outside) :
    is_node_state state = true := by
  cases state <;> first | rfl | (exact absurd rfl hfinish) | (exact absurd rfl houtside)

/-- A collection is ended by its event in the states of an item or of a
key. -/
theorem state_position_end (state : yaml_emitter_state_t) (type : yaml_event_type_t)
    (htype : type = YAML_SEQUENCE_END_EVENT ∨ type = YAML_MAPPING_END_EVENT)
    (h : state_position state = (if type = YAML_SEQUENCE_END_EVENT then node_position.item
      else node_position.key)) :
    collection_end_event state = some type ∧
    entered_count [state] = (if is_first_state state then 0 else 1) := by
  rcases htype with htype | htype <;> subst htype <;>
    simp only [reduceCtorEq, if_true, if_false] at h <;>
    cases state <;> first | (exact absurd h (by decide)) | exact ⟨rfl, rfl⟩

/-- The events that end a collection do not start a node. -/
theorem collection_end_event_not_node (state : yaml_emitter_state_t)
    (type : yaml_event_type_t) (h : is_node_event type = true) :
    collection_end_event state ≠ some type := by
  intro hend
  have htypes : type = YAML_SEQUENCE_END_EVENT ∨ type = YAML_MAPPING_END_EVENT := by
    cases state <;> simp only [collection_end_event, reduceCtorEq, Option.some.injEq] at hend
    all_goals first | exact Or.inl hend.symm | exact Or.inr hend.symm
  rcases htypes with htype | htype <;> subst htype <;> exact absurd h (by decide)

/-- The state that follows a node: its position, and whether the indent of
its collection is on the stack. -/
theorem continuation_state_position (state continuation : yaml_emitter_state_t)
    (h : is_continuation_state state continuation = true) :
    state_position continuation = position_after_node (state_position state) ∧
    entered_count [continuation]
      = entered_count [state] + (if is_first_state state then 1 else 0) := by
  cases state <;> cases continuation <;> first | (exact absurd h (by decide)) | decide

/-- The count of the states of entered collections, state by state. -/
theorem entered_count_cons (state : yaml_emitter_state_t) (below : List yaml_emitter_state_t) :
    entered_count (state :: below) = entered_count [state] + entered_count below := by
  simp only [entered_count, List.filter]
  cases is_entered_state state
  · simp
  · simp [Nat.add_comm]

/-- The state and the stacks are read through five fields. -/
theorem stacks_expect_fields (first second : yaml_emitter_t) (types : List yaml_event_type_t)
    (h1 : first.state = second.state) (h2 : first.states = second.states)
    (h3 : first.indents = second.indents) (h4 : first.indent = second.indent)
    (h5 : first.flow_level = second.flow_level) (h : stacks_expect second types) :
    stacks_expect first types := by
  simp only [stacks_expect, h1, h2, h3, h4, h5]
  exact h

/-- The state and the stacks are read in the control part. -/
theorem stacks_expect_control (first second : yaml_emitter_t) (types : List yaml_event_type_t)
    (hc : control first = control second) (h : stacks_expect second types) :
    stacks_expect first types := by
  obtain ⟨h1, h2, h3, h4, h5, _⟩ := control_fields first second hc
  exact stacks_expect_fields first second types h1 h2 h3 h4 h5 h

/-- In a state where a node is emitted, an event that starts a node and whose
analysed data can be written is emitted without a failure. -/
theorem state_machine_node_returns (emitter : yaml_emitter_t) (event : yaml_event_t)
    (hstate : is_node_state emitter.state = true)
    (hevent : is_node_event event.type = true)
    (hvalid : has_valid_data emitter = true)
    (hscalar : event.type = YAML_SCALAR_EVENT → emitter.tag_data.suffix = none →
      event.data.scalar.is_plain_implicit = false →
      event.data.scalar.is_quoted_implicit = false → False) :
    ∃ result, yaml_emitter_state_machine emitter event = some (true, result) := by
  obtain ⟨pushed, continuation, is_root, is_sequence, is_mapping, is_simple_key, indent, _,
    hu, _, heq⟩ := state_machine_node emitter event hstate
      (collection_end_event_not_node _ _ hevent)
  have hu2 : unwritten pushed = unwritten (set_stacks emitter (continuation :: emitter.states)
      (if is_first_state emitter.state then emitter.indent :: emitter.indents
       else emitter.indents) indent
      (if is_first_state emitter.state && is_flow_state emitter.state then
        emitter.flow_level + 1
       else emitter.flow_level)) := hu
  have hpushed : has_valid_data pushed = true :=
    (has_valid_data_unwritten _ _ hu2).trans hvalid
  have hstates : pushed.states ≠ [] := by
    rw [(unwritten_fields _ _ hu2).2.1]
    exact List.cons_ne_nil _ _
  obtain ⟨result, hresult⟩ := emit_node_returns pushed event is_root is_sequence is_mapping
    is_simple_key hpushed hstates
  have hdata : pushed.tag_data = emitter.tag_data := (unwritten_data _ _ hu2).2.1
  rw [heq, hresult]
  rcases emit_node_eq pushed event _ _ _ _ result hresult with
    ⟨_, hnot, _⟩ | ⟨_, htype, _, hsuffix, hplain, hquoted, _⟩ | ⟨hok, _⟩ | ⟨hok, _⟩ | ⟨hok, _⟩
  · rw [hevent] at hnot
    cases hnot
  · rw [hdata] at hsuffix
    exact (hscalar htype hsuffix hplain hquoted).elim
  all_goals
    obtain ⟨ok, written⟩ := result
    simp only at hok
    subst hok
    exact ⟨written, rfl⟩

/-- The stacks after the state that follows a node is pushed, in a state
whose stacks are as the events expect. -/
theorem stacks_expect_push (emitter : yaml_emitter_t) (continuation : yaml_emitter_state_t)
    (indent : Int) (hcontinuation : is_continuation_state emitter.state continuation = true)
    (hindent : is_first_state emitter.state = false → indent = emitter.indent)
    (hlength : emitter.indents.length = entered_count (emitter.state :: emitter.states))
    (hlast : (emitter.indent :: emitter.indents).getLast? = some (-1))
    (hflow : emitter.flow_level = flow_count (emitter.state :: emitter.states)) :
    (if is_first_state emitter.state then emitter.indent :: emitter.indents
      else emitter.indents).length = entered_count (continuation :: emitter.states) ∧
    (indent :: (if is_first_state emitter.state then emitter.indent :: emitter.indents
      else emitter.indents)).getLast? = some (-1) ∧
    (if is_first_state emitter.state && is_flow_state emitter.state then
        emitter.flow_level + 1
      else emitter.flow_level) = flow_count (continuation :: emitter.states) := by
  obtain ⟨_, hentered⟩ := continuation_state_position _ _ hcontinuation
  obtain ⟨hcount, _⟩ := continuation_state_flow _ _ hcontinuation
  rw [entered_count_cons] at hlength ⊢
  rw [flow_count_cons] at hflow ⊢
  refine ⟨?_, ?_, ?_⟩
  · cases hfirst : is_first_state emitter.state
    · simp only [hfirst, Bool.false_eq_true, if_false] at hentered ⊢
      omega
    · simp only [hfirst, if_true, List.length_cons] at hentered ⊢
      omega
  · cases hfirst : is_first_state emitter.state
    · simp only [Bool.false_eq_true, if_false]
      rw [hindent hfirst]
      exact hlast
    · simp only [if_true, List.getLast?_cons_cons]
      exact hlast
  · split_ifs at hcount ⊢ <;> omega

/-- A step of the state machine inside a node: in a state whose stacks are as
the events expect, an event whose analysed data can be written is emitted
without a failure, and the stacks are as the events after it expect; the
queue and the tag directives are not touched. -/
theorem state_machine_inside (emitter : yaml_emitter_t) (event : yaml_event_t)
    (types : List yaml_event_type_t)
    (hexpect : stacks_expect emitter (event.type :: types))
    (hvalid : has_valid_data emitter = true)
    (hscalar : event.type = YAML_SCALAR_EVENT → emitter.tag_data.suffix = none →
      event.data.scalar.is_plain_implicit = false →
      event.data.scalar.is_quoted_implicit = false → False) :
    ∃ result, yaml_emitter_state_machine emitter event = some (true, result) ∧
      stacks_expect result types ∧ result.events = emitter.events ∧
      result.tag_directives = emitter.tag_directives := by
  obtain ⟨hloop, hlength, hlast, hflow⟩ := hexpect
  obtain ⟨position, expected, hpositions, hfinish, houtside, htypes⟩ :=
    complete_node_loop_position _ _ _ hloop
  simp only [List.map_cons, List.cons.injEq] at hpositions
  obtain ⟨hposition, hexpected⟩ := hpositions
  subst hposition hexpected
  have hstate : is_node_state emitter.state = true := state_position_node _ hfinish houtside
  rcases htypes with hnode | hend
  · obtain ⟨result, hresult⟩ := state_machine_node_returns emitter event hstate hnode hvalid
      hscalar
    refine ⟨result, hresult, ?_⟩
    rcases state_machine_step emitter event result hstate hresult with
      ⟨hend, _⟩ |
      ⟨_, continuation, indent, hcontinuation, hindent, ⟨htype, hc⟩ | ⟨htype, opened, hopened, hc⟩⟩
    · exact absurd hend (collection_end_event_not_node _ _ hnode)
    · obtain ⟨h1, h2, h3, h4, h5, h6, h7, _⟩ := control_fields result
        { set_stacks emitter emitter.states
            (if is_first_state emitter.state then emitter.indent :: emitter.indents
             else emitter.indents) indent
            (if is_first_state emitter.state && is_flow_state emitter.state then
              emitter.flow_level + 1
             else emitter.flow_level) with state := continuation } hc
      simp only [set_stacks] at h1 h2 h3 h4 h5 h6 h7
      obtain ⟨hp1, hp2, hp3⟩ := stacks_expect_push emitter continuation indent hcontinuation
        hindent hlength hlast hflow
      refine ⟨?_, h6, h7⟩
      simp only [stacks_expect, h1, h2, h3, h4, h5]
      refine ⟨?_, hp1, hp2, hp3⟩
      rw [List.map_cons, (continuation_state_position _ _ hcontinuation).1]
      exact complete_node_loop_leaf _ _ _ _ hloop htype
    · obtain ⟨h1, h2, h3, h4, h5, h6, h7, _⟩ := control_fields result
        { set_stacks emitter (continuation :: emitter.states)
            (if is_first_state emitter.state then emitter.indent :: emitter.indents
             else emitter.indents) indent
            (if is_first_state emitter.state && is_flow_state emitter.state then
              emitter.flow_level + 1
             else emitter.flow_level) with state := opened } hc
      simp only [set_stacks] at h1 h2 h3 h4 h5 h6 h7
      obtain ⟨hp1, hp2, hp3⟩ := stacks_expect_push emitter continuation indent hcontinuation
        hindent hlength hlast hflow
      have hopened_facts : state_position opened
            = (if event.type = YAML_SEQUENCE_START_EVENT then node_position.item
               else node_position.key) ∧
          entered_count [opened] = 0 ∧ flow_count [opened] = 0 := by
        rcases hopened with hopened | ⟨hopened, _⟩ <;> rw [hopened] <;> split_ifs <;>
          exact ⟨rfl, rfl, rfl⟩
      obtain ⟨ho1, ho2, ho3⟩ := hopened_facts
      refine ⟨?_, h6, h7⟩
      simp only [stacks_expect, h1, h2, h3, h4, h5]
      refine ⟨?_, ?_, hp2, ?_⟩
      · rw [List.map_cons, List.map_cons, ho1,
          (continuation_state_position _ _ hcontinuation).1]
        exact complete_node_loop_start _ _ _ _ hloop htype
      · rw [entered_count_cons opened, ho2, Nat.zero_add]
        exact hp1
      · rw [flow_count_cons opened, ho3, Nat.zero_add]
        exact hp3
  · obtain ⟨hposition, hrest⟩ := complete_node_loop_end _ _ _ _ hloop hend
    obtain ⟨hevent, hentered⟩ := state_position_end emitter.state event.type hend hposition
    have hbelow := complete_node_loop_ne_nil _ _ hrest
    cases hstates : emitter.states with
    | nil =>
      rw [hstates] at hbelow
      exact absurd rfl hbelow
    | cons state states =>
      rw [entered_count_cons, hentered] at hlength
      rw [flow_count_cons, entered_flow_state_eq] at hflow
      have hindents : ∃ top indents,
          (if is_first_state emitter.state then emitter.indent :: emitter.indents
           else emitter.indents) = top :: indents ∧
          indents.length = entered_count emitter.states ∧
          (top :: indents).getLast? = some (-1) := by
        cases hfirst : is_first_state emitter.state
        · simp only [hfirst, Bool.false_eq_true, if_false] at hlength ⊢
          cases hi : emitter.indents with
          | nil =>
            rw [hi, List.length_nil] at hlength
            omega
          | cons top indents =>
            rw [hi] at hlength hlast
            refine ⟨top, indents, rfl, ?_, ?_⟩
            · simp only [List.length_cons] at hlength
              omega
            · rw [List.getLast?_cons_cons] at hlast
              exact hlast
        · simp only [hfirst, if_true] at hlength ⊢
          exact ⟨_, _, rfl, by omega, hlast⟩
      obtain ⟨top, indents, hpushed, hlength2, hlast2⟩ := hindents
      obtain ⟨result, hresult, hc⟩ := (state_machine_end emitter event hevent).1 state states
        top indents hstates hpushed
      obtain ⟨h1, h2, h3, h4, h5, h6, h7, _⟩ := control_fields result
        { set_stacks emitter states indents top
            (if is_first_state emitter.state || !is_flow_state emitter.state then
              emitter.flow_level
             else emitter.flow_level - 1) with state := state } hc
      simp only [set_stacks] at h1 h2 h3 h4 h5 h6 h7
      refine ⟨result, hresult, ?_, h6, h7⟩
      simp only [stacks_expect, h1, h2, h3, h4, h5]
      rw [hstates] at hrest hlength2 hflow
      refine ⟨hrest, hlength2, hlast2, ?_⟩
      split_ifs at hflow ⊢ <;> omega

/-! ## Theorems: the events of a complete node -/

/-- The events that start a node. -/
theorem is_node_event_cases (type : yaml_event_type_t) (h : is_node_event type = true) :
    (type = YAML_ALIAS_EVENT ∨ type = YAML_SCALAR_EVENT) ∨
    (type = YAML_SEQUENCE_START_EVENT ∨ type = YAML_MAPPING_START_EVENT) := by
  cases type <;> first | (exact Bool.noConfusion h) | decide

/-- The level of `yaml_emitter_need_more_events` falls to zero in events that
complete more positions than the level counts. -/
theorem need_more_events_loop_complete (events : List yaml_event_t) :
    ∀ (positions : List node_position) (level : Int), 1 ≤ level →
      level + 1 ≤ positions.length →
      complete_node_loop positions (events.map fun event => event.type) = true →
      need_more_events_loop events level = false := by
  induction events with
  | nil =>
    intro positions level h1 hlength hloop
    rw [complete_node_loop_nil positions hloop] at hlength
    simp only [List.length_singleton, Nat.cast_one] at hlength
    omega
  | cons event rest ih =>
    intro positions level h1 hlength hloop
    rw [List.map_cons] at hloop
    obtain ⟨position, expected, hpositions, _, _, htypes⟩ :=
      complete_node_loop_position _ _ _ hloop
    subst hpositions
    simp only [List.length_cons, Nat.cast_add, Nat.cast_one] at hlength
    simp only [need_more_events_loop]
    rcases htypes with hnode | hend
    · rcases is_node_event_cases _ hnode with hleaf | hstart
      · have hnext := complete_node_loop_leaf _ _ _ _ hloop hleaf
        have hlevel : need_more_events_level level event.type = level := by
          rcases hleaf with ht | ht <;> rw [ht] <;> rfl
        rw [hlevel, if_neg (by omega)]
        exact ih _ level h1 (by simp only [List.length_cons, Nat.cast_add, Nat.cast_one]; omega)
          hnext
      · have hnext := complete_node_loop_start _ _ _ _ hloop hstart
        have hlevel : need_more_events_level level event.type = level + 1 := by
          rcases hstart with ht | ht <;> rw [ht] <;> rfl
        rw [hlevel, if_neg (by omega)]
        exact ih _ (level + 1) (by omega)
          (by simp only [List.length_cons, Nat.cast_add, Nat.cast_one]; omega) hnext
    · obtain ⟨_, hnext⟩ := complete_node_loop_end _ _ _ _ hloop hend
      have hlevel : need_more_events_level level event.type = level - 1 := by
        rcases hend with ht | ht <;> rw [ht] <;> rfl
      rw [hlevel]
      by_cases hzero : level - 1 = 0
      · rw [if_pos hzero]
      · rw [if_neg hzero]
        exact ih _ (level - 1) (by omega) (by omega) hnext

/-- No more events are needed when the queue is not empty and holds all the
events that complete the node. -/
theorem need_more_events_complete (emitter : yaml_emitter_t)
    (positions : List node_position) (event : yaml_event_t) (rest : List yaml_event_t)
    (hevents : emitter.events = event :: rest)
    (hloop : complete_node_loop positions (emitter.events.map fun event => event.type)
      = true) :
    yaml_emitter_need_more_events emitter = false := by
  rw [hevents, List.map_cons] at hloop
  obtain ⟨position, expected, hpositions, _, _, htypes⟩ :=
    complete_node_loop_position _ _ _ hloop
  subst hpositions
  have hlookahead : event.type = YAML_SEQUENCE_START_EVENT
      ∨ event.type = YAML_MAPPING_START_EVENT
      → need_more_events_loop emitter.events 0 = false := by
    intro hstart
    have hnext := complete_node_loop_start _ _ _ _ hloop hstart
    have hlevel : need_more_events_level 0 event.type = 1 := by
      rcases hstart with ht | ht <;> rw [ht] <;> rfl
    rw [hevents]
    simp only [need_more_events_loop, hlevel, one_ne_zero, if_false]
    exact need_more_events_loop_complete rest _ 1 (by omega)
      (by simp only [List.length_cons, Nat.cast_add, Nat.cast_one]; omega) hnext
  simp only [yaml_emitter_need_more_events, hevents]
  rw [← hevents]
  rcases htypes with hnode | hend
  · rcases is_node_event_cases _ hnode with hleaf | hstart
    · rcases hleaf with ht | ht <;> rw [ht] <;> rfl
    · have hfalse := hlookahead hstart
      rcases hstart with ht | ht <;> rw [ht] <;>
        simp only [need_more_events_accumulate, hfalse, ite_self]
  · rcases hend with ht | ht <;> rw [ht] <;> rfl

/-- The state and the stacks do not depend on the queue. -/
theorem stacks_expect_queue (emitter : yaml_emitter_t) (events : List yaml_event_t)
    (types : List yaml_event_type_t) (h : stacks_expect emitter types) :
    stacks_expect { emitter with events := events } types := h

/-- The loop of `yaml_emitter_emit` inside a node: the queued events are
emitted without a failure as far as the lookahead allows, and the emitter is
inside the node afterwards. -/
theorem emit_loop_inside (later : List yaml_event_t) :
    ∀ (fuel : Nat) (emitter : yaml_emitter_t), emitter.events.length ≤ fuel →
      inside_node emitter later →
      ∃ result, yaml_emitter_emit_loop fuel emitter = some (true, result) ∧
        inside_node result later ∧ yaml_emitter_need_more_events result = true := by
  intro fuel
  induction fuel with
  | zero =>
    intro emitter hfuel hinside
    have hempty : emitter.events = [] := List.length_eq_zero.mp (by omega)
    have hneed : yaml_emitter_need_more_events emitter = true := by
      simp only [yaml_emitter_need_more_events, hempty]
    refine ⟨emitter, ?_, hinside, hneed⟩
    simp only [yaml_emitter_emit_loop, hneed, if_true]
  | succ fuel ih =>
    intro emitter hfuel hinside
    by_cases hneed : yaml_emitter_need_more_events emitter = true
    · refine ⟨emitter, ?_, hinside, hneed⟩
      simp only [yaml_emitter_emit_loop, hneed, if_true]
    · cases hevents : emitter.events with
      | nil =>
        exact absurd (by simp only [yaml_emitter_need_more_events, hevents]) hneed
      | cons event rest =>
        obtain ⟨hexpect, hvalid, hdirectives⟩ := hinside
        rw [hevents] at hexpect hvalid
        obtain ⟨analysed, hanalysed, hcontrol, hdata, hscalar⟩ := analyze_event_valid emitter
          event (hvalid event (List.mem_append_left _ (List.mem_cons_self _ _))) hdirectives
        obtain ⟨_, _, _, _, _, hqueue, htag_directives, _⟩ :=
          control_fields analysed emitter hcontrol
        simp only [List.cons_append, List.map_cons] at hexpect
        obtain ⟨result, hresult, hexpect2, hevents2, hdirectives2⟩ :=
          state_machine_inside analysed event _
            (stacks_expect_control analysed emitter _ hcontrol hexpect) hdata hscalar
        have hnext : inside_node { result with events := result.events.tail } later := by
          have htail : result.events.tail = rest := by
            rw [hevents2, hqueue, hevents]
            rfl
          refine ⟨?_, ?_, ?_⟩
          · show stacks_expect { result with events := result.events.tail }
              ((result.events.tail ++ later).map fun event => event.type)
            rw [htail]
            exact stacks_expect_queue result _ _ hexpect2
          · intro queued hmem
            have hmem2 : queued ∈ result.events.tail ++ later := hmem
            rw [htail] at hmem2
            exact hvalid queued (by
              rw [List.cons_append]
              exact List.mem_cons_of_mem _ hmem2)
          · show has_valid_tag_directives result.tag_directives = true
            rw [hdirectives2, htag_directives]
            exact hdirectives
        have hlength : ({ result with events := result.events.tail } : yaml_emitter_t).events.length
            ≤ fuel := by
          show result.events.tail.length ≤ fuel
          rw [hevents2, hqueue, hevents]
          rw [hevents] at hfuel
          simp only [List.tail_cons]
          simp only [List.length_cons] at hfuel
          omega
        obtain ⟨final, hfinal, hinside2, hneed2⟩ := ih _ hlength hnext
        refine ⟨final, ?_, hinside2, hneed2⟩
        simp only [yaml_emitter_emit_loop, if_neg hneed, hevents]
        rw [hanalysed]
        simp only [or_return]
        rw [hresult]
        exact hfinal

/-- The calls of `yaml_emitter_emit` inside a node: the events are emitted
without a failure, and nothing is left of the node when all its events are
emitted. -/
theorem emit_events_inside (later : List yaml_event_t) :
    ∀ emitter : yaml_emitter_t, inside_node emitter later →
      yaml_emitter_need_more_events emitter = true →
      ∃ result, emit_events later emitter = some (true, result) ∧
        inside_node result [] ∧ yaml_emitter_need_more_events result = true := by
  induction later with
  | nil =>
    intro emitter hinside hneed
    exact ⟨emitter, rfl, hinside, hneed⟩
  | cons next later ih =>
    intro emitter hinside hneed
    have hqueued : inside_node { emitter with events := emitter.events ++ [next] } later := by
      obtain ⟨hexpect, hvalid, hdirectives⟩ := hinside
      have happend : (emitter.events ++ [next]) ++ later = emitter.events ++ next :: later := by
        simp
      refine ⟨?_, ?_, hdirectives⟩
      · show stacks_expect { emitter with events := emitter.events ++ [next] }
          (((emitter.events ++ [next]) ++ later).map fun event => event.type)
        rw [happend]
        exact stacks_expect_queue emitter _ _ hexpect
      · intro queued hmem
        have hmem2 : queued ∈ (emitter.events ++ [next]) ++ later := hmem
        rw [happend] at hmem2
        exact hvalid queued hmem2
    obtain ⟨emitted, hemitted, hinside2, hneed2⟩ := emit_loop_inside later
      (emitter.events ++ [next]).length { emitter with events := emitter.events ++ [next] }
      (le_refl _) hqueued
    obtain ⟨result, hresult, hfinal⟩ := ih emitted hinside2 hneed2
    refine ⟨result, ?_, hfinal⟩
    simp only [emit_events]
    have hemit : yaml_emitter_emit emitter next = some (true, emitted) := hemitted
    rw [hemit]
    exact hresult

/-- Inside a node with nothing left to emit and nothing queued that can be
emitted, the node is complete: the state is DOCUMENT-END, the stacks are
empty, the indent is `-1` and the flow level is zero. -/
theorem inside_node_complete (emitter : yaml_emitter_t) (hinside : inside_node emitter [])
    (hneed : yaml_emitter_need_more_events emitter = true) :
    emitter.state = YAML_EMIT_DOCUMENT_END_STATE ∧ emitter.states = [] ∧
    emitter.indents = [] ∧ emitter.indent = -1 ∧ emitter.flow_level = 0 ∧
    emitter.events = [] := by
  obtain ⟨⟨hloop, hlength, hlast, hflow⟩, _, _⟩ := hinside
  rw [List.append_nil] at hloop
  have hempty : emitter.events = [] := by
    cases hevents : emitter.events with
    | nil => rfl
    | cons event rest =>
      rw [need_more_events_complete emitter _ event rest hevents hloop] at hneed
      cases hneed
  rw [hempty] at hloop
  have hpositions := complete_node_loop_nil _ hloop
  simp only [List.map_cons, List.cons.injEq, List.map_eq_nil_iff] at hpositions
  obtain ⟨hposition, hstates⟩ := hpositions
  have hstate : emitter.state = YAML_EMIT_DOCUMENT_END_STATE := by
    cases hs : emitter.state <;> rw [hs] at hposition <;>
      first | rfl | (exact absurd hposition (by decide))
  rw [hstate, hstates] at hlength hflow
  have hindents : emitter.indents = [] := List.length_eq_zero.mp hlength
  rw [hindents] at hlast
  simp only [List.getLast?_singleton, Option.some.injEq] at hlast
  exact ⟨hstate, hstates, hindents, hlast, hflow, hempty⟩

/-- C34: from the DOCUMENT-CONTENT state with empty stacks of states and of
indents, indent `-1` and flow level zero, the events of one complete node
(the queued events followed by the events emitted later; anchors and tags
absent or valid, scalar values and tag directives in UTF-8, every scalar with
a tag or an implicit flag) are all emitted without a failure, and the emitter
ends in the DOCUMENT-END state with both stacks empty, indent `-1`, flow level
zero and an empty queue. -/
theorem complete_node_emitted (emitter : yaml_emitter_t) (later : List yaml_event_t)
    (hstate : emitter.state = YAML_EMIT_DOCUMENT_CONTENT_STATE)
    (hstates : emitter.states = []) (hindents : emitter.indents = [])
    (hindent : emitter.indent = -1) (hflow : emitter.flow_level = 0)
    (hnode : is_complete_node ((emitter.events ++ later).map fun event => event.type) = true)
    (hevents : (emitter.events ++ later).all is_valid_node_event = true)
    (hdirectives : has_valid_tag_directives emitter.tag_directives = true) :
    ∃ result, emit_queued later emitter = some (true, result) ∧
      result.state = YAML_EMIT_DOCUMENT_END_STATE ∧ result.states = [] ∧
      result.indents = [] ∧ result.indent = -1 ∧ result.flow_level = 0 ∧
      result.events = [] := by
  have hinside : inside_node emitter later := by
    refine ⟨⟨?_, ?_, ?_, ?_⟩, List.all_eq_true.mp hevents, hdirectives⟩
    · rw [hstate, hstates]
      exact hnode
    · rw [hstate, hstates, hindents]
      rfl
    · rw [hindent, hindents]
      rfl
    · rw [hstate, hstates, hflow]
      rfl
  obtain ⟨emitted, hemitted, hinside2, hneed2⟩ := emit_loop_inside later
    emitter.events.length emitter (le_refl _) hinside
  obtain ⟨result, hresult, hfinal, hneed⟩ := emit_events_inside later emitted hinside2 hneed2
  refine ⟨result, ?_, inside_node_complete result hfinal hneed⟩
  simp only [emit_queued]
  rw [hemitted]
  exact hresult

/-- Witness of C34: after STREAM-START, DOCUMENT-START and MAPPING-START the
emitter is in the DOCUMENT-CONTENT state with the MAPPING-START event queued;
the two pairs of scalars and the MAPPING-END event complete the node, and the
emitter ends in the DOCUMENT-END state with empty stacks. -/
theorem complete_node_emitted_witness :
    ∃ emitter result,
      emit_events (block_mapping_stream.take 3) emitter_initial = some (true, emitter) ∧
      emitter.state = YAML_EMIT_DOCUMENT_CONTENT_STATE ∧
      emitter.events = [mapping_start_event YAML_BLOCK_MAPPING_STYLE] ∧
      emit_queued ((block_mapping_stream.drop 3).take 5) emitter = some (true, result) ∧
      result.state = YAML_EMIT_DOCUMENT_END_STATE ∧ result.states = [] ∧
      result.indents = [] ∧ result.indent = -1 ∧ result.flow_level = 0 ∧
      result.events = [] := by
  have hrun : (emit_events (block_mapping_stream.take 3) emitter_initial).map
      (fun result => (result.1, result.2.state, result.2.states, result.2.indents,
        result.2.indent, result.2.flow_level, result.2.events, result.2.tag_directives))
      = some (true, YAML_EMIT_DOCUMENT_CONTENT_STATE, [], [], -1, 0,
          [mapping_start_event YAML_BLOCK_MAPPING_STYLE],
          [{ handle := [0x21], prefix_ := [0x21] },
           { handle := [0x21, 0x21],
             prefix_ := [0x74, 0x61, 0x67, 0x3A, 0x79, 0x61, 0x6D, 0x6C, 0x2E, 0x6F, 0x72,
                         0x67, 0x2C, 0x32, 0x30, 0x30, 0x32, 0x3A] }]) := by
    rfl
  obtain ⟨⟨ok, emitter⟩, hemitter, hfields⟩ := Option.map_eq_some'.mp hrun
  simp only [Prod.mk.injEq] at hfields
  obtain ⟨hok, hstate, hstates, hindents, hindent, hflow, hqueue, htag_directives⟩ := hfields
  subst hok
  obtain ⟨result, hresult, hfinal⟩ := complete_node_emitted emitter
    ((block_mapping_stream.drop 3).take 5) hstate hstates hindents hindent hflow
    (by rw [hqueue]; decide) (by rw [hqueue]; decide) (by rw [htag_directives]; decide)
  exact ⟨emitter, result, hemitter, hstate, hqueue, hresult, hfinal⟩

end LibYaml
